import Mathlib

/-!
NURBS knot vectors and patches (`mesh/nurbs.cpp`).

A shallow embedding of the knot-vector and patch algorithms of `mesh/nurbs.cpp`.

* `double` is modelled by the exact rationals `ℚ`; `int` indices that can become
  negative in the source are `Int`, sizes and orders are `Nat`.
* `mfem::Vector` and the raw control-point buffer are `List ℚ`.  A read `v(i)` is
  `rd v i`, a write `v(i) = x` is `wr v i x`; both are total (a read outside the
  buffer yields `0`, a write outside the buffer is dropped).  Where a statement is
  about staying inside a buffer the checked variants `rdChk` / `wrChk` are used,
  which fail with `Fault.outOfBounds`.
* `mfem_error` is `Fault.fatal`; a loop that is not known to terminate is run
  with fuel and fails with `Fault.timeout` when the fuel is used up.
* `for` loops are `forLoop`, iterating the body over `lo, lo+1, ..., hi-1`.
-/

set_option linter.unusedTactic false
set_option linter.unusedVariables false

namespace mfem

/-! ## Basic machinery -/

/-- Ways in which a call can fail to produce a value. -/
inductive Fault where
  | fatal
  | outOfBounds
  | timeout
  deriving DecidableEq, Repr

/-- Iterate `body` over the indices `i, i+1, ..., i+n-1`. -/
def forCount {σ : Type} (body : σ → Nat → σ) : Nat → Nat → σ → σ
  | 0, _, s => s
  | n + 1, i, s => forCount body n (i + 1) (body s i)

/-- The loop `for (int i = lo; i < hi; i++) body`. -/
def forLoop {σ : Type} (lo hi : Nat) (body : σ → Nat → σ) (s : σ) : σ :=
  forCount body (hi - lo) lo s

/-- The loop `for (int i = lo; i < hi; i++) body` with signed bounds. -/
def forLoopInt {σ : Type} (lo hi : Int) (body : σ → Int → σ) (s : σ) : σ :=
  forCount (fun st n => body st (lo + (n : Int))) (hi - lo).toNat 0 s

/-- The loop `for (int j = hi; j >= lo; j--) body`. -/
def forDownInt {σ : Type} (hi lo : Int) (body : σ → Int → σ) (s : σ) : σ :=
  forCount (fun st n => body st (hi - (n : Int))) (hi - lo + 1).toNat 0 s

/-- Iterate a body that can fail over the indices `i, i+1, ..., i+n-1`. -/
def forCountM {σ : Type} (body : σ → Nat → Except Fault σ) : Nat → Nat → σ → Except Fault σ
  | 0, _, s => .ok s
  | n + 1, i, s =>
    match body s i with
    | .error e => .error e
    | .ok s1 => forCountM body n (i + 1) s1

/-- The loop `for (int i = lo; i < hi; i++) body` with a body that can fail. -/
def forLoopM {σ : Type} (lo hi : Nat) (body : σ → Nat → Except Fault σ) (s : σ) :
    Except Fault σ :=
  forCountM body (hi - lo) lo s

/-- Unchecked read `v(i)`. -/
def rd (v : List ℚ) (i : Int) : ℚ :=
  if 0 ≤ i then v.getD i.toNat 0 else 0

/-- Unchecked write `v(i) = x`. -/
def wr (v : List ℚ) (i : Int) (x : ℚ) : List ℚ :=
  if 0 ≤ i then v.set i.toNat x else v

/-- Bounds-checked read `v(i)`. -/
def rdChk (v : List ℚ) (i : Int) : Except Fault ℚ :=
  if 0 ≤ i ∧ i.toNat < v.length then .ok (v.getD i.toNat 0) else .error .outOfBounds

/-- Bounds-checked write `v(i) = x`. -/
def wrChk (v : List ℚ) (i : Int) (x : ℚ) : Except Fault (List ℚ) :=
  if 0 ≤ i ∧ i.toNat < v.length then .ok (v.set i.toNat x) else .error .outOfBounds

/-! ## KnotVector -/

/-- The class `KnotVector`: the knot array with its order, number of control
points and cached number of elements. -/
structure KnotVector where
  knot : List ℚ
  Order : Nat
  NumOfControlPoints : Nat
  NumOfElements : Nat
  deriving DecidableEq, Repr

namespace KnotVector

/-- The constant `KnotVector::MaxOrder`. -/
def MaxOrder : Nat := 10

/-- The constructor `KnotVector(int Order_, int NCP)`: all knots are `-1`. -/
def create (Order_ NCP : Nat) : KnotVector :=
  { knot := List.replicate (NCP + Order_ + 1) (-1)
    Order := Order_
    NumOfControlPoints := NCP
    NumOfElements := 0 }

def GetOrder (kv : KnotVector) : Nat := kv.Order

def GetNCP (kv : KnotVector) : Nat := kv.NumOfControlPoints

def GetNE (kv : KnotVector) : Nat := kv.NumOfElements

def Size (kv : KnotVector) : Nat := kv.knot.length

/-- The accessor `kv[i]` / `knot(i)`. -/
def get (kv : KnotVector) (i : Int) : ℚ := rd kv.knot i

/-- The assignment `kv[i] = x`. -/
def set (kv : KnotVector) (i : Int) (x : ℚ) : KnotVector :=
  { kv with knot := wr kv.knot i x }

/-- The data invariant of the class: there are `NCP + Order + 1` knots. -/
def SizeOk (kv : KnotVector) : Prop :=
  kv.knot.length = kv.NumOfControlPoints + kv.Order + 1

instance (kv : KnotVector) : Decidable kv.SizeOk := by
  unfold SizeOk; infer_instance

/-- The knots are non-decreasing. -/
def NonDecreasing (kv : KnotVector) : Prop :=
  kv.knot.Pairwise (· ≤ ·)

instance (kv : KnotVector) : Decidable kv.NonDecreasing := by
  unfold NonDecreasing; infer_instance

/-- The knot vector is clamped (open): the first `Order + 1` knots coincide and
the last `Order + 1` knots coincide. -/
def Clamped (kv : KnotVector) : Prop :=
  (∀ i : Nat, i ≤ kv.Order → kv.get i = kv.get 0) ∧
  (∀ i : Nat, i ≤ kv.Order →
    kv.get (kv.NumOfControlPoints + i : Nat) = kv.get (kv.NumOfControlPoints + kv.Order : Nat))

instance (kv : KnotVector) : Decidable kv.Clamped := by
  unfold Clamped; infer_instance

/-- `KnotVector::GetElements`: count the non-empty spans with index in
`[Order, NumOfControlPoints)`. -/
def GetElements (kv : KnotVector) : KnotVector :=
  { kv with
    NumOfElements :=
      forLoop kv.Order kv.NumOfControlPoints
        (fun ne i => if kv.get i ≠ kv.get (i + 1) then ne + 1 else ne) 0 }

/-- `KnotVector::DegreeElevate`. -/
def DegreeElevate (kv : KnotVector) (t : Int) : Except Fault KnotVector :=
  if t < 0 then .error .fatal
  else
    let nOrder : Nat := kv.Order + t.toNat
    let newkv := create nOrder (kv.GetNCP + t.toNat)
    let newkv := forLoop 0 (nOrder + 1) (fun nk i => nk.set i (kv.get 0)) newkv
    let newkv := forLoop (nOrder + 1) newkv.GetNCP
      (fun nk i => nk.set i (kv.get ((i : Int) - t))) newkv
    let newkv := forLoop 0 (nOrder + 1)
      (fun nk i => nk.set (newkv.GetNCP + i : Nat) (kv.get ((kv.knot.length : Int) - 1))) newkv
    .ok newkv.GetElements

/-- The three knot-filling loops of `DegreeElevate`, on the raw knot array. -/
def elevatedKnots (kv : KnotVector) (t : Nat) : List ℚ :=
  let nOrder := kv.Order + t
  let nNCP := kv.NumOfControlPoints + t
  let k0 := List.replicate (nNCP + nOrder + 1) (-1 : ℚ)
  let k1 := forCount (fun w i => wr w (i : Int) (kv.get 0)) (nOrder + 1) 0 k0
  let k2 := forCount (fun w i => wr w (i : Int) (kv.get ((i : Int) - (t : Int))))
    (nNCP - (nOrder + 1)) (nOrder + 1) k1
  forCount (fun w i => wr w ((nNCP + i : Nat) : Int) (kv.get ((kv.knot.length : Int) - 1)))
    (nOrder + 1) 0 k2

/-- `KnotVector::UniformRefinement`.  `newknots.SetSize(NumOfElements)` gives the
output its size; the writes `newknots(j) = ...` are bounds-checked.  The state of the
loop is the output vector and the write position `j`. -/
def UniformRefinement (kv : KnotVector) : Except Fault (List ℚ) :=
  let newknots : List ℚ := List.replicate kv.NumOfElements 0
  match forLoopM 0 (kv.knot.length - 1)
      (fun (st : List ℚ × Int) i =>
        if kv.get i ≠ kv.get (i + 1) then
          match wrChk st.1 st.2 ((1 / 2) * (kv.get i + kv.get (i + 1))) with
          | .error e => .error e
          | .ok w => .ok (w, st.2 + 1)
        else .ok st)
      (newknots, 0) with
  | .error e => .error e
  | .ok st => .ok st.1

/-- The midpoints `(knot(i) + knot(i+1)) / 2` of the spans `i = s, ..., s+n-1` with
`knot(i) ≠ knot(i+1)`, listed by increasing `i`. -/
def spanMidpoints (kv : KnotVector) (s n : Nat) : List ℚ :=
  ((List.range' s n).filter (fun (i : Nat) => decide (kv.get i ≠ kv.get (i + 1)))).map
    (fun (i : Nat) => (kv.get i + kv.get (i + 1)) / 2)

/-- The `while` loop of `KnotVector::findKnotSpan`, run for at most `fuel` further
iterations. -/
def findKnotSpanLoop (kv : KnotVector) (u : ℚ) : Nat → Int → Int → Int → Except Fault Int
  | 0, _, _, mid =>
    if u < kv.get (mid - 1) ∨ u > kv.get mid then .error .timeout else .ok mid
  | fuel + 1, low, high, mid =>
    if u < kv.get (mid - 1) ∨ u > kv.get mid then
      if u < kv.get (mid - 1) then
        findKnotSpanLoop kv u fuel low mid (Int.tdiv (low + mid) 2)
      else
        findKnotSpanLoop kv u fuel mid high (Int.tdiv (mid + high) 2)
    else .ok mid

/-- `KnotVector::findKnotSpan`, with a bound `fuel` on the number of iterations of
its loop. -/
def findKnotSpan (fuel : Nat) (kv : KnotVector) (u : ℚ) : Except Fault Int :=
  if u = kv.get (kv.NumOfControlPoints + kv.Order : Nat) then .ok kv.NumOfControlPoints
  else
    let low : Int := kv.Order
    let high : Int := kv.NumOfControlPoints + 1
    findKnotSpanLoop kv u fuel low high (Int.tdiv (low + high) 2)

/-- The constant `std::numeric_limits<double>::epsilon()`, `2^-52`. -/
def epsilon : ℚ := 1 / 2 ^ 52

/-- The loop of `KnotVector::Difference` once `diff` has been sized: `self` is the
shorter knot vector (`*this`), `kv` the longer one.  Reads of `self` and writes of
`diff` are bounds-checked.  The state is `(diff, s, i)`. -/
def DifferenceLoop (self kv : KnotVector) : Except Fault (List ℚ) :=
  let diff : List ℚ := List.replicate (kv.Size - self.Size) 0
  match forLoopM 0 kv.Size
      (fun (st : List ℚ × Int × Int) j =>
        match rdChk self.knot st.2.2 with
        | .error e => .error e
        | .ok x =>
          if |x - kv.get j| < 2 * epsilon then .ok (st.1, st.2.1, st.2.2 + 1)
          else
            match wrChk st.1 st.2.1 (kv.get j) with
            | .error e => .error e
            | .ok w => .ok (w, st.2.1 + 1, st.2.2))
      (diff, 0, 0) with
  | .error e => .error e
  | .ok st => .ok st.1

/-- `KnotVector::Difference`: `self.Difference(kv, diff)` returns `diff`.  When `kv` is
the shorter one the source calls `kv.Difference(*this, diff)`, which passes the order
test again and runs the loop with the roles exchanged. -/
def Difference (self kv : KnotVector) : Except Fault (List ℚ) :=
  if self.Order ≠ kv.GetOrder then .error .fatal
  else if (kv.Size : Int) - (self.Size : Int) < 0 then DifferenceLoop kv self
  else DifferenceLoop self kv

/-- Modelled from the spec: `KnotVector::getKnotLocation(xi, ni)` is declared in the
header `nurbs.hpp`, which is not among the sources; it maps the local coordinate
`xi ∈ [0,1]` of the span `[knot(ni), knot(ni+1)]` to the parameter
`xi*knot(ni+1) + (1-xi)*knot(ni)`. -/
def getKnotLocation (kv : KnotVector) (xi : ℚ) (ni : Int) : ℚ :=
  xi * kv.get (ni + 1) + (1 - xi) * kv.get ni

/-- The state of the outer loop of `CalcShape`: the output vector and the scratch arrays
`left` and `right`. -/
structure ShapeState where
  shape : List ℚ
  left : List ℚ
  right : List ℚ

/-- The body of the inner loop `for (r = 0; r < j; ++r)` of `CalcShape`, on the pair
`(shape, saved)`. -/
def shapeInner (left right : List ℚ) (j : Nat) (st : List ℚ × ℚ) (r : Nat) : List ℚ × ℚ :=
  let tmp := rd st.1 r / (rd right ((r : Int) + 1) + rd left ((j : Int) - (r : Int)))
  (wr st.1 r (st.2 + rd right ((r : Int) + 1) * tmp), rd left ((j : Int) - (r : Int)) * tmp)

/-- The body of the outer loop `for (j = 1; j <= p; ++j)` of `CalcShape`. -/
def shapeOuter (kv : KnotVector) (ip : Int) (u : ℚ) (st : ShapeState) (j : Nat) : ShapeState :=
  let left := wr st.left j (u - kv.get (ip + 1 - (j : Int)))
  let right := wr st.right j (kv.get (ip + (j : Int)) - u)
  let res := forLoop 0 j (shapeInner left right j) (st.shape, 0)
  { shape := wr res.1 j res.2, left := left, right := right }

/-- The computation of `KnotVector::CalcShape` with unchecked accesses; the scratch arrays
`left` and `right` have `MaxOrder + 1` entries (not initialised by the source, `0`
here). -/
def CalcShapeCore (kv : KnotVector) (shape : List ℚ) (i : Int) (xi : ℚ) : List ℚ :=
  let p : Int := kv.Order
  let ip : Int := if i ≥ 0 then i + p else -1 - i + p
  let u := kv.getKnotLocation (if i ≥ 0 then xi else 1 - xi) ip
  let st : ShapeState :=
    { shape := wr shape 0 1
      left := List.replicate (MaxOrder + 1) 0
      right := List.replicate (MaxOrder + 1) 0 }
  (forLoop 1 (kv.Order + 1) (shapeOuter kv ip u) st).shape

/-- `KnotVector::CalcShape(shape, i, xi)`, returning the vector `shape`.  `MFEM_ASSERT` is
compiled in debug builds only (`debug = true`).  The function indexes `left` and `right`
at `1, ..., Order` and `shape` at `0, ..., Order`; outside the debug check these accesses
are within bounds exactly when `Order ≤ MaxOrder` and `shape` has at least `Order + 1`
entries, otherwise the call fails with `Fault.outOfBounds`. -/
def CalcShape (debug : Bool) (kv : KnotVector) (shape : List ℚ) (i : Int) (xi : ℚ) :
    Except Fault (List ℚ) :=
  if debug = true ∧ ¬ kv.Order ≤ MaxOrder then .error .fatal
  else if ¬ kv.Order ≤ MaxOrder ∨ shape.length < kv.Order + 1 then .error .outOfBounds
  else .ok (CalcShapeCore kv shape i xi)

/-- The knot `knot(n)` for a natural index. -/
def nth (kv : KnotVector) (n : Nat) : ℚ := kv.get (n : Int)

/-- Order 1, three control points, knots `[0,0,1,2,2]`: two elements. -/
def exTwoElements : KnotVector :=
  { knot := [0, 0, 1, 2, 2], Order := 1, NumOfControlPoints := 3, NumOfElements := 2 }

/-- Order 1 with a single control point and three equal knots `[0,0,0]`. -/
def exConstant : KnotVector :=
  { knot := [0, 0, 0], Order := 1, NumOfControlPoints := 1, NumOfElements := 0 }

/-- Order 1, two control points, knots `[0,0,2,2]`: the one-element clamped knot vector
on `[0,2]`. -/
def exUnit : KnotVector :=
  { knot := [0, 0, 2, 2], Order := 1, NumOfControlPoints := 2, NumOfElements := 1 }

/-- Order 2, six control points, knots `[0,0,0,1,2,2,3,3,3]`. -/
def exQuadratic : KnotVector :=
  { knot := [0, 0, 0, 1, 2, 2, 3, 3, 3], Order := 2, NumOfControlPoints := 6,
    NumOfElements := 3 }

/-- Order 1, three control points, knots `[0,0,1,2,2]`: `exUnit` with the knot `1`
inserted. -/
def exUnitRefined : KnotVector :=
  { knot := [0, 0, 1, 2, 2], Order := 1, NumOfControlPoints := 3, NumOfElements := 2 }

/-- Order 1, four control points: the knots `[0,0,1,2,2]` of `exTwoElements` with the
extra knot `1 - 2^-53` just below the knot `1`. -/
def exNearKnot : KnotVector :=
  { knot := [0, 0, 1 - 1 / 2 ^ 53, 1, 2, 2], Order := 1, NumOfControlPoints := 4,
    NumOfElements := 3 }

/-- Order 1, two control points, knots `[0,1,2,3]`: not clamped. -/
def exUnclamped : KnotVector :=
  { knot := [0, 1, 2, 3], Order := 1, NumOfControlPoints := 2, NumOfElements := 1 }

/-- Order 1 with a single control point, knots `[0,1,2]`. -/
def exOneControlPoint : KnotVector :=
  { knot := [0, 1, 2], Order := 1, NumOfControlPoints := 1, NumOfElements := 0 }

end KnotVector

/-! ## NURBSPatch -/

/-- The class `NURBSPatch`: extents `ni, nj, nk` (`-1` when the direction is absent),
`Dim`, the control-point buffer `data`, the knot vectors `kv`, and the loop-direction
fields `nd, ls, sd`. -/
structure NURBSPatch where
  ni : Int
  nj : Int
  nk : Int
  Dim : Int
  data : List ℚ
  kv : List KnotVector
  nd : Int
  ls : Int
  sd : Int
  deriving DecidableEq, Repr

namespace NURBSPatch

/-- `NURBSPatch::init`, given the knot vectors already stored in `kv`.  The buffer it
allocates is not initialised by the source; it is filled with `0` here, and so is the
field `ls`, which `init` does not touch. -/
def init (kv : List KnotVector) (dim_ : Int) : Except Fault NURBSPatch :=
  match kv with
  | [k0] =>
    let ni : Int := k0.GetNCP
    .ok { ni := ni, nj := -1, nk := -1, Dim := dim_,
          data := List.replicate (ni * dim_).toNat 0, kv := kv, nd := -1, ls := 0, sd := -1 }
  | [k0, k1] =>
    let ni : Int := k0.GetNCP
    let nj : Int := k1.GetNCP
    .ok { ni := ni, nj := nj, nk := -1, Dim := dim_,
          data := List.replicate (ni * nj * dim_).toNat 0, kv := kv,
          nd := -1, ls := 0, sd := -1 }
  | [k0, k1, k2] =>
    let ni : Int := k0.GetNCP
    let nj : Int := k1.GetNCP
    let nk : Int := k2.GetNCP
    .ok { ni := ni, nj := nj, nk := nk, Dim := dim_,
          data := List.replicate (ni * nj * nk * dim_).toNat 0, kv := kv,
          nd := -1, ls := 0, sd := -1 }
  | _ => .error .fatal

/-- The extents `ni, nj, nk` are the ones `init` derives from the knot vectors (`-1` for
an absent direction), for a patch with one, two or three knot vectors. -/
def DimsOk (p : NURBSPatch) : Prop :=
  match p.kv with
  | [k0] => p.ni = k0.GetNCP ∧ p.nj = -1 ∧ p.nk = -1
  | [k0, k1] => p.ni = k0.GetNCP ∧ p.nj = k1.GetNCP ∧ p.nk = -1
  | [k0, k1, k2] => p.ni = k0.GetNCP ∧ p.nj = k1.GetNCP ∧ p.nk = k2.GetNCP
  | _ => False

/-- The knot vectors of `NURBSPatch(NURBSPatch *parent, int dir, int Order, int NCP)`:
copies of the parent's, except in direction `dir`. -/
def childKV (parent : NURBSPatch) (dir : Int) (Order NCP : Nat) : List KnotVector :=
  (List.range parent.kv.length).map
    (fun (i : Nat) => if (i : Int) ≠ dir then parent.kv.getD i (KnotVector.create 0 0)
              else KnotVector.create Order NCP)

/-- The constructor `NURBSPatch(NURBSPatch *parent, int dir, int Order, int NCP)`. -/
def child (parent : NURBSPatch) (dir : Int) (Order NCP : Nat) : Except Fault NURBSPatch :=
  init (childKV parent dir Order NCP) parent.Dim

/-- `NURBSPatch::SetLoopDirection`: the patch with `sd, nd, ls` set, and the returned
`ls`. -/
def SetLoopDirection (p : NURBSPatch) (dir : Int) : Except Fault (NURBSPatch × Int) :=
  if p.nj = -1 then
    if dir = 0 then
      .ok ({ p with sd := p.Dim, nd := p.ni, ls := p.Dim }, p.Dim)
    else .error .fatal
  else if p.nk = -1 then
    if dir = 0 then
      .ok ({ p with sd := p.Dim, nd := p.ni, ls := p.nj * p.Dim }, p.nj * p.Dim)
    else if dir = 1 then
      .ok ({ p with sd := p.ni * p.Dim, nd := p.nj, ls := p.ni * p.Dim }, p.ni * p.Dim)
    else .error .fatal
  else
    if dir = 0 then
      .ok ({ p with sd := p.Dim, nd := p.ni, ls := p.nj * p.nk * p.Dim }, p.nj * p.nk * p.Dim)
    else if dir = 1 then
      .ok ({ p with sd := p.ni * p.Dim, nd := p.nj, ls := p.ni * p.nk * p.Dim },
        p.ni * p.nk * p.Dim)
    else if dir = 2 then
      .ok ({ p with sd := p.ni * p.nj * p.Dim, nd := p.nk, ls := p.ni * p.nj * p.Dim },
        p.ni * p.nj * p.Dim)
    else .error .fatal

/-- Modelled from the spec: the inline accessor `NURBSPatch::slice(i, j)` is declared in
the header `nurbs.hpp`, which is not among the sources.  After `SetLoopDirection(dir)` it
addresses entry `j` of the `i`-th slice in the loop direction, with stride `sd` and
extent `nd`: the offset `j % sd + sd * (i + (j / sd) * nd)` in the buffer. -/
def slice (p : NURBSPatch) (i j : Int) : Int :=
  Int.tmod j p.sd + p.sd * (i + Int.tdiv j p.sd * p.nd)

/-- The state of the main loop of `KnotInsert`: the new knot vector, the new
control-point buffer and the running indices `i` and `k`. -/
structure InsertState where
  newkv : KnotVector
  newdata : List ℚ
  i : Int
  k : Int

/-- The loop `for (ll = 0; ll < size; ll++) dst.slice(kd,ll) = src.slice(ks,ll)` with
`dst` the new buffer; `slN` and `slS` give the offsets of `slice` in the two buffers. -/
def copySlice (slN slS : Int → Int → Int) (size : Int) (src : List ℚ) (kd ks : Int)
    (dst : List ℚ) : List ℚ :=
  forLoopInt 0 size (fun d ll => wr d (slN kd ll) (rd src (slS ks ll))) dst

/-- The loop `for (ll ...) newp.slice(kd,ll) = newp.slice(ks,ll)` inside one buffer. -/
def moveSlice (slN : Int → Int → Int) (size : Int) (kd ks : Int) (dst : List ℚ) : List ℚ :=
  forLoopInt 0 size (fun d ll => wr d (slN kd ll) (rd d (slN ks ll))) dst

/-- The loop `for (ll ...) newp.slice(ind-1,ll) = alfa*newp.slice(ind-1,ll) +
(1.0-alfa)*newp.slice(ind,ll)`. -/
def blendSlice (slN : Int → Int → Int) (size : Int) (ind : Int) (alfa : ℚ) (dst : List ℚ) :
    List ℚ :=
  forLoopInt 0 size
    (fun d ll => wr d (slN (ind - 1) ll)
      (alfa * rd d (slN (ind - 1) ll) + (1 - alfa) * rd d (slN ind ll))) dst

/-- The loop `while ((knot(j) <= oldkv[i]) && (i > a))` of `KnotInsert`.  Every
iteration decrements `i` and needs `i > a`, so the loop is run with the fuel
`(i - a).toNat`, which it cannot exhaust. -/
def insertShift (slN slO : Int → Int → Int) (size : Int) (oldkv : KnotVector)
    (olddata : List ℚ) (a pl : Int) (x : ℚ) : Nat → InsertState → InsertState
  | 0, st => st
  | fuel + 1, st =>
    if x ≤ oldkv.get st.i ∧ st.i > a then
      insertShift slN slO size oldkv olddata a pl x fuel
        { newkv := st.newkv.set st.k (oldkv.get st.i)
          newdata := copySlice slN slO size olddata (st.k - pl - 1) (st.i - pl - 1) st.newdata
          i := st.i - 1
          k := st.k - 1 }
    else st

/-- The body of the loop `for (l = 1; l <= pl; l++)` of `KnotInsert`. -/
def insertBlend (slN : Int → Int → Int) (size : Int) (oldkv newkv : KnotVector)
    (pl i k : Int) (x : ℚ) (d : List ℚ) (l : Int) : List ℚ :=
  let ind := k - pl + l
  let alfa := newkv.get (k + l) - x
  if |alfa| = 0 then moveSlice slN size (ind - 1) ind d
  else
    let alfa := alfa / (newkv.get (k + l) - oldkv.get (i - pl + l))
    blendSlice slN size ind alfa d

/-- The body of the loop `for (j = rr; j >= 0; j--)` of `KnotInsert`. -/
def insertStep (slN slO : Int → Int → Int) (size : Int) (oldkv : KnotVector)
    (olddata : List ℚ) (knot : List ℚ) (a pl : Int) (st : InsertState) (j : Int) :
    InsertState :=
  let st := insertShift slN slO size oldkv olddata a pl (rd knot j) (st.i - a).toNat st
  let d := moveSlice slN size (st.k - pl - 1) (st.k - pl) st.newdata
  let d := forLoopInt 1 (pl + 1)
    (fun d l => insertBlend slN size oldkv st.newkv pl st.i st.k (rd knot j) d l) d
  { newkv := st.newkv.set st.k (rd knot j), newdata := d, i := st.i, k := st.k - 1 }

/-- The part of `KnotInsert` after the two calls of `findKnotSpan`, up to the end of
the loop over the new knots: from the spans `a` and `b` it fills the new knot vector and
the new control-point buffer.  `slN` and `slO` give the offsets addressed by
`newp.slice` and `oldp.slice`. -/
def insertCore (slN slO : Int → Int → Int) (size : Int) (oldkv : KnotVector)
    (olddata newdata : List ℚ) (knot : List ℚ) (a b : Int) : InsertState :=
  let rr : Int := (knot.length : Int) - 1
  let pl : Int := oldkv.GetOrder
  let ml : Int := oldkv.GetNCP
  let newkv := KnotVector.create oldkv.GetOrder (oldkv.GetNCP + knot.length)
  let newkv := forLoopInt 0 (a + 1) (fun nk j => nk.set j (oldkv.get j)) newkv
  let newkv := forLoopInt (b + pl) (ml + pl + 1)
    (fun nk j => nk.set (j + rr + 1) (oldkv.get j)) newkv
  let d := forLoopInt 0 (a - pl + 1)
    (fun d k => copySlice slN slO size olddata k k d) newdata
  let d := forLoopInt (b - 1) ml
    (fun d k => copySlice slN slO size olddata (k + rr + 1) k d) d
  let st : InsertState := { newkv := newkv, newdata := d, i := b + pl - 1, k := b + pl + rr }
  forDownInt rr 0 (insertStep slN slO size oldkv olddata knot a pl) st

/-- The invariant of the merging loop of `KnotInsert`, for the old knots `U`, the new
knots `X`, the span `a` and the number `j0` of new knots still to be placed: the running
indices are `i` and `k = i + j0`, the new knot vector holds above position `k` the sorted
merge of the old knots above `i` and the new knots from `j0` on, and its first `a + 1`
entries are those of `U`. -/
def MergeInv (U X : List ℚ) (a j0 : Nat) (st : InsertState) : Prop :=
  ∃ i : Nat, st.i = (i : Int) ∧ st.k = ((i + j0 : Nat) : Int) ∧ a ≤ i ∧ i < U.length ∧
    j0 ≤ X.length ∧
    st.newkv.knot.length = U.length + X.length ∧
    (st.newkv.knot.drop (i + j0 + 1)).Pairwise (· ≤ ·) ∧
    (st.newkv.knot.drop (i + j0 + 1)).Perm (U.drop (i + 1) ++ X.drop j0) ∧
    st.newkv.knot.take (a + 1) = U.take (a + 1) ∧
    (0 < j0 → ∀ n : Nat, i < n → n < U.length → rd X ((j0 - 1 : Nat) : Int) ≤ rd U (n : Int)) ∧
    (a < i → j0 < X.length → rd U (i : Int) < rd X (j0 : Int))

/-- `NURBSPatch::KnotInsert(int dir, const Vector &knot)`.  The inline accessor
`slice(i,j)` is declared in the header, which is not among the sources, so the offset
it addresses is the parameter `slice` (a function of the patch, for its `sd` and `nd`,
and of `i`, `j`; `NURBSPatch.slice` is the intended one).  `fuel` bounds the two calls of `findKnotSpan`.  The result is the
patch after `swap(newpatch)`, which takes `data`, `kv`, `ni`, `nj`, `nk` and `Dim` from
the new patch. -/
def KnotInsert (slice : NURBSPatch → Int → Int → Int) (fuel : Nat) (p : NURBSPatch)
    (dir : Int) (knot : List ℚ) : Except Fault NURBSPatch :=
  if knot.length = 0 then .ok p
  else if dir ≥ p.kv.length ∨ dir < 0 then .error .fatal
  else
    match p.kv[dir.toNat]? with
    | none => .error .fatal
    | some oldkv =>
    match child p dir oldkv.GetOrder (oldkv.GetNCP + knot.length) with
    | .error e => .error e
    | .ok newp0 =>
    match SetLoopDirection p dir with
    | .error e => .error e
    | .ok (oldp, size) =>
    match SetLoopDirection newp0 dir with
    | .error e => .error e
    | .ok (newp, size1) =>
    if size ≠ size1 then .error .fatal
    else
      match KnotVector.findKnotSpan fuel oldkv (rd knot 0) with
      | .error e => .error e
      | .ok fa =>
      match KnotVector.findKnotSpan fuel oldkv (rd knot ((knot.length : Int) - 1)) with
      | .error e => .error e
      | .ok fb =>
        let st := insertCore (slice newp) (slice oldp) size oldkv oldp.data newp.data knot
          (fa - 1) (fb - 1)
        .ok { oldp with
              data := st.newdata
              kv := newp.kv.set dir.toNat st.newkv.GetElements
              ni := newp.ni, nj := newp.nj, nk := newp.nk, Dim := newp.Dim }

/-- `NURBSPatch::UniformRefinement`. -/
def UniformRefinement (slice : NURBSPatch → Int → Int → Int) (fuel : Nat) (p : NURBSPatch) :
    Except Fault NURBSPatch :=
  forLoopM 0 p.kv.length
    (fun q dir =>
      match q.kv[dir]? with
      | none => .error .outOfBounds
      | some k =>
        match k.UniformRefinement with
        | .error e => .error e
        | .ok newknots => KnotInsert slice fuel q dir newknots) p

/-- A curve with three control points `5, 6, 7` (one coordinate each) on the knots
`[0,2,4,6]` of order 0. -/
def exOrderZero : NURBSPatch :=
  { ni := 3, nj := -1, nk := -1, Dim := 1, data := [5, 6, 7],
    kv := [{ knot := [0, 2, 4, 6], Order := 0, NumOfControlPoints := 3, NumOfElements := 3 }],
    nd := -1, ls := 0, sd := -1 }

/-- A curve with two control points `5, 7` on the knots `[0,0,2]` of order 0: one
element. -/
def exOrderZeroRepeated : NURBSPatch :=
  { ni := 2, nj := -1, nk := -1, Dim := 1, data := [5, 7],
    kv := [{ knot := [0, 0, 2], Order := 0, NumOfControlPoints := 2, NumOfElements := 1 }],
    nd := -1, ls := 0, sd := -1 }

/-- A segment with control points `(0,1)` and `(4,1)` on the knots `[0,0,2,2]` of
order 1. -/
def exSegment : NURBSPatch :=
  { ni := 2, nj := -1, nk := -1, Dim := 2, data := [0, 1, 4, 1],
    kv := [KnotVector.exUnit], nd := -1, ls := 0, sd := -1 }

end NURBSPatch

/-! ## Degree elevation of a patch -/

/-- Unchecked read `a[i]` of an `Array<int>`. -/
def rdI (v : List Int) (i : Int) : Int :=
  if 0 ≤ i then v.getD i.toNat 0 else 0

/-- Unchecked write `a[i] = x` of an `Array<int>`. -/
def wrI (v : List Int) (i : Int) (x : Int) : List Int :=
  if 0 ≤ i then v.set i.toNat x else v

/-- The class `DenseMatrix` (declared in `linalg/densemat.hpp`, which is not among the
sources), as far as `nurbs.cpp` uses it: `DenseMatrix M(m, n)` is an `m` by `n` matrix of
zeros, stored by columns, and `M(i,j)` is its entry in row `i` and column `j`. -/
structure DenseMatrix where
  height : Int
  width : Int
  data : List ℚ

namespace DenseMatrix

/-- The constructor `DenseMatrix(m, n)`. -/
def create (m n : Int) : DenseMatrix :=
  { height := m, width := n, data := List.replicate (m * n).toNat 0 }

/-- The read `M(i,j)`. -/
def get (M : DenseMatrix) (i j : Int) : ℚ := rd M.data (i + j * M.height)

/-- The write `M(i,j) = x`. -/
def set (M : DenseMatrix) (i j : Int) (x : ℚ) : DenseMatrix :=
  { M with data := wr M.data (i + j * M.height) x }

end DenseMatrix

namespace NURBSPatch

/-- The table `binom` of `DegreeElevate`: an `Array2D<int>` with `ph + 1` rows and columns,
stored by rows, holding Pascal's triangle. -/
def elevBinom (ph : Int) : List Int :=
  forLoopInt 0 (ph + 1)
    (fun bn i =>
      let bn := wrI bn (i * (ph + 1) + i) 1
      let bn := wrI bn (i * (ph + 1) + 0) 1
      forLoopInt 1 i
        (fun bn j =>
          wrI bn (i * (ph + 1) + j)
            (rdI bn ((i - 1) * (ph + 1) + j) + rdI bn ((i - 1) * (ph + 1) + (j - 1)))) bn)
    (List.replicate ((ph + 1) * (ph + 1)).toNat 0)

/-- The matrix `bezalfs` of `DegreeElevate`: the coefficients of the degree elevation of a
Bezier segment from degree `p` to degree `p + t`. -/
def elevBezalfs (p t : Int) : DenseMatrix :=
  let ph := p + t
  let ph2 := Int.tdiv ph 2
  let binom := fun (i j : Int) => rdI (elevBinom ph) (i * (ph + 1) + j)
  let bz := DenseMatrix.create (p + t + 1) (p + 1)
  let bz := bz.set 0 0 1
  let bz := bz.set ph p 1
  let bz := forLoopInt 1 (ph2 + 1)
    (fun bz i =>
      let inv : ℚ := 1 / (binom ph i : ℚ)
      let mpi := min p i
      forLoopInt (max 0 (i - t)) (mpi + 1)
        (fun bz j => bz.set i j (inv * (binom p j : ℚ) * (binom t (i - j) : ℚ))) bz) bz
  forLoopInt (ph2 + 1) ph
    (fun bz i =>
      let mpi := min p i
      forLoopInt (max 0 (i - t)) (mpi + 1)
        (fun bz j => bz.set i j (bz.get (ph - i) (p - j))) bz) bz

/-- The state of the main loop `while (b < m)` of `DegreeElevate`. -/
structure ElevState where
  newkv : KnotVector
  newdata : List ℚ
  bpts : DenseMatrix
  ebpts : DenseMatrix
  nextbpts : DenseMatrix
  alphas : List ℚ
  mh : Int
  kind : Int
  r : Int
  a : Int
  b : Int
  cind : Int
  ua : ℚ

/-- The loop `while (b < m && oldkv[b] == oldkv[b+1]) b++`, run for at most `fuel`
iterations. -/
def elevAdvance (oldkv : KnotVector) (m : Int) : Nat → Int → Int
  | 0, b => b
  | fuel + 1, b =>
    if b < m ∧ oldkv.get b = oldkv.get (b + 1) then elevAdvance oldkv m fuel (b + 1) else b

/-- The loop `for (k = p; k > mul; k--) alphas[k-mul-1] = numer/(oldkv[a+k]-ua)`. -/
def elevAlphas (oldkv : KnotVector) (a p mul : Int) (ua numer : ℚ) (alphas : List ℚ) :
    List ℚ :=
  forDownInt p (mul + 1)
    (fun al k => wr al (k - mul - 1) (numer / (oldkv.get (a + k) - ua))) alphas

/-- The body of the loop `for (j = 1; j <= r; j++)` of `DegreeElevate` (knot insertion
into the current segment), on the pair `(bpts, nextbpts)`. -/
def elevExtract (size p mul r : Int) (alphas : List ℚ) (st : DenseMatrix × DenseMatrix)
    (j : Int) : DenseMatrix × DenseMatrix :=
  let save := r - j
  let s := mul + j
  let bpts := forDownInt p s
    (fun B k =>
      forLoopInt 0 size
        (fun B l =>
          B.set k l (rd alphas (k - s) * B.get k l + (1 - rd alphas (k - s)) * B.get (k - 1) l))
        B) st.1
  let nb := forLoopInt 0 size (fun N l => N.set save l (bpts.get p l)) st.2
  (bpts, nb)

/-- The body of the loop `for (i = lbz; i <= ph; i++)` of `DegreeElevate` (degree
elevation of the Bezier segment). -/
def elevBezier (size p t : Int) (bezalfs bpts : DenseMatrix) (E : DenseMatrix) (i : Int) :
    DenseMatrix :=
  let E := forLoopInt 0 size (fun E l => E.set i l 0) E
  let mpi := min p i
  forLoopInt (max 0 (i - t)) (mpi + 1)
    (fun E j =>
      forLoopInt 0 size (fun E l => E.set i l (E.get i l + bezalfs.get i j * bpts.get j l)) E)
    E

/-- The loop `while (j-i > tr)` of `DegreeElevate` (removal of the knot `ua`), on the
state `(newp data, ebpts, i, j, kj)`; every iteration lowers `j - i` by two, so the fuel
`(j - i).toNat` cannot be exhausted. -/
def elevRemove (slN : Int → Int → Int) (size : Int) (newkv : KnotVector) (ub ua den bet : ℚ)
    (kind ph oldr cind lbz tr : Int) :
    Nat → List ℚ × DenseMatrix × Int × Int × Int → List ℚ × DenseMatrix × Int × Int × Int
  | 0, st => st
  | fuel + 1, (nd, E, i, j, kj) =>
    if j - i > tr then
      let nd :=
        if i < cind then
          let alf := (ub - newkv.get i) / (ua - newkv.get i)
          forLoopInt 0 size
            (fun d l => wr d (slN i l) (alf * rd d (slN i l) - (1 - alf) * rd d (slN (i - 1) l)))
            nd
        else nd
      let E :=
        if j ≥ lbz then
          if j - tr ≤ kind - ph + oldr then
            let gam := (ub - newkv.get (j - tr)) / den
            forLoopInt 0 size
              (fun E l => E.set kj l (gam * E.get kj l + (1 - gam) * E.get (kj + 1) l)) E
          else
            forLoopInt 0 size
              (fun E l => E.set kj l (bet * E.get kj l + (1 - bet) * E.get (kj + 1) l)) E
        else E
      elevRemove slN size newkv ub ua den bet kind ph oldr cind lbz tr fuel
        (nd, E, i + 1, j - 1, kj - 1)
    else (nd, E, i, j, kj)

/-- One iteration of the loop `while (b < m)` of `DegreeElevate`. -/
def elevStep (slN slO : Int → Int → Int) (size : Int) (oldkv : KnotVector) (olddata : List ℚ)
    (bezalfs : DenseMatrix) (p t m : Int) (st : ElevState) : ElevState :=
  let ph := p + t
  let i := st.b
  let b := elevAdvance oldkv m (m - st.b).toNat st.b
  let mul := b - i + 1
  let mh := st.mh + mul + t
  let ub := oldkv.get b
  let oldr := st.r
  let r := p - mul
  let lbz := if oldr > 0 then Int.tdiv (oldr + 2) 2 else 1
  let rbz := if r > 0 then ph - Int.tdiv (r + 1) 2 else ph
  let alphas := if r > 0 then elevAlphas oldkv st.a p mul st.ua (ub - st.ua) st.alphas
    else st.alphas
  let bn := if r > 0 then
      forLoopInt 1 (r + 1) (elevExtract size p mul r alphas) (st.bpts, st.nextbpts)
    else (st.bpts, st.nextbpts)
  let bpts := bn.1
  let nextbpts := bn.2
  let ebpts := forLoopInt lbz (ph + 1) (elevBezier size p t bezalfs bpts) st.ebpts
  let rm :=
    if oldr > 1 then
      let den := ub - st.ua
      let bet := (ub - st.newkv.get (st.kind - 1)) / den
      forLoopInt 1 oldr
        (fun (s : List ℚ × DenseMatrix × Int × Int) tr =>
          let res := elevRemove slN size st.newkv ub st.ua den bet st.kind ph oldr st.cind lbz
            tr (s.2.2.2 - s.2.2.1).toNat (s.1, s.2.1, s.2.2.1, s.2.2.2, s.2.2.2 - st.kind + 1)
          (res.1, res.2.1, s.2.2.1 - 1, s.2.2.2 + 1))
        (st.newdata, ebpts, st.kind - 2, st.kind)
    else (st.newdata, ebpts, 0, 0)
  let newdata := rm.1
  let ebpts := rm.2.1
  let kk :=
    if st.a ≠ p then
      forLoopInt 0 (ph - oldr)
        (fun (s : KnotVector × Int) _ => (s.1.set s.2 st.ua, s.2 + 1)) (st.newkv, st.kind)
    else (st.newkv, st.kind)
  let newkv := kk.1
  let kind := kk.2
  let dc := forLoopInt lbz (rbz + 1)
    (fun (s : List ℚ × Int) j =>
      (forLoopInt 0 size (fun d l => wr d (slN s.2 l) (ebpts.get j l)) s.1, s.2 + 1))
    (newdata, st.cind)
  let newdata := dc.1
  let cind := dc.2
  if b < m then
    let bpts := forLoopInt 0 r
      (fun B j => forLoopInt 0 size (fun B l => B.set j l (nextbpts.get j l)) B) bpts
    let bpts := forLoopInt r (p + 1)
      (fun B j => forLoopInt 0 size (fun B l => B.set j l (rd olddata (slO (b - p + j) l))) B)
      bpts
    { newkv := newkv, newdata := newdata, bpts := bpts, ebpts := ebpts, nextbpts := nextbpts,
      alphas := alphas, mh := mh, kind := kind, r := r, a := b, b := b + 1, cind := cind,
      ua := ub }
  else
    let newkv := forLoopInt 0 (ph + 1) (fun nk i => nk.set (kind + i) ub) newkv
    { newkv := newkv, newdata := newdata, bpts := bpts, ebpts := ebpts, nextbpts := nextbpts,
      alphas := alphas, mh := mh, kind := kind, r := r, a := st.a, b := b, cind := cind,
      ua := st.ua }

/-- The loop `while (b < m)` of `DegreeElevate`, run for at most `fuel` iterations.  Every
iteration that does not end the loop raises `b`, so the fuel `(m - b).toNat` suffices. -/
def elevLoop (slN slO : Int → Int → Int) (size : Int) (oldkv : KnotVector) (olddata : List ℚ)
    (bezalfs : DenseMatrix) (p t m : Int) : Nat → ElevState → ElevState
  | 0, st => st
  | fuel + 1, st =>
    if st.b < m then
      elevLoop slN slO size oldkv olddata bezalfs p t m fuel
        (elevStep slN slO size oldkv olddata bezalfs p t m st)
    else st

/-- The part of `DegreeElevate(dir, t)` between the two calls of `SetLoopDirection` and the
final `newkv.GetElements()`. -/
def elevCore (slN slO : Int → Int → Int) (size : Int) (oldkv newkv : KnotVector)
    (olddata newdata : List ℚ) (t : Int) : ElevState :=
  let p : Int := oldkv.GetOrder
  let n : Int := (oldkv.GetNCP : Int) - 1
  let bezalfs := elevBezalfs p t
  let bpts := DenseMatrix.create (p + 1) size
  let ebpts := DenseMatrix.create (p + t + 1) size
  let nextbpts := DenseMatrix.create (p - 1) size
  let alphas : List ℚ := List.replicate (p - 1).toNat 0
  let m := n + p + 1
  let ph := p + t
  let ua := oldkv.get 0
  let newdata := forLoopInt 0 size (fun d l => wr d (slN 0 l) (rd olddata (slO 0 l))) newdata
  let newkv := forLoopInt 0 (ph + 1) (fun nk i => nk.set i ua) newkv
  let bpts := forLoopInt 0 (p + 1)
    (fun B i => forLoopInt 0 size (fun B l => B.set i l (rd olddata (slO i l))) B) bpts
  let st : ElevState :=
    { newkv := newkv, newdata := newdata, bpts := bpts, ebpts := ebpts, nextbpts := nextbpts,
      alphas := alphas, mh := ph, kind := ph + 1, r := -1, a := p, b := p + 1, cind := 1,
      ua := ua }
  elevLoop slN slO size oldkv olddata bezalfs p t m (m - (p + 1)).toNat st

/-- `NURBSPatch::DegreeElevate(int dir, int t)` for `t ≥ 0`.  The inline accessor
`slice(i,j)` is declared in the header, so the offset it addresses is the parameter
`slice`, as for `KnotInsert`.  The result is the patch after `swap(newpatch)`. -/
def DegreeElevate (slice : NURBSPatch → Int → Int → Int) (p : NURBSPatch) (dir : Int)
    (t : Nat) : Except Fault NURBSPatch :=
  if dir ≥ p.kv.length ∨ dir < 0 then .error .fatal
  else
    match p.kv[dir.toNat]? with
    | none => .error .fatal
    | some oldkv0 =>
    let oldkv := oldkv0.GetElements
    let p := { p with kv := p.kv.set dir.toNat oldkv }
    match child p dir (oldkv.GetOrder + t) (oldkv.GetNCP + oldkv.GetNE * t) with
    | .error e => .error e
    | .ok newp0 =>
    match SetLoopDirection p dir with
    | .error e => .error e
    | .ok (oldp, size) =>
    match SetLoopDirection newp0 dir with
    | .error e => .error e
    | .ok (newp, size1) =>
    if size ≠ size1 then .error .fatal
    else
      let st := elevCore (slice newp) (slice oldp) size oldkv
        (newp.kv.getD dir.toNat (KnotVector.create 0 0)) oldp.data newp.data t
      .ok { oldp with
            data := st.newdata
            kv := newp.kv.set dir.toNat st.newkv.GetElements
            ni := newp.ni, nj := newp.nj, nk := newp.nk, Dim := newp.Dim }

end NURBSPatch

namespace NURBSPatch

/-- Modelled from the spec: the inline accessor `operator()(i, l)` of a one-dimensional
patch is declared in the header `nurbs.hpp`, which is not among the sources.  The buffer
stores the `Dim` homogeneous components of control point `i` contiguously, so component
`l` of control point `i` is at offset `i*Dim + l`. -/
def at1 (p : NURBSPatch) (i l : Int) : Int := i * p.Dim + l

/-- Component `d` of the homogeneous point `Σ_r N_{i+r}(u) * P_{i+r}`, `r = 0..Order`, of
the curve of a one-dimensional patch at the local coordinate `xi` of the knot span `i`,
the basis values being the ones `CalcShape` computes for that span. -/
def curvePoint (p : NURBSPatch) (i : Nat) (xi : ℚ) (d : Nat) : ℚ :=
  let kv := p.kv.getD 0 (KnotVector.create 0 0)
  let shape := KnotVector.CalcShapeCore kv (List.replicate (kv.Order + 1) 0) (i : Int) xi
  forLoop 0 (kv.Order + 1)
    (fun (acc : ℚ) r => acc + rd shape (r : Int) * rd p.data (p.at1 ((i + r : Nat) : Int) d)) 0

/-- A cubic curve with five control points `1, 5, 2, 7, 3` of weight `1` (stored as
`(x*w, w)`) on the clamped knots `[0,0,0,0,1,2,2,2,2]`. -/
def exCubic : NURBSPatch :=
  { ni := 5, nj := -1, nk := -1, Dim := 2, data := [1, 1, 5, 1, 2, 1, 7, 1, 3, 1],
    kv := [{ knot := [0, 0, 0, 0, 1, 2, 2, 2, 2], Order := 3, NumOfControlPoints := 5,
             NumOfElements := 2 }],
    nd := -1, ls := 0, sd := -1 }

end NURBSPatch

/-! ## NURBSExtension -/

/-- The answers of the patch-topology mesh `patchTopo` (class `Mesh`, which is not part of
`nurbs.cpp`) to the queries made by the functions below: `Dimension()`, `GetNV()`,
`GetNEdges()`, `GetNFaces()`, `GetNE()`, and per face, element (patch) and boundary
element the index arrays returned by `GetFaceEdges`, `GetElementVertices`,
`GetElementEdges`, `GetElementFaces`, `GetBdrElementVertices`, `GetBdrElementEdges`,
`GetBdrElementFace` (with their orientations) and `GetBdrAttribute`, and for every edge the
index array returned by `GetEdgeVertices`. -/
structure PatchTopo where
  Dim : Int
  NV : Nat
  NEdges : Nat
  NFaces : Nat
  NE : Nat
  faceEdges : List (List Int) := []
  elementVertices : List (List Int) := []
  elementEdges : List (List Int) := []
  elementEdgeOrient : List (List Int) := []
  elementFaces : List (List Int) := []
  elementFaceOrient : List (List Int) := []
  bdrVertices : List (List Int) := []
  bdrEdges : List (List Int) := []
  bdrEdgeOrient : List (List Int) := []
  bdrFace : List Int := []
  bdrFaceOrient : List Int := []
  bdrAttribute : List Int := []
  edgeVertices : List (List Int) := []

/-- Entry `i` of an array of index arrays (empty outside the array). -/
def rdL (xs : List (List Int)) (i : Int) : List Int :=
  if 0 ≤ i then xs.getD i.toNat [] else []

/-- The class `Table` (declared in `general/table.hpp`, which is not among the sources),
as far as `nurbs.cpp` uses it: the rows of a connectivity table. -/
structure Table where
  rows : List (List Int)

/-- The fields of the class `NURBSExtension` used by the functions below. -/
structure NURBSExtension where
  patchTopo : PatchTopo
  edge_to_knot : List Int := []
  knotVectors : List KnotVector := []
  knotVectorsCompr : List KnotVector := []
  v_meshOffsets : List Int := []
  e_meshOffsets : List Int := []
  f_meshOffsets : List Int := []
  p_meshOffsets : List Int := []
  v_spaceOffsets : List Int := []
  e_spaceOffsets : List Int := []
  f_spaceOffsets : List Int := []
  p_spaceOffsets : List Int := []
  NumOfVertices : Int := 0
  NumOfDofs : Int := 0
  NumOfElements : Int := 0
  NumOfActiveElems : Int := 0
  NumOfActiveDofs : Int := 0
  activeElem : List Bool := []
  activeDof : List Int := []
  master : List Int := []
  slave : List Int := []
  d_to_d : List Int := []
  weights : List ℚ := []
  patches : List NURBSPatch := []
  el_dof : Table := { rows := [] }
  el_to_patch : List Int := []
  el_to_IJK : List Int := []
  patch_to_el : List (List Int) := []
  NumOfBdrElements : Int := 0
  NumOfActiveBdrElems : Int := 0
  activeBdrElem : List Bool := []
  own_topo : Bool := true
  NumOfActiveVertices : Int := 0
  activeVert : List Int := []

namespace NURBSExtension

/-- Modelled from the spec: the inline accessor `Dimension()` is declared in the header
`nurbs.hpp`, which is not among the sources; it is the dimension of the patch topology. -/
def Dimension (ext : NURBSExtension) : Int := ext.patchTopo.Dim

/-- Modelled from the spec: the inline accessor `GetNP()` is declared in the header; the
patches are the elements of the patch topology. -/
def GetNP (ext : NURBSExtension) : Nat := ext.patchTopo.NE

/-- Modelled from the spec: the inline function `KnotInd(edge)` is declared in the header.
`edge_to_knot` maps each topology edge to an index into the unique knot vector array; a
negative entry `-1-k` stands for the knot vector `k` traversed in the opposite direction
(as in `CheckPatches`). -/
def KnotInd (ext : NURBSExtension) (edge : Int) : Int :=
  let kv := rdI ext.edge_to_knot edge
  if kv ≥ 0 then kv else -1 - kv

/-- Modelled from the spec: the inline function `KnotVec(edge)` is declared in the header;
it is the unique knot vector `knotVectors[KnotInd(edge)]` of the edge. -/
def KnotVec (ext : NURBSExtension) (edge : Int) : KnotVector :=
  ext.knotVectors.getD (ext.KnotInd edge).toNat (KnotVector.create 0 0)

/-- The state of the edge, face and patch loops of `GenerateOffsets`: the two offset arrays
being filled and the two counters. -/
structure OffsetState where
  mesh : List Int
  space : List Int
  meshCounter : Int
  spaceCounter : Int

/-- The common body of the edge, face and patch loops of `GenerateOffsets`: entity `i` gets
the current counters as its offsets, and the counters advance by the numbers `lenMesh i`
and `lenSpace i` of the entity. -/
def offsetsBody (lenMesh lenSpace : Nat → Int) (st : OffsetState) (i : Nat) : OffsetState :=
  { mesh := wrI st.mesh i st.meshCounter
    space := wrI st.space i st.spaceCounter
    meshCounter := st.meshCounter + lenMesh i
    spaceCounter := st.spaceCounter + lenSpace i }

/-- The increment of `meshCounter` for edge `e`: `KnotVec(e)->GetNE() - 1`. -/
def edgeMesh (ext : NURBSExtension) (e : Nat) : Int := ((ext.KnotVec e).GetNE : Int) - 1

/-- The increment of `spaceCounter` for edge `e`: `KnotVec(e)->GetNCP() - 2`. -/
def edgeSpace (ext : NURBSExtension) (e : Nat) : Int := ((ext.KnotVec e).GetNCP : Int) - 2

/-- The increment of `meshCounter` for face `f`. -/
def faceMesh (ext : NURBSExtension) (f : Nat) : Int :=
  let edges := rdL ext.patchTopo.faceEdges f
  (((ext.KnotVec (rdI edges 0)).GetNE : Int) - 1) *
  (((ext.KnotVec (rdI edges 1)).GetNE : Int) - 1)

/-- The increment of `spaceCounter` for face `f`. -/
def faceSpace (ext : NURBSExtension) (f : Nat) : Int :=
  let edges := rdL ext.patchTopo.faceEdges f
  (((ext.KnotVec (rdI edges 0)).GetNCP : Int) - 2) *
  (((ext.KnotVec (rdI edges 1)).GetNCP : Int) - 2)

/-- The increment of `meshCounter` for patch `p`. -/
def patchMesh (ext : NURBSExtension) (p : Nat) : Int :=
  if ext.Dimension = 1 then ((ext.KnotVec 0).GetNE : Int) - 1
  else if ext.Dimension = 2 then
    let edges := rdL ext.patchTopo.elementEdges p
    (((ext.KnotVec (rdI edges 0)).GetNE : Int) - 1) *
    (((ext.KnotVec (rdI edges 1)).GetNE : Int) - 1)
  else
    let edges := rdL ext.patchTopo.elementEdges p
    (((ext.KnotVec (rdI edges 0)).GetNE : Int) - 1) *
    (((ext.KnotVec (rdI edges 3)).GetNE : Int) - 1) *
    (((ext.KnotVec (rdI edges 8)).GetNE : Int) - 1)

/-- The increment of `spaceCounter` for patch `p`. -/
def patchSpace (ext : NURBSExtension) (p : Nat) : Int :=
  if ext.Dimension = 1 then ((ext.KnotVec 0).GetNCP : Int) - 2
  else if ext.Dimension = 2 then
    let edges := rdL ext.patchTopo.elementEdges p
    (((ext.KnotVec (rdI edges 0)).GetNCP : Int) - 2) *
    (((ext.KnotVec (rdI edges 1)).GetNCP : Int) - 2)
  else
    let edges := rdL ext.patchTopo.elementEdges p
    (((ext.KnotVec (rdI edges 0)).GetNCP : Int) - 2) *
    (((ext.KnotVec (rdI edges 3)).GetNCP : Int) - 2) *
    (((ext.KnotVec (rdI edges 8)).GetNCP : Int) - 2)

/-- `NURBSExtension::GenerateOffsets`.  The eight offset arrays get their sizes from
`SetSize` and every entry is written by the loops. -/
def GenerateOffsets (ext : NURBSExtension) : NURBSExtension :=
  let nv := ext.patchTopo.NV
  let ne := ext.patchTopo.NEdges
  let nf := ext.patchTopo.NFaces
  let np := ext.patchTopo.NE
  let vs := forLoop 0 nv
    (fun (s : List Int × List Int) meshCounter =>
      (wrI s.1 meshCounter meshCounter, wrI s.2 meshCounter meshCounter))
    (List.replicate nv 0, List.replicate nv 0)
  let meshCounter : Int := nv
  let spaceCounter : Int := meshCounter
  let es := forLoop 0 ne (offsetsBody ext.edgeMesh ext.edgeSpace)
    { mesh := List.replicate ne 0, space := List.replicate ne 0,
      meshCounter := meshCounter, spaceCounter := spaceCounter }
  let fs := forLoop 0 nf (offsetsBody ext.faceMesh ext.faceSpace)
    { mesh := List.replicate nf 0, space := List.replicate nf 0,
      meshCounter := es.meshCounter, spaceCounter := es.spaceCounter }
  let ps := forLoop 0 np (offsetsBody ext.patchMesh ext.patchSpace)
    { mesh := List.replicate np 0, space := List.replicate np 0,
      meshCounter := fs.meshCounter, spaceCounter := fs.spaceCounter }
  { ext with
    v_meshOffsets := vs.1, e_meshOffsets := es.mesh, f_meshOffsets := fs.mesh,
    p_meshOffsets := ps.mesh,
    v_spaceOffsets := vs.2, e_spaceOffsets := es.space, f_spaceOffsets := fs.space,
    p_spaceOffsets := ps.space,
    NumOfVertices := ps.meshCounter, NumOfDofs := ps.spaceCounter }

/-- The comprehensive knot vector `knotVectorsCompr[i]`. -/
def comprKV (ext : NURBSExtension) (i : Int) : KnotVector :=
  if 0 ≤ i then ext.knotVectorsCompr.getD i.toNat (KnotVector.create 0 0)
  else KnotVector.create 0 0

/-- `NURBSExtension::GetPatchKnotVectors(p, kv)`: the entries of `kv` it sets. -/
def GetPatchKnotVectors (ext : NURBSExtension) (p : Int) : List KnotVector :=
  if ext.Dimension = 1 then [ext.comprKV (ext.Dimension * p)]
  else if ext.Dimension = 2 then
    [ext.comprKV (ext.Dimension * p), ext.comprKV (ext.Dimension * p + 1)]
  else
    [ext.comprKV (ext.Dimension * p), ext.comprKV (ext.Dimension * p + 1),
     ext.comprKV (ext.Dimension * p + 2)]

/-- Entry `d` of an array of knot vectors. -/
def kvAt (kv : List KnotVector) (d : Int) : KnotVector :=
  if 0 ≤ d then kv.getD d.toNat (KnotVector.create 0 0) else KnotVector.create 0 0

/-- The number of elements of patch `p` computed by `CountElements`: the product of
`kv[d]->GetNE()` over the directions `d` of the patch. -/
def patchElements (ext : NURBSExtension) (p : Nat) : Int :=
  let kv := ext.GetPatchKnotVectors p
  forLoopInt 1 ext.Dimension (fun (ne : Int) d => ne * ((kvAt kv d).GetNE : Int))
    ((kvAt kv 0).GetNE : Int)

/-- `NURBSExtension::CountElements`. -/
def CountElements (ext : NURBSExtension) : NURBSExtension :=
  { ext with
    NumOfElements := forLoop 0 ext.GetNP (fun (tot : Int) p => tot + ext.patchElements p) 0 }

/-- A knot vector of order 1 with one element, `[0,0,1,1]`. -/
def exKVOne : KnotVector :=
  { knot := [0, 0, 1, 1], Order := 1, NumOfControlPoints := 2, NumOfElements := 1 }

/-- A knot vector of order 1 with three elements, `[0,0,1,2,3,3]`. -/
def exKVThree : KnotVector :=
  { knot := [0, 0, 1, 2, 3, 3], Order := 1, NumOfControlPoints := 4, NumOfElements := 3 }

/-- A knot vector of order 1 with four control points and a repeated interior knot,
`[0,0,1,1,2,2]`: two elements. -/
def exKVRepeated : KnotVector :=
  { knot := [0, 0, 1, 1, 2, 2], Order := 1, NumOfControlPoints := 4, NumOfElements := 2 }

/-- The topology of a single quadrilateral patch: four vertices, four edges (the bottom and
top edges `0, 2` in the first direction, the right and left edges `1, 3` in the second),
no faces. -/
def exSquareTopo : PatchTopo :=
  { Dim := 2, NV := 4, NEdges := 4, NFaces := 0, NE := 1,
    elementVertices := [[0, 1, 2, 3]], elementEdges := [[0, 1, 2, 3]],
    elementEdgeOrient := [[1, 1, -1, -1]] }

/-- A single quadrilateral patch with the one-element knot vector `[0,0,1,1]` in both
directions. -/
def exSquareOne : NURBSExtension :=
  { patchTopo := exSquareTopo, edge_to_knot := [0, 1, -1, -2],
    knotVectors := [exKVOne, exKVOne], knotVectorsCompr := [exKVOne, exKVOne] }

/-- A single quadrilateral patch with the knot vector `[0,0,1,2,3,3]` (order 1, four
control points, three elements) in both directions. -/
def exSquareThree : NURBSExtension :=
  { patchTopo := exSquareTopo, edge_to_knot := [0, 1, -1, -2],
    knotVectors := [exKVThree, exKVThree], knotVectorsCompr := [exKVThree, exKVThree] }

/-- A single quadrilateral patch with the knot vector `[0,0,1,1,2,2]` (order 1, four
control points, two elements) in both directions. -/
def exSquareRepeated : NURBSExtension :=
  { patchTopo := exSquareTopo, edge_to_knot := [0, 1, -1, -2],
    knotVectors := [exKVRepeated, exKVRepeated],
    knotVectorsCompr := [exKVRepeated, exKVRepeated] }

/-- Two segments joined end to end at a shared vertex: a one-dimensional topology with three
vertices and two patches (a one-dimensional mesh has no edges or faces of its own).  Patch
`0` has the knot vector `[0,0,1,1]` (one element, two control points) and patch `1` the
knot vector `[0,0,1,2,3,3]` (three elements, four control points). -/
def exTwoSegments : NURBSExtension :=
  { patchTopo := { Dim := 1, NV := 3, NEdges := 0, NFaces := 0, NE := 2,
                   elementVertices := [[0, 1], [1, 2]] },
    edge_to_knot := [0, 1],
    knotVectors := [exKVOne, exKVThree], knotVectorsCompr := [exKVOne, exKVThree] }

end NURBSExtension

namespace NURBSExtension

/-- Every entry of `edge_to_knot` refers to a knot vector of the extension, and every knot
vector has at least one element and at least two control points. -/
def KnotVectorsOk (ext : NURBSExtension) : Prop :=
  ext.knotVectors ≠ [] ∧
  (∀ k ∈ ext.edge_to_knot, ((if k ≥ 0 then k else -1 - k) : Int).toNat < ext.knotVectors.length) ∧
  ∀ kv ∈ ext.knotVectors, 1 ≤ kv.GetNE ∧ 2 ≤ kv.GetNCP

instance (ext : NURBSExtension) : Decidable ext.KnotVectorsOk := by
  unfold KnotVectorsOk; infer_instance

/-- A knot vector of order 0 with a single control point and one element, `[0,1]`. -/
def exKVPoint : KnotVector :=
  { knot := [0, 1], Order := 0, NumOfControlPoints := 1, NumOfElements := 1 }

/-- A single quadrilateral patch with the knot vector `[0,1]` (order 0, one control point)
in both directions. -/
def exSquarePoint : NURBSExtension :=
  { patchTopo := exSquareTopo, edge_to_knot := [0, 1, -1, -2],
    knotVectors := [exKVPoint, exKVPoint], knotVectorsCompr := [exKVPoint, exKVPoint] }

end NURBSExtension

/-! ## NURBSPatchMap and periodic boundaries -/

/-- Bounds-checked read `a[i]` of an `Array<int>`. -/
def rdIChk (v : List Int) (i : Int) : Except Fault Int :=
  if 0 ≤ i ∧ i.toNat < v.length then .ok (v.getD i.toNat 0) else .error .outOfBounds

/-- Bounds-checked write `a[i] = x` of an `Array<int>`. -/
def wrIChk (v : List Int) (i : Int) (x : Int) : Except Fault (List Int) :=
  if 0 ≤ i ∧ i.toNat < v.length then .ok (v.set i.toNat x) else .error .outOfBounds

/-- The loop `for (int i = lo; i < hi; i++) body` with signed bounds and a body that can
fail. -/
def forLoopIntM {σ : Type} (lo hi : Int) (body : σ → Int → Except Fault σ) (s : σ) :
    Except Fault σ :=
  forCountM (fun st n => body st (lo + (n : Int))) (hi - lo).toNat 0 s

namespace KnotVector

/-- Modelled from the spec: the inline function `GetNKS()` is declared in the header
`nurbs.hpp`, which is not among the sources; it is the number `NCP - Order` of knot spans
in the interior `[Order, NCP)`, the range over which `GetElements` counts. -/
def GetNKS (kv : KnotVector) : Int := (kv.NumOfControlPoints : Int) - (kv.Order : Int)

/-- Modelled from the spec: the inline function `isElement(i)` is declared in the header;
knot span `i` of the interior is an element when it is not empty, the test
`knot(Order+i) != knot(Order+i+1)` of `GetElements`. -/
def isElement (kv : KnotVector) (i : Int) : Bool :=
  decide (kv.get ((kv.Order : Int) + i) ≠ kv.get ((kv.Order : Int) + i + 1))

end KnotVector

/-- The fields of the class `NURBSPatchMap`. -/
structure NURBSPatchMap where
  I : Int := 0
  J : Int := 0
  K : Int := 0
  pOffset : Int := 0
  opatch : Int := 0
  verts : List Int := []
  edges : List Int := []
  faces : List Int := []
  oedge : List Int := []
  oface : List Int := []

/-- The inline index operators `operator()(i)`, `operator()(i,j)` and `operator()(i,j,k)`
of `NURBSPatchMap`, which give the global index of a local tensor position from the fields
of the map.  They are declared in the header `nurbs.hpp`, which is not among the sources,
and are parameters of the functions that use them. -/
structure PatchMapOps where
  at1 : NURBSPatchMap → Int → Int
  at2 : NURBSPatchMap → Int → Int → Int
  at3 : NURBSPatchMap → Int → Int → Int → Int

namespace NURBSPatchMap

/-- Modelled from the spec: the inline accessor `nx()` is declared in the header; the map
spans the positions `0, ..., I + 1` of its first direction (`I` interior positions between
two end positions), and `nx()` is the last of them. -/
def nx (m : NURBSPatchMap) : Int := m.I + 1

/-- Modelled from the spec: the inline accessor `ny()` is declared in the header; as
`nx()`, for the second direction. -/
def ny (m : NURBSPatchMap) : Int := m.J + 1

end NURBSPatchMap

namespace NURBSExtension

/-- Modelled from the spec: the inline accessor `GetNBP()` is declared in the header; the
boundary patches are the boundary elements of the patch topology. -/
def GetNBP (ext : NURBSExtension) : Nat := ext.patchTopo.bdrAttribute.length

/-- Modelled from the spec: the inline function `KnotVec(edge, oedge, okv)` is declared in
the header.  It gives the unique knot vector of the edge and, in `okv`, the orientation of
the knot vector relative to the boundary patch: `oedge`, reversed when the entry of
`edge_to_knot` is negative. -/
def KnotVecOriented (ext : NURBSExtension) (edge oedge : Int) : KnotVector × Int :=
  let kv := rdI ext.edge_to_knot edge
  if kv ≥ 0 then (ext.knotVectors.getD kv.toNat (KnotVector.create 0 0), oedge)
  else (ext.knotVectors.getD (-1 - kv).toNat (KnotVector.create 0 0), -oedge)

/-- `NURBSPatchMap::GetPatchKnotVectors(p, kv)`: the map after the call and the entries of
`kv` it sets. -/
def mapGetPatchKnotVectors (ext : NURBSExtension) (m : NURBSPatchMap) (p : Int) :
    NURBSPatchMap × List KnotVector :=
  let m := { m with verts := rdL ext.patchTopo.elementVertices p }
  if ext.Dimension = 1 then
    ({ m with opatch := 0 }, [ext.comprKV (ext.Dimension * p)])
  else if ext.Dimension = 2 then
    ({ m with edges := rdL ext.patchTopo.elementEdges p
              oedge := rdL ext.patchTopo.elementEdgeOrient p
              opatch := 0 },
     [ext.comprKV (ext.Dimension * p), ext.comprKV (ext.Dimension * p + 1)])
  else if ext.Dimension = 3 then
    ({ m with edges := rdL ext.patchTopo.elementEdges p
              oedge := rdL ext.patchTopo.elementEdgeOrient p
              faces := rdL ext.patchTopo.elementFaces p
              oface := rdL ext.patchTopo.elementFaceOrient p
              opatch := 0 },
     [ext.comprKV (ext.Dimension * p), ext.comprKV (ext.Dimension * p + 1),
      ext.comprKV (ext.Dimension * p + 2)])
  else ({ m with opatch := 0 }, [])

/-- `NURBSPatchMap::SetPatchDofMap(p, kv)`. -/
def SetPatchDofMap (ext : NURBSExtension) (m : NURBSPatchMap) (p : Int) :
    NURBSPatchMap × List KnotVector :=
  let r := ext.mapGetPatchKnotVectors m p
  let kv := r.2
  let m := r.1
  let m := { m with I := ((kvAt kv 0).GetNCP : Int) - 2
                    verts := m.verts.map (rdI ext.v_spaceOffsets) }
  let m := if ext.Dimension ≥ 2 then
      { m with J := ((kvAt kv 1).GetNCP : Int) - 2
               edges := m.edges.map (rdI ext.e_spaceOffsets) }
    else m
  let m := if ext.Dimension = 3 then
      { m with K := ((kvAt kv 2).GetNCP : Int) - 2
               faces := m.faces.map (rdI ext.f_spaceOffsets) }
    else m
  ({ m with pOffset := rdI ext.p_spaceOffsets p }, kv)

/-- `NURBSPatchMap::GetBdrPatchKnotVectors(p, kv, okv)`: the map after the call and the
entries of `kv` and `okv` it sets. -/
def mapGetBdrPatchKnotVectors (ext : NURBSExtension) (m : NURBSPatchMap) (p : Int) :
    NURBSPatchMap × List KnotVector × List Int :=
  let m := { m with verts := rdL ext.patchTopo.bdrVertices p }
  if ext.Dimension = 2 then
    let edges := rdL ext.patchTopo.bdrEdges p
    let oedge := rdL ext.patchTopo.bdrEdgeOrient p
    let k0 := ext.KnotVecOriented (rdI edges 0) (rdI oedge 0)
    ({ m with edges := edges, oedge := oedge, opatch := rdI oedge 0 }, [k0.1], [k0.2])
  else if ext.Dimension = 3 then
    let edges := rdL ext.patchTopo.bdrEdges p
    let oedge := rdL ext.patchTopo.bdrEdgeOrient p
    let k0 := ext.KnotVecOriented (rdI edges 0) (rdI oedge 0)
    let k1 := ext.KnotVecOriented (rdI edges 1) (rdI oedge 1)
    ({ m with edges := edges, oedge := oedge, faces := [rdI ext.patchTopo.bdrFace p],
              opatch := rdI ext.patchTopo.bdrFaceOrient p },
     [k0.1, k1.1], [k0.2, k1.2])
  else (m, [], [])

/-- `NURBSPatchMap::SetBdrPatchDofMap(p, kv, okv)`. -/
def SetBdrPatchDofMap (ext : NURBSExtension) (m : NURBSPatchMap) (p : Int) :
    NURBSPatchMap × List KnotVector × List Int :=
  let r := ext.mapGetBdrPatchKnotVectors m p
  let kv := r.2.1
  let m := r.1
  let m := { m with verts := m.verts.map (rdI ext.v_spaceOffsets) }
  let m :=
    if ext.Dimension = 1 then { m with I := 0 }
    else if ext.Dimension = 2 then
      { m with I := ((kvAt kv 0).GetNCP : Int) - 2
               pOffset := rdI ext.e_spaceOffsets (rdI m.edges 0) }
    else if ext.Dimension = 3 then
      { m with I := ((kvAt kv 0).GetNCP : Int) - 2
               J := ((kvAt kv 1).GetNCP : Int) - 2
               edges := m.edges.map (rdI ext.e_spaceOffsets)
               pOffset := rdI ext.f_spaceOffsets (rdI m.faces 0) }
    else m
  (m, kv, r.2.2)

/-- The assignment `d_to_d[a] = d_to_d[b]`, bounds-checked. -/
def connectDofs (d_to_d : List Int) (a b : Int) : Except Fault (List Int) :=
  match rdIChk d_to_d b with
  | .error e => .error e
  | .ok x => wrIChk d_to_d a x

/-- `NURBSExtension::ConnectBoundaries1D(bnd0, bnd1)`, on the array `d_to_d`. -/
def ConnectBoundaries1D (ops : PatchMapOps) (ext : NURBSExtension) (bnd0 bnd1 : Int)
    (d_to_d : List Int) : Except Fault (List Int) :=
  let p2g0 := (ext.SetBdrPatchDofMap {} bnd0).1
  let p2g1 := (ext.SetBdrPatchDofMap {} bnd1).1
  connectDofs d_to_d (ops.at1 p2g0 0) (ops.at1 p2g1 0)

/-- `NURBSExtension::ConnectBoundaries2D(bnd0, bnd1)`, on the array `d_to_d`.  The
compatibility test is compiled in debug builds only (`debug = true`). -/
def ConnectBoundaries2D (debug : Bool) (ops : PatchMapOps) (ext : NURBSExtension)
    (bnd0 bnd1 : Int) (d_to_d : List Int) : Except Fault (List Int) :=
  let r0 := ext.SetBdrPatchDofMap {} bnd0
  let r1 := ext.SetBdrPatchDofMap {} bnd1
  let p2g0 := r0.1
  let p2g1 := r1.1
  let kv0 := r0.2.1
  let kv1 := r1.2.1
  let okv0 := r0.2.2
  let okv1 := r1.2.2
  let nx := p2g0.nx
  let nks0 := (kvAt kv0 0).GetNKS
  if debug = true ∧ (p2g0.nx ≠ p2g1.nx ∨ (kvAt kv0 0).GetNKS ≠ (kvAt kv1 0).GetNKS ∨
      (kvAt kv0 0).GetOrder ≠ (kvAt kv1 0).GetOrder) then .error .fatal
  else
    forLoopIntM 0 nks0
      (fun d i =>
        if (kvAt kv0 0).isElement i = true then
          if (kvAt kv1 0).isElement i = false then .error .fatal
          else
            forLoopIntM 0 (((kvAt kv0 0).GetOrder : Int) + 1)
              (fun d ii =>
                let ii0 := if rdI okv0 0 ≥ 0 then i + ii else nx - i - ii
                let ii1 := if rdI okv1 0 ≥ 0 then i + ii else nx - i - ii
                connectDofs d (ops.at1 p2g0 ii0) (ops.at1 p2g1 ii1)) d
        else .ok d) d_to_d

/-- `NURBSExtension::ConnectBoundaries3D(bnd0, bnd1)`, on the array `d_to_d`. -/
def ConnectBoundaries3D (debug : Bool) (ops : PatchMapOps) (ext : NURBSExtension)
    (bnd0 bnd1 : Int) (d_to_d : List Int) : Except Fault (List Int) :=
  let r0 := ext.SetBdrPatchDofMap {} bnd0
  let r1 := ext.SetBdrPatchDofMap {} bnd1
  let p2g0 := r0.1
  let p2g1 := r1.1
  let kv0 := r0.2.1
  let kv1 := r1.2.1
  let okv0 := r0.2.2
  let okv1 := r1.2.2
  let nx := p2g0.nx
  let ny := p2g0.ny
  let nks0 := (kvAt kv0 0).GetNKS
  let nks1 := (kvAt kv0 1).GetNKS
  if debug = true ∧ (p2g0.nx ≠ p2g1.nx ∨ p2g0.ny ≠ p2g1.ny ∨
      (kvAt kv0 0).GetNKS ≠ (kvAt kv1 0).GetNKS ∨ (kvAt kv0 1).GetNKS ≠ (kvAt kv1 1).GetNKS ∨
      (kvAt kv0 0).GetOrder ≠ (kvAt kv1 0).GetOrder ∨
      (kvAt kv0 1).GetOrder ≠ (kvAt kv1 1).GetOrder) then .error .fatal
  else
    forLoopIntM 0 nks1
      (fun d j =>
        if (kvAt kv0 1).isElement j = true then
          if (kvAt kv1 1).isElement j = false then .error .fatal
          else
            forLoopIntM 0 nks0
              (fun d i =>
                if (kvAt kv0 0).isElement i = true then
                  if (kvAt kv1 0).isElement i = false then .error .fatal
                  else
                    forLoopIntM 0 (((kvAt kv0 1).GetOrder : Int) + 1)
                      (fun d jj =>
                        let jj0 := if rdI okv0 1 ≥ 0 then j + jj else ny - j - jj
                        let jj1 := if rdI okv1 1 ≥ 0 then j + jj else ny - j - jj
                        forLoopIntM 0 (((kvAt kv0 0).GetOrder : Int) + 1)
                          (fun d ii =>
                            let ii0 := if rdI okv0 0 ≥ 0 then i + ii else nx - i - ii
                            let ii1 := if rdI okv1 0 ≥ 0 then i + ii else nx - i - ii
                            connectDofs d (ops.at2 p2g0 ii0 jj0) (ops.at2 p2g1 ii1 jj1)) d) d
                else .ok d) d
        else .ok d) d_to_d

/-- The search of `ConnectBoundaries` for the boundary patch with a given attribute: the
last `b < GetNBP()` with `GetBdrAttribute(b) == attr`, or `-1`. -/
def findBdr (ext : NURBSExtension) (attr : Int) : Int :=
  forLoop 0 ext.GetNBP
    (fun (bnd : Int) b => if attr = rdI ext.patchTopo.bdrAttribute b then (b : Int) else bnd)
    (-1)

/-- The loop `// Connect` of `ConnectBoundaries` over the master/slave pairs, on the array
`d_to_d`. -/
def connectAll (debug : Bool) (ops : PatchMapOps) (ext : NURBSExtension)
    (d_to_d : List Int) : Except Fault (List Int) :=
  forLoopM 0 ext.master.length
    (fun d i =>
      let bnd0 := ext.findBdr (rdI ext.master i)
      let bnd1 := ext.findBdr (rdI ext.slave i)
      if bnd0 = -1 then .error .fatal
      else if bnd1 = -1 then .error .fatal
      else if ext.Dimension = 1 then ConnectBoundaries1D ops ext bnd0 bnd1 d
      else if ext.Dimension = 2 then ConnectBoundaries2D debug ops ext bnd0 bnd1 d
      else ConnectBoundaries3D debug ops ext bnd0 bnd1 d) d_to_d

/-- The part `// Clean d_to_d` of `ConnectBoundaries`: the values used in `d_to_d` are
marked in `tmp`, numbered consecutively, and `d_to_d` is renumbered.  The result is the new
`NumOfDofs` and the new `d_to_d`. -/
def cleanDofMap (d_to_d : List Int) : Except Fault (Int × List Int) :=
  let tmp : List Int := List.replicate (d_to_d.length + 1) 0
  match forLoopM 0 d_to_d.length (fun tmp i => wrIChk tmp (rdI d_to_d i) 1) tmp with
  | .error e => .error e
  | .ok tmp =>
    let r := forLoop 0 tmp.length
      (fun (s : List Int × Int) i =>
        if rdI s.1 i = 1 then (wrI s.1 i s.2, s.2 + 1) else s) (tmp, 0)
    match forLoopM 0 d_to_d.length
        (fun d i =>
          match rdIChk r.1 (rdI d i) with
          | .error e => .error e
          | .ok x => .ok (wrI d i x)) d_to_d with
    | .error e => .error e
    | .ok d => .ok (r.2, d)

/-- `NURBSExtension::ConnectBoundaries()`, up to the comment `// Finalize`: the new
`NumOfDofs` and `d_to_d`.  The two calls that follow regenerate `el_dof` and `bel_dof`;
they read `d_to_d` through `DofMap` and write neither `NumOfDofs` nor `d_to_d`. -/
def ConnectBoundaries (debug : Bool) (ops : PatchMapOps) (ext : NURBSExtension) :
    Except Fault NURBSExtension :=
  if ext.master.length ≠ ext.slave.length then .error .fatal
  else if ext.master.length = 0 then .ok ext
  else
    let d_to_d : List Int :=
      forLoopInt 0 ext.NumOfDofs (fun d i => wrI d i i)
        (List.replicate ext.NumOfDofs.toNat 0)
    match connectAll debug ops ext d_to_d with
    | .error e => .error e
    | .ok d =>
      match cleanDofMap d with
      | .error e => .error e
      | .ok r => .ok { ext with NumOfDofs := r.1, d_to_d := r.2 }

end NURBSExtension

namespace NURBSExtension

/-- The assignments `d_to_d[a] = d_to_d[b]` for the pairs `(a, b)` of a list, in order. -/
def connectList : List (Int × Int) → List Int → Except Fault (List Int)
  | [], d => .ok d
  | pr :: rest, d =>
    match connectDofs d pr.1 pr.2 with
    | .error e => .error e
    | .ok d1 => connectList rest d1

/-- The dofs paired position by position across the boundary patches `bnd0` (master) and
`bnd1` (slave): the pairs `(p2g0(...), p2g1(...))` of the assignments
`d_to_d[p2g0(...)] = d_to_d[p2g1(...)]` of `ConnectBoundaries1D`, `ConnectBoundaries2D` and
`ConnectBoundaries3D`, in the order in which they are made. -/
def bdrPairs (ops : PatchMapOps) (ext : NURBSExtension) (bnd0 bnd1 : Int) :
    List (Int × Int) :=
  let r0 := ext.SetBdrPatchDofMap {} bnd0
  let r1 := ext.SetBdrPatchDofMap {} bnd1
  let p2g0 := r0.1
  let p2g1 := r1.1
  let kv0 := r0.2.1
  let okv0 := r0.2.2
  let okv1 := r1.2.2
  let nx := p2g0.nx
  let ny := p2g0.ny
  if ext.Dimension = 1 then [(ops.at1 p2g0 0, ops.at1 p2g1 0)]
  else if ext.Dimension = 2 then
    (List.range (kvAt kv0 0).GetNKS.toNat).flatMap
      (fun (i : Nat) =>
        if (kvAt kv0 0).isElement i = true then
          (List.range ((kvAt kv0 0).GetOrder + 1)).map
            (fun (ii : Nat) =>
              (ops.at1 p2g0 (if rdI okv0 0 ≥ 0 then (i : Int) + ii else nx - i - ii),
               ops.at1 p2g1 (if rdI okv1 0 ≥ 0 then (i : Int) + ii else nx - i - ii)))
        else [])
  else
    (List.range (kvAt kv0 1).GetNKS.toNat).flatMap
      (fun (j : Nat) =>
        if (kvAt kv0 1).isElement j = true then
          (List.range (kvAt kv0 0).GetNKS.toNat).flatMap
            (fun (i : Nat) =>
              if (kvAt kv0 0).isElement i = true then
                (List.range ((kvAt kv0 1).GetOrder + 1)).flatMap
                  (fun (jj : Nat) =>
                    (List.range ((kvAt kv0 0).GetOrder + 1)).map
                      (fun (ii : Nat) =>
                        (ops.at2 p2g0
                          (if rdI okv0 0 ≥ 0 then (i : Int) + ii else nx - i - ii)
                          (if rdI okv0 1 ≥ 0 then (j : Int) + jj else ny - j - jj),
                         ops.at2 p2g1
                          (if rdI okv1 0 ≥ 0 then (i : Int) + ii else nx - i - ii)
                          (if rdI okv1 1 ≥ 0 then (j : Int) + jj else ny - j - jj))))
              else [])
        else [])

/-- The two boundary patches have matching knot structure: every knot span that is an
element on `bnd0` is an element on `bnd1` and, in a debug build, the extents, numbers of
knot spans and orders agree (the conditions under which `ConnectBoundaries2D` and
`ConnectBoundaries3D` do not call `mfem_error`). -/
def BdrCompatible (debug : Bool) (ext : NURBSExtension) (bnd0 bnd1 : Int) : Prop :=
  let r0 := ext.SetBdrPatchDofMap {} bnd0
  let r1 := ext.SetBdrPatchDofMap {} bnd1
  let kv0 := r0.2.1
  let kv1 := r1.2.1
  if ext.Dimension = 1 then True
  else if ext.Dimension = 2 then
    ¬ (debug = true ∧ (r0.1.nx ≠ r1.1.nx ∨ (kvAt kv0 0).GetNKS ≠ (kvAt kv1 0).GetNKS ∨
      (kvAt kv0 0).GetOrder ≠ (kvAt kv1 0).GetOrder)) ∧
    ∀ i : Nat, i < (kvAt kv0 0).GetNKS.toNat → (kvAt kv0 0).isElement i = true →
      (kvAt kv1 0).isElement i = true
  else
    ¬ (debug = true ∧ (r0.1.nx ≠ r1.1.nx ∨ r0.1.ny ≠ r1.1.ny ∨
      (kvAt kv0 0).GetNKS ≠ (kvAt kv1 0).GetNKS ∨ (kvAt kv0 1).GetNKS ≠ (kvAt kv1 1).GetNKS ∨
      (kvAt kv0 0).GetOrder ≠ (kvAt kv1 0).GetOrder ∨
      (kvAt kv0 1).GetOrder ≠ (kvAt kv1 1).GetOrder)) ∧
    (∀ j : Nat, j < (kvAt kv0 1).GetNKS.toNat → (kvAt kv0 1).isElement j = true →
      (kvAt kv1 1).isElement j = true) ∧
    ∀ i : Nat, i < (kvAt kv0 0).GetNKS.toNat → (kvAt kv0 0).isElement i = true →
      (kvAt kv1 0).isElement i = true

instance (debug : Bool) (ext : NURBSExtension) (bnd0 bnd1 : Int) :
    Decidable (BdrCompatible debug ext bnd0 bnd1) := by
  unfold BdrCompatible; dsimp only; infer_instance

/-- Index operators for the examples: the first and the last position of a direction are
the two vertices of the map, the positions in between follow its offset; in two directions
the positions are numbered row by row from the offset, and likewise in three. -/
def exOps : PatchMapOps :=
  { at1 := fun m i =>
      if i ≤ 0 then rdI m.verts 0 else if i ≥ m.I + 1 then rdI m.verts 1
      else m.pOffset + (i - 1)
    at2 := fun m i j => m.pOffset + i + j * (m.I + 2)
    at3 := fun m i j k => m.pOffset + i + (j + k * (m.J + 2)) * (m.I + 2) }

/-- The single quadrilateral patch `exSquareThree` after `GenerateOffsets`, with its four
boundary edges as boundary patches with the attributes `1, 2, 3, 4` (bottom, right, top,
left) and the left boundary declared the master of the right one. -/
def exPeriodicSquare : NURBSExtension :=
  { GenerateOffsets exSquareThree with
    patchTopo :=
      { exSquareTopo with
        bdrVertices := [[0, 1], [1, 2], [3, 2], [0, 3]]
        bdrEdges := [[0], [1], [2], [3]]
        bdrEdgeOrient := [[1], [1], [-1], [-1]]
        bdrAttribute := [1, 2, 3, 4] }
    master := [4]
    slave := [2] }

end NURBSExtension

/-! ## Patch nets and coordinate vectors -/

/-- The class `Vector`'s `SetSize(n)`: the first entries are kept, new entries are not
initialised by the source (`0` here). -/
def setSize (v : List ℚ) (n : Int) : List ℚ :=
  v.take n.toNat ++ List.replicate (n.toNat - v.length) 0

namespace NURBSPatch

/-- Modelled from the spec: the inline accessor `operator()(i, j, l)` of a two-dimensional
patch is declared in the header; component `l` of control point `(i, j)` is at offset
`(i + j*ni)*Dim + l` of the buffer. -/
def at2 (p : NURBSPatch) (i j l : Int) : Int := (i + j * p.ni) * p.Dim + l

/-- Modelled from the spec: the inline accessor `operator()(i, j, k, l)` of a
three-dimensional patch is declared in the header; component `l` of control point
`(i, j, k)` is at offset `(i + (j + k*nj)*ni)*Dim + l` of the buffer. -/
def at3 (p : NURBSPatch) (i j k l : Int) : Int := (i + (j + k * p.nj) * p.ni) * p.Dim + l

/-- The write `data[off] = x` to the buffer of a patch, bounds-checked. -/
def store (p : NURBSPatch) (off : Int) (x : ℚ) : Except Fault NURBSPatch :=
  match wrChk p.data off x with
  | .error e => .error e
  | .ok d => .ok { p with data := d }

end NURBSPatch

namespace NURBSExtension

/-- Modelled from the spec: the inline function `DofMap(dof)` is declared in the header;
`d_to_d` is the dof-alias array of the periodic boundaries, applied when it is not
empty. -/
def DofMap (ext : NURBSExtension) (dof : Int) : Int :=
  if ext.d_to_d.length > 0 then rdI ext.d_to_d dof else dof

/-- Modelled from the spec: the inline accessor `GetNDof()` is declared in the header; it
is the number of active dofs (printed as `NumOfActiveDofs` by `PrintCharacteristics`). -/
def GetNDof (ext : NURBSExtension) : Int := ext.NumOfActiveDofs

/-- Modelled from the spec: the inline accessor `GetNTotalDof()` is declared in the header;
it is the number of dofs (printed as `NumOfDofs` by `PrintCharacteristics`). -/
def GetNTotalDof (ext : NURBSExtension) : Int := ext.NumOfDofs

/-- The body of the loops over the control points of one patch in `Get1DPatchNets`,
`Get2DPatchNets` and `Get3DPatchNets`: the control point at the buffer offset `off` (of
its component `0`) gets the coordinates of dof `l` times the weight, and the weight. -/
def loadPoint (ext : NURBSExtension) (coords : List ℚ) (vdim : Int) (l off : Int)
    (patch : NURBSPatch) : Except Fault NURBSPatch :=
  match forLoopIntM 0 vdim
      (fun (P : NURBSPatch) d =>
        match rdChk coords (l * vdim + d) with
        | .error e => .error e
        | .ok c =>
          match rdChk ext.weights l with
          | .error e => .error e
          | .ok w => P.store (off + d) (c * w)) patch with
  | .error e => .error e
  | .ok P =>
    match rdChk ext.weights l with
    | .error e => .error e
    | .ok w => P.store (off + vdim) w

/-- The body of the loop over the patches `p` in `Get1DPatchNets`, on the map `p2g` and
the array `patches`. -/
def get1Patch (ops : PatchMapOps) (ext : NURBSExtension) (coords : List ℚ) (vdim : Int)
    (st : NURBSPatchMap × List NURBSPatch) (p : Nat) :
    Except Fault (NURBSPatchMap × List NURBSPatch) :=
  let r := ext.SetPatchDofMap st.1 p
  let p2g := r.1
  let kv := r.2
  match NURBSPatch.init kv (vdim + 1) with
  | .error e => .error e
  | .ok patch0 =>
    match forLoopIntM 0 ((kvAt kv 0).GetNCP : Int)
        (fun (P : NURBSPatch) i =>
          loadPoint ext coords vdim (ext.DofMap (ops.at1 p2g i)) (P.at1 i 0) P)
        patch0 with
    | .error e => .error e
    | .ok patch => .ok (p2g, st.2 ++ [patch])

/-- `NURBSExtension::Get1DPatchNets(coords, vdim)`: the array `patches`. -/
def Get1DPatchNets (ops : PatchMapOps) (ext : NURBSExtension) (coords : List ℚ) (vdim : Int) :
    Except Fault (List NURBSPatch) :=
  match forLoopM 0 ext.GetNP (get1Patch ops ext coords vdim) ({}, []) with
  | .error e => .error e
  | .ok st => .ok st.2

/-- The body of the loop over the patches `p` in `Get2DPatchNets`, on the map `p2g` and
the array `patches`. -/
def get2Patch (ops : PatchMapOps) (ext : NURBSExtension) (coords : List ℚ) (vdim : Int)
    (st : NURBSPatchMap × List NURBSPatch) (p : Nat) :
    Except Fault (NURBSPatchMap × List NURBSPatch) :=
  let r := ext.SetPatchDofMap st.1 p
  let p2g := r.1
  let kv := r.2
  match NURBSPatch.init kv (vdim + 1) with
  | .error e => .error e
  | .ok patch0 =>
    match forLoopIntM 0 ((kvAt kv 1).GetNCP : Int)
        (fun (P : NURBSPatch) j =>
          forLoopIntM 0 ((kvAt kv 0).GetNCP : Int)
            (fun (P : NURBSPatch) i =>
              loadPoint ext coords vdim (ext.DofMap (ops.at2 p2g i j)) (P.at2 i j 0) P)
            P)
        patch0 with
    | .error e => .error e
    | .ok patch => .ok (p2g, st.2 ++ [patch])

/-- `NURBSExtension::Get2DPatchNets(coords, vdim)`: the array `patches`. -/
def Get2DPatchNets (ops : PatchMapOps) (ext : NURBSExtension) (coords : List ℚ) (vdim : Int) :
    Except Fault (List NURBSPatch) :=
  match forLoopM 0 ext.GetNP (get2Patch ops ext coords vdim) ({}, []) with
  | .error e => .error e
  | .ok st => .ok st.2

/-- The body of the loop over the patches `p` in `Get3DPatchNets`, on the map `p2g` and
the array `patches`. -/
def get3Patch (ops : PatchMapOps) (ext : NURBSExtension) (coords : List ℚ) (vdim : Int)
    (st : NURBSPatchMap × List NURBSPatch) (p : Nat) :
    Except Fault (NURBSPatchMap × List NURBSPatch) :=
  let r := ext.SetPatchDofMap st.1 p
  let p2g := r.1
  let kv := r.2
  match NURBSPatch.init kv (vdim + 1) with
  | .error e => .error e
  | .ok patch0 =>
    match forLoopIntM 0 ((kvAt kv 2).GetNCP : Int)
        (fun (P : NURBSPatch) k =>
          forLoopIntM 0 ((kvAt kv 1).GetNCP : Int)
            (fun (P : NURBSPatch) j =>
              forLoopIntM 0 ((kvAt kv 0).GetNCP : Int)
                (fun (P : NURBSPatch) i =>
                  loadPoint ext coords vdim (ext.DofMap (ops.at3 p2g i j k))
                    (P.at3 i j k 0) P)
                P)
            P)
        patch0 with
    | .error e => .error e
    | .ok patch => .ok (p2g, st.2 ++ [patch])

/-- `NURBSExtension::Get3DPatchNets(coords, vdim)`: the array `patches`. -/
def Get3DPatchNets (ops : PatchMapOps) (ext : NURBSExtension) (coords : List ℚ) (vdim : Int) :
    Except Fault (List NURBSPatch) :=
  match forLoopM 0 ext.GetNP (get3Patch ops ext coords vdim) ({}, []) with
  | .error e => .error e
  | .ok st => .ok st.2

/-- `NURBSExtension::GetPatchNets(coords, vdim)`. -/
def GetPatchNets (ops : PatchMapOps) (ext : NURBSExtension) (coords : List ℚ) (vdim : Int) :
    Except Fault (List NURBSPatch) :=
  if ext.Dimension = 1 then Get1DPatchNets ops ext coords vdim
  else if ext.Dimension = 2 then Get2DPatchNets ops ext coords vdim
  else Get3DPatchNets ops ext coords vdim

/-- `NURBSExtension::ConvertToPatches(Nodes)`: `el_dof` and `bel_dof` are deleted, and the
patches are built from `Nodes` when there are none. -/
def ConvertToPatches (ops : PatchMapOps) (ext : NURBSExtension) (Nodes : List ℚ) :
    Except Fault NURBSExtension :=
  let ext := { ext with el_dof := { rows := [] } }
  if ext.patches.length = 0 then
    match GetPatchNets ops ext Nodes ext.Dimension with
    | .error e => .error e
    | .ok ps => .ok { ext with patches := ps }
  else .ok ext

/-- The body of the loops over the control points of one patch in `Set1DSolutionVector`,
`Set2DSolutionVector` and `Set3DSolutionVector`, on the pair `(coords, weights)`: dof `l`
gets the coordinates of the control point at the buffer offset `off` divided by its
weight, and the weight. -/
def storePoint (patch : NURBSPatch) (vdim : Int) (l off : Int) (st : List ℚ × List ℚ) :
    Except Fault (List ℚ × List ℚ) :=
  match forLoopIntM 0 vdim
      (fun (c : List ℚ) d =>
        match rdChk patch.data (off + d) with
        | .error e => .error e
        | .ok x =>
          match rdChk patch.data (off + vdim) with
          | .error e => .error e
          | .ok w => wrChk c (l * vdim + d) (x / w)) st.1 with
  | .error e => .error e
  | .ok c =>
    match rdChk patch.data (off + vdim) with
    | .error e => .error e
    | .ok w =>
      match wrChk st.2 l w with
      | .error e => .error e
      | .ok ws => .ok (c, ws)

/-- The patch `*patches[p]`. -/
def patchAt (ext : NURBSExtension) (p : Nat) : Except Fault NURBSPatch :=
  match ext.patches[p]? with
  | none => .error .outOfBounds
  | some patch => .ok patch

/-- The body of the loop over the patches `p` in `Set1DSolutionVector`, on the map `p2g`
and the vectors `coords` and `weights`. -/
def set1Patch (debug : Bool) (ops : PatchMapOps) (ext : NURBSExtension) (vdim : Int)
    (st : NURBSPatchMap × List ℚ × List ℚ) (p : Nat) :
    Except Fault (NURBSPatchMap × List ℚ × List ℚ) :=
  let r := ext.SetPatchDofMap st.1 p
  let p2g := r.1
  let kv := r.2
  match ext.patchAt p with
  | .error e => .error e
  | .ok patch =>
    if debug = true ∧ vdim + 1 ≠ patch.Dim then .error .fatal
    else
      match forLoopIntM 0 ((kvAt kv 0).GetNCP : Int)
          (fun cw i => storePoint patch vdim (ops.at1 p2g i) (patch.at1 i 0) cw)
          st.2 with
      | .error e => .error e
      | .ok cw => .ok (p2g, cw)

/-- `NURBSExtension::Set1DSolutionVector(coords, vdim)`: the vectors `coords` and
`weights`.  `MFEM_ASSERT` is compiled in debug builds only (`debug = true`). -/
def Set1DSolutionVector (debug : Bool) (ops : PatchMapOps) (ext : NURBSExtension)
    (coords : List ℚ) (vdim : Int) : Except Fault (List ℚ × List ℚ) :=
  match forLoopM 0 ext.GetNP (set1Patch debug ops ext vdim)
      ({}, coords, setSize ext.weights ext.GetNDof) with
  | .error e => .error e
  | .ok st => .ok st.2

/-- The body of the loop over the patches `p` in `Set2DSolutionVector`, on the map `p2g`
and the vectors `coords` and `weights`. -/
def set2Patch (debug : Bool) (ops : PatchMapOps) (ext : NURBSExtension) (vdim : Int)
    (st : NURBSPatchMap × List ℚ × List ℚ) (p : Nat) :
    Except Fault (NURBSPatchMap × List ℚ × List ℚ) :=
  let r := ext.SetPatchDofMap st.1 p
  let p2g := r.1
  let kv := r.2
  match ext.patchAt p with
  | .error e => .error e
  | .ok patch =>
    if debug = true ∧ vdim + 1 ≠ patch.Dim then .error .fatal
    else
      match forLoopIntM 0 ((kvAt kv 1).GetNCP : Int)
          (fun cw j =>
            forLoopIntM 0 ((kvAt kv 0).GetNCP : Int)
              (fun cw i =>
                storePoint patch vdim (ops.at2 p2g i j) (patch.at2 i j 0) cw) cw)
          st.2 with
      | .error e => .error e
      | .ok cw => .ok (p2g, cw)

/-- `NURBSExtension::Set2DSolutionVector(coords, vdim)`. -/
def Set2DSolutionVector (debug : Bool) (ops : PatchMapOps) (ext : NURBSExtension)
    (coords : List ℚ) (vdim : Int) : Except Fault (List ℚ × List ℚ) :=
  match forLoopM 0 ext.GetNP (set2Patch debug ops ext vdim)
      ({}, coords, setSize ext.weights ext.GetNDof) with
  | .error e => .error e
  | .ok st => .ok st.2

/-- The body of the loop over the patches `p` in `Set3DSolutionVector`, on the map `p2g`
and the vectors `coords` and `weights`. -/
def set3Patch (debug : Bool) (ops : PatchMapOps) (ext : NURBSExtension) (vdim : Int)
    (st : NURBSPatchMap × List ℚ × List ℚ) (p : Nat) :
    Except Fault (NURBSPatchMap × List ℚ × List ℚ) :=
  let r := ext.SetPatchDofMap st.1 p
  let p2g := r.1
  let kv := r.2
  match ext.patchAt p with
  | .error e => .error e
  | .ok patch =>
    if debug = true ∧ vdim + 1 ≠ patch.Dim then .error .fatal
    else
      match forLoopIntM 0 ((kvAt kv 2).GetNCP : Int)
          (fun cw k =>
            forLoopIntM 0 ((kvAt kv 1).GetNCP : Int)
              (fun cw j =>
                forLoopIntM 0 ((kvAt kv 0).GetNCP : Int)
                  (fun cw i =>
                    storePoint patch vdim (ops.at3 p2g i j k) (patch.at3 i j k 0) cw)
                  cw) cw)
          st.2 with
      | .error e => .error e
      | .ok cw => .ok (p2g, cw)

/-- `NURBSExtension::Set3DSolutionVector(coords, vdim)`. -/
def Set3DSolutionVector (debug : Bool) (ops : PatchMapOps) (ext : NURBSExtension)
    (coords : List ℚ) (vdim : Int) : Except Fault (List ℚ × List ℚ) :=
  match forLoopM 0 ext.GetNP (set3Patch debug ops ext vdim)
      ({}, coords, setSize ext.weights ext.GetNDof) with
  | .error e => .error e
  | .ok st => .ok st.2

/-- `NURBSExtension::SetSolutionVector(coords, vdim)`. -/
def SetSolutionVector (debug : Bool) (ops : PatchMapOps) (ext : NURBSExtension)
    (coords : List ℚ) (vdim : Int) : Except Fault (List ℚ × List ℚ) :=
  if ext.Dimension = 1 then Set1DSolutionVector debug ops ext coords vdim
  else if ext.Dimension = 2 then Set2DSolutionVector debug ops ext coords vdim
  else Set3DSolutionVector debug ops ext coords vdim

/-- `NURBSExtension::SetCoordsFromPatches(Nodes)`: the extension (with its new `weights`
and no patches) and the vector `Nodes`. -/
def SetCoordsFromPatches (debug : Bool) (ops : PatchMapOps) (ext : NURBSExtension)
    (Nodes : List ℚ) : Except Fault (NURBSExtension × List ℚ) :=
  if ext.patches.length = 0 then .ok (ext, Nodes)
  else
    match SetSolutionVector debug ops ext Nodes ext.Dimension with
    | .error e => .error e
    | .ok cw => .ok ({ ext with weights := cw.2, patches := [] }, cw.1)

/-- A segment: a one-dimensional topology with two vertices and one patch, whose two end
points are boundary patches with the attributes `1` and `2`; the patch has the knot vector
`[0,0,1,2,2]` (order 1, three control points), all weights are `1`. -/
def exSegmentExt : NURBSExtension :=
  { patchTopo := { Dim := 1, NV := 2, NEdges := 0, NFaces := 0, NE := 1,
                   elementVertices := [[0, 1]], bdrVertices := [[0], [1]],
                   bdrAttribute := [1, 2] },
    edge_to_knot := [0],
    knotVectors := [KnotVector.exTwoElements], knotVectorsCompr := [KnotVector.exTwoElements],
    v_meshOffsets := [0, 1], p_meshOffsets := [2], v_spaceOffsets := [0, 1],
    p_spaceOffsets := [2], NumOfVertices := 3, NumOfDofs := 3, NumOfElements := 2,
    NumOfActiveElems := 2, NumOfActiveDofs := 3, activeElem := [true, true],
    weights := [1, 1, 1] }

/-- The segment `exSegmentExt` made periodic: the end point with attribute `1` is the
master of the one with attribute `2`, so dof `0` is an alias of dof `1` and two dofs
remain, `d_to_d = [0, 0, 1]`. -/
def exPeriodicSegment : NURBSExtension :=
  { exSegmentExt with
    master := [1], slave := [2], NumOfDofs := 2, NumOfActiveDofs := 2, d_to_d := [0, 0, 1],
    weights := [1, 1] }

end NURBSExtension

/-- A step that can fail, applied in turn to the entries of a list. -/
def foldE {σ α : Type} (step : σ → α → Except Fault σ) : List α → σ → Except Fault σ
  | [], s => .ok s
  | a :: rest, s =>
    match step s a with
    | .error e => .error e
    | .ok s1 => foldE step rest s1

namespace NURBSExtension

/-- The map `p2g` after the call `p2g.SetPatchDofMap(p, kv)` in a loop over the patches
`0, 1, ..., p` that uses one `NURBSPatchMap` object for all of them. -/
def dofMapOf (ext : NURBSExtension) : Nat → NURBSPatchMap
  | 0 => (ext.SetPatchDofMap {} ((0 : Nat) : Int)).1
  | p + 1 => (ext.SetPatchDofMap (dofMapOf ext p) ((p + 1 : Nat) : Int)).1

/-- The dofs `p2g(i)`, `p2g(i,j)` or `p2g(i,j,k)` of the control points of patch `p`, in the
order of the loops of `Get1DPatchNets`, ... and `Set1DSolutionVector`, ... (first index
fastest). -/
def patchDofs (ops : PatchMapOps) (ext : NURBSExtension) (p : Nat) : List Int :=
  let m := ext.dofMapOf p
  let kv := (ext.SetPatchDofMap {} (p : Int)).2
  if ext.Dimension = 1 then
    (List.range (kvAt kv 0).GetNCP).map (fun (i : Nat) => ops.at1 m i)
  else if ext.Dimension = 2 then
    (List.range (kvAt kv 1).GetNCP).flatMap
      (fun (j : Nat) => (List.range (kvAt kv 0).GetNCP).map (fun (i : Nat) => ops.at2 m i j))
  else
    (List.range (kvAt kv 2).GetNCP).flatMap
      (fun (k : Nat) =>
        (List.range (kvAt kv 1).GetNCP).flatMap
          (fun (j : Nat) =>
            (List.range (kvAt kv 0).GetNCP).map (fun (i : Nat) => ops.at3 m i j k)))

end NURBSExtension

namespace NURBSExtension

/-- The map `p2g` before the call `p2g.SetPatchDofMap(p, kv)` in a loop over the patches:
a fresh map for the first patch, the map of the previous patch afterwards. -/
def mapBefore (ext : NURBSExtension) : Nat → NURBSPatchMap
  | 0 => {}
  | p + 1 => ext.dofMapOf p

/-- The number of control points of patch `p`: the product of the numbers of control
points of its knot vectors. -/
def patchCells (ext : NURBSExtension) (p : Nat) : Nat :=
  let kv := (ext.SetPatchDofMap {} (p : Int)).2
  if ext.Dimension = 1 then (kvAt kv 0).GetNCP
  else if ext.Dimension = 2 then (kvAt kv 0).GetNCP * (kvAt kv 1).GetNCP
  else (kvAt kv 0).GetNCP * (kvAt kv 1).GetNCP * (kvAt kv 2).GetNCP

/-- The dof of control point number `c` of patch `p`, the control points being numbered
with the first index fastest (the order of `patchDofs`). -/
def cellDof (ops : PatchMapOps) (ext : NURBSExtension) (p : Nat) (c : Nat) : Int :=
  let m := ext.dofMapOf p
  let kv := (ext.SetPatchDofMap {} (p : Int)).2
  let n0 := (kvAt kv 0).GetNCP
  let n1 := (kvAt kv 1).GetNCP
  if ext.Dimension = 1 then ops.at1 m c
  else if ext.Dimension = 2 then ops.at2 m ((c % n0 : Nat) : Int) ((c / n0 : Nat) : Int)
  else
    ops.at3 m (((c % (n0 * n1)) % n0 : Nat) : Int) (((c % (n0 * n1)) / n0 : Nat) : Int)
      ((c / (n0 * n1) : Nat) : Int)

end NURBSExtension

namespace NURBSExtension

/-- The patch `P` is the net of patch `q` for the coordinate vector `coords` with `v`
components per dof: it has the extents of the knot vectors of the patch, `v + 1`
components per control point, and control point number `c` holds the coordinates of its
dof times the weight of the dof, followed by the weight. -/
def patchNet (ops : PatchMapOps) (ext : NURBSExtension) (coords : List ℚ) (v : Nat) (q : Nat)
    (P : NURBSPatch) : Prop :=
  let kv := (ext.SetPatchDofMap {} (q : Int)).2
  P.ni = ((kvAt kv 0).GetNCP : Int) ∧
  P.nj = (if ext.Dimension = 1 then -1 else ((kvAt kv 1).GetNCP : Int)) ∧
  P.Dim = (v : Int) + 1 ∧ P.data.length = ext.patchCells q * (v + 1) ∧
  ∀ c : Nat, c < ext.patchCells q →
    (∀ d : Nat, d < v →
      rd P.data ((c * (v + 1) + d : Nat) : Int) =
        rd coords (((cellDof ops ext q c).toNat * v + d : Nat) : Int) *
          rd ext.weights (((cellDof ops ext q c).toNat : Nat) : Int)) ∧
    rd P.data ((c * (v + 1) + v : Nat) : Int) =
      rd ext.weights (((cellDof ops ext q c).toNat : Nat) : Int)

end NURBSExtension

/-! ## Element dof tables -/

/-- The class `Array<int>`'s `SetSize(n)`: the first entries are kept, new entries are not
initialised by the source (`0` here). -/
def setSizeI (v : List Int) (n : Int) : List Int :=
  v.take n.toNat ++ List.replicate (n.toNat - v.length) 0

namespace Table

/-- The rows `i, i+1, ...` that the constructor `Table(nrows, list)` reads off a list of
connections `(from, to)`: row `i` is the run of connections with `from == i` at the head of
the list. -/
def rowsOfList : Nat → Int → List (Int × Int) → List (List Int)
  | 0, _, _ => []
  | n + 1, i, l =>
    (l.takeWhile (fun c => c.1 == i)).map (fun c => c.2) ::
      rowsOfList n (i + 1) (l.dropWhile (fun c => c.1 == i))

/-- Modelled from the spec: the constructor `Table(nrows, list)` is declared in
`general/table.hpp`, which is not among the sources.  The table has `nrows` rows; the list
is scanned once, and row `i` gets the `to` fields of the consecutive connections whose
`from` field is `i` (the list is not sorted). -/
def ofList (nrows : Int) (list : List (Int × Int)) : Table :=
  { rows := rowsOfList nrows.toNat 0 list }

/-- A map that can fail, applied to the entries of a row in order. -/
def mapRow (f : Int → Except Fault Int) : List Int → Except Fault (List Int)
  | [] => .ok []
  | d :: rest =>
    match f d with
    | .error e => .error e
    | .ok x =>
      match mapRow f rest with
      | .error e => .error e
      | .ok r => .ok (x :: r)

/-- A map that can fail, applied to the entries of the rows in order. -/
def mapRows (f : Int → Except Fault Int) : List (List Int) → Except Fault (List (List Int))
  | [] => .ok []
  | row :: rest =>
    match mapRow f row with
    | .error e => .error e
    | .ok r =>
      match mapRows f rest with
      | .error e => .error e
      | .ok rs => .ok (r :: rs)

/-- Modelled from the spec: `GetJ()` and `Size_of_connections()` are declared in
`general/table.hpp`; they are the entries of the rows, row after row, and their number.
The loop `for (i = 0; i < ndof; i++) dof[i] = f(dof[i])` over them. -/
def mapJ (f : Int → Except Fault Int) (t : Table) : Except Fault Table :=
  match mapRows f t.rows with
  | .error e => .error e
  | .ok rs => .ok { rows := rs }

end Table

/-- The local variables `el`, `eg` and `el_dof_list` of `Generate1DElementDofTable`, ... and
the arrays `activeDof`, `el_to_patch` and `el_to_IJK` they fill.  A connection is the pair
`(from, to)`. -/
structure ElemTableState where
  el : Int
  eg : Int
  el_dof_list : List (Int × Int)
  activeDof : List Int
  el_to_patch : List Int
  el_to_IJK : List Int

namespace NURBSExtension

/-- The bounds-checked read `activeElem[eg]`. -/
def activeElemAt (ext : NURBSExtension) (eg : Int) : Except Fault Bool :=
  if 0 ≤ eg then
    match ext.activeElem[eg.toNat]? with
    | some b => .ok b
    | none => .error .outOfBounds
  else .error .outOfBounds

/-- The statements `conn.to = dof; activeDof[conn.to] = 1; el_dof_list.Append(conn);` for
the connection `conn(el, 0)`. -/
def addConnection (dof : Int) (s : ElemTableState) : Except Fault ElemTableState :=
  match wrIChk s.activeDof dof 1 with
  | .error e => .error e
  | .ok a => .ok { s with activeDof := a, el_dof_list := s.el_dof_list ++ [(s.el, dof)] }

/-- The statements `el_to_IJK(el, c) = ijk[c]` for the columns `c = 0, 1, ...` of a list,
on the array `el_to_IJK` with `ncols` columns (bounds-checked). -/
def setIJK (ncols el : Int) : Int → List Int → List Int → Except Fault (List Int)
  | _, [], a => .ok a
  | c, x :: rest, a =>
    match wrIChk a (el * ncols + c) x with
    | .error e => .error e
    | .ok a1 => setIJK ncols el (c + 1) rest a1

/-- The statements `el_to_patch[el] = p; el_to_IJK(el,0) = i; ...; el++;`. -/
def recordElement (ncols : Int) (p : Int) (ijk : List Int) (s : ElemTableState) :
    Except Fault ElemTableState :=
  match wrIChk s.el_to_patch s.el p with
  | .error e => .error e
  | .ok ep =>
    match setIJK ncols s.el 0 ijk s.el_to_IJK with
    | .error e => .error e
    | .ok a => .ok { s with el_to_patch := ep, el_to_IJK := a, el := s.el + 1 }

/-- The statement `if (activeElem[eg]) { ... } eg++;` for one element of a patch: if the
element is active, the loops `stencil` over its dofs run and the element is recorded. -/
def visitElement (ext : NURBSExtension) (ncols : Int) (p : Int) (ijk : List Int)
    (stencil : ElemTableState → Except Fault ElemTableState) (s : ElemTableState) :
    Except Fault ElemTableState :=
  match ext.activeElemAt s.eg with
  | .error e => .error e
  | .ok a =>
    if a then
      match stencil s with
      | .error e => .error e
      | .ok s1 =>
        match recordElement ncols p ijk s1 with
        | .error e => .error e
        | .ok s2 => .ok { s2 with eg := s2.eg + 1 }
    else .ok { s with eg := s.eg + 1 }

/-- The state before the loop over the patches: `el = eg = 0`, an empty `el_dof_list`,
`el_to_patch.SetSize(NumOfActiveElems)` and `el_to_IJK.SetSize(NumOfActiveElems, ncols)`. -/
def startTable (ext : NURBSExtension) (ncols : Int) : ElemTableState :=
  { el := 0, eg := 0, el_dof_list := [], activeDof := ext.activeDof,
    el_to_patch := setSizeI ext.el_to_patch ext.NumOfActiveElems,
    el_to_IJK := setSizeI ext.el_to_IJK (ext.NumOfActiveElems * ncols) }

/-- The statement `el_dof = new Table(NumOfActiveElems, el_dof_list);` and the arrays the
loops filled. -/
def finishTable (ext : NURBSExtension) (s : ElemTableState) : NURBSExtension :=
  { ext with
    activeDof := s.activeDof, el_to_patch := s.el_to_patch, el_to_IJK := s.el_to_IJK,
    el_dof := Table.ofList ext.NumOfActiveElems s.el_dof_list }

/-- The body of the loop over the patches `p` in `Generate1DElementDofTable`. -/
def gen1Patch (ops : PatchMapOps) (ext : NURBSExtension)
    (st : NURBSPatchMap × ElemTableState) (p : Nat) :
    Except Fault (NURBSPatchMap × ElemTableState) :=
  let r := ext.SetPatchDofMap st.1 p
  let p2g := r.1
  let kv := r.2
  let ord0 : Int := (kvAt kv 0).GetOrder
  match forLoopIntM 0 (kvAt kv 0).GetNKS
      (fun (s : ElemTableState) i =>
        if (kvAt kv 0).isElement i then
          visitElement ext 2 p [i]
            (fun s =>
              forLoopIntM 0 (ord0 + 1)
                (fun s ii => addConnection (ext.DofMap (ops.at1 p2g (i + ii))) s) s) s
        else .ok s) st.2 with
  | .error e => .error e
  | .ok s => .ok (p2g, s)

/-- `NURBSExtension::Generate1DElementDofTable()`.  The array `el_to_IJK` has two columns
here as well. -/
def Generate1DElementDofTable (ops : PatchMapOps) (ext : NURBSExtension) :
    Except Fault NURBSExtension :=
  match forLoopM 0 ext.GetNP (gen1Patch ops ext) ({}, ext.startTable 2) with
  | .error e => .error e
  | .ok st => .ok (ext.finishTable st.2)

/-- The body of the loop over the patches `p` in `Generate2DElementDofTable`. -/
def gen2Patch (ops : PatchMapOps) (ext : NURBSExtension)
    (st : NURBSPatchMap × ElemTableState) (p : Nat) :
    Except Fault (NURBSPatchMap × ElemTableState) :=
  let r := ext.SetPatchDofMap st.1 p
  let p2g := r.1
  let kv := r.2
  let ord0 : Int := (kvAt kv 0).GetOrder
  let ord1 : Int := (kvAt kv 1).GetOrder
  match forLoopIntM 0 (kvAt kv 1).GetNKS
      (fun (s : ElemTableState) j =>
        if (kvAt kv 1).isElement j then
          forLoopIntM 0 (kvAt kv 0).GetNKS
            (fun (s : ElemTableState) i =>
              if (kvAt kv 0).isElement i then
                visitElement ext 2 p [i, j]
                  (fun s =>
                    forLoopIntM 0 (ord1 + 1)
                      (fun s jj =>
                        forLoopIntM 0 (ord0 + 1)
                          (fun s ii =>
                            addConnection (ext.DofMap (ops.at2 p2g (i + ii) (j + jj))) s) s)
                      s) s
              else .ok s) s
        else .ok s) st.2 with
  | .error e => .error e
  | .ok s => .ok (p2g, s)

/-- `NURBSExtension::Generate2DElementDofTable()`. -/
def Generate2DElementDofTable (ops : PatchMapOps) (ext : NURBSExtension) :
    Except Fault NURBSExtension :=
  match forLoopM 0 ext.GetNP (gen2Patch ops ext) ({}, ext.startTable 2) with
  | .error e => .error e
  | .ok st => .ok (ext.finishTable st.2)

/-- The body of the loop over the patches `p` in `Generate3DElementDofTable`. -/
def gen3Patch (ops : PatchMapOps) (ext : NURBSExtension)
    (st : NURBSPatchMap × ElemTableState) (p : Nat) :
    Except Fault (NURBSPatchMap × ElemTableState) :=
  let r := ext.SetPatchDofMap st.1 p
  let p2g := r.1
  let kv := r.2
  let ord0 : Int := (kvAt kv 0).GetOrder
  let ord1 : Int := (kvAt kv 1).GetOrder
  let ord2 : Int := (kvAt kv 2).GetOrder
  match forLoopIntM 0 (kvAt kv 2).GetNKS
      (fun (s : ElemTableState) k =>
        if (kvAt kv 2).isElement k then
          forLoopIntM 0 (kvAt kv 1).GetNKS
            (fun (s : ElemTableState) j =>
              if (kvAt kv 1).isElement j then
                forLoopIntM 0 (kvAt kv 0).GetNKS
                  (fun (s : ElemTableState) i =>
                    if (kvAt kv 0).isElement i then
                      visitElement ext 3 p [i, j, k]
                        (fun s =>
                          forLoopIntM 0 (ord2 + 1)
                            (fun s kk =>
                              forLoopIntM 0 (ord1 + 1)
                                (fun s jj =>
                                  forLoopIntM 0 (ord0 + 1)
                                    (fun s ii =>
                                      addConnection
                                        (ext.DofMap (ops.at3 p2g (i + ii) (j + jj) (k + kk)))
                                        s) s) s) s) s
                    else .ok s) s
              else .ok s) s
        else .ok s) st.2 with
  | .error e => .error e
  | .ok s => .ok (p2g, s)

/-- `NURBSExtension::Generate3DElementDofTable()`. -/
def Generate3DElementDofTable (ops : PatchMapOps) (ext : NURBSExtension) :
    Except Fault NURBSExtension :=
  match forLoopM 0 ext.GetNP (gen3Patch ops ext) ({}, ext.startTable 3) with
  | .error e => .error e
  | .ok st => .ok (ext.finishTable st.2)

/-- The statement `patch_to_el[i].Append(e)` on a `std::vector` (no bounds check; an index
outside the vector is not modelled and leaves it as it is). -/
def appendTo (a : List (List Int)) (i : Int) (e : Int) : List (List Int) :=
  if 0 ≤ i then
    match a[i.toNat]? with
    | some row => a.set i.toNat (row ++ [e])
    | none => a
  else a

/-- `NURBSExtension::SetPatchToElements()`. -/
def SetPatchToElements (ext : NURBSExtension) : NURBSExtension :=
  let np := ext.GetNP
  let pe := ext.patch_to_el.take np ++ List.replicate (np - ext.patch_to_el.length) []
  { ext with
    patch_to_el := forLoop 0 ext.el_to_patch.length
      (fun a e => appendTo a (rdI ext.el_to_patch e) e) pe }

/-- The first part of `GenerateElementDofTable`, up to the call of `SetPatchToElements`:
`activeDof` is resized and zeroed and the table of the dimension is generated, with the
dof indices of the global numbering. -/
def markElementDofs (ops : PatchMapOps) (ext : NURBSExtension) : Except Fault NURBSExtension :=
  let ext := { ext with activeDof := List.replicate ext.GetNTotalDof.toNat 0 }
  if ext.Dimension = 1 then Generate1DElementDofTable ops ext
  else if ext.Dimension = 2 then Generate2DElementDofTable ops ext
  else Generate3DElementDofTable ops ext

/-- The loop of `GenerateElementDofTable` that numbers the active dofs: the new `activeDof`
and `NumOfActiveDofs`. -/
def numberActiveDofs (ext : NURBSExtension) : Except Fault (List Int × Int) :=
  forLoopIntM 0 ext.GetNTotalDof
    (fun (s : List Int × Int) d =>
      match rdIChk s.1 d with
      | .error e => .error e
      | .ok a =>
        if a ≠ 0 then
          match wrIChk s.1 d (s.2 + 1) with
          | .error e => .error e
          | .ok a1 => .ok (a1, s.2 + 1)
        else .ok s) (ext.activeDof, 0)

/-- `NURBSExtension::GenerateElementDofTable()`. -/
def GenerateElementDofTable (ops : PatchMapOps) (ext : NURBSExtension) :
    Except Fault NURBSExtension :=
  match markElementDofs ops ext with
  | .error e => .error e
  | .ok ext =>
    let ext := ext.SetPatchToElements
    match ext.numberActiveDofs with
    | .error e => .error e
    | .ok r =>
      match ext.el_dof.mapJ
          (fun d =>
            match rdIChk r.1 d with
            | .error e => .error e
            | .ok x => .ok (x - 1)) with
      | .error e => .error e
      | .ok t => .ok { ext with activeDof := r.1, NumOfActiveDofs := r.2, el_dof := t }

/-- The elements of patch `p` in the order of the loops of `Generate1DElementDofTable`,
...: the indices `i`, `(i, j)` or `(i, j, k)` of the non-empty knot spans, each with the
dofs `DofMap(p2g(i+ii, ...))` of its stencil in the order of the stencil loops. -/
def patchStencils (ops : PatchMapOps) (ext : NURBSExtension) (p : Nat) :
    List (List Int × List Int) :=
  let m := ext.dofMapOf p
  let kv := (ext.SetPatchDofMap {} (p : Int)).2
  let el (d : Int) : List Nat :=
    (List.range (kvAt kv d).GetNKS.toNat).filter (fun (i : Nat) => (kvAt kv d).isElement i)
  let o (d : Int) : List Nat := List.range ((kvAt kv d).GetOrder + 1)
  if ext.Dimension = 1 then
    (el 0).map (fun (i : Nat) =>
      ([(i : Int)], (o 0).map (fun (ii : Nat) => ext.DofMap (ops.at1 m ((i : Int) + ii)))))
  else if ext.Dimension = 2 then
    (el 1).flatMap (fun (j : Nat) =>
      (el 0).map (fun (i : Nat) =>
        ([(i : Int), (j : Int)],
          (o 1).flatMap (fun (jj : Nat) =>
            (o 0).map (fun (ii : Nat) =>
              ext.DofMap (ops.at2 m ((i : Int) + ii) ((j : Int) + jj)))))))
  else
    (el 2).flatMap (fun (k : Nat) =>
      (el 1).flatMap (fun (j : Nat) =>
        (el 0).map (fun (i : Nat) =>
          ([(i : Int), (j : Int), (k : Int)],
            (o 2).flatMap (fun (kk : Nat) =>
              (o 1).flatMap (fun (jj : Nat) =>
                (o 0).map (fun (ii : Nat) =>
                  ext.DofMap
                    (ops.at3 m ((i : Int) + ii) ((j : Int) + jj) ((k : Int) + kk)))))))))

/-- The elements of all patches, patch after patch, each with its patch, its indices and
the dofs of its stencil: entry `eg` is the element with the global number `eg`. -/
def allStencils (ops : PatchMapOps) (ext : NURBSExtension) :
    List (Int × List Int × List Int) :=
  (List.range ext.GetNP).flatMap
    (fun (p : Nat) => (patchStencils ops ext p).map (fun s => ((p : Int), s)))

/-- The entries of a list whose flags `act[g], act[g+1], ...` are set. -/
def activeFrom {α : Type} (act : List Bool) : Nat → List α → List α
  | _, [] => []
  | g, v :: rest =>
    if act.getD g false then v :: activeFrom act (g + 1) rest else activeFrom act (g + 1) rest

/-- The connections `(e, d)`, `(e+1, d)`, ... of a list of stencils: those of the first
stencil, then those of the second, ... -/
def connList : Int → List (List Int) → List (Int × Int)
  | _, [] => []
  | e, ds :: rest => ds.map (fun d => (e, d)) ++ connList (e + 1) rest

/-- The number of dofs in the stencil of an element of patch `p`: the product of
`Order + 1` over the directions of the patch. -/
def stencilSize (ext : NURBSExtension) (p : Int) : Nat :=
  let kv := (ext.SetPatchDofMap {} p).2
  if ext.Dimension = 1 then (kvAt kv 0).GetOrder + 1
  else if ext.Dimension = 2 then ((kvAt kv 0).GetOrder + 1) * ((kvAt kv 1).GetOrder + 1)
  else ((kvAt kv 0).GetOrder + 1) * ((kvAt kv 1).GetOrder + 1) * ((kvAt kv 2).GetOrder + 1)

/-- A single quadrilateral patch with the knot vector `[0,0,1,2,3,3]` in both directions
whose `4 x 4` control points are the dofs `0, ..., 15`, first index fastest (with the index
operators `exOps`); `9` elements, all but the element `4` in the middle active. -/
def exSquareCells : NURBSExtension :=
  { exSquareThree with
    p_spaceOffsets := [0], NumOfDofs := 16, NumOfElements := 9, NumOfActiveElems := 8,
    NumOfActiveDofs := 16,
    activeElem := [true, true, true, true, false, true, true, true, true],
    activeDof := List.replicate 16 0 }

/-- The segment `exSegmentExt` with its first element inactive. -/
def exSegmentHalf : NURBSExtension :=
  { exSegmentExt with activeElem := [false, true], NumOfActiveElems := 1 }

end NURBSExtension

/-! ## Active elements of a parallel extension -/

/-- Bounds-checked read `a[i]` of an `Array<bool>`. -/
def rdBChk (v : List Bool) (i : Int) : Except Fault Bool :=
  if 0 ≤ i ∧ i.toNat < v.length then .ok (v.getD i.toNat false) else .error .outOfBounds

/-- Bounds-checked write `a[i] = x` of an `Array<bool>`. -/
def wrBChk (v : List Bool) (i : Int) (x : Bool) : Except Fault (List Bool) :=
  if 0 ≤ i ∧ i.toNat < v.length then .ok (v.set i.toNat x) else .error .outOfBounds

namespace NURBSExtension

/-- Modelled from the spec: the inline accessor `GetGNE()` is declared in the header; it is
the global number of elements `NumOfElements`. -/
def GetGNE (ext : NURBSExtension) : Int := ext.NumOfElements

/-- Modelled from the spec: the inline accessor `GetGNBE()` is declared in the header; it is
the global number of boundary elements `NumOfBdrElements`. -/
def GetGNBE (ext : NURBSExtension) : Int := ext.NumOfBdrElements

/-- The body of the first loop of `SetActive`, on `(activeElem, NumOfActiveElems)`; the
partitioning is a plain pointer and is read unchecked. -/
def setActiveElem (MyRank : Int) (partitioning_ : List Int) (s : List Bool × Int) (i : Int) :
    Except Fault (List Bool × Int) :=
  if rdI partitioning_ i = MyRank then
    match wrBChk s.1 i true with
    | .error e => .error e
    | .ok a => .ok (a, s.2 + 1)
  else .ok s

/-- The body of the second loop of `SetActive`, on `NumOfActiveBdrElems`. -/
def countActiveBdr (activeBdrElem : List Bool) (n : Int) (i : Int) : Except Fault Int :=
  match rdBChk activeBdrElem i with
  | .error e => .error e
  | .ok b => .ok (if b = true then n + 1 else n)

/-- `ParNURBSExtension::SetActive(partitioning_, active_bel)`; `MyRank` is the value of
`gtopo.MyRank()`. -/
def SetActive (MyRank : Int) (ext : NURBSExtension) (partitioning_ : List Int)
    (active_bel : List Bool) : Except Fault NURBSExtension :=
  let activeElem : List Bool := List.replicate ext.GetGNE.toNat false
  match forLoopIntM 0 ext.GetGNE (setActiveElem MyRank partitioning_) (activeElem, 0) with
  | .error e => .error e
  | .ok s =>
    let activeBdrElem := active_bel
    match forLoopIntM 0 ext.GetGNBE (countActiveBdr activeBdrElem) 0 with
    | .error e => .error e
    | .ok n =>
      .ok { ext with activeElem := s.1, NumOfActiveElems := s.2,
                     activeBdrElem := activeBdrElem, NumOfActiveBdrElems := n }

/-- Four global elements and three boundary elements, before the partitioning is set. -/
def exFourElements : NURBSExtension :=
  { patchTopo := exSquareTopo, NumOfElements := 4, NumOfBdrElements := 3 }

end NURBSExtension

/-! ## Derivatives of the shape functions -/

namespace KnotVector

/-- Entry `[r][c]` of a scratch array with rows of `MaxOrder + 1` entries
(`ndu[MaxOrder+1][MaxOrder+1]`, `a[2][MaxOrder+1]`), stored row by row. -/
def rd2 (a : List ℚ) (r c : Int) : ℚ := rd a (r * ((MaxOrder : Int) + 1) + c)

/-- The assignment `a[r][c] = x` of a scratch array with rows of `MaxOrder + 1` entries. -/
def wr2 (a : List ℚ) (r c : Int) (x : ℚ) : List ℚ := wr a (r * ((MaxOrder : Int) + 1) + c) x

/-- The state of the first loop of `CalcDShape` and `CalcDnShape`: the scratch arrays `ndu`,
`left` and `right`. -/
structure DShapeState where
  ndu : List ℚ
  left : List ℚ
  right : List ℚ

/-- The body of the inner loop `for (r = 0; r < j; r++)` of the first loop of `CalcDShape`,
on the pair `(ndu, saved)`. -/
def dshapeInner (left right : List ℚ) (j : Nat) (st : List ℚ × ℚ) (r : Nat) : List ℚ × ℚ :=
  let ndu := wr2 st.1 j r (rd right ((r : Int) + 1) + rd left ((j : Int) - (r : Int)))
  let temp := rd2 ndu r ((j : Int) - 1) / rd2 ndu j r
  (wr2 ndu r j (st.2 + rd right ((r : Int) + 1) * temp), rd left ((j : Int) - (r : Int)) * temp)

/-- The body of the loop `for (j = 1; j <= p; j++)` of `CalcDShape`. -/
def dshapeOuter (kv : KnotVector) (ip : Int) (u : ℚ) (st : DShapeState) (j : Nat) :
    DShapeState :=
  let left := wr st.left j (u - kv.get (ip - (j : Int) + 1))
  let right := wr st.right j (kv.get (ip + (j : Int)) - u)
  let res := forLoop 0 j (dshapeInner left right j) (st.ndu, 0)
  { ndu := wr2 res.1 j j res.2, left := left, right := right }

/-- The array `ndu` after the first loop of `CalcDShape` and of `CalcDnShape` (the two loops
are the same); the scratch arrays are not initialised by the source (`0` here). -/
def basisTable (kv : KnotVector) (ip : Int) (u : ℚ) : List ℚ :=
  let st : DShapeState :=
    { ndu := wr2 (List.replicate ((MaxOrder + 1) * (MaxOrder + 1)) 0) 0 0 1
      left := List.replicate (MaxOrder + 1) 0
      right := List.replicate (MaxOrder + 1) 0 }
  (forLoop 1 (kv.Order + 1) (dshapeOuter kv ip u) st).ndu

/-- The body of the loop `for (r = 0; r <= p; ++r)` of `CalcDShape`, on `grad`. -/
def dshapeGrad (p : Int) (ndu : List ℚ) (grad : List ℚ) (r : Nat) : List ℚ :=
  let rk : Int := (r : Int) - 1
  let pk : Int := p - 1
  let d : ℚ := if (r : Int) ≥ 1 then rd2 ndu rk pk / rd2 ndu p rk else 0
  let d : ℚ := if (r : Int) ≤ pk then d - rd2 ndu r pk / rd2 ndu p r else d
  wr grad r d

/-- The computation of `KnotVector::CalcDShape` with unchecked accesses. -/
def CalcDShapeCore (kv : KnotVector) (grad : List ℚ) (i : Int) (xi : ℚ) : List ℚ :=
  let p : Int := kv.Order
  let ip : Int := if i ≥ 0 then i + p else -1 - i + p
  let u := kv.getKnotLocation (if i ≥ 0 then xi else 1 - xi) ip
  let ndu := kv.basisTable ip u
  let grad := forLoop 0 (kv.Order + 1) (dshapeGrad p ndu) grad
  let c : ℚ :=
    if i ≥ 0 then (p : ℚ) * (kv.get (ip + 1) - kv.get ip)
    else (p : ℚ) * (kv.get ip - kv.get (ip + 1))
  grad.map (fun x => x * c)

/-- `KnotVector::CalcDShape(grad, i, xi)`, returning the vector `grad`.  The test
`p > MaxOrder` is compiled in debug builds only (`debug = true`).  The function indexes
`ndu`, `left` and `right` up to `Order` and `grad` at `0, ..., Order`; outside the debug
check these accesses are within bounds exactly when `Order ≤ MaxOrder` and `grad` has at
least `Order + 1` entries, otherwise the call fails with `Fault.outOfBounds`. -/
def CalcDShape (debug : Bool) (kv : KnotVector) (grad : List ℚ) (i : Int) (xi : ℚ) :
    Except Fault (List ℚ) :=
  if debug = true ∧ kv.Order > MaxOrder then .error .fatal
  else if ¬ kv.Order ≤ MaxOrder ∨ grad.length < kv.Order + 1 then .error .outOfBounds
  else .ok (CalcDShapeCore kv grad i xi)

/-- The state of the loop over `k` of `CalcDnShape`: the scratch array `a`, the row indices
`s1` and `s2`, and the output vector. -/
structure DnState where
  a : List ℚ
  s1 : Int
  s2 : Int
  gradn : List ℚ

/-- The body of the loop `for (j = j1; j <= j2; j++)` of `CalcDnShape`, on the pair
`(a, d)`. -/
def dnInner (ndu : List ℚ) (pk rk s1 s2 : Int) (st : List ℚ × ℚ) (j : Int) : List ℚ × ℚ :=
  let a := wr2 st.1 s2 j ((rd2 st.1 s1 j - rd2 st.1 s1 (j - 1)) / rd2 ndu (pk + 1) (rk + j))
  (a, st.2 + rd2 a s2 j * rd2 ndu (rk + j) pk)

/-- The body of the loop `for (k = 1; k <= n; k++)` of `CalcDnShape`. -/
def dnStep (p : Int) (ndu : List ℚ) (r : Int) (st : DnState) (k : Int) : DnState :=
  let rk := r - k
  let pk := p - k
  let s1 := st.s1
  let s2 := st.s2
  let ad0 : List ℚ × ℚ :=
    if r ≥ k then
      let a := wr2 st.a s2 0 (rd2 st.a s1 0 / rd2 ndu (pk + 1) rk)
      (a, rd2 a s2 0 * rd2 ndu rk pk)
    else (st.a, 0)
  let j1 : Int := if rk ≥ -1 then 1 else -rk
  let j2 : Int := if r - 1 ≤ pk then k - 1 else p - r
  let ad1 := forLoopInt j1 (j2 + 1) (dnInner ndu pk rk s1 s2) ad0
  let j : Int := if j1 ≤ j2 then j2 + 1 else j1
  let ad2 : List ℚ × ℚ :=
    if r ≤ pk then
      let a := wr2 ad1.1 s2 k (- rd2 ad1.1 s1 (k - 1) / rd2 ndu (pk + 1) r)
      (a, ad1.2 + rd2 a s2 j * rd2 ndu (rk + j) pk)
    else ad1
  { a := ad2.1, s1 := s2, s2 := s1, gradn := wr st.gradn r ad2.2 }

/-- The body of the loop `for (r = 0; r <= p; r++)` of `CalcDnShape`, on the pair
`(a, gradn)`. -/
def dnOuter (p : Int) (ndu : List ℚ) (n : Int) (st : List ℚ × List ℚ) (r : Nat) :
    List ℚ × List ℚ :=
  let st0 : DnState := { a := wr2 st.1 0 0 1, s1 := 0, s2 := 1, gradn := st.2 }
  let st1 := forLoopInt 1 (n + 1) (dnStep p ndu r) st0
  (st1.a, st1.gradn)

/-- The computation of `KnotVector::CalcDnShape` with unchecked accesses. -/
def CalcDnShapeCore (kv : KnotVector) (gradn : List ℚ) (n : Int) (i : Int) (xi : ℚ) :
    List ℚ :=
  let p : Int := kv.Order
  let ip : Int := if i ≥ 0 then i + p else -1 - i + p
  let u := kv.getKnotLocation (if i ≥ 0 then xi else 1 - xi) ip
  let ndu := kv.basisTable ip u
  let res := forLoop 0 (kv.Order + 1) (dnOuter p ndu n)
    (List.replicate (2 * (MaxOrder + 1)) 0, gradn)
  let u : ℚ := if i ≥ 0 then kv.get (ip + 1) - kv.get ip else kv.get ip - kv.get (ip + 1)
  let temp : ℚ := forLoopInt 1 n (fun (t : ℚ) k => t * (((p - k : Int) : ℚ) * u)) ((p : ℚ) * u)
  forLoop 0 (kv.Order + 1) (fun g j => wr g j (rd g j * temp)) res.2

/-- `KnotVector::CalcDnShape(gradn, n, i, xi)`, returning the vector `gradn`.  The test
`p > MaxOrder` is compiled in debug builds only (`debug = true`).  The function indexes
`a`, `ndu`, `left` and `right` up to `Order` and `gradn` at `0, ..., Order`; outside the
debug check these accesses are within bounds exactly when `Order ≤ MaxOrder` and `gradn`
has at least `Order + 1` entries, otherwise the call fails with `Fault.outOfBounds`. -/
def CalcDnShape (debug : Bool) (kv : KnotVector) (gradn : List ℚ) (n : Int) (i : Int)
    (xi : ℚ) : Except Fault (List ℚ) :=
  if debug = true ∧ kv.Order > MaxOrder then .error .fatal
  else if ¬ kv.Order ≤ MaxOrder ∨ gradn.length < kv.Order + 1 then .error .outOfBounds
  else .ok (CalcDnShapeCore kv gradn n i xi)

/-- A knot vector of order 11 with 12 control points on `[0, 1]`. -/
def exOrderEleven : KnotVector :=
  { knot := List.replicate 12 0 ++ List.replicate 12 1, Order := 11, NumOfControlPoints := 12,
    NumOfElements := 1 }

end KnotVector

namespace NURBSExtension

/-- A knot vector of order 2 with one element, `[0,0,0,1,1,1]`. -/
def exKVQuadratic : KnotVector :=
  { knot := [0, 0, 0, 1, 1, 1], Order := 2, NumOfControlPoints := 3, NumOfElements := 1 }

/-- The single quadrilateral patch with the knot vector `kvx` on its bottom and top edges
and `kvy` on its right and left edges, after `GenerateOffsets`, with its four boundary edges
as boundary patches with the attributes `1, 2, 3, 4` (bottom, right, top, left). -/
def exSquareWith (kvx kvy : KnotVector) : NURBSExtension :=
  { GenerateOffsets
      { patchTopo := exSquareTopo, edge_to_knot := [0, 1, -1, -2],
        knotVectors := [kvx, kvy], knotVectorsCompr := [kvx, kvy] } with
    patchTopo :=
      { exSquareTopo with
        bdrVertices := [[0, 1], [1, 2], [3, 2], [0, 3]]
        bdrEdges := [[0], [1], [2], [3]]
        bdrEdgeOrient := [[1], [1], [-1], [-1]]
        bdrAttribute := [1, 2, 3, 4] } }

/-- The array `d_to_d` before the boundaries are connected: every dof maps to itself. -/
def identityDofs (ext : NURBSExtension) : List Int :=
  (List.range ext.NumOfDofs.toNat).map (fun (i : Nat) => (i : Int))

end NURBSExtension

/-! ## Ownership of the patch topology -/

/-- The statements of a constructor of `NURBSExtension` or `ParNURBSExtension` that do not
concern the ownership of the patch topology: they fill the other fields of the new extension
from the parent (and, in the constructor that steals all data, empty the parent), call
functions of the classes `Mesh` and `GroupTopology`, which are not among the sources, and can
fail.  Given the parent and the new extension they return the new extension and the
parent. -/
abbrev CtorRest : Type :=
  NURBSExtension → NURBSExtension → Except Fault (NURBSExtension × NURBSExtension)

namespace NURBSExtension

/-- The number of extensions of a list that own the patch topology. -/
def ownerCount (exts : List NURBSExtension) : Nat :=
  exts.countP (fun e => e.own_topo)

/-- The constructor `NURBSExtension(NURBSExtension *parent, int newOrder)`: the new extension
borrows the patch topology.  The result is the new extension and the parent. -/
def withOrder (rest : CtorRest) (parent : NURBSExtension) :
    Except Fault (NURBSExtension × NURBSExtension) :=
  let child : NURBSExtension := { patchTopo := parent.patchTopo, own_topo := false }
  rest parent child

/-- The constructor `NURBSExtension(NURBSExtension *parent, const Array<int> &newOrders)`:
the new extension borrows the patch topology (the two statements on the orders that come
first are part of `rest`).  The result is the new extension and the parent. -/
def withOrders (rest : CtorRest) (parent : NURBSExtension) :
    Except Fault (NURBSExtension × NURBSExtension) :=
  let child : NURBSExtension := { patchTopo := parent.patchTopo, own_topo := false }
  rest parent child

/-- The constructor `NURBSExtension(Mesh *mesh_array[], int num_pieces)`, where `parent` is
`mesh_array[0]->NURBSext`: the new extension takes the patch topology over from the parent,
which must own it.  The result is the new extension and the parent. -/
def fromMeshArray (rest : CtorRest) (parent : NURBSExtension) :
    Except Fault (NURBSExtension × NURBSExtension) :=
  if parent.own_topo = false then .error .fatal
  else
    let child : NURBSExtension := { patchTopo := parent.patchTopo, own_topo := true }
    let parent := { parent with own_topo := false }
    rest parent child

/-- The constructor `ParNURBSExtension(MPI_Comm comm, NURBSExtension *parent, int *part,
const Array<bool> &active_bel)`: all elements of the parent must be active, and the new
extension takes the patch topology over from the parent, which must own it.  The result is
the new extension and the parent. -/
def parFromSerial (rest : CtorRest) (parent : NURBSExtension) :
    Except Fault (NURBSExtension × NURBSExtension) :=
  if parent.NumOfActiveElems < parent.NumOfElements then .error .fatal
  else if parent.own_topo = false then .error .fatal
  else
    let child : NURBSExtension := { patchTopo := parent.patchTopo, own_topo := true }
    let parent := { parent with own_topo := false }
    rest parent child

/-- The constructor `ParNURBSExtension(NURBSExtension *parent, const ParNURBSExtension
*par_parent)`: the new extension takes all data of the parent, with its ownership flag (the
assignment of `mOrder` and the swap of `mOrders` that come first are part of `rest`).  The
result is the new extension and the parent. -/
def parFromParent (rest : CtorRest) (parent : NURBSExtension) :
    Except Fault (NURBSExtension × NURBSExtension) :=
  let child : NURBSExtension := { patchTopo := parent.patchTopo, own_topo := parent.own_topo }
  let parent := { parent with own_topo := false }
  rest parent child

/-- The other statements of a constructor, for the examples: the counts of elements are
copied from the parent. -/
def exRest : CtorRest :=
  fun parent child =>
    .ok ({ child with NumOfElements := parent.NumOfElements,
                      NumOfBdrElements := parent.NumOfBdrElements }, parent)

end NURBSExtension

/-! ## Flipping and swapping the directions of a patch -/

namespace KnotVector

/-- `KnotVector::Flip`: the interior knots are mirrored about the midpoint of the first and
the last knot. -/
def Flip (kv : KnotVector) : KnotVector :=
  let apb : ℚ := kv.get 0 + kv.get ((kv.Size : Int) - 1)
  let ns : Int := Int.tdiv ((kv.NumOfControlPoints : Int) - (kv.Order : Int)) 2
  forLoopInt 1 (ns + 1)
    (fun k i =>
      let tmp : ℚ := apb - k.get ((k.Order : Int) + i)
      let k := k.set ((k.Order : Int) + i) (apb - k.get ((k.NumOfControlPoints : Int) - i))
      k.set ((k.NumOfControlPoints : Int) - i) tmp) kv

end KnotVector

namespace NURBSPatch

/-- The template function `Swap<double>(a, b)` on two entries of a buffer. -/
def swapEntries (d : List ℚ) (a b : Int) : List ℚ :=
  let c := rd d a
  wr (wr d a (rd d b)) b c

/-- `NURBSPatch::FlipDirection(dir)`; the offset addressed by `slice(i,j)` is the parameter
`slice`, as for `KnotInsert`. -/
def FlipDirection (slice : NURBSPatch → Int → Int → Int) (p : NURBSPatch) (dir : Int) :
    Except Fault NURBSPatch :=
  match SetLoopDirection p dir with
  | .error e => .error e
  | .ok (p, size) =>
    let data := forLoopInt 0 (Int.tdiv p.nd 2)
      (fun d id =>
        forLoopInt 0 size
          (fun d i => swapEntries d (slice p id i) (slice p (p.nd - 1 - id) i)) d) p.data
    match p.kv[dir.toNat]? with
    | none => .error .outOfBounds
    | some k => .ok { p with data := data, kv := p.kv.set dir.toNat k.Flip }

/-- `NURBSPatch::SwapDirections(dir1, dir2)`; the offset addressed by `slice(i,j)` is the
parameter `slice`, as for `KnotInsert`.  The result is the patch after `swap(newpatch)`,
which takes `data`, `kv`, `ni`, `nj`, `nk` and `Dim` from the new patch. -/
def SwapDirections (slice : NURBSPatch → Int → Int → Int) (p : NURBSPatch) (dir1 dir2 : Int) :
    Except Fault NURBSPatch :=
  if (dir1 - dir2).natAbs = 2 then .error .fatal
  else if ¬ (0 ≤ dir1 ∧ dir1.toNat < p.kv.length ∧ 0 ≤ dir2 ∧ dir2.toNat < p.kv.length) then
    .error .outOfBounds
  else
    let c := p.kv.getD dir1.toNat (KnotVector.create 0 0)
    let nkv := p.kv.set dir1.toNat (p.kv.getD dir2.toNat (KnotVector.create 0 0))
    let nkv := nkv.set dir2.toNat c
    match init nkv p.Dim with
    | .error e => .error e
    | .ok newp0 =>
    match SetLoopDirection p dir1 with
    | .error e => .error e
    | .ok (oldp, size) =>
    match SetLoopDirection newp0 dir2 with
    | .error e => .error e
    | .ok (newp, _) =>
      let data := forLoopInt 0 oldp.nd
        (fun d id =>
          forLoopInt 0 size
            (fun d i => wr d (slice newp id i) (rd oldp.data (slice oldp id i))) d) newp.data
      .ok { oldp with
            data := data, kv := newp.kv
            ni := newp.ni, nj := newp.nj, nk := newp.nk, Dim := newp.Dim }

/-- A surface with `2 × 3` control points of two components, on the knots `[0,0,2,2]` and
`[0,0,1,2,2]` of order 1. -/
def exGrid : NURBSPatch :=
  { ni := 2, nj := 3, nk := -1, Dim := 2,
    data := [0, 10, 1, 11, 2, 12, 3, 13, 4, 14, 5, 15],
    kv := [KnotVector.exUnit, KnotVector.exTwoElements], nd := -1, ls := 0, sd := -1 }

/-- A knot vector of order 1 with unevenly spaced knots, `[0,0,1,2,4,4]`. -/
def exKVUneven : KnotVector :=
  { knot := [0, 0, 1, 2, 4, 4], Order := 1, NumOfControlPoints := 4, NumOfElements := 3 }

/-- A curve with four control points of one component on the knots `[0,0,1,2,4,4]`. -/
def exUnevenCurve : NURBSPatch :=
  { ni := 4, nj := -1, nk := -1, Dim := 1, data := [5, 6, 7, 8],
    kv := [exKVUneven], nd := -1, ls := 0, sd := -1 }

end NURBSPatch

namespace NURBSPatch

/-- The number of entries of the control-point buffer that `init` allocates. -/
def bufferSize (p : NURBSPatch) : Int :=
  if p.nj = -1 then p.ni * p.Dim
  else if p.nk = -1 then p.ni * p.nj * p.Dim
  else p.ni * p.nj * p.nk * p.Dim

/-- The data invariant of the control-point buffer: every control point has at least one
component, every direction has at least one control point, and the buffer has the size
that `init` allocates. -/
def DataOk (p : NURBSPatch) : Prop :=
  0 < p.Dim ∧ 0 < p.ni ∧ (p.nj = -1 ∨ 0 < p.nj) ∧ (p.nk = -1 ∨ 0 < p.nk) ∧
    (p.data.length : Int) = p.bufferSize

instance (p : NURBSPatch) : Decidable p.DataOk := by
  unfold DataOk; infer_instance

instance (p : NURBSPatch) : Decidable p.DimsOk := by
  unfold DimsOk; split <;> infer_instance

end NURBSPatch

/-! ## Union-find reference for the periodic dof map -/

namespace NURBSExtension

/-- The dof pairs of all master/slave boundary pairs, in the order in which
`ConnectBoundaries` makes the assignments `d_to_d[master dof] = d_to_d[slave dof]`. -/
def allBdrPairs (ops : PatchMapOps) (ext : NURBSExtension) : List (Int × Int) :=
  (List.range ext.master.length).flatMap
    (fun (i : Nat) =>
      bdrPairs ops ext (ext.findBdr (rdI ext.master i)) (ext.findBdr (rdI ext.slave i)))

/-- Reference union-find, following the spec's words (not the source): the representative of
`x` in the forest `parent`, found by following parent links (at most `fuel` of them). -/
def ufFind (parent : List Int) : Nat → Int → Int
  | 0, x => x
  | fuel + 1, x => if rdI parent x = x then x else ufFind parent fuel (rdI parent x)

/-- Reference union-find, following the spec's words (not the source): the union of the
classes of a master dof and a slave dof; the representative of the slave's class becomes the
representative of the union. -/
def ufUnion (parent : List Int) (pr : Int × Int) : List Int :=
  let ra := ufFind parent parent.length pr.1
  let rb := ufFind parent parent.length pr.2
  if ra = rb then parent else wrI parent ra rb

/-- Reference union-find, following the spec's words (not the source): the forest over the
dofs `0, ..., N-1` after the unions of a list of dof pairs. -/
def ufParents (N : Nat) (pairs : List (Int × Int)) : List Int :=
  pairs.foldl ufUnion ((List.range N).map (fun (i : Nat) => (i : Int)))

/-- Reference numbering, following the spec's words (not the source): an explicit union-find
over the dof pairs followed by canonical-representative compaction: the representatives are
numbered in increasing order and every dof receives the number of its representative. -/
def ufNumbering (N : Nat) (pairs : List (Int × Int)) : List Int :=
  let parent := ufParents N pairs
  (List.range N).map
    (fun (x : Nat) =>
      (((List.range (ufFind parent N (x : Int)).toNat).filter
        (fun (y : Nat) => decide (ufFind parent N (y : Int) = (y : Int)))).length : Int))

/-- Two segments joined end to end, each with the knot vector `[0,0,1,1]`, after
`GenerateOffsets`: three dofs, one for each end point; the three end points are boundary
patches with the attributes `1, 2, 3`. -/
def exThreePoints : NURBSExtension :=
  { GenerateOffsets { exTwoSegments with knotVectors := [exKVOne, exKVOne],
                                         knotVectorsCompr := [exKVOne, exKVOne] } with
    patchTopo :=
      { exTwoSegments.patchTopo with
        bdrVertices := [[0], [1], [2]]
        bdrAttribute := [1, 2, 3] } }

/-- The boundaries of `exThreePoints` chained: point `1` is the master of point `2`, and
point `2` is the master of point `3`. -/
def exChained : NURBSExtension :=
  { exThreePoints with master := [1, 2], slave := [2, 3] }

/-- The boundaries of `exThreePoints` with one master for two slaves: point `1` is the
master of point `2` and of point `3`. -/
def exTwoSlaves : NURBSExtension :=
  { exThreePoints with master := [1, 1], slave := [2, 3] }

/-- The boundaries of `exThreePoints` with two masters for one slave: points `1` and `2`
are masters of point `3`. -/
def exTwoMasters : NURBSExtension :=
  { exThreePoints with master := [1, 2], slave := [3, 3] }

end NURBSExtension

/-! ## Consistency of the unique and the comprehensive knot vectors -/

namespace NURBSExtension

/-- The body of the first loop over the edges of `CheckKVDirection`, on `kvdir`. -/
def kvDirStep (ext : NURBSExtension) (patchvert edges : List Int) (kvdir : List Int)
    (i : Nat) : List Int :=
  let edgevert := rdL ext.patchTopo.edgeVertices (rdI edges i)
  let kvdir :=
    if rdI edgevert 0 = rdI patchvert 0 ∧ rdI edgevert 1 = rdI patchvert 1 then wrI kvdir 0 1
    else kvdir
  let kvdir :=
    if rdI edgevert 0 = rdI patchvert 1 ∧ rdI edgevert 1 = rdI patchvert 0 then wrI kvdir 0 (-1)
    else kvdir
  let kvdir :=
    if rdI edgevert 0 = rdI patchvert 1 ∧ rdI edgevert 1 = rdI patchvert 2 then wrI kvdir 1 1
    else kvdir
  if rdI edgevert 0 = rdI patchvert 2 ∧ rdI edgevert 1 = rdI patchvert 1 then wrI kvdir 1 (-1)
  else kvdir

/-- The body of the second loop over the edges of `CheckKVDirection` (three dimensions), on
`kvdir`. -/
def kvDirStep3 (ext : NURBSExtension) (patchvert edges : List Int) (kvdir : List Int)
    (i : Nat) : List Int :=
  let edgevert := rdL ext.patchTopo.edgeVertices (rdI edges i)
  let kvdir :=
    if rdI edgevert 0 = rdI patchvert 0 ∧ rdI edgevert 1 = rdI patchvert 4 then wrI kvdir 2 1
    else kvdir
  if rdI edgevert 0 = rdI patchvert 4 ∧ rdI edgevert 1 = rdI patchvert 0 then wrI kvdir 2 (-1)
  else kvdir

/-- `NURBSExtension::CheckKVDirection(p, kvdir)`, returning `kvdir`. -/
def CheckKVDirection (ext : NURBSExtension) (p : Int) : Except Fault (List Int) :=
  if ¬ ext.Dimension > 1 then .error .fatal
  else
    let kvdir : List Int := List.replicate ext.Dimension.toNat 0
    let patchvert := rdL ext.patchTopo.elementVertices p
    let edges := rdL ext.patchTopo.elementEdges p
    let kvdir := forLoop 0 edges.length (kvDirStep ext patchvert edges) kvdir
    let kvdir :=
      if ext.Dimension = 3 then forLoop 0 edges.length (kvDirStep3 ext patchvert edges) kvdir
      else kvdir
    if (0 : Int) ∈ kvdir then .error .fatal else .ok kvdir

/-- The body of the loop over the directions `d` of `ConsistentKVSets`.  The state is
`true` while no `return false` has been reached; after a `return false` nothing more is
done.  The two calls of `Flip` around `Difference` act on `knotVectorsCompr[icomp]`, which
no other step of the loops reads, so the flipped knot vector is a local value here. -/
def consistentDir (ext : NURBSExtension) (edges kvdir e : List Int) (p : Int) (ok : Bool)
    (d : Int) : Except Fault Bool :=
  if ok = false then .ok false
  else
    let iun := rdI edges (rdI e d)
    let icomp := ext.Dimension * p + d
    let o1 : Int := (ext.KnotVec iun).GetOrder
    let o2 : Int := (ext.comprKV icomp).GetOrder
    let diffo := (o1 - o2).natAbs
    if diffo ≠ 0 then .ok false
    else
      let kvc := if rdI kvdir d = -1 then (ext.comprKV icomp).Flip else ext.comprKV icomp
      match (ext.KnotVec iun).Difference kvc with
      | .error f => .error f
      | .ok diff => if diff.length > 0 then .ok false else .ok true

/-- The body of the loop over the patches `p` of `ConsistentKVSets`. -/
def consistentPatch (ext : NURBSExtension) (e : List Int) (ok : Bool) (p : Nat) :
    Except Fault Bool :=
  if ok = false then .ok false
  else
    let edges := rdL ext.patchTopo.elementEdges p
    match ext.CheckKVDirection p with
    | .error f => .error f
    | .ok kvdir => forLoopIntM 0 ext.Dimension (consistentDir ext edges kvdir e p) true

/-- The array `e` of `ConsistentKVSets`: for every direction the position, among the edges
of a patch, of the edge that carries the knot vector of the direction. -/
def kvEdges (ext : NURBSExtension) : List Int :=
  let e : List Int := wrI (List.replicate ext.Dimension.toNat 0) 0 0
  if ext.Dimension = 2 then wrI e 1 1
  else if ext.Dimension = 3 then wrI (wrI e 1 3) 2 8
  else e

/-- `NURBSExtension::ConsistentKVSets()`. -/
def ConsistentKVSets (ext : NURBSExtension) : Except Fault Bool :=
  if ¬ ext.Dimension > 1 then .error .fatal
  else forLoopM 0 ext.GetNP (consistentPatch ext ext.kvEdges) true

/-- The single quadrilateral patch with its four edges given by their vertices, the unique
knot vectors `u0, u1` and the comprehensive knot vectors `c0, c1`. -/
def exKVSets (u0 u1 c0 c1 : KnotVector) : NURBSExtension :=
  { patchTopo := { exSquareTopo with edgeVertices := [[0, 1], [1, 2], [3, 2], [0, 3]] },
    edge_to_knot := [0, 1, -1, -2],
    knotVectors := [u0, u1], knotVectorsCompr := [c0, c1] }

/-- The knots `[0,0,1,2,2]` of `exTwoElements` with the interior knot moved to
`1 - 2^-53`. -/
def exKVNear : KnotVector :=
  { knot := [0, 0, 1 - 1 / 2 ^ 53, 2, 2], Order := 1, NumOfControlPoints := 3,
    NumOfElements := 2 }

/-- The knots `[0,0,1,2,2]` of `exTwoElements` with the interior knot moved to `3/2`. -/
def exKVMoved : KnotVector :=
  { knot := [0, 0, 3 / 2, 2, 2], Order := 1, NumOfControlPoints := 3, NumOfElements := 2 }

end NURBSExtension

/-! ## The data invariant of knot vectors -/

namespace KnotVector

/-- The number of indices `i` in `[Order, NumOfControlPoints)` with `knot(i) ≠ knot(i+1)`. -/
def spanCount (kv : KnotVector) : Nat :=
  (List.range' kv.Order (kv.NumOfControlPoints - kv.Order)).countP
    (fun (i : Nat) => decide (kv.get i ≠ kv.get (i + 1)))

/-- The data invariant of the class as the spec states it: there are `NCP + Order + 1`
knots, they are non-decreasing, and the stored `NumOfElements` is the number of indices `i`
in `[Order, NCP)` with `knot(i) ≠ knot(i+1)`. -/
def Valid (kv : KnotVector) : Prop :=
  kv.SizeOk ∧ kv.NonDecreasing ∧ kv.NumOfElements = kv.spanCount

instance (kv : KnotVector) : Decidable kv.Valid := by
  unfold Valid; infer_instance

/-- The constructor `KnotVector(std::istream &input)`, for a stream that holds the order, the
number of control points and then the numbers `input`.  Modelled from the spec:
`Vector::Load(input, n)` is declared in `linalg/vector.hpp`, which is not among the sources;
it sizes the vector to `n` entries and reads them from the stream in order (entries for which
the stream has no number are `0` here). -/
def ofStream (Order_ NCP : Nat) (input : List ℚ) : KnotVector :=
  GetElements
    { knot := setSize (input.take (NCP + Order_ + 1)) ((NCP + Order_ + 1 : Nat) : Int)
      Order := Order_
      NumOfControlPoints := NCP
      NumOfElements := 0 }

end KnotVector

/-- The knot vector `nkv` built in `Interpolate(NURBSPatch &p1, NURBSPatch &p2)`:
`KnotVector(1, 2)` with the knots `0, 0, 1, 1`, followed by `GetElements()`. -/
def interpolateKV : KnotVector :=
  let nkv := KnotVector.create 1 2
  let nkv := (nkv.set 1 0).set 0 0
  let nkv := (nkv.set 3 1).set 2 1
  nkv.GetElements

/-- The knot vector `lkv` built in `Revolve3D(patch, n, ang, times)`, for `times ≥ 0`:
`KnotVector(2, ns)` with `ns = 2*times + 1`, three knots `0`, the knots `i, i` for
`0 < i < times` and three knots `times`, followed by `GetElements()`. -/
def revolveKV (times : Nat) : KnotVector :=
  let ns : Nat := 2 * times + 1
  let lkv := KnotVector.create 2 ns
  let lkv := ((lkv.set 2 0).set 1 0).set 0 0
  let lkv := forLoopInt 1 (times : Int)
    (fun (k : KnotVector) i => (k.set (2 * i + 2) (i : ℚ)).set (2 * i + 1) (i : ℚ)) lkv
  let lkv := ((lkv.set ((ns : Int) + 2) (times : ℚ)).set ((ns : Int) + 1) (times : ℚ)).set
    (ns : Int) (times : ℚ)
  lkv.GetElements

namespace NURBSPatch

/-- A curve with three control points of two components on the knots `[0,0,1,1,1]` of
order 1: the last knot has multiplicity three. -/
def exEndDouble : NURBSPatch :=
  { ni := 3, nj := -1, nk := -1, Dim := 2, data := [0, 1, 4, 1, 5, 1],
    kv := [{ knot := [0, 0, 1, 1, 1], Order := 1, NumOfControlPoints := 3, NumOfElements := 1 }],
    nd := -1, ls := 0, sd := -1 }

end NURBSPatch

namespace NURBSPatch

/-- The number of non-empty spans `[knot(i), knot(i+1)]` with `Order ≤ i < j`. -/
def spansBelow (K : KnotVector) (j : Nat) : Nat :=
  (List.range' K.Order (j - K.Order)).countP
    (fun (i : Nat) => decide (K.get (i : Int) ≠ K.get ((i : Int) + 1)))

/-- The invariant on the knots at the head of the loop `while (b < m)` of
`DegreeElevate(dir, t)`, for the old knot vector `K` and the new one `new0` as allocated:
`a = b - 1` ends a run of equal knots and `ua` is its value; the entries `0 .. kind-1` of
the new knot vector are written, non-decreasing and at most `ua`; together with the
`pend` copies of `ua` that the next iteration writes (none before the first iteration,
`ph - r` afterwards) they are the `b` old knots below `b` and `t` more for each of the
runs these form. -/
def ElevInv (K : KnotVector) (t : Nat) (new0 : KnotVector) (st : ElevState) : Prop :=
  ∃ b kind pend : Nat,
    st.b = (b : Int) ∧ st.a = (b : Int) - 1 ∧ st.kind = (kind : Int) ∧
    K.Order < b ∧ b ≤ K.NumOfControlPoints ∧
    (if st.a = (K.Order : Int) then pend = 0
     else (pend : Int) = (K.Order : Int) + (t : Int) - st.r) ∧
    kind + pend = b + t * spansBelow K b ∧
    st.ua = K.get ((b : Int) - 1) ∧
    K.get ((b : Int) - 1) ≠ K.get (b : Int) ∧
    st.newkv.Order = new0.Order ∧
    st.newkv.NumOfControlPoints = new0.NumOfControlPoints ∧
    st.newkv.knot.length = new0.knot.length ∧
    (∀ j : Nat, j < kind → rd st.newkv.knot (j : Int) ≤ st.ua) ∧
    (∀ i j : Nat, i ≤ j → j < kind →
      rd st.newkv.knot (i : Int) ≤ rd st.newkv.knot (j : Int))

end NURBSPatch

namespace KnotVector

/-- The knot vector `KnotVector(1, 2)` after the assignments of the knots `0, 0, 1, 1` and
before any call of `GetElements()`: the constructor has set `NumOfElements = 0`. -/
def exStale : KnotVector :=
  ((((create 1 2).set 0 0).set 1 0).set 2 1).set 3 1

end KnotVector

namespace KnotVector

/-- Order 1, three control points, knots `[0,0,2,2,2]`: the knots of `exUnit` with the
last knot repeated once more. -/
def exEndTriple : KnotVector :=
  { knot := [0, 0, 2, 2, 2], Order := 1, NumOfControlPoints := 3, NumOfElements := 1 }

end KnotVector

namespace KnotVector

end KnotVector

namespace NURBSPatchMap

/-- Modelled from the spec: the inline accessor `nz()` is declared in the header; as
`nx()`, for the third direction. -/
def nz (m : NURBSPatchMap) : Int := m.K + 1

end NURBSPatchMap

namespace NURBSExtension

/-- Modelled from the spec: the inline accessor `GetGNV()` is declared in the header; the
number of vertices of the global mesh, the field `NumOfVertices`. -/
def GetGNV (ext : NURBSExtension) : Int := ext.NumOfVertices

/-- Modelled from the spec: the inline accessor `GetNV()` is declared in the header; the
number of active vertices, the field `NumOfActiveVertices`. -/
def GetNV (ext : NURBSExtension) : Int := ext.NumOfActiveVertices

/-- Modelled from the spec: the inline accessor `GetNE()` is declared in the header; the
number of active elements, the field `NumOfActiveElems`. -/
def GetNE (ext : NURBSExtension) : Int := ext.NumOfActiveElems

/-- `NURBSPatchMap::SetPatchVertexMap(p, kv)`. -/
def SetPatchVertexMap (ext : NURBSExtension) (m : NURBSPatchMap) (p : Int) :
    NURBSPatchMap × List KnotVector :=
  let r := ext.mapGetPatchKnotVectors m p
  let kv := r.2
  let m := r.1
  let m := { m with I := ((kvAt kv 0).GetNE : Int) - 1
                    verts := m.verts.map (rdI ext.v_meshOffsets) }
  let m := if ext.Dimension ≥ 2 then
      { m with J := ((kvAt kv 1).GetNE : Int) - 1
               edges := m.edges.map (rdI ext.e_meshOffsets) }
    else m
  let m := if ext.Dimension = 3 then
      { m with K := ((kvAt kv 2).GetNE : Int) - 1
               faces := m.faces.map (rdI ext.f_meshOffsets) }
    else m
  ({ m with pOffset := rdI ext.p_meshOffsets p }, kv)

/-- The array `vert[0..nv-1]` of `GenerateActiveVertices` for the element `(i, j, k)` of
the patch of the map `p2g`: two, four or eight vertices. -/
def elemVerts (ops : PatchMapOps) (ext : NURBSExtension) (p2g : NURBSPatchMap)
    (i j k : Int) : List Int :=
  if ext.Dimension = 1 then [ops.at1 p2g i, ops.at1 p2g (i + 1)]
  else if ext.Dimension = 2 then
    [ops.at2 p2g i j, ops.at2 p2g (i + 1) j, ops.at2 p2g (i + 1) (j + 1),
     ops.at2 p2g i (j + 1)]
  else
    [ops.at3 p2g i j k, ops.at3 p2g (i + 1) j k, ops.at3 p2g (i + 1) (j + 1) k,
     ops.at3 p2g i (j + 1) k, ops.at3 p2g i j (k + 1), ops.at3 p2g (i + 1) j (k + 1),
     ops.at3 p2g (i + 1) (j + 1) (k + 1), ops.at3 p2g i (j + 1) (k + 1)]

/-- The loop `for (v = 0; v < nv; v++) activeVert[vert[v]] = 1;` with bounds-checked
writes. -/
def markVerts (vert : List Int) (activeVert : List Int) : Except Fault (List Int) :=
  foldE (fun a v => wrIChk a v 1) vert activeVert

/-- The statements `if (activeElem[g_el]) { ... activeVert[vert[v]] = 1 ... } g_el++;` on
the pair `(g_el, activeVert)`, for the vertices `vert` of the element. -/
def markIfActive (ext : NURBSExtension) (s : Int × List Int) (vert : List Int) :
    Except Fault (Int × List Int) :=
  match ext.activeElemAt s.1 with
  | .error e => .error e
  | .ok b =>
    if b then
      match markVerts vert s.2 with
      | .error e => .error e
      | .ok a => .ok (s.1 + 1, a)
    else .ok (s.1 + 1, s.2)

/-- The body of the innermost loop `for (i = 0; i < nx; i++)` of
`GenerateActiveVertices`. -/
def markElement (ops : PatchMapOps) (ext : NURBSExtension) (p2g : NURBSPatchMap)
    (k j : Int) (s : Int × List Int) (i : Int) : Except Fault (Int × List Int) :=
  markIfActive ext s (elemVerts ops ext p2g i j k)

/-- The body of the loop over the patches `p` in `GenerateActiveVertices`, on the map
`p2g` and the pair `(g_el, activeVert)`. -/
def activePatch (ops : PatchMapOps) (ext : NURBSExtension)
    (st : NURBSPatchMap × (Int × List Int)) (p : Nat) :
    Except Fault (NURBSPatchMap × (Int × List Int)) :=
  let p2g := (ext.SetPatchVertexMap st.1 (p : Int)).1
  let nx := p2g.nx
  let ny := if ext.Dimension ≥ 2 then p2g.ny else 1
  let nz := if ext.Dimension = 3 then p2g.nz else 1
  match forLoopIntM 0 nz
      (fun s k =>
        forLoopIntM 0 ny
          (fun s j => forLoopIntM 0 nx (markElement ops ext p2g k j) s) s) st.2 with
  | .error e => .error e
  | .ok s => .ok (p2g, s)

/-- The first part of `GenerateActiveVertices`: `activeVert` is resized to `GetGNV()`
entries `-1` and the vertices of the active elements are marked with `1`. -/
def markActiveVertices (ops : PatchMapOps) (ext : NURBSExtension) :
    Except Fault (List Int) :=
  match forLoopM 0 ext.GetNP (activePatch ops ext)
      ({}, (0, List.replicate ext.GetGNV.toNat (-1))) with
  | .error e => .error e
  | .ok st => .ok st.2.2

/-- The body of the last loop of `GenerateActiveVertices`, on the pair
`(activeVert, NumOfActiveVertices)`:
`if (activeVert[i] == 1) activeVert[i] = NumOfActiveVertices++;`. -/
def numberVert (s : List Int × Int) (i : Int) : Except Fault (List Int × Int) :=
  match rdIChk s.1 i with
  | .error e => .error e
  | .ok a =>
    if a = 1 then
      match wrIChk s.1 i s.2 with
      | .error e => .error e
      | .ok a1 => .ok (a1, s.2 + 1)
    else .ok s

/-- `NURBSExtension::GenerateActiveVertices()`. -/
def GenerateActiveVertices (ops : PatchMapOps) (ext : NURBSExtension) :
    Except Fault NURBSExtension :=
  match markActiveVertices ops ext with
  | .error e => .error e
  | .ok av =>
    match forLoopIntM 0 ext.GetGNV numberVert (av, 0) with
    | .error e => .error e
    | .ok r => .ok { ext with activeVert := r.1, NumOfActiveVertices := r.2 }

/-- The body of the loop of `GetVertexLocalToGlobal`:
`if (activeVert[gv] >= 0) lvert_vert[activeVert[gv]] = gv;`. -/
def localVert (ext : NURBSExtension) (lvert_vert : List Int) (gv : Int) :
    Except Fault (List Int) :=
  match rdIChk ext.activeVert gv with
  | .error e => .error e
  | .ok a => if a ≥ 0 then wrIChk lvert_vert a gv else .ok lvert_vert

/-- `NURBSExtension::GetVertexLocalToGlobal(lvert_vert)`, returning the array. -/
def GetVertexLocalToGlobal (ext : NURBSExtension) (lvert_vert : List Int) :
    Except Fault (List Int) :=
  forLoopIntM 0 ext.GetGNV ext.localVert (setSizeI lvert_vert ext.GetNV)

/-- The body of the loop of `GetElementLocalToGlobal`, on the pair `(lelem_elem, le)`:
`if (activeElem[ge]) lelem_elem[le++] = ge;`. -/
def localElem (ext : NURBSExtension) (s : List Int × Int) (ge : Int) :
    Except Fault (List Int × Int) :=
  match ext.activeElemAt ge with
  | .error e => .error e
  | .ok b =>
    if b then
      match wrIChk s.1 s.2 ge with
      | .error e => .error e
      | .ok a => .ok (a, s.2 + 1)
    else .ok s

/-- `NURBSExtension::GetElementLocalToGlobal(lelem_elem)`, returning the array. -/
def GetElementLocalToGlobal (ext : NURBSExtension) (lelem_elem : List Int) :
    Except Fault (List Int) :=
  match forLoopIntM 0 ext.GetGNE ext.localElem (setSizeI lelem_elem ext.GetNE, 0) with
  | .error e => .error e
  | .ok s => .ok s.1

/-- The map `p2g` after the call `p2g.SetPatchVertexMap(p, kv)` in the loop of
`GenerateActiveVertices` over the patches `0, 1, ..., p`, which uses one `NURBSPatchMap`
object for all of them. -/
def vertMapOf (ext : NURBSExtension) : Nat → NURBSPatchMap
  | 0 => (ext.SetPatchVertexMap {} ((0 : Nat) : Int)).1
  | p + 1 => (ext.SetPatchVertexMap (vertMapOf ext p) ((p + 1 : Nat) : Int)).1

/-- The map `p2g` before the call `p2g.SetPatchVertexMap(p, kv)`: a fresh map for the first
patch, the map of the previous patch afterwards. -/
def vertMapBefore (ext : NURBSExtension) : Nat → NURBSPatchMap
  | 0 => {}
  | p + 1 => ext.vertMapOf p

/-- The vertex arrays of the elements of patch `p`, in the order of the loops of
`GenerateActiveVertices` (first index fastest). -/
def patchElemVerts (ops : PatchMapOps) (ext : NURBSExtension) (p : Nat) : List (List Int) :=
  let m := ext.vertMapOf p
  let ny := if ext.Dimension ≥ 2 then m.ny else 1
  let nz := if ext.Dimension = 3 then m.nz else 1
  (List.range nz.toNat).flatMap
    (fun (k : Nat) =>
      (List.range ny.toNat).flatMap
        (fun (j : Nat) =>
          (List.range m.nx.toNat).flatMap
            (fun (i : Nat) => [elemVerts ops ext m (i : Int) (j : Int) (k : Int)])))

/-- The vertex arrays of all elements of the mesh, in the order of the global element
numbers `g_el`. -/
def allElemVerts (ops : PatchMapOps) (ext : NURBSExtension) : List (List Int) :=
  (List.range ext.GetNP).flatMap (patchElemVerts ops ext)

/-- The vertices touched by an active element: the entries of the vertex arrays of the
elements whose flag in `activeElem` is set. -/
def touchedVerts (ops : PatchMapOps) (ext : NURBSExtension) : List Int :=
  (activeFrom ext.activeElem 0 (allElemVerts ops ext)).flatMap id

/-- Two patches of two and one elements on a line of four vertices, given by the knot
vectors `[0,0,1,2,2]` and `[0,0,2,2]`; the second and the third element are active. -/
def exActive : NURBSExtension :=
  { patchTopo := { Dim := 1, NV := 3, NEdges := 2, NFaces := 0, NE := 2,
                   elementVertices := [[0, 1], [1, 2]] }
    edge_to_knot := [0, 1]
    knotVectors := [KnotVector.exUnitRefined, KnotVector.exUnit]
    knotVectorsCompr := [KnotVector.exUnitRefined, KnotVector.exUnit]
    v_meshOffsets := [0, 1, 2]
    e_meshOffsets := [3, 4]
    p_meshOffsets := [3, 4]
    NumOfVertices := 4
    NumOfElements := 3
    NumOfActiveElems := 2
    activeElem := [false, true, true] }

end NURBSExtension

namespace NURBSExtension

/-- The rank of the number `v` among the entries of the list `T`: the number of `u < v` that
occur in `T`. -/
def rankIn (T : List Int) (v : Nat) : Nat :=
  (List.range v).countP (fun (u : Nat) => decide ((u : Int) ∈ T))

end NURBSExtension

/-! ## Rounded arithmetic

The definitions above take `double` as exact rationals.  The definitions of this section
repeat three of them with a rounding `fl` applied to the result of every `double`
operation: with `fl = id` they are the exact definitions, with `fl = binary64` they
compute what IEEE 754 double arithmetic computes. -/

/-- Halve or double a positive rational until it lies in `[2^52, 2^53)`, counting the
halvings (`+1`) and the doublings (`-1`) in the exponent. -/
def scale53 : Nat → ℚ → Int → ℚ × Int
  | 0, a, e => (a, e)
  | n + 1, a, e =>
    if a < 4503599627370496 then scale53 n (a * 2) (e - 1)
    else if 9007199254740992 ≤ a then scale53 n (a / 2) (e + 1)
    else (a, e)

/-- The integer nearest to a rational, the even one of the two when it lies half-way. -/
def roundEven (a : ℚ) : Int :=
  let f : Int := Rat.floor a
  let r : ℚ := a - (f : ℚ)
  if r < 1 / 2 then f
  else if 1 / 2 < r then f + 1
  else if f % 2 = 0 then f else f + 1

/-- The IEEE 754 binary64 number nearest to `x` (round to nearest, ties to even): the
value of a `double` operation whose exact result is `x`, for results in the normal range
(`53` significant bits; overflow and subnormal numbers are not modelled). -/
def binary64 (x : ℚ) : ℚ :=
  if x = 0 then 0
  else
    let s := scale53 2200 (if x < 0 then -x else x) 0
    let m : ℚ := ((roundEven s.1 : Int) : ℚ)
    let y : ℚ := if 0 ≤ s.2 then m * ((2 ^ s.2.toNat : Nat) : ℚ)
      else m / ((2 ^ (-s.2).toNat : Nat) : ℚ)
    if x < 0 then -y else y

namespace KnotVector

/-- `KnotVector::Flip()` with the result of every `double` operation rounded by `fl`. -/
def FlipFl (fl : ℚ → ℚ) (kv : KnotVector) : KnotVector :=
  let apb : ℚ := fl (kv.get 0 + kv.get ((kv.Size : Int) - 1))
  let ns : Int := Int.tdiv ((kv.NumOfControlPoints : Int) - (kv.Order : Int)) 2
  forLoopInt 1 (ns + 1)
    (fun k i =>
      let tmp : ℚ := fl (apb - k.get ((k.Order : Int) + i))
      let k := k.set ((k.Order : Int) + i) (fl (apb - k.get ((k.NumOfControlPoints : Int) - i)))
      k.set ((k.NumOfControlPoints : Int) - i) tmp) kv

/-- The knots `[0, 0, 0.1, 1, 1]` of order 1, `0.1` being the `double` nearest to `1/10`. -/
def exTenth : KnotVector :=
  { knot := [0, 0, binary64 (1 / 10), 1, 1], Order := 1, NumOfControlPoints := 3,
    NumOfElements := 2 }

end KnotVector

namespace KnotVector

/-- `KnotVector::getKnotLocation(xi, ni)`, the expression
`xi*knot(ni+1) + (1. - xi)*knot(ni)`, with every operation rounded by `fl`. -/
def getKnotLocationFl (fl : ℚ → ℚ) (kv : KnotVector) (xi : ℚ) (ni : Int) : ℚ :=
  fl (fl (xi * kv.get (ni + 1)) + fl (fl (1 - xi) * kv.get ni))

/-- The body of the inner loop of `CalcShape` with every operation rounded by `fl`. -/
def shapeInnerFl (fl : ℚ → ℚ) (left right : List ℚ) (j : Nat) (st : List ℚ × ℚ) (r : Nat) :
    List ℚ × ℚ :=
  let tmp := fl (rd st.1 r / fl (rd right ((r : Int) + 1) + rd left ((j : Int) - (r : Int))))
  (wr st.1 r (fl (st.2 + fl (rd right ((r : Int) + 1) * tmp))),
    fl (rd left ((j : Int) - (r : Int)) * tmp))

/-- The body of the outer loop of `CalcShape` with every operation rounded by `fl`. -/
def shapeOuterFl (fl : ℚ → ℚ) (kv : KnotVector) (ip : Int) (u : ℚ) (st : ShapeState)
    (j : Nat) : ShapeState :=
  let left := wr st.left j (fl (u - kv.get (ip + 1 - (j : Int))))
  let right := wr st.right j (fl (kv.get (ip + (j : Int)) - u))
  let res := forLoop 0 j (shapeInnerFl fl left right j) (st.shape, 0)
  { shape := wr res.1 j res.2, left := left, right := right }

/-- The computation of `KnotVector::CalcShape` with every `double` operation rounded by
`fl`. -/
def CalcShapeCoreFl (fl : ℚ → ℚ) (kv : KnotVector) (shape : List ℚ) (i : Int) (xi : ℚ) :
    List ℚ :=
  let p : Int := kv.Order
  let ip : Int := if i ≥ 0 then i + p else -1 - i + p
  let u := kv.getKnotLocationFl fl (if i ≥ 0 then xi else fl (1 - xi)) ip
  let st : ShapeState :=
    { shape := wr shape 0 1
      left := List.replicate (MaxOrder + 1) 0
      right := List.replicate (MaxOrder + 1) 0 }
  (forLoop 1 (kv.Order + 1) (shapeOuterFl fl kv ip u) st).shape

/-- `KnotVector::CalcShape(shape, i, xi)` with every `double` operation rounded by `fl`;
the checks are those of `CalcShape`. -/
def CalcShapeFl (fl : ℚ → ℚ) (debug : Bool) (kv : KnotVector) (shape : List ℚ) (i : Int)
    (xi : ℚ) : Except Fault (List ℚ) :=
  if debug = true ∧ ¬ kv.Order ≤ MaxOrder then .error .fatal
  else if ¬ kv.Order ≤ MaxOrder ∨ shape.length < kv.Order + 1 then .error .outOfBounds
  else .ok (CalcShapeCoreFl fl kv shape i xi)

/-- The body of the inner loop of the first loop of `CalcDShape` and `CalcDnShape` with
every operation rounded by `fl`. -/
def dshapeInnerFl (fl : ℚ → ℚ) (left right : List ℚ) (j : Nat) (st : List ℚ × ℚ) (r : Nat) :
    List ℚ × ℚ :=
  let ndu := wr2 st.1 j r (fl (rd right ((r : Int) + 1) + rd left ((j : Int) - (r : Int))))
  let temp := fl (rd2 ndu r ((j : Int) - 1) / rd2 ndu j r)
  (wr2 ndu r j (fl (st.2 + fl (rd right ((r : Int) + 1) * temp))),
    fl (rd left ((j : Int) - (r : Int)) * temp))

/-- The body of the loop `for (j = 1; j <= p; j++)` of `CalcDShape` and `CalcDnShape` with
every operation rounded by `fl`. -/
def dshapeOuterFl (fl : ℚ → ℚ) (kv : KnotVector) (ip : Int) (u : ℚ) (st : DShapeState)
    (j : Nat) : DShapeState :=
  let left := wr st.left j (fl (u - kv.get (ip - (j : Int) + 1)))
  let right := wr st.right j (fl (kv.get (ip + (j : Int)) - u))
  let res := forLoop 0 j (dshapeInnerFl fl left right j) (st.ndu, 0)
  { ndu := wr2 res.1 j j res.2, left := left, right := right }

/-- The array `ndu` after the first loop of `CalcDShape` and of `CalcDnShape`, with every
operation rounded by `fl`. -/
def basisTableFl (fl : ℚ → ℚ) (kv : KnotVector) (ip : Int) (u : ℚ) : List ℚ :=
  let st : DShapeState :=
    { ndu := wr2 (List.replicate ((MaxOrder + 1) * (MaxOrder + 1)) 0) 0 0 1
      left := List.replicate (MaxOrder + 1) 0
      right := List.replicate (MaxOrder + 1) 0 }
  (forLoop 1 (kv.Order + 1) (dshapeOuterFl fl kv ip u) st).ndu

/-- The body of the loop `for (r = 0; r <= p; ++r)` of `CalcDShape` with every operation
rounded by `fl`: `d = ndu[rk][pk]/ndu[p][rk]` and `d -= ndu[r][pk]/ndu[p][r]`. -/
def dshapeGradFl (fl : ℚ → ℚ) (p : Int) (ndu : List ℚ) (grad : List ℚ) (r : Nat) : List ℚ :=
  let rk : Int := (r : Int) - 1
  let pk : Int := p - 1
  let d : ℚ := if (r : Int) ≥ 1 then fl (rd2 ndu rk pk / rd2 ndu p rk) else 0
  let d : ℚ := if (r : Int) ≤ pk then fl (d - fl (rd2 ndu r pk / rd2 ndu p r)) else d
  wr grad r d

/-- The computation of `KnotVector::CalcDShape` with every `double` operation rounded by
`fl`. -/
def CalcDShapeCoreFl (fl : ℚ → ℚ) (kv : KnotVector) (grad : List ℚ) (i : Int) (xi : ℚ) :
    List ℚ :=
  let p : Int := kv.Order
  let ip : Int := if i ≥ 0 then i + p else -1 - i + p
  let u := kv.getKnotLocationFl fl (if i ≥ 0 then xi else fl (1 - xi)) ip
  let ndu := kv.basisTableFl fl ip u
  let grad := forLoop 0 (kv.Order + 1) (dshapeGradFl fl p ndu) grad
  let c : ℚ :=
    if i ≥ 0 then fl ((p : ℚ) * fl (kv.get (ip + 1) - kv.get ip))
    else fl ((p : ℚ) * fl (kv.get ip - kv.get (ip + 1)))
  grad.map (fun x => fl (x * c))

/-- `KnotVector::CalcDShape(grad, i, xi)` with every `double` operation rounded by `fl`;
the checks are those of `CalcDShape`. -/
def CalcDShapeFl (fl : ℚ → ℚ) (debug : Bool) (kv : KnotVector) (grad : List ℚ) (i : Int)
    (xi : ℚ) : Except Fault (List ℚ) :=
  if debug = true ∧ kv.Order > MaxOrder then .error .fatal
  else if ¬ kv.Order ≤ MaxOrder ∨ grad.length < kv.Order + 1 then .error .outOfBounds
  else .ok (CalcDShapeCoreFl fl kv grad i xi)

/-- The body of the loop `for (j = j1; j <= j2; j++)` of `CalcDnShape` with every
operation rounded by `fl`. -/
def dnInnerFl (fl : ℚ → ℚ) (ndu : List ℚ) (pk rk s1 s2 : Int) (st : List ℚ × ℚ) (j : Int) :
    List ℚ × ℚ :=
  let a := wr2 st.1 s2 j
    (fl (fl (rd2 st.1 s1 j - rd2 st.1 s1 (j - 1)) / rd2 ndu (pk + 1) (rk + j)))
  (a, fl (st.2 + fl (rd2 a s2 j * rd2 ndu (rk + j) pk)))

/-- The body of the loop `for (k = 1; k <= n; k++)` of `CalcDnShape` with every operation
rounded by `fl`: `a[s2][0] = a[s1][0]/ndu[pk+1][rk]`, `d = a[s2][0]*ndu[rk][pk]`, ...,
`a[s2][k] = - a[s1][k-1]/ndu[pk+1][r]`, `d += a[s2][j]*ndu[rk+j][pk]`. -/
def dnStepFl (fl : ℚ → ℚ) (p : Int) (ndu : List ℚ) (r : Int) (st : DnState) (k : Int) :
    DnState :=
  let rk := r - k
  let pk := p - k
  let s1 := st.s1
  let s2 := st.s2
  let ad0 : List ℚ × ℚ :=
    if r ≥ k then
      let a := wr2 st.a s2 0 (fl (rd2 st.a s1 0 / rd2 ndu (pk + 1) rk))
      (a, fl (rd2 a s2 0 * rd2 ndu rk pk))
    else (st.a, 0)
  let j1 : Int := if rk ≥ -1 then 1 else -rk
  let j2 : Int := if r - 1 ≤ pk then k - 1 else p - r
  let ad1 := forLoopInt j1 (j2 + 1) (dnInnerFl fl ndu pk rk s1 s2) ad0
  let j : Int := if j1 ≤ j2 then j2 + 1 else j1
  let ad2 : List ℚ × ℚ :=
    if r ≤ pk then
      let a := wr2 ad1.1 s2 k (fl (- rd2 ad1.1 s1 (k - 1) / rd2 ndu (pk + 1) r))
      (a, fl (ad1.2 + fl (rd2 a s2 j * rd2 ndu (rk + j) pk)))
    else ad1
  { a := ad2.1, s1 := s2, s2 := s1, gradn := wr st.gradn r ad2.2 }

/-- The body of the loop `for (r = 0; r <= p; r++)` of `CalcDnShape` with every operation
rounded by `fl`. -/
def dnOuterFl (fl : ℚ → ℚ) (p : Int) (ndu : List ℚ) (n : Int) (st : List ℚ × List ℚ)
    (r : Nat) : List ℚ × List ℚ :=
  let st0 : DnState := { a := wr2 st.1 0 0 1, s1 := 0, s2 := 1, gradn := st.2 }
  let st1 := forLoopInt 1 (n + 1) (dnStepFl fl p ndu r) st0
  (st1.a, st1.gradn)

/-- The computation of `KnotVector::CalcDnShape` with every `double` operation rounded by
`fl`. -/
def CalcDnShapeCoreFl (fl : ℚ → ℚ) (kv : KnotVector) (gradn : List ℚ) (n : Int) (i : Int)
    (xi : ℚ) : List ℚ :=
  let p : Int := kv.Order
  let ip : Int := if i ≥ 0 then i + p else -1 - i + p
  let u := kv.getKnotLocationFl fl (if i ≥ 0 then xi else fl (1 - xi)) ip
  let ndu := kv.basisTableFl fl ip u
  let res := forLoop 0 (kv.Order + 1) (dnOuterFl fl p ndu n)
    (List.replicate (2 * (MaxOrder + 1)) 0, gradn)
  let u : ℚ :=
    if i ≥ 0 then fl (kv.get (ip + 1) - kv.get ip) else fl (kv.get ip - kv.get (ip + 1))
  let temp : ℚ :=
    forLoopInt 1 n (fun (t : ℚ) k => fl (t * fl (((p - k : Int) : ℚ) * u))) (fl ((p : ℚ) * u))
  forLoop 0 (kv.Order + 1) (fun g j => wr g j (fl (rd g j * temp))) res.2

/-- `KnotVector::CalcDnShape(gradn, n, i, xi)` with every `double` operation rounded by
`fl`; the checks are those of `CalcDnShape`. -/
def CalcDnShapeFl (fl : ℚ → ℚ) (debug : Bool) (kv : KnotVector) (gradn : List ℚ) (n : Int)
    (i : Int) (xi : ℚ) : Except Fault (List ℚ) :=
  if debug = true ∧ kv.Order > MaxOrder then .error .fatal
  else if ¬ kv.Order ≤ MaxOrder ∨ gradn.length < kv.Order + 1 then .error .outOfBounds
  else .ok (CalcDnShapeCoreFl fl kv gradn n i xi)

/-- Order 2, three control points, knots `[0,0,0,3,3,3]`: one span of length three. -/
def exBezierThree : KnotVector :=
  { knot := [0, 0, 0, 3, 3, 3], Order := 2, NumOfControlPoints := 3, NumOfElements := 1 }

end KnotVector

namespace NURBSPatch

/-- `NURBSPatch::FlipDirection(dir)` with the `double` operations of `KnotVector::Flip`
rounded by `fl`; the control points are only moved. -/
def FlipDirectionFl (fl : ℚ → ℚ) (slice : NURBSPatch → Int → Int → Int) (p : NURBSPatch)
    (dir : Int) : Except Fault NURBSPatch :=
  match SetLoopDirection p dir with
  | .error e => .error e
  | .ok (p, size) =>
    let data := forLoopInt 0 (Int.tdiv p.nd 2)
      (fun d id =>
        forLoopInt 0 size
          (fun d i => swapEntries d (slice p id i) (slice p (p.nd - 1 - id) i)) d) p.data
    match p.kv[dir.toNat]? with
    | none => .error .outOfBounds
    | some k => .ok { p with data := data, kv := p.kv.set dir.toNat (k.FlipFl fl) }

/-- A curve with three control points of one component on the knots `[0, 0, 0.1, 1, 1]`. -/
def exTenthCurve : NURBSPatch :=
  { ni := 3, nj := -1, nk := -1, Dim := 1, data := [5, 6, 7],
    kv := [KnotVector.exTenth], nd := -1, ls := 0, sd := -1 }

end NURBSPatch

end mfem

namespace mfem

/-! ## Reads and writes -/

theorem length_wr (v : List ℚ) (i : Int) (x : ℚ) : (wr v i x).length = v.length := by
  unfold wr; split <;> simp

theorem rd_wr (v : List ℚ) (i j : Int) (x : ℚ) :
    rd (wr v i x) j = if i = j ∧ 0 ≤ i ∧ i.toNat < v.length then x else rd v j := by
  unfold rd wr
  by_cases hi : 0 ≤ i
  · by_cases hj : 0 ≤ j
    · simp only [hi, hj, if_true, true_and]
      by_cases hij : i = j
      · subst hij
        by_cases hl : i.toNat < v.length
        · simp [List.getD_eq_getElem?_getD, List.getElem?_set, hl]
        · have hn : v[i.toNat]? = none := List.getElem?_eq_none (by omega)
          simp [List.getD_eq_getElem?_getD, List.getElem?_set, hl, hn]
      · have : i.toNat ≠ j.toNat := by omega
        simp [List.getD_eq_getElem?_getD, List.getElem?_set, hij, this]
    · have : i ≠ j := by omega
      simp [hi, hj, this]
  · simp [hi]

theorem rd_wr_same (v : List ℚ) (i : Int) (x : ℚ) (h0 : 0 ≤ i) (h1 : i.toNat < v.length) :
    rd (wr v i x) i = x := by
  rw [rd_wr]; simp [h0, h1]

theorem rd_wr_other (v : List ℚ) (i j : Int) (x : ℚ) (h : i ≠ j) :
    rd (wr v i x) j = rd v j := by
  rw [rd_wr]; simp [h]

/-- A loop of writes `v(g i) = f i` does not change the length. -/
theorem length_forCount_wr (g : Nat → Int) (f : Nat → ℚ) :
    ∀ (n s : Nat) (v : List ℚ),
      (forCount (fun w i => wr w (g i) (f i)) n s v).length = v.length
  | 0, _, _ => rfl
  | n + 1, s, v => by
    rw [forCount, length_forCount_wr g f n (s + 1), length_wr]

/-- A loop of writes `v(g i) = f i` leaves the entries it never addresses. -/
theorem rd_forCount_wr_other (g : Nat → Int) (f : Nat → ℚ) (j : Int) :
    ∀ (n s : Nat) (v : List ℚ), (∀ i, s ≤ i → i < s + n → g i ≠ j) →
      rd (forCount (fun w i => wr w (g i) (f i)) n s v) j = rd v j
  | 0, _, _, _ => rfl
  | n + 1, s, v, h => by
    rw [forCount, rd_forCount_wr_other g f j n (s + 1) _
      (fun i h1 h2 => h i (by omega) (by omega)), rd_wr_other]
    exact h s (le_refl _) (by omega)

/-- A loop of writes `v(g i) = f i` with pairwise different addresses stores
`f i` at `g i`. -/
theorem rd_forCount_wr_hit (g : Nat → Int) (f : Nat → ℚ) (i0 : Nat) :
    ∀ (n s : Nat) (v : List ℚ), s ≤ i0 → i0 < s + n → 0 ≤ g i0 → (g i0).toNat < v.length →
      (∀ i, i0 < i → i < s + n → g i ≠ g i0) →
      rd (forCount (fun w i => wr w (g i) (f i)) n s v) (g i0) = f i0
  | 0, s, _, h1, h2, _, _, _ => by omega
  | n + 1, s, v, h1, h2, h3, h4, h5 => by
    rw [forCount]
    by_cases hs : s = i0
    · subst hs
      rw [rd_forCount_wr_other g f _ n (s + 1) _ (fun i a b => h5 i (by omega) (by omega))]
      exact rd_wr_same _ _ _ h3 h4
    · exact rd_forCount_wr_hit g f i0 n (s + 1) _ (by omega) (by omega) h3
        (by rw [length_wr]; exact h4) (fun i a b => h5 i a (by omega))

namespace KnotVector

/-- A loop of knot assignments acts on the knot array only. -/
theorem forCount_set (g : Nat → Int) (f : Nat → ℚ) :
    ∀ (n s : Nat) (kv : KnotVector),
      forCount (fun nk i => nk.set (g i) (f i)) n s kv =
        { kv with knot := forCount (fun w i => wr w (g i) (f i)) n s kv.knot }
  | 0, _, _ => rfl
  | n + 1, s, kv => by
    rw [forCount, forCount_set g f n (s + 1)]
    rfl


theorem DegreeElevate_eq (kv : KnotVector) (t : Nat) :
    kv.DegreeElevate (t : Int) =
      .ok (GetElements
        { knot := elevatedKnots kv t
          Order := kv.Order + t
          NumOfControlPoints := kv.NumOfControlPoints + t
          NumOfElements := 0 }) := by
  have ht : ¬ ((t : Int) < 0) := by omega
  simp only [DegreeElevate, ht, if_false, forLoop, forCount_set, create, GetNCP, Int.toNat_ofNat,
    elevatedKnots, Nat.sub_zero]


theorem length_elevatedKnots (kv : KnotVector) (t : Nat) :
    (elevatedKnots kv t).length = kv.NumOfControlPoints + kv.Order + 2 * t + 1 := by
  simp only [elevatedKnots, length_forCount_wr, List.length_replicate]
  omega

theorem elevatedKnots_last (kv : KnotVector) (t i : Nat)
    (h1 : kv.NumOfControlPoints + t ≤ i) (h2 : i < kv.NumOfControlPoints + kv.Order + 2 * t + 1) :
    rd (elevatedKnots kv t) i = kv.get ((kv.knot.length : Int) - 1) := by
  obtain ⟨d, rfl⟩ : ∃ d, i = kv.NumOfControlPoints + t + d := ⟨i - (kv.NumOfControlPoints + t), by omega⟩
  unfold elevatedKnots
  exact rd_forCount_wr_hit (fun i => ((kv.NumOfControlPoints + t + i : Nat) : Int)) _ d _ 0 _
    (by beta_reduce; omega) (by beta_reduce; omega) (by beta_reduce; omega)
    (by simp only [length_forCount_wr, List.length_replicate]; omega)
    (fun i a _ => by beta_reduce; omega)

theorem elevatedKnots_mid (kv : KnotVector) (t i : Nat)
    (h1 : kv.Order + t + 1 ≤ i) (h2 : i < kv.NumOfControlPoints + t) :
    rd (elevatedKnots kv t) i = kv.get ((i : Int) - (t : Int)) := by
  unfold elevatedKnots
  simp only
  rw [rd_forCount_wr_other _ _ _ _ _ _ (fun j _ _ => by beta_reduce; omega)]
  exact rd_forCount_wr_hit (fun i => (i : Int)) (fun i => kv.get ((i : Int) - (t : Int))) i _ _ _
    (by beta_reduce; omega) (by beta_reduce; omega) (by beta_reduce; omega)
    (by simp only [length_forCount_wr, List.length_replicate]; omega)
    (fun j a _ => by beta_reduce; omega)

theorem elevatedKnots_first (kv : KnotVector) (t i : Nat)
    (h1 : i ≤ kv.Order + t) (h2 : i < kv.NumOfControlPoints + t) :
    rd (elevatedKnots kv t) i = kv.get 0 := by
  unfold elevatedKnots
  simp only
  rw [rd_forCount_wr_other _ _ _ _ _ _ (fun j _ _ => by beta_reduce; omega),
    rd_forCount_wr_other _ _ _ _ _ _ (fun j _ _ => by beta_reduce; omega)]
  exact rd_forCount_wr_hit (fun i => (i : Int)) (fun _ => kv.get 0) i _ _ _
    (by beta_reduce; omega) (by beta_reduce; omega) (by beta_reduce; omega)
    (by simp only [List.length_replicate]; omega)
    (fun j a _ => by beta_reduce; omega)

theorem GetElements_knot (kv : KnotVector) : kv.GetElements.knot = kv.knot := rfl

theorem GetElements_Order (kv : KnotVector) : kv.GetElements.Order = kv.Order := rfl

theorem GetElements_NCP (kv : KnotVector) :
    kv.GetElements.NumOfControlPoints = kv.NumOfControlPoints := rfl

/-! ### Degree elevation of a knot vector -/

/-- C1, refuted as stated: the knot vector of order 1 with knots `[0,0,1,2,2]` has
3 control points and 2 elements (its cached count agrees with `GetElements`), and
`DegreeElevate(1)` returns a knot vector with `3 + 1 = 4` control points, not
`3 + 2 * 1 = 5`. -/
theorem degreeElevate_ncp_counterexample :
    exTwoElements.GetElements = exTwoElements ∧
    ∃ r, exTwoElements.DegreeElevate 1 = .ok r ∧
      r.NumOfControlPoints = 4 ∧
      r.NumOfControlPoints ≠
        exTwoElements.NumOfControlPoints + exTwoElements.NumOfElements * 1 :=
  ⟨rfl, _, rfl, rfl, by decide⟩

/-- C1, amended: for every knot vector and every `t ≥ 0`, `DegreeElevate(t)` returns a
knot vector of order `Order + t` with `NCP + t` control points; this count equals
`NCP + NumOfElements * t` exactly when `t = 0` or `NumOfElements = 1`. -/
theorem degreeElevate_order_ncp (kv : KnotVector) (t : Nat) :
    ∃ r, kv.DegreeElevate (t : Int) = .ok r ∧
      r.Order = kv.Order + t ∧
      r.NumOfControlPoints = kv.NumOfControlPoints + t ∧
      (r.NumOfControlPoints = kv.NumOfControlPoints + kv.NumOfElements * t ↔
        t = 0 ∨ kv.NumOfElements = 1) := by
  refine ⟨_, DegreeElevate_eq kv t, rfl, rfl, ?_⟩
  simp only [GetElements_NCP]
  constructor
  · intro h
    rcases Nat.eq_zero_or_pos t with h0 | h0
    · exact Or.inl h0
    · right
      have h1 : 1 * t = kv.NumOfElements * t := by omega
      exact (Nat.eq_of_mul_eq_mul_right h0 h1).symm
  · rintro (h | h)
    · subst h; simp
    · rw [h]; simp

/-- C2: for the knot vector with `Order = 1`, `NCP = 2` and knots `[0,0,1,1]`
(whatever its cached element count), `DegreeElevate(1)` returns `Order = 2`, `NCP = 3`,
knots `[0,0,0,1,1,1]` and `NumOfElements = 1`. -/
theorem degreeElevate_example (ne : Nat) :
    KnotVector.DegreeElevate
        { knot := [0, 0, 1, 1], Order := 1, NumOfControlPoints := 2, NumOfElements := ne } 1 =
      .ok { knot := [0, 0, 0, 1, 1, 1], Order := 2, NumOfControlPoints := 3,
            NumOfElements := 1 } := rfl

/-- C3, refuted as stated: the knot vector of order 1 with one control point and knots
`[0,1,2]` satisfies the size invariant, and `DegreeElevate(0)` returns the knots
`[0,2,2]`, whose first `Order + 0 + 1 = 2` knots are not all equal to the first
knot `0` of the input. -/
theorem degreeElevate_knots_counterexample :
    exOneControlPoint.SizeOk ∧
    ∃ r, exOneControlPoint.DegreeElevate 0 = .ok r ∧ r.knot = [0, 2, 2] ∧
      ¬ (∀ i : Nat, i < exOneControlPoint.Order + 0 + 1 → r.get i = exOneControlPoint.get 0) := by
  refine ⟨by decide, _, rfl, rfl, fun h => ?_⟩
  have h1 := h 1 (by decide)
  revert h1
  decide

/-- C3, amended: for every knot vector (order `p`, `n` control points) and `t ≥ 0`,
`DegreeElevate(t)` returns a knot vector of order `p+t` with `n+t` control points and
`n+p+2t+1` knots in which the knots at the indices `i ≤ p+t` with `i < n+t` (all of the
first `p+t+1` when `n ≥ p+1`) equal the first knot of the input, the last `p+t+1`
knots equal the last knot of the input, and every index `i` with
`p+t+1 ≤ i < n+t` holds the input knot at index `i-t`. -/
theorem degreeElevate_knots (kv : KnotVector) (t : Nat) :
    ∃ r, kv.DegreeElevate (t : Int) = .ok r ∧
      r.Order = kv.Order + t ∧
      r.NumOfControlPoints = kv.NumOfControlPoints + t ∧
      r.knot.length = kv.NumOfControlPoints + kv.Order + 2 * t + 1 ∧
      (∀ i : Nat, i ≤ kv.Order + t → i < kv.NumOfControlPoints + t → r.get i = kv.get 0) ∧
      (kv.Order < kv.NumOfControlPoints →
        ∀ i : Nat, i < kv.Order + t + 1 → r.get i = kv.get 0) ∧
      (∀ i : Nat, kv.NumOfControlPoints + t ≤ i →
        i < kv.NumOfControlPoints + kv.Order + 2 * t + 1 →
        r.get i = kv.get ((kv.knot.length : Int) - 1)) ∧
      (∀ i : Nat, kv.Order + t + 1 ≤ i → i < kv.NumOfControlPoints + t →
        r.get i = kv.get ((i : Int) - (t : Int))) :=
  ⟨_, DegreeElevate_eq kv t, rfl, rfl, length_elevatedKnots kv t,
    fun i h1 h2 => elevatedKnots_first kv t i h1 h2,
    fun hn i h1 => elevatedKnots_first kv t i (by omega) (by omega),
    fun i h1 h2 => elevatedKnots_last kv t i h1 h2,
    fun i h1 h2 => elevatedKnots_mid kv t i h1 h2⟩

/-- Instance of `degreeElevate_knots` at the knot vector `[0,0,1,2,2]` of order 1 and
`t = 1`: the knot at index 3 of the result is the input knot at index 2. -/
theorem degreeElevate_knots_witness :
    ∃ r, exTwoElements.DegreeElevate ((1 : Nat) : Int) = .ok r ∧ r.get (3 : Nat) = 1 := by
  obtain ⟨r, h, _, _, _, _, _, _, h3⟩ := degreeElevate_knots exTwoElements 1
  exact ⟨r, h, (h3 3 (by decide) (by decide)).trans (by decide)⟩

end KnotVector

end mfem

namespace mfem

/-! ### The binary search `findKnotSpan` -/

namespace KnotVector

theorem get_natCast (kv : KnotVector) (i : Nat) : kv.get (i : Int) = kv.knot.getD i 0 := by
  simp [get, rd]

theorem get_eq_getElem (kv : KnotVector) (i : Int) (h0 : 0 ≤ i) (h1 : i.toNat < kv.knot.length) :
    kv.get i = kv.knot[i.toNat] := by
  simp [get, rd, h0, List.getD_eq_getElem?_getD, List.getElem?_eq_getElem h1]

theorem NonDecreasing.get_le {kv : KnotVector} (h : kv.NonDecreasing) {i j : Int}
    (h0 : 0 ≤ i) (hij : i ≤ j) (hj : j < kv.knot.length) : kv.get i ≤ kv.get j := by
  have hj1 : j.toNat < kv.knot.length := by omega
  have hi1 : i.toNat < kv.knot.length := by omega
  rw [get_eq_getElem kv i h0 hi1, get_eq_getElem kv j (by omega) hj1]
  rcases Nat.lt_or_ge i.toNat j.toNat with hlt | hge
  · exact (List.pairwise_iff_getElem.mp h) _ _ hi1 hj1 hlt
  · have : i.toNat = j.toNat := by omega
    simp [this]

/-- The loop of `findKnotSpan` finds a span inside `(low, high)` whenever `u` lies
between `knot(low)` and `knot(high-1)` and the bracket is at least two wide. -/
theorem findKnotSpanLoop_spec (kv : KnotVector) (hnd : kv.NonDecreasing) (u : ℚ) :
    ∀ (fuel : Nat) (low high : Int), 0 ≤ low → low + 2 ≤ high → high ≤ kv.knot.length →
      high - low ≤ fuel + 2 → kv.get low ≤ u → u ≤ kv.get (high - 1) →
      ∃ mid, findKnotSpanLoop kv u fuel low high (Int.tdiv (low + high) 2) = .ok mid ∧
        low < mid ∧ mid < high ∧ kv.get (mid - 1) ≤ u ∧ u ≤ kv.get mid := by
  intro fuel
  induction fuel with
  | zero =>
    intro low high h0 h1 h2 h3 h4 h5
    have hm : Int.tdiv (low + high) 2 = low + 1 := by
      rw [Int.tdiv_eq_ediv (by omega) (by omega)]; omega
    have hh : high = low + 2 := by omega
    subst hh
    rw [hm, findKnotSpanLoop]
    have e1 : low + 1 - 1 = low := by omega
    have e2 : low + 2 - 1 = low + 1 := by omega
    rw [e2] at h5
    rw [e1]
    have hc : ¬ (u < kv.get low ∨ u > kv.get (low + 1)) := by
      rintro (h | h)
      · exact absurd h4 (not_le.mpr h)
      · exact absurd h5 (not_le.mpr h)
    rw [if_neg hc]
    exact ⟨_, rfl, by omega, by omega, by rw [e1]; exact h4, h5⟩
  | succ f ih =>
    intro low high h0 h1 h2 h3 h4 h5
    have hm : Int.tdiv (low + high) 2 = (low + high) / 2 :=
      Int.tdiv_eq_ediv (by omega) (by omega)
    rw [hm, findKnotSpanLoop]
    have hlo : low < (low + high) / 2 := by omega
    have hhi : (low + high) / 2 < high := by omega
    by_cases hc : u < kv.get ((low + high) / 2 - 1) ∨ u > kv.get ((low + high) / 2)
    · rw [if_pos hc]
      by_cases hl : u < kv.get ((low + high) / 2 - 1)
      · rw [if_pos hl]
        have hstep : low + 2 ≤ (low + high) / 2 := by
          by_contra hcon
          have : (low + high) / 2 - 1 = low := by omega
          rw [this] at hl
          exact absurd h4 (not_le.mpr hl)
        obtain ⟨mid, e, a1, a2, a3, a4⟩ :=
          ih low ((low + high) / 2) h0 hstep (by omega) (by omega) h4 (le_of_lt hl)
        exact ⟨mid, e, a1, by omega, a3, a4⟩
      · rw [if_neg hl]
        have hr : kv.get ((low + high) / 2) < u := by
          rcases hc with h | h
          · exact absurd h hl
          · exact h
        have hstep : (low + high) / 2 + 2 ≤ high := by
          by_contra hcon
          have : high - 1 = (low + high) / 2 := by omega
          rw [this] at h5
          exact absurd h5 (not_le.mpr hr)
        obtain ⟨mid, e, a1, a2, a3, a4⟩ :=
          ih ((low + high) / 2) high (by omega) hstep h2 (by omega) (le_of_lt hr) h5
        exact ⟨mid, e, by omega, a2, a3, a4⟩
    · rw [if_neg hc]
      refine ⟨_, rfl, hlo, hhi, ?_, ?_⟩
      · exact not_lt.mp (fun h => hc (Or.inl h))
      · exact not_lt.mp (fun h => hc (Or.inr h))

/-- What `findKnotSpan` returns on a non-decreasing knot vector with more control
points than its order, for `u` in the knot domain. -/
theorem findKnotSpan_ok (kv : KnotVector) (hs : kv.SizeOk) (hnd : kv.NonDecreasing)
    (hpn : kv.Order < kv.NumOfControlPoints) (u : ℚ)
    (h1 : kv.get (kv.Order : Nat) ≤ u) (h2 : u ≤ kv.get (kv.NumOfControlPoints : Nat))
    (fuel : Nat) (hf : kv.NumOfControlPoints ≤ fuel + kv.Order + 1) :
    ∃ mid : Int, findKnotSpan fuel kv u = .ok mid ∧
      (kv.Order : Int) < mid ∧ mid ≤ (kv.NumOfControlPoints : Int) ∧
      kv.get (mid - 1) ≤ u ∧ u ≤ kv.get mid := by
  unfold SizeOk at hs
  unfold findKnotSpan
  by_cases hu : u = kv.get (kv.NumOfControlPoints + kv.Order : Nat)
  · rw [if_pos hu]
    refine ⟨_, rfl, by omega, le_refl _, ?_, h2⟩
    rw [hu]
    exact hnd.get_le (by omega) (by push_cast; omega) (by push_cast; omega)
  · rw [if_neg hu]
    obtain ⟨mid, e, a1, a2, a3, a4⟩ :=
      findKnotSpanLoop_spec kv hnd u fuel (kv.Order : Int) ((kv.NumOfControlPoints : Int) + 1)
        (by omega) (by omega) (by omega) (by omega) h1
        (by rw [show ((kv.NumOfControlPoints : Int) + 1 - 1) = (kv.NumOfControlPoints : Int) by omega]
            exact h2)
    exact ⟨mid, e, a1, by omega, a3, a4⟩

/-- C9, refuted as stated: the knot vector of order `p = 1` with `n = 1` control point
and knots `[0,0,0]` is non-decreasing and `u = 0` satisfies `knot(p) ≤ u ≤ knot(n)`, but
`findKnotSpan(0)` returns `1`, which is not greater than `p`. -/
theorem findKnotSpan_counterexample :
    exConstant.SizeOk ∧ exConstant.NonDecreasing ∧
    exConstant.get (exConstant.Order : Nat) ≤ 0 ∧
    0 ≤ exConstant.get (exConstant.NumOfControlPoints : Nat) ∧
    (∀ fuel, findKnotSpan fuel exConstant 0 = .ok 1) ∧
    ¬ ((exConstant.Order : Int) < 1) :=
  ⟨by decide, by decide, by decide, by decide, fun _ => rfl, by decide⟩

/-- C9, amended: for every non-decreasing knot vector of order `p` with `n > p` control
points and every `u` with `knot(p) ≤ u ≤ knot(n)`, `findKnotSpan(u)` terminates (every
iteration bound `fuel ≥ n - p - 1` is enough) and returns an index `mid` with
`p < mid ≤ n` and `knot(mid-1) ≤ u ≤ knot(mid)`. -/
theorem findKnotSpan_spec (kv : KnotVector) (hs : kv.SizeOk) (hnd : kv.NonDecreasing)
    (hpn : kv.Order < kv.NumOfControlPoints) (u : ℚ)
    (h1 : kv.get (kv.Order : Nat) ≤ u) (h2 : u ≤ kv.get (kv.NumOfControlPoints : Nat))
    (fuel : Nat) (hf : kv.NumOfControlPoints ≤ fuel + kv.Order + 1) :
    ∃ mid : Int, findKnotSpan fuel kv u = .ok mid ∧
      (kv.Order : Int) < mid ∧ mid ≤ (kv.NumOfControlPoints : Int) ∧
      kv.get (mid - 1) ≤ u ∧ u ≤ kv.get mid :=
  findKnotSpan_ok kv hs hnd hpn u h1 h2 fuel hf

/-- Instance of `findKnotSpan_spec`: on the knots `[0,0,1,2,2]` of order 1 the search
for `u = 1` succeeds with two iterations allowed. -/
theorem findKnotSpan_spec_witness :
    ∃ mid : Int, findKnotSpan 2 exTwoElements 1 = .ok mid ∧
      (exTwoElements.Order : Int) < mid ∧ mid ≤ (exTwoElements.NumOfControlPoints : Int) ∧
      exTwoElements.get (mid - 1) ≤ 1 ∧ 1 ≤ exTwoElements.get mid :=
  findKnotSpan_spec exTwoElements (by decide) (by decide) (by decide) 1 (by decide) (by decide)
    2 (by decide)

end KnotVector

/-! ### Uniform refinement of a knot vector -/

namespace KnotVector

theorem spanMidpoints_zero (kv : KnotVector) (s : Nat) : spanMidpoints kv s 0 = [] := rfl

theorem spanMidpoints_succ (kv : KnotVector) (s n : Nat) :
    spanMidpoints kv s (n + 1) =
      if kv.get s ≠ kv.get (s + 1) then
        (kv.get s + kv.get (s + 1)) / 2 :: spanMidpoints kv (s + 1) n
      else spanMidpoints kv (s + 1) n := by
  unfold spanMidpoints
  rw [List.range'_succ, List.filter_cons]
  by_cases h : kv.get s ≠ kv.get (s + 1)
  · simp [h]
  · simp [h]

theorem spanMidpoints_append (kv : KnotVector) (s m n : Nat) :
    spanMidpoints kv s (m + n) = spanMidpoints kv s m ++ spanMidpoints kv (s + m) n := by
  unfold spanMidpoints
  rw [← List.map_append, ← List.filter_append]
  have := List.range'_append s m n 1
  rw [Nat.one_mul] at this
  rw [this, Nat.add_comm n m]

theorem spanMidpoints_eq_nil (kv : KnotVector) (s n : Nat)
    (h : ∀ i, s ≤ i → i < s + n → kv.get i = kv.get (i + 1)) : spanMidpoints kv s n = [] := by
  unfold spanMidpoints
  rw [List.map_eq_nil_iff, List.filter_eq_nil_iff]
  intro i hi
  rw [List.mem_range'_1] at hi
  simp [h i hi.1 hi.2]

/-- The counting loop of `GetElements` counts the non-empty spans. -/
theorem getElements_loop (kv : KnotVector) :
    ∀ (n s c : Nat),
      forCount (fun ne i => if kv.get i ≠ kv.get (i + 1) then ne + 1 else ne) n s c =
        c + (spanMidpoints kv s n).length
  | 0, _, _ => rfl
  | n + 1, s, c => by
    rw [forCount, getElements_loop kv n (s + 1), spanMidpoints_succ]
    by_cases h : kv.get s ≠ kv.get (s + 1)
    · rw [if_pos h, if_pos h, List.length_cons]; omega
    · rw [if_neg h, if_neg h]

theorem GetElements_NumOfElements (kv : KnotVector) :
    kv.GetElements.NumOfElements =
      (spanMidpoints kv kv.Order (kv.NumOfControlPoints - kv.Order)).length := by
  simp only [GetElements, forLoop, getElements_loop, Nat.zero_add]

/-- On a clamped knot vector every non-empty span has its index in `[Order, NCP)`. -/
theorem spanMidpoints_clamped (kv : KnotVector) (hs : kv.SizeOk) (hc : kv.Clamped) :
    spanMidpoints kv 0 (kv.knot.length - 1) =
      spanMidpoints kv kv.Order (kv.NumOfControlPoints - kv.Order) := by
  unfold SizeOk at hs
  have hfirst : ∀ i : Nat, i < kv.Order → kv.get i = kv.get (i + 1) := by
    intro i hi
    have h1 := hc.1 i (by omega)
    have h2 := hc.1 (i + 1) (by omega)
    rw [h1]; push_cast at h2; rw [h2]
  have hlast : ∀ i : Nat, kv.NumOfControlPoints ≤ i → i < kv.NumOfControlPoints + kv.Order →
      kv.get i = kv.get (i + 1) := by
    intro i h1 h2
    obtain ⟨d, rfl⟩ : ∃ d, i = kv.NumOfControlPoints + d := ⟨i - kv.NumOfControlPoints, by omega⟩
    have e1 := hc.2 d (by omega)
    have e2 := hc.2 (d + 1) (by omega)
    rw [e1]
    have : ((kv.NumOfControlPoints + d : Nat) : Int) + 1 = ((kv.NumOfControlPoints + (d + 1) : Nat) : Int) := by
      push_cast; omega
    rw [this, e2]
  rcases Nat.lt_or_ge kv.NumOfControlPoints kv.Order with hlt | hge
  · rw [show kv.NumOfControlPoints - kv.Order = 0 by omega, spanMidpoints_zero]
    apply spanMidpoints_eq_nil
    intro i _ hi
    rcases Nat.lt_or_ge i kv.Order with h | h
    · exact hfirst i h
    · exact hlast i (by omega) (by omega)
  · have hlen : kv.knot.length - 1 =
        kv.Order + ((kv.NumOfControlPoints - kv.Order) + kv.Order) := by omega
    rw [hlen, spanMidpoints_append, spanMidpoints_append,
      spanMidpoints_eq_nil kv 0 kv.Order (fun i _ hi => hfirst i (by omega)),
      spanMidpoints_eq_nil kv _ kv.Order (fun i h1 h2 => hlast i (by omega) (by omega))]
    simp

/-- The loop of `UniformRefinement`: started at write position `pre.length` on a
vector with `r` free entries, it appends the midpoints, provided they fit. -/
theorem uniformRefinement_loop (kv : KnotVector) :
    ∀ (n s : Nat) (pre : List ℚ) (r : Nat), (spanMidpoints kv s n).length ≤ r →
      forCountM
        (fun (st : List ℚ × Int) i =>
          if kv.get i ≠ kv.get (i + 1) then
            match wrChk st.1 st.2 ((1 / 2) * (kv.get i + kv.get (i + 1))) with
            | .error e => .error e
            | .ok w => .ok (w, st.2 + 1)
          else .ok st)
        n s (pre ++ List.replicate r 0, (pre.length : Int)) =
      .ok (pre ++ spanMidpoints kv s n ++
            List.replicate (r - (spanMidpoints kv s n).length) 0,
          ((pre.length + (spanMidpoints kv s n).length : Nat) : Int))
  | 0, s, pre, r, _ => by
    simp [forCountM, spanMidpoints_zero]
  | n + 1, s, pre, r, h => by
    rw [forCountM]
    rw [spanMidpoints_succ] at h ⊢
    dsimp only
    by_cases hne : kv.get s ≠ kv.get (s + 1)
    · rw [if_pos hne] at h ⊢
      rw [if_pos hne]
      rw [List.length_cons] at h
      obtain ⟨r1, rfl⟩ : ∃ r1, r = r1 + 1 := ⟨r - 1, by omega⟩
      have hw : wrChk (pre ++ List.replicate (r1 + 1) 0) (pre.length : Int)
          ((1 / 2) * (kv.get s + kv.get (s + 1))) =
          .ok ((pre ++ [(kv.get s + kv.get (s + 1)) / 2]) ++ List.replicate r1 0) := by
        unfold wrChk
        have hb : 0 ≤ (pre.length : Int) ∧
            (pre.length : Int).toNat < (pre ++ List.replicate (r1 + 1) (0 : ℚ)).length := by
          simp
        rw [if_pos hb]
        congr 1
        rw [Int.toNat_ofNat, List.set_append_right _ _ (le_refl _), Nat.sub_self,
          List.replicate_succ, List.set_cons_zero, List.append_assoc]
        congr 2
        ring
      rw [hw]
      dsimp only
      have ih := uniformRefinement_loop kv n (s + 1)
        (pre ++ [(kv.get s + kv.get (s + 1)) / 2]) r1 (by omega)
      simp only [List.length_append, List.length_singleton, Nat.cast_add, Nat.cast_one] at ih
      rw [ih]
      congr 1
      refine Prod.ext ?_ ?_
      · simp [Nat.add_sub_add_right]
      · simp only [Nat.cast_add, Nat.cast_one, List.length_cons]; omega
    · rw [if_neg hne] at h ⊢
      rw [if_neg hne]
      exact uniformRefinement_loop kv n (s + 1) pre r h

/-- `UniformRefinement` succeeds as soon as the midpoints of all non-empty spans fit in
`NumOfElements` entries. -/
theorem UniformRefinement_eq (kv : KnotVector)
    (h : (spanMidpoints kv 0 (kv.knot.length - 1)).length = kv.NumOfElements) :
    kv.UniformRefinement = .ok (spanMidpoints kv 0 (kv.knot.length - 1)) := by
  unfold UniformRefinement forLoopM
  have := uniformRefinement_loop kv (kv.knot.length - 1) 0 [] kv.NumOfElements (le_of_eq h)
  simp only [List.nil_append, List.length_nil, Nat.cast_zero, Nat.sub_zero] at this ⊢
  rw [this]
  simp [h]

theorem spanMidpoints_sorted (kv : KnotVector) (hnd : kv.NonDecreasing) (n : Nat)
    (hn : n < kv.knot.length) : (spanMidpoints kv 0 n).Pairwise (· < ·) := by
  unfold spanMidpoints
  rw [List.pairwise_map]
  have hr : (List.range' 0 n).Pairwise (· < ·) := List.pairwise_lt_range' 0 n
  refine List.Pairwise.imp_of_mem ?_ (hr.filter _)
  intro a b ha hb hab
  rw [List.mem_filter, List.mem_range'_1] at ha hb
  have ha2 : kv.get a ≠ kv.get (a + 1) := by simpa using ha.2
  have hb2 : kv.get b ≠ kv.get (b + 1) := by simpa using hb.2
  have la : kv.get a < kv.get (a + 1) :=
    lt_of_le_of_ne (hnd.get_le (by omega) (by omega) (by omega)) ha2
  have lb : kv.get b < kv.get (b + 1) :=
    lt_of_le_of_ne (hnd.get_le (by omega) (by omega) (by omega)) hb2
  have lab : kv.get (a + 1) ≤ kv.get b := hnd.get_le (by omega) (by omega) (by omega)
  linarith

/-- C7, refuted as stated: the knot vector of order 1 with two control points and knots
`[0,1,2,3]` is non-decreasing and its cached element count `1` is the one `GetElements`
computes, but it has three non-empty spans, and `UniformRefinement` writes past the end
of the output vector of size `NumOfElements = 1`. -/
theorem uniformRefinement_counterexample :
    exUnclamped.SizeOk ∧ exUnclamped.NonDecreasing ∧
    exUnclamped.GetElements = exUnclamped ∧
    exUnclamped.UniformRefinement = .error .outOfBounds :=
  ⟨by decide, by decide, rfl, by with_unfolding_all rfl⟩

/-- C7, amended: for every clamped knot vector whose cached `NumOfElements` is the one
computed by `GetElements` (over the indices `[Order, NCP)`), `UniformRefinement` makes no
write past the end of the output vector and returns a vector of exactly `NumOfElements`
entries: the midpoints `(knot(i)+knot(i+1))/2` of all pairs of consecutive knots with
`knot(i) ≠ knot(i+1)`, by increasing `i`; when the knots are non-decreasing the entries
are strictly increasing. -/
theorem uniformRefinement_spec (kv : KnotVector) (hs : kv.SizeOk) (hc : kv.Clamped)
    (hne : kv.NumOfElements = kv.GetElements.NumOfElements) :
    ∃ newknots, kv.UniformRefinement = .ok newknots ∧
      newknots.length = kv.NumOfElements ∧
      newknots =
        ((List.range (kv.knot.length - 1)).filter
          (fun (i : Nat) => decide (kv.get i ≠ kv.get (i + 1)))).map
          (fun (i : Nat) => (kv.get i + kv.get (i + 1)) / 2) ∧
      (kv.NonDecreasing → newknots.Pairwise (· < ·)) := by
  have hlen : (spanMidpoints kv 0 (kv.knot.length - 1)).length = kv.NumOfElements := by
    rw [hne, GetElements_NumOfElements, spanMidpoints_clamped kv hs hc]
  refine ⟨_, UniformRefinement_eq kv hlen, hlen, ?_, ?_⟩
  · rw [List.range_eq_range']; rfl
  · intro hnd
    unfold SizeOk at hs
    exact spanMidpoints_sorted kv hnd _ (by omega)

/-- Instance of `uniformRefinement_spec`: on the clamped knots `[0,0,2,2]` of order 1
the refinement returns the single midpoint `1`. -/
theorem uniformRefinement_spec_witness :
    ∃ newknots, exUnit.UniformRefinement = .ok newknots ∧
      newknots.length = exUnit.NumOfElements ∧
      newknots =
        ((List.range (exUnit.knot.length - 1)).filter
          (fun (i : Nat) => decide (exUnit.get i ≠ exUnit.get (i + 1)))).map
          (fun (i : Nat) => (exUnit.get i + exUnit.get (i + 1)) / 2) ∧
      (exUnit.NonDecreasing → newknots.Pairwise (· < ·)) :=
  uniformRefinement_spec exUnit (by decide) (by decide) rfl

end KnotVector

/-! ### List facts used for knot insertion -/

theorem rd_natCast (l : List ℚ) (i : Nat) : rd l (i : Int) = l.getD i 0 := by
  simp [rd]

theorem wr_natCast (l : List ℚ) (i : Nat) (x : ℚ) : wr l (i : Int) x = l.set i x := by
  simp [wr]

theorem rd_eq_getElem (l : List ℚ) (i : Nat) (h : i < l.length) : rd l (i : Int) = l[i] := by
  rw [rd_natCast, List.getD_eq_getElem l 0 h]

theorem list_ext_rd (l1 l2 : List ℚ) (hl : l1.length = l2.length)
    (h : ∀ i : Nat, i < l1.length → rd l1 (i : Int) = rd l2 (i : Int)) : l1 = l2 := by
  apply List.ext_getElem hl
  intro n h1 h2
  have := h n h1
  rwa [rd_eq_getElem l1 n h1, rd_eq_getElem l2 n h2] at this

theorem rd_drop (l : List ℚ) (n i : Nat) : rd (l.drop n) (i : Int) = rd l ((n + i : Nat) : Int) := by
  rw [rd_natCast, rd_natCast, List.getD_eq_getElem?_getD, List.getD_eq_getElem?_getD,
    List.getElem?_drop]

theorem rd_take (l : List ℚ) (n i : Nat) (h : i < n) : rd (l.take n) (i : Int) = rd l (i : Int) := by
  rw [rd_natCast, rd_natCast, List.getD_eq_getElem?_getD, List.getD_eq_getElem?_getD,
    List.getElem?_take_of_lt h]

theorem drop_set_self (l : List ℚ) (n : Nat) (v : ℚ) (h : n < l.length) :
    (l.set n v).drop n = v :: l.drop (n + 1) := by
  rw [List.drop_set, if_neg (lt_irrefl _), Nat.sub_self, List.drop_eq_getElem_cons h,
    List.set_cons_zero]

theorem drop_succ_set_self (l : List ℚ) (n : Nat) (v : ℚ) :
    (l.set n v).drop (n + 1) = l.drop (n + 1) := by
  rw [List.drop_set, if_pos (Nat.lt_succ_self _)]

theorem take_set_of_le (l : List ℚ) (n m : Nat) (v : ℚ) (h : n ≤ m) :
    (l.set m v).take n = l.take n := by
  rw [List.set_take, List.set_eq_of_length_le]
  rw [List.length_take]
  omega

theorem forLoopInt_set (lo hi : Int) (g : Int → Int) (f : Int → ℚ) (kv : KnotVector) :
    forLoopInt lo hi (fun nk j => nk.set (g j) (f j)) kv =
      { kv with
        knot := forCount (fun w n => wr w (g (lo + (n : Int))) (f (lo + (n : Int))))
          (hi - lo).toNat 0 kv.knot } := by
  unfold forLoopInt
  exact KnotVector.forCount_set (fun n => g (lo + (n : Int))) (fun n => f (lo + (n : Int))) _ _ _

/-! ### Knot insertion -/

theorem sorted_rd_le (l : List ℚ) (h : l.Pairwise (· ≤ ·)) (i j : Nat) (hij : i ≤ j)
    (hj : j < l.length) : rd l (i : Int) ≤ rd l (j : Int) := by
  rw [rd_eq_getElem l i (by omega), rd_eq_getElem l j hj]
  rcases Nat.lt_or_ge i j with hlt | hge
  · exact (List.pairwise_iff_getElem.mp h) _ _ (by omega) hj hlt
  · have : i = j := by omega
    subst this
    exact le_refl _

theorem mem_drop_rd (l : List ℚ) (n : Nat) (z : ℚ) (h : z ∈ l.drop n) :
    ∃ m : Nat, n ≤ m ∧ m < l.length ∧ z = rd l (m : Int) := by
  obtain ⟨k, hk, e⟩ := List.mem_iff_getElem.mp h
  rw [List.length_drop] at hk
  refine ⟨n + k, by omega, by omega, ?_⟩
  rw [rd_eq_getElem l (n + k) (by omega), ← e, List.getElem_drop]

namespace NURBSPatch

theorem insert_init_eq (oldkv : KnotVector) (X : List ℚ) (a b : Int) :
    forLoopInt (b + (oldkv.GetOrder : Int))
        ((oldkv.GetNCP : Int) + (oldkv.GetOrder : Int) + 1)
        (fun nk j => nk.set (j + ((X.length : Int) - 1) + 1) (oldkv.get j))
        (forLoopInt 0 (a + 1) (fun nk j => nk.set j (oldkv.get j))
          (KnotVector.create oldkv.GetOrder (oldkv.GetNCP + X.length))) =
      { knot :=
          forCount
            (fun w n => wr w (b + (oldkv.Order : Int) + (n : Int) + ((X.length : Int) - 1) + 1)
              (oldkv.get (b + (oldkv.Order : Int) + (n : Int))))
            ((oldkv.NumOfControlPoints : Int) + (oldkv.Order : Int) + 1 -
              (b + (oldkv.Order : Int))).toNat 0
            (forCount (fun w n => wr w ((0 : Int) + (n : Int)) (oldkv.get ((0 : Int) + (n : Int))))
              (a + 1 - 0).toNat 0
              (List.replicate (oldkv.NumOfControlPoints + X.length + oldkv.Order + 1) (-1)))
        Order := oldkv.Order
        NumOfControlPoints := oldkv.NumOfControlPoints + X.length
        NumOfElements := 0 } := by
  rw [forLoopInt_set _ _ (fun j => j + ((X.length : Int) - 1) + 1) (fun j => oldkv.get j),
    forLoopInt_set _ _ (fun j => j) (fun j => oldkv.get j)]
  rfl

/-- The new knot vector of `KnotInsert` after the two copying loops: the knots up to
index `a` and the knots from index `b + pl` on are in place. -/
theorem insert_init (oldkv : KnotVector) (X : List ℚ) (a b : Nat) (hs : oldkv.SizeOk)
    (hX : 0 < X.length) (hab : a ≤ b) (hb : b ≤ oldkv.NumOfControlPoints) :
    ∃ K : KnotVector,
      forLoopInt ((b : Int) + (oldkv.GetOrder : Int))
        ((oldkv.GetNCP : Int) + (oldkv.GetOrder : Int) + 1)
        (fun nk j => nk.set (j + ((X.length : Int) - 1) + 1) (oldkv.get j))
        (forLoopInt 0 ((a : Int) + 1) (fun nk j => nk.set j (oldkv.get j))
          (KnotVector.create oldkv.GetOrder (oldkv.GetNCP + X.length))) = K ∧
      K.Order = oldkv.Order ∧
      K.NumOfControlPoints = oldkv.NumOfControlPoints + X.length ∧
      K.knot.length = oldkv.knot.length + X.length ∧
      K.knot.take (a + 1) = oldkv.knot.take (a + 1) ∧
      K.knot.drop (b + oldkv.Order + X.length) = oldkv.knot.drop (b + oldkv.Order) := by
  unfold KnotVector.SizeOk at hs
  refine ⟨_, insert_init_eq oldkv X a b, rfl, rfl, ?_, ?_, ?_⟩ <;> dsimp only
  · simp only [length_forCount_wr, List.length_replicate]
    omega
  · apply list_ext_rd
    · simp only [List.length_take, length_forCount_wr, List.length_replicate]
      omega
    · intro i hi
      rw [List.length_take] at hi
      simp only [length_forCount_wr, List.length_replicate] at hi
      have hia : i < a + 1 := by omega
      rw [rd_take _ _ _ hia, rd_take _ _ _ hia]
      rw [rd_forCount_wr_other _ _ _ _ _ _ (fun n _ _ => by beta_reduce; omega)]
      have := rd_forCount_wr_hit (fun n : Nat => (0 : Int) + (n : Int))
        (fun n : Nat => oldkv.get ((0 : Int) + (n : Int))) i ((a : Int) + 1 - 0).toNat 0
        (List.replicate (oldkv.NumOfControlPoints + X.length + oldkv.Order + 1) (-1))
        (by beta_reduce; omega) (by beta_reduce; omega) (by beta_reduce; omega)
        (by simp only [List.length_replicate]; omega)
        (fun n _ _ => by beta_reduce; omega)
      simp only [Int.zero_add] at this ⊢
      rw [this]
      rfl
  · apply list_ext_rd
    · simp only [List.length_drop, length_forCount_wr, List.length_replicate]
      omega
    · intro i hi
      simp only [List.length_drop, length_forCount_wr, List.length_replicate] at hi
      rw [rd_drop, rd_drop]
      have := rd_forCount_wr_hit
        (fun n : Nat => (b : Int) + (oldkv.Order : Int) + (n : Int) + ((X.length : Int) - 1) + 1)
        (fun n : Nat => oldkv.get ((b : Int) + (oldkv.Order : Int) + (n : Int))) i
        ((oldkv.NumOfControlPoints : Int) + (oldkv.Order : Int) + 1 -
          ((b : Int) + (oldkv.Order : Int))).toNat 0
        (forCount (fun w n => wr w ((0 : Int) + (n : Int)) (oldkv.get ((0 : Int) + (n : Int))))
          ((a : Int) + 1 - 0).toNat 0
          (List.replicate (oldkv.NumOfControlPoints + X.length + oldkv.Order + 1) (-1)))
        (by beta_reduce; omega) (by beta_reduce; omega) (by beta_reduce; omega)
        (by simp only [length_forCount_wr, List.length_replicate]; omega)
        (fun n _ _ => by beta_reduce; omega)
      have e1 : (((b + oldkv.Order + X.length + i : Nat) : Int)) =
          (b : Int) + (oldkv.Order : Int) + (i : Int) + ((X.length : Int) - 1) + 1 := by
        push_cast; omega
      have e2 : (((b + oldkv.Order + i : Nat) : Int)) =
          (b : Int) + (oldkv.Order : Int) + (i : Int) := by
        push_cast; omega
      rw [e1, this, e2]
      rfl

end NURBSPatch


namespace NURBSPatch

/-- One iteration of the `while` loop of `KnotInsert` keeps the invariant. -/
theorem mergeInv_shift (U X : List ℚ) (hU : U.Pairwise (· ≤ ·)) (hX : X.Pairwise (· ≤ ·))
    (a j0 : Nat)
    (st : InsertState) (d : List ℚ) (hj0 : 0 < j0) (h : MergeInv U X a j0 st)
    (hc : rd X ((j0 - 1 : Nat) : Int) ≤ rd U st.i) (hia : st.i > (a : Int)) :
    MergeInv U X a j0
      { newkv := st.newkv.set st.k (rd U st.i), newdata := d, i := st.i - 1, k := st.k - 1 } := by
  obtain ⟨i, hi, hk, hai, hiU, hj, hlen, hsort, hperm, htake, h6, h5⟩ := h
  rw [hi] at hc hia
  have hi1 : 1 ≤ i := by omega
  have hai1 : a < i := by omega
  have hkn : (KnotVector.set st.newkv st.k (rd U st.i)).knot =
      st.newkv.knot.set (i + j0) (rd U (i : Int)) := by
    show wr st.newkv.knot st.k (rd U st.i) = _
    rw [hk, hi, wr_natCast]
  have hdrop : (st.newkv.knot.set (i + j0) (rd U (i : Int))).drop (i - 1 + j0 + 1) =
      rd U (i : Int) :: st.newkv.knot.drop (i + j0 + 1) := by
    rw [show i - 1 + j0 + 1 = i + j0 by omega]
    exact drop_set_self _ _ _ (by omega)
  have hUdrop : U.drop (i - 1 + 1) = rd U (i : Int) :: U.drop (i + 1) := by
    rw [show i - 1 + 1 = i by omega, List.drop_eq_getElem_cons hiU, rd_eq_getElem U i hiU]
  refine ⟨i - 1, by simp only [hi]; omega, by simp only [hk]; omega, by omega, by omega, hj,
    ?_, ?_, ?_, ?_, ?_, ?_⟩
  · rw [hkn, List.length_set]; exact hlen
  · rw [hkn, hdrop, List.pairwise_cons]
    refine ⟨?_, hsort⟩
    intro z hz
    rcases List.mem_append.mp ((hperm.mem_iff).mp hz) with hz1 | hz1
    · obtain ⟨m, hm1, hm2, rfl⟩ := mem_drop_rd U _ z hz1
      exact sorted_rd_le U hU i m (by omega) hm2
    · obtain ⟨m, hm1, hm2, rfl⟩ := mem_drop_rd X _ z hz1
      have h1 := h5 hai1 (by omega)
      have h2 := sorted_rd_le X hX j0 m hm1 hm2
      exact le_of_lt (lt_of_lt_of_le h1 h2)
  · rw [hkn, hdrop, hUdrop]
    exact List.Perm.cons _ hperm
  · rw [hkn, take_set_of_le _ _ _ _ (by omega)]
    exact htake
  · intro _ n hn1 hn2
    rcases Nat.lt_or_ge i n with hlt | hge
    · exact h6 hj0 n hlt hn2
    · have : n = i := by omega
      subst this
      exact hc
  · intro h1 h2
    have e1 := h5 hai1 h2
    have e2 := sorted_rd_le U hU (i - 1) i (by omega) hiU
    exact lt_of_le_of_lt e2 e1

/-- Placing the new knot `X[j0-1]` after the `while` loop has stopped keeps the
invariant, with one new knot less to place. -/
theorem mergeInv_place (U X : List ℚ) (hU : U.Pairwise (· ≤ ·)) (hX : X.Pairwise (· ≤ ·))
    (a j0 : Nat) (st : InsertState) (d : List ℚ) (hj0 : 0 < j0) (h : MergeInv U X a j0 st)
    (hc : ¬ (rd X ((j0 - 1 : Nat) : Int) ≤ rd U st.i ∧ st.i > (a : Int))) :
    MergeInv U X a (j0 - 1)
      { newkv := st.newkv.set st.k (rd X ((j0 - 1 : Nat) : Int)), newdata := d,
        i := st.i, k := st.k - 1 } := by
  obtain ⟨i, hi, hk, hai, hiU, hj, hlen, hsort, hperm, htake, h6, h5⟩ := h
  rw [hi] at hc
  have hkn : (KnotVector.set st.newkv st.k (rd X ((j0 - 1 : Nat) : Int))).knot =
      st.newkv.knot.set (i + j0) (rd X ((j0 - 1 : Nat) : Int)) := by
    show wr st.newkv.knot st.k _ = _
    rw [hk, wr_natCast]
  have hdrop : (st.newkv.knot.set (i + j0) (rd X ((j0 - 1 : Nat) : Int))).drop
      (i + (j0 - 1) + 1) = rd X ((j0 - 1 : Nat) : Int) :: st.newkv.knot.drop (i + j0 + 1) := by
    rw [show i + (j0 - 1) + 1 = i + j0 by omega]
    exact drop_set_self _ _ _ (by omega)
  have hXdrop : X.drop (j0 - 1) = rd X ((j0 - 1 : Nat) : Int) :: X.drop j0 := by
    have hlt : j0 - 1 < X.length := by omega
    rw [List.drop_eq_getElem_cons hlt, rd_eq_getElem X (j0 - 1) hlt,
      show j0 - 1 + 1 = j0 by omega]
  refine ⟨i, hi, by simp only [hk]; omega, hai, hiU, by omega, ?_, ?_, ?_, ?_, ?_, ?_⟩
  · rw [hkn, List.length_set]; exact hlen
  · rw [hkn, hdrop, List.pairwise_cons]
    refine ⟨?_, hsort⟩
    intro z hz
    rcases List.mem_append.mp ((hperm.mem_iff).mp hz) with hz1 | hz1
    · obtain ⟨m, hm1, hm2, rfl⟩ := mem_drop_rd U _ z hz1
      exact h6 hj0 m (by omega) hm2
    · obtain ⟨m, hm1, hm2, rfl⟩ := mem_drop_rd X _ z hz1
      exact sorted_rd_le X hX (j0 - 1) m (by omega) hm2
  · rw [hkn, hdrop, hXdrop]
    exact (List.Perm.cons _ hperm).trans List.perm_middle.symm
  · rw [hkn, take_set_of_le _ _ _ _ (by omega)]
    exact htake
  · intro h1 n hn1 hn2
    have e1 := sorted_rd_le X hX (j0 - 1 - 1) (j0 - 1) (by omega) (by omega)
    exact le_trans e1 (h6 hj0 n hn1 hn2)
  · intro h1 _
    by_contra hcon
    exact hc ⟨not_lt.mp hcon, by omega⟩

/-- The `while` loop of `KnotInsert` keeps the invariant and the shape of the new knot
vector, and stops with its condition false. -/
theorem insertShift_inv (slN slO : Int → Int → Int) (size : Int) (oldkv : KnotVector)
    (olddata : List ℚ) (pl : Int) (X : List ℚ) (hU : oldkv.knot.Pairwise (· ≤ ·))
    (hX : X.Pairwise (· ≤ ·)) (a j0 : Nat) (hj0 : 0 < j0) :
    ∀ (fuel : Nat) (st : InsertState), MergeInv oldkv.knot X a j0 st →
      (st.i - (a : Int)).toNat ≤ fuel →
      MergeInv oldkv.knot X a j0
        (insertShift slN slO size oldkv olddata a pl (rd X ((j0 - 1 : Nat) : Int)) fuel st) ∧
      ¬ (rd X ((j0 - 1 : Nat) : Int) ≤ rd oldkv.knot
          (insertShift slN slO size oldkv olddata a pl (rd X ((j0 - 1 : Nat) : Int)) fuel st).i ∧
        (insertShift slN slO size oldkv olddata a pl (rd X ((j0 - 1 : Nat) : Int)) fuel st).i >
          (a : Int)) ∧
      (insertShift slN slO size oldkv olddata a pl (rd X ((j0 - 1 : Nat) : Int)) fuel
        st).newkv.Order = st.newkv.Order ∧
      (insertShift slN slO size oldkv olddata a pl (rd X ((j0 - 1 : Nat) : Int)) fuel
        st).newkv.NumOfControlPoints = st.newkv.NumOfControlPoints := by
  intro fuel
  induction fuel with
  | zero =>
    intro st h hf
    rw [insertShift]
    exact ⟨h, fun hc => by omega, rfl, rfl⟩
  | succ f ih =>
    intro st h hf
    rw [insertShift]
    by_cases hc : rd X ((j0 - 1 : Nat) : Int) ≤ oldkv.get st.i ∧ st.i > (a : Int)
    · rw [if_pos hc]
      have h1 := mergeInv_shift oldkv.knot X hU hX a j0 st
        (copySlice slN slO size olddata (st.k - pl - 1) (st.i - pl - 1) st.newdata) hj0 h
        hc.1 hc.2
      obtain ⟨r1, r2, r3, r4⟩ := ih _ h1 (by simp only; omega)
      exact ⟨r1, r2, r3, r4⟩
    · rw [if_neg hc]
      exact ⟨h, hc, rfl, rfl⟩

/-- One iteration of the loop over the new knots keeps the invariant. -/
theorem insertStep_inv (slN slO : Int → Int → Int) (size : Int) (oldkv : KnotVector)
    (olddata : List ℚ) (pl : Int) (X : List ℚ) (hU : oldkv.knot.Pairwise (· ≤ ·))
    (hX : X.Pairwise (· ≤ ·)) (a j0 : Nat) (hj0 : 0 < j0) (st : InsertState)
    (h : MergeInv oldkv.knot X a j0 st) :
    MergeInv oldkv.knot X a (j0 - 1)
        (insertStep slN slO size oldkv olddata X a pl st ((j0 - 1 : Nat) : Int)) ∧
      (insertStep slN slO size oldkv olddata X a pl st ((j0 - 1 : Nat) : Int)).newkv.Order =
        st.newkv.Order ∧
      (insertStep slN slO size oldkv olddata X a pl st
        ((j0 - 1 : Nat) : Int)).newkv.NumOfControlPoints = st.newkv.NumOfControlPoints := by
  obtain ⟨r1, r2, r3, r4⟩ := insertShift_inv slN slO size oldkv olddata pl X hU hX a j0 hj0
    (st.i - (a : Int)).toNat st h (le_refl _)
  unfold insertStep
  exact ⟨mergeInv_place oldkv.knot X hU hX a j0 _ _ hj0 r1 r2, r3, r4⟩

/-- The loop over the new knots, started with `n` knots left, places them all. -/
theorem insertLoop_inv (slN slO : Int → Int → Int) (size : Int) (oldkv : KnotVector)
    (olddata : List ℚ) (pl : Int) (X : List ℚ) (hU : oldkv.knot.Pairwise (· ≤ ·))
    (hX : X.Pairwise (· ≤ ·)) (a : Nat) :
    ∀ (n s : Nat) (st : InsertState), s + n = X.length →
      MergeInv oldkv.knot X a n st →
      MergeInv oldkv.knot X a 0
        (forCount
          (fun st m => insertStep slN slO size oldkv olddata X a pl st
            ((X.length : Int) - 1 - (m : Int))) n s st) ∧
      (forCount
          (fun st m => insertStep slN slO size oldkv olddata X a pl st
            ((X.length : Int) - 1 - (m : Int))) n s st).newkv.Order = st.newkv.Order ∧
      (forCount
          (fun st m => insertStep slN slO size oldkv olddata X a pl st
            ((X.length : Int) - 1 - (m : Int))) n s st).newkv.NumOfControlPoints =
        st.newkv.NumOfControlPoints := by
  intro n
  induction n with
  | zero =>
    intro s st _ h
    exact ⟨h, rfl, rfl⟩
  | succ n ih =>
    intro s st hs h
    rw [forCount]
    have hj : (X.length : Int) - 1 - (s : Int) = ((n + 1 - 1 : Nat) : Int) := by omega
    obtain ⟨r1, r2, r3⟩ := insertStep_inv slN slO size oldkv olddata pl X hU hX a (n + 1)
      (by omega) st h
    rw [Nat.add_sub_cancel] at r1
    rw [hj]
    obtain ⟨q1, q2, q3⟩ := ih (s + 1) _ (by omega) r1
    exact ⟨q1, q2.trans r2, q3.trans r3⟩

/-- When all new knots have been placed the new knot vector is the sorted merge of the
old and the new knots. -/
theorem mergeInv_final (U X : List ℚ) (hU : U.Pairwise (· ≤ ·)) (hX : X.Pairwise (· ≤ ·))
    (a : Nat) (st : InsertState) (hXpos : 0 < X.length) (ha : a + 1 < U.length)
    (h1 : rd U (a : Int) ≤ rd X 0) (h2 : rd X 0 ≤ rd U ((a + 1 : Nat) : Int))
    (h : MergeInv U X a 0 st) :
    st.newkv.knot.Pairwise (· ≤ ·) ∧ st.newkv.knot.Perm (U ++ X) := by
  obtain ⟨i, hi, hk, hai, hiU, hj, hlen, hsort, hperm, htake, h6, h5⟩ := h
  have hia : i = a := by
    by_contra hne
    have hlt : a < i := by omega
    have e1 := h5 hlt hXpos
    have e2 := sorted_rd_le U hU (a + 1) i (by omega) hiU
    have e3 : rd X ((0 : Nat) : Int) = rd X 0 := rfl
    rw [e3] at e1
    linarith
  subst hia
  rw [Nat.add_zero] at hsort hperm
  rw [List.drop_zero] at hperm
  have hsplit : st.newkv.knot = U.take (i + 1) ++ st.newkv.knot.drop (i + 1) := by
    rw [← htake, List.take_append_drop]
  constructor
  · rw [hsplit, List.pairwise_append]
    refine ⟨hU.sublist (List.take_sublist _ _), hsort, ?_⟩
    intro x hx z hz
    obtain ⟨m, hm1, hm2⟩ := List.mem_iff_getElem.mp hx
    rw [List.getElem_take] at hm2
    rw [List.length_take] at hm1
    have hmU : m < U.length := by omega
    have hxm : x = rd U (m : Int) := by rw [rd_eq_getElem U m hmU, hm2]
    rcases List.mem_append.mp ((hperm.mem_iff).mp hz) with hz1 | hz1
    · obtain ⟨n, hn1, hn2, rfl⟩ := mem_drop_rd U _ z hz1
      rw [hxm]
      exact sorted_rd_le U hU m n (by omega) hn2
    · obtain ⟨n, hn2, e⟩ := List.mem_iff_getElem.mp hz1
      have e0 := sorted_rd_le X hX 0 n (Nat.zero_le _) hn2
      have e1 := sorted_rd_le U hU m i (by omega) (by omega)
      rw [rd_eq_getElem X n hn2, e] at e0
      have e3 : rd X ((0 : Nat) : Int) = rd X 0 := rfl
      rw [e3] at e0
      rw [hxm]
      linarith
  · rw [hsplit]
    have : (U.take (i + 1) ++ st.newkv.knot.drop (i + 1)).Perm
        (U.take (i + 1) ++ (U.drop (i + 1) ++ X)) := List.Perm.append (List.Perm.refl _) hperm
    rw [← List.append_assoc, List.take_append_drop] at this
    exact this

/-- The knot vector built by `KnotInsert` from spans `a ≤ b` that bracket the first and
the last new knot: same order, `|X|` more control points, and the knots are the sorted
merge of the old knots and the new knots. -/
theorem insertCore_knots (slN slO : Int → Int → Int) (size : Int) (oldkv : KnotVector)
    (olddata newdata : List ℚ) (X : List ℚ) (a b : Nat) (hs : oldkv.SizeOk)
    (hU : oldkv.knot.Pairwise (· ≤ ·)) (hX : X.Pairwise (· ≤ ·)) (hXpos : 0 < X.length)
    (hp : 1 ≤ oldkv.Order) (hab : a ≤ b) (hb : b + 1 ≤ oldkv.NumOfControlPoints)
    (h1 : rd oldkv.knot (a : Int) ≤ rd X 0)
    (h2 : rd X 0 ≤ rd oldkv.knot ((a + 1 : Nat) : Int))
    (h3 : rd X ((X.length - 1 : Nat) : Int) ≤ rd oldkv.knot ((b + 1 : Nat) : Int)) :
    (insertCore slN slO size oldkv olddata newdata X (a : Int) (b : Int)).newkv.Order =
        oldkv.Order ∧
      (insertCore slN slO size oldkv olddata newdata X (a : Int)
        (b : Int)).newkv.NumOfControlPoints = oldkv.NumOfControlPoints + X.length ∧
      (insertCore slN slO size oldkv olddata newdata X (a : Int)
        (b : Int)).newkv.knot.Pairwise (· ≤ ·) ∧
      (insertCore slN slO size oldkv olddata newdata X (a : Int)
        (b : Int)).newkv.knot.Perm (oldkv.knot ++ X) := by
  obtain ⟨K, hK, kO, kN, kL, kT, kD⟩ := insert_init oldkv X a b hs hXpos hab (by omega)
  have hsz := hs
  unfold KnotVector.SizeOk at hsz
  unfold insertCore forDownInt
  dsimp only
  rw [hK]
  have hcount : ((X.length : Int) - 1 - 0 + 1).toNat = X.length := by omega
  rw [hcount]
  have hinit : MergeInv oldkv.knot X a X.length
      { newkv := K
        newdata := forLoopInt ((b : Int) - 1) (oldkv.GetNCP : Int)
          (fun d k => copySlice slN slO size olddata (k + ((X.length : Int) - 1) + 1) k d)
          (forLoopInt 0 ((a : Int) - (oldkv.GetOrder : Int) + 1)
            (fun d k => copySlice slN slO size olddata k k d) newdata)
        i := (b : Int) + (oldkv.GetOrder : Int) - 1
        k := (b : Int) + (oldkv.GetOrder : Int) + ((X.length : Int) - 1) } := by
    refine ⟨b + oldkv.Order - 1, ?_, ?_, by omega, by omega, le_refl _, kL, ?_, ?_, kT, ?_, ?_⟩
    · simp only [KnotVector.GetOrder]; omega
    · simp only [KnotVector.GetOrder]; omega
    · rw [show b + oldkv.Order - 1 + X.length + 1 = b + oldkv.Order + X.length by omega, kD]
      exact hU.sublist (List.drop_sublist _ _)
    · rw [show b + oldkv.Order - 1 + X.length + 1 = b + oldkv.Order + X.length by omega, kD,
        show b + oldkv.Order - 1 + 1 = b + oldkv.Order by omega, List.drop_length,
        List.append_nil]
    · intro _ n hn1 hn2
      exact le_trans h3 (sorted_rd_le oldkv.knot hU (b + 1) n (by omega) hn2)
    · intro _ hlt
      exact absurd hlt (lt_irrefl _)
  obtain ⟨r1, r2, r3⟩ := insertLoop_inv slN slO size oldkv olddata (oldkv.GetOrder : Int) X hU hX
    a X.length 0 _ (by omega) hinit
  obtain ⟨q1, q2⟩ := mergeInv_final oldkv.knot X hU hX a _ hXpos (by omega) h1 h2 r1
  exact ⟨r2.trans kO, r3.trans kN, q1, q2⟩

theorem insertShift_shape (slN slO : Int → Int → Int) (size : Int) (oldkv : KnotVector)
    (olddata : List ℚ) (a pl : Int) (x : ℚ) :
    ∀ (fuel : Nat) (st : InsertState),
      (insertShift slN slO size oldkv olddata a pl x fuel st).newkv.Order = st.newkv.Order ∧
      (insertShift slN slO size oldkv olddata a pl x fuel st).newkv.NumOfControlPoints =
        st.newkv.NumOfControlPoints
  | 0, _ => ⟨rfl, rfl⟩
  | fuel + 1, st => by
    rw [insertShift]
    split
    · exact insertShift_shape slN slO size oldkv olddata a pl x fuel _
    · exact ⟨rfl, rfl⟩

theorem insertLoop_shape (slN slO : Int → Int → Int) (size : Int) (oldkv : KnotVector)
    (olddata : List ℚ) (X : List ℚ) (a pl rr : Int) :
    ∀ (n s : Nat) (st : InsertState),
      (forCount (fun st m => insertStep slN slO size oldkv olddata X a pl st (rr - (m : Int)))
        n s st).newkv.Order = st.newkv.Order ∧
      (forCount (fun st m => insertStep slN slO size oldkv olddata X a pl st (rr - (m : Int)))
        n s st).newkv.NumOfControlPoints = st.newkv.NumOfControlPoints
  | 0, _, _ => ⟨rfl, rfl⟩
  | n + 1, s, st => by
    rw [forCount]
    obtain ⟨h1, h2⟩ := insertLoop_shape slN slO size oldkv olddata X a pl rr n (s + 1)
      (insertStep slN slO size oldkv olddata X a pl st (rr - (s : Int)))
    obtain ⟨h3, h4⟩ := insertShift_shape slN slO size oldkv olddata a pl (rd X (rr - (s : Int)))
      (st.i - a).toNat st
    exact ⟨h1.trans h3, h2.trans h4⟩

/-- The new knot vector of `KnotInsert` always has the order of the old one and
`|X|` more control points. -/
theorem insertCore_shape (slN slO : Int → Int → Int) (size : Int) (oldkv : KnotVector)
    (olddata newdata : List ℚ) (X : List ℚ) (a b : Int) :
    (insertCore slN slO size oldkv olddata newdata X a b).newkv.Order = oldkv.Order ∧
    (insertCore slN slO size oldkv olddata newdata X a b).newkv.NumOfControlPoints =
      oldkv.NumOfControlPoints + X.length := by
  unfold insertCore forDownInt
  dsimp only
  rw [insert_init_eq]
  exact insertLoop_shape slN slO size oldkv olddata X a _ _ _ _ _

theorem natCast_eq_neg_one (n : Nat) : ((n : Int) = -1) = False := by
  apply eq_false; omega

theorem childKV_eq (p : NURBSPatch) (n : Nat) (Order NCP : Nat) :
    childKV p (n : Int) Order NCP = p.kv.set n (KnotVector.create Order NCP) := by
  unfold childKV
  apply List.ext_getElem
  · simp
  · intro i h1 h2
    simp only [List.length_map, List.length_range] at h1
    simp only [List.getElem_map, List.getElem_range, List.getElem_set]
    by_cases h : i = n
    · subst h; simp
    · have h3 : ¬ n = i := fun e => h e.symm
      have h4 : (i : Int) ≠ (n : Int) := by omega
      rw [if_pos h4, if_neg h3, List.getD_eq_getElem _ _ h1]

theorem childKV_eq_of_nonneg (p : NURBSPatch) (dir : Int) (h : 0 ≤ dir) (Order NCP : Nat) :
    childKV p dir Order NCP = p.kv.set dir.toNat (KnotVector.create Order NCP) := by
  have := childKV_eq p dir.toNat Order NCP
  rwa [Int.toNat_of_nonneg h] at this

/-- On a patch with consistent extents and a valid direction, `KnotInsert` with a
non-empty knot list succeeds as soon as the two calls of `findKnotSpan` do; its knot
vectors are those of the parent with the one of direction `dir` replaced by the result
of the merging loop, so that knot vector has every property `P` that the merging loop
guarantees whatever the control points are. -/
theorem knotInsert_ok (slice : NURBSPatch → Int → Int → Int) (fuel : Nat) (p : NURBSPatch)
    (n : Nat) (X : List ℚ) (oldkv : KnotVector) (hd : DimsOk p)
    (hkv : p.kv[n]? = some oldkv) (hX : 0 < X.length) (fa fb : Int)
    (hfa : KnotVector.findKnotSpan fuel oldkv (rd X 0) = .ok fa)
    (hfb : KnotVector.findKnotSpan fuel oldkv (rd X ((X.length : Int) - 1)) = .ok fb)
    (P : KnotVector → Prop)
    (hP : ∀ (slN slO : Int → Int → Int) (size : Int) (olddata newdata : List ℚ),
      P (insertCore slN slO size oldkv olddata newdata X (fa - 1) (fb - 1)).newkv.GetElements) :
    ∃ q : NURBSPatch, KnotInsert slice fuel p (n : Int) X = .ok q ∧ DimsOk q ∧
      ∃ newkv : KnotVector, P newkv ∧ q.kv = p.kv.set n newkv := by
  obtain ⟨ni, nj, nk, Dim, data, kv, nd, ls, sd⟩ := p
  have hne : X.length ≠ 0 := by omega
  rcases kv with _ | ⟨k0, _ | ⟨k1, _ | ⟨k2, _ | ⟨k3, rest⟩⟩⟩⟩
  · simp [DimsOk] at hd
  · simp only [DimsOk] at hd
    obtain ⟨rfl, rfl, rfl⟩ := hd
    rcases n with _ | n
    · simp only [List.getElem?_cons_zero, Option.some.injEq] at hkv
      subst hkv
      simp [KnotInsert, hne, child, childKV_eq_of_nonneg, init, SetLoopDirection, hfa, hfb]
      refine ⟨?_, hP _ _ _ _ _⟩
      simp [DimsOk, KnotVector.GetNCP, KnotVector.create, KnotVector.GetElements_NCP,
        (insertCore_shape _ _ _ _ _ _ _ _ _).2]
    · simp at hkv
  · simp only [DimsOk] at hd
    obtain ⟨rfl, rfl, rfl⟩ := hd
    rcases n with _ | _ | n
    · simp only [List.getElem?_cons_zero, Option.some.injEq] at hkv
      subst hkv
      simp [KnotInsert, hne, child, childKV_eq_of_nonneg, init, SetLoopDirection, hfa, hfb,
        natCast_eq_neg_one]
      refine ⟨?_, hP _ _ _ _ _⟩
      simp [DimsOk, KnotVector.GetNCP, KnotVector.create, KnotVector.GetElements_NCP,
        (insertCore_shape _ _ _ _ _ _ _ _ _).2]
    · simp only [List.getElem?_cons_succ, List.getElem?_cons_zero, Option.some.injEq] at hkv
      subst hkv
      simp [KnotInsert, hne, child, childKV_eq_of_nonneg, init, SetLoopDirection, hfa, hfb,
        natCast_eq_neg_one]
      refine ⟨?_, hP _ _ _ _ _⟩
      simp [DimsOk, KnotVector.GetNCP, KnotVector.create, KnotVector.GetElements_NCP,
        (insertCore_shape _ _ _ _ _ _ _ _ _).2]
    · simp at hkv
  · simp only [DimsOk] at hd
    obtain ⟨rfl, rfl, rfl⟩ := hd
    rcases n with _ | _ | _ | n
    · simp only [List.getElem?_cons_zero, Option.some.injEq] at hkv
      subst hkv
      simp [KnotInsert, hne, child, childKV_eq_of_nonneg, init, SetLoopDirection, hfa, hfb,
        natCast_eq_neg_one]
      refine ⟨?_, hP _ _ _ _ _⟩
      simp [DimsOk, KnotVector.GetNCP, KnotVector.create, KnotVector.GetElements_NCP,
        (insertCore_shape _ _ _ _ _ _ _ _ _).2]
    · simp only [List.getElem?_cons_succ, List.getElem?_cons_zero, Option.some.injEq] at hkv
      subst hkv
      simp [KnotInsert, hne, child, childKV_eq_of_nonneg, init, SetLoopDirection, hfa, hfb,
        natCast_eq_neg_one]
      refine ⟨?_, hP _ _ _ _ _⟩
      simp [DimsOk, KnotVector.GetNCP, KnotVector.create, KnotVector.GetElements_NCP,
        (insertCore_shape _ _ _ _ _ _ _ _ _).2]
    · simp only [List.getElem?_cons_succ, List.getElem?_cons_zero, Option.some.injEq] at hkv
      subst hkv
      simp [KnotInsert, hne, child, childKV_eq_of_nonneg, init, SetLoopDirection, hfa, hfb,
        natCast_eq_neg_one]
      refine ⟨?_, hP _ _ _ _ _⟩
      simp [DimsOk, KnotVector.GetNCP, KnotVector.create, KnotVector.GetElements_NCP,
        (insertCore_shape _ _ _ _ _ _ _ _ _).2]
    · simp at hkv
  · simp [DimsOk] at hd

/-- Knot insertion on a patch with consistent extents: for a non-decreasing knot vector
of order `p ≥ 1` with `n > p` control points in direction `dir` and a non-empty
non-decreasing list of new knots in `[knot(p), knot(n)]`, `KnotInsert` succeeds, changes
no other knot vector, and the new knot vector in direction `dir` has the same order,
`n + |knots|` control points and the sorted merge of the old and the new knots. -/
theorem knotInsert_merge (slice : NURBSPatch → Int → Int → Int) (fuel : Nat)
    (p : NURBSPatch) (n : Nat) (X : List ℚ) (oldkv : KnotVector) (hd : DimsOk p)
    (hkv : p.kv[n]? = some oldkv) (hs : oldkv.SizeOk) (hnd : oldkv.NonDecreasing)
    (hp : 1 ≤ oldkv.Order) (hpn : oldkv.Order < oldkv.NumOfControlPoints)
    (hX : X ≠ []) (hXs : X.Pairwise (· ≤ ·))
    (hXr : ∀ x ∈ X, oldkv.get (oldkv.Order : Nat) ≤ x ∧
      x ≤ oldkv.get (oldkv.NumOfControlPoints : Nat))
    (hf : oldkv.NumOfControlPoints ≤ fuel + oldkv.Order + 1) :
    ∃ (q : NURBSPatch) (newkv : KnotVector),
      KnotInsert slice fuel p (n : Int) X = .ok q ∧ DimsOk q ∧
      q.kv = p.kv.set n newkv ∧
      newkv.Order = oldkv.Order ∧
      newkv.NumOfControlPoints = oldkv.NumOfControlPoints + X.length ∧
      newkv.knot.Pairwise (· ≤ ·) ∧
      newkv.knot.Perm (oldkv.knot ++ X) ∧
      newkv = newkv.GetElements := by
  have hXpos : 0 < X.length := List.length_pos.mpr hX
  have hsz := hs
  unfold KnotVector.SizeOk at hsz
  have hx0 : rd X 0 ∈ X := by
    have : rd X ((0 : Nat) : Int) = X[0] := rd_eq_getElem X 0 hXpos
    rw [show rd X 0 = X[0] from this]
    exact List.getElem_mem _
  have hlast : (X.length : Int) - 1 = ((X.length - 1 : Nat) : Int) := by omega
  have hx1 : rd X ((X.length : Int) - 1) ∈ X := by
    rw [hlast, rd_eq_getElem X (X.length - 1) (by omega)]
    exact List.getElem_mem _
  have hx01 : rd X 0 ≤ rd X ((X.length : Int) - 1) := by
    rw [hlast]
    exact sorted_rd_le X hXs 0 (X.length - 1) (Nat.zero_le _) (by omega)
  obtain ⟨fa, hfa, a1, a2, a3, a4⟩ := KnotVector.findKnotSpan_ok oldkv hs hnd hpn (rd X 0)
    (hXr _ hx0).1 (hXr _ hx0).2 fuel hf
  obtain ⟨fb, hfb, b1, b2, b3, b4⟩ := KnotVector.findKnotSpan_ok oldkv hs hnd hpn
    (rd X ((X.length : Int) - 1)) (hXr _ hx1).1 (hXr _ hx1).2 fuel hf
  have hab : fa ≤ fb := by
    by_contra hcon
    have hlt : fb ≤ fa - 1 := by omega
    have e1 : oldkv.get fb ≤ oldkv.get (fa - 1) :=
      hnd.get_le (by omega) hlt (by omega)
    have heq : rd X 0 = rd X ((X.length : Int) - 1) := le_antisymm hx01 (by linarith)
    rw [← heq, hfa] at hfb
    injection hfb with hfb
    omega
  obtain ⟨a, ha⟩ : ∃ a : Nat, fa - 1 = (a : Int) := ⟨(fa - 1).toNat, by omega⟩
  obtain ⟨b, hb⟩ : ∃ b : Nat, fb - 1 = (b : Int) := ⟨(fb - 1).toNat, by omega⟩
  have hfa1 : fa = ((a + 1 : Nat) : Int) := by omega
  have hfb1 : fb = ((b + 1 : Nat) : Int) := by omega
  rw [ha] at a3
  rw [hfa1] at a4
  rw [hfb1] at b4
  rw [hlast] at b4
  obtain ⟨q, hq, hdq, newkv, hPn, hqkv⟩ := knotInsert_ok slice fuel p n X oldkv hd hkv hXpos fa fb
    hfa hfb
    (fun nk => nk.Order = oldkv.Order ∧
      nk.NumOfControlPoints = oldkv.NumOfControlPoints + X.length ∧
      nk.knot.Pairwise (· ≤ ·) ∧ nk.knot.Perm (oldkv.knot ++ X) ∧ nk = nk.GetElements)
    (by
      intro slN slO size olddata newdata
      rw [ha, hb]
      obtain ⟨r1, r2, r3, r4⟩ := insertCore_knots slN slO size oldkv olddata newdata X a b hs hnd
        hXs hXpos hp (by omega) (by omega) a3 a4 b4
      exact ⟨r1, r2, r3, r4, rfl⟩)
  exact ⟨q, newkv, hq, hdq, hqkv, hPn.1, hPn.2.1, hPn.2.2.1, hPn.2.2.2.1, hPn.2.2.2.2⟩

/-- C5, refuted as stated: on the non-decreasing knot vector `[0,2,4,6]` of order `p = 0`
with `n = 3` control points (clamped: the first `p+1` and the last `p+1` knots each
coincide), inserting the non-decreasing knots `[1,5]`, which lie in
`[knot(p), knot(n)] = [0,6]`, succeeds and yields the knots `[0,1,2,5,4,6]`: a
permutation of the old and the new knots that is not sorted. -/
theorem knotInsert_counterexample :
    DimsOk exOrderZero ∧
    (∀ oldkv ∈ exOrderZero.kv, oldkv.SizeOk ∧ oldkv.NonDecreasing ∧ oldkv.Clamped ∧
      ∀ x ∈ [(1 : ℚ), 5], oldkv.get (oldkv.Order : Nat) ≤ x ∧
        x ≤ oldkv.get (oldkv.NumOfControlPoints : Nat)) ∧
    ∃ q, KnotInsert slice 3 exOrderZero 0 [1, 5] = .ok q ∧
      q.kv = [{ knot := [0, 1, 2, 5, 4, 6], Order := 0, NumOfControlPoints := 5,
                NumOfElements := 5 }] ∧
      ¬ ([0, 1, 2, 5, 4, 6] : List ℚ).Pairwise (· ≤ ·) := by
  refine ⟨⟨rfl, rfl, rfl⟩, by decide, ?_⟩
  have h : ∃ q, KnotInsert slice 3 exOrderZero 0 [1, 5] = .ok q ∧
      q.kv = [(insertCore (slice
          { ni := 5, nj := -1, nk := -1, Dim := 1, data := List.replicate 5 0,
            kv := [KnotVector.create 0 5], nd := 5, ls := 1, sd := 1 })
        (slice { exOrderZero with nd := 3, ls := 1, sd := 1 }) 1
        { knot := [0, 2, 4, 6], Order := 0, NumOfControlPoints := 3, NumOfElements := 3 }
        [5, 6, 7] (List.replicate 5 0) [1, 5] 0 2).newkv.GetElements] := ⟨_, rfl, rfl⟩
  obtain ⟨q, h1, h2⟩ := h
  refine ⟨q, h1, h2.trans ?_, by decide⟩
  rfl

/-- C5, amended: on a patch with consistent extents, for every non-decreasing knot vector
of order `p ≥ 1` with `n > p` control points in direction `dir` and every non-empty
non-decreasing list of new knots lying in `[knot(p), knot(n)]`, `KnotInsert(dir, knots)`
(with `findKnotSpan` allowed `n - p - 1` iterations or more) yields a patch whose knot
vector in direction `dir` has the same order, `n + |knots|` control points and knots
that are non-decreasing and a permutation of the old knots together with the inserted
knots, i.e. their sorted merge, while the knot vectors of all other directions are
unchanged. -/
theorem knotInsert_spec (slice : NURBSPatch → Int → Int → Int) (fuel : Nat)
    (p : NURBSPatch) (dir : Nat) (X : List ℚ) (oldkv : KnotVector) (hd : DimsOk p)
    (hkv : p.kv[dir]? = some oldkv) (hs : oldkv.SizeOk) (hnd : oldkv.NonDecreasing)
    (hp : 1 ≤ oldkv.Order) (hpn : oldkv.Order < oldkv.NumOfControlPoints)
    (hX : X ≠ []) (hXs : X.Pairwise (· ≤ ·))
    (hXr : ∀ x ∈ X, oldkv.get (oldkv.Order : Nat) ≤ x ∧
      x ≤ oldkv.get (oldkv.NumOfControlPoints : Nat))
    (hf : oldkv.NumOfControlPoints ≤ fuel + oldkv.Order + 1) :
    ∃ (q : NURBSPatch) (newkv : KnotVector),
      KnotInsert slice fuel p (dir : Int) X = .ok q ∧
      q.kv.length = p.kv.length ∧
      q.kv[dir]? = some newkv ∧
      (∀ d : Nat, d ≠ dir → q.kv[d]? = p.kv[d]?) ∧
      newkv.Order = oldkv.Order ∧
      newkv.NumOfControlPoints = oldkv.NumOfControlPoints + X.length ∧
      newkv.knot.Pairwise (· ≤ ·) ∧
      newkv.knot.Perm (oldkv.knot ++ X) := by
  obtain ⟨q, newkv, h1, _, h3, h4, h5, h6, h7, _⟩ :=
    knotInsert_merge slice fuel p dir X oldkv hd hkv hs hnd hp hpn hX hXs hXr hf
  have hlt : dir < p.kv.length := by
    by_contra hcon
    rw [List.getElem?_eq_none (by omega)] at hkv
    exact absurd hkv (by simp)
  refine ⟨q, newkv, h1, ?_, ?_, ?_, h4, h5, h6, h7⟩
  · rw [h3, List.length_set]
  · rw [h3, List.getElem?_set_self hlt]
  · intro d hne
    rw [h3, List.getElem?_set_ne (fun e => hne e.symm)]

/-- Instance of `knotInsert_spec`: inserting the knot `1` in the segment on the knots
`[0,0,2,2]` of order 1. -/
theorem knotInsert_spec_witness :
    ∃ (q : NURBSPatch) (newkv : KnotVector),
      KnotInsert slice 0 exSegment ((0 : Nat) : Int) [1] = .ok q ∧
      q.kv.length = exSegment.kv.length ∧
      q.kv[0]? = some newkv ∧
      (∀ d : Nat, d ≠ 0 → q.kv[d]? = exSegment.kv[d]?) ∧
      newkv.Order = KnotVector.exUnit.Order ∧
      newkv.NumOfControlPoints = KnotVector.exUnit.NumOfControlPoints + [(1 : ℚ)].length ∧
      newkv.knot.Pairwise (· ≤ ·) ∧
      newkv.knot.Perm (KnotVector.exUnit.knot ++ [1]) :=
  knotInsert_spec slice 0 exSegment 0 [1] KnotVector.exUnit ⟨rfl, rfl, rfl⟩ rfl (by decide)
    (by decide) (by decide) (by decide) (by decide) (by decide) (by decide) (by decide)

/-- C4: `KnotInsert(dir, knots)` with an empty knot list returns the patch unchanged
(buffer, `ni`, `nj`, `nk`, knot vectors and every other field), for every patch and
every direction. -/
theorem knotInsert_empty (slice : NURBSPatch → Int → Int → Int) (fuel : Nat)
    (p : NURBSPatch) (dir : Int) : KnotInsert slice fuel p dir [] = .ok p := rfl

end NURBSPatch

/-! ### Uniform refinement of a patch -/

namespace KnotVector

theorem mem_spanMidpoints (kv : KnotVector) (s n : Nat) (m : ℚ) :
    m ∈ spanMidpoints kv s n ↔
      ∃ i : Nat, s ≤ i ∧ i < s + n ∧ kv.get i ≠ kv.get (i + 1) ∧
        m = (kv.get i + kv.get (i + 1)) / 2 := by
  unfold spanMidpoints
  simp only [List.mem_map, List.mem_filter, List.mem_range'_1, decide_eq_true_eq]
  constructor
  · rintro ⟨i, ⟨⟨h1, h2⟩, h3⟩, rfl⟩
    exact ⟨i, h1, h2, h3, rfl⟩
  · rintro ⟨i, h1, h2, h3, rfl⟩
    exact ⟨i, ⟨⟨h1, h2⟩, h3⟩, rfl⟩

/-- A midpoint of a non-empty span of a non-decreasing knot vector lies strictly between
two consecutive knots. -/
theorem spanMidpoints_between (kv : KnotVector) (hnd : kv.NonDecreasing) (m : ℚ)
    (hm : m ∈ spanMidpoints kv 0 (kv.knot.length - 1)) :
    ∃ i : Nat, i + 1 < kv.knot.length ∧ kv.get i < m ∧ m < kv.get (i + 1) := by
  obtain ⟨i, _, h2, h3, rfl⟩ := (mem_spanMidpoints kv _ _ m).mp hm
  have hlt : kv.get i < kv.get (i + 1) :=
    lt_of_le_of_ne (hnd.get_le (by omega) (by omega) (by omega)) h3
  exact ⟨i, by omega, by linarith, by linarith⟩

theorem spanMidpoints_not_mem (kv : KnotVector) (hnd : kv.NonDecreasing) (m : ℚ)
    (hm : m ∈ spanMidpoints kv 0 (kv.knot.length - 1)) : m ∉ kv.knot := by
  obtain ⟨i, h1, h2, h3⟩ := spanMidpoints_between kv hnd m hm
  intro hmem
  obtain ⟨j, hj, e⟩ := List.mem_iff_getElem.mp hmem
  have ej : kv.get (j : Nat) = m := by
    rw [get_eq_getElem kv j (by omega) (by simpa using hj)]
    simpa using e
  rcases Nat.lt_or_ge i j with hlt | hge
  · have := hnd.get_le (i := ((i : Int) + 1)) (j := (j : Int)) (by omega) (by omega) (by omega)
    rw [ej] at this
    linarith
  · have := hnd.get_le (i := (j : Int)) (j := (i : Int)) (by omega) (by omega) (by omega)
    rw [ej] at this
    linarith

/-- On a non-decreasing knot vector the number of non-empty spans among the first `n`
is one less than the number of distinct values among the first `n + 1` knots. -/
theorem spanMidpoints_card (kv : KnotVector) (hnd : kv.NonDecreasing) :
    ∀ n : Nat, n < kv.knot.length →
      (spanMidpoints kv 0 n).length + 1 = (kv.knot.take (n + 1)).toFinset.card := by
  intro n
  induction n with
  | zero =>
    intro h
    rw [spanMidpoints_zero, List.take_succ, List.getElem?_eq_getElem h]
    simp
  | succ n ih =>
    intro h
    have ihn := ih (by omega)
    rw [spanMidpoints_append kv 0 n 1, List.length_append, Nat.zero_add,
      List.take_succ, List.getElem?_eq_getElem h, Option.toList_some, List.toFinset_append]
    have hg : kv.knot[n + 1] = kv.get ((n : Int) + 1) := by
      rw [get_eq_getElem kv ((n : Int) + 1) (by omega) (by simpa using h)]
      congr 1
    have hgn : kv.get (n : Int) ∈ kv.knot.take (n + 1) := by
      rw [get_eq_getElem kv (n : Int) (by omega) (by simp; omega)]
      rw [List.mem_iff_getElem]
      refine ⟨n, by rw [List.length_take]; omega, ?_⟩
      rw [List.getElem_take]
      simp
    rw [spanMidpoints_succ, spanMidpoints_zero]
    by_cases hne : kv.get (n : Int) ≠ kv.get ((n : Int) + 1)
    · rw [if_pos hne]
      have hnot : kv.knot[n + 1] ∉ (kv.knot.take (n + 1)).toFinset := by
        rw [List.mem_toFinset, hg]
        intro hmem
        obtain ⟨j, hj, e⟩ := List.mem_iff_getElem.mp hmem
        rw [List.length_take] at hj
        rw [List.getElem_take] at e
        have ej : kv.get (j : Nat) = kv.get ((n : Int) + 1) := by
          rw [get_eq_getElem kv j (by omega) (by simp; omega)]
          simpa using e
        have l1 := hnd.get_le (i := (j : Int)) (j := (n : Int)) (by omega) (by omega) (by omega)
        have l2 := hnd.get_le (i := (n : Int)) (j := (n : Int) + 1) (by omega) (by omega)
          (by omega)
        rw [ej] at l1
        exact hne (le_antisymm l2 l1)
      rw [List.toFinset_cons, List.toFinset_nil, Finset.union_comm,
        Finset.insert_union, Finset.empty_union, Finset.card_insert_of_not_mem hnot]
      simp only [List.length_cons, List.length_nil]
      omega
    · rw [if_neg hne]
      have heq : kv.get (n : Int) = kv.get ((n : Int) + 1) := not_not.mp hne
      have hmem : kv.knot[n + 1] ∈ (kv.knot.take (n + 1)).toFinset := by
        rw [List.mem_toFinset, hg, ← heq]
        exact hgn
      rw [List.toFinset_cons, List.toFinset_nil, Finset.union_comm,
        Finset.insert_union, Finset.empty_union, Finset.card_insert_of_mem hmem]
      simp only [List.length_nil]
      omega

end KnotVector

theorem mem_take_rd (l : List ℚ) (n : Nat) (z : ℚ) (h : z ∈ l.take n) :
    ∃ m : Nat, m < n ∧ m < l.length ∧ z = rd l (m : Int) := by
  obtain ⟨k, hk, e⟩ := List.mem_iff_getElem.mp h
  rw [List.length_take] at hk
  refine ⟨k, by omega, by omega, ?_⟩
  rw [rd_eq_getElem l k (by omega), ← e, List.getElem_take]

theorem rd_replicate (n : Nat) (c : ℚ) (i : Nat) (h : i < n) :
    rd (List.replicate n c) (i : Int) = c := by
  rw [rd_eq_getElem _ i (by simpa using h)]
  simp

namespace KnotVector

theorem Clamped.take_eq {kv : KnotVector} (hc : kv.Clamped) (hs : kv.SizeOk) :
    kv.knot.take (kv.Order + 1) = List.replicate (kv.Order + 1) (kv.get 0) := by
  unfold SizeOk at hs
  rw [List.eq_replicate_iff]
  refine ⟨by rw [List.length_take]; omega, ?_⟩
  intro z hz
  obtain ⟨m, h1, _, rfl⟩ := mem_take_rd _ _ z hz
  exact hc.1 m (by omega)

theorem Clamped.drop_eq {kv : KnotVector} (hc : kv.Clamped) (hs : kv.SizeOk) :
    kv.knot.drop kv.NumOfControlPoints =
      List.replicate (kv.Order + 1) (kv.get (kv.NumOfControlPoints + kv.Order : Nat)) := by
  unfold SizeOk at hs
  rw [List.eq_replicate_iff]
  refine ⟨by rw [List.length_drop]; omega, ?_⟩
  intro z hz
  obtain ⟨m, h1, h2, rfl⟩ := mem_drop_rd _ _ z hz
  obtain ⟨d, rfl⟩ : ∃ d, m = kv.NumOfControlPoints + d := ⟨m - kv.NumOfControlPoints, by omega⟩
  exact hc.2 d (by omega)

/-- Merging knots that lie between the first and the last knot into a clamped
non-decreasing knot vector gives a clamped knot vector. -/
theorem clamped_of_merge (U K : KnotVector) (X : List ℚ) (hsU : U.SizeOk) (hcU : U.Clamped)
    (hndU : U.NonDecreasing) (hK : K.knot.Pairwise (· ≤ ·))
    (hperm : K.knot.Perm (U.knot ++ X)) (hKO : K.Order = U.Order)
    (hKN : K.NumOfControlPoints = U.NumOfControlPoints + X.length)
    (hXlo : ∀ x ∈ X, U.get 0 ≤ x)
    (hXhi : ∀ x ∈ X, x ≤ U.get (U.NumOfControlPoints + U.Order : Nat)) :
    K.SizeOk ∧ K.Clamped := by
  have hsz := hsU
  unfold SizeOk at hsz
  have hlen : K.knot.length = U.knot.length + X.length := by
    rw [hperm.length_eq, List.length_append]
  have hUlo : ∀ z ∈ U.knot, U.get 0 ≤ z := by
    intro z hz
    obtain ⟨j, hj, e⟩ := List.mem_iff_getElem.mp hz
    have e1 : U.get (j : Int) = z := by
      show rd U.knot (j : Int) = z
      rw [rd_eq_getElem _ j hj, e]
    have := hndU.get_le (i := 0) (j := (j : Int)) (le_refl _) (by omega) (by omega)
    rwa [e1] at this
  have hUhi : ∀ z ∈ U.knot, z ≤ U.get (U.NumOfControlPoints + U.Order : Nat) := by
    intro z hz
    obtain ⟨j, hj, e⟩ := List.mem_iff_getElem.mp hz
    have e1 : U.get (j : Int) = z := by
      show rd U.knot (j : Int) = z
      rw [rd_eq_getElem _ j hj, e]
    have := hndU.get_le (i := (j : Int)) (j := ((U.NumOfControlPoints + U.Order : Nat) : Int))
      (by omega) (by omega) (by omega)
    rwa [e1] at this
  -- the head
  have hhead : K.knot.take (U.Order + 1) = List.replicate (U.Order + 1) (U.get 0) := by
    have hU : U.knot = List.replicate (U.Order + 1) (U.get 0) ++ U.knot.drop (U.Order + 1) := by
      rw [← hcU.take_eq hsU, List.take_append_drop]
    have hR : (List.replicate (U.Order + 1) (U.get 0) ++
        List.insertionSort (· ≤ ·) (U.knot.drop (U.Order + 1) ++ X)).Pairwise (· ≤ ·) := by
      rw [List.pairwise_append]
      refine ⟨List.pairwise_replicate.mpr (Or.inr (le_refl _)),
        List.sorted_insertionSort (· ≤ ·) _, ?_⟩
      intro a ha b hb
      rw [List.eq_of_mem_replicate ha]
      rcases List.mem_append.mp (((List.perm_insertionSort (· ≤ ·) _).mem_iff).mp hb) with h | h
      · exact hUlo b (List.mem_of_mem_drop h)
      · exact hXlo b h
    have hP : K.knot.Perm (List.replicate (U.Order + 1) (U.get 0) ++
        List.insertionSort (· ≤ ·) (U.knot.drop (U.Order + 1) ++ X)) := by
      refine hperm.trans ?_
      conv_lhs => rw [hU]
      rw [List.append_assoc]
      exact List.Perm.append_left _ (List.perm_insertionSort (· ≤ ·) _).symm
    rw [List.eq_of_perm_of_sorted hP hK hR]
    exact List.take_left' (by simp)
  have htail : K.knot.drop (U.NumOfControlPoints + X.length) =
      List.replicate (U.Order + 1) (U.get (U.NumOfControlPoints + U.Order : Nat)) := by
    have hU : U.knot = U.knot.take U.NumOfControlPoints ++
        List.replicate (U.Order + 1) (U.get (U.NumOfControlPoints + U.Order : Nat)) := by
      rw [← hcU.drop_eq hsU, List.take_append_drop]
    have hR : (List.insertionSort (· ≤ ·) (U.knot.take U.NumOfControlPoints ++ X) ++
        List.replicate (U.Order + 1) (U.get (U.NumOfControlPoints + U.Order : Nat))).Pairwise
          (· ≤ ·) := by
      rw [List.pairwise_append]
      refine ⟨List.sorted_insertionSort (· ≤ ·) _,
        List.pairwise_replicate.mpr (Or.inr (le_refl _)), ?_⟩
      intro a ha b hb
      rw [List.eq_of_mem_replicate hb]
      rcases List.mem_append.mp (((List.perm_insertionSort (· ≤ ·) _).mem_iff).mp ha) with h | h
      · exact hUhi a (List.mem_of_mem_take h)
      · exact hXhi a h
    have hP : K.knot.Perm (List.insertionSort (· ≤ ·) (U.knot.take U.NumOfControlPoints ++ X) ++
        List.replicate (U.Order + 1) (U.get (U.NumOfControlPoints + U.Order : Nat))) := by
      refine hperm.trans ?_
      conv_lhs => rw [hU]
      refine List.Perm.trans ?_ (List.Perm.append_right _ (List.perm_insertionSort (· ≤ ·) _).symm)
      rw [List.append_assoc, List.append_assoc]
      exact List.Perm.append_left _ List.perm_append_comm
    rw [List.eq_of_perm_of_sorted hP hK hR]
    exact List.drop_left' (by
      rw [(List.perm_insertionSort (· ≤ ·) _).length_eq, List.length_append, List.length_take]
      omega)
  refine ⟨by unfold SizeOk; omega, ?_, ?_⟩
  · intro i hi
    rw [hKO] at hi
    have e1 : K.get (i : Nat) = U.get 0 := by
      show rd K.knot (i : Int) = _
      rw [← rd_take K.knot (U.Order + 1) i (by omega), hhead, rd_replicate _ _ _ (by omega)]
    have e2 : K.get 0 = U.get 0 := by
      show rd K.knot ((0 : Nat) : Int) = _
      rw [← rd_take K.knot (U.Order + 1) 0 (by omega), hhead, rd_replicate _ _ _ (by omega)]
    rw [e1, e2]
  · intro i hi
    rw [hKO] at hi
    have key : ∀ j : Nat, j ≤ U.Order →
        K.get ((K.NumOfControlPoints + j : Nat) : Int) =
          U.get (U.NumOfControlPoints + U.Order : Nat) := by
      intro j hj
      show rd K.knot _ = _
      rw [hKN, ← rd_drop, htail, rd_replicate _ _ _ (by omega)]
    rw [key i hi, hKO, key U.Order (le_refl _)]

end KnotVector

theorem set_of_getElem? {α : Type} (l : List α) (n : Nat) (x : α) (h : l[n]? = some x) :
    l.set n x = l := by
  apply List.ext_getElem?
  intro i
  rw [List.getElem?_set]
  by_cases hi : n = i
  · subst hi
    rw [if_pos rfl]
    have hlt : n < l.length := by
      by_contra hcon
      rw [List.getElem?_eq_none (by omega)] at h
      exact absurd h (by simp)
    rw [if_pos hlt, h]
  · rw [if_neg hi]

namespace KnotVector

/-- The number of non-empty spans of the sorted merge of a clamped non-decreasing knot
vector with the midpoints of its non-empty spans is twice the original number. -/
theorem spans_of_refined (U K : KnotVector) (hsU : U.SizeOk) (hcU : U.Clamped)
    (hndU : U.NonDecreasing) (hK : K.knot.Pairwise (· ≤ ·))
    (hperm : K.knot.Perm (U.knot ++ spanMidpoints U 0 (U.knot.length - 1)))
    (hKO : K.Order = U.Order)
    (hKN : K.NumOfControlPoints =
      U.NumOfControlPoints + (spanMidpoints U 0 (U.knot.length - 1)).length) :
    K.GetElements.NumOfElements = 2 * U.GetElements.NumOfElements := by
  have hsz := hsU
  unfold SizeOk at hsz
  have hbetween := spanMidpoints_between U hndU
  have hU0 : ∀ i : Nat, i < U.knot.length → U.get 0 ≤ U.get (i : Int) := fun i hi =>
    hndU.get_le (le_refl _) (by omega) (by omega)
  have hUl : ∀ i : Nat, i < U.knot.length →
      U.get (i : Int) ≤ U.get (U.NumOfControlPoints + U.Order : Nat) := fun i hi =>
    hndU.get_le (by omega) (by omega) (by omega)
  obtain ⟨hsK, hcK⟩ := clamped_of_merge U K _ hsU hcU hndU hK hperm hKO hKN
    (by
      intro x hx
      obtain ⟨i, h1, h2, h3⟩ := hbetween x hx
      exact le_of_lt (lt_of_le_of_lt (hU0 i (by omega)) h2))
    (by
      intro x hx
      obtain ⟨i, h1, h2, h3⟩ := hbetween x hx
      have := hUl (i + 1) h1
      push_cast at this
      exact le_of_lt (lt_of_lt_of_le h3 this))
  have hszK := hsK
  unfold SizeOk at hszK
  have hcardK := spanMidpoints_card K hK (K.knot.length - 1) (by omega)
  have hcardU := spanMidpoints_card U hndU (U.knot.length - 1) (by omega)
  rw [show K.knot.length - 1 + 1 = K.knot.length by omega, List.take_length] at hcardK
  rw [show U.knot.length - 1 + 1 = U.knot.length by omega, List.take_length] at hcardU
  have hnodup : (spanMidpoints U 0 (U.knot.length - 1)).Nodup :=
    (spanMidpoints_sorted U hndU _ (by omega)).imp (fun h => ne_of_lt h)
  have hdisj : Disjoint U.knot.toFinset (spanMidpoints U 0 (U.knot.length - 1)).toFinset := by
    rw [Finset.disjoint_left]
    intro a ha hb
    rw [List.mem_toFinset] at ha hb
    exact spanMidpoints_not_mem U hndU a hb ha
  rw [List.toFinset_eq_of_perm _ _ hperm, List.toFinset_append,
    Finset.card_union_of_disjoint hdisj, List.toFinset_card_of_nodup hnodup, ← hcardU] at hcardK
  rw [GetElements_NumOfElements, GetElements_NumOfElements, ← spanMidpoints_clamped K hsK hcK,
    ← spanMidpoints_clamped U hsU hcU]
  omega

end KnotVector

namespace NURBSPatch

theorem KnotInsert_nil (slice : NURBSPatch → Int → Int → Int) (fuel : Nat)
    (p : NURBSPatch) (dir : Int) : KnotInsert slice fuel p dir [] = .ok p := rfl

/-- One direction of `NURBSPatch::UniformRefinement`: refining and inserting in
direction `d` keeps the order and doubles the number of elements of that direction, and
changes no other knot vector. -/
theorem uniformRefinement_dir (slice : NURBSPatch → Int → Int → Int) (fuel : Nat)
    (q : NURBSPatch) (d : Nat) (oldkv : KnotVector) (hd : DimsOk q)
    (hkv : q.kv[d]? = some oldkv) (hs : oldkv.SizeOk) (hnd : oldkv.NonDecreasing)
    (hc : oldkv.Clamped) (hp : 1 ≤ oldkv.Order)
    (hne : oldkv.NumOfElements = oldkv.GetElements.NumOfElements)
    (hf : oldkv.NumOfControlPoints ≤ fuel + oldkv.Order + 1) :
    ∃ (q1 : NURBSPatch) (newkv : KnotVector),
      (match oldkv.UniformRefinement with
        | Except.error e => (Except.error e : Except Fault NURBSPatch)
        | Except.ok newknots => KnotInsert slice fuel q (d : Int) newknots) = .ok q1 ∧
      DimsOk q1 ∧ q1.kv = q.kv.set d newkv ∧ newkv.Order = oldkv.Order ∧
      newkv.NumOfElements = 2 * oldkv.NumOfElements := by
  have hsz := hs
  unfold KnotVector.SizeOk at hsz
  have hlen : (KnotVector.spanMidpoints oldkv 0 (oldkv.knot.length - 1)).length =
      oldkv.NumOfElements := by
    rw [hne, KnotVector.GetElements_NumOfElements, KnotVector.spanMidpoints_clamped oldkv hs hc]
  rw [KnotVector.UniformRefinement_eq oldkv hlen]
  dsimp only
  by_cases hX : KnotVector.spanMidpoints oldkv 0 (oldkv.knot.length - 1) = []
  · rw [hX, KnotInsert_nil]
    refine ⟨q, oldkv, rfl, hd, (set_of_getElem? _ _ _ hkv).symm, rfl, ?_⟩
    rw [← hlen, hX]
    rfl
  · have hpn : oldkv.Order < oldkv.NumOfControlPoints := by
      by_contra hcon
      apply hX
      rw [KnotVector.spanMidpoints_clamped oldkv hs hc,
        show oldkv.NumOfControlPoints - oldkv.Order = 0 by omega]
      rfl
    have hXs : (KnotVector.spanMidpoints oldkv 0 (oldkv.knot.length - 1)).Pairwise (· ≤ ·) :=
      (KnotVector.spanMidpoints_sorted oldkv hnd _ (by omega)).imp (fun h => le_of_lt h)
    have hXr : ∀ x ∈ KnotVector.spanMidpoints oldkv 0 (oldkv.knot.length - 1),
        oldkv.get (oldkv.Order : Nat) ≤ x ∧ x ≤ oldkv.get (oldkv.NumOfControlPoints : Nat) := by
      intro x hx
      obtain ⟨i, h1, h2, h3⟩ := KnotVector.spanMidpoints_between oldkv hnd x hx
      have e1 := hc.1 oldkv.Order (le_refl _)
      have e2 := hc.2 0 (Nat.zero_le _)
      rw [Nat.add_zero] at e2
      rw [e1, e2]
      have l1 : oldkv.get 0 ≤ oldkv.get (i : Int) :=
        hnd.get_le (le_refl _) (by omega) (by omega)
      have l2 : oldkv.get ((i : Int) + 1) ≤
          oldkv.get ((oldkv.NumOfControlPoints + oldkv.Order : Nat) : Int) :=
        hnd.get_le (by omega) (by omega) (by omega)
      exact ⟨by linarith, by linarith⟩
    obtain ⟨q1, newkv, h1, h2, h3, h4, h5, h6, h7, h8⟩ :=
      knotInsert_merge slice fuel q d _ oldkv hd hkv hs hnd hp hpn hX hXs hXr hf
    refine ⟨q1, newkv, h1, h2, h3, h4, ?_⟩
    have := KnotVector.spans_of_refined oldkv newkv hs hc hnd h6 h7 h4 h5
    rw [hne, ← this]
    exact congrArg KnotVector.NumOfElements h8

/-- The loop over the directions of `NURBSPatch::UniformRefinement`, started at
direction `s` with `n` directions left. -/
theorem uniformRefinement_dirs (slice : NURBSPatch → Int → Int → Int) (fuel : Nat)
    (p : NURBSPatch)
    (hkv : ∀ k ∈ p.kv, k.SizeOk ∧ k.NonDecreasing ∧ k.Clamped ∧ 1 ≤ k.Order ∧
      k.NumOfElements = k.GetElements.NumOfElements ∧
      k.NumOfControlPoints ≤ fuel + k.Order + 1) :
    ∀ (n s : Nat) (q : NURBSPatch), s + n = p.kv.length → DimsOk q →
      q.kv.length = p.kv.length → (∀ d : Nat, s ≤ d → q.kv[d]? = p.kv[d]?) →
      (∀ (d : Nat) (old : KnotVector), d < s → p.kv[d]? = some old →
        ∃ new : KnotVector, q.kv[d]? = some new ∧ new.Order = old.Order ∧
          new.NumOfElements = 2 * old.NumOfElements) →
      ∃ q1 : NURBSPatch,
        forCountM
          (fun (q : NURBSPatch) (dir : Nat) =>
            match q.kv[dir]? with
            | none => (Except.error Fault.outOfBounds : Except Fault NURBSPatch)
            | some k =>
              match k.UniformRefinement with
              | .error e => .error e
              | .ok newknots => KnotInsert slice fuel q dir newknots) n s q = .ok q1 ∧
        q1.kv.length = p.kv.length ∧
        ∀ (d : Nat) (old : KnotVector), p.kv[d]? = some old →
          ∃ new : KnotVector, q1.kv[d]? = some new ∧ new.Order = old.Order ∧
            new.NumOfElements = 2 * old.NumOfElements := by
  intro n
  induction n with
  | zero =>
    intro s q hs _ hl _ hlt
    refine ⟨q, rfl, hl, ?_⟩
    intro d old hd
    have hdl : d < p.kv.length := by
      by_contra hcon
      rw [List.getElem?_eq_none (by omega)] at hd
      exact absurd hd (by simp)
    exact hlt d old (by omega) hd
  | succ n ih =>
    intro s q hs hdq hl hge hlt
    have hsl : s < p.kv.length := by omega
    have hps : p.kv[s]? = some p.kv[s] := List.getElem?_eq_getElem hsl
    have hqs : q.kv[s]? = some p.kv[s] := by rw [hge s (le_refl _), hps]
    obtain ⟨g1, g2, g3, g4, g5, g6⟩ := hkv p.kv[s] (List.getElem_mem hsl)
    obtain ⟨q1, newkv, e1, e2, e3, e4, e5⟩ :=
      uniformRefinement_dir slice fuel q s p.kv[s] hdq hqs g1 g2 g3 g4 g5 g6
    rw [forCountM]
    try dsimp only
    rw [hqs]
    try dsimp only
    rw [e1]
    try dsimp only
    have hsq : s < q.kv.length := by omega
    obtain ⟨q2, f1, f2, f3⟩ := ih (s + 1) q1 (by omega) e2 (by rw [e3, List.length_set]; exact hl)
      (by
        intro d hd
        rw [e3, List.getElem?_set_ne (by omega)]
        exact hge d (by omega))
      (by
        intro d old hd hold
        rcases Nat.lt_or_ge d s with h | h
        · rw [e3, List.getElem?_set_ne (by omega)]
          exact hlt d old h hold
        · have hds : d = s := by omega
          subst hds
          rw [hps] at hold
          injection hold with hold
          subst hold
          exact ⟨newkv, by rw [e3, List.getElem?_set_self hsq], e4, e5⟩)
    exact ⟨q2, f1, f2, f3⟩

/-- C6, amended: for every patch with consistent extents whose knot vector in each direction
is clamped and non-decreasing, has order at least 1 and a cached `NumOfElements = E` that
is the one `GetElements` computes, `NURBSPatch::UniformRefinement` (with `findKnotSpan`
allowed enough iterations) succeeds, leaves the order of every direction unchanged and
yields `NumOfElements = 2E` in every direction. -/
theorem uniformRefinement_patch_spec (slice : NURBSPatch → Int → Int → Int) (fuel : Nat)
    (p : NURBSPatch) (hd : DimsOk p)
    (hkv : ∀ k ∈ p.kv, k.SizeOk ∧ k.NonDecreasing ∧ k.Clamped ∧ 1 ≤ k.Order ∧
      k.NumOfElements = k.GetElements.NumOfElements ∧
      k.NumOfControlPoints ≤ fuel + k.Order + 1) :
    ∃ q : NURBSPatch, UniformRefinement slice fuel p = .ok q ∧
      q.kv.length = p.kv.length ∧
      ∀ (d : Nat) (old : KnotVector), p.kv[d]? = some old →
        ∃ new : KnotVector, q.kv[d]? = some new ∧ new.Order = old.Order ∧
          new.NumOfElements = 2 * old.NumOfElements := by
  unfold UniformRefinement forLoopM
  rw [Nat.sub_zero]
  exact uniformRefinement_dirs slice fuel p hkv p.kv.length 0 p (by omega) hd rfl
    (fun _ _ => rfl) (fun d old h _ => absurd h (Nat.not_lt_zero d))

/-- Instance of `uniformRefinement_patch_spec`: the segment on the knots `[0,0,2,2]` of
order 1. -/
theorem uniformRefinement_patch_spec_witness :
    ∃ q : NURBSPatch, UniformRefinement slice 0 exSegment = .ok q ∧
      q.kv.length = exSegment.kv.length ∧
      ∀ (d : Nat) (old : KnotVector), exSegment.kv[d]? = some old →
        ∃ new : KnotVector, q.kv[d]? = some new ∧ new.Order = old.Order ∧
          new.NumOfElements = 2 * old.NumOfElements :=
  uniformRefinement_patch_spec slice 0 exSegment ⟨rfl, rfl, rfl⟩ (by decide)

/-- C6, refuted as stated: the curve on the knots `[0,0,2]` of order 0 has consistent
extents and a clamped non-decreasing knot vector with `E = 1` element (the count
`GetElements` computes), but `UniformRefinement` yields the knots `[0,1,0,2]` with
`NumOfElements = 3`, not `2`. -/
theorem uniformRefinement_patch_counterexample :
    DimsOk exOrderZeroRepeated ∧
    (∀ k ∈ exOrderZeroRepeated.kv, k.SizeOk ∧ k.NonDecreasing ∧ k.Clamped ∧
      k.NumOfElements = 1 ∧ k.GetElements.NumOfElements = 1) ∧
    ∃ q, UniformRefinement slice 3 exOrderZeroRepeated = .ok q ∧
      q.kv = [{ knot := [0, 1, 0, 2], Order := 0, NumOfControlPoints := 3,
                NumOfElements := 3 }] := by
  refine ⟨⟨rfl, rfl, rfl⟩, by decide, ?_⟩
  have hU : KnotVector.UniformRefinement
      { knot := [0, 0, 2], Order := 0, NumOfControlPoints := 2, NumOfElements := 1 } =
      .ok [1] := by with_unfolding_all rfl
  have e : UniformRefinement slice 3 exOrderZeroRepeated =
      KnotInsert slice 3 exOrderZeroRepeated 0 [1] := by
    simp [UniformRefinement, forLoopM, forCountM, exOrderZeroRepeated, hU]
    split <;> rename_i heq <;> exact heq.symm
  have h : ∃ q, KnotInsert slice 3 exOrderZeroRepeated 0 [1] = .ok q ∧
      q.kv = [(insertCore (slice
          { ni := 3, nj := -1, nk := -1, Dim := 1, data := List.replicate 3 0,
            kv := [KnotVector.create 0 3], nd := 3, ls := 1, sd := 1 })
        (slice { exOrderZeroRepeated with nd := 2, ls := 1, sd := 1 }) 1
        { knot := [0, 0, 2], Order := 0, NumOfControlPoints := 2, NumOfElements := 1 }
        [5, 7] (List.replicate 3 0) [1] 1 1).newkv.GetElements] := ⟨_, rfl, rfl⟩
  obtain ⟨q, h1, h2⟩ := h
  refine ⟨q, e.trans h1, h2.trans ?_⟩
  rfl

end NURBSPatch

/-! ### The difference of two knot vectors -/

theorem rdChk_ok (v : List ℚ) (i : Nat) (h : i < v.length) :
    rdChk v (i : Int) = .ok (rd v (i : Int)) := by
  unfold rdChk
  rw [if_pos ⟨by omega, by simpa using h⟩, rd_natCast, Int.toNat_ofNat]

theorem wrChk_ok (v : List ℚ) (i : Nat) (x : ℚ) (h : i < v.length) :
    wrChk v (i : Int) x = .ok (v.set i x) := by
  unfold wrChk
  rw [if_pos ⟨by omega, by simpa using h⟩, Int.toNat_ofNat]

theorem drop_eq_rd_cons (l : List ℚ) (n : Nat) (h : n < l.length) :
    l.drop n = rd l (n : Int) :: l.drop (n + 1) := by
  rw [List.drop_eq_getElem_cons h, rd_eq_getElem l n h]

theorem set_take_replicate (d : List ℚ) (s : Nat) (h : s < d.length) :
    (d.take s ++ List.replicate (d.length - s) 0).set s (rd d (s : Int)) =
      d.take (s + 1) ++ List.replicate (d.length - (s + 1)) 0 := by
  have hl : (d.take s).length = s := by rw [List.length_take]; omega
  rw [List.set_append_right _ _ (by omega), hl, Nat.sub_self,
    show d.length - s = (d.length - (s + 1)) + 1 by omega, List.replicate_succ,
    List.set_cons_zero, List.take_succ, List.getElem?_eq_getElem h, Option.toList_some,
    List.append_assoc, rd_eq_getElem d s h]
  rfl

namespace KnotVector

theorem epsilon_pos : 0 < 2 * epsilon := by
  unfold epsilon; positivity

/-- The loop of `Difference`, from position `j` of the longer knot vector with `i` knots of
the shorter one matched and `s` knots written: it completes `diff` to the extra knots
`d`. -/
theorem differenceLoop_steps (a b : KnotVector) (d : List ℚ) (ha : a.knot.Pairwise (· ≤ ·))
    (hb : b.knot.Pairwise (· ≤ ·)) (hd : d.Pairwise (· ≤ ·))
    (hlen : b.knot.length = a.knot.length + d.length)
    (hsep : ∀ x ∈ a.knot, ∀ y ∈ b.knot, |x - y| < 2 * epsilon → x = y)
    (hlast : ∀ y ∈ d, y < rd a.knot ((a.knot.length - 1 : Nat) : Int)) :
    ∀ (n j i s : Nat), j + n = b.knot.length → i + s = j → i ≤ a.knot.length →
      s ≤ d.length → (b.knot.drop j).Perm (a.knot.drop i ++ d.drop s) →
      (i = a.knot.length → s = d.length) →
      forCountM
        (fun (st : List ℚ × Int × Int) j =>
          match rdChk a.knot st.2.2 with
          | .error e => .error e
          | .ok x =>
            if |x - b.get j| < 2 * epsilon then .ok (st.1, st.2.1, st.2.2 + 1)
            else
              match wrChk st.1 st.2.1 (b.get j) with
              | .error e => .error e
              | .ok w => .ok (w, st.2.1 + 1, st.2.2))
        n j (d.take s ++ List.replicate (d.length - s) 0, (s : Int), (i : Int)) =
      .ok (d, (d.length : Int), (a.knot.length : Int)) := by
  intro n
  induction n with
  | zero =>
    intro j i s hj hij hi hs _ _
    have h1 : i = a.knot.length := by omega
    have h2 : s = d.length := by omega
    subst h2
    rw [forCountM, h1]
    simp
  | succ n ih =>
    intro j i s hj hij hi hs hperm hfin
    have hjb : j < b.knot.length := by omega
    have hia : i < a.knot.length := by
      by_contra hcon
      have h1 : i = a.knot.length := by omega
      have h2 := hfin h1
      omega
    have hbj : b.get (j : Int) = rd b.knot (j : Int) := rfl
    have hmin : ∀ z ∈ a.knot.drop i ++ d.drop s, rd b.knot (j : Int) ≤ z := by
      intro z hz
      obtain ⟨m, hm1, hm2, rfl⟩ := mem_drop_rd b.knot j z ((hperm.mem_iff).mpr hz)
      exact sorted_rd_le b.knot hb j m hm1 hm2
    have haA : rd a.knot (i : Int) ∈ a.knot.drop i := by
      rw [drop_eq_rd_cons a.knot i hia]; exact List.mem_cons_self _ _
    have hbB : rd b.knot (j : Int) ∈ b.knot := by
      rw [rd_eq_getElem b.knot j hjb]; exact List.getElem_mem _
    have haa : rd a.knot (i : Int) ∈ a.knot := List.mem_of_mem_drop haA
    rw [forCountM]
    dsimp only
    rw [rdChk_ok a.knot i hia]
    dsimp only
    rw [drop_eq_rd_cons b.knot j hjb] at hperm
    by_cases hclose : |rd a.knot (i : Int) - b.get (j : Int)| < 2 * epsilon
    · rw [if_pos hclose]
      dsimp only
      have heq : rd a.knot (i : Int) = rd b.knot (j : Int) := hsep _ haa _ hbB hclose
      rw [drop_eq_rd_cons a.knot i hia, List.cons_append, heq] at hperm
      have hperm1 := List.Perm.cons_inv hperm
      have hfin1 : i + 1 = a.knot.length → s = d.length := by
        intro hi1
        by_contra hcon
        have hsd : s < d.length := by omega
        have hds : rd d (s : Int) ∈ d.drop s := by
          rw [drop_eq_rd_cons d s hsd]; exact List.mem_cons_self _ _
        have l1 := hmin _ (List.mem_append_right _ hds)
        have l2 := hlast _ (List.mem_of_mem_drop hds)
        rw [show a.knot.length - 1 = i by omega, heq] at l2
        linarith
      have := ih (j + 1) (i + 1) s (by omega) (by omega) (by omega) hs hperm1 hfin1
      rw [show ((i : Int) + 1) = ((i + 1 : Nat) : Int) by push_cast; rfl]
      exact this
    · rw [if_neg hclose]
      have hne : rd a.knot (i : Int) ≠ rd b.knot (j : Int) := by
        intro e
        apply hclose
        rw [hbj, e, sub_self, abs_zero]
        exact epsilon_pos
      have hbD : rd b.knot (j : Int) ∈ d.drop s := by
        have hmem : rd b.knot (j : Int) ∈ a.knot.drop i ++ d.drop s :=
          (hperm.mem_iff).mp (List.mem_cons_self _ _)
        rcases List.mem_append.mp hmem with h | h
        · exfalso
          obtain ⟨m, hm1, hm2, e⟩ := mem_drop_rd a.knot i _ h
          have l1 := sorted_rd_le a.knot ha i m hm1 hm2
          have l2 := hmin _ (List.mem_append_left _ haA)
          rw [← e] at l1
          exact hne (le_antisymm l1 l2)
        · exact h
      have hsd : s < d.length := by
        by_contra hcon
        rw [List.drop_eq_nil_of_le (by omega)] at hbD
        exact absurd hbD (List.not_mem_nil _)
      have hds : rd d (s : Int) ∈ d.drop s := by
        rw [drop_eq_rd_cons d s hsd]; exact List.mem_cons_self _ _
      have heq : rd b.knot (j : Int) = rd d (s : Int) := by
        obtain ⟨m, hm1, hm2, e⟩ := mem_drop_rd d s _ hbD
        have l1 := sorted_rd_le d hd s m hm1 hm2
        have l2 := hmin _ (List.mem_append_right _ hds)
        rw [← e] at l1
        exact le_antisymm l2 l1
      have hwl : s < (d.take s ++ List.replicate (d.length - s) (0 : ℚ)).length := by
        rw [List.length_append, List.length_take, List.length_replicate]; omega
      rw [wrChk_ok _ s _ hwl]
      dsimp only
      rw [hbj, heq, set_take_replicate d s hsd]
      rw [drop_eq_rd_cons d s hsd, heq] at hperm
      have hperm1 := List.Perm.cons_inv (hperm.trans List.perm_middle)
      have := ih (j + 1) i (s + 1) (by omega) (by omega) hi (by omega) hperm1
        (fun h => absurd h (by omega))
      rw [show ((s : Int) + 1) = ((s + 1 : Nat) : Int) by push_cast; rfl]
      exact this

/-- `Difference` on a knot vector `b` that refines `a` by well-separated extra knots `d`
lying below the last knot of `a`. -/
theorem Difference_eq (a b : KnotVector) (d : List ℚ) (ho : a.Order = b.Order)
    (ha : a.NonDecreasing) (hb : b.NonDecreasing) (hd : d.Pairwise (· ≤ ·))
    (hperm : b.knot.Perm (a.knot ++ d))
    (hsep : ∀ x ∈ a.knot, ∀ y ∈ b.knot, |x - y| < 2 * epsilon → x = y)
    (hlast : ∀ y ∈ d, y < a.get ((a.knot.length : Int) - 1)) (hne : a.knot ≠ []) :
    a.Difference b = .ok d := by
  have hapos : 0 < a.knot.length := List.length_pos.mpr hne
  have hlen : b.knot.length = a.knot.length + d.length := by
    rw [hperm.length_eq, List.length_append]
  unfold Difference
  rw [if_neg (by simp [GetOrder, ho]), if_neg (by simp only [Size]; omega)]
  unfold DifferenceLoop forLoopM
  have hlast1 : ∀ y ∈ d, y < rd a.knot ((a.knot.length - 1 : Nat) : Int) := by
    intro y hy
    have := hlast y hy
    rwa [show (a.knot.length : Int) - 1 = ((a.knot.length - 1 : Nat) : Int) by omega] at this
  have := differenceLoop_steps a b d ha hb hd hlen hsep hlast1 b.knot.length 0 0 0 (by omega)
    rfl (Nat.zero_le _) (Nat.zero_le _) (by simpa using hperm) (fun h => by omega)
  simp only [Size, Nat.sub_zero, List.take_zero, List.nil_append, Nat.cast_zero] at this ⊢
  rw [show b.knot.length - a.knot.length = d.length by omega, this]

/-- C8, refuted as stated: `exNearKnot` has the order of `exTwoElements` and its knots
`[0,0,1-2^-53,1,2,2]` are the knots `[0,0,1,2,2]` of `exTwoElements` plus the knot
`1-2^-53` (both non-decreasing), but `Difference` matches `1-2^-53` with the knot `1`
within its tolerance `2 * epsilon` and returns `[1]`; merging `[1]` into `[0,0,1,2,2]`
does not reproduce the knots of `exNearKnot`. -/
theorem difference_counterexample :
    exTwoElements.Order = exNearKnot.Order ∧
    exTwoElements.NonDecreasing ∧ exNearKnot.NonDecreasing ∧
    exNearKnot.knot.Perm (exTwoElements.knot ++ [1 - 1 / 2 ^ 53]) ∧
    exTwoElements.Difference exNearKnot = .ok [1] ∧
    ¬ (exTwoElements.knot ++ [1]).Perm exNearKnot.knot :=
  ⟨rfl, by decide, by decide!, by decide!, by with_unfolding_all rfl, by decide!⟩

/-- C8, amended: for knot vectors `a` (coarser) and `b` (finer) of the same order, both
non-decreasing, where the knots of `b` are the knots of `a` plus additional knots `d`
(listed in non-decreasing order), such that no knot of `b` lies within `2 * epsilon` of a
different knot of `a` and every additional knot lies strictly below the last knot of `a`,
`a.Difference(b, diff)` reads `a` and writes `diff` within bounds and returns in `diff`
exactly `d`, so that merging `diff` into the knots of `a` reproduces the knots of `b`. -/
theorem difference_spec (a b : KnotVector) (d : List ℚ) (ho : a.Order = b.Order)
    (ha : a.NonDecreasing) (hb : b.NonDecreasing) (hd : d.Pairwise (· ≤ ·))
    (hperm : b.knot.Perm (a.knot ++ d))
    (hsep : ∀ x ∈ a.knot, ∀ y ∈ b.knot, |x - y| < 2 * epsilon → x = y)
    (hlast : ∀ y ∈ d, y < a.get ((a.knot.length : Int) - 1)) (hne : a.knot ≠ []) :
    ∃ diff, a.Difference b = .ok diff ∧ diff = d ∧ diff.Pairwise (· ≤ ·) ∧
      b.knot.Perm (a.knot ++ diff) :=
  ⟨d, Difference_eq a b d ho ha hb hd hperm hsep hlast hne, rfl, hd, hperm⟩

/-- Instance of `difference_spec`: the knots `[0,0,1,2,2]` refine `[0,0,2,2]` by the
knot `1`. -/
theorem difference_spec_witness :
    ∃ diff, exUnit.Difference exUnitRefined = .ok diff ∧ diff = [1] ∧
      diff.Pairwise (· ≤ ·) ∧ exUnitRefined.knot.Perm (exUnit.knot ++ diff) :=
  difference_spec exUnit exUnitRefined [1] rfl (by decide) (by decide) (by decide)
    (by decide) (by decide!) (by decide) (by decide)

end KnotVector

/-! ### Basis evaluation: `CalcShape` and the Cox-de Boor recursion -/

namespace KnotVector

end KnotVector

namespace KnotVector

/-- C11: for every knot vector, every span index `e ≥ 0`, every `xi` and every vector
`shape`, `CalcShape(shape, -1-e, xi)` (in debug and in release builds) gives exactly the
result of `CalcShape(shape, e, 1-xi)`: a negative element index evaluates the same
element at the mirrored local coordinate. -/
theorem calcShape_mirror (debug : Bool) (kv : KnotVector) (shape : List ℚ) (e : Nat)
    (xi : ℚ) :
    CalcShape debug kv shape (-1 - (e : Int)) xi = CalcShape debug kv shape (e : Int) (1 - xi) := by
  have h1 : ¬ (-1 - (e : Int) ≥ 0) := by omega
  have h2 : (e : Int) ≥ 0 := by omega
  unfold CalcShape CalcShapeCore
  simp only [if_neg h1, if_pos h2]
  rw [show -1 - (-1 - (e : Int)) + (kv.Order : Int) = (e : Int) + (kv.Order : Int) by ring]

end KnotVector

/-! ### Degree elevation of a patch -/

namespace NURBSPatch

/-- C12, failing input: the cubic curve `exCubic` (clamped non-decreasing knots
`[0,0,0,0,1,2,2,2,2]`, control points `1, 5, 2, 7, 3` of weight `1`) and `t = 1`.
`DegreeElevate(0, 1)` returns a quartic patch on the knots `[0,0,0,0,0,1,1,2,2,2,2,2]`,
but at the parameter `u = 1` (local coordinate `0` of the second element, span `1` of the
old and span `2` of the new knot vector) the old curve has the homogeneous point `(4, 1)`
and the new one `(33/4, 2)`: the curve is not reproduced.  The step that removes the knot
`ua` computes `alf*Q(i) - (1-alf)*Q(i-1)`. -/
theorem degreeElevate_patch_failing :
    exCubic.DimsOk ∧
    (∀ k ∈ exCubic.kv, k.SizeOk ∧ k.NonDecreasing ∧ k.Clamped) ∧
    ∃ q, DegreeElevate slice exCubic 0 1 = .ok q ∧
      q.kv.map (fun k => (k.Order, k.knot)) = [(4, [0, 0, 0, 0, 0, 1, 1, 2, 2, 2, 2, 2])] ∧
      q.data = [1, 1, 4, 1, 17 / 4, 1, 23 / 2, 3, 23 / 4, 1, 6, 1, 3, 1] ∧
      (exCubic.kv.map (fun k => k.getKnotLocation 0 4)) = [1] ∧
      (q.kv.map (fun k => k.getKnotLocation 0 6)) = [1] ∧
      curvePoint exCubic 1 0 0 = 4 ∧ curvePoint exCubic 1 0 1 = 1 ∧
      curvePoint q 2 0 0 = 33 / 4 ∧ curvePoint q 2 0 1 = 2 :=
  ⟨⟨rfl, rfl, rfl⟩, by decide, _, rfl, by with_unfolding_all rfl, by with_unfolding_all rfl,
    by with_unfolding_all rfl, by with_unfolding_all rfl, by with_unfolding_all rfl,
    by with_unfolding_all rfl, by with_unfolding_all rfl, by with_unfolding_all rfl⟩

end NURBSPatch

/-! ### Offsets of the global numbering -/

theorem length_wrI (v : List Int) (i : Int) (x : Int) : (wrI v i x).length = v.length := by
  unfold wrI; split <;> simp

theorem wrI_append_length (A B : List Int) (y x : Int) :
    wrI (A ++ y :: B) (A.length : Int) x = A ++ x :: B := by
  unfold wrI
  rw [if_pos (by omega), Int.toNat_ofNat]
  simp

namespace NURBSExtension

/-- The edge, face and patch loops of `GenerateOffsets` write the running sums of the
entity counts. -/
theorem offsets_loop (lm ls : Nat → Int) (c d : Int) :
    ∀ (n s : Nat) (st : OffsetState),
      st.mesh = (List.range s).map (fun i => c + ∑ k in Finset.range i, lm k) ++
        List.replicate n 0 →
      st.space = (List.range s).map (fun i => d + ∑ k in Finset.range i, ls k) ++
        List.replicate n 0 →
      st.meshCounter = c + ∑ k in Finset.range s, lm k →
      st.spaceCounter = d + ∑ k in Finset.range s, ls k →
      forCount (offsetsBody lm ls) n s st =
        { mesh := (List.range (s + n)).map (fun i => c + ∑ k in Finset.range i, lm k)
          space := (List.range (s + n)).map (fun i => d + ∑ k in Finset.range i, ls k)
          meshCounter := c + ∑ k in Finset.range (s + n), lm k
          spaceCounter := d + ∑ k in Finset.range (s + n), ls k }
  | 0, s, st => by
    intro h1 h2 h3 h4
    rw [forCount]
    cases st
    simp only [List.replicate_zero, List.append_nil] at h1 h2
    simp only at h3 h4
    simp [h1, h2, h3, h4]
  | n + 1, s, st => by
    intro h1 h2 h3 h4
    rw [forCount, offsets_loop lm ls c d n (s + 1), show s + 1 + n = s + (n + 1) by omega]
    · simp only [offsetsBody, h1, h3, List.replicate_succ]
      have := wrI_append_length
        ((List.range s).map (fun i => c + ∑ k in Finset.range i, lm k))
        (List.replicate n 0) 0 (c + ∑ k in Finset.range s, lm k)
      rw [List.length_map, List.length_range] at this
      rw [this, List.range_succ, List.map_append, List.append_assoc]
      rfl
    · simp only [offsetsBody, h2, h4, List.replicate_succ]
      have := wrI_append_length
        ((List.range s).map (fun i => d + ∑ k in Finset.range i, ls k))
        (List.replicate n 0) 0 (d + ∑ k in Finset.range s, ls k)
      rw [List.length_map, List.length_range] at this
      rw [this, List.range_succ, List.map_append, List.append_assoc]
      rfl
    · simp only [offsetsBody, h3, Finset.sum_range_succ]; ring
    · simp only [offsetsBody, h4, Finset.sum_range_succ]; ring

/-- The vertex loop of `GenerateOffsets` numbers the vertices `0, 1, ..., nv-1` in both
spaces. -/
theorem vertex_loop :
    ∀ (n s : Nat),
      forCount (fun (st : List Int × List Int) (meshCounter : Nat) =>
          (wrI st.1 meshCounter meshCounter, wrI st.2 meshCounter meshCounter)) n s
        ((List.range s).map (fun (i : Nat) => (i : Int)) ++ List.replicate n 0,
         (List.range s).map (fun (i : Nat) => (i : Int)) ++ List.replicate n 0) =
      ((List.range (s + n)).map (fun (i : Nat) => (i : Int)),
       (List.range (s + n)).map (fun (i : Nat) => (i : Int)))
  | 0, s => by simp [forCount]
  | n + 1, s => by
    rw [forCount, show s + (n + 1) = s + 1 + n by omega, ← vertex_loop n (s + 1)]
    have := wrI_append_length ((List.range s).map (fun (i : Nat) => (i : Int)))
      (List.replicate n 0) 0 (s : Int)
    rw [List.length_map, List.length_range] at this
    simp only [List.replicate_succ, this, List.range_succ, List.map_append, List.append_assoc]
    rfl

/-- The result of `GenerateOffsets` in closed form: each offset is the number of vertices
plus the counts of the entities before it. -/
theorem GenerateOffsets_eq (ext : NURBSExtension) :
    GenerateOffsets ext =
      { ext with
        v_meshOffsets := (List.range ext.patchTopo.NV).map (fun (i : Nat) => (i : Int))
        v_spaceOffsets := (List.range ext.patchTopo.NV).map (fun (i : Nat) => (i : Int))
        e_meshOffsets := (List.range ext.patchTopo.NEdges).map
          (fun i => (ext.patchTopo.NV : Int) + ∑ k in Finset.range i, ext.edgeMesh k)
        e_spaceOffsets := (List.range ext.patchTopo.NEdges).map
          (fun i => (ext.patchTopo.NV : Int) + ∑ k in Finset.range i, ext.edgeSpace k)
        f_meshOffsets := (List.range ext.patchTopo.NFaces).map
          (fun i => ((ext.patchTopo.NV : Int) +
            ∑ k in Finset.range ext.patchTopo.NEdges, ext.edgeMesh k) +
            ∑ k in Finset.range i, ext.faceMesh k)
        f_spaceOffsets := (List.range ext.patchTopo.NFaces).map
          (fun i => ((ext.patchTopo.NV : Int) +
            ∑ k in Finset.range ext.patchTopo.NEdges, ext.edgeSpace k) +
            ∑ k in Finset.range i, ext.faceSpace k)
        p_meshOffsets := (List.range ext.patchTopo.NE).map
          (fun i => (((ext.patchTopo.NV : Int) +
            ∑ k in Finset.range ext.patchTopo.NEdges, ext.edgeMesh k) +
            ∑ k in Finset.range ext.patchTopo.NFaces, ext.faceMesh k) +
            ∑ k in Finset.range i, ext.patchMesh k)
        p_spaceOffsets := (List.range ext.patchTopo.NE).map
          (fun i => (((ext.patchTopo.NV : Int) +
            ∑ k in Finset.range ext.patchTopo.NEdges, ext.edgeSpace k) +
            ∑ k in Finset.range ext.patchTopo.NFaces, ext.faceSpace k) +
            ∑ k in Finset.range i, ext.patchSpace k)
        NumOfVertices := (((ext.patchTopo.NV : Int) +
            ∑ k in Finset.range ext.patchTopo.NEdges, ext.edgeMesh k) +
            ∑ k in Finset.range ext.patchTopo.NFaces, ext.faceMesh k) +
            ∑ k in Finset.range ext.patchTopo.NE, ext.patchMesh k
        NumOfDofs := (((ext.patchTopo.NV : Int) +
            ∑ k in Finset.range ext.patchTopo.NEdges, ext.edgeSpace k) +
            ∑ k in Finset.range ext.patchTopo.NFaces, ext.faceSpace k) +
            ∑ k in Finset.range ext.patchTopo.NE, ext.patchSpace k } := by
  have hv := vertex_loop ext.patchTopo.NV 0
  simp only [List.range_zero, List.map_nil, List.nil_append, Nat.zero_add] at hv
  have he := fun (lm ls : Nat → Int) (c d : Int) (n : Nat) =>
    offsets_loop lm ls c d n 0
      { mesh := List.replicate n 0, space := List.replicate n 0,
        meshCounter := c, spaceCounter := d } (by simp) (by simp) (by simp) (by simp)
  simp only [Nat.zero_add] at he
  unfold GenerateOffsets
  simp only [forLoop, Nat.sub_zero, hv, he]

end NURBSExtension
namespace NURBSExtension

theorem KnotVec_mem (ext : NURBSExtension) (h : ext.KnotVectorsOk) (e : Int) :
    ext.KnotVec e ∈ ext.knotVectors := by
  obtain ⟨h0, h1, _⟩ := h
  have hlt : (ext.KnotInd e).toNat < ext.knotVectors.length := by
    unfold KnotInd rdI
    dsimp only
    by_cases he : 0 ≤ e ∧ e.toNat < ext.edge_to_knot.length
    · rw [if_pos he.1, List.getD_eq_getElem _ _ he.2]
      exact h1 _ (List.getElem_mem _)
    · have hz : (if 0 ≤ e then ext.edge_to_knot.getD e.toNat 0 else 0) = 0 := by
        split
        · rw [List.getD_eq_default]; omega
        · rfl
      rw [hz]
      simp only [ge_iff_le, le_refl, ↓reduceIte, Int.toNat_zero]
      exact List.length_pos.mpr h0
  unfold KnotVec
  rw [List.getD_eq_getElem _ _ hlt]
  exact List.getElem_mem _

theorem counts_nonneg (ext : NURBSExtension) (h : ext.KnotVectorsOk) (k : Nat) :
    0 ≤ ext.edgeMesh k ∧ 0 ≤ ext.edgeSpace k ∧ 0 ≤ ext.faceMesh k ∧ 0 ≤ ext.faceSpace k ∧
    0 ≤ ext.patchMesh k ∧ 0 ≤ ext.patchSpace k := by
  have hm : ∀ e : Int, 0 ≤ ((ext.KnotVec e).GetNE : Int) - 1 := fun e => by
    have := (h.2.2 _ (KnotVec_mem ext h e)).1
    omega
  have hs : ∀ e : Int, 0 ≤ ((ext.KnotVec e).GetNCP : Int) - 2 := fun e => by
    have := (h.2.2 _ (KnotVec_mem ext h e)).2
    omega
  refine ⟨hm _, hs _, mul_nonneg (hm _) (hm _), mul_nonneg (hs _) (hs _), ?_, ?_⟩
  · unfold patchMesh
    split
    · exact hm _
    · split
      · exact mul_nonneg (hm _) (hm _)
      · exact mul_nonneg (mul_nonneg (hm _) (hm _)) (hm _)
  · unfold patchSpace
    split
    · exact hs _
    · split
      · exact mul_nonneg (hs _) (hs _)
      · exact mul_nonneg (mul_nonneg (hs _) (hs _)) (hs _)

/-- Running sums of non-negative counts are non-decreasing and stay between the start and
the total. -/
theorem running_sums_sorted (f : Nat → Int) (hf : ∀ k, 0 ≤ f k) (c : Int) (n : Nat) :
    ((List.range n).map (fun i => c + ∑ k in Finset.range i, f k)).Pairwise (· ≤ ·) ∧
    ∀ x ∈ (List.range n).map (fun i => c + ∑ k in Finset.range i, f k),
      c ≤ x ∧ x ≤ c + ∑ k in Finset.range n, f k := by
  have hmono : ∀ i j : Nat, i ≤ j →
      ∑ k in Finset.range i, f k ≤ ∑ k in Finset.range j, f k := fun i j hij =>
    Finset.sum_le_sum_of_subset_of_nonneg (Finset.range_mono hij) (fun k _ _ => hf k)
  constructor
  · rw [List.pairwise_map]
    refine List.Pairwise.imp_of_mem ?_ (List.pairwise_lt_range n)
    intro a b _ _ hab
    have := hmono a b (le_of_lt hab)
    omega
  · intro x hx
    obtain ⟨i, hi, rfl⟩ := List.mem_map.mp hx
    have h0 := hmono 0 i (Nat.zero_le _)
    have h1 := hmono i n (le_of_lt (List.mem_range.mp hi))
    simp only [Finset.range_zero, Finset.sum_empty] at h0
    omega

/-- C13, refuted as stated: for the single quadrilateral patch `exSquareOne` with the
one-element knot vector `[0,0,1,1]` (two control points) in both directions the four edges
have no interior vertices or dofs, `e_meshOffsets = e_spaceOffsets = [4,4,4,4]`, so the
concatenated offset sequences are not strictly increasing.  With the knot vector `[0,1]`
of order 0 (a single control point) the count `NCP - 2` is negative and
`e_spaceOffsets = [4,3,2,1]` decreases. -/
theorem generateOffsets_counterexample :
    (GenerateOffsets exSquareOne).e_meshOffsets = [4, 4, 4, 4] ∧
    (GenerateOffsets exSquareOne).e_spaceOffsets = [4, 4, 4, 4] ∧
    ¬ ((GenerateOffsets exSquareOne).v_meshOffsets ++ (GenerateOffsets exSquareOne).e_meshOffsets ++
        (GenerateOffsets exSquareOne).f_meshOffsets ++
        (GenerateOffsets exSquareOne).p_meshOffsets).Pairwise (· < ·) ∧
    ¬ ((GenerateOffsets exSquareOne).v_spaceOffsets ++
        (GenerateOffsets exSquareOne).e_spaceOffsets ++
        (GenerateOffsets exSquareOne).f_spaceOffsets ++
        (GenerateOffsets exSquareOne).p_spaceOffsets).Pairwise (· < ·) ∧
    (GenerateOffsets exSquarePoint).e_spaceOffsets = [4, 3, 2, 1] := by
  decide

/-- C13, amended: after `GenerateOffsets`, provided every topology edge has a knot vector
with at least one element and at least two control points, within each of mesh-space and
dof-space the concatenated offset sequence `v_offsets, e_offsets, f_offsets, p_offsets`
(in that order, each in entity-index order), followed by the total `NumOfVertices`
respectively `NumOfDofs`, is non-decreasing, and it is strictly increasing along the
vertices; so the half-open ranges `[offset_i, offset_{i+1})` are non-overlapping (a range
is empty when the entity has no interior vertices or dofs). -/
theorem generateOffsets_sorted (ext : NURBSExtension) (h : ext.KnotVectorsOk) :
    ((GenerateOffsets ext).v_meshOffsets ++ (GenerateOffsets ext).e_meshOffsets ++
      (GenerateOffsets ext).f_meshOffsets ++ (GenerateOffsets ext).p_meshOffsets ++
      [(GenerateOffsets ext).NumOfVertices]).Pairwise (· ≤ ·) ∧
    ((GenerateOffsets ext).v_spaceOffsets ++ (GenerateOffsets ext).e_spaceOffsets ++
      (GenerateOffsets ext).f_spaceOffsets ++ (GenerateOffsets ext).p_spaceOffsets ++
      [(GenerateOffsets ext).NumOfDofs]).Pairwise (· ≤ ·) ∧
    (GenerateOffsets ext).v_meshOffsets.Pairwise (· < ·) ∧
    (GenerateOffsets ext).v_spaceOffsets.Pairwise (· < ·) := by
  have hv : ((List.range ext.patchTopo.NV).map (fun (i : Nat) => (i : Int))).Pairwise (· < ·) := by
    rw [List.pairwise_map]
    exact List.Pairwise.imp (fun hab => by omega) (List.pairwise_lt_range _)
  have hvb : ∀ x ∈ (List.range ext.patchTopo.NV).map (fun (i : Nat) => (i : Int)),
      x ≤ (ext.patchTopo.NV : Int) := by
    intro x hx
    obtain ⟨i, hi, rfl⟩ := List.mem_map.mp hx
    have := List.mem_range.mp hi
    omega
  have key : ∀ (fe ff fp : Nat → Int), (∀ k, 0 ≤ fe k) → (∀ k, 0 ≤ ff k) → (∀ k, 0 ≤ fp k) →
      ((List.range ext.patchTopo.NV).map (fun (i : Nat) => (i : Int)) ++
        (List.range ext.patchTopo.NEdges).map
          (fun i => (ext.patchTopo.NV : Int) + ∑ k in Finset.range i, fe k) ++
        (List.range ext.patchTopo.NFaces).map
          (fun i => ((ext.patchTopo.NV : Int) + ∑ k in Finset.range ext.patchTopo.NEdges, fe k) +
            ∑ k in Finset.range i, ff k) ++
        (List.range ext.patchTopo.NE).map
          (fun i => (((ext.patchTopo.NV : Int) +
            ∑ k in Finset.range ext.patchTopo.NEdges, fe k) +
            ∑ k in Finset.range ext.patchTopo.NFaces, ff k) +
            ∑ k in Finset.range i, fp k) ++
        [(((ext.patchTopo.NV : Int) + ∑ k in Finset.range ext.patchTopo.NEdges, fe k) +
            ∑ k in Finset.range ext.patchTopo.NFaces, ff k) +
            ∑ k in Finset.range ext.patchTopo.NE, fp k]).Pairwise (· ≤ ·) := by
    intro fe ff fp he hf hp
    obtain ⟨e1, e2⟩ := running_sums_sorted fe he (ext.patchTopo.NV : Int) ext.patchTopo.NEdges
    obtain ⟨f1, f2⟩ := running_sums_sorted ff hf
      ((ext.patchTopo.NV : Int) + ∑ k in Finset.range ext.patchTopo.NEdges, fe k)
      ext.patchTopo.NFaces
    obtain ⟨p1, p2⟩ := running_sums_sorted fp hp
      (((ext.patchTopo.NV : Int) + ∑ k in Finset.range ext.patchTopo.NEdges, fe k) +
        ∑ k in Finset.range ext.patchTopo.NFaces, ff k) ext.patchTopo.NE
    have sE := Finset.sum_nonneg (s := Finset.range ext.patchTopo.NEdges) (fun k _ => he k)
    have sF := Finset.sum_nonneg (s := Finset.range ext.patchTopo.NFaces) (fun k _ => hf k)
    have sP := Finset.sum_nonneg (s := Finset.range ext.patchTopo.NE) (fun k _ => hp k)
    simp only [List.pairwise_append, List.mem_append, List.mem_singleton]
    refine ⟨⟨⟨⟨hv.imp le_of_lt, e1, ?_⟩, f1, ?_⟩, p1, ?_⟩, List.pairwise_singleton _ _, ?_⟩
    · intro a ha b hb
      have := hvb a ha; have := e2 b hb; omega
    · rintro a (ha | ha) b hb
      · have := hvb a ha; have := f2 b hb; omega
      · have := e2 a ha; have := f2 b hb; omega
    · rintro a ((ha | ha) | ha) b hb
      · have := hvb a ha; have := p2 b hb; omega
      · have := e2 a ha; have := p2 b hb; omega
      · have := f2 a ha; have := p2 b hb; omega
    · rintro a (((ha | ha) | ha) | ha) b rfl
      · have := hvb a ha; omega
      · have := e2 a ha; omega
      · have := f2 a ha; omega
      · have := p2 a ha; omega
  rw [GenerateOffsets_eq]
  exact ⟨key _ _ _ (fun k => (counts_nonneg ext h k).1) (fun k => (counts_nonneg ext h k).2.2.1)
      (fun k => (counts_nonneg ext h k).2.2.2.2.1),
    key _ _ _ (fun k => (counts_nonneg ext h k).2.1) (fun k => (counts_nonneg ext h k).2.2.2.1)
      (fun k => (counts_nonneg ext h k).2.2.2.2.2), hv, hv⟩

/-- Instance of `generateOffsets_sorted`: the single quadrilateral patch with three
elements in both directions. -/
theorem generateOffsets_sorted_witness :
    ((GenerateOffsets exSquareThree).v_meshOffsets ++ (GenerateOffsets exSquareThree).e_meshOffsets ++
      (GenerateOffsets exSquareThree).f_meshOffsets ++ (GenerateOffsets exSquareThree).p_meshOffsets ++
      [(GenerateOffsets exSquareThree).NumOfVertices]).Pairwise (· ≤ ·) ∧
    ((GenerateOffsets exSquareThree).v_spaceOffsets ++ (GenerateOffsets exSquareThree).e_spaceOffsets ++
      (GenerateOffsets exSquareThree).f_spaceOffsets ++ (GenerateOffsets exSquareThree).p_spaceOffsets ++
      [(GenerateOffsets exSquareThree).NumOfDofs]).Pairwise (· ≤ ·) ∧
    (GenerateOffsets exSquareThree).v_meshOffsets.Pairwise (· < ·) ∧
    (GenerateOffsets exSquareThree).v_spaceOffsets.Pairwise (· < ·) :=
  generateOffsets_sorted exSquareThree (by decide)

end NURBSExtension

namespace NURBSExtension

/-- C14, failing input: the one-dimensional topology `exTwoSegments` of two patches, patch
`0` with the knot vector `[0,0,1,1]` and patch `1` with the knot vector `[0,0,1,2,3,3]`
(four control points, three elements).  `GenerateOffsets` advances the counters for every
patch of a one-dimensional topology by the counts of `KnotVec(0)`, so patch `1` gets the
dof range `[3, 3)` and the vertex range `[3, 3)`, of length `0` instead of `NCP - 2 = 2`
and `NE - 1 = 2`, and `NumOfDofs = NumOfVertices = 3`. -/
theorem generateOffsets_ranges_failing :
    exTwoSegments.KnotVectorsOk ∧ exTwoSegments.Dimension = 1 ∧
    exTwoSegments.GetPatchKnotVectors 1 = [exKVThree] ∧
    (exKVThree.GetNCP : Int) - 2 = 2 ∧ (exKVThree.GetNE : Int) - 1 = 2 ∧
    (GenerateOffsets exTwoSegments).v_spaceOffsets = [0, 1, 2] ∧
    (GenerateOffsets exTwoSegments).p_spaceOffsets = [3, 3] ∧
    (GenerateOffsets exTwoSegments).NumOfDofs = 3 ∧
    (GenerateOffsets exTwoSegments).p_meshOffsets = [3, 3] ∧
    (GenerateOffsets exTwoSegments).NumOfVertices = 3 := by
  decide

/-- C15, failing input: the one-dimensional topology `exTwoSegments` of two patches joined
at a shared vertex (three topology vertices), with knot vectors of `E0 = 1` and `E1 = 3`
elements.  `GenerateOffsets` sets `NumOfVertices = 3`, not `(1 + 1) + (3 + 1) - 1 = 5`:
for every patch it adds `KnotVec(0)->GetNE() - 1 = 0`. -/
theorem generateOffsets_joined_failing :
    exTwoSegments.Dimension = 1 ∧ exTwoSegments.patchTopo.NV = 3 ∧ exTwoSegments.GetNP = 2 ∧
    (exTwoSegments.GetPatchKnotVectors 0).map (fun k => k.GetElements.GetNE) = [1] ∧
    (exTwoSegments.GetPatchKnotVectors 1).map (fun k => k.GetElements.GetNE) = [3] ∧
    (exTwoSegments.KnotVec 0).GetNE = 1 ∧ (exTwoSegments.KnotVec 1).GetNE = 3 ∧
    (GenerateOffsets exTwoSegments).NumOfVertices = 3 ∧
    (GenerateOffsets exTwoSegments).NumOfVertices ≠ (1 + 1) + (3 + 1) - 1 := by
  decide

theorem forCount_add (f : Nat → Int) :
    ∀ (n : Nat) (c : Int),
      forCount (fun (tot : Int) p => tot + f p) n 0 c = c + ∑ k in Finset.range n, f k := by
  have h : ∀ (n s : Nat) (c : Int),
      forCount (fun (tot : Int) p => tot + f p) n s c =
        c + ∑ k in Finset.range n, f (s + k) := by
    intro n
    induction n with
    | zero => intro s c; simp [forCount]
    | succ n ih =>
      intro s c
      have e : ∑ k in Finset.range n, f (s + 1 + k) = ∑ k in Finset.range n, f (s + (k + 1)) :=
        Finset.sum_congr rfl (fun k _ => by rw [show s + 1 + k = s + (k + 1) by omega])
      rw [forCount, ih, Finset.sum_range_succ', e, Nat.add_zero]
      ring
  intro n c
  simpa using h n 0 c

/-- The number of elements `CountElements` computes for one patch of a topology of
dimension 1, 2 or 3. -/
theorem patchElements_eq (ext : NURBSExtension)
    (hdim : ext.Dimension = 1 ∨ ext.Dimension = 2 ∨ ext.Dimension = 3) (p : Nat) :
    ext.patchElements p =
      ∏ d in Finset.range ext.Dimension.toNat,
        ((ext.comprKV (ext.Dimension * (p : Int) + (d : Int))).GetNE : Int) := by
  unfold patchElements GetPatchKnotVectors
  rcases hdim with h | h | h <;> rw [h] <;>
    simp [forLoopInt, forCount, kvAt, Finset.prod_range_succ]

/-- C16, refuted as stated: for the single quadrilateral patch `exSquareRepeated` whose two
knot vectors `[0,0,1,1,2,2]` have `NCP = 4` and `Order = 1` (and two elements, the cached
count agreeing with `GetElements`), `CountElements` after `GenerateOffsets` sets
`NumOfElements = 4`, not `9`. -/
theorem countElements_counterexample :
    exSquareRepeated.Dimension = 2 ∧ exSquareRepeated.GetNP = 1 ∧
    (exSquareRepeated.GetPatchKnotVectors 0).map (fun k => (k.GetNCP, k.GetOrder)) =
      [(4, 1), (4, 1)] ∧
    (∀ k ∈ exSquareRepeated.GetPatchKnotVectors 0, k.SizeOk ∧ k.GetElements = k) ∧
    (CountElements (GenerateOffsets exSquareRepeated)).NumOfElements = 4 := by
  decide

/-- C16, amended: for a topology of dimension 1, 2 or 3, `CountElements` (after
`GenerateOffsets`) sets `NumOfElements` to the sum over the patches of the product over the
patch's directions of the comprehensive knot vector's `NumOfElements`; for a single 2D
patch whose two knot vectors each have `NCP = 4`, `Order = 1`, an up-to-date element count
and no repeated knot among `knot(1), ..., knot(4)` (three elements), this is
`NumOfElements = 9`. -/
theorem countElements_spec (ext : NURBSExtension)
    (hdim : ext.Dimension = 1 ∨ ext.Dimension = 2 ∨ ext.Dimension = 3) :
    (CountElements (GenerateOffsets ext)).NumOfElements =
      ∑ p in Finset.range ext.GetNP, ∏ d in Finset.range ext.Dimension.toNat,
        ((ext.comprKV (ext.Dimension * (p : Int) + (d : Int))).GetNE : Int) ∧
    (ext.GetNP = 1 → ext.Dimension = 2 →
      (∀ d : Nat, d < 2 →
        (ext.comprKV d).GetNCP = 4 ∧ (ext.comprKV d).GetOrder = 1 ∧
        (ext.comprKV d).GetElements = ext.comprKV d ∧
        (ext.comprKV d).get 1 ≠ (ext.comprKV d).get 2 ∧
        (ext.comprKV d).get 2 ≠ (ext.comprKV d).get 3 ∧
        (ext.comprKV d).get 3 ≠ (ext.comprKV d).get 4) →
      (CountElements (GenerateOffsets ext)).NumOfElements = 9) := by
  have hsum : (CountElements (GenerateOffsets ext)).NumOfElements =
      ∑ p in Finset.range ext.GetNP, ∏ d in Finset.range ext.Dimension.toNat,
        ((ext.comprKV (ext.Dimension * (p : Int) + (d : Int))).GetNE : Int) := by
    have h1 : (CountElements (GenerateOffsets ext)).NumOfElements =
        forCount (fun (tot : Int) p => tot + ext.patchElements p) ext.GetNP 0 0 := rfl
    rw [h1, forCount_add, zero_add]
    exact Finset.sum_congr rfl (fun p _ => patchElements_eq ext hdim p)
  refine ⟨hsum, ?_⟩
  intro hnp h2 hkv
  have hne : ∀ d : Nat, d < 2 → ((ext.comprKV d).GetNE : Int) = 3 := by
    intro d hd
    obtain ⟨a1, a2, a3, a4, a5, a6⟩ := hkv d hd
    have : (ext.comprKV d).GetElements.NumOfElements = 3 := by
      unfold KnotVector.GetNCP at a1
      unfold KnotVector.GetOrder at a2
      simp only [KnotVector.GetElements, a1, a2, forLoop, forCount]
      norm_num
      simp [a4, a5, a6]
    rw [a3] at this
    unfold KnotVector.GetNE
    rw [this]; rfl
  rw [hsum, hnp, h2]
  simp [Finset.sum_range_succ, Finset.prod_range_succ]
  have h0 := hne 0 (by omega)
  have h1 := hne 1 (by omega)
  simp only [Nat.cast_zero, Nat.cast_one] at h0 h1
  rw [h0, h1]; rfl

/-- Instance of `countElements_spec`: the single quadrilateral patch with the knot vector
`[0,0,1,2,3,3]` in both directions has `3 * 3 = 9` elements. -/
theorem countElements_spec_witness :
    (CountElements (GenerateOffsets exSquareThree)).NumOfElements =
      ∑ p in Finset.range exSquareThree.GetNP,
        ∏ d in Finset.range exSquareThree.Dimension.toNat,
          ((exSquareThree.comprKV (exSquareThree.Dimension * (p : Int) + (d : Int))).GetNE : Int) ∧
    (exSquareThree.GetNP = 1 → exSquareThree.Dimension = 2 →
      (∀ d : Nat, d < 2 →
        (exSquareThree.comprKV d).GetNCP = 4 ∧ (exSquareThree.comprKV d).GetOrder = 1 ∧
        (exSquareThree.comprKV d).GetElements = exSquareThree.comprKV d ∧
        (exSquareThree.comprKV d).get 1 ≠ (exSquareThree.comprKV d).get 2 ∧
        (exSquareThree.comprKV d).get 2 ≠ (exSquareThree.comprKV d).get 3 ∧
        (exSquareThree.comprKV d).get 3 ≠ (exSquareThree.comprKV d).get 4) →
      (CountElements (GenerateOffsets exSquareThree)).NumOfElements = 9) :=
  countElements_spec exSquareThree (by decide)

end NURBSExtension

/-! ### Periodic boundaries: `ConnectBoundaries` -/

namespace NURBSExtension

theorem connectList_append (l1 l2 : List (Int × Int)) (d : List Int) :
    connectList (l1 ++ l2) d =
      match connectList l1 d with
      | .error e => .error e
      | .ok d1 => connectList l2 d1 := by
  induction l1 generalizing d with
  | nil => rfl
  | cons pr rest ih =>
    simp only [List.cons_append, connectList]
    cases connectDofs d pr.1 pr.2 with
    | error e => rfl
    | ok d1 => exact ih d1

/-- A loop whose iteration `i` makes the assignments of the list `g i` makes the
assignments of all these lists in turn. -/
theorem forCountM_connect (g : Nat → List (Int × Int))
    (body : List Int → Nat → Except Fault (List Int)) :
    ∀ (n s : Nat) (d : List Int),
      (∀ (d : List Int) (i : Nat), s ≤ i → i < s + n → body d i = connectList (g i) d) →
      forCountM body n s d = connectList ((List.range' s n).flatMap g) d
  | 0, _, _, _ => rfl
  | n + 1, s, d, hb => by
    rw [forCountM, hb d s (le_refl _) (by omega), List.range'_succ, List.flatMap_cons,
      connectList_append]
    cases connectList (g s) d with
    | error e => rfl
    | ok d1 =>
      exact forCountM_connect g body n (s + 1) d1
        (fun d i h1 h2 => hb d i (by omega) (by omega))

theorem forLoopIntM_connect (g : Nat → List (Int × Int))
    (body : List Int → Int → Except Fault (List Int)) (hi : Int) (d : List Int)
    (hb : ∀ (d : List Int) (i : Nat), i < hi.toNat → body d (i : Int) = connectList (g i) d) :
    forLoopIntM 0 hi body d = connectList ((List.range hi.toNat).flatMap g) d := by
  unfold forLoopIntM
  rw [Int.sub_zero, forCountM_connect g _ hi.toNat 0 d, List.range_eq_range']
  intro d i _ h2
  rw [Int.zero_add]
  exact hb d i (by omega)

theorem flatMap_singleton_map {α β : Type} (f : α → β) (l : List α) :
    l.flatMap (fun a => [f a]) = l.map f := by
  induction l with
  | nil => rfl
  | cons a t ih => simp [List.flatMap_cons, ih]

theorem forLoopIntM_connect_map (f : Nat → Int × Int)
    (body : List Int → Int → Except Fault (List Int)) (hi : Int) (d : List Int)
    (hb : ∀ (d : List Int) (i : Nat), i < hi.toNat →
      body d (i : Int) = connectDofs d (f i).1 (f i).2) :
    forLoopIntM 0 hi body d = connectList ((List.range hi.toNat).map f) d := by
  rw [← flatMap_singleton_map, forLoopIntM_connect (fun i => [f i]) body hi d]
  intro d i h
  rw [hb d i h]
  simp only [connectList]
  cases connectDofs d (f i).1 (f i).2 <;> rfl

/-- On compatible boundary patches the three `ConnectBoundaries` functions make exactly
the assignments listed by `bdrPairs`. -/
theorem connectBoundaries_pairs (debug : Bool) (ops : PatchMapOps) (ext : NURBSExtension)
    (bnd0 bnd1 : Int) (hc : BdrCompatible debug ext bnd0 bnd1) (d : List Int) :
    (if ext.Dimension = 1 then ConnectBoundaries1D ops ext bnd0 bnd1 d
      else if ext.Dimension = 2 then ConnectBoundaries2D debug ops ext bnd0 bnd1 d
      else ConnectBoundaries3D debug ops ext bnd0 bnd1 d) =
      connectList (bdrPairs ops ext bnd0 bnd1) d := by
  unfold BdrCompatible at hc
  unfold bdrPairs
  dsimp only at hc ⊢
  by_cases h1 : ext.Dimension = 1
  · rw [if_pos h1, if_pos h1]
    unfold ConnectBoundaries1D
    simp only [connectList]
    cases connectDofs d _ _ <;> rfl
  · rw [if_neg h1, if_neg h1]
    rw [if_neg h1] at hc
    by_cases h2 : ext.Dimension = 2
    · rw [if_pos h2, if_pos h2]
      rw [if_pos h2] at hc
      unfold ConnectBoundaries2D
      dsimp only
      rw [if_neg hc.1]
      apply forLoopIntM_connect
      intro d i hi
      by_cases he : (kvAt (ext.SetBdrPatchDofMap {} bnd0).2.1 0).isElement (i : Int) = true
      · have he1 := hc.2 i hi he
        rw [if_pos he, if_pos he, if_neg (by rw [he1]; decide)]
        apply forLoopIntM_connect_map
          (fun (ii : Nat) =>
            (ops.at1 (ext.SetBdrPatchDofMap {} bnd0).1
              (if rdI (ext.SetBdrPatchDofMap {} bnd0).2.2 0 ≥ 0 then (i : Int) + ii
                else (ext.SetBdrPatchDofMap {} bnd0).1.nx - i - ii),
             ops.at1 (ext.SetBdrPatchDofMap {} bnd1).1
              (if rdI (ext.SetBdrPatchDofMap {} bnd1).2.2 0 ≥ 0 then (i : Int) + ii
                else (ext.SetBdrPatchDofMap {} bnd0).1.nx - i - ii)))
        intro d ii _
        rfl
      · rw [if_neg he, if_neg he]
        rfl
    · rw [if_neg h2, if_neg h2]
      rw [if_neg h2] at hc
      unfold ConnectBoundaries3D
      dsimp only
      rw [if_neg hc.1]
      apply forLoopIntM_connect
      intro d j hj
      by_cases hej : (kvAt (ext.SetBdrPatchDofMap {} bnd0).2.1 1).isElement (j : Int) = true
      · have hej1 := hc.2.1 j hj hej
        rw [if_pos hej, if_pos hej, if_neg (by rw [hej1]; decide)]
        apply forLoopIntM_connect
        intro d i hi
        by_cases he : (kvAt (ext.SetBdrPatchDofMap {} bnd0).2.1 0).isElement (i : Int) = true
        · have he1 := hc.2.2 i hi he
          rw [if_pos he, if_pos he, if_neg (by rw [he1]; decide)]
          apply forLoopIntM_connect
          intro d jj _
          apply forLoopIntM_connect_map
            (fun (ii : Nat) =>
              (ops.at2 (ext.SetBdrPatchDofMap {} bnd0).1
                (if rdI (ext.SetBdrPatchDofMap {} bnd0).2.2 0 ≥ 0 then (i : Int) + ii
                  else (ext.SetBdrPatchDofMap {} bnd0).1.nx - i - ii)
                (if rdI (ext.SetBdrPatchDofMap {} bnd0).2.2 1 ≥ 0 then (j : Int) + jj
                  else (ext.SetBdrPatchDofMap {} bnd0).1.ny - j - jj),
               ops.at2 (ext.SetBdrPatchDofMap {} bnd1).1
                (if rdI (ext.SetBdrPatchDofMap {} bnd1).2.2 0 ≥ 0 then (i : Int) + ii
                  else (ext.SetBdrPatchDofMap {} bnd0).1.nx - i - ii)
                (if rdI (ext.SetBdrPatchDofMap {} bnd1).2.2 1 ≥ 0 then (j : Int) + jj
                  else (ext.SetBdrPatchDofMap {} bnd0).1.ny - j - jj)))
          intro d ii _
          rfl
        · rw [if_neg he, if_neg he]
          rfl
      · rw [if_neg hej, if_neg hej]
        rfl

end NURBSExtension

/-! ### Integer arrays -/

theorem rdI_natCast (l : List Int) (i : Nat) : rdI l (i : Int) = l.getD i 0 := by
  simp [rdI]

theorem wrI_natCast (l : List Int) (i : Nat) (x : Int) : wrI l (i : Int) x = l.set i x := by
  simp [wrI]

theorem rdI_eq_getElem (l : List Int) (i : Nat) (h : i < l.length) :
    rdI l (i : Int) = l[i] := by
  rw [rdI_natCast, List.getD_eq_getElem l 0 h]

theorem rdI_mem (l : List Int) (i : Nat) (h : i < l.length) : rdI l (i : Int) ∈ l := by
  rw [rdI_eq_getElem l i h]; exact List.getElem_mem _

theorem rdIChk_ok (v : List Int) (i : Nat) (h : i < v.length) :
    rdIChk v (i : Int) = .ok (rdI v (i : Int)) := by
  unfold rdIChk
  rw [if_pos ⟨by omega, by simpa using h⟩, rdI_natCast, Int.toNat_ofNat]

theorem wrIChk_ok (v : List Int) (i : Nat) (x : Int) (h : i < v.length) :
    wrIChk v (i : Int) x = .ok (v.set i x) := by
  unfold wrIChk
  rw [if_pos ⟨by omega, by simpa using h⟩, Int.toNat_ofNat]

theorem rdI_set (l : List Int) (i j : Nat) (x : Int) :
    rdI (l.set i x) (j : Int) = if i = j ∧ i < l.length then x else rdI l (j : Int) := by
  rw [rdI_natCast, rdI_natCast, List.getD_eq_getElem?_getD, List.getD_eq_getElem?_getD,
    List.getElem?_set]
  by_cases hij : i = j
  · subst hij
    by_cases hl : i < l.length
    · simp [hl]
    · simp [hl, List.getElem?_eq_none (Nat.le_of_not_lt hl)]
  · simp [hij]

theorem list_ext_rdI (l1 l2 : List Int) (hl : l1.length = l2.length)
    (h : ∀ i : Nat, i < l1.length → rdI l1 (i : Int) = rdI l2 (i : Int)) : l1 = l2 := by
  apply List.ext_getElem hl
  intro n h1 h2
  have := h n h1
  rwa [rdI_eq_getElem l1 n h1, rdI_eq_getElem l2 n h2] at this

/-- A non-negative integer below `N` is the cast of a natural number below `N`. -/
theorem exists_nat_of_range (v : Int) (N : Nat) (h0 : 0 ≤ v) (h1 : v < N) :
    ∃ n : Nat, n < N ∧ v = (n : Int) := ⟨v.toNat, by omega, by omega⟩

namespace NURBSExtension

/-- The first loop of `ConnectBoundaries` makes `d_to_d` the identity. -/
theorem identity_loop (N : Int) :
    forLoopInt 0 N (fun d i => wrI d i i) (List.replicate N.toNat 0) =
      (List.range N.toNat).map (fun (i : Nat) => (i : Int)) := by
  have h : ∀ (n s : Nat),
      forCount (fun (st : List Int) (k : Nat) => wrI st (0 + (k : Int)) (0 + (k : Int))) n s
        ((List.range s).map (fun (i : Nat) => (i : Int)) ++ List.replicate n 0) =
      (List.range (s + n)).map (fun (i : Nat) => (i : Int)) := by
    intro n
    induction n with
    | zero => intro s; simp [forCount]
    | succ n ih =>
      intro s
      rw [forCount, show s + (n + 1) = s + 1 + n by omega, ← ih (s + 1)]
      have := wrI_append_length ((List.range s).map (fun (i : Nat) => (i : Int)))
        (List.replicate n 0) 0 (s : Int)
      rw [List.length_map, List.length_range] at this
      simp only [List.replicate_succ, Int.zero_add, this, List.range_succ, List.map_append,
        List.append_assoc]
      rfl
  have := h N.toNat 0
  simp only [List.range_zero, List.map_nil, List.nil_append, Nat.zero_add] at this
  unfold forLoopInt
  rw [Int.sub_zero]
  exact this

/-- The assignments of a list of pairs that is in range, maps every master dof to a
single slave dof and has no dof on both sides, applied to an array in which every master
dof already processed holds its slave dof and every other dof holds itself: all
assignments succeed and the final array has this form for the whole list. -/
theorem connectList_spec (N : Nat) (all : List (Int × Int))
    (hrange : ∀ pr ∈ all, 0 ≤ pr.1 ∧ pr.1 < N ∧ 0 ≤ pr.2 ∧ pr.2 < N)
    (h11 : ∀ pr ∈ all, ∀ pr' ∈ all, pr.1 = pr'.1 → pr.2 = pr'.2)
    (hdisj : ∀ pr ∈ all, ∀ pr' ∈ all, pr.1 ≠ pr'.2) :
    ∀ (rest done : List (Int × Int)) (d : List Int), all = done ++ rest → d.length = N →
      (∀ x : Nat, x < N →
        (∀ pr ∈ done, pr.1 = (x : Int) → rdI d (x : Int) = pr.2) ∧
        ((∀ pr ∈ done, pr.1 ≠ (x : Int)) → rdI d (x : Int) = (x : Int))) →
      ∃ d', connectList rest d = .ok d' ∧ d'.length = N ∧
        ∀ x : Nat, x < N →
          (∀ pr ∈ all, pr.1 = (x : Int) → rdI d' (x : Int) = pr.2) ∧
          ((∀ pr ∈ all, pr.1 ≠ (x : Int)) → rdI d' (x : Int) = (x : Int)) := by
  intro rest
  induction rest with
  | nil =>
    intro done d hall hlen hinv
    rw [List.append_nil] at hall
    subst hall
    exact ⟨d, rfl, hlen, hinv⟩
  | cons pr rest ih =>
    intro done d hall hlen hinv
    have hpr : pr ∈ all := by rw [hall]; simp
    obtain ⟨ha0, ha1, hb0, hb1⟩ := hrange pr hpr
    obtain ⟨a, haN, hae⟩ := exists_nat_of_range pr.1 N ha0 ha1
    obtain ⟨b, hbN, hbe⟩ := exists_nat_of_range pr.2 N hb0 hb1
    have hdb : rdI d (b : Int) = (b : Int) := by
      refine (hinv b hbN).2 (fun pr' hpr' h => ?_)
      exact hdisj pr' (by rw [hall]; simp [hpr']) pr hpr (by rw [h, hbe])
    have hstep : connectDofs d pr.1 pr.2 = .ok (d.set a (b : Int)) := by
      unfold connectDofs
      rw [hbe, hae, rdIChk_ok d b (by omega), hdb]
      exact wrIChk_ok d a _ (by omega)
    rw [connectList, hstep]
    refine ih (done ++ [pr]) (d.set a (b : Int)) (by rw [hall]; simp) (by simpa using hlen) ?_
    intro x hx
    rw [rdI_set]
    constructor
    · intro pr' hpr' hx'
      by_cases hax : a = x
      · rw [if_pos ⟨hax, by omega⟩, ← hbe]
        exact h11 pr hpr pr' (by
          rw [hall]
          rcases List.mem_append.mp hpr' with h | h
          · simp [h]
          · rw [List.mem_singleton.mp h]; simp) (by rw [hae, hx', hax])
      · rw [if_neg (fun h => hax h.1)]
        rcases List.mem_append.mp hpr' with h | h
        · exact (hinv x hx).1 pr' h hx'
        · rw [List.mem_singleton.mp h, hae] at hx'
          exact absurd (by exact_mod_cast hx') hax
    · intro hno
      have hax : a ≠ x := fun h => hno pr (by simp) (by rw [hae, h])
      rw [if_neg (fun h => hax h.1)]
      exact (hinv x hx).2 (fun pr' hpr' => hno pr' (by simp [hpr']))

end NURBSExtension

theorem take_succ_rdI (d : List Int) (s : Nat) (h : s < d.length) :
    d.take (s + 1) = d.take s ++ [rdI d (s : Int)] := by
  rw [rdI_eq_getElem d s h, List.take_succ, List.getElem?_eq_getElem h]
  rfl

theorem drop_eq_rdI_cons (l : List Int) (n : Nat) (h : n < l.length) :
    l.drop n = rdI l (n : Int) :: l.drop (n + 1) := by
  rw [List.drop_eq_getElem_cons h, rdI_eq_getElem l n h]

theorem rdI_map_range (f : Nat → Int) (L i : Nat) (h : i < L) :
    rdI ((List.range L).map f) (i : Int) = f i := by
  rw [rdI_eq_getElem _ _ (by simpa using h)]
  simp

/-- In an array the number of entries `a` before position `m1` is smaller than the number
before a later position `m2` when entry `m1` is `a`. -/
theorem count_take_lt (M : List Int) (a : Int) (m1 m2 : Nat) (h : m1 < m2)
    (h1 : m1 < M.length) (hm : rdI M (m1 : Int) = a) :
    (M.take m1).count a < (M.take m2).count a := by
  obtain ⟨k, rfl⟩ : ∃ k, m2 = m1 + (k + 1) := ⟨m2 - m1 - 1, by omega⟩
  rw [List.take_add, List.count_append, drop_eq_rdI_cons M m1 h1, List.take_succ_cons, hm,
    List.count_cons_self]
  omega

namespace NURBSExtension

/-- The marking loop of `ConnectBoundaries`: `tmp[v] = 1` exactly for the values `v` of
`d_to_d`. -/
theorem mark_loop (d : List Int) (L : Nat) (hd : ∀ v ∈ d, 0 ≤ v ∧ v < L) :
    ∀ (n s : Nat), s + n = d.length →
      forCountM (fun tmp (i : Nat) => wrIChk tmp (rdI d i) 1) n s
        ((List.range L).map (fun (v : Nat) => if (v : Int) ∈ d.take s then (1 : Int) else 0)) =
      .ok ((List.range L).map (fun (v : Nat) => if (v : Int) ∈ d then (1 : Int) else 0))
  | 0, s, h => by
    rw [forCountM, List.take_of_length_le (by omega)]
  | n + 1, s, h => by
    obtain ⟨h0, h1⟩ := hd _ (rdI_mem d s (by omega))
    obtain ⟨m, hm, hme⟩ := exists_nat_of_range _ L h0 h1
    rw [forCountM, hme, wrIChk_ok _ m 1 (by simpa using hm)]
    dsimp only
    have hset : ((List.range L).map
          (fun (v : Nat) => if (v : Int) ∈ d.take s then (1 : Int) else 0)).set m 1 =
        (List.range L).map
          (fun (v : Nat) => if (v : Int) ∈ d.take (s + 1) then (1 : Int) else 0) := by
      apply list_ext_rdI
      · simp
      · intro i hi
        have hi' : i < L := by simpa using hi
        rw [rdI_set, rdI_map_range _ _ _ hi', rdI_map_range _ _ _ hi',
          take_succ_rdI d s (by omega), hme]
        by_cases hmi : m = i
        · subst hmi
          rw [if_pos ⟨rfl, by simpa using hm⟩, if_pos (by simp)]
        · rw [if_neg (fun h => hmi h.1)]
          have : ((i : Int) ∈ d.take s ++ [(m : Int)]) ↔ (i : Int) ∈ d.take s := by
            rw [List.mem_append, List.mem_singleton]
            constructor
            · rintro (h | h)
              · exact h
              · exact absurd (by exact_mod_cast h.symm) hmi
            · exact Or.inl
          simp only [this]
    rw [hset]
    exact mark_loop d L hd n (s + 1) (by omega)

/-- The numbering loop of `ConnectBoundaries`: every marked entry of `tmp` becomes the
number of marked entries before it, and `cnt` ends as the number of marked entries. -/
theorem number_loop (M : List Int) :
    ∀ (n s : Nat), s + n = M.length →
      forCount (fun (st : List Int × Int) (i : Nat) =>
          if rdI st.1 i = 1 then (wrI st.1 i st.2, st.2 + 1) else st) n s
        ((List.range s).map
            (fun (v : Nat) => if rdI M v = 1 then ((M.take v).count 1 : Int) else rdI M v) ++
          M.drop s, ((M.take s).count 1 : Int)) =
      ((List.range M.length).map
          (fun (v : Nat) => if rdI M v = 1 then ((M.take v).count 1 : Int) else rdI M v),
        (M.count 1 : Int))
  | 0, s, h => by
    rw [forCount, List.drop_of_length_le (by omega), List.take_of_length_le (by omega),
      List.append_nil, show s = M.length by omega]
  | n + 1, s, h => by
    have hs : s < M.length := by omega
    have hlen : ((List.range s).map
        (fun (v : Nat) => if rdI M v = 1 then ((M.take v).count 1 : Int) else rdI M v)).length
        = s := by simp
    have hrd : rdI ((List.range s).map
        (fun (v : Nat) => if rdI M v = 1 then ((M.take v).count 1 : Int) else rdI M v) ++
        M.drop s) (s : Int) = rdI M (s : Int) := by
      rw [rdI_natCast, rdI_natCast, List.getD_eq_getElem?_getD, List.getD_eq_getElem?_getD,
        List.getElem?_append_right (by omega), hlen, Nat.sub_self, List.getElem?_drop]
      rfl
    rw [forCount]
    dsimp only
    rw [hrd, ← number_loop M n (s + 1) (by omega), List.range_succ, List.map_append,
      List.append_assoc, take_succ_rdI M s hs, List.count_append]
    have hw := wrI_append_length ((List.range s).map
        (fun (v : Nat) => if rdI M v = 1 then ((M.take v).count 1 : Int) else rdI M v))
        (M.drop (s + 1)) (rdI M (s : Int)) ((M.take s).count 1 : Int)
    rw [hlen, ← drop_eq_rdI_cons M s hs] at hw
    by_cases h1 : rdI M (s : Int) = 1
    · rw [if_pos h1, hw, h1]
      simp [h1]
    · rw [if_neg h1, drop_eq_rdI_cons M s hs]
      have : List.count 1 [rdI M (s : Int)] = 0 := by
        rw [List.count_eq_zero]
        simpa using fun h => h1 h.symm
      simp [h1, this]

/-- The renumbering loop of `ConnectBoundaries`: every entry `v` of `d_to_d` is replaced
by `tmp[v]`. -/
theorem renumber_loop (T d : List Int) (hd : ∀ v ∈ d, 0 ≤ v ∧ v < T.length) :
    ∀ (n s : Nat), s + n = d.length →
      forCountM (fun (w : List Int) (i : Nat) =>
          match rdIChk T (rdI w i) with
          | .error e => .error e
          | .ok x => .ok (wrI w i x)) n s
        ((d.take s).map (rdI T) ++ d.drop s) = .ok (d.map (rdI T))
  | 0, s, h => by
    rw [forCountM, List.drop_of_length_le (by omega), List.take_of_length_le (by omega),
      List.append_nil]
  | n + 1, s, h => by
    have hs : s < d.length := by omega
    have hlen : ((d.take s).map (rdI T)).length = s := by
      rw [List.length_map, List.length_take]; omega
    have hrd : rdI ((d.take s).map (rdI T) ++ d.drop s) (s : Int) = rdI d (s : Int) := by
      rw [rdI_natCast, rdI_natCast, List.getD_eq_getElem?_getD, List.getD_eq_getElem?_getD,
        List.getElem?_append_right (by omega), hlen, Nat.sub_self, List.getElem?_drop]
      rfl
    obtain ⟨h0, h1⟩ := hd _ (rdI_mem d s hs)
    obtain ⟨m, hm, hme⟩ := exists_nat_of_range _ T.length h0 h1
    rw [forCountM, hrd]
    try dsimp only
    rw [hme, rdIChk_ok T m hm]
    try dsimp only
    have hw := wrI_append_length ((d.take s).map (rdI T)) (d.drop (s + 1)) (rdI d (s : Int))
      (rdI T (m : Int))
    rw [hlen, ← drop_eq_rdI_cons d s hs] at hw
    rw [hw, ← hme]
    have := renumber_loop T d hd n (s + 1) (by omega)
    rw [take_succ_rdI d s hs, List.map_append, List.append_assoc] at this
    exact this

end NURBSExtension

theorem countP_range_eq_card (p : Nat → Prop) [DecidablePred p] (N : Nat) :
    (List.range N).countP (fun v => decide (p v)) = ((Finset.range N).filter p).card := by
  rw [Finset.card_def, Finset.filter_val, Finset.range_val, ← Multiset.countP_eq_card_filter]
  simp [Multiset.range]

/-- Among the numbers below `N`, those outside a set `A` of integers in `[0, N)` number
`N` minus the size of `A`. -/
theorem countP_not_mem (A : List Int) (N : Nat) (hA : ∀ a ∈ A, 0 ≤ a ∧ a < N) :
    (List.range N).countP (fun (v : Nat) => decide ((v : Int) ∉ A)) + A.toFinset.card = N := by
  have h1 : ((Finset.range N).filter (fun (v : Nat) => (v : Int) ∈ A)).card = A.toFinset.card := by
    apply Finset.card_bij (fun (v : Nat) _ => (v : Int))
    · intro v hv
      simpa using (Finset.mem_filter.mp hv).2
    · intro a _ b _ h
      exact_mod_cast h
    · intro b hb
      have hb' : b ∈ A := by simpa using hb
      obtain ⟨h0, h1⟩ := hA b hb'
      obtain ⟨n, hn, hne⟩ := exists_nat_of_range b N h0 h1
      exact ⟨n, Finset.mem_filter.mpr ⟨Finset.mem_range.mpr hn, by rw [← hne]; exact hb'⟩,
        hne.symm⟩
  have h2 := Finset.filter_card_add_filter_neg_card_eq_card (s := Finset.range N)
    (fun (v : Nat) => (v : Int) ∈ A)
  rw [Finset.card_range, h1] at h2
  rw [countP_range_eq_card (fun (v : Nat) => (v : Int) ∉ A)]
  omega

namespace NURBSExtension

/-- The part `// Clean d_to_d` of `ConnectBoundaries` succeeds on an array whose values are
indices of `tmp`; it returns the number of distinct values and an array of the same
length in which two entries agree exactly when they agreed before. -/
theorem cleanDofMap_spec (d : List Int) (hd : ∀ v ∈ d, 0 ≤ v ∧ v < (d.length + 1 : Nat)) :
    ∃ d', cleanDofMap d =
        .ok ((((List.range (d.length + 1)).countP
          (fun (v : Nat) => decide ((v : Int) ∈ d)) : Nat) : Int), d') ∧
      d'.length = d.length ∧
      ∀ x y : Nat, x < d.length → y < d.length →
        (rdI d' (x : Int) = rdI d' (y : Int) ↔ rdI d (x : Int) = rdI d (y : Int)) := by
  have hM := mark_loop d (d.length + 1) hd d.length 0 (by omega)
  have hinit : (List.range (d.length + 1)).map
      (fun (v : Nat) => if (v : Int) ∈ d.take 0 then (1 : Int) else 0) =
      List.replicate (d.length + 1) 0 := by
    apply list_ext_rdI
    · simp
    · intro i hi
      have hi' : i < d.length + 1 := by simpa using hi
      rw [rdI_map_range _ _ _ hi', rdI_eq_getElem _ _ (by simpa using hi')]
      simp
  rw [hinit] at hM
  obtain ⟨M, hMd⟩ : ∃ M : List Int, M = (List.range (d.length + 1)).map
      (fun (v : Nat) => if (v : Int) ∈ d then (1 : Int) else 0) := ⟨_, rfl⟩
  rw [← hMd] at hM
  have hMlen : M.length = d.length + 1 := by rw [hMd]; simp
  have hT := number_loop M (d.length + 1) 0 (by omega)
  simp only [List.range_zero, List.map_nil, List.nil_append, List.drop_zero, List.take_zero,
    List.count_nil, Nat.cast_zero] at hT
  obtain ⟨T, hTd⟩ : ∃ T : List Int, T = (List.range M.length).map
      (fun (v : Nat) => if rdI M v = 1 then ((M.take v).count 1 : Int) else rdI M v) :=
    ⟨_, rfl⟩
  rw [← hTd] at hT
  have hTlen : T.length = d.length + 1 := by rw [hTd]; simp [hMlen]
  have hR := renumber_loop T d (by rw [hTlen]; exact hd) d.length 0 (by omega)
  simp only [List.take_zero, List.map_nil, List.nil_append, List.drop_zero] at hR
  refine ⟨d.map (rdI T), ?_, ?_, ?_⟩
  · unfold cleanDofMap
    simp only [forLoop, forLoopM, Nat.sub_zero, hM, hMlen, hT, hR]
    congr 2
    rw [hMd, List.count_eq_countP, List.countP_map]
    congr 1
    apply List.countP_congr
    intro v _
    by_cases h : (v : Int) ∈ d <;> simp [h]
  · simp
  · intro x y hx hy
    obtain ⟨h0, h1⟩ := hd _ (rdI_mem d x hx)
    obtain ⟨m1, hm1, hme1⟩ := exists_nat_of_range _ _ h0 h1
    obtain ⟨h0', h1'⟩ := hd _ (rdI_mem d y hy)
    obtain ⟨m2, hm2, hme2⟩ := exists_nat_of_range _ _ h0' h1'
    have hmark : ∀ (m : Nat), m < d.length + 1 → (m : Int) ∈ d → rdI M (m : Int) = 1 := by
      intro m hm hmem
      rw [hMd, rdI_map_range _ _ _ hm, if_pos hmem]
    have hx1 := hmark m1 hm1 (by rw [← hme1]; exact rdI_mem d x hx)
    have hy1 := hmark m2 hm2 (by rw [← hme2]; exact rdI_mem d y hy)
    have hTm : ∀ (m : Nat), m < d.length + 1 → rdI M (m : Int) = 1 →
        rdI T (m : Int) = ((M.take m).count 1 : Int) := by
      intro m hm h1
      rw [hTd, rdI_map_range _ _ _ (by rw [hMlen]; exact hm), if_pos h1]
    rw [rdI_eq_getElem _ x (by simpa using hx), rdI_eq_getElem _ y (by simpa using hy),
      List.getElem_map, List.getElem_map, ← rdI_eq_getElem d x hx, ← rdI_eq_getElem d y hy,
      hme1, hme2, hTm m1 hm1 hx1, hTm m2 hm2 hy1]
    constructor
    · intro h
      have h' : (M.take m1).count 1 = (M.take m2).count 1 := by exact_mod_cast h
      rcases Nat.lt_trichotomy m1 m2 with hlt | heq | hgt
      · have := count_take_lt M 1 m1 m2 hlt (by rw [hMlen]; exact hm1) hx1
        omega
      · rw [heq]
      · have := count_take_lt M 1 m2 m1 hgt (by rw [hMlen]; exact hm2) hy1
        omega
    · intro h
      have : m1 = m2 := by exact_mod_cast h
      rw [this]

end NURBSExtension

namespace NURBSExtension

/-- The array `d_to_d` after the assignments of a list of pairs that is in range, matches
master and slave dofs one to one and has no dof on both sides: which entries are equal,
and which values occur. -/
theorem connected_array (N : Nat) (pairs : List (Int × Int)) (d1 : List Int)
    (hrange : ∀ pr ∈ pairs, 0 ≤ pr.1 ∧ pr.1 < N ∧ 0 ≤ pr.2 ∧ pr.2 < N)
    (h11 : ∀ pr ∈ pairs, ∀ pr' ∈ pairs, (pr.1 = pr'.1 ↔ pr.2 = pr'.2))
    (hdisj : ∀ pr ∈ pairs, ∀ pr' ∈ pairs, pr.1 ≠ pr'.2)
    (hlen : d1.length = N)
    (hd1 : ∀ x : Nat, x < N →
      (∀ pr ∈ pairs, pr.1 = (x : Int) → rdI d1 (x : Int) = pr.2) ∧
      ((∀ pr ∈ pairs, pr.1 ≠ (x : Int)) → rdI d1 (x : Int) = (x : Int))) :
    (∀ x y : Nat, x < N → y < N →
      (rdI d1 (x : Int) = rdI d1 (y : Int) ↔
        x = y ∨ ((x : Int), (y : Int)) ∈ pairs ∨ ((y : Int), (x : Int)) ∈ pairs)) ∧
    (∀ v : Nat, (v : Int) ∈ d1 ↔ v < N ∧ (v : Int) ∉ pairs.map Prod.fst) := by
  have hmaster : ∀ x : Nat, (x : Int) ∈ pairs.map Prod.fst → ∃ pr ∈ pairs, pr.1 = (x : Int) := by
    intro x hx
    obtain ⟨pr, hpr, h⟩ := List.mem_map.mp hx
    exact ⟨pr, hpr, h⟩
  have hfree : ∀ x : Nat, x < N → (x : Int) ∉ pairs.map Prod.fst → rdI d1 (x : Int) = (x : Int) :=
    fun x hx hnot => (hd1 x hx).2 (fun pr hpr h => hnot (List.mem_map.mpr ⟨pr, hpr, h⟩))
  have hpair : ∀ pr ∈ pairs, pr = (pr.1, pr.2) := fun pr _ => rfl
  constructor
  · intro x y hx hy
    by_cases hxA : (x : Int) ∈ pairs.map Prod.fst
    · obtain ⟨pr, hpr, hprx⟩ := hmaster x hxA
      have hdx := (hd1 x hx).1 pr hpr hprx
      by_cases hyA : (y : Int) ∈ pairs.map Prod.fst
      · obtain ⟨pr', hpr', hpry⟩ := hmaster y hyA
        have hdy := (hd1 y hy).1 pr' hpr' hpry
        rw [hdx, hdy]
        constructor
        · intro h
          have := (h11 pr hpr pr' hpr').2 h
          rw [hprx, hpry] at this
          exact Or.inl (by exact_mod_cast this)
        · rintro (h | h | h)
          · subst h
            exact (h11 pr hpr pr' hpr').1 (by rw [hprx, hpry])
          · exact absurd hpry.symm (fun e => hdisj pr' hpr' _ h (by rw [← e]))
          · exact absurd hprx.symm (fun e => hdisj pr hpr _ h (by rw [← e]))
      · rw [hdx, hfree y hy hyA]
        constructor
        · intro h
          refine Or.inr (Or.inl ?_)
          rw [← h, ← hprx]
          exact hpr
        · rintro (h | h | h)
          · subst h; exact absurd hxA hyA
          · exact ((hd1 x hx).1 _ h rfl).symm.trans hdx |>.symm
          · exact absurd (List.mem_map.mpr ⟨_, h, rfl⟩) hyA
    · by_cases hyA : (y : Int) ∈ pairs.map Prod.fst
      · obtain ⟨pr', hpr', hpry⟩ := hmaster y hyA
        have hdy := (hd1 y hy).1 pr' hpr' hpry
        rw [hfree x hx hxA, hdy]
        constructor
        · intro h
          refine Or.inr (Or.inr ?_)
          rw [h, ← hpry]
          exact hpr'
        · rintro (h | h | h)
          · subst h; exact absurd hyA hxA
          · exact absurd (List.mem_map.mpr ⟨_, h, rfl⟩) hxA
          · exact ((hd1 y hy).1 _ h rfl).symm.trans hdy
      · rw [hfree x hx hxA, hfree y hy hyA]
        constructor
        · intro h
          exact Or.inl (by exact_mod_cast h)
        · rintro (h | h | h)
          · rw [h]
          · exact absurd (List.mem_map.mpr ⟨_, h, rfl⟩) hxA
          · exact absurd (List.mem_map.mpr ⟨_, h, rfl⟩) hyA
  · intro v
    constructor
    · intro hv
      obtain ⟨x, hx, hxe⟩ := List.mem_iff_getElem.mp hv
      rw [hlen] at hx
      have hxe' : rdI d1 (x : Int) = (v : Int) := by
        rw [rdI_eq_getElem d1 x (by omega)]; exact hxe
      by_cases hxA : (x : Int) ∈ pairs.map Prod.fst
      · obtain ⟨pr, hpr, hprx⟩ := hmaster x hxA
        have hdx := (hd1 x hx).1 pr hpr hprx
        rw [hxe'] at hdx
        obtain ⟨_, _, h0, h1⟩ := hrange pr hpr
        refine ⟨by omega, fun hvA => ?_⟩
        obtain ⟨pr', hpr', hprv⟩ := hmaster v hvA
        exact hdisj pr' hpr' pr hpr (by rw [hprv, hdx])
      · have := hfree x hx hxA
        rw [hxe'] at this
        have hvx : v = x := by exact_mod_cast this
        subst hvx
        exact ⟨hx, hxA⟩
    · rintro ⟨hv, hvA⟩
      have := hfree v hv hvA
      rw [← this]
      exact rdI_mem d1 v (by omega)

end NURBSExtension

namespace NURBSExtension

/-- C17: for every extension with exactly one master/slave boundary pair (`master = [m]`,
`slave = [s]`, both attributes found, compatible knot structure on the two boundary
patches) whose two boundaries carry `k` dofs each, all among the `NumOfDofs` dofs, disjoint
and matched one to one by the positional pairing, `ConnectBoundaries` (in debug and in
release builds) sets `NumOfDofs` to the previous `NumOfDofs` minus exactly `k`, and two
dofs receive the same `d_to_d` value iff they are equal or are positionally paired across
the two boundaries. -/
theorem connectBoundaries_spec (debug : Bool) (ops : PatchMapOps) (ext : NURBSExtension)
    (m s : Int) (k : Nat) (hm : ext.master = [m]) (hs : ext.slave = [s])
    (hb0 : ext.findBdr m ≠ -1) (hb1 : ext.findBdr s ≠ -1)
    (hc : BdrCompatible debug ext (ext.findBdr m) (ext.findBdr s))
    (hN : 0 ≤ ext.NumOfDofs)
    (hrange : ∀ pr ∈ bdrPairs ops ext (ext.findBdr m) (ext.findBdr s),
      0 ≤ pr.1 ∧ pr.1 < ext.NumOfDofs ∧ 0 ≤ pr.2 ∧ pr.2 < ext.NumOfDofs)
    (hk0 : ((bdrPairs ops ext (ext.findBdr m) (ext.findBdr s)).map Prod.fst).toFinset.card = k)
    (hk1 : ((bdrPairs ops ext (ext.findBdr m) (ext.findBdr s)).map Prod.snd).toFinset.card = k)
    (h11 : ∀ pr ∈ bdrPairs ops ext (ext.findBdr m) (ext.findBdr s),
      ∀ pr' ∈ bdrPairs ops ext (ext.findBdr m) (ext.findBdr s), (pr.1 = pr'.1 ↔ pr.2 = pr'.2))
    (hdisj : ∀ pr ∈ bdrPairs ops ext (ext.findBdr m) (ext.findBdr s),
      ∀ pr' ∈ bdrPairs ops ext (ext.findBdr m) (ext.findBdr s), pr.1 ≠ pr'.2) :
    ∃ ext', ConnectBoundaries debug ops ext = .ok ext' ∧
      ext'.NumOfDofs = ext.NumOfDofs - (k : Int) ∧
      ext'.d_to_d.length = ext.NumOfDofs.toNat ∧
      ∀ x y : Int, 0 ≤ x → x < ext.NumOfDofs → 0 ≤ y → y < ext.NumOfDofs →
        (rdI ext'.d_to_d x = rdI ext'.d_to_d y ↔
          x = y ∨ (x, y) ∈ bdrPairs ops ext (ext.findBdr m) (ext.findBdr s) ∨
            (y, x) ∈ bdrPairs ops ext (ext.findBdr m) (ext.findBdr s)) := by
  obtain ⟨N, hNe⟩ : ∃ N : Nat, ext.NumOfDofs = (N : Int) := ⟨ext.NumOfDofs.toNat, by omega⟩
  obtain ⟨pairs, hpd⟩ : ∃ pairs, pairs = bdrPairs ops ext (ext.findBdr m) (ext.findBdr s) :=
    ⟨_, rfl⟩
  rw [← hpd] at hrange hk0 hk1 h11 hdisj ⊢
  rw [hNe] at hrange
  -- the connect loop
  have hconn : ∀ d, connectAll debug ops ext d = connectList pairs d := by
    intro d
    unfold connectAll
    rw [hm, hs]
    simp only [List.length_singleton, forLoopM, Nat.sub_zero, forCountM]
    have e0 : rdI [m] ((0 : Nat) : Int) = m := by simp [rdI]
    have e1 : rdI [s] ((0 : Nat) : Int) = s := by simp [rdI]
    rw [e0, e1, if_neg hb0, if_neg hb1, connectBoundaries_pairs debug ops ext _ _ hc d, ← hpd]
    cases connectList pairs d <;> rfl
  obtain ⟨d1, hd1ok, hd1len, hd1⟩ := connectList_spec N pairs hrange
    (fun pr hpr pr' hpr' => (h11 pr hpr pr' hpr').1) hdisj pairs []
    ((List.range N).map (fun (i : Nat) => (i : Int))) rfl (by simp)
    (fun x hx => ⟨fun pr hpr => absurd hpr (List.not_mem_nil _),
      fun _ => rdI_map_range _ _ _ hx⟩)
  obtain ⟨heq, hval⟩ := connected_array N pairs d1 hrange h11 hdisj hd1len hd1
  have hdv : ∀ v ∈ d1, 0 ≤ v ∧ v < (d1.length + 1 : Nat) := by
    intro v hv
    obtain ⟨x, hx, hxe⟩ := List.mem_iff_getElem.mp hv
    rw [hd1len] at hx
    have hxe' : rdI d1 (x : Int) = v := by rw [rdI_eq_getElem d1 x (by omega)]; exact hxe
    by_cases hxA : ∀ pr ∈ pairs, pr.1 ≠ (x : Int)
    · have := (hd1 x hx).2 hxA
      rw [hxe'] at this
      rw [hd1len, this]
      push_cast
      omega
    · push_neg at hxA
      obtain ⟨pr, hpr, hprx⟩ := hxA
      have := (hd1 x hx).1 pr hpr hprx
      rw [hxe'] at this
      obtain ⟨_, _, h0, h1⟩ := hrange pr hpr
      rw [hd1len, this]
      push_cast
      omega
  obtain ⟨d2, hd2ok, hd2len, hd2⟩ := cleanDofMap_spec d1 hdv
  have hcnt : (List.range (d1.length + 1)).countP (fun (v : Nat) => decide ((v : Int) ∈ d1)) + k
      = N := by
    have h1 := countP_not_mem (pairs.map Prod.fst) N (by
      intro a ha
      obtain ⟨pr, hpr, rfl⟩ := List.mem_map.mp ha
      exact ⟨(hrange pr hpr).1, (hrange pr hpr).2.1⟩)
    have h2 : (List.range (N + 1)).countP (fun (v : Nat) => decide ((v : Int) ∈ d1)) =
        (List.range N).countP (fun (v : Nat) => decide ((v : Int) ∉ pairs.map Prod.fst)) := by
      rw [List.range_succ, List.countP_append]
      have hlast : List.countP (fun (v : Nat) => decide ((v : Int) ∈ d1)) [N] = 0 := by
        rw [List.countP_eq_zero]
        intro v hv
        rw [List.mem_singleton.mp hv]
        simpa using fun h => absurd ((hval N).1 h).1 (lt_irrefl N)
      rw [hlast, Nat.add_zero]
      apply List.countP_congr
      intro v hv
      have hvN := List.mem_range.mp hv
      simp only [decide_eq_true_eq]
      rw [hval v]
      exact ⟨fun h => h.2, fun h => ⟨hvN, h⟩⟩
    rw [hd1len, h2, ← hk0]
    exact h1
  refine ⟨{ ext with
      NumOfDofs := (((List.range (d1.length + 1)).countP
        (fun (v : Nat) => decide ((v : Int) ∈ d1)) : Nat) : Int)
      d_to_d := d2 }, ?_, ?_, ?_, ?_⟩
  · unfold ConnectBoundaries
    rw [hm, hs]
    simp only [List.length_singleton, ne_eq, not_true_eq_false, ↓reduceIte, one_ne_zero]
    rw [identity_loop, hconn, hNe, Int.toNat_ofNat, hd1ok]
    simp only [hd2ok]
  · show (((List.range (d1.length + 1)).countP
        (fun (v : Nat) => decide ((v : Int) ∈ d1)) : Nat) : Int) = ext.NumOfDofs - (k : Int)
    rw [hNe]
    omega
  · show d2.length = ext.NumOfDofs.toNat
    rw [hd2len, hd1len, hNe, Int.toNat_ofNat]
  · intro x y hx0 hx1 hy0 hy1
    rw [hNe] at hx1 hy1
    obtain ⟨xn, hxn, rfl⟩ := exists_nat_of_range x N hx0 hx1
    obtain ⟨yn, hyn, rfl⟩ := exists_nat_of_range y N hy0 hy1
    show rdI d2 (xn : Int) = rdI d2 (yn : Int) ↔ _
    rw [hd2 xn yn (by omega) (by omega), heq xn yn hxn hyn]
    constructor
    · rintro (h | h | h)
      · exact Or.inl (by rw [h])
      · exact Or.inr (Or.inl h)
      · exact Or.inr (Or.inr h)
    · rintro (h | h | h)
      · exact Or.inl (by exact_mod_cast h)
      · exact Or.inr (Or.inl h)
      · exact Or.inr (Or.inr h)

/-- Instance of `connectBoundaries_spec`: the quadrilateral patch `exPeriodicSquare` with
16 dofs, whose left boundary (dofs `0, 10, 11, 3`) is the master of the right one (dofs
`1, 6, 7, 2`): `k = 4` and `NumOfDofs` becomes `12`. -/
theorem connectBoundaries_spec_witness :
    ∃ ext', ConnectBoundaries true exOps exPeriodicSquare = .ok ext' ∧
      ext'.NumOfDofs = exPeriodicSquare.NumOfDofs - ((4 : Nat) : Int) ∧
      ext'.d_to_d.length = exPeriodicSquare.NumOfDofs.toNat ∧
      ∀ x y : Int, 0 ≤ x → x < exPeriodicSquare.NumOfDofs → 0 ≤ y →
        y < exPeriodicSquare.NumOfDofs →
        (rdI ext'.d_to_d x = rdI ext'.d_to_d y ↔
          x = y ∨
          (x, y) ∈ bdrPairs exOps exPeriodicSquare (exPeriodicSquare.findBdr 4)
            (exPeriodicSquare.findBdr 2) ∨
          (y, x) ∈ bdrPairs exOps exPeriodicSquare (exPeriodicSquare.findBdr 4)
            (exPeriodicSquare.findBdr 2)) :=
  connectBoundaries_spec true exOps exPeriodicSquare 4 2 4 rfl rfl (by decide) (by decide)
    (by decide) (by decide) (by decide) (by decide) (by decide) (by decide) (by decide)

end NURBSExtension

/-! ### Round trip between coordinate vectors and patches -/

theorem foldE_append {σ α : Type} (step : σ → α → Except Fault σ) (l1 l2 : List α) (s : σ) :
    foldE step (l1 ++ l2) s =
      match foldE step l1 s with
      | .error e => .error e
      | .ok s1 => foldE step l2 s1 := by
  induction l1 generalizing s with
  | nil => rfl
  | cons a rest ih =>
    simp only [List.cons_append, foldE]
    cases step s a with
    | error e => rfl
    | ok s1 => exact ih s1

theorem foldE_inv {σ α : Type} (step : σ → α → Except Fault σ) (I : σ → Prop)
    (hI : ∀ s a s', I s → step s a = .ok s' → I s') :
    ∀ (l : List α) (s s' : σ), I s → foldE step l s = .ok s' → I s'
  | [], s, s', hs, h => by
    rw [foldE] at h
    cases h
    exact hs
  | a :: rest, s, s', hs, h => by
    rw [foldE] at h
    cases hstep : step s a with
    | error e => rw [hstep] at h; cases h
    | ok s1 =>
      rw [hstep] at h
      exact foldE_inv step I hI rest s1 s' (hI s a s1 hs hstep) h

/-- A loop whose iteration `i` applies a step to the entries of the list `g i`, on the
states that satisfy an invariant of the step, applies the step to all these lists in
turn. -/
theorem forCountM_foldE {σ α : Type} (step : σ → α → Except Fault σ) (g : Nat → List α)
    (body : σ → Nat → Except Fault σ) (I : σ → Prop)
    (hI : ∀ s a s', I s → step s a = .ok s' → I s') :
    ∀ (n s0 : Nat) (st : σ), I st →
      (∀ (st : σ) (i : Nat), I st → s0 ≤ i → i < s0 + n → body st i = foldE step (g i) st) →
      forCountM body n s0 st = foldE step ((List.range' s0 n).flatMap g) st
  | 0, _, _, _, _ => rfl
  | n + 1, s0, st, hst, hb => by
    rw [forCountM, hb st s0 hst (le_refl _) (by omega), List.range'_succ, List.flatMap_cons,
      foldE_append]
    cases h : foldE step (g s0) st with
    | error e => rfl
    | ok s1 =>
      exact forCountM_foldE step g body I hI n (s0 + 1) s1
        (foldE_inv step I hI _ _ _ hst h)
        (fun st i hi h1 h2 => hb st i hi (by omega) (by omega))

theorem forLoopIntM_foldE {σ α : Type} (step : σ → α → Except Fault σ) (g : Nat → List α)
    (body : σ → Int → Except Fault σ) (I : σ → Prop)
    (hI : ∀ s a s', I s → step s a = .ok s' → I s') (hi : Nat) (st : σ) (hst : I st)
    (hb : ∀ (st : σ) (i : Nat), I st → i < hi → body st (i : Int) = foldE step (g i) st) :
    forLoopIntM 0 (hi : Int) body st = foldE step ((List.range hi).flatMap g) st := by
  unfold forLoopIntM
  rw [Int.sub_zero, Int.toNat_ofNat, forCountM_foldE step g _ I hI hi 0 st hst,
    List.range_eq_range']
  intro st i hst _ h2
  rw [Int.zero_add]
  exact hb st i hst (by omega)

theorem forLoopIntM_foldE_map {σ α : Type} (step : σ → α → Except Fault σ) (f : Nat → α)
    (body : σ → Int → Except Fault σ) (I : σ → Prop)
    (hI : ∀ s a s', I s → step s a = .ok s' → I s') (hi : Nat) (st : σ) (hst : I st)
    (hb : ∀ (st : σ) (i : Nat), I st → i < hi → body st (i : Int) = step st (f i)) :
    forLoopIntM 0 (hi : Int) body st = foldE step ((List.range hi).map f) st := by
  rw [← NURBSExtension.flatMap_singleton_map,
    forLoopIntM_foldE step (fun i => [f i]) body I hI hi st hst]
  intro st i hst h
  rw [hb st i hst h]
  simp only [foldE]
  cases step st (f i) <;> rfl

/-- Two nested index loops, the first index fastest, enumerate the cells `0, 1, ...` of a
grid in order. -/
theorem flatMap_range_map {α : Type} (F : Nat → Nat → α) (n0 : Nat) :
    ∀ n1 : Nat,
      (List.range n1).flatMap (fun j => (List.range n0).map (fun i => F i j)) =
        (List.range (n0 * n1)).map (fun c => F (c % n0) (c / n0))
  | 0 => by simp
  | n1 + 1 => by
    rw [List.range_succ, List.flatMap_append, flatMap_range_map F n0 n1, Nat.mul_succ,
      List.range_add, List.map_append]
    congr 1
    simp only [List.flatMap_cons, List.flatMap_nil, List.append_nil, List.map_map]
    apply List.map_congr_left
    intro i hi
    have hi' := List.mem_range.mp hi
    have hpos : 0 < n0 := by omega
    simp only [Function.comp]
    rw [Nat.mul_add_mod, Nat.mod_eq_of_lt hi', Nat.mul_add_div hpos, Nat.div_eq_of_lt hi',
      Nat.add_zero]

theorem forCountM_congr {σ : Type} (body body' : σ → Nat → Except Fault σ) :
    ∀ (n s : Nat) (st : σ),
      (∀ (st : σ) (i : Nat), s ≤ i → i < s + n → body st i = body' st i) →
      forCountM body n s st = forCountM body' n s st
  | 0, _, _, _ => rfl
  | n + 1, s, st, h => by
    rw [forCountM, forCountM, h st s (le_refl _) (by omega)]
    cases body' st s with
    | error e => rfl
    | ok s1 =>
      exact forCountM_congr body body' n (s + 1) s1 (fun st i h1 h2 => h st i (by omega) (by omega))

theorem wrChk_eq_wr (v : List ℚ) (i : Int) (x : ℚ) (h0 : 0 ≤ i) (h1 : i.toNat < v.length) :
    wrChk v i x = .ok (wr v i x) := by
  unfold wrChk wr
  rw [if_pos ⟨h0, h1⟩, if_pos h0]

theorem rdChk_eq_rd (v : List ℚ) (i : Int) (h0 : 0 ≤ i) (h1 : i.toNat < v.length) :
    rdChk v i = .ok (rd v i) := by
  unfold rdChk rd
  rw [if_pos ⟨h0, h1⟩, if_pos h0]

/-- A loop of bounds-checked writes within bounds is the loop of the unchecked writes. -/
theorem forCountM_wrChk (g : Nat → Int) (f : Nat → ℚ) :
    ∀ (n s : Nat) (v : List ℚ),
      (∀ i, s ≤ i → i < s + n → 0 ≤ g i ∧ (g i).toNat < v.length) →
      forCountM (fun w i => wrChk w (g i) (f i)) n s v =
        .ok (forCount (fun w i => wr w (g i) (f i)) n s v)
  | 0, _, _, _ => rfl
  | n + 1, s, v, h => by
    obtain ⟨h0, h1⟩ := h s (le_refl _) (by omega)
    rw [forCountM, forCount, wrChk_eq_wr v _ _ h0 h1]
    exact forCountM_wrChk g f n (s + 1) _
      (fun i a b => by rw [length_wr]; exact h i (by omega) (by omega))

namespace NURBSPatch

/-- A loop of bounds-checked writes to the buffer of a patch within bounds changes the
buffer only, by the unchecked writes. -/
theorem forCountM_store (g : Nat → Int) (f : Nat → ℚ) :
    ∀ (n s : Nat) (P : NURBSPatch),
      (∀ i, s ≤ i → i < s + n → 0 ≤ g i ∧ (g i).toNat < P.data.length) →
      forCountM (fun (Q : NURBSPatch) i => Q.store (g i) (f i)) n s P =
        .ok { P with data := forCount (fun w i => wr w (g i) (f i)) n s P.data }
  | 0, _, _, _ => rfl
  | n + 1, s, P, h => by
    obtain ⟨h0, h1⟩ := h s (le_refl _) (by omega)
    rw [forCountM, forCount, store, wrChk_eq_wr P.data _ _ h0 h1]
    dsimp only
    rw [forCountM_store g f n (s + 1) _
      (fun i a b => by
        show 0 ≤ g i ∧ (g i).toNat < (wr P.data (g s) (f s)).length
        rw [length_wr]; exact h i (by omega) (by omega))]

end NURBSPatch

namespace NURBSExtension

/-- `loadPoint` within bounds: the block of the control point at offset `o` gets the
coordinates of dof `l` times its weight, and the weight; nothing else changes. -/
theorem loadPoint_spec (ext : NURBSExtension) (coords : List ℚ) (v ln o : Nat)
    (P : NURBSPatch) (hc : ln * v + v ≤ coords.length) (hw : ln < ext.weights.length)
    (ho : o + v < P.data.length) :
    ∃ P', loadPoint ext coords (v : Int) (ln : Int) (o : Int) P = .ok P' ∧
      P'.ni = P.ni ∧ P'.nj = P.nj ∧ P'.nk = P.nk ∧ P'.Dim = P.Dim ∧
      P'.data.length = P.data.length ∧
      (∀ d : Nat, d < v → rd P'.data ((o + d : Nat) : Int) =
        rd coords ((ln * v + d : Nat) : Int) * rd ext.weights (ln : Int)) ∧
      rd P'.data ((o + v : Nat) : Int) = rd ext.weights (ln : Int) ∧
      ∀ idx : Nat, idx < o ∨ o + v < idx → rd P'.data (idx : Int) = rd P.data (idx : Int) := by
  have hloop : forLoopIntM 0 (v : Int)
      (fun (Q : NURBSPatch) d =>
        match rdChk coords ((ln : Int) * (v : Int) + d) with
        | .error e => .error e
        | .ok c =>
          match rdChk ext.weights (ln : Int) with
          | .error e => .error e
          | .ok w => Q.store ((o : Int) + d) (c * w)) P =
      .ok { P with data := forCount (fun w (i : Nat) => wr w ((o + i : Nat) : Int)
        (rd coords ((ln * v + i : Nat) : Int) * rd ext.weights (ln : Int))) v 0 P.data } := by
    unfold forLoopIntM
    rw [Int.sub_zero, Int.toNat_ofNat, ← NURBSPatch.forCountM_store _ _ v 0 P
      (fun i _ hi => ⟨by omega, by simp only [Int.toNat_ofNat]; omega⟩)]
    apply forCountM_congr
    intro Q i _ hi
    have e1 : (ln : Int) * (v : Int) + (0 + (i : Int)) = ((ln * v + i : Nat) : Int) := by
      push_cast; ring
    have e2 : (o : Int) + (0 + (i : Int)) = ((o + i : Nat) : Int) := by push_cast; ring
    dsimp only
    rw [e1, e2, rdChk_ok coords _ (by omega), rdChk_ok ext.weights ln hw]
  unfold loadPoint
  rw [hloop]
  dsimp only
  rw [rdChk_ok ext.weights ln hw]
  dsimp only
  have hlen : (forCount (fun w (i : Nat) => wr w ((o + i : Nat) : Int)
      (rd coords ((ln * v + i : Nat) : Int) * rd ext.weights (ln : Int))) v 0 P.data).length =
      P.data.length := length_forCount_wr _ _ _ _ _
  have e3 : (o : Int) + (v : Int) = ((o + v : Nat) : Int) := by push_cast; ring
  rw [NURBSPatch.store, e3, wrChk_eq_wr _ _ _ (by omega)
    (by rw [Int.toNat_ofNat, hlen]; exact ho)]
  refine ⟨_, rfl, rfl, rfl, rfl, rfl, ?_, ?_, ?_, ?_⟩
  · dsimp only
    rw [length_wr, hlen]
  · intro d hd
    dsimp only
    rw [rd_wr_other _ _ _ _ (by omega)]
    exact rd_forCount_wr_hit (fun (i : Nat) => ((o + i : Nat) : Int)) _ d v 0 P.data
      (by omega) (by omega) (by beta_reduce; omega)
      (by beta_reduce; rw [Int.toNat_ofNat]; omega)
      (fun i h1 _ => by beta_reduce; omega)
  · dsimp only
    exact rd_wr_same _ _ _ (by omega) (by rw [Int.toNat_ofNat, hlen]; exact ho)
  · intro idx hidx
    dsimp only
    rw [rd_wr_other _ _ _ _ (by omega)]
    exact rd_forCount_wr_other (fun (i : Nat) => ((o + i : Nat) : Int)) _ _ v 0 P.data
      (fun i _ _ => by beta_reduce; omega)

/-- `storePoint` within bounds: dof `l` gets the coordinates of the control point at
offset `o` divided by its weight, and the weight; nothing else changes. -/
theorem storePoint_spec (patch : NURBSPatch) (v ln o : Nat) (c ws : List ℚ)
    (hc : ln * v + v ≤ c.length) (hw : ln < ws.length) (ho : o + v < patch.data.length) :
    ∃ c', storePoint patch (v : Int) (ln : Int) (o : Int) (c, ws) =
        .ok (c', ws.set ln (rd patch.data ((o + v : Nat) : Int))) ∧
      c'.length = c.length ∧
      (∀ d : Nat, d < v → rd c' ((ln * v + d : Nat) : Int) =
        rd patch.data ((o + d : Nat) : Int) / rd patch.data ((o + v : Nat) : Int)) ∧
      ∀ idx : Nat, idx < ln * v ∨ ln * v + v ≤ idx → rd c' (idx : Int) = rd c (idx : Int) := by
  have e3 : (o : Int) + (v : Int) = ((o + v : Nat) : Int) := by push_cast; ring
  have hloop : forLoopIntM 0 (v : Int)
      (fun (c : List ℚ) d =>
        match rdChk patch.data ((o : Int) + d) with
        | .error e => .error e
        | .ok x =>
          match rdChk patch.data ((o : Int) + (v : Int)) with
          | .error e => .error e
          | .ok w => wrChk c ((ln : Int) * (v : Int) + d) (x / w)) c =
      .ok (forCount (fun w (i : Nat) => wr w ((ln * v + i : Nat) : Int)
        (rd patch.data ((o + i : Nat) : Int) / rd patch.data ((o + v : Nat) : Int))) v 0 c) := by
    unfold forLoopIntM
    rw [Int.sub_zero, Int.toNat_ofNat, ← forCountM_wrChk _ _ v 0 c
      (fun i _ hi => ⟨by omega, by simp only [Int.toNat_ofNat]; omega⟩)]
    apply forCountM_congr
    intro Q i _ hi
    have e1 : (ln : Int) * (v : Int) + (0 + (i : Int)) = ((ln * v + i : Nat) : Int) := by
      push_cast; ring
    have e2 : (o : Int) + (0 + (i : Int)) = ((o + i : Nat) : Int) := by push_cast; ring
    dsimp only
    rw [e1, e2, e3, rdChk_ok patch.data _ (by omega), rdChk_ok patch.data _ ho]
  unfold storePoint
  dsimp only
  rw [hloop]
  dsimp only
  rw [e3, rdChk_ok patch.data _ ho]
  dsimp only
  rw [wrChk_ok ws ln _ hw]
  refine ⟨_, rfl, length_forCount_wr _ _ _ _ _, ?_, ?_⟩
  · intro d hd
    exact rd_forCount_wr_hit (fun (i : Nat) => ((ln * v + i : Nat) : Int)) _ d v 0 c
      (by omega) (by omega) (by beta_reduce; omega)
      (by beta_reduce; rw [Int.toNat_ofNat]; omega)
      (fun i h1 _ => by beta_reduce; omega)
  · intro idx hidx
    exact rd_forCount_wr_other (fun (i : Nat) => ((ln * v + i : Nat) : Int)) _ _ v 0 c
      (fun i _ _ => by beta_reduce; omega)

end NURBSExtension

theorem cell_bound (s T v : Nat) (h : s < T) : s * (v + 1) + v < T * (v + 1) := by
  have := Nat.mul_le_mul_right (v + 1) (Nat.succ_le_of_lt h)
  rw [Nat.succ_mul] at this
  omega

theorem dof_bound (l N v : Nat) (h : l < N) : l * v + v ≤ N * v := by
  have := Nat.mul_le_mul_right v (Nat.succ_le_of_lt h)
  rw [Nat.succ_mul] at this
  exact this

theorem set_rd_self (l : List ℚ) (i : Nat) : l.set i (rd l (i : Int)) = l := by
  by_cases h : i < l.length
  · rw [rd_eq_getElem l i h]
    apply List.ext_getElem (by simp)
    intro n h1 h2
    rw [List.getElem_set]
    split
    · next e => subst e; rfl
    · rfl
  · exact List.set_eq_of_length_le (by omega)

namespace NURBSExtension

/-- The loops of `Get1DPatchNets`, ... over the control points of one patch fill the
buffer block by block: block `c` holds the coordinates of the dof `L c` times its weight,
and the weight. -/
theorem load_fill (ext : NURBSExtension) (coords : List ℚ) (v N T : Nat) (L : Nat → Nat)
    (hL : ∀ c, c < T → L c < N) (hc : coords.length = N * v) (hw : ext.weights.length = N) :
    ∀ (n s : Nat) (P : NURBSPatch), s + n = T → P.data.length = T * (v + 1) →
      ∃ P', foldE (fun (Q : NURBSPatch) (pr : Int × Int) =>
            loadPoint ext coords (v : Int) pr.1 pr.2 Q)
          ((List.range' s n).map (fun c => ((L c : Int), (c : Int) * ((v : Int) + 1)))) P =
          .ok P' ∧
        P'.ni = P.ni ∧ P'.nj = P.nj ∧ P'.nk = P.nk ∧ P'.Dim = P.Dim ∧
        P'.data.length = P.data.length ∧
        (∀ c : Nat, s ≤ c → c < T →
          (∀ d : Nat, d < v → rd P'.data ((c * (v + 1) + d : Nat) : Int) =
            rd coords ((L c * v + d : Nat) : Int) * rd ext.weights (L c : Int)) ∧
          rd P'.data ((c * (v + 1) + v : Nat) : Int) = rd ext.weights (L c : Int)) ∧
        ∀ idx : Nat, idx < s * (v + 1) → rd P'.data (idx : Int) = rd P.data (idx : Int)
  | 0, s, P, _, _ => by
    refine ⟨P, rfl, rfl, rfl, rfl, rfl, rfl, fun c h1 h2 => by omega, fun _ _ => rfl⟩
  | n + 1, s, P, hs, hlen => by
    have hsT : s < T := by omega
    have hb := cell_bound s T v hsT
    obtain ⟨P1, h1, a1, a2, a3, a4, a5, a6, a7, a8⟩ :=
      loadPoint_spec ext coords v (L s) (s * (v + 1)) P
        (by rw [hc]; exact dof_bound _ _ _ (hL s hsT)) (by rw [hw]; exact hL s hsT)
        (by rw [hlen]; exact hb)
    obtain ⟨P', h2, b1, b2, b3, b4, b5, b6, b7⟩ :=
      load_fill ext coords v N T L hL hc hw n (s + 1) P1 (by omega) (by rw [a5, hlen])
    refine ⟨P', ?_, by rw [b1, a1], by rw [b2, a2], by rw [b3, a3], by rw [b4, a4],
      by rw [b5, a5], ?_, ?_⟩
    · rw [List.range'_succ, List.map_cons, foldE]
      dsimp only
      have e : (s : Int) * ((v : Int) + 1) = ((s * (v + 1) : Nat) : Int) := by push_cast; ring
      rw [e, h1]
      exact h2
    · intro c hc1 hc2
      by_cases hcs : c = s
      · subst hcs
        have hb2 : c * (v + 1) + v < (c + 1) * (v + 1) := by rw [Nat.succ_mul]; omega
        constructor
        · intro d hd
          rw [b7 _ (by omega)]
          exact a6 d hd
        · rw [b7 _ hb2]
          exact a7
      · exact b6 c (by omega) hc2
    · intro idx hidx
      have : s * (v + 1) ≤ (s + 1) * (v + 1) := Nat.mul_le_mul_right _ (by omega)
      rw [b7 idx (by omega)]
      exact a8 idx (Or.inl hidx)

/-- The loops of `Set1DSolutionVector`, ... over the control points of one patch whose
buffer holds, block by block, the coordinates of `Nodes` times non-zero weights and the
weights: the weights stay as they are, every dof of the patch gets its coordinates of
`Nodes`, and entries of `coords` that agreed with `Nodes` still do. -/
theorem store_fill (patch : NURBSPatch) (Nodes w : List ℚ) (v N T : Nat) (L : Nat → Nat)
    (hL : ∀ c, c < T → L c < N) (hw : w.length = N) (hw0 : ∀ x ∈ w, x ≠ 0)
    (hlen : patch.data.length = T * (v + 1))
    (hblk : ∀ c : Nat, c < T →
      (∀ d : Nat, d < v → rd patch.data ((c * (v + 1) + d : Nat) : Int) =
        rd Nodes ((L c * v + d : Nat) : Int) * rd w (L c : Int)) ∧
      rd patch.data ((c * (v + 1) + v : Nat) : Int) = rd w (L c : Int)) :
    ∀ (n s : Nat) (c : List ℚ), s + n = T → c.length = N * v →
      ∃ c', foldE (fun (cw : List ℚ × List ℚ) (pr : Int × Int) =>
            storePoint patch (v : Int) pr.1 pr.2 cw)
          ((List.range' s n).map (fun c => ((L c : Int), (c : Int) * ((v : Int) + 1))))
          (c, w) = .ok (c', w) ∧
        c'.length = c.length ∧
        (∀ cell : Nat, s ≤ cell → cell < T → ∀ d : Nat, d < v →
          rd c' ((L cell * v + d : Nat) : Int) = rd Nodes ((L cell * v + d : Nat) : Int)) ∧
        ∀ idx : Nat, rd c (idx : Int) = rd Nodes (idx : Int) →
          rd c' (idx : Int) = rd Nodes (idx : Int)
  | 0, s, c, _, _ => by
    exact ⟨c, rfl, rfl, fun cell h1 h2 => by omega, fun _ h => h⟩
  | n + 1, s, c, hs, hcl => by
    have hsT : s < T := by omega
    have hb := cell_bound s T v hsT
    obtain ⟨c1, h1, a1, a2, a3⟩ := storePoint_spec patch v (L s) (s * (v + 1)) c w
      (by rw [hcl]; exact dof_bound _ _ _ (hL s hsT)) (by rw [hw]; exact hL s hsT)
      (by rw [hlen]; exact hb)
    have hwne : rd w (L s : Int) ≠ 0 := by
      rw [rd_eq_getElem w _ (by rw [hw]; exact hL s hsT)]
      exact hw0 _ (List.getElem_mem _)
    have hgood1 : ∀ d : Nat, d < v →
        rd c1 ((L s * v + d : Nat) : Int) = rd Nodes ((L s * v + d : Nat) : Int) := by
      intro d hd
      rw [a2 d hd, (hblk s hsT).1 d hd, (hblk s hsT).2]
      field_simp
    have hkeep : ∀ idx : Nat, rd c (idx : Int) = rd Nodes (idx : Int) →
        rd c1 (idx : Int) = rd Nodes (idx : Int) := by
      intro idx hidx
      by_cases hin : idx < L s * v ∨ L s * v + v ≤ idx
      · rw [a3 idx hin]; exact hidx
      · obtain ⟨d, rfl⟩ : ∃ d, idx = L s * v + d := ⟨idx - L s * v, by omega⟩
        exact hgood1 d (by omega)
    rw [(hblk s hsT).2, set_rd_self] at h1
    obtain ⟨c', h2, b1, b2, b3⟩ := store_fill patch Nodes w v N T L hL hw hw0 hlen hblk n (s + 1)
      c1 (by omega) (by rw [a1, hcl])
    refine ⟨c', ?_, by rw [b1, a1], ?_, fun idx h => b3 idx (hkeep idx h)⟩
    · rw [List.range'_succ, List.map_cons, foldE]
      dsimp only
      have e : (s : Int) * ((v : Int) + 1) = ((s * (v + 1) : Nat) : Int) := by push_cast; ring
      rw [e, h1]
      exact h2
    · intro cell hc1 hc2 d hd
      by_cases hcs : cell = s
      · subst hcs
        exact b3 _ (hgood1 d hd)
      · exact b2 cell (by omega) hc2 d hd

end NURBSExtension

theorem forCountM_inv {σ : Type} (body : σ → Nat → Except Fault σ) (I : σ → Prop)
    (hI : ∀ s i s', I s → body s i = .ok s' → I s') :
    ∀ (n s0 : Nat) (st st' : σ), I st → forCountM body n s0 st = .ok st' → I st'
  | 0, _, st, st', hst, h => by
    rw [forCountM] at h
    cases h
    exact hst
  | n + 1, s0, st, st', hst, h => by
    rw [forCountM] at h
    cases hb : body st s0 with
    | error e => rw [hb] at h; cases h
    | ok s1 =>
      rw [hb] at h
      exact forCountM_inv body I hI n (s0 + 1) s1 st' (hI st s0 s1 hst hb) h

/-- A loop over `0, ..., n-1` whose iteration `p` turns the first component `m p` of the
state into `m (p+1)` and keeps an invariant of the second one. -/
theorem forCountM_chain {μ τ : Type} (m : Nat → μ) (body : μ × τ → Nat → Except Fault (μ × τ))
    (I : Nat → τ → Prop) (N : Nat)
    (hb : ∀ (p : Nat) (t : τ), p < N → I p t →
      ∃ t', body (m p, t) p = .ok (m (p + 1), t') ∧ I (p + 1) t') :
    ∀ (n s : Nat) (t : τ), s + n = N → I s t →
      ∃ t', forCountM body n s (m s, t) = .ok (m N, t') ∧ I N t'
  | 0, s, t, hs, ht => by
    have : s = N := by omega
    subst this
    exact ⟨t, rfl, ht⟩
  | n + 1, s, t, hs, ht => by
    obtain ⟨t1, h1, h2⟩ := hb s t (by omega) ht
    obtain ⟨t', h3, h4⟩ := forCountM_chain m body I N hb n (s + 1) t1 (by omega) h2
    exact ⟨t', by rw [forCountM, h1]; exact h3, h4⟩

/-- Two nested index loops apply the step to the cells of a grid in order. -/
theorem grid2 {σ α : Type} (step : σ → α → Except Fault σ) (I : σ → Prop)
    (hI : ∀ s a s', I s → step s a = .ok s' → I s') (n0 n1 : Nat)
    (body : σ → Int → Int → Except Fault σ) (F : Nat → Nat → α) (st : σ) (hst : I st)
    (hb : ∀ (st : σ) (i j : Nat), I st → i < n0 → j < n1 →
      body st (i : Int) (j : Int) = step st (F i j)) :
    forLoopIntM 0 (n1 : Int) (fun s j => forLoopIntM 0 (n0 : Int) (fun s i => body s i j) s) st =
      foldE step ((List.range (n0 * n1)).map (fun c => F (c % n0) (c / n0))) st := by
  rw [forLoopIntM_foldE step (fun j => (List.range n0).map (fun i => F i j)) _ I hI n1 st hst
    (fun s j hs hj => forLoopIntM_foldE_map step _ _ I hI n0 s hs
      (fun s i hs hi => hb s i j hs hi hj)),
    flatMap_range_map F n0 n1]

/-- Three nested index loops apply the step to the cells of a grid in order. -/
theorem grid3 {σ α : Type} (step : σ → α → Except Fault σ) (I : σ → Prop)
    (hI : ∀ s a s', I s → step s a = .ok s' → I s') (n0 n1 n2 : Nat)
    (body : σ → Int → Int → Int → Except Fault σ) (F : Nat → Nat → Nat → α) (st : σ)
    (hst : I st)
    (hb : ∀ (st : σ) (i j k : Nat), I st → i < n0 → j < n1 → k < n2 →
      body st (i : Int) (j : Int) (k : Int) = step st (F i j k)) :
    forLoopIntM 0 (n2 : Int)
        (fun s k => forLoopIntM 0 (n1 : Int)
          (fun s j => forLoopIntM 0 (n0 : Int) (fun s i => body s i j k) s) s) st =
      foldE step ((List.range (n0 * n1 * n2)).map
        (fun c => F ((c % (n0 * n1)) % n0) ((c % (n0 * n1)) / n0) (c / (n0 * n1)))) st := by
  rw [forLoopIntM_foldE step
    (fun k => (List.range (n0 * n1)).map (fun c => F (c % n0) (c / n0) k)) _ I hI n2 st hst
    (fun s k hs hk => grid2 step I hI n0 n1 (fun s i j => body s i j k) (fun i j => F i j k) s hs
      (fun s i j hs hi hj => hb s i j k hs hi hj hk)),
    flatMap_range_map (fun c k => F (c % n0) (c / n0) k) (n0 * n1) n2]

theorem grid_cell2 (c n0 : Nat) :
    ((c % n0 : Nat) : Int) + ((c / n0 : Nat) : Int) * (n0 : Int) = (c : Int) := by
  exact_mod_cast Nat.mod_add_div' c n0

theorem grid_cell3 (c n0 n1 : Nat) :
    (((c % (n0 * n1)) % n0 : Nat) : Int) +
      ((((c % (n0 * n1)) / n0 : Nat) : Int) + ((c / (n0 * n1) : Nat) : Int) * (n1 : Int)) *
        (n0 : Int) = (c : Int) := by
  have h1 := Nat.mod_add_div' (c % (n0 * n1)) n0
  have h2 := Nat.mod_add_div' c (n0 * n1)
  have h3 : (((c % (n0 * n1)) % n0 : Nat) : Int) + (((c % (n0 * n1)) / n0 : Nat) : Int) * n0 =
      ((c % (n0 * n1) : Nat) : Int) := by exact_mod_cast h1
  have h4 : ((c % (n0 * n1) : Nat) : Int) + ((c / (n0 * n1) : Nat) : Int) * (n0 * n1) =
      (c : Int) := by exact_mod_cast h2
  rw [← h4, ← h3]
  ring

namespace NURBSExtension

theorem store_dims (P P' : NURBSPatch) (off : Int) (x : ℚ) (h : P.store off x = .ok P') :
    P'.ni = P.ni ∧ P'.nj = P.nj ∧ P'.Dim = P.Dim := by
  unfold NURBSPatch.store at h
  cases hw : wrChk P.data off x with
  | error e => rw [hw] at h; cases h
  | ok d => rw [hw] at h; cases h; exact ⟨rfl, rfl, rfl⟩

/-- `loadPoint` does not change the extents of the patch. -/
theorem loadPoint_dims (ext : NURBSExtension) (coords : List ℚ) (vdim l off : Int)
    (P P' : NURBSPatch) (h : loadPoint ext coords vdim l off P = .ok P') :
    P'.ni = P.ni ∧ P'.nj = P.nj ∧ P'.Dim = P.Dim := by
  unfold loadPoint at h
  cases hl : forLoopIntM 0 vdim
      (fun (P : NURBSPatch) d =>
        match rdChk coords (l * vdim + d) with
        | .error e => .error e
        | .ok c =>
          match rdChk ext.weights l with
          | .error e => .error e
          | .ok w => P.store (off + d) (c * w)) P with
  | error e => rw [hl] at h; cases h
  | ok P1 =>
    rw [hl] at h
    dsimp only at h
    have h1 : P1.ni = P.ni ∧ P1.nj = P.nj ∧ P1.Dim = P.Dim := by
      refine forCountM_inv _ (fun Q => Q.ni = P.ni ∧ Q.nj = P.nj ∧ Q.Dim = P.Dim) ?_ _ _ P P1
        ⟨rfl, rfl, rfl⟩ hl
      intro s i s' hs hb
      dsimp only at hb
      cases h1 : rdChk coords (l * vdim + (0 + (i : Int))) with
      | error e => rw [h1] at hb; cases hb
      | ok c =>
        rw [h1] at hb
        dsimp only at hb
        cases h2 : rdChk ext.weights l with
        | error e => rw [h2] at hb; cases hb
        | ok w =>
          rw [h2] at hb
          obtain ⟨a, b, c⟩ := store_dims _ _ _ _ hb
          exact ⟨a.trans hs.1, b.trans hs.2.1, c.trans hs.2.2⟩
    cases h2 : rdChk ext.weights l with
    | error e => rw [h2] at h; cases h
    | ok w =>
      rw [h2] at h
      obtain ⟨a, b, c⟩ := store_dims _ _ _ _ h
      exact ⟨a.trans h1.1, b.trans h1.2.1, c.trans h1.2.2⟩

theorem SetPatchDofMap_snd (ext : NURBSExtension) (m : NURBSPatchMap) (p : Int) :
    (ext.SetPatchDofMap m p).2 = (ext.SetPatchDofMap {} p).2 := by
  unfold SetPatchDofMap mapGetPatchKnotVectors
  dsimp only
  split_ifs <;> rfl

theorem dofMapOf_eq (ext : NURBSExtension) (p : Nat) :
    ext.dofMapOf p = (ext.SetPatchDofMap (ext.mapBefore p) (p : Int)).1 := by
  cases p <;> rfl

theorem DofMap_id (ext : NURBSExtension) (h : ext.d_to_d = []) (l : Int) : ext.DofMap l = l := by
  unfold DofMap
  rw [h]
  rfl

theorem patchKV1 (ext : NURBSExtension) (h : ext.Dimension = 1) (p : Int) :
    (ext.SetPatchDofMap {} p).2 = [ext.comprKV (ext.Dimension * p)] := by
  unfold SetPatchDofMap mapGetPatchKnotVectors
  dsimp only
  rw [if_pos h]

theorem patchKV2 (ext : NURBSExtension) (h : ext.Dimension = 2) (p : Int) :
    (ext.SetPatchDofMap {} p).2 =
      [ext.comprKV (ext.Dimension * p), ext.comprKV (ext.Dimension * p + 1)] := by
  unfold SetPatchDofMap mapGetPatchKnotVectors
  dsimp only
  rw [if_neg (by omega), if_pos h]

theorem patchKV3 (ext : NURBSExtension) (h : ext.Dimension = 3) (p : Int) :
    (ext.SetPatchDofMap {} p).2 =
      [ext.comprKV (ext.Dimension * p), ext.comprKV (ext.Dimension * p + 1),
        ext.comprKV (ext.Dimension * p + 2)] := by
  unfold SetPatchDofMap mapGetPatchKnotVectors
  dsimp only
  rw [if_neg (by omega), if_neg (by omega), if_pos h]

/-- The dofs of a patch, listed by the number of the control point. -/
theorem patchDofs_eq (ops : PatchMapOps) (ext : NURBSExtension) (p : Nat) :
    patchDofs ops ext p = (List.range (ext.patchCells p)).map (cellDof ops ext p) := by
  unfold patchDofs patchCells
  dsimp only
  split_ifs with h1 h2
  · apply List.map_congr_left
    intro c _
    unfold cellDof
    dsimp only
    rw [if_pos h1]
  · rw [flatMap_range_map (fun i j => ops.at2 (ext.dofMapOf p) (i : Int) (j : Int))]
    apply List.map_congr_left
    intro c _
    unfold cellDof
    dsimp only
    rw [if_neg h1, if_pos h2]
  · have e := fun (k : Nat) => flatMap_range_map
      (fun i j => ops.at3 (ext.dofMapOf p) (i : Int) (j : Int) (k : Int))
      (kvAt (ext.SetPatchDofMap {} (p : Int)).2 0).GetNCP
      (kvAt (ext.SetPatchDofMap {} (p : Int)).2 1).GetNCP
    simp only [e]
    rw [flatMap_range_map (fun c k => ops.at3 (ext.dofMapOf p)
      ((c % (kvAt (ext.SetPatchDofMap {} (p : Int)).2 0).GetNCP : Nat) : Int)
      ((c / (kvAt (ext.SetPatchDofMap {} (p : Int)).2 0).GetNCP : Nat) : Int) (k : Int))]
    apply List.map_congr_left
    intro c _
    unfold cellDof
    dsimp only
    rw [if_neg h1, if_neg h2]

end NURBSExtension

namespace NURBSExtension

theorem toNat_cells (T v : Nat) : ((T : Int) * ((v : Int) + 1)).toNat = T * (v + 1) := by
  have : (T : Int) * ((v : Int) + 1) = ((T * (v + 1) : Nat) : Int) := by push_cast; ring
  rw [this, Int.toNat_ofNat]

/-- The loops of `Get1DPatchNets`, ... over the control points of one patch, written as one
pass over the control points `0, ..., T-1` with the dofs `L c`. -/
theorem load_cells (ext : NURBSExtension) (coords : List ℚ) (v N T : Nat) (L : Nat → Int)
    (hL : ∀ c, c < T → 0 ≤ L c ∧ L c < (N : Int)) (hc : coords.length = N * v)
    (hw : ext.weights.length = N) (P0 : NURBSPatch) (hlen : P0.data.length = T * (v + 1)) :
    ∃ P, foldE (fun (Q : NURBSPatch) (pr : Int × Int) =>
          loadPoint ext coords (v : Int) pr.1 pr.2 Q)
        ((List.range T).map (fun c => (L c, (c : Int) * ((v : Int) + 1)))) P0 = .ok P ∧
      P.ni = P0.ni ∧ P.nj = P0.nj ∧ P.Dim = P0.Dim ∧ P.data.length = T * (v + 1) ∧
      ∀ c : Nat, c < T →
        (∀ d : Nat, d < v → rd P.data ((c * (v + 1) + d : Nat) : Int) =
          rd coords (((L c).toNat * v + d : Nat) : Int) *
            rd ext.weights (((L c).toNat : Nat) : Int)) ∧
        rd P.data ((c * (v + 1) + v : Nat) : Int) = rd ext.weights (((L c).toNat : Nat) : Int) := by
  obtain ⟨P, h, a1, a2, _, a4, a5, a6, _⟩ := load_fill ext coords v N T (fun c => (L c).toNat)
    (fun c h => by have := hL c h; beta_reduce; omega) hc hw T 0 P0 (by omega) hlen
  refine ⟨P, ?_, a1, a2, a4, by rw [a5, hlen], fun c h => a6 c (by omega) h⟩
  rw [← h, List.range_eq_range']
  congr 1
  apply List.map_congr_left
  intro c hcm
  have hcT : c < T := by
    have := List.mem_range'_1.mp hcm
    omega
  have := hL c hcT
  beta_reduce
  rw [Int.toNat_of_nonneg this.1]

/-- The loops of `Set1DSolutionVector`, ... over the control points of one patch, written
as one pass over the control points `0, ..., T-1` with the dofs `L c`. -/
theorem store_cells (patch : NURBSPatch) (Nodes w : List ℚ) (v N T : Nat) (L : Nat → Int)
    (hL : ∀ c, c < T → 0 ≤ L c ∧ L c < (N : Int)) (hw : w.length = N) (hw0 : ∀ x ∈ w, x ≠ 0)
    (hlen : patch.data.length = T * (v + 1))
    (hblk : ∀ c : Nat, c < T →
      (∀ d : Nat, d < v → rd patch.data ((c * (v + 1) + d : Nat) : Int) =
        rd Nodes (((L c).toNat * v + d : Nat) : Int) * rd w (((L c).toNat : Nat) : Int)) ∧
      rd patch.data ((c * (v + 1) + v : Nat) : Int) = rd w (((L c).toNat : Nat) : Int))
    (c : List ℚ) (hcl : c.length = N * v) :
    ∃ c', foldE (fun (cw : List ℚ × List ℚ) (pr : Int × Int) =>
          storePoint patch (v : Int) pr.1 pr.2 cw)
        ((List.range T).map (fun c => (L c, (c : Int) * ((v : Int) + 1)))) (c, w) =
        .ok (c', w) ∧
      c'.length = N * v ∧
      (∀ cell : Nat, cell < T → ∀ d : Nat, d < v →
        rd c' (((L cell).toNat * v + d : Nat) : Int) =
          rd Nodes (((L cell).toNat * v + d : Nat) : Int)) ∧
      ∀ idx : Nat, rd c (idx : Int) = rd Nodes (idx : Int) →
        rd c' (idx : Int) = rd Nodes (idx : Int) := by
  obtain ⟨c', h, a1, a2, a3⟩ := store_fill patch Nodes w v N T (fun c => (L c).toNat)
    (fun c h => by have := hL c h; beta_reduce; omega) hw hw0 hlen hblk T 0 c (by omega) hcl
  refine ⟨c', ?_, by rw [a1, hcl], fun cell h => a2 cell (by omega) h, a3⟩
  rw [← h, List.range_eq_range']
  congr 1
  apply List.map_congr_left
  intro c hcm
  have hcT : c < T := by
    have := List.mem_range'_1.mp hcm
    omega
  have := hL c hcT
  beta_reduce
  rw [Int.toNat_of_nonneg this.1]

theorem cellDof_range (ops : PatchMapOps) (ext : NURBSExtension) (p N : Nat)
    (hr : ∀ l ∈ patchDofs ops ext p, 0 ≤ l ∧ l < (N : Int)) (c : Nat)
    (h : c < ext.patchCells p) : 0 ≤ cellDof ops ext p c ∧ cellDof ops ext p c < (N : Int) := by
  apply hr
  rw [patchDofs_eq]
  exact List.mem_map.mpr ⟨c, List.mem_range.mpr h, rfl⟩

theorem kvAt_zero (k : KnotVector) (l : List KnotVector) : kvAt (k :: l) 0 = k := rfl

theorem kvAt_one (k0 k1 : KnotVector) (l : List KnotVector) : kvAt (k0 :: k1 :: l) 1 = k1 := rfl

theorem kvAt_two (k0 k1 k2 : KnotVector) (l : List KnotVector) :
    kvAt (k0 :: k1 :: k2 :: l) 2 = k2 := rfl

/-- One patch of `Get1DPatchNets`. -/
theorem get1Patch_spec (ops : PatchMapOps) (ext : NURBSExtension) (coords : List ℚ)
    (v N : Nat) (hdim : ext.Dimension = 1) (hd : ext.d_to_d = [])
    (hc : coords.length = N * v) (hw : ext.weights.length = N) (p : Nat)
    (hr : ∀ l ∈ patchDofs ops ext p, 0 ≤ l ∧ l < (N : Int)) (ps : List NURBSPatch) :
    ∃ P, get1Patch ops ext coords (v : Int) (ext.mapBefore p, ps) p =
        .ok (ext.mapBefore (p + 1), ps ++ [P]) ∧ patchNet ops ext coords v p P := by
  have hkv := patchKV1 ext hdim (p : Int)
  have hT : ext.patchCells p = (kvAt (ext.SetPatchDofMap {} (p : Int)).2 0).GetNCP := by
    unfold patchCells
    dsimp only
    rw [if_pos hdim]
  obtain ⟨P0, hinit, i1, i2, i3, i4⟩ : ∃ P0,
      NURBSPatch.init (ext.SetPatchDofMap {} (p : Int)).2 ((v : Int) + 1) = .ok P0 ∧
      P0.ni = ((kvAt (ext.SetPatchDofMap {} (p : Int)).2 0).GetNCP : Int) ∧ P0.nj = -1 ∧
      P0.Dim = (v : Int) + 1 ∧ P0.data.length = ext.patchCells p * (v + 1) := by
    rw [hT, hkv, kvAt_zero]
    exact ⟨_, rfl, rfl, rfl, rfl, by
      show (List.replicate _ (0 : ℚ)).length = _
      rw [List.length_replicate, toNat_cells]⟩
  obtain ⟨P, h, a1, a2, a3, a4, a5⟩ := load_cells ext coords v N (ext.patchCells p)
    (cellDof ops ext p) (cellDof_range ops ext p N hr) hc hw P0 i4
  refine ⟨P, ?_, ?_⟩
  · unfold get1Patch
    dsimp only
    rw [SetPatchDofMap_snd, ← dofMapOf_eq, hinit]
    dsimp only
    rw [forLoopIntM_foldE_map
      (fun (Q : NURBSPatch) (pr : Int × Int) => loadPoint ext coords (v : Int) pr.1 pr.2 Q)
      (fun c => (cellDof ops ext p c, (c : Int) * ((v : Int) + 1))) _
      (fun Q => Q.ni = P0.ni ∧ Q.nj = P0.nj ∧ Q.Dim = P0.Dim)
      (fun s a s' hs hst => by
        obtain ⟨x, y, z⟩ := loadPoint_dims _ _ _ _ _ _ _ hst
        exact ⟨x.trans hs.1, y.trans hs.2.1, z.trans hs.2.2⟩)
      _ P0 ⟨rfl, rfl, rfl⟩
      (fun st i hs hi => by
        dsimp only
        rw [DofMap_id ext hd]
        unfold NURBSPatch.at1 cellDof
        dsimp only
        rw [if_pos hdim, hs.2.2, i3, Int.add_zero]),
      ← hT, h]
    rfl
  · unfold patchNet
    dsimp only
    rw [if_pos hdim]
    exact ⟨a1.trans i1, a2.trans i2, a3.trans i3, a4, a5⟩

end NURBSExtension

namespace NURBSExtension

/-- One patch of `Get2DPatchNets`. -/
theorem get2Patch_spec (ops : PatchMapOps) (ext : NURBSExtension) (coords : List ℚ)
    (v N : Nat) (hdim : ext.Dimension = 2) (hd : ext.d_to_d = [])
    (hc : coords.length = N * v) (hw : ext.weights.length = N) (p : Nat)
    (hr : ∀ l ∈ patchDofs ops ext p, 0 ≤ l ∧ l < (N : Int)) (ps : List NURBSPatch) :
    ∃ P, get2Patch ops ext coords (v : Int) (ext.mapBefore p, ps) p =
        .ok (ext.mapBefore (p + 1), ps ++ [P]) ∧ patchNet ops ext coords v p P := by
  have hkv := patchKV2 ext hdim (p : Int)
  have h1 : ¬ ext.Dimension = 1 := by omega
  have hT : ext.patchCells p = (kvAt (ext.SetPatchDofMap {} (p : Int)).2 0).GetNCP *
      (kvAt (ext.SetPatchDofMap {} (p : Int)).2 1).GetNCP := by
    unfold patchCells
    dsimp only
    rw [if_neg h1, if_pos hdim]
  obtain ⟨P0, hinit, i1, i2, i3, i4⟩ : ∃ P0,
      NURBSPatch.init (ext.SetPatchDofMap {} (p : Int)).2 ((v : Int) + 1) = .ok P0 ∧
      P0.ni = ((kvAt (ext.SetPatchDofMap {} (p : Int)).2 0).GetNCP : Int) ∧
      P0.nj = ((kvAt (ext.SetPatchDofMap {} (p : Int)).2 1).GetNCP : Int) ∧
      P0.Dim = (v : Int) + 1 ∧ P0.data.length = ext.patchCells p * (v + 1) := by
    rw [hT, hkv, kvAt_zero, kvAt_one]
    exact ⟨_, rfl, rfl, rfl, rfl, by
      show (List.replicate _ (0 : ℚ)).length = _
      rw [List.length_replicate, ← toNat_cells]
      push_cast
      rfl⟩
  obtain ⟨P, h, a1, a2, a3, a4, a5⟩ := load_cells ext coords v N (ext.patchCells p)
    (cellDof ops ext p) (cellDof_range ops ext p N hr) hc hw P0 i4
  refine ⟨P, ?_, ?_⟩
  · unfold get2Patch
    dsimp only
    rw [SetPatchDofMap_snd, ← dofMapOf_eq, hinit]
    dsimp only
    rw [grid2
      (fun (Q : NURBSPatch) (pr : Int × Int) => loadPoint ext coords (v : Int) pr.1 pr.2 Q)
      (fun Q => Q.ni = P0.ni ∧ Q.nj = P0.nj ∧ Q.Dim = P0.Dim)
      (fun s a s' hs hst => by
        obtain ⟨x, y, z⟩ := loadPoint_dims _ _ _ _ _ _ _ hst
        exact ⟨x.trans hs.1, y.trans hs.2.1, z.trans hs.2.2⟩)
      _ _
      (fun (Q : NURBSPatch) (i j : Int) =>
        loadPoint ext coords (v : Int) (ext.DofMap (ops.at2 (ext.dofMapOf p) i j))
          (Q.at2 i j 0) Q)
      (fun i j => (ops.at2 (ext.dofMapOf p) (i : Int) (j : Int),
        ((i : Int) + (j : Int) * P0.ni) * ((v : Int) + 1) + 0))
      P0 ⟨rfl, rfl, rfl⟩
      (fun st i j hs _ _ => by
        dsimp only
        rw [DofMap_id ext hd]
        unfold NURBSPatch.at2
        rw [hs.1, hs.2.2, i3]),
      ← hT]
    have e : (List.range (ext.patchCells p)).map (fun c =>
        (ops.at2 (ext.dofMapOf p)
          ((c % (kvAt (ext.SetPatchDofMap {} (p : Int)).2 0).GetNCP : Nat) : Int)
          ((c / (kvAt (ext.SetPatchDofMap {} (p : Int)).2 0).GetNCP : Nat) : Int),
        (((c % (kvAt (ext.SetPatchDofMap {} (p : Int)).2 0).GetNCP : Nat) : Int) +
          ((c / (kvAt (ext.SetPatchDofMap {} (p : Int)).2 0).GetNCP : Nat) : Int) * P0.ni) *
          ((v : Int) + 1) + 0)) =
        (List.range (ext.patchCells p)).map
          (fun c => (cellDof ops ext p c, (c : Int) * ((v : Int) + 1))) := by
      apply List.map_congr_left
      intro c _
      rw [i1, grid_cell2, Int.add_zero]
      unfold cellDof
      dsimp only
      rw [if_neg h1, if_pos hdim]
    rw [e, h]
    rfl
  · unfold patchNet
    dsimp only
    rw [if_neg h1]
    exact ⟨a1.trans i1, a2.trans i2, a3.trans i3, a4, a5⟩

/-- One patch of `Get3DPatchNets`. -/
theorem get3Patch_spec (ops : PatchMapOps) (ext : NURBSExtension) (coords : List ℚ)
    (v N : Nat) (hdim : ext.Dimension = 3) (hd : ext.d_to_d = [])
    (hc : coords.length = N * v) (hw : ext.weights.length = N) (p : Nat)
    (hr : ∀ l ∈ patchDofs ops ext p, 0 ≤ l ∧ l < (N : Int)) (ps : List NURBSPatch) :
    ∃ P, get3Patch ops ext coords (v : Int) (ext.mapBefore p, ps) p =
        .ok (ext.mapBefore (p + 1), ps ++ [P]) ∧ patchNet ops ext coords v p P := by
  have hkv := patchKV3 ext hdim (p : Int)
  have h1 : ¬ ext.Dimension = 1 := by omega
  have h2 : ¬ ext.Dimension = 2 := by omega
  have hT : ext.patchCells p = (kvAt (ext.SetPatchDofMap {} (p : Int)).2 0).GetNCP *
      (kvAt (ext.SetPatchDofMap {} (p : Int)).2 1).GetNCP *
      (kvAt (ext.SetPatchDofMap {} (p : Int)).2 2).GetNCP := by
    unfold patchCells
    dsimp only
    rw [if_neg h1, if_neg h2]
  obtain ⟨P0, hinit, i1, i2, i3, i4⟩ : ∃ P0,
      NURBSPatch.init (ext.SetPatchDofMap {} (p : Int)).2 ((v : Int) + 1) = .ok P0 ∧
      P0.ni = ((kvAt (ext.SetPatchDofMap {} (p : Int)).2 0).GetNCP : Int) ∧
      P0.nj = ((kvAt (ext.SetPatchDofMap {} (p : Int)).2 1).GetNCP : Int) ∧
      P0.Dim = (v : Int) + 1 ∧ P0.data.length = ext.patchCells p * (v + 1) := by
    rw [hT, hkv, kvAt_zero, kvAt_one, kvAt_two]
    exact ⟨_, rfl, rfl, rfl, rfl, by
      show (List.replicate _ (0 : ℚ)).length = _
      rw [List.length_replicate, ← toNat_cells]
      push_cast
      rfl⟩
  obtain ⟨P, h, a1, a2, a3, a4, a5⟩ := load_cells ext coords v N (ext.patchCells p)
    (cellDof ops ext p) (cellDof_range ops ext p N hr) hc hw P0 i4
  refine ⟨P, ?_, ?_⟩
  · unfold get3Patch
    dsimp only
    rw [SetPatchDofMap_snd, ← dofMapOf_eq, hinit]
    dsimp only
    rw [grid3
      (fun (Q : NURBSPatch) (pr : Int × Int) => loadPoint ext coords (v : Int) pr.1 pr.2 Q)
      (fun Q => Q.ni = P0.ni ∧ Q.nj = P0.nj ∧ Q.Dim = P0.Dim)
      (fun s a s' hs hst => by
        obtain ⟨x, y, z⟩ := loadPoint_dims _ _ _ _ _ _ _ hst
        exact ⟨x.trans hs.1, y.trans hs.2.1, z.trans hs.2.2⟩)
      _ _ _
      (fun (Q : NURBSPatch) (i j k : Int) =>
        loadPoint ext coords (v : Int) (ext.DofMap (ops.at3 (ext.dofMapOf p) i j k))
          (Q.at3 i j k 0) Q)
      (fun i j k => (ops.at3 (ext.dofMapOf p) (i : Int) (j : Int) (k : Int),
        ((i : Int) + ((j : Int) + (k : Int) * P0.nj) * P0.ni) * ((v : Int) + 1) + 0))
      P0 ⟨rfl, rfl, rfl⟩
      (fun st i j k hs _ _ _ => by
        dsimp only
        rw [DofMap_id ext hd]
        unfold NURBSPatch.at3
        rw [hs.1, hs.2.1, hs.2.2, i3]),
      ← hT]
    have e : ∀ c : Nat,
        (fun (c : Nat) => (ops.at3 (ext.dofMapOf p)
          (((c % ((kvAt (ext.SetPatchDofMap {} (p : Int)).2 0).GetNCP *
            (kvAt (ext.SetPatchDofMap {} (p : Int)).2 1).GetNCP)) %
            (kvAt (ext.SetPatchDofMap {} (p : Int)).2 0).GetNCP : Nat) : Int)
          (((c % ((kvAt (ext.SetPatchDofMap {} (p : Int)).2 0).GetNCP *
            (kvAt (ext.SetPatchDofMap {} (p : Int)).2 1).GetNCP)) /
            (kvAt (ext.SetPatchDofMap {} (p : Int)).2 0).GetNCP : Nat) : Int)
          ((c / ((kvAt (ext.SetPatchDofMap {} (p : Int)).2 0).GetNCP *
            (kvAt (ext.SetPatchDofMap {} (p : Int)).2 1).GetNCP) : Nat) : Int),
        ((((c % ((kvAt (ext.SetPatchDofMap {} (p : Int)).2 0).GetNCP *
            (kvAt (ext.SetPatchDofMap {} (p : Int)).2 1).GetNCP)) %
            (kvAt (ext.SetPatchDofMap {} (p : Int)).2 0).GetNCP : Nat) : Int) +
          ((((c % ((kvAt (ext.SetPatchDofMap {} (p : Int)).2 0).GetNCP *
            (kvAt (ext.SetPatchDofMap {} (p : Int)).2 1).GetNCP)) /
            (kvAt (ext.SetPatchDofMap {} (p : Int)).2 0).GetNCP : Nat) : Int) +
          ((c / ((kvAt (ext.SetPatchDofMap {} (p : Int)).2 0).GetNCP *
            (kvAt (ext.SetPatchDofMap {} (p : Int)).2 1).GetNCP) : Nat) : Int) * P0.nj) *
            P0.ni) * ((v : Int) + 1) + 0)) c =
          (cellDof ops ext p c, (c : Int) * ((v : Int) + 1)) := by
      intro c
      beta_reduce
      rw [i1, i2, grid_cell3, Int.add_zero]
      unfold cellDof
      dsimp only
      rw [if_neg h1, if_neg h2]
    rw [List.map_congr_left (fun c _ => e c), h]
    rfl
  · unfold patchNet
    dsimp only
    rw [if_neg h1]
    exact ⟨a1.trans i1, a2.trans i2, a3.trans i3, a4, a5⟩

end NURBSExtension

namespace NURBSExtension

theorem patchAt_ok (ext : NURBSExtension) (p : Nat) (patch : NURBSPatch)
    (h : ext.patches[p]? = some patch) : ext.patchAt p = .ok patch := by
  unfold patchAt
  rw [h]

/-- One patch of `Set1DSolutionVector`. -/
theorem set1Patch_spec (debug : Bool) (ops : PatchMapOps) (ext : NURBSExtension)
    (Nodes : List ℚ) (v N : Nat) (hdim : ext.Dimension = 1) (hw : ext.weights.length = N)
    (hw0 : ∀ x ∈ ext.weights, x ≠ 0) (p : Nat)
    (hr : ∀ l ∈ patchDofs ops ext p, 0 ≤ l ∧ l < (N : Int)) (patch : NURBSPatch)
    (hp : ext.patches[p]? = some patch) (hnet : patchNet ops ext Nodes v p patch)
    (c : List ℚ) (hcl : c.length = N * v) :
    ∃ c', set1Patch debug ops ext (v : Int) (ext.mapBefore p, c, ext.weights) p =
        .ok (ext.mapBefore (p + 1), c', ext.weights) ∧
      c'.length = N * v ∧
      (∀ cell : Nat, cell < ext.patchCells p → ∀ d : Nat, d < v →
        rd c' (((cellDof ops ext p cell).toNat * v + d : Nat) : Int) =
          rd Nodes (((cellDof ops ext p cell).toNat * v + d : Nat) : Int)) ∧
      ∀ idx : Nat, rd c (idx : Int) = rd Nodes (idx : Int) →
        rd c' (idx : Int) = rd Nodes (idx : Int) := by
  have hT : ext.patchCells p = (kvAt (ext.SetPatchDofMap {} (p : Int)).2 0).GetNCP := by
    unfold patchCells
    dsimp only
    rw [if_pos hdim]
  obtain ⟨n1, _, n3, n4, n5⟩ := hnet
  obtain ⟨c', h, a1, a2, a3⟩ := store_cells patch Nodes ext.weights v N (ext.patchCells p)
    (cellDof ops ext p) (cellDof_range ops ext p N hr) hw hw0 n4 n5 c hcl
  refine ⟨c', ?_, a1, a2, a3⟩
  unfold set1Patch
  dsimp only
  rw [SetPatchDofMap_snd, ← dofMapOf_eq, patchAt_ok ext p patch hp]
  dsimp only
  rw [if_neg (fun hh => hh.2 n3.symm)]
  rw [forLoopIntM_foldE_map
    (fun (cw : List ℚ × List ℚ) (pr : Int × Int) => storePoint patch (v : Int) pr.1 pr.2 cw)
    (fun c => (cellDof ops ext p c, (c : Int) * ((v : Int) + 1))) _
    (fun _ => True) (fun _ _ _ _ _ => trivial) _ (c, ext.weights) trivial
    (fun st i _ _ => by
      dsimp only
      unfold NURBSPatch.at1 cellDof
      dsimp only
      rw [if_pos hdim, n3, Int.add_zero]),
    ← hT, h]
  rfl

/-- One patch of `Set2DSolutionVector`. -/
theorem set2Patch_spec (debug : Bool) (ops : PatchMapOps) (ext : NURBSExtension)
    (Nodes : List ℚ) (v N : Nat) (hdim : ext.Dimension = 2) (hw : ext.weights.length = N)
    (hw0 : ∀ x ∈ ext.weights, x ≠ 0) (p : Nat)
    (hr : ∀ l ∈ patchDofs ops ext p, 0 ≤ l ∧ l < (N : Int)) (patch : NURBSPatch)
    (hp : ext.patches[p]? = some patch) (hnet : patchNet ops ext Nodes v p patch)
    (c : List ℚ) (hcl : c.length = N * v) :
    ∃ c', set2Patch debug ops ext (v : Int) (ext.mapBefore p, c, ext.weights) p =
        .ok (ext.mapBefore (p + 1), c', ext.weights) ∧
      c'.length = N * v ∧
      (∀ cell : Nat, cell < ext.patchCells p → ∀ d : Nat, d < v →
        rd c' (((cellDof ops ext p cell).toNat * v + d : Nat) : Int) =
          rd Nodes (((cellDof ops ext p cell).toNat * v + d : Nat) : Int)) ∧
      ∀ idx : Nat, rd c (idx : Int) = rd Nodes (idx : Int) →
        rd c' (idx : Int) = rd Nodes (idx : Int) := by
  have h1 : ¬ ext.Dimension = 1 := by omega
  have hT : ext.patchCells p = (kvAt (ext.SetPatchDofMap {} (p : Int)).2 0).GetNCP *
      (kvAt (ext.SetPatchDofMap {} (p : Int)).2 1).GetNCP := by
    unfold patchCells
    dsimp only
    rw [if_neg h1, if_pos hdim]
  obtain ⟨n1, _, n3, n4, n5⟩ := hnet
  obtain ⟨c', h, a1, a2, a3⟩ := store_cells patch Nodes ext.weights v N (ext.patchCells p)
    (cellDof ops ext p) (cellDof_range ops ext p N hr) hw hw0 n4 n5 c hcl
  refine ⟨c', ?_, a1, a2, a3⟩
  unfold set2Patch
  dsimp only
  rw [SetPatchDofMap_snd, ← dofMapOf_eq, patchAt_ok ext p patch hp]
  dsimp only
  rw [if_neg (fun hh => hh.2 n3.symm)]
  rw [grid2
    (fun (cw : List ℚ × List ℚ) (pr : Int × Int) => storePoint patch (v : Int) pr.1 pr.2 cw)
    (fun _ => True) (fun _ _ _ _ _ => trivial) _ _
    (fun (cw : List ℚ × List ℚ) (i j : Int) =>
      storePoint patch (v : Int) (ops.at2 (ext.dofMapOf p) i j) (patch.at2 i j 0) cw)
    (fun i j => (ops.at2 (ext.dofMapOf p) (i : Int) (j : Int),
      ((i : Int) + (j : Int) * patch.ni) * ((v : Int) + 1) + 0))
    (c, ext.weights) trivial
    (fun st i j _ _ _ => by
      dsimp only
      unfold NURBSPatch.at2
      rw [n3]),
    ← hT]
  have e : ∀ c : Nat,
      (fun (c : Nat) => (ops.at2 (ext.dofMapOf p)
        ((c % (kvAt (ext.SetPatchDofMap {} (p : Int)).2 0).GetNCP : Nat) : Int)
        ((c / (kvAt (ext.SetPatchDofMap {} (p : Int)).2 0).GetNCP : Nat) : Int),
      (((c % (kvAt (ext.SetPatchDofMap {} (p : Int)).2 0).GetNCP : Nat) : Int) +
        ((c / (kvAt (ext.SetPatchDofMap {} (p : Int)).2 0).GetNCP : Nat) : Int) * patch.ni) *
        ((v : Int) + 1) + 0)) c =
      (cellDof ops ext p c, (c : Int) * ((v : Int) + 1)) := by
    intro c
    beta_reduce
    rw [n1, grid_cell2, Int.add_zero]
    unfold cellDof
    dsimp only
    rw [if_neg h1, if_pos hdim]
  rw [List.map_congr_left (fun c _ => e c), h]
  rfl

/-- One patch of `Set3DSolutionVector`. -/
theorem set3Patch_spec (debug : Bool) (ops : PatchMapOps) (ext : NURBSExtension)
    (Nodes : List ℚ) (v N : Nat) (hdim : ext.Dimension = 3) (hw : ext.weights.length = N)
    (hw0 : ∀ x ∈ ext.weights, x ≠ 0) (p : Nat)
    (hr : ∀ l ∈ patchDofs ops ext p, 0 ≤ l ∧ l < (N : Int)) (patch : NURBSPatch)
    (hp : ext.patches[p]? = some patch) (hnet : patchNet ops ext Nodes v p patch)
    (c : List ℚ) (hcl : c.length = N * v) :
    ∃ c', set3Patch debug ops ext (v : Int) (ext.mapBefore p, c, ext.weights) p =
        .ok (ext.mapBefore (p + 1), c', ext.weights) ∧
      c'.length = N * v ∧
      (∀ cell : Nat, cell < ext.patchCells p → ∀ d : Nat, d < v →
        rd c' (((cellDof ops ext p cell).toNat * v + d : Nat) : Int) =
          rd Nodes (((cellDof ops ext p cell).toNat * v + d : Nat) : Int)) ∧
      ∀ idx : Nat, rd c (idx : Int) = rd Nodes (idx : Int) →
        rd c' (idx : Int) = rd Nodes (idx : Int) := by
  have h1 : ¬ ext.Dimension = 1 := by omega
  have h2 : ¬ ext.Dimension = 2 := by omega
  have hT : ext.patchCells p = (kvAt (ext.SetPatchDofMap {} (p : Int)).2 0).GetNCP *
      (kvAt (ext.SetPatchDofMap {} (p : Int)).2 1).GetNCP *
      (kvAt (ext.SetPatchDofMap {} (p : Int)).2 2).GetNCP := by
    unfold patchCells
    dsimp only
    rw [if_neg h1, if_neg h2]
  obtain ⟨n1, n2, n3, n4, n5⟩ := hnet
  rw [if_neg h1] at n2
  obtain ⟨c', h, a1, a2, a3⟩ := store_cells patch Nodes ext.weights v N (ext.patchCells p)
    (cellDof ops ext p) (cellDof_range ops ext p N hr) hw hw0 n4 n5 c hcl
  refine ⟨c', ?_, a1, a2, a3⟩
  unfold set3Patch
  dsimp only
  rw [SetPatchDofMap_snd, ← dofMapOf_eq, patchAt_ok ext p patch hp]
  dsimp only
  rw [if_neg (fun hh => hh.2 n3.symm)]
  rw [grid3
    (fun (cw : List ℚ × List ℚ) (pr : Int × Int) => storePoint patch (v : Int) pr.1 pr.2 cw)
    (fun _ => True) (fun _ _ _ _ _ => trivial) _ _ _
    (fun (cw : List ℚ × List ℚ) (i j k : Int) =>
      storePoint patch (v : Int) (ops.at3 (ext.dofMapOf p) i j k) (patch.at3 i j k 0) cw)
    (fun i j k => (ops.at3 (ext.dofMapOf p) (i : Int) (j : Int) (k : Int),
      ((i : Int) + ((j : Int) + (k : Int) * patch.nj) * patch.ni) * ((v : Int) + 1) + 0))
    (c, ext.weights) trivial
    (fun st i j k _ _ _ _ => by
      dsimp only
      unfold NURBSPatch.at3
      rw [n3]),
    ← hT]
  have e : ∀ c : Nat,
      (fun (c : Nat) => (ops.at3 (ext.dofMapOf p)
        (((c % ((kvAt (ext.SetPatchDofMap {} (p : Int)).2 0).GetNCP *
          (kvAt (ext.SetPatchDofMap {} (p : Int)).2 1).GetNCP)) %
          (kvAt (ext.SetPatchDofMap {} (p : Int)).2 0).GetNCP : Nat) : Int)
        (((c % ((kvAt (ext.SetPatchDofMap {} (p : Int)).2 0).GetNCP *
          (kvAt (ext.SetPatchDofMap {} (p : Int)).2 1).GetNCP)) /
          (kvAt (ext.SetPatchDofMap {} (p : Int)).2 0).GetNCP : Nat) : Int)
        ((c / ((kvAt (ext.SetPatchDofMap {} (p : Int)).2 0).GetNCP *
          (kvAt (ext.SetPatchDofMap {} (p : Int)).2 1).GetNCP) : Nat) : Int),
      ((((c % ((kvAt (ext.SetPatchDofMap {} (p : Int)).2 0).GetNCP *
          (kvAt (ext.SetPatchDofMap {} (p : Int)).2 1).GetNCP)) %
          (kvAt (ext.SetPatchDofMap {} (p : Int)).2 0).GetNCP : Nat) : Int) +
        ((((c % ((kvAt (ext.SetPatchDofMap {} (p : Int)).2 0).GetNCP *
          (kvAt (ext.SetPatchDofMap {} (p : Int)).2 1).GetNCP)) /
          (kvAt (ext.SetPatchDofMap {} (p : Int)).2 0).GetNCP : Nat) : Int) +
        ((c / ((kvAt (ext.SetPatchDofMap {} (p : Int)).2 0).GetNCP *
          (kvAt (ext.SetPatchDofMap {} (p : Int)).2 1).GetNCP) : Nat) : Int) * patch.nj) *
          patch.ni) * ((v : Int) + 1) + 0)) c =
        (cellDof ops ext p c, (c : Int) * ((v : Int) + 1)) := by
    intro c
    beta_reduce
    rw [n1, n2, grid_cell3, Int.add_zero]
    unfold cellDof
    dsimp only
    rw [if_neg h1, if_neg h2]
  rw [List.map_congr_left (fun c _ => e c), h]
  rfl

end NURBSExtension

namespace NURBSExtension

/-- The loop over the patches of `Get1DPatchNets`, ...: one net per patch. -/
theorem getPatches_loop (ops : PatchMapOps) (ext : NURBSExtension) (coords : List ℚ) (v : Nat)
    (body : NURBSPatchMap × List NURBSPatch → Nat →
      Except Fault (NURBSPatchMap × List NURBSPatch))
    (hb : ∀ (p : Nat) (ps : List NURBSPatch), p < ext.GetNP →
      ∃ P, body (ext.mapBefore p, ps) p = .ok (ext.mapBefore (p + 1), ps ++ [P]) ∧
        patchNet ops ext coords v p P) :
    ∃ ps, (match forLoopM 0 ext.GetNP body ({}, []) with
        | .error e => .error e
        | .ok st => .ok st.2) = Except.ok ps ∧
      ps.length = ext.GetNP ∧
      ∀ q : Nat, q < ext.GetNP → ∃ P, ps[q]? = some P ∧ patchNet ops ext coords v q P := by
  obtain ⟨ps, h, h1, h2⟩ := forCountM_chain ext.mapBefore body
    (fun s ps => ps.length = s ∧ ∀ q : Nat, q < s → ∃ P, ps[q]? = some P ∧
      patchNet ops ext coords v q P) ext.GetNP
    (fun p ps hp hI => by
      obtain ⟨P, e1, e2⟩ := hb p ps hp
      refine ⟨ps ++ [P], e1, by rw [List.length_append, hI.1]; rfl, ?_⟩
      intro q hq
      by_cases hqp : q < p
      · obtain ⟨Q, e3, e4⟩ := hI.2 q hqp
        exact ⟨Q, by rw [List.getElem?_append_left (by omega)]; exact e3, e4⟩
      · have : q = p := by omega
        subst this
        refine ⟨P, ?_, e2⟩
        rw [List.getElem?_append_right (by omega), hI.1, Nat.sub_self]
        rfl)
    ext.GetNP 0 [] (by omega) ⟨rfl, fun q hq => by omega⟩
  refine ⟨ps, ?_, h1, h2⟩
  unfold forLoopM
  rw [Nat.sub_zero]
  have h' : forCountM body ext.GetNP 0 ({}, []) = .ok (ext.mapBefore ext.GetNP, ps) := h
  rw [h']

/-- `GetPatchNets` on an extension without periodic boundaries: one net per patch. -/
theorem GetPatchNets_spec (ops : PatchMapOps) (ext : NURBSExtension) (coords : List ℚ)
    (v N : Nat) (hdim : ext.Dimension = 1 ∨ ext.Dimension = 2 ∨ ext.Dimension = 3)
    (hd : ext.d_to_d = []) (hc : coords.length = N * v) (hw : ext.weights.length = N)
    (hr : ∀ p : Nat, p < ext.GetNP → ∀ l ∈ patchDofs ops ext p, 0 ≤ l ∧ l < (N : Int)) :
    ∃ ps, GetPatchNets ops ext coords (v : Int) = .ok ps ∧ ps.length = ext.GetNP ∧
      ∀ q : Nat, q < ext.GetNP → ∃ P, ps[q]? = some P ∧ patchNet ops ext coords v q P := by
  unfold GetPatchNets
  rcases hdim with h1 | h2 | h3
  · rw [if_pos h1]
    exact getPatches_loop ops ext coords v _
      (fun p ps hp => get1Patch_spec ops ext coords v N h1 hd hc hw p (hr p hp) ps)
  · rw [if_neg (by omega), if_pos h2]
    exact getPatches_loop ops ext coords v _
      (fun p ps hp => get2Patch_spec ops ext coords v N h2 hd hc hw p (hr p hp) ps)
  · rw [if_neg (by omega), if_neg (by omega)]
    exact getPatches_loop ops ext coords v _
      (fun p ps hp => get3Patch_spec ops ext coords v N h3 hd hc hw p (hr p hp) ps)

theorem setSize_self (w : List ℚ) (n : Int) (h : n = (w.length : Int)) : setSize w n = w := by
  unfold setSize
  rw [h, Int.toNat_ofNat, List.take_length, Nat.sub_self]
  simp

/-- The loop over the patches of `Set1DSolutionVector`, ...: the weights stay as they are
and every dof of every patch gets its coordinates of `Nodes`. -/
theorem setPatches_loop (ops : PatchMapOps) (ext : NURBSExtension) (Nodes coords : List ℚ)
    (v N : Nat) (hndof : ext.GetNDof = (ext.weights.length : Int))
    (hcl : coords.length = N * v)
    (body : NURBSPatchMap × List ℚ × List ℚ → Nat →
      Except Fault (NURBSPatchMap × List ℚ × List ℚ))
    (hb : ∀ (p : Nat) (c : List ℚ), p < ext.GetNP → c.length = N * v →
      ∃ c', body (ext.mapBefore p, c, ext.weights) p =
          .ok (ext.mapBefore (p + 1), c', ext.weights) ∧
        c'.length = N * v ∧
        (∀ cell : Nat, cell < ext.patchCells p → ∀ d : Nat, d < v →
          rd c' (((cellDof ops ext p cell).toNat * v + d : Nat) : Int) =
            rd Nodes (((cellDof ops ext p cell).toNat * v + d : Nat) : Int)) ∧
        ∀ idx : Nat, rd c (idx : Int) = rd Nodes (idx : Int) →
          rd c' (idx : Int) = rd Nodes (idx : Int)) :
    ∃ c', (match forLoopM 0 ext.GetNP body ({}, coords, setSize ext.weights ext.GetNDof) with
        | .error e => .error e
        | .ok st => .ok st.2) = Except.ok (c', ext.weights) ∧
      c'.length = N * v ∧
      ∀ q : Nat, q < ext.GetNP → ∀ cell : Nat, cell < ext.patchCells q → ∀ d : Nat, d < v →
        rd c' (((cellDof ops ext q cell).toNat * v + d : Nat) : Int) =
          rd Nodes (((cellDof ops ext q cell).toNat * v + d : Nat) : Int) := by
  obtain ⟨t, h, h1, h2, h3⟩ := forCountM_chain ext.mapBefore body
    (fun s (t : List ℚ × List ℚ) => t.2 = ext.weights ∧ t.1.length = N * v ∧
      ∀ q : Nat, q < s → ∀ cell : Nat, cell < ext.patchCells q → ∀ d : Nat, d < v →
        rd t.1 (((cellDof ops ext q cell).toNat * v + d : Nat) : Int) =
          rd Nodes (((cellDof ops ext q cell).toNat * v + d : Nat) : Int)) ext.GetNP
    (fun p t hp hI => by
      obtain ⟨c, w⟩ := t
      obtain ⟨hI1, hI2, hI3⟩ := hI
      dsimp only at hI1 hI2 hI3
      subst hI1
      obtain ⟨c', e1, e2, e3, e4⟩ := hb p c hp hI2
      refine ⟨(c', ext.weights), e1, rfl, e2, ?_⟩
      intro q hq cell hcell d hd
      by_cases hqp : q < p
      · exact e4 _ (hI3 q hqp cell hcell d hd)
      · have : q = p := by omega
        subst this
        exact e3 cell hcell d hd)
    ext.GetNP 0 (coords, ext.weights) (by omega) ⟨rfl, hcl, fun q hq => by omega⟩
  obtain ⟨c', w⟩ := t
  dsimp only at h1 h2 h3
  subst h1
  refine ⟨c', ?_, h2, h3⟩
  unfold forLoopM
  rw [Nat.sub_zero, setSize_self _ _ hndof]
  have h' : forCountM body ext.GetNP 0 ({}, coords, ext.weights) =
      .ok (ext.mapBefore ext.GetNP, c', ext.weights) := h
  rw [h']

/-- `SetSolutionVector` on an extension whose patches are the nets of `Nodes`: the weights
stay as they are and every dof of every patch gets its coordinates of `Nodes`. -/
theorem SetSolutionVector_spec (debug : Bool) (ops : PatchMapOps) (ext : NURBSExtension)
    (Nodes coords : List ℚ) (v N : Nat)
    (hdim : ext.Dimension = 1 ∨ ext.Dimension = 2 ∨ ext.Dimension = 3)
    (hw : ext.weights.length = N) (hndof : ext.GetNDof = (ext.weights.length : Int))
    (hw0 : ∀ x ∈ ext.weights, x ≠ 0) (hcl : coords.length = N * v)
    (hr : ∀ p : Nat, p < ext.GetNP → ∀ l ∈ patchDofs ops ext p, 0 ≤ l ∧ l < (N : Int))
    (hps : ∀ q : Nat, q < ext.GetNP →
      ∃ P, ext.patches[q]? = some P ∧ patchNet ops ext Nodes v q P) :
    ∃ c', SetSolutionVector debug ops ext coords (v : Int) = .ok (c', ext.weights) ∧
      c'.length = N * v ∧
      ∀ q : Nat, q < ext.GetNP → ∀ cell : Nat, cell < ext.patchCells q → ∀ d : Nat, d < v →
        rd c' (((cellDof ops ext q cell).toNat * v + d : Nat) : Int) =
          rd Nodes (((cellDof ops ext q cell).toNat * v + d : Nat) : Int) := by
  unfold SetSolutionVector
  rcases hdim with h1 | h2 | h3
  · rw [if_pos h1]
    exact setPatches_loop ops ext Nodes coords v N hndof hcl _
      (fun p c hp hc => by
        obtain ⟨P, e1, e2⟩ := hps p hp
        exact set1Patch_spec debug ops ext Nodes v N h1 hw hw0 p (hr p hp) P e1 e2 c hc)
  · rw [if_neg (by omega), if_pos h2]
    exact setPatches_loop ops ext Nodes coords v N hndof hcl _
      (fun p c hp hc => by
        obtain ⟨P, e1, e2⟩ := hps p hp
        exact set2Patch_spec debug ops ext Nodes v N h2 hw hw0 p (hr p hp) P e1 e2 c hc)
  · rw [if_neg (by omega), if_neg (by omega)]
    exact setPatches_loop ops ext Nodes coords v N hndof hcl _
      (fun p c hp hc => by
        obtain ⟨P, e1, e2⟩ := hps p hp
        exact set3Patch_spec debug ops ext Nodes v N h3 hw hw0 p (hr p hp) P e1 e2 c hc)

end NURBSExtension

namespace NURBSExtension

theorem dofMapOf_congr (e1 e2 : NURBSExtension) (h : e1.SetPatchDofMap = e2.SetPatchDofMap) :
    ∀ p : Nat, e1.dofMapOf p = e2.dofMapOf p
  | 0 => by
    show (e1.SetPatchDofMap {} ((0 : Nat) : Int)).1 = (e2.SetPatchDofMap {} ((0 : Nat) : Int)).1
    rw [h]
  | p + 1 => by
    show (e1.SetPatchDofMap (e1.dofMapOf p) ((p + 1 : Nat) : Int)).1 =
      (e2.SetPatchDofMap (e2.dofMapOf p) ((p + 1 : Nat) : Int)).1
    rw [h, dofMapOf_congr e1 e2 h p]

theorem patchCells_congr (e1 e2 : NURBSExtension) (h : e1.SetPatchDofMap = e2.SetPatchDofMap)
    (hdim : e1.Dimension = e2.Dimension) (p : Nat) : e1.patchCells p = e2.patchCells p := by
  unfold patchCells
  rw [h, hdim]

theorem cellDof_congr (ops : PatchMapOps) (e1 e2 : NURBSExtension)
    (h : e1.SetPatchDofMap = e2.SetPatchDofMap) (hdim : e1.Dimension = e2.Dimension)
    (p c : Nat) : cellDof ops e1 p c = cellDof ops e2 p c := by
  unfold cellDof
  rw [h, hdim, dofMapOf_congr e1 e2 h]

theorem patchDofs_congr (ops : PatchMapOps) (e1 e2 : NURBSExtension)
    (h : e1.SetPatchDofMap = e2.SetPatchDofMap) (hdim : e1.Dimension = e2.Dimension)
    (p : Nat) : patchDofs ops e1 p = patchDofs ops e2 p := by
  rw [patchDofs_eq, patchDofs_eq, patchCells_congr e1 e2 h hdim]
  apply List.map_congr_left
  intro c _
  exact cellDof_congr ops e1 e2 h hdim p c

theorem patchNet_congr (ops : PatchMapOps) (e1 e2 : NURBSExtension)
    (h : e1.SetPatchDofMap = e2.SetPatchDofMap) (hdim : e1.Dimension = e2.Dimension)
    (hw : e1.weights = e2.weights) (coords : List ℚ) (v q : Nat) (P : NURBSPatch)
    (hn : patchNet ops e1 coords v q P) : patchNet ops e2 coords v q P := by
  unfold patchNet at hn ⊢
  rw [h, hdim, hw, patchCells_congr e1 e2 h hdim,
    funext (cellDof_congr ops e1 e2 h hdim q)] at hn
  exact hn

/-- An entry of a coordinate vector belongs to the dof `i / v`. -/
theorem dof_of_index (i N v : Nat) (hv : 0 < v) (h : i < N * v) :
    i / v < N ∧ i % v < v ∧ i / v * v + i % v = i :=
  ⟨Nat.div_lt_of_lt_mul (by rw [Nat.mul_comm]; exact h), Nat.mod_lt _ hv, Nat.div_add_mod' i v⟩

/-- C18, counterexample: the segment `exPeriodicSegment` with a periodic boundary.  It is
the state `ConnectBoundaries` leaves (`NumOfDofs = 2`, `d_to_d = [0, 0, 1]`), its weights
`[1, 1]` are not zero and `Nodes = [10, 20]` has the right size.  `ConvertToPatches` builds
the patch `(10, 1), (20, 1), (10, 1)` through `d_to_d`, but `SetCoordsFromPatches` numbers
the three control points `0, 2, 1` without `d_to_d` and writes entry `2` of a vector of
size `2`: it fails, in debug and release builds alike. -/
theorem roundTrip_counterexample :
    (∃ e, ConnectBoundaries true exOps { exSegmentExt with master := [1], slave := [2] } =
        .ok e ∧ e.NumOfDofs = exPeriodicSegment.NumOfDofs ∧
      e.d_to_d = exPeriodicSegment.d_to_d) ∧
    exPeriodicSegment.d_to_d = [0, 0, 1] ∧ exPeriodicSegment.weights = [1, 1] ∧
    patchDofs exOps exPeriodicSegment 0 = [0, 2, 1] ∧
    ∃ e1, ConvertToPatches exOps exPeriodicSegment [10, 20] = .ok e1 ∧
      e1.patches.map (fun P => P.data) = [[10, 1, 20, 1, 10, 1]] ∧
      SetCoordsFromPatches true exOps e1 [0, 0] = .error .outOfBounds ∧
      SetCoordsFromPatches false exOps e1 [0, 0] = .error .outOfBounds :=
  ⟨⟨_, rfl, by decide, by decide⟩, rfl, rfl, by decide, _, by with_unfolding_all rfl,
    by with_unfolding_all rfl, by with_unfolding_all rfl, by with_unfolding_all rfl⟩

/-- C18, amended: for an extension without periodic boundaries (`d_to_d` empty, so `DofMap`
is the identity) that holds no patches, with one non-zero weight per dof, whose patch maps
number the control points of the patches with the dofs `0, ..., n-1` and reach each of
them, and for coordinate vectors `Nodes` and `Nodes2` of the size `n * Dimension`:
`ConvertToPatches(Nodes)` followed by `SetCoordsFromPatches(Nodes2)` succeeds and leaves
`Nodes2` equal to `Nodes` and the weights equal to the original weights, exactly. -/
theorem roundTrip_spec (debug : Bool) (ops : PatchMapOps) (ext : NURBSExtension)
    (Nodes Nodes2 : List ℚ)
    (hdim : ext.Dimension = 1 ∨ ext.Dimension = 2 ∨ ext.Dimension = 3)
    (hpat : ext.patches = []) (hd : ext.d_to_d = [])
    (hndof : ext.GetNDof = (ext.weights.length : Int))
    (hw0 : ∀ x ∈ ext.weights, x ≠ 0)
    (hlen : Nodes.length = ext.weights.length * ext.Dimension.toNat)
    (hlen2 : Nodes2.length = Nodes.length)
    (hrange : ∀ p : Nat, p < ext.GetNP →
      ∀ l ∈ patchDofs ops ext p, 0 ≤ l ∧ l < (ext.weights.length : Int))
    (hcover : ∀ l : Nat, l < ext.weights.length →
      ∃ p : Nat, p < ext.GetNP ∧ (l : Int) ∈ patchDofs ops ext p) :
    ∃ e1 e2, ConvertToPatches ops ext Nodes = .ok e1 ∧
      SetCoordsFromPatches debug ops e1 Nodes2 = .ok (e2, Nodes) ∧
      e2.weights = ext.weights := by
  obtain ⟨v, hv, hv0⟩ : ∃ v : Nat, ext.Dimension = (v : Int) ∧ 0 < v :=
    ⟨ext.Dimension.toNat, by omega, by omega⟩
  have hvn : ext.Dimension.toNat = v := by omega
  rw [hvn] at hlen
  have hS1 : SetPatchDofMap { ext with el_dof := { rows := [] } } = SetPatchDofMap ext := rfl
  obtain ⟨ps, hget, hlenps, hnets⟩ := GetPatchNets_spec ops { ext with el_dof := { rows := [] } }
    Nodes v ext.weights.length hdim hd hlen rfl
    (fun p hp l hl => hrange p hp l (by rw [← patchDofs_congr ops _ ext hS1 rfl p]; exact hl))
  have hlenps : ps.length = ext.GetNP := hlenps
  have hconv : ConvertToPatches ops ext Nodes =
      .ok { ext with el_dof := { rows := [] }, patches := ps } := by
    have hv1 : Dimension { ext with el_dof := { rows := [] } } = (v : Int) := hv
    unfold ConvertToPatches
    dsimp only
    rw [if_pos (by rw [hpat]; rfl), hv1, hget]
  refine ⟨_, ?_, hconv, ?_⟩
  · exact if ps.length = 0 then { ext with el_dof := { rows := [] }, patches := ps }
      else { ext with el_dof := { rows := [] }, patches := [] }
  unfold SetCoordsFromPatches
  by_cases hps : ps.length = 0
  · rw [if_pos hps, if_pos hps]
    have hN : ext.weights.length = 0 := by
      by_contra hne
      obtain ⟨p, hp, _⟩ := hcover 0 (by omega)
      have : ext.GetNP = 0 := by rw [← hlenps]; exact hps
      omega
    rw [hN, Nat.zero_mul] at hlen
    rw [hlen] at hlen2
    rw [List.length_eq_zero.mp hlen, List.length_eq_zero.mp hlen2]
    exact ⟨rfl, rfl⟩
  · rw [if_neg hps, if_neg hps]
    have hS2 : SetPatchDofMap { ext with el_dof := { rows := [] }, patches := ps } =
      SetPatchDofMap ext := rfl
    obtain ⟨c', hset, hcl, hgood⟩ := SetSolutionVector_spec debug ops
      { ext with el_dof := { rows := [] }, patches := ps } Nodes Nodes2 v ext.weights.length
      hdim rfl hndof hw0 (by rw [hlen2, hlen])
      (fun p hp l hl => hrange p hp l (by rw [← patchDofs_congr ops _ ext hS2 rfl p]; exact hl))
      (fun q hq => by
        obtain ⟨P, e1, e2⟩ := hnets q hq
        exact ⟨P, e1, patchNet_congr ops { ext with el_dof := { rows := [] } }
          { ext with el_dof := { rows := [] }, patches := ps } rfl rfl rfl Nodes v q P e2⟩)
    have hset' : SetSolutionVector debug ops
        { ext with el_dof := { rows := [] }, patches := ps } Nodes2
        (Dimension { ext with el_dof := { rows := [] }, patches := ps }) =
        .ok (c', ext.weights) := by
      have hv2 : Dimension { ext with el_dof := { rows := [] }, patches := ps } = (v : Int) := hv
      rw [hv2]
      exact hset
    rw [hset']
    have hc' : c' = Nodes := by
      apply list_ext_rd c' Nodes (by rw [hcl, hlen])
      intro i hi
      rw [hcl] at hi
      obtain ⟨a, b, c⟩ := dof_of_index i _ v hv0 hi
      obtain ⟨p, hp, hmem⟩ := hcover (i / v) a
      rw [patchDofs_eq] at hmem
      obtain ⟨cell, hcell, hcd⟩ := List.mem_map.mp hmem
      have := hgood p hp cell
        (by rw [patchCells_congr _ ext hS2 rfl]; exact List.mem_range.mp hcell) (i % v) b
      rw [cellDof_congr ops _ ext hS2 rfl, hcd, Int.toNat_ofNat, c] at this
      exact this
    rw [hc']
    exact ⟨rfl, rfl⟩

/-- Instance of `roundTrip_spec`: the segment `exSegmentExt` (three dofs, numbered
`0, 2, 1` along the patch, weights `1`) with `Nodes = [10, 20, 30]`. -/
theorem roundTrip_spec_witness :
    ∃ e1 e2, ConvertToPatches exOps exSegmentExt [10, 20, 30] = .ok e1 ∧
      SetCoordsFromPatches true exOps e1 [0, 0, 0] = .ok (e2, [10, 20, 30]) ∧
      e2.weights = exSegmentExt.weights :=
  roundTrip_spec true exOps exSegmentExt [10, 20, 30] [0, 0, 0] (by decide) rfl rfl
    (by decide) (by simp [exSegmentExt]) rfl rfl (by decide)
    (fun l hl => ⟨0, by decide, by
      have : l < 3 := hl
      interval_cases l <;> decide⟩)

end NURBSExtension

/-! ### Element dof tables -/

theorem takeWhile_dropWhile_append {α : Type} (p : α → Bool) (l1 l2 : List α)
    (h1 : ∀ a ∈ l1, p a = true) (h2 : ∀ a ∈ l2, p a = false) :
    (l1 ++ l2).takeWhile p = l1 ∧ (l1 ++ l2).dropWhile p = l2 := by
  induction l1 with
  | nil =>
    cases l2 with
    | nil => exact ⟨rfl, rfl⟩
    | cons a t =>
      have := h2 a (List.mem_cons_self _ _)
      simp [List.takeWhile, List.dropWhile, this]
  | cons a t ih =>
    have ha := h1 a (List.mem_cons_self _ _)
    obtain ⟨i1, i2⟩ := ih (fun x hx => h1 x (List.mem_cons_of_mem _ hx))
    rw [List.cons_append, List.takeWhile_cons, List.dropWhile_cons, ha]
    exact ⟨by rw [if_pos rfl, i1], by rw [if_pos rfl, i2]⟩

theorem flatMap_if_singleton {α β : Type} (P : α → Bool) (G : α → List β) (l : List α) :
    l.flatMap (fun i => if P i then G i else []) = (l.filter P).flatMap G := by
  induction l with
  | nil => rfl
  | cons a t ih =>
    rw [List.flatMap_cons, ih, List.filter_cons]
    cases P a <;> simp

theorem length_flatMap_const {α β : Type} (g : α → List β) (c : Nat) (l : List α)
    (h : ∀ x ∈ l, (g x).length = c) : (l.flatMap g).length = l.length * c := by
  induction l with
  | nil => simp
  | cons a t ih =>
    rw [List.flatMap_cons, List.length_append, h a (List.mem_cons_self _ _),
      ih (fun x hx => h x (List.mem_cons_of_mem _ hx)), List.length_cons, Nat.succ_mul]
    omega

theorem forLoopIntM_toNat {σ : Type} (hi : Int) (body : σ → Int → Except Fault σ) (s : σ) :
    forLoopIntM 0 hi body s = forLoopIntM 0 ((hi.toNat : Nat) : Int) body s := by
  unfold forLoopIntM
  rw [Int.sub_zero, Int.sub_zero, Int.toNat_ofNat]

/-- A loop `for i: if (test(i)) { inner }` whose inner part applies a step to the entries
of the list `G i` applies the step to the lists of the indices that pass the test. -/
theorem forLoopIntM_filter {σ α : Type} (step : σ → α → Except Fault σ) (P : Int → Bool)
    (G : Nat → List α) (inner : σ → Int → Except Fault σ) (hi : Int) (st : σ)
    (hb : ∀ (s : σ) (i : Nat), inner s (i : Int) = foldE step (G i) s) :
    forLoopIntM 0 hi (fun s i => if P i then inner s i else .ok s) st =
      foldE step (((List.range hi.toNat).filter (fun (i : Nat) => P i)).flatMap G) st := by
  rw [forLoopIntM_toNat, forLoopIntM_foldE step (fun i => if P (i : Int) then G i else [])
    _ (fun _ => True) (fun _ _ _ _ _ => trivial) hi.toNat st trivial,
    flatMap_if_singleton (fun (i : Nat) => P i) G]
  intro s i _ _
  dsimp only
  cases P (i : Int)
  · rfl
  · simp only [if_true]
    exact hb s i

theorem foldE_singleton {σ α : Type} (step : σ → α → Except Fault σ) (a : α) (s : σ) :
    foldE step [a] s = step s a := by
  simp only [foldE]
  cases step s a <;> rfl

namespace Table

theorem rowsOfList_nil : ∀ (n : Nat) (i : Int), rowsOfList n i [] = List.replicate n []
  | 0, _ => rfl
  | n + 1, i => by
    rw [rowsOfList, List.takeWhile_nil, List.dropWhile_nil, rowsOfList_nil n (i + 1),
      List.replicate_succ]
    rfl

theorem length_rowsOfList : ∀ (n : Nat) (i : Int) (l : List (Int × Int)),
    (rowsOfList n i l).length = n
  | 0, _, _ => rfl
  | n + 1, i, l => by
    rw [rowsOfList, List.length_cons, length_rowsOfList n]

theorem mapRow_ok (f : Int → Except Fault Int) (g : Int → Int) :
    ∀ row : List Int, (∀ d ∈ row, f d = .ok (g d)) → mapRow f row = .ok (row.map g)
  | [], _ => rfl
  | d :: rest, h => by
    rw [mapRow, h d (List.mem_cons_self _ _)]
    dsimp only
    rw [mapRow_ok f g rest (fun x hx => h x (List.mem_cons_of_mem _ hx))]
    rfl

theorem mapRows_ok (f : Int → Except Fault Int) (g : Int → Int) :
    ∀ rows : List (List Int), (∀ row ∈ rows, ∀ d ∈ row, f d = .ok (g d)) →
      mapRows f rows = .ok (rows.map (List.map g))
  | [], _ => rfl
  | row :: rest, h => by
    rw [mapRows, mapRow_ok f g row (h row (List.mem_cons_self _ _))]
    dsimp only
    rw [mapRows_ok f g rest (fun r hr => h r (List.mem_cons_of_mem _ hr))]
    rfl

end Table

namespace NURBSExtension

theorem connList_from : ∀ (bl : List (List Int)) (e : Int), ∀ c ∈ connList e bl, e ≤ c.1
  | [], _, c, h => by simp [connList] at h
  | b :: rest, e, c, h => by
    rw [connList, List.mem_append] at h
    rcases h with h | h
    · obtain ⟨d, _, rfl⟩ := List.mem_map.mp h
      exact le_refl _
    · have := connList_from rest (e + 1) c h
      omega

theorem connList_snd : ∀ (bl : List (List Int)) (e : Int),
    (connList e bl).map (fun c => c.2) = bl.flatten
  | [], _ => rfl
  | b :: rest, e => by
    rw [connList, List.map_append, connList_snd rest (e + 1), List.flatten_cons, List.map_map]
    congr 1
    exact List.map_id' _

/-- The table built from the connections of a list of stencils has the stencils as its
first rows; the remaining rows are empty. -/
theorem rowsOfList_connList : ∀ (bl : List (List Int)) (n : Nat) (e : Int), bl.length ≤ n →
    Table.rowsOfList n e (connList e bl) = bl ++ List.replicate (n - bl.length) []
  | [], n, e, _ => by
    rw [connList, Table.rowsOfList_nil]
    rfl
  | b :: rest, 0, e, h => by simp at h
  | b :: rest, n + 1, e, h => by
    obtain ⟨h1, h2⟩ := takeWhile_dropWhile_append (fun (c : Int × Int) => c.1 == e)
      (b.map (fun d => (e, d))) (connList (e + 1) rest)
      (fun a ha => by
        obtain ⟨d, _, rfl⟩ := List.mem_map.mp ha
        simp)
      (fun a ha => by
        have := connList_from rest (e + 1) a ha
        simp only [beq_eq_false_iff_ne, ne_eq]
        omega)
    rw [connList, Table.rowsOfList, h1, h2, rowsOfList_connList rest n (e + 1)
      (by simpa using h), List.map_map]
    simp only [List.length_cons, Nat.succ_sub_succ, List.cons_append]
    congr 1
    exact List.map_id' _

theorem activeFrom_length {α : Type} (act : List Bool) :
    ∀ (W : List α) (g : Nat), g + W.length = act.length →
      (activeFrom act g W).length = (act.drop g).count true
  | [], g, h => by
    rw [activeFrom, List.drop_of_length_le (by simp at h; omega)]
    rfl
  | v :: rest, g, h => by
    have hg : g < act.length := by simp at h; omega
    rw [activeFrom, List.drop_eq_getElem_cons hg, List.getD_eq_getElem _ _ hg]
    have ih := activeFrom_length act rest (g + 1) (by simp at h; omega)
    cases hb : act[g]
    · simp [ih]
    · simp [ih]

end NURBSExtension

theorem foldE_cons_ok {σ α : Type} (step : σ → α → Except Fault σ) (a : α) (l : List α)
    (s s1 : σ) (h : step s a = .ok s1) : foldE step (a :: l) s = foldE step l s1 := by
  rw [foldE, h]

namespace NURBSExtension

theorem length_wrIChk (a a1 : List Int) (i x : Int) (h : wrIChk a i x = .ok a1) :
    a1.length = a.length := by
  unfold wrIChk at h
  split at h
  · cases h; simp
  · cases h

/-- The stencil loops of an element, as one pass over the dofs `ds` of the stencil: the
dofs are marked in `activeDof` and their connections are appended. -/
theorem addConnections (L : Nat) : ∀ (ds : List Int) (s : ElemTableState),
    s.activeDof.length = L → (∀ d ∈ ds, 0 ≤ d ∧ d < (L : Int)) →
    ∃ a, foldE (fun s d => addConnection d s) ds s =
        .ok { s with activeDof := a,
                     el_dof_list := s.el_dof_list ++ ds.map (fun d => (s.el, d)) } ∧
      a.length = L ∧
      ∀ v : Nat, rdI a (v : Int) = if (v : Int) ∈ ds then 1 else rdI s.activeDof (v : Int)
  | [], s, hl, _ => by
    refine ⟨s.activeDof, ?_, hl, fun v => by simp⟩
    simp [foldE]
  | d :: rest, s, hl, hd => by
    obtain ⟨h0, h1⟩ := hd d (List.mem_cons_self _ _)
    obtain ⟨m, hm, rfl⟩ := exists_nat_of_range d L h0 h1
    obtain ⟨a, e1, e2, e3⟩ := addConnections L rest
      { s with activeDof := s.activeDof.set m 1,
               el_dof_list := s.el_dof_list ++ [(s.el, (m : Int))] }
      (by simp [hl]) (fun x hx => hd x (List.mem_cons_of_mem _ hx))
    refine ⟨a, ?_, e2, ?_⟩
    · rw [foldE, addConnection, wrIChk_ok _ m 1 (by omega)]
      dsimp only
      rw [e1]
      simp
    · intro v
      rw [e3 v]
      dsimp only
      rw [rdI_set]
      by_cases hv : (v : Int) ∈ rest
      · simp [hv]
      · by_cases hvm : m = v
        · subst hvm
          simp [hl, hm]
        · have : ¬ (v : Int) = (m : Int) := by omega
          simp [hv, hvm, this]

/-- The statements that record the indices of an element succeed when the element number
is within the array and there are enough columns. -/
theorem setIJK_ok (n e A : Nat) (he : e < A) : ∀ (ijk : List Int) (c : Nat) (a : List Int),
    a.length = A * n → c + ijk.length ≤ n →
    ∃ a1, setIJK (n : Int) (e : Int) (c : Int) ijk a = .ok a1 ∧ a1.length = A * n
  | [], _, a, hl, _ => ⟨a, rfl, hl⟩
  | x :: rest, c, a, hl, hc => by
    have hidx : e * n + c < A * n := by
      have := Nat.mul_le_mul_right n (Nat.succ_le_of_lt he)
      rw [Nat.succ_mul] at this
      simp at hc
      omega
    have e1 : (e : Int) * (n : Int) + (c : Int) = ((e * n + c : Nat) : Int) := by push_cast; ring
    obtain ⟨a1, h1, h2⟩ := setIJK_ok n e A he rest (c + 1) (a.set (e * n + c) x)
      (by simp [hl]) (by simp at hc ⊢; omega)
    refine ⟨a1, ?_, h2⟩
    rw [setIJK, e1, wrIChk_ok _ _ _ (by omega)]
    exact h1

theorem rdI_cons_succ (x : Int) (l : List Int) (k : Nat) :
    rdI (x :: l) ((k + 1 : Nat) : Int) = rdI l (k : Int) := by
  rw [rdI_natCast, rdI_natCast]
  rfl

theorem rdI_cons_zero (x : Int) (l : List Int) : rdI (x :: l) ((0 : Nat) : Int) = x := by
  rw [rdI_natCast]
  rfl

theorem activeElemAt_ok (ext : NURBSExtension) (g : Nat) (h : g < ext.activeElem.length) :
    ext.activeElemAt (g : Int) = .ok (ext.activeElem.getD g false) := by
  unfold activeElemAt
  rw [if_pos (by omega), Int.toNat_ofNat, List.getElem?_eq_getElem h,
    List.getD_eq_getElem _ _ h]

/-- The loops over the elements, as one pass over a list `W` of elements with their patch,
indices and stencil dofs, starting at the element numbers `el = e0` and `eg = g0`: the
active elements of `W` get the numbers `e0, e0+1, ...`, their stencils are appended to the
list of connections, their dofs are marked and their patches recorded. -/
theorem visits_fold (ext : NURBSExtension) (n A L : Nat) :
    ∀ (W : List (Int × List Int × List Int)) (s : ElemTableState) (e0 g0 : Nat),
      s.el = (e0 : Int) → s.eg = (g0 : Int) → g0 + W.length ≤ ext.activeElem.length →
      e0 + (activeFrom ext.activeElem g0 W).length ≤ A →
      s.el_to_patch.length = A → s.el_to_IJK.length = A * n → s.activeDof.length = L →
      (∀ v ∈ W, ∀ d ∈ v.2.2, 0 ≤ d ∧ d < (L : Int)) → (∀ v ∈ W, v.2.1.length ≤ n) →
      ∃ s', foldE (fun (s : ElemTableState) (v : Int × List Int × List Int) =>
            visitElement ext (n : Int) v.1 v.2.1
              (foldE (fun s d => addConnection d s) v.2.2) s) W s = .ok s' ∧
        s'.el = ((e0 + (activeFrom ext.activeElem g0 W).length : Nat) : Int) ∧
        s'.el_dof_list = s.el_dof_list ++
          connList (e0 : Int) ((activeFrom ext.activeElem g0 W).map (fun v => v.2.2)) ∧
        s'.activeDof.length = L ∧
        (∀ v : Nat, rdI s'.activeDof (v : Int) =
          if (v : Int) ∈ ((activeFrom ext.activeElem g0 W).map (fun v => v.2.2)).flatten then 1
          else rdI s.activeDof (v : Int)) ∧
        s'.el_to_patch.length = A ∧
        (∀ k : Nat, k < (activeFrom ext.activeElem g0 W).length →
          rdI s'.el_to_patch ((e0 + k : Nat) : Int) =
            rdI ((activeFrom ext.activeElem g0 W).map (fun v => v.1)) (k : Int)) ∧
        ∀ e : Nat, e < e0 → rdI s'.el_to_patch (e : Int) = rdI s.el_to_patch (e : Int)
  | [], s, e0, g0, hel, _, _, _, hp, _, hl, _, _ => by
    refine ⟨s, rfl, by simpa [activeFrom] using hel, by simp [activeFrom, connList], hl,
      fun v => by simp [activeFrom], hp, fun k hk => by simp [activeFrom] at hk,
      fun _ _ => rfl⟩
  | v :: W, s, e0, g0, hel, heg, hact, hA, hp, hijk, hl, hd, hn => by
    have hg : g0 < ext.activeElem.length := by simp at hact; omega
    have hstep0 := activeElemAt_ok ext g0 hg
    cases hb : ext.activeElem.getD g0 false
    · -- the element is not active
      have hAF : activeFrom ext.activeElem g0 (v :: W) = activeFrom ext.activeElem (g0 + 1) W := by
        rw [activeFrom, hb]
        rfl
      rw [hAF] at hA ⊢
      obtain ⟨s', h, r⟩ := visits_fold ext n A L W { s with eg := (g0 : Int) + 1 } e0 (g0 + 1)
        hel (by push_cast; rfl) (by simp at hact ⊢; omega) hA hp hijk hl
        (fun x hx => hd x (List.mem_cons_of_mem _ hx))
        (fun x hx => hn x (List.mem_cons_of_mem _ hx))
      refine ⟨s', ?_, r⟩
      have hv : visitElement ext (n : Int) v.1 v.2.1
          (foldE (fun s d => addConnection d s) v.2.2) s =
          .ok { s with eg := (g0 : Int) + 1 } := by
        unfold visitElement
        rw [heg, hstep0, hb]
        rfl
      rw [foldE_cons_ok _ _ _ _ _ hv]
      exact h
    · -- the element is active
      have hAF : activeFrom ext.activeElem g0 (v :: W) =
          v :: activeFrom ext.activeElem (g0 + 1) W := by
        rw [activeFrom, hb]
        rfl
      rw [hAF] at hA ⊢
      simp only [List.length_cons] at hA
      obtain ⟨a, c1, c2, c3⟩ := addConnections L v.2.2 s hl (hd v (List.mem_cons_self _ _))
      obtain ⟨ijk, i1, i2⟩ := setIJK_ok n e0 A (by omega) v.2.1 0 s.el_to_IJK hijk
        (by have := hn v (List.mem_cons_self _ _); omega)
      obtain ⟨s', h, r1, r2, r3, r4, r5, r6, r7⟩ := visits_fold ext n A L W
        { el := (e0 : Int) + 1, eg := (g0 : Int) + 1,
          el_dof_list := s.el_dof_list ++ v.2.2.map (fun d => (s.el, d)),
          activeDof := a, el_to_patch := s.el_to_patch.set e0 v.1, el_to_IJK := ijk }
        (e0 + 1) (g0 + 1) (by push_cast; rfl) (by push_cast; rfl) (by simp at hact ⊢; omega)
        (by omega) (by simp [hp]) i2 c2
        (fun x hx => hd x (List.mem_cons_of_mem _ hx))
        (fun x hx => hn x (List.mem_cons_of_mem _ hx))
      refine ⟨s', ?_, ?_, ?_, r3, ?_, r5, ?_, ?_⟩
      · have i1' : setIJK (n : Int) (e0 : Int) 0 v.2.1 s.el_to_IJK = .ok ijk := i1
        have hv : visitElement ext (n : Int) v.1 v.2.1
            (foldE (fun s d => addConnection d s) v.2.2) s =
            .ok { el := (e0 : Int) + 1, eg := (g0 : Int) + 1,
                  el_dof_list := s.el_dof_list ++ v.2.2.map (fun d => (s.el, d)),
                  activeDof := a, el_to_patch := s.el_to_patch.set e0 v.1,
                  el_to_IJK := ijk } := by
          have hae : ext.activeElemAt s.eg = .ok true := by rw [heg, hstep0, hb]
          unfold visitElement
          rw [hae]
          simp only [if_true]
          rw [c1]
          dsimp only
          rw [recordElement]
          dsimp only
          rw [hel, wrIChk_ok _ e0 _ (by omega)]
          dsimp only
          rw [i1']
          dsimp only
          rw [heg]
        rw [foldE_cons_ok _ _ _ _ _ hv]
        exact h
      · rw [r1]
        simp only [List.length_cons]
        congr 1
        omega
      · rw [r2]
        dsimp only
        rw [List.map_cons, connList, hel, List.append_assoc]
        push_cast
        rfl
      · intro x
        rw [r4 x]
        dsimp only
        rw [c3 x]
        by_cases h1 : (x : Int) ∈ v.2.2 <;>
          by_cases h2 : (x : Int) ∈
            ((activeFrom ext.activeElem (g0 + 1) W).map (fun v => v.2.2)).flatten <;>
          simp [h1, h2]
      · intro k hk
        cases k with
        | zero =>
          rw [Nat.add_zero, r7 e0 (by omega)]
          dsimp only
          rw [rdI_set, List.map_cons, rdI_cons_zero]
          simp [hp]
          omega
        | succ k =>
          simp only [List.length_cons] at hk
          have := r6 k (by omega)
          rw [List.map_cons, rdI_cons_succ, ← this]
          congr 2
          omega
      · intro e he
        rw [r7 e (by omega)]
        dsimp only
        rw [rdI_set]
        simp
        omega

end NURBSExtension

namespace NURBSExtension

theorem order_succ (k : KnotVector) : ((k.GetOrder : Nat) : Int) + 1 = ((k.GetOrder + 1 : Nat) : Int) := by
  push_cast
  rfl

/-- The body of the loop over the patches in `Generate1DElementDofTable`, as one pass over
the elements of the patch. -/
theorem gen1Patch_fold (ops : PatchMapOps) (ext : NURBSExtension) (hdim : ext.Dimension = 1)
    (p : Nat) (s : ElemTableState) :
    gen1Patch ops ext (ext.mapBefore p, s) p =
      match foldE (fun (s : ElemTableState) (v : Int × List Int × List Int) =>
          visitElement ext 2 v.1 v.2.1 (foldE (fun s d => addConnection d s) v.2.2) s)
        ((patchStencils ops ext p).map (fun x => ((p : Int), x))) s with
      | .error e => .error e
      | .ok s' => .ok (ext.mapBefore (p + 1), s') := by
  unfold gen1Patch
  dsimp only
  rw [SetPatchDofMap_snd, ← dofMapOf_eq]
  rw [forLoopIntM_filter
    (fun (s : ElemTableState) (v : Int × List Int × List Int) =>
      visitElement ext 2 v.1 v.2.1 (foldE (fun s d => addConnection d s) v.2.2) s)
    (fun i => (kvAt (ext.SetPatchDofMap {} (p : Int)).2 0).isElement i)
    (fun (i : Nat) => [((p : Int), [(i : Int)],
      (List.range ((kvAt (ext.SetPatchDofMap {} (p : Int)).2 0).GetOrder + 1)).map
        (fun (ii : Nat) => ext.DofMap (ops.at1 (ext.dofMapOf p) ((i : Int) + ii))))])
    _ _ _
    (fun s i => by
      rw [foldE_singleton]
      dsimp only
      have hst : (fun s => forLoopIntM 0
            (((kvAt (ext.SetPatchDofMap {} (p : Int)).2 0).GetOrder : Int) + 1)
            (fun s ii => addConnection (ext.DofMap (ops.at1 (ext.dofMapOf p) ((i : Int) + ii))) s)
            s) =
          foldE (fun s d => addConnection d s)
            ((List.range ((kvAt (ext.SetPatchDofMap {} (p : Int)).2 0).GetOrder + 1)).map
              (fun (ii : Nat) => ext.DofMap (ops.at1 (ext.dofMapOf p) ((i : Int) + ii)))) := by
        funext s
        rw [order_succ, forLoopIntM_foldE_map (fun s d => addConnection d s)
          (fun (ii : Nat) => ext.DofMap (ops.at1 (ext.dofMapOf p) ((i : Int) + ii))) _
          (fun _ => True) (fun _ _ _ _ _ => trivial) _ s trivial (fun _ _ _ _ => rfl)]
      rw [hst])]
  have hl : ((List.range (kvAt (ext.SetPatchDofMap {} (p : Int)).2 0).GetNKS.toNat).filter
        (fun (i : Nat) => (kvAt (ext.SetPatchDofMap {} (p : Int)).2 0).isElement i)).flatMap
      (fun (i : Nat) => [((p : Int), [(i : Int)],
        (List.range ((kvAt (ext.SetPatchDofMap {} (p : Int)).2 0).GetOrder + 1)).map
          (fun (ii : Nat) => ext.DofMap (ops.at1 (ext.dofMapOf p) ((i : Int) + ii))))]) =
      (patchStencils ops ext p).map (fun x => ((p : Int), x)) := by
    unfold patchStencils
    dsimp only
    rw [if_pos hdim, flatMap_singleton_map, List.map_map]
    rfl
  rw [hl]
  rfl

end NURBSExtension

namespace NURBSExtension

/-- The stencil loops of an element of a two-dimensional patch, as one pass over its
dofs. -/
theorem stencil2 (ops : PatchMapOps) (ext : NURBSExtension) (m : NURBSPatchMap) (o0 o1 : Nat)
    (i j : Int) :
    (fun s => forLoopIntM 0 ((o1 : Int) + 1)
      (fun s jj => forLoopIntM 0 ((o0 : Int) + 1)
        (fun s ii => addConnection (ext.DofMap (ops.at2 m (i + ii) (j + jj))) s) s) s) =
      foldE (fun s d => addConnection d s)
        ((List.range (o1 + 1)).flatMap (fun (jj : Nat) =>
          (List.range (o0 + 1)).map (fun (ii : Nat) =>
            ext.DofMap (ops.at2 m (i + ii) (j + jj))))) := by
  funext s
  have e0 : (o0 : Int) + 1 = ((o0 + 1 : Nat) : Int) := by push_cast; rfl
  have e1 : (o1 : Int) + 1 = ((o1 + 1 : Nat) : Int) := by push_cast; rfl
  rw [e0, e1]
  exact forLoopIntM_foldE (fun s d => addConnection d s)
    (fun (jj : Nat) => (List.range (o0 + 1)).map (fun (ii : Nat) =>
      ext.DofMap (ops.at2 m (i + ii) (j + jj)))) _
    (fun _ => True) (fun _ _ _ _ _ => trivial) _ s trivial
    (fun s jj _ _ => forLoopIntM_foldE_map (fun s d => addConnection d s)
      (fun (ii : Nat) => ext.DofMap (ops.at2 m (i + ii) (j + jj))) _
      (fun _ => True) (fun _ _ _ _ _ => trivial) _ s trivial (fun _ _ _ _ => rfl))

/-- The stencil loops of an element of a three-dimensional patch, as one pass over its
dofs. -/
theorem stencil3 (ops : PatchMapOps) (ext : NURBSExtension) (m : NURBSPatchMap)
    (o0 o1 o2 : Nat) (i j k : Int) :
    (fun s => forLoopIntM 0 ((o2 : Int) + 1)
      (fun s kk => forLoopIntM 0 ((o1 : Int) + 1)
        (fun s jj => forLoopIntM 0 ((o0 : Int) + 1)
          (fun s ii => addConnection (ext.DofMap (ops.at3 m (i + ii) (j + jj) (k + kk))) s) s)
        s) s) =
      foldE (fun s d => addConnection d s)
        ((List.range (o2 + 1)).flatMap (fun (kk : Nat) =>
          (List.range (o1 + 1)).flatMap (fun (jj : Nat) =>
            (List.range (o0 + 1)).map (fun (ii : Nat) =>
              ext.DofMap (ops.at3 m (i + ii) (j + jj) (k + kk)))))) := by
  funext s
  have e0 : (o0 : Int) + 1 = ((o0 + 1 : Nat) : Int) := by push_cast; rfl
  have e1 : (o1 : Int) + 1 = ((o1 + 1 : Nat) : Int) := by push_cast; rfl
  have e2 : (o2 : Int) + 1 = ((o2 + 1 : Nat) : Int) := by push_cast; rfl
  rw [e0, e1, e2]
  exact forLoopIntM_foldE (fun s d => addConnection d s)
    (fun (kk : Nat) => (List.range (o1 + 1)).flatMap (fun (jj : Nat) =>
      (List.range (o0 + 1)).map (fun (ii : Nat) =>
        ext.DofMap (ops.at3 m (i + ii) (j + jj) (k + kk))))) _
    (fun _ => True) (fun _ _ _ _ _ => trivial) _ s trivial
    (fun s kk _ _ => forLoopIntM_foldE (fun s d => addConnection d s)
      (fun (jj : Nat) => (List.range (o0 + 1)).map (fun (ii : Nat) =>
        ext.DofMap (ops.at3 m (i + ii) (j + jj) (k + kk)))) _
      (fun _ => True) (fun _ _ _ _ _ => trivial) _ s trivial
      (fun s jj _ _ => forLoopIntM_foldE_map (fun s d => addConnection d s)
        (fun (ii : Nat) => ext.DofMap (ops.at3 m (i + ii) (j + jj) (k + kk))) _
        (fun _ => True) (fun _ _ _ _ _ => trivial) _ s trivial (fun _ _ _ _ => rfl)))

/-- The body of the loop over the patches in `Generate2DElementDofTable`, as one pass over
the elements of the patch. -/
theorem gen2Patch_fold (ops : PatchMapOps) (ext : NURBSExtension) (hdim : ext.Dimension = 2)
    (p : Nat) (s : ElemTableState) :
    gen2Patch ops ext (ext.mapBefore p, s) p =
      match foldE (fun (s : ElemTableState) (v : Int × List Int × List Int) =>
          visitElement ext 2 v.1 v.2.1 (foldE (fun s d => addConnection d s) v.2.2) s)
        ((patchStencils ops ext p).map (fun x => ((p : Int), x))) s with
      | .error e => .error e
      | .ok s' => .ok (ext.mapBefore (p + 1), s') := by
  have h1 : ¬ ext.Dimension = 1 := by omega
  unfold gen2Patch patchStencils
  dsimp only
  rw [SetPatchDofMap_snd, ← dofMapOf_eq, if_neg h1, if_pos hdim]
  obtain ⟨kv, hkv⟩ : ∃ kv, kv = (ext.SetPatchDofMap {} (p : Int)).2 := ⟨_, rfl⟩
  obtain ⟨m, hm⟩ : ∃ m, m = ext.dofMapOf p := ⟨_, rfl⟩
  rw [← hkv, ← hm]
  rw [forLoopIntM_filter
    (fun (s : ElemTableState) (v : Int × List Int × List Int) =>
      visitElement ext 2 v.1 v.2.1 (foldE (fun s d => addConnection d s) v.2.2) s)
    (fun j => (kvAt kv 1).isElement j)
    (fun (j : Nat) =>
      ((List.range (kvAt kv 0).GetNKS.toNat).filter
        (fun (i : Nat) => (kvAt kv 0).isElement i)).flatMap
        (fun (i : Nat) => [((p : Int), [(i : Int), (j : Int)],
          (List.range ((kvAt kv 1).GetOrder + 1)).flatMap (fun (jj : Nat) =>
            (List.range ((kvAt kv 0).GetOrder + 1)).map (fun (ii : Nat) =>
              ext.DofMap (ops.at2 m ((i : Int) + ii) ((j : Int) + jj)))))]))
    _ _ _
    (fun s j => forLoopIntM_filter _ (fun i => (kvAt kv 0).isElement i) _ _ _ _
      (fun s i => by
        rw [foldE_singleton]
        dsimp only
        rw [stencil2 ops ext m (kvAt kv 0).GetOrder (kvAt kv 1).GetOrder (i : Int) (j : Int)]))]
  simp only [flatMap_singleton_map, List.map_flatMap, List.map_map, Function.comp_def]
  subst hm
  rfl

/-- The body of the loop over the patches in `Generate3DElementDofTable`, as one pass over
the elements of the patch. -/
theorem gen3Patch_fold (ops : PatchMapOps) (ext : NURBSExtension) (hdim : ext.Dimension = 3)
    (p : Nat) (s : ElemTableState) :
    gen3Patch ops ext (ext.mapBefore p, s) p =
      match foldE (fun (s : ElemTableState) (v : Int × List Int × List Int) =>
          visitElement ext 3 v.1 v.2.1 (foldE (fun s d => addConnection d s) v.2.2) s)
        ((patchStencils ops ext p).map (fun x => ((p : Int), x))) s with
      | .error e => .error e
      | .ok s' => .ok (ext.mapBefore (p + 1), s') := by
  have h1 : ¬ ext.Dimension = 1 := by omega
  have h2 : ¬ ext.Dimension = 2 := by omega
  unfold gen3Patch patchStencils
  dsimp only
  rw [SetPatchDofMap_snd, ← dofMapOf_eq, if_neg h1, if_neg h2]
  obtain ⟨kv, hkv⟩ : ∃ kv, kv = (ext.SetPatchDofMap {} (p : Int)).2 := ⟨_, rfl⟩
  obtain ⟨m, hm⟩ : ∃ m, m = ext.dofMapOf p := ⟨_, rfl⟩
  rw [← hkv, ← hm]
  rw [forLoopIntM_filter
    (fun (s : ElemTableState) (v : Int × List Int × List Int) =>
      visitElement ext 3 v.1 v.2.1 (foldE (fun s d => addConnection d s) v.2.2) s)
    (fun k => (kvAt kv 2).isElement k)
    (fun (k : Nat) =>
      ((List.range (kvAt kv 1).GetNKS.toNat).filter
        (fun (j : Nat) => (kvAt kv 1).isElement j)).flatMap
        (fun (j : Nat) =>
          ((List.range (kvAt kv 0).GetNKS.toNat).filter
            (fun (i : Nat) => (kvAt kv 0).isElement i)).flatMap
            (fun (i : Nat) => [((p : Int), [(i : Int), (j : Int), (k : Int)],
              (List.range ((kvAt kv 2).GetOrder + 1)).flatMap (fun (kk : Nat) =>
                (List.range ((kvAt kv 1).GetOrder + 1)).flatMap (fun (jj : Nat) =>
                  (List.range ((kvAt kv 0).GetOrder + 1)).map (fun (ii : Nat) =>
                    ext.DofMap
                      (ops.at3 m ((i : Int) + ii) ((j : Int) + jj) ((k : Int) + kk))))))])))
    _ _ _
    (fun s k => by
      beta_reduce
      exact forLoopIntM_filter
        (fun (s : ElemTableState) (v : Int × List Int × List Int) =>
          visitElement ext 3 v.1 v.2.1 (foldE (fun s d => addConnection d s) v.2.2) s)
        (fun j => (kvAt kv 1).isElement j)
        (fun (j : Nat) =>
          ((List.range (kvAt kv 0).GetNKS.toNat).filter
            (fun (i : Nat) => (kvAt kv 0).isElement i)).flatMap
            (fun (i : Nat) => [((p : Int), [(i : Int), (j : Int), (k : Int)],
              (List.range ((kvAt kv 2).GetOrder + 1)).flatMap (fun (kk : Nat) =>
                (List.range ((kvAt kv 1).GetOrder + 1)).flatMap (fun (jj : Nat) =>
                  (List.range ((kvAt kv 0).GetOrder + 1)).map (fun (ii : Nat) =>
                    ext.DofMap
                      (ops.at3 m ((i : Int) + ii) ((j : Int) + jj) ((k : Int) + kk))))))]))
        _ _ _
        (fun s j => by
          beta_reduce
          exact forLoopIntM_filter
            (fun (s : ElemTableState) (v : Int × List Int × List Int) =>
              visitElement ext 3 v.1 v.2.1 (foldE (fun s d => addConnection d s) v.2.2) s)
            (fun i => (kvAt kv 0).isElement i)
            (fun (i : Nat) => [((p : Int), [(i : Int), (j : Int), (k : Int)],
              (List.range ((kvAt kv 2).GetOrder + 1)).flatMap (fun (kk : Nat) =>
                (List.range ((kvAt kv 1).GetOrder + 1)).flatMap (fun (jj : Nat) =>
                  (List.range ((kvAt kv 0).GetOrder + 1)).map (fun (ii : Nat) =>
                    ext.DofMap
                      (ops.at3 m ((i : Int) + ii) ((j : Int) + jj) ((k : Int) + kk))))))])
            _ _ _
            (fun s i => by
              rw [foldE_singleton]
              dsimp only
              rw [stencil3 ops ext m (kvAt kv 0).GetOrder (kvAt kv 1).GetOrder
                (kvAt kv 2).GetOrder (i : Int) (j : Int) (k : Int)])))]
  simp only [flatMap_singleton_map, List.map_flatMap, List.map_map, Function.comp_def]
  subst hm
  rfl

/-- The loop over the patches, as one pass over the elements of all patches. -/
theorem patches_fold (ext : NURBSExtension)
    (step : ElemTableState → Int × List Int × List Int → Except Fault ElemTableState)
    (g : Nat → List (Int × List Int × List Int))
    (body : NURBSPatchMap × ElemTableState → Nat → Except Fault (NURBSPatchMap × ElemTableState))
    (hb : ∀ (p : Nat) (s : ElemTableState), body (ext.mapBefore p, s) p =
      match foldE step (g p) s with
      | .error e => .error e
      | .ok s' => .ok (ext.mapBefore (p + 1), s')) :
    ∀ (n s0 : Nat) (st : ElemTableState),
      forCountM body n s0 (ext.mapBefore s0, st) =
        match foldE step ((List.range' s0 n).flatMap g) st with
        | .error e => .error e
        | .ok s' => .ok (ext.mapBefore (s0 + n), s')
  | 0, s0, st => rfl
  | n + 1, s0, st => by
    rw [forCountM, hb, List.range'_succ, List.flatMap_cons, foldE_append]
    cases foldE step (g s0) st with
    | error e => rfl
    | ok s1 =>
      dsimp only
      rw [patches_fold ext step g body hb n (s0 + 1) s1]
      have : s0 + 1 + n = s0 + (n + 1) := by omega
      rw [this]

end NURBSExtension

namespace NURBSExtension

theorem length_setSizeI (v : List Int) (n : Nat) : (setSizeI v (n : Int)).length = n := by
  unfold setSizeI
  rw [Int.toNat_ofNat, List.length_append, List.length_take, List.length_replicate]
  omega

/-- Every element of the list `allStencils` has at most `3` indices (`1`, `2` or `3`
according to the dimension) and a stencil of the size of its patch. -/
theorem stencil_shape (ops : PatchMapOps) (ext : NURBSExtension) :
    ∀ v ∈ allStencils ops ext,
      v.2.1.length = (if ext.Dimension = 1 then 1 else if ext.Dimension = 2 then 2 else 3) ∧
      v.2.2.length = stencilSize ext v.1 := by
  intro v hv
  unfold allStencils at hv
  obtain ⟨p, _, hv⟩ := List.mem_flatMap.mp hv
  obtain ⟨x, hx, rfl⟩ := List.mem_map.mp hv
  unfold patchStencils at hx
  unfold stencilSize
  dsimp only at hx ⊢
  split_ifs at hx ⊢ with h1 h2
  · obtain ⟨i, _, rfl⟩ := List.mem_map.mp hx
    exact ⟨rfl, by simp⟩
  · obtain ⟨j, _, hx⟩ := List.mem_flatMap.mp hx
    obtain ⟨i, _, rfl⟩ := List.mem_map.mp hx
    refine ⟨rfl, ?_⟩
    dsimp only
    rw [length_flatMap_const _ ((kvAt (ext.SetPatchDofMap {} (p : Int)).2 0).GetOrder + 1) _
      (fun _ _ => by simp), List.length_range, Nat.mul_comm]
  · obtain ⟨k, _, hx⟩ := List.mem_flatMap.mp hx
    obtain ⟨j, _, hx⟩ := List.mem_flatMap.mp hx
    obtain ⟨i, _, rfl⟩ := List.mem_map.mp hx
    refine ⟨rfl, ?_⟩
    dsimp only
    rw [length_flatMap_const _ (((kvAt (ext.SetPatchDofMap {} (p : Int)).2 0).GetOrder + 1) *
        ((kvAt (ext.SetPatchDofMap {} (p : Int)).2 1).GetOrder + 1)) _
      (fun _ _ => by
        rw [length_flatMap_const _ ((kvAt (ext.SetPatchDofMap {} (p : Int)).2 0).GetOrder + 1) _
          (fun _ _ => by simp), List.length_range, Nat.mul_comm]),
      List.length_range, Nat.mul_comm]

/-- The loops of `Generate1DElementDofTable`, ... as a whole, given that the body of the
loop over the patches is a pass over the elements of the patch: the rows of `el_dof` are
the stencils of the active elements, `el_to_patch` holds their patches, and the dofs of the
stencils are marked in `activeDof`. -/
theorem generate_table (ops : PatchMapOps) (ext : NURBSExtension) (c : Int) (n A : Nat)
    (hcn : c = (n : Int))
    (body : NURBSPatchMap × ElemTableState → Nat → Except Fault (NURBSPatchMap × ElemTableState))
    (hb : ∀ (p : Nat) (s : ElemTableState), body (ext.mapBefore p, s) p =
      match foldE (fun (s : ElemTableState) (v : Int × List Int × List Int) =>
          visitElement ext c v.1 v.2.1 (foldE (fun s d => addConnection d s) v.2.2) s)
        ((patchStencils ops ext p).map (fun x => ((p : Int), x))) s with
      | .error e => .error e
      | .ok s' => .ok (ext.mapBefore (p + 1), s'))
    (hA : ext.NumOfActiveElems = (A : Int))
    (hlen : ext.activeElem.length = (allStencils ops ext).length)
    (hcnt : ext.activeElem.count true = A)
    (hd : ∀ v ∈ allStencils ops ext, ∀ d ∈ v.2.2, 0 ≤ d ∧ d < (ext.activeDof.length : Int))
    (hijk : ∀ v ∈ allStencils ops ext, v.2.1.length ≤ n) :
    ∃ s', (match forLoopM 0 ext.GetNP body ({}, ext.startTable c) with
        | .error e => .error e
        | .ok st => .ok (ext.finishTable st.2)) = Except.ok (ext.finishTable s') ∧
      (ext.finishTable s').el_dof.rows =
        (activeFrom ext.activeElem 0 (allStencils ops ext)).map (fun v => v.2.2) ∧
      s'.el_to_patch = (activeFrom ext.activeElem 0 (allStencils ops ext)).map (fun v => v.1) ∧
      (activeFrom ext.activeElem 0 (allStencils ops ext)).length = A ∧
      s'.activeDof.length = ext.activeDof.length ∧
      ∀ v : Nat, rdI s'.activeDof (v : Int) =
        if (v : Int) ∈ ((activeFrom ext.activeElem 0 (allStencils ops ext)).map
          (fun v => v.2.2)).flatten then 1
        else rdI ext.activeDof (v : Int) := by
  subst hcn
  have hK : (activeFrom ext.activeElem 0 (allStencils ops ext)).length = A := by
    rw [activeFrom_length ext.activeElem _ 0 (by omega), List.drop_zero, hcnt]
  obtain ⟨s', h, _, r2, r3, r4, r5, r6, _⟩ := visits_fold ext n A ext.activeDof.length
    (allStencils ops ext) (ext.startTable (n : Int)) 0 0 rfl rfl (by omega) (by omega)
    (by
      show (setSizeI ext.el_to_patch ext.NumOfActiveElems).length = A
      rw [hA, length_setSizeI])
    (by
      show (setSizeI ext.el_to_IJK (ext.NumOfActiveElems * (n : Int))).length = A * n
      rw [hA, show (A : Int) * (n : Int) = ((A * n : Nat) : Int) by push_cast; rfl,
        length_setSizeI])
    rfl hd hijk
  refine ⟨s', ?_, ?_, ?_, hK, r3, r4⟩
  · unfold forLoopM
    rw [Nat.sub_zero]
    have := patches_fold ext _ (fun p => (patchStencils ops ext p).map (fun x => ((p : Int), x)))
      body hb ext.GetNP 0 (ext.startTable (n : Int))
    have h0 : ext.mapBefore 0 = {} := rfl
    rw [h0] at this
    rw [this, ← List.range_eq_range']
    have h' : foldE (fun (s : ElemTableState) (v : Int × List Int × List Int) =>
          visitElement ext (n : Int) v.1 v.2.1 (foldE (fun s d => addConnection d s) v.2.2) s)
        ((List.range ext.GetNP).flatMap
          (fun p => (patchStencils ops ext p).map (fun x => ((p : Int), x))))
        (ext.startTable (n : Int)) = .ok s' := h
    rw [h']
  · show Table.rowsOfList ext.NumOfActiveElems.toNat 0 s'.el_dof_list = _
    rw [r2, hA, Int.toNat_ofNat]
    show Table.rowsOfList A ((0 : Nat) : Int) ([] ++ connList ((0 : Nat) : Int) _) = _
    rw [List.nil_append, rowsOfList_connList _ A _ (by rw [List.length_map, hK]),
      List.length_map, hK, Nat.sub_self]
    simp
  · apply list_ext_rdI _ _ (by rw [r5, List.length_map, hK])
    intro i hi
    rw [r5] at hi
    have := r6 i (by omega)
    rw [Nat.zero_add] at this
    exact this

end NURBSExtension

namespace NURBSExtension

theorem activeFrom_mem {α : Type} (act : List Bool) :
    ∀ (W : List α) (g : Nat) (v : α), v ∈ activeFrom act g W → v ∈ W
  | [], _, _, h => by simp [activeFrom] at h
  | w :: rest, g, v, h => by
    rw [activeFrom] at h
    split at h
    · rcases List.mem_cons.mp h with h | h
      · exact h ▸ List.mem_cons_self _ _
      · exact List.mem_cons_of_mem _ (activeFrom_mem act rest (g + 1) v h)
    · exact List.mem_cons_of_mem _ (activeFrom_mem act rest (g + 1) v h)

/-- The table of `generate_table`: it has `NumOfActiveElems` rows, and the row of each
active element has the stencil size of the patch of the element. -/
theorem table_rows (ops : PatchMapOps) (ext : NURBSExtension) (A : Nat)
    (hA : ext.NumOfActiveElems = (A : Int)) (rows : List (List Int)) (etp : List Int)
    (h1 : rows = (activeFrom ext.activeElem 0 (allStencils ops ext)).map (fun v => v.2.2))
    (h2 : etp = (activeFrom ext.activeElem 0 (allStencils ops ext)).map (fun v => v.1))
    (h3 : (activeFrom ext.activeElem 0 (allStencils ops ext)).length = A) :
    (rows.length : Int) = ext.NumOfActiveElems ∧
    ∀ e : Nat, e < rows.length →
      (rdL rows (e : Int)).length = stencilSize ext (rdI etp (e : Int)) := by
  subst h1 h2
  refine ⟨by rw [List.length_map, h3, hA], ?_⟩
  intro e he
  rw [List.length_map] at he
  have hmem := activeFrom_mem ext.activeElem _ 0 _ (List.getElem_mem he)
  rw [rdI_eq_getElem _ e (by rw [List.length_map]; exact he), List.getElem_map]
  unfold rdL
  rw [if_pos (by omega), Int.toNat_ofNat,
    List.getD_eq_getElem _ _ (by rw [List.length_map]; exact he), List.getElem_map]
  exact (stencil_shape ops ext _ hmem).2

/-- C20: let `activeElem` have one flag per element of the patches, exactly
`NumOfActiveElems` of them set, and let the dofs of the patch maps be indices of
`activeDof`.  Then `Generate2DElementDofTable` (on a two-dimensional extension) returns,
`el_dof` has exactly `NumOfActiveElems` rows, and the row of every active element `e` has
`(p0+1)*(p1+1)` entries, where `p0, p1` are the orders of the knot vectors of the patch
`el_to_patch[e]` of the element (`stencilSize`); likewise for `Generate1DElementDofTable`
with `p0+1` entries and `Generate3DElementDofTable` with `(p0+1)*(p1+1)*(p2+1)`. -/
theorem elementDofTable_rows (ops : PatchMapOps) (ext : NURBSExtension)
    (hlen : ext.activeElem.length = (allStencils ops ext).length)
    (hcnt : ((ext.activeElem.count true : Nat) : Int) = ext.NumOfActiveElems)
    (hd : ∀ v ∈ allStencils ops ext, ∀ d ∈ v.2.2, 0 ≤ d ∧ d < (ext.activeDof.length : Int)) :
    (ext.Dimension = 1 →
      ∃ e1, Generate1DElementDofTable ops ext = .ok e1 ∧
        (e1.el_dof.rows.length : Int) = ext.NumOfActiveElems ∧
        ∀ e : Nat, e < e1.el_dof.rows.length →
          (rdL e1.el_dof.rows (e : Int)).length =
            stencilSize ext (rdI e1.el_to_patch (e : Int))) ∧
    (ext.Dimension = 2 →
      ∃ e1, Generate2DElementDofTable ops ext = .ok e1 ∧
        (e1.el_dof.rows.length : Int) = ext.NumOfActiveElems ∧
        ∀ e : Nat, e < e1.el_dof.rows.length →
          (rdL e1.el_dof.rows (e : Int)).length =
            stencilSize ext (rdI e1.el_to_patch (e : Int))) ∧
    (ext.Dimension = 3 →
      ∃ e1, Generate3DElementDofTable ops ext = .ok e1 ∧
        (e1.el_dof.rows.length : Int) = ext.NumOfActiveElems ∧
        ∀ e : Nat, e < e1.el_dof.rows.length →
          (rdL e1.el_dof.rows (e : Int)).length =
            stencilSize ext (rdI e1.el_to_patch (e : Int))) := by
  refine ⟨fun h => ?_, fun h => ?_, fun h => ?_⟩
  · obtain ⟨s', e1, e2, e3, e4, _, _⟩ := generate_table ops ext 2 2 _ rfl (gen1Patch ops ext)
      (gen1Patch_fold ops ext h) hcnt.symm hlen rfl hd
      (fun v hv => by rw [(stencil_shape ops ext v hv).1, if_pos h]; omega)
    exact ⟨_, e1, table_rows ops ext _ hcnt.symm _ _ e2 e3 e4⟩
  · obtain ⟨s', e1, e2, e3, e4, _, _⟩ := generate_table ops ext 2 2 _ rfl (gen2Patch ops ext)
      (gen2Patch_fold ops ext h) hcnt.symm hlen rfl hd
      (fun v hv => by
        rw [(stencil_shape ops ext v hv).1, if_neg (by omega), if_pos h])
    exact ⟨_, e1, table_rows ops ext _ hcnt.symm _ _ e2 e3 e4⟩
  · obtain ⟨s', e1, e2, e3, e4, _, _⟩ := generate_table ops ext 3 3 _ rfl (gen3Patch ops ext)
      (gen3Patch_fold ops ext h) hcnt.symm hlen rfl hd
      (fun v hv => by
        rw [(stencil_shape ops ext v hv).1, if_neg (by omega), if_neg (by omega)])
    exact ⟨_, e1, table_rows ops ext _ hcnt.symm _ _ e2 e3 e4⟩

/-- Instance of `elementDofTable_rows`: the quadrilateral patch `exSquareCells` of order
`(1, 1)` with nine elements, eight of them active: `el_dof` has eight rows of
`(1+1)*(1+1) = 4` dofs. -/
theorem elementDofTable_rows_witness :
    ∃ e1, Generate2DElementDofTable exOps exSquareCells = .ok e1 ∧
      (e1.el_dof.rows.length : Int) = 8 ∧
      ∀ e : Nat, e < e1.el_dof.rows.length →
        (rdL e1.el_dof.rows (e : Int)).length =
          stencilSize exSquareCells (rdI e1.el_to_patch (e : Int)) :=
  (elementDofTable_rows exOps exSquareCells (by decide) (by decide) (by decide)).2.1
    (by decide)

end NURBSExtension

namespace NURBSExtension

/-- The loop of `GenerateElementDofTable` that numbers the marked dofs of a `0/1` array
`M`: a marked dof `v` gets the number of marked dofs up to and including `v`. -/
theorem number1_loop (M : List Int) (h01 : ∀ x ∈ M, x = 0 ∨ x = 1) :
    ∀ (n s : Nat), s + n = M.length →
      forCountM (fun (st : List Int × Int) (i : Nat) =>
          match rdIChk st.1 (0 + (i : Int)) with
          | .error e => .error e
          | .ok a =>
            if a ≠ 0 then
              match wrIChk st.1 (0 + (i : Int)) (st.2 + 1) with
              | .error e => .error e
              | .ok a1 => .ok (a1, st.2 + 1)
            else .ok st) n s
        ((List.range s).map
            (fun (v : Nat) => if rdI M v = 1 then ((M.take v).count 1 : Int) + 1 else 0) ++
          M.drop s, ((M.take s).count 1 : Int)) =
      .ok ((List.range M.length).map
          (fun (v : Nat) => if rdI M v = 1 then ((M.take v).count 1 : Int) + 1 else 0),
        (M.count 1 : Int))
  | 0, s, h => by
    rw [forCountM, List.drop_of_length_le (by omega), List.take_of_length_le (by omega),
      List.append_nil, show s = M.length by omega]
  | n + 1, s, h => by
    have hs : s < M.length := by omega
    have hlen : ((List.range s).map
        (fun (v : Nat) => if rdI M v = 1 then ((M.take v).count 1 : Int) + 1 else 0)).length
        = s := by simp
    have hrd : rdI ((List.range s).map
        (fun (v : Nat) => if rdI M v = 1 then ((M.take v).count 1 : Int) + 1 else 0) ++
        M.drop s) (s : Int) = rdI M (s : Int) := by
      rw [rdI_natCast, rdI_natCast, List.getD_eq_getElem?_getD, List.getD_eq_getElem?_getD,
        List.getElem?_append_right (by omega), hlen, Nat.sub_self, List.getElem?_drop]
      rfl
    have hlen2 : ((List.range s).map
        (fun (v : Nat) => if rdI M v = 1 then ((M.take v).count 1 : Int) + 1 else 0) ++
        M.drop s).length = M.length := by
      rw [List.length_append, hlen, List.length_drop]; omega
    rw [forCountM]
    dsimp only
    rw [Int.zero_add, rdIChk_ok _ s (by rw [hlen2]; exact hs), hrd]
    dsimp only
    rw [← number1_loop M h01 n (s + 1) (by omega), List.range_succ, List.map_append,
      List.append_assoc, take_succ_rdI M s hs, List.count_append]
    have hw := wrI_append_length ((List.range s).map
        (fun (v : Nat) => if rdI M v = 1 then ((M.take v).count 1 : Int) + 1 else 0))
        (M.drop (s + 1)) (rdI M (s : Int)) (((M.take s).count 1 : Int) + 1)
    rw [hlen, ← drop_eq_rdI_cons M s hs, wrI_natCast] at hw
    by_cases h1 : rdI M (s : Int) = 1
    · rw [if_pos (by rw [h1]; decide), wrIChk_ok _ s _ (by rw [hlen2]; exact hs), hw, h1]
      simp [h1]
    · have h0 : rdI M (s : Int) = 0 := by
        rcases h01 _ (rdI_mem M s hs) with h | h
        · exact h
        · exact absurd h h1
      rw [if_neg (by rw [h0]; decide), drop_eq_rdI_cons M s hs, h0]
      simp [h0]

/-- Every number below the number of marked dofs is the rank of a marked dof. -/
theorem count_surj (M : List Int) : ∀ (n : Nat), n ≤ M.length →
    ∀ y : Nat, y < (M.take n).count 1 →
      ∃ v : Nat, v < n ∧ rdI M (v : Int) = 1 ∧ (M.take v).count 1 = y
  | 0, _, y, hy => by simp at hy
  | n + 1, hn, y, hy => by
    rw [take_succ_rdI M n (by omega), List.count_append] at hy
    by_cases hlt : y < (M.take n).count 1
    · obtain ⟨v, h1, h2, h3⟩ := count_surj M n (by omega) y hlt
      exact ⟨v, by omega, h2, h3⟩
    · by_cases h1 : rdI M (n : Int) = 1
      · refine ⟨n, by omega, h1, ?_⟩
        rw [h1] at hy
        simp at hy
        omega
      · have : List.count 1 [rdI M (n : Int)] = 0 := by
          rw [List.count_eq_zero]
          simpa using fun h => h1 h.symm
        omega

theorem patchStencils_congr (ops : PatchMapOps) (e1 e2 : NURBSExtension)
    (h : e1.SetPatchDofMap = e2.SetPatchDofMap) (hdim : e1.Dimension = e2.Dimension)
    (hdd : e1.d_to_d = e2.d_to_d) (p : Nat) :
    patchStencils ops e1 p = patchStencils ops e2 p := by
  have hD : e1.DofMap = e2.DofMap := by
    funext l
    unfold DofMap
    rw [hdd]
  unfold patchStencils
  rw [h, hdim, hD, dofMapOf_congr e1 e2 h]

theorem allStencils_congr (ops : PatchMapOps) (e1 e2 : NURBSExtension)
    (h : e1.SetPatchDofMap = e2.SetPatchDofMap) (hdim : e1.Dimension = e2.Dimension)
    (hdd : e1.d_to_d = e2.d_to_d) (hnp : e1.GetNP = e2.GetNP) :
    allStencils ops e1 = allStencils ops e2 := by
  unfold allStencils
  rw [hnp, funext (patchStencils_congr ops e1 e2 h hdim hdd)]

/-- The first part of `GenerateElementDofTable`: the rows of `el_dof` are the stencils of
the active elements and `activeDof` is `1` at the dofs of these stencils, `0` elsewhere. -/
theorem markElementDofs_spec (ops : PatchMapOps) (ext : NURBSExtension)
    (hdim : ext.Dimension = 1 ∨ ext.Dimension = 2 ∨ ext.Dimension = 3)
    (hlen : ext.activeElem.length = (allStencils ops ext).length)
    (hcnt : ((ext.activeElem.count true : Nat) : Int) = ext.NumOfActiveElems)
    (hd : ∀ v ∈ allStencils ops ext, ∀ d ∈ v.2.2, 0 ≤ d ∧ d < ext.GetNTotalDof) :
    ∃ e1, markElementDofs ops ext = .ok e1 ∧
      e1.GetNTotalDof = ext.GetNTotalDof ∧
      e1.el_dof.rows =
        (activeFrom ext.activeElem 0 (allStencils ops ext)).map (fun v => v.2.2) ∧
      e1.activeDof.length = ext.GetNTotalDof.toNat ∧
      ∀ v : Nat, rdI e1.activeDof (v : Int) =
        if (v : Int) ∈ ((activeFrom ext.activeElem 0 (allStencils ops ext)).map
          (fun v => v.2.2)).flatten then 1 else 0 := by
  have hS : SetPatchDofMap { ext with activeDof := List.replicate ext.GetNTotalDof.toNat 0 } =
      SetPatchDofMap ext := rfl
  have hall := allStencils_congr ops
    { ext with activeDof := List.replicate ext.GetNTotalDof.toNat 0 } ext hS rfl rfl rfl
  have hz : ∀ v : Nat, rdI (List.replicate ext.GetNTotalDof.toNat (0 : Int)) (v : Int) = 0 := by
    intro v
    rw [rdI_natCast, List.getD_eq_getElem?_getD]
    by_cases hv : v < ext.GetNTotalDof.toNat
    · rw [List.getElem?_eq_getElem (by simpa using hv)]
      simp
    · rw [List.getElem?_eq_none (by simpa using hv)]
      rfl
  have hd' : ∀ v ∈ allStencils ops
      { ext with activeDof := List.replicate ext.GetNTotalDof.toNat 0 }, ∀ d ∈ v.2.2,
      0 ≤ d ∧ d < ((List.replicate ext.GetNTotalDof.toNat (0 : Int)).length : Int) := by
    intro v hv d hdv
    rw [hall] at hv
    have := hd v hv d hdv
    rw [List.length_replicate]
    omega
  have hlen' : ext.activeElem.length = (allStencils ops
      { ext with activeDof := List.replicate ext.GetNTotalDof.toNat 0 }).length := by
    rw [hall]; exact hlen
  have key : ∀ (c : Int) (n : Nat), c = (n : Int) →
      (∀ v ∈ allStencils ops { ext with activeDof := List.replicate ext.GetNTotalDof.toNat 0 },
        v.2.1.length ≤ n) →
      ∀ body, (∀ (p : Nat) (s : ElemTableState),
        body (mapBefore { ext with activeDof := List.replicate ext.GetNTotalDof.toNat 0 } p, s)
            p =
          match foldE (fun (s : ElemTableState) (v : Int × List Int × List Int) =>
              visitElement { ext with activeDof := List.replicate ext.GetNTotalDof.toNat 0 }
                c v.1 v.2.1 (foldE (fun s d => addConnection d s) v.2.2) s)
            ((patchStencils ops
              { ext with activeDof := List.replicate ext.GetNTotalDof.toNat 0 } p).map
              (fun x => ((p : Int), x))) s with
          | .error e => .error e
          | .ok s' =>
            .ok (mapBefore { ext with activeDof := List.replicate ext.GetNTotalDof.toNat 0 }
              (p + 1), s')) →
      ∃ e1, (match forLoopM 0 ext.GetNP body
            ({}, startTable { ext with activeDof := List.replicate ext.GetNTotalDof.toNat 0 } c)
            with
          | .error e => .error e
          | .ok st =>
            .ok (finishTable { ext with activeDof := List.replicate ext.GetNTotalDof.toNat 0 }
              st.2)) = Except.ok e1 ∧
        e1.GetNTotalDof = ext.GetNTotalDof ∧
        e1.el_dof.rows =
          (activeFrom ext.activeElem 0 (allStencils ops ext)).map (fun v => v.2.2) ∧
        e1.activeDof.length = ext.GetNTotalDof.toNat ∧
        ∀ v : Nat, rdI e1.activeDof (v : Int) =
          if (v : Int) ∈ ((activeFrom ext.activeElem 0 (allStencils ops ext)).map
            (fun v => v.2.2)).flatten then 1 else 0 := by
    intro c n hcn hijk body hb
    obtain ⟨s', e1, e2, _, _, e5, e6⟩ := generate_table ops
      { ext with activeDof := List.replicate ext.GetNTotalDof.toNat 0 } c n _ hcn body hb
      hcnt.symm hlen' rfl hd' hijk
    refine ⟨_, e1, rfl, ?_, ?_, ?_⟩
    · rw [e2, hall]
    · rw [show (finishTable { ext with activeDof := List.replicate ext.GetNTotalDof.toNat 0 }
        s').activeDof = s'.activeDof from rfl, e5]
      exact List.length_replicate _ _
    · intro v
      rw [show (finishTable { ext with activeDof := List.replicate ext.GetNTotalDof.toNat 0 }
        s').activeDof = s'.activeDof from rfl, e6 v, ← hall]
      congr 1
      exact hz v
  unfold markElementDofs
  dsimp only
  rcases hdim with h1 | h2 | h3
  · have h1' : Dimension { ext with activeDof := List.replicate ext.GetNTotalDof.toNat 0 } = 1 :=
      h1
    rw [if_pos h1']
    exact key 2 2 rfl
      (fun v hv => by rw [(stencil_shape ops _ v hv).1, if_pos h1']; omega) _
      (gen1Patch_fold ops _ h1')
  · have h2' : Dimension { ext with activeDof := List.replicate ext.GetNTotalDof.toNat 0 } = 2 :=
      h2
    rw [if_neg (by rw [h2']; decide), if_pos h2']
    exact key 2 2 rfl
      (fun v hv => by
        rw [(stencil_shape ops _ v hv).1, if_neg (by rw [h2']; decide), if_pos h2']) _
      (gen2Patch_fold ops _ h2')
  · have h3' : Dimension { ext with activeDof := List.replicate ext.GetNTotalDof.toNat 0 } = 3 :=
      h3
    rw [if_neg (by rw [h3']; decide), if_neg (by rw [h3']; decide)]
    exact key 3 3 rfl
      (fun v hv => by
        rw [(stencil_shape ops _ v hv).1, if_neg (by rw [h3']; decide),
          if_neg (by rw [h3']; decide)]) _
      (gen3Patch_fold ops _ h3')

end NURBSExtension

namespace NURBSExtension

/-- C19: let `activeElem` have one flag per element of the patches, exactly
`NumOfActiveElems` of them set, and let the patch maps give dofs in `[0, GetNTotalDof())`,
in dimension 1, 2 or 3.  Then `GenerateElementDofTable` returns; with `e1` the state before
the renumbering (the table of the original dof indices, a dof being marked in `activeDof`
exactly when it occurs in a row) and `e2` the final state, the renumbering replaces each
entry `d` of `el_dof` by `activeDof[d] - 1`, every entry of the new `el_dof` lies in
`[0, NumOfActiveDofs)`, every value of `[0, NumOfActiveDofs)` occurs in some row, and the
renumbering is strictly increasing on the marked original dof indices. -/
theorem generateElementDofTable_spec (ops : PatchMapOps) (ext : NURBSExtension)
    (hdim : ext.Dimension = 1 ∨ ext.Dimension = 2 ∨ ext.Dimension = 3)
    (hlen : ext.activeElem.length = (allStencils ops ext).length)
    (hcnt : ((ext.activeElem.count true : Nat) : Int) = ext.NumOfActiveElems)
    (hd : ∀ v ∈ allStencils ops ext, ∀ d ∈ v.2.2, 0 ≤ d ∧ d < ext.GetNTotalDof) :
    ∃ e1 e2, markElementDofs ops ext = .ok e1 ∧ GenerateElementDofTable ops ext = .ok e2 ∧
      e2.el_dof.rows = e1.el_dof.rows.map (List.map (fun d => rdI e2.activeDof d - 1)) ∧
      (∀ d : Int, 0 ≤ d → d < ext.GetNTotalDof →
        (rdI e1.activeDof d ≠ 0 ↔ ∃ row ∈ e1.el_dof.rows, d ∈ row)) ∧
      (∀ row ∈ e2.el_dof.rows, ∀ x ∈ row, 0 ≤ x ∧ x < e2.NumOfActiveDofs) ∧
      (∀ y : Int, 0 ≤ y → y < e2.NumOfActiveDofs → ∃ row ∈ e2.el_dof.rows, y ∈ row) ∧
      ∀ a b : Int, 0 ≤ a → a < b → b < ext.GetNTotalDof →
        rdI e1.activeDof a ≠ 0 → rdI e1.activeDof b ≠ 0 →
        rdI e2.activeDof a - 1 < rdI e2.activeDof b - 1 := by
  obtain ⟨e1, hm, hNT, hrows, hML, hM⟩ := markElementDofs_spec ops ext hdim hlen hcnt hd
  obtain ⟨M, hMd⟩ : ∃ M, M = e1.activeDof := ⟨_, rfl⟩
  obtain ⟨rows, hrd⟩ : ∃ rows, rows = e1.el_dof.rows := ⟨_, rfl⟩
  rw [← hMd] at hML hM
  rw [← hrd] at hrows
  -- the dofs of the rows are marked and in range
  have hin : ∀ row ∈ rows, ∀ d ∈ row,
      ∃ m : Nat, d = (m : Int) ∧ m < M.length ∧ rdI M (m : Int) = 1 := by
    intro row hrow d hdr
    have hflat : d ∈ rows.flatten := List.mem_flatten.mpr ⟨row, hrow, hdr⟩
    rw [hrows] at hrow
    obtain ⟨v, hv, rfl⟩ := List.mem_map.mp hrow
    obtain ⟨h0, h1⟩ := hd v (activeFrom_mem _ _ _ _ hv) d hdr
    refine ⟨d.toNat, by omega, by omega, ?_⟩
    rw [hM d.toNat, ← hrows, if_pos (by rw [Int.toNat_of_nonneg h0]; exact hflat)]
  have h01 : ∀ x ∈ M, x = 0 ∨ x = 1 := by
    intro x hx
    obtain ⟨i, hi, rfl⟩ := List.getElem_of_mem hx
    rw [← rdI_eq_getElem M i hi, hM i]
    split
    · exact Or.inr rfl
    · exact Or.inl rfl
  have hmark : ∀ m : Nat, rdI M (m : Int) ≠ 0 → ∃ row ∈ rows, (m : Int) ∈ row := by
    intro m hne
    rw [hM m, ← hrows] at hne
    by_cases hmem : (m : Int) ∈ rows.flatten
    · exact List.mem_flatten.mp hmem
    · rw [if_neg hmem] at hne
      exact absurd rfl hne
  -- the numbering loop
  obtain ⟨T, hTd⟩ : ∃ T : List Int, T = (List.range M.length).map
      (fun (v : Nat) => if rdI M v = 1 then ((M.take v).count 1 : Int) + 1 else 0) := ⟨_, rfl⟩
  have hT : ∀ m : Nat, m < M.length → rdI M (m : Int) = 1 →
      rdI T (m : Int) - 1 = ((M.take m).count 1 : Int) := by
    intro m hm h1
    rw [hTd, rdI_map_range _ _ _ hm, if_pos h1]
    omega
  have hTlen : T.length = M.length := by rw [hTd]; simp
  have hnum : numberActiveDofs e1.SetPatchToElements = .ok (T, (M.count 1 : Int)) := by
    have := number1_loop M h01 M.length 0 (by omega)
    simp only [List.range_zero, List.map_nil, List.nil_append, List.drop_zero, List.take_zero,
      List.count_nil, Nat.cast_zero] at this
    rw [← hTd] at this
    unfold numberActiveDofs forLoopIntM
    have e : (GetNTotalDof e1.SetPatchToElements - 0).toNat = M.length := by
      rw [Int.sub_zero, hML]
      show e1.GetNTotalDof.toNat = _
      rw [hNT]
    have hA : e1.SetPatchToElements.activeDof = M := hMd.symm
    rw [e, hA]
    exact this
  have hmapJ : e1.SetPatchToElements.el_dof.mapJ
      (fun d =>
        match rdIChk T d with
        | .error e => .error e
        | .ok x => .ok (x - 1)) =
      .ok { rows := rows.map (List.map (fun d => rdI T d - 1)) } := by
    unfold Table.mapJ
    rw [show e1.SetPatchToElements.el_dof.rows = rows from hrd.symm,
      Table.mapRows_ok _ (fun d => rdI T d - 1) rows
        (fun row hrow d hdr => by
          obtain ⟨m, rfl, hm, _⟩ := hin row hrow d hdr
          dsimp only
          rw [rdIChk_ok T m (by rw [hTlen]; exact hm)])]
  have hgen : GenerateElementDofTable ops ext =
      .ok { e1.SetPatchToElements with
            activeDof := T, NumOfActiveDofs := (M.count 1 : Int),
            el_dof := { rows := rows.map (List.map (fun d => rdI T d - 1)) } } := by
    unfold GenerateElementDofTable
    rw [hm]
    dsimp only
    rw [hnum]
    dsimp only
    rw [hmapJ]
  have hcntL : (M.take M.length).count 1 = M.count 1 := by rw [List.take_length]
  refine ⟨e1, _, hm, hgen, ?_, ?_, ?_, ?_, ?_⟩
  · show rows.map (List.map (fun d => rdI T d - 1)) = _
    rw [hrd]
  · intro d h0 h1
    rw [← hMd, ← hrd]
    obtain ⟨m, hm1, rfl⟩ := exists_nat_of_range d ext.GetNTotalDof.toNat h0 (by omega)
    constructor
    · exact hmark m
    · rintro ⟨row, hrow, hdr⟩
      obtain ⟨m', hq, _, hq1⟩ := hin row hrow _ hdr
      have hmm : m' = m := by omega
      rw [hmm] at hq1
      rw [hq1]
      decide
  · intro row hrow x hx
    have hrow' : row ∈ rows.map (List.map (fun d => rdI T d - 1)) := hrow
    obtain ⟨row1, hrow1, rfl⟩ := List.mem_map.mp hrow'
    obtain ⟨d, hdr, rfl⟩ := List.mem_map.mp hx
    obtain ⟨m, rfl, hm1, hm2⟩ := hin row1 hrow1 d hdr
    show 0 ≤ rdI T (m : Int) - 1 ∧ rdI T (m : Int) - 1 < ((M.count 1 : Nat) : Int)
    rw [hT m hm1 hm2]
    have := count_take_lt M 1 m M.length hm1 hm1 hm2
    rw [hcntL] at this
    omega
  · intro y h0 h1
    have h1' : y < ((M.count 1 : Nat) : Int) := h1
    obtain ⟨k, hk, rfl⟩ := exists_nat_of_range y (M.count 1) h0 h1'
    obtain ⟨v, hv, hv1, hv2⟩ := count_surj M M.length (le_refl _) k (by rw [hcntL]; exact hk)
    obtain ⟨row, hrow, hvr⟩ := hmark v (by rw [hv1]; decide)
    refine ⟨row.map (fun d => rdI T d - 1), ?_, ?_⟩
    · show row.map (fun d => rdI T d - 1) ∈ rows.map (List.map (fun d => rdI T d - 1))
      exact List.mem_map.mpr ⟨row, hrow, rfl⟩
    · refine List.mem_map.mpr ⟨(v : Int), hvr, ?_⟩
      rw [hT v hv hv1, hv2]
  · intro a b h0 hab hb ha1 hb1
    rw [← hMd] at ha1 hb1
    obtain ⟨m1, hm1, rfl⟩ := exists_nat_of_range a ext.GetNTotalDof.toNat h0 (by omega)
    obtain ⟨m2, hm2, rfl⟩ := exists_nat_of_range b ext.GetNTotalDof.toNat (by omega) (by omega)
    rw [← hML] at hm1 hm2
    have ha : rdI M (m1 : Int) = 1 := by
      rcases h01 _ (rdI_mem M m1 hm1) with h | h
      · exact absurd h ha1
      · exact h
    have hb' : rdI M (m2 : Int) = 1 := by
      rcases h01 _ (rdI_mem M m2 hm2) with h | h
      · exact absurd h hb1
      · exact h
    show rdI T (m1 : Int) - 1 < rdI T (m2 : Int) - 1
    rw [hT m1 hm1 ha, hT m2 hm2 hb']
    have := count_take_lt M 1 m1 m2 (by omega) hm1 ha
    omega

/-- Instance of `generateElementDofTable_spec`: the segment `exSegmentHalf` with three
dofs, whose second element (dofs `2, 1`) alone is active: dofs `1, 2` get the numbers
`0, 1` and the table is `[[1, 0]]`. -/
theorem generateElementDofTable_spec_witness :
    ∃ e1 e2, markElementDofs exOps exSegmentHalf = .ok e1 ∧
      GenerateElementDofTable exOps exSegmentHalf = .ok e2 ∧
      e2.el_dof.rows = e1.el_dof.rows.map (List.map (fun d => rdI e2.activeDof d - 1)) ∧
      (∀ d : Int, 0 ≤ d → d < exSegmentHalf.GetNTotalDof →
        (rdI e1.activeDof d ≠ 0 ↔ ∃ row ∈ e1.el_dof.rows, d ∈ row)) ∧
      (∀ row ∈ e2.el_dof.rows, ∀ x ∈ row, 0 ≤ x ∧ x < e2.NumOfActiveDofs) ∧
      (∀ y : Int, 0 ≤ y → y < e2.NumOfActiveDofs → ∃ row ∈ e2.el_dof.rows, y ∈ row) ∧
      ∀ a b : Int, 0 ≤ a → a < b → b < exSegmentHalf.GetNTotalDof →
        rdI e1.activeDof a ≠ 0 → rdI e1.activeDof b ≠ 0 →
        rdI e2.activeDof a - 1 < rdI e2.activeDof b - 1 :=
  generateElementDofTable_spec exOps exSegmentHalf (by decide) (by decide) (by decide)
    (by decide)

end NURBSExtension

namespace NURBSExtension

theorem setActiveElem_loop (MyRank : Int) (part : List Int) (L : Nat) :
    ∀ (n s0 : Nat) (a : List Bool) (c : Int), a.length = L → s0 + n ≤ L →
      ∃ a1 : List Bool,
        forCountM (fun st (k : Nat) => setActiveElem MyRank part st (0 + (k : Int))) n s0 (a, c) =
          .ok (a1, c + (((List.range' s0 n).filter
            (fun (i : Nat) => decide (rdI part (i : Int) = MyRank))).length : Int)) ∧
        a1.length = L ∧
        ∀ j : Nat, a1.getD j false =
          if s0 ≤ j ∧ j < s0 + n ∧ rdI part (j : Int) = MyRank then true else a.getD j false
  | 0, s0, a, c, ha, _ => by
    refine ⟨a, ?_, ha, ?_⟩
    · simp [forCountM]
    · intro j
      rw [if_neg (by omega)]
  | n + 1, s0, a, c, ha, hn => by
    by_cases hp : rdI part (s0 : Int) = MyRank
    · have hw : wrBChk a (0 + (s0 : Int)) true = .ok (a.set s0 true) := by
        unfold wrBChk
        rw [if_pos (by constructor <;> omega)]
        simp
      obtain ⟨a1, h1, h2, h3⟩ := setActiveElem_loop MyRank part L n (s0 + 1) (a.set s0 true)
        (c + 1) (by simpa using ha) (by omega)
      refine ⟨a1, ?_, h2, ?_⟩
      · have hstep : setActiveElem MyRank part (a, c) (0 + (s0 : Int)) =
            .ok (a.set s0 true, c + 1) := by
          unfold setActiveElem
          rw [if_pos (by simpa using hp)]
          simp only [hw]
        rw [forCountM]
        simp only [hstep]
        rw [h1, List.range'_succ, List.filter_cons, if_pos (by simpa using hp)]
        simp only [List.length_cons, Nat.cast_add, Nat.cast_one]
        congr 2
        omega
      · intro j
        rw [h3 j]
        by_cases hj : j = s0
        · subst hj
          rw [if_neg (by omega), if_pos ⟨le_refl _, by omega, hp⟩]
          simp [List.getD_eq_getElem?_getD, List.getElem?_set, show j < a.length by omega]
        · have hs : (a.set s0 true).getD j false = a.getD j false := by
            simp [List.getD_eq_getElem?_getD, List.getElem?_set, Ne.symm hj]
          rw [hs]
          by_cases hq : rdI part (j : Int) = MyRank
          · by_cases h4 : s0 + 1 ≤ j ∧ j < s0 + 1 + n
            · rw [if_pos ⟨h4.1, h4.2, hq⟩, if_pos ⟨by omega, by omega, hq⟩]
            · rw [if_neg (fun h => h4 ⟨h.1, h.2.1⟩), if_neg (fun h => h4 ⟨by omega, by omega⟩)]
          · rw [if_neg (fun h => hq h.2.2), if_neg (fun h => hq h.2.2)]
    · obtain ⟨a1, h1, h2, h3⟩ := setActiveElem_loop MyRank part L n (s0 + 1) a c ha (by omega)
      refine ⟨a1, ?_, h2, ?_⟩
      · have hstep : setActiveElem MyRank part (a, c) (0 + (s0 : Int)) = .ok (a, c) := by
          unfold setActiveElem
          rw [if_neg (by simpa using hp)]
        rw [forCountM]
        simp only [hstep]
        rw [h1, List.range'_succ, List.filter_cons, if_neg (by simpa using hp)]
      · intro j
        rw [h3 j]
        by_cases hq : rdI part (j : Int) = MyRank
        · by_cases h4 : s0 + 1 ≤ j ∧ j < s0 + 1 + n
          · rw [if_pos ⟨h4.1, h4.2, hq⟩, if_pos ⟨by omega, by omega, hq⟩]
          · have hj : j ≠ s0 := fun h => hp (h ▸ hq)
            rw [if_neg (fun h => h4 ⟨h.1, h.2.1⟩), if_neg (fun h => h4 ⟨by omega, by omega⟩)]
        · rw [if_neg (fun h => hq h.2.2), if_neg (fun h => hq h.2.2)]

theorem activeElemAt_iff (e : NURBSExtension) (i : Nat) (hi : i < e.activeElem.length)
    (b : Bool) : e.activeElemAt (i : Int) = .ok b ↔ e.activeElem.getD i false = b := by
  unfold activeElemAt
  simp only [Int.toNat_ofNat, Int.ofNat_zero_le, if_true, List.getElem?_eq_getElem hi,
    List.getD_eq_getElem?_getD, Option.getD_some]
  constructor
  · intro h; cases h; rfl
  · intro h; rw [h]

theorem countActiveBdr_loop (bel : List Bool) :
    ∀ (n s0 : Nat) (c : Int), s0 + n ≤ bel.length →
      forCountM (fun st (k : Nat) => countActiveBdr bel st (0 + (k : Int))) n s0 c =
        .ok (c + ((((bel.drop s0).take n).count true : Nat) : Int))
  | 0, s0, c, _ => by simp [forCountM]
  | n + 1, s0, c, hn => by
    have hlt : s0 < bel.length := by omega
    have hr : rdBChk bel (0 + (s0 : Int)) = .ok bel[s0] := by
      unfold rdBChk
      rw [if_pos (by constructor <;> omega)]
      simp [List.getD_eq_getElem?_getD, hlt]
    have hstep : countActiveBdr bel c (0 + (s0 : Int)) =
        .ok (if bel[s0] = true then c + 1 else c) := by
      unfold countActiveBdr
      rw [hr]
    rw [forCountM]
    simp only [hstep]
    rw [countActiveBdr_loop bel n (s0 + 1) _ (by omega), List.drop_eq_getElem_cons hlt,
      List.take_succ_cons, List.count_cons]
    cases bel[s0]
    · simp
    · simp; omega

/-- C21: `SetActive(partitioning, active_bel)` succeeds when `active_bel` has one flag for
every global boundary element; afterwards `activeElem` has one flag for every global element,
the flag of element `i` is true iff `partitioning[i]` is the local rank, `NumOfActiveElems` is
the number of such elements, `activeBdrElem` is `active_bel` and `NumOfActiveBdrElems` is the
number of its true entries. -/
theorem setActive_spec (MyRank : Int) (ext : NURBSExtension) (partitioning_ : List Int)
    (active_bel : List Bool) (hb : active_bel.length = ext.GetGNBE.toNat) :
    ∃ e : NURBSExtension, SetActive MyRank ext partitioning_ active_bel = .ok e ∧
      e.activeElem.length = ext.GetGNE.toNat ∧
      (∀ i : Nat, i < ext.GetGNE.toNat →
        (e.activeElemAt (i : Int) = .ok true ↔ rdI partitioning_ (i : Int) = MyRank) ∧
        (e.activeElemAt (i : Int) = .ok false ↔ rdI partitioning_ (i : Int) ≠ MyRank)) ∧
      e.NumOfActiveElems = ((((List.range ext.GetGNE.toNat).filter
        (fun (i : Nat) => decide (rdI partitioning_ (i : Int) = MyRank))).length : Nat) : Int) ∧
      e.activeBdrElem = active_bel ∧
      e.NumOfActiveBdrElems = ((active_bel.count true : Nat) : Int) := by
  obtain ⟨a1, h1, h2, h3⟩ := setActiveElem_loop MyRank partitioning_ ext.GetGNE.toNat
    ext.GetGNE.toNat 0 (List.replicate ext.GetGNE.toNat false) 0 (by simp) (by omega)
  have h4 := countActiveBdr_loop active_bel ext.GetGNBE.toNat 0 0 (by omega)
  refine ⟨{ ext with
      activeElem := a1,
      NumOfActiveElems := 0 + ((((List.range' 0 ext.GetGNE.toNat).filter
        (fun (i : Nat) => decide (rdI partitioning_ (i : Int) = MyRank))).length : Nat) : Int),
      activeBdrElem := active_bel,
      NumOfActiveBdrElems :=
        0 + ((((active_bel.drop 0).take ext.GetGNBE.toNat).count true : Nat) : Int) },
    ?_, h2, ?_, ?_, rfl, ?_⟩
  · unfold SetActive forLoopIntM
    simp only [Int.sub_zero]
    rw [h1]
    simp only []
    rw [h4]
  · intro i hi
    have hg := h3 i
    have hrep : (List.replicate ext.GetGNE.toNat false).getD i false = false := by
      simp only [List.getD_eq_getElem?_getD, List.getElem?_replicate]
      split <;> rfl
    rw [hrep] at hg
    have hil : i < a1.length := by omega
    constructor
    · refine (activeElemAt_iff _ i (show i < a1.length by omega) true).trans ?_
      show a1.getD i false = true ↔ _
      rw [hg]
      by_cases hq : rdI partitioning_ (i : Int) = MyRank
      · simp [hq, hi]
      · simp [hq]
    · refine (activeElemAt_iff _ i (show i < a1.length by omega) false).trans ?_
      show a1.getD i false = false ↔ _
      rw [hg]
      by_cases hq : rdI partitioning_ (i : Int) = MyRank
      · simp [hq, hi]
      · simp [hq]
  · simp only [Int.zero_add, List.range_eq_range']
  · simp only [Int.zero_add, List.drop_zero]
    rw [← hb, List.take_length]

/-- C21, at a concrete input: four elements partitioned as `[1, 0, 1, 2]` on rank 1 with
boundary flags `[true, false, true]`. -/
theorem setActive_spec_witness :
    [true, false, true].length = exFourElements.GetGNBE.toNat ∧
    ∃ e : NURBSExtension, SetActive 1 exFourElements [1, 0, 1, 2] [true, false, true] = .ok e ∧
      e.activeElem.length = exFourElements.GetGNE.toNat ∧
      (∀ i : Nat, i < exFourElements.GetGNE.toNat →
        (e.activeElemAt (i : Int) = .ok true ↔ rdI [1, 0, 1, 2] (i : Int) = 1) ∧
        (e.activeElemAt (i : Int) = .ok false ↔ rdI [1, 0, 1, 2] (i : Int) ≠ 1)) ∧
      e.NumOfActiveElems = ((((List.range exFourElements.GetGNE.toNat).filter
        (fun (i : Nat) => decide (rdI [1, 0, 1, 2] (i : Int) = 1))).length : Nat) : Int) ∧
      e.activeBdrElem = [true, false, true] ∧
      e.NumOfActiveBdrElems = (([true, false, true].count true : Nat) : Int) :=
  ⟨by decide, setActive_spec 1 exFourElements [1, 0, 1, 2] [true, false, true] (by decide)⟩

end NURBSExtension

namespace NURBSPatch

/-- C22 (as claimed, refuted): with an empty knot list `KnotInsert` returns the patch
unchanged although the direction index `5` (and likewise `-1`) is not a direction of the
one-dimensional patch. -/
theorem knotInsert_invalid_dir_empty :
    ((5 : Int) ≥ (exSegment.kv.length : Int) ∧ KnotInsert slice 0 exSegment 5 [] = .ok exSegment) ∧
    ((-1 : Int) < 0 ∧ KnotInsert slice 0 exSegment (-1) [] = .ok exSegment) :=
  ⟨⟨by decide, rfl⟩, ⟨by decide, rfl⟩⟩

/-- C22 (amended): for every direction index `dir` with `dir < 0` or `dir >= ` the number of
knot vectors of the patch, `KnotInsert(dir, knots)` fails with a fatal error for every
non-empty knot list and `DegreeElevate(dir, t)` fails with a fatal error for every `t`. -/
theorem invalid_direction_fatal (slice : NURBSPatch → Int → Int → Int) (fuel : Nat)
    (p : NURBSPatch) (dir : Int) (knot : List ℚ) (t : Nat)
    (hdir : dir < 0 ∨ dir ≥ (p.kv.length : Int)) (hk : knot ≠ []) :
    KnotInsert slice fuel p dir knot = .error .fatal ∧
    DegreeElevate slice p dir t = .error .fatal := by
  constructor
  · unfold KnotInsert
    rw [if_neg (by simpa using hk), if_pos (by omega)]
  · unfold DegreeElevate
    rw [if_pos (by omega)]

/-- C22 (amended), at a concrete input: direction `1` of a one-dimensional patch. -/
theorem invalid_direction_fatal_witness :
    ((1 : Int) < 0 ∨ (1 : Int) ≥ (exSegment.kv.length : Int)) ∧ ([1 / 2] : List ℚ) ≠ [] ∧
    KnotInsert slice 0 exSegment 1 [1 / 2] = .error .fatal ∧
    DegreeElevate slice exSegment 1 2 = .error .fatal :=
  ⟨by decide, by simp, invalid_direction_fatal slice 0 exSegment 1 [1 / 2] 2 (by decide) (by simp)⟩

end NURBSPatch

namespace KnotVector

/-- C23 (as claimed, refuted): in a release build (`debug = false`) none of `CalcShape`,
`CalcDShape`, `CalcDnShape` raises the fatal error for a knot vector of order 11; each goes on
to index its scratch buffers out of bounds. -/
theorem calcShape_release_unguarded :
    exOrderEleven.Order > MaxOrder ∧
    CalcShape false exOrderEleven (List.replicate 12 0) 0 0 = .error .outOfBounds ∧
    CalcDShape false exOrderEleven (List.replicate 12 0) 0 0 = .error .outOfBounds ∧
    CalcDnShape false exOrderEleven (List.replicate 12 0) 1 0 0 = .error .outOfBounds :=
  ⟨by decide, rfl, rfl, rfl⟩

/-- C23 (amended): in a debug build `CalcShape`, `CalcDShape` and `CalcDnShape` fail with a
fatal error whenever the knot vector's `Order` exceeds `MaxOrder` (10), whatever the output
vector, the element, the point and the derivative order; the scratch buffers are not
indexed (no out-of-bounds fault). -/
theorem calcShape_debug_guard (kv : KnotVector) (out : List ℚ) (n i : Int) (xi : ℚ)
    (h : kv.Order > MaxOrder) :
    MaxOrder = 10 ∧
    CalcShape true kv out i xi = .error .fatal ∧
    CalcDShape true kv out i xi = .error .fatal ∧
    CalcDnShape true kv out n i xi = .error .fatal := by
  refine ⟨rfl, ?_, ?_, ?_⟩
  · unfold CalcShape
    rw [if_pos ⟨rfl, by omega⟩]
  · unfold CalcDShape
    rw [if_pos ⟨rfl, h⟩]
  · unfold CalcDnShape
    rw [if_pos ⟨rfl, h⟩]

/-- C23 (amended), at a concrete input: a knot vector of order 11. -/
theorem calcShape_debug_guard_witness :
    exOrderEleven.Order > MaxOrder ∧ MaxOrder = 10 ∧
    CalcShape true exOrderEleven [] 0 0 = .error .fatal ∧
    CalcDShape true exOrderEleven [] 0 0 = .error .fatal ∧
    CalcDnShape true exOrderEleven [] 1 0 0 = .error .fatal :=
  ⟨by decide, calcShape_debug_guard exOrderEleven [] 1 0 0 (by decide)⟩

end KnotVector

namespace NURBSExtension

/-- A loop fails with the fault of its iteration `k` when the iterations before `k`
succeed. -/
theorem forCountM_fail {σ : Type} (body : σ → Nat → Except Fault σ) (I : σ → Prop) (f : Fault)
    (k : Nat) :
    ∀ (n s0 : Nat) (st : σ), s0 ≤ k → k < s0 + n → I st →
      (∀ (s : σ) (i : Nat), I s → s0 ≤ i → i < k → ∃ s1, body s i = .ok s1 ∧ I s1) →
      (∀ s : σ, I s → body s k = .error f) →
      forCountM body n s0 st = .error f
  | 0, s0, _, h1, h2, _, _, _ => by omega
  | n + 1, s0, st, h1, h2, hst, hb, hk => by
    rw [forCountM]
    by_cases he : s0 = k
    · subst he
      rw [hk st hst]
    · obtain ⟨s1, e1, i1⟩ := hb st s0 hst (le_refl _) (by omega)
      rw [e1]
      exact forCountM_fail body I f k n (s0 + 1) s1 (by omega) (by omega) i1
        (fun s i hs h3 h4 => hb s i hs (by omega) h4) hk

/-- Assignments between positions inside the array succeed and keep its length. -/
theorem connectList_ok (L : Nat) :
    ∀ (l : List (Int × Int)) (d : List Int), d.length = L →
      (∀ pr ∈ l, (0 ≤ pr.1 ∧ pr.1 < (L : Int)) ∧ (0 ≤ pr.2 ∧ pr.2 < (L : Int))) →
      ∃ d1, connectList l d = .ok d1 ∧ d1.length = L
  | [], d, hd, _ => ⟨d, rfl, hd⟩
  | pr :: rest, d, hd, hr => by
    have h := hr pr (List.mem_cons_self _ _)
    have e1 : connectDofs d pr.1 pr.2 = .ok (d.set pr.1.toNat (d.getD pr.2.toNat 0)) := by
      unfold connectDofs rdIChk wrIChk
      rw [if_pos ⟨h.2.1, by omega⟩]
      simp only []
      rw [if_pos ⟨h.1.1, by omega⟩]
    obtain ⟨d1, e2, l2⟩ := connectList_ok L rest (d.set pr.1.toNat (d.getD pr.2.toNat 0))
      (by simpa using hd) (fun q hq => hr q (List.mem_cons_of_mem _ hq))
    refine ⟨d1, ?_, l2⟩
    rw [connectList, e1]
    exact e2

/-- C24 (as claimed, refuted): in a release build `ConnectBoundaries2D` connects two
boundaries whose knot vectors differ in the number of knot spans (1 and 3) and two whose knot
vectors differ in order (1 and 2); and in every build it connects two boundaries where span
`1` is an element on the second boundary only. -/
theorem connectBoundaries2D_unchecked :
    ((kvAt ((exSquareWith exKVOne exKVThree).SetBdrPatchDofMap {} 0).2.1 0).GetNKS = 1 ∧
      (kvAt ((exSquareWith exKVOne exKVThree).SetBdrPatchDofMap {} 1).2.1 0).GetNKS = 3 ∧
      ConnectBoundaries2D false exOps (exSquareWith exKVOne exKVThree) 0 1
        (identityDofs (exSquareWith exKVOne exKVThree)) = .ok [1, 4, 2, 3, 4, 5, 6, 7]) ∧
    ((kvAt ((exSquareWith exKVOne exKVQuadratic).SetBdrPatchDofMap {} 0).2.1 0).GetOrder = 1 ∧
      (kvAt ((exSquareWith exKVOne exKVQuadratic).SetBdrPatchDofMap {} 1).2.1 0).GetOrder = 2 ∧
      ConnectBoundaries2D false exOps (exSquareWith exKVOne exKVQuadratic) 0 1
        (identityDofs (exSquareWith exKVOne exKVQuadratic)) = .ok [1, 4, 2, 3, 4, 5]) ∧
    ((kvAt ((exSquareWith exKVRepeated exKVThree).SetBdrPatchDofMap {} 0).2.1 0).isElement 1
        = false ∧
      (kvAt ((exSquareWith exKVRepeated exKVThree).SetBdrPatchDofMap {} 1).2.1 0).isElement 1
        = true ∧
      ConnectBoundaries2D true exOps (exSquareWith exKVRepeated exKVThree) 0 1
        (identityDofs (exSquareWith exKVRepeated exKVThree)) =
          .ok [1, 2, 2, 3, 6, 7, 6, 7, 8, 9, 10, 11, 12, 13, 14, 15]) := by
  refine ⟨⟨by decide, by decide, ?_⟩, ⟨by decide, by decide, ?_⟩, ⟨by decide, by decide, ?_⟩⟩
  · rfl
  · rfl
  · rfl

/-- C24 (amended): on a two-dimensional extension whose paired dofs are positions of
`d_to_d`, `ConnectBoundaries2D` fails with a fatal error whenever, in a debug build, the knot
vectors of the two boundaries differ in order or in number of knot spans, and, in every
build, whenever some knot span is an element on the first boundary and not on the second. -/
theorem connectBoundaries2D_mismatch (debug : Bool) (ops : PatchMapOps) (ext : NURBSExtension)
    (bnd0 bnd1 : Int) (d : List Int) (hdim : ext.Dimension = 2)
    (hr : ∀ pr ∈ bdrPairs ops ext bnd0 bnd1,
      (0 ≤ pr.1 ∧ pr.1 < (d.length : Int)) ∧ (0 ≤ pr.2 ∧ pr.2 < (d.length : Int)))
    (h : (debug = true ∧
        ((kvAt (ext.SetBdrPatchDofMap {} bnd0).2.1 0).GetOrder ≠
            (kvAt (ext.SetBdrPatchDofMap {} bnd1).2.1 0).GetOrder ∨
          (kvAt (ext.SetBdrPatchDofMap {} bnd0).2.1 0).GetNKS ≠
            (kvAt (ext.SetBdrPatchDofMap {} bnd1).2.1 0).GetNKS)) ∨
      ∃ i : Nat, (i : Int) < (kvAt (ext.SetBdrPatchDofMap {} bnd0).2.1 0).GetNKS ∧
        (kvAt (ext.SetBdrPatchDofMap {} bnd0).2.1 0).isElement (i : Int) = true ∧
        (kvAt (ext.SetBdrPatchDofMap {} bnd1).2.1 0).isElement (i : Int) = false) :
    ConnectBoundaries2D debug ops ext bnd0 bnd1 d = .error .fatal := by
  unfold ConnectBoundaries2D
  dsimp only
  by_cases hg : debug = true ∧ ((ext.SetBdrPatchDofMap {} bnd0).1.nx ≠
      (ext.SetBdrPatchDofMap {} bnd1).1.nx ∨
      (kvAt (ext.SetBdrPatchDofMap {} bnd0).2.1 0).GetNKS ≠
        (kvAt (ext.SetBdrPatchDofMap {} bnd1).2.1 0).GetNKS ∨
      (kvAt (ext.SetBdrPatchDofMap {} bnd0).2.1 0).GetOrder ≠
        (kvAt (ext.SetBdrPatchDofMap {} bnd1).2.1 0).GetOrder)
  · rw [if_pos hg]
  · rw [if_neg hg]
    have hex : ∃ i : Nat, (i : Int) < (kvAt (ext.SetBdrPatchDofMap {} bnd0).2.1 0).GetNKS ∧
        (kvAt (ext.SetBdrPatchDofMap {} bnd0).2.1 0).isElement (i : Int) = true ∧
        (kvAt (ext.SetBdrPatchDofMap {} bnd1).2.1 0).isElement (i : Int) = false := by
      rcases h with h | h
      · exfalso
        apply hg
        refine ⟨h.1, ?_⟩
        rcases h.2 with h2 | h2
        · exact Or.inr (Or.inr h2)
        · exact Or.inr (Or.inl h2)
      · exact h
    have hk := Nat.find_spec hex
    have hmin := fun (m : Nat) (hm : m < Nat.find hex) => Nat.find_min hex hm
    generalize Nat.find hex = k at hk hmin
    rw [forLoopIntM]
    apply forCountM_fail _ (fun s => s.length = d.length) .fatal k _ 0 d (Nat.zero_le _)
      (by omega) rfl
    · intro s i hs _ hik
      beta_reduce
      rw [Int.zero_add]
      by_cases he : (kvAt (ext.SetBdrPatchDofMap {} bnd0).2.1 0).isElement (i : Int) = true
      · have he1 : (kvAt (ext.SetBdrPatchDofMap {} bnd1).2.1 0).isElement (i : Int) ≠ false := by
          intro hc
          exact hmin i hik ⟨by omega, he, hc⟩
        rw [if_pos he, if_neg he1]
        rw [forLoopIntM_connect_map
          (fun (ii : Nat) =>
            (ops.at1 (ext.SetBdrPatchDofMap {} bnd0).1
              (if rdI (ext.SetBdrPatchDofMap {} bnd0).2.2 0 ≥ 0 then (i : Int) + ii
                else (ext.SetBdrPatchDofMap {} bnd0).1.nx - i - ii),
             ops.at1 (ext.SetBdrPatchDofMap {} bnd1).1
              (if rdI (ext.SetBdrPatchDofMap {} bnd1).2.2 0 ≥ 0 then (i : Int) + ii
                else (ext.SetBdrPatchDofMap {} bnd0).1.nx - i - ii))) _ _ s (fun _ _ _ => rfl)]
        apply connectList_ok d.length _ s hs
        intro pr hpr
        apply hr pr
        unfold bdrPairs
        dsimp only
        rw [if_neg (by rw [hdim]; decide), if_pos hdim]
        rw [List.mem_flatMap]
        refine ⟨i, List.mem_range.mpr (by omega), ?_⟩
        rw [if_pos he]
        have e : (((kvAt (ext.SetBdrPatchDofMap {} bnd0).2.1 0).GetOrder : Int) + 1).toNat =
            (kvAt (ext.SetBdrPatchDofMap {} bnd0).2.1 0).GetOrder + 1 := by omega
        rw [e] at hpr
        exact hpr
      · rw [if_neg he]
        exact ⟨s, rfl, hs⟩
    · intro s _
      beta_reduce
      rw [Int.zero_add, if_pos hk.2.1, if_pos hk.2.2]

/-- C24 (amended), at a concrete input: the first boundary has three elements, the second
has the knot span `1` collapsed; release build. -/
theorem connectBoundaries2D_mismatch_witness :
    ConnectBoundaries2D false exOps (exSquareWith exKVThree exKVRepeated) 0 1
      (identityDofs (exSquareWith exKVThree exKVRepeated)) = .error .fatal :=
  connectBoundaries2D_mismatch false exOps (exSquareWith exKVThree exKVRepeated) 0 1
    (identityDofs (exSquareWith exKVThree exKVRepeated)) (by decide) (by decide)
    (Or.inr ⟨1, by decide, by decide, by decide⟩)

end NURBSExtension

namespace NURBSExtension

/-- C25: over the five constructors the number of extensions that own a shared patch topology
is preserved (so exactly one owner stays exactly one owner), provided the other statements of
the constructor, which do not assign `own_topo`, keep the flags.  The constructors from a
mesh array and from a serial parent fail with a fatal error if the parent does not own the
topology and otherwise, when the other statements succeed, return with the child owning and
the parent not owning; the constructor that steals all data hands the parent's flag to the
child; the borrowing constructors return with the parent's flag unchanged and the child not
owning. -/
theorem own_topo_preserved (rest : CtorRest) (parent : NURBSExtension)
    (others : List NURBSExtension)
    (hrest : ∀ p c r, rest p c = .ok r → r.1.own_topo = c.own_topo ∧ r.2.own_topo = p.own_topo) :
    (parent.own_topo = false →
      fromMeshArray rest parent = .error .fatal ∧ parFromSerial rest parent = .error .fatal) ∧
    (∀ r, parent.own_topo = true →
      rest { parent with own_topo := false }
        { patchTopo := parent.patchTopo, own_topo := true } = .ok r →
      fromMeshArray rest parent = .ok r ∧
      (¬ parent.NumOfActiveElems < parent.NumOfElements → parFromSerial rest parent = .ok r) ∧
      parFromParent rest parent = .ok r ∧
      r.1.own_topo = true ∧ r.2.own_topo = false ∧
      ownerCount (r.1 :: r.2 :: others) = ownerCount (parent :: others)) ∧
    (∀ r, parent.own_topo = false →
      rest parent { patchTopo := parent.patchTopo, own_topo := false } = .ok r →
      parFromParent rest parent = .ok r ∧
      r.1.own_topo = false ∧ r.2.own_topo = false ∧
      ownerCount (r.1 :: r.2 :: others) = ownerCount (parent :: others)) ∧
    (∀ r, rest parent { patchTopo := parent.patchTopo, own_topo := false } = .ok r →
      withOrder rest parent = .ok r ∧ withOrders rest parent = .ok r ∧
      r.1.own_topo = false ∧ r.2.own_topo = parent.own_topo ∧
      ownerCount (r.1 :: r.2 :: others) = ownerCount (parent :: others)) := by
  refine ⟨?_, ?_, ?_, ?_⟩
  · intro h
    constructor
    · unfold fromMeshArray
      rw [if_pos h]
    · unfold parFromSerial
      by_cases hn : parent.NumOfActiveElems < parent.NumOfElements
      · rw [if_pos hn]
      · rw [if_neg hn, if_pos h]
  · intro r h hr
    have hf := hrest _ _ _ hr
    have h1 : r.1.own_topo = true := hf.1
    have h2 : r.2.own_topo = false := hf.2
    refine ⟨?_, ?_, ?_, h1, h2, ?_⟩
    · unfold fromMeshArray
      rw [if_neg (by rw [h]; decide)]
      exact hr
    · intro hn
      unfold parFromSerial
      rw [if_neg hn, if_neg (by rw [h]; decide)]
      exact hr
    · unfold parFromParent
      dsimp only
      rw [h]
      exact hr
    · unfold ownerCount
      simp [List.countP_cons, h1, h2, h]
  · intro r h hr
    have hf := hrest _ _ _ hr
    have h1 : r.1.own_topo = false := hf.1
    have h2 : r.2.own_topo = false := by rw [hf.2, h]
    have hp : ({ parent with own_topo := false } : NURBSExtension) = parent := by
      cases parent
      simp only at h
      simp [h]
    refine ⟨?_, h1, h2, ?_⟩
    · unfold parFromParent
      dsimp only
      rw [hp, h]
      exact hr
    · unfold ownerCount
      simp [List.countP_cons, h1, h2, h]
  · intro r hr
    have hf := hrest _ _ _ hr
    have h1 : r.1.own_topo = false := hf.1
    refine ⟨hr, hr, h1, hf.2, ?_⟩
    unfold ownerCount
    simp [List.countP_cons, h1, hf.2]

/-- C25, at a concrete input: the parent `exSquareOne` owns its topology and a second
extension borrows it. -/
theorem own_topo_preserved_witness :
    fromMeshArray exRest exSquareOne =
      .ok ({ patchTopo := exSquareTopo, own_topo := true },
           { exSquareOne with own_topo := false }) ∧
    ownerCount [{ patchTopo := exSquareTopo, own_topo := true },
      { exSquareOne with own_topo := false }, { exSquareOne with own_topo := false }] =
      ownerCount [exSquareOne, { exSquareOne with own_topo := false }] ∧
    ownerCount [exSquareOne, { exSquareOne with own_topo := false }] = 1 :=
  ⟨((own_topo_preserved exRest exSquareOne [{ exSquareOne with own_topo := false }]
      (fun _ _ _ h => by unfold exRest at h; cases h; exact ⟨rfl, rfl⟩)).2.1
      _ rfl rfl).1,
   ((own_topo_preserved exRest exSquareOne [{ exSquareOne with own_topo := false }]
      (fun _ _ _ h => by unfold exRest at h; cases h; exact ⟨rfl, rfl⟩)).2.1
      (({ patchTopo := exSquareTopo, own_topo := true },
           { exSquareOne with own_topo := false })) rfl rfl).2.2.2.2.2,
   by decide⟩

end NURBSExtension

namespace KnotVector

/-- The number of steps of the loop of `Flip`. -/
theorem tdiv_two_count (N O : Nat) :
    (Int.tdiv ((N : Int) - (O : Int)) 2 + 1 - 1).toNat = (N - O) / 2 := by
  by_cases h : O ≤ N
  · rw [Int.tdiv_eq_ediv (by omega) (by decide)]
    omega
  · have e : (N : Int) - (O : Int) = -((O : Int) - (N : Int)) := by omega
    have h0 := Int.tdiv_nonneg (show (0 : Int) ≤ (O : Int) - (N : Int) by omega)
      (show (0 : Int) ≤ 2 by decide)
    rw [e, Int.neg_tdiv]
    have : N - O = 0 := by omega
    rw [this]
    omega

/-- The body of the loop of `Flip` on the knot array. -/
theorem flip_loop_knots (O N : Nat) (apb : ℚ) :
    ∀ (n s : Nat) (k : KnotVector), k.Order = O → k.NumOfControlPoints = N →
      forCount (fun (st : KnotVector) (m : Nat) =>
          (st.set ((st.Order : Int) + (1 + (m : Int)))
            (apb - st.get ((st.NumOfControlPoints : Int) - (1 + (m : Int))))).set
            ((st.NumOfControlPoints : Int) - (1 + (m : Int)))
            (apb - st.get ((st.Order : Int) + (1 + (m : Int))))) n s k =
        { k with knot := forCount (fun (w : List ℚ) (m : Nat) =>
            wr (wr w ((O : Int) + (1 + (m : Int))) (apb - rd w ((N : Int) - (1 + (m : Int)))))
              ((N : Int) - (1 + (m : Int))) (apb - rd w ((O : Int) + (1 + (m : Int))))) n s k.knot }
  | 0, _, _, _, _ => rfl
  | n + 1, s, k, hO, hN => by
    rw [forCount, forCount, flip_loop_knots O N apb n (s + 1) _ (by simpa [set] using hO)
      (by simpa [set] using hN)]
    simp only [set, get, hO, hN]

/-- The knot array after the first `s` steps of the loop of `Flip` stays as described
through the remaining steps: the knots at distance at most `s` from the two ends of the
interior are mirrored, the others are the original ones. -/
theorem flip_loop_inv (O N : Nat) (apb : ℚ) (w0 : List ℚ) (hlen : N ≤ w0.length) :
    ∀ (n s : Nat) (w : List ℚ), O + 2 * (s + n) ≤ N → w.length = w0.length →
      (∀ j : Nat, rd w (j : Int) =
        if (O < j ∧ j ≤ O + s) ∨ (N ≤ j + s ∧ j < N) then apb - rd w0 ((N + O - j : Nat) : Int)
        else rd w0 (j : Int)) →
      (forCount (fun (w : List ℚ) (m : Nat) =>
            wr (wr w ((O : Int) + (1 + (m : Int))) (apb - rd w ((N : Int) - (1 + (m : Int)))))
              ((N : Int) - (1 + (m : Int))) (apb - rd w ((O : Int) + (1 + (m : Int))))) n s w).length
          = w0.length ∧
      ∀ j : Nat, rd (forCount (fun (w : List ℚ) (m : Nat) =>
            wr (wr w ((O : Int) + (1 + (m : Int))) (apb - rd w ((N : Int) - (1 + (m : Int)))))
              ((N : Int) - (1 + (m : Int))) (apb - rd w ((O : Int) + (1 + (m : Int))))) n s w)
          (j : Int) =
        if (O < j ∧ j ≤ O + (s + n)) ∨ (N ≤ j + (s + n) ∧ j < N) then
          apb - rd w0 ((N + O - j : Nat) : Int)
        else rd w0 (j : Int)
  | 0, s, w, _, hl, hw => ⟨hl, fun j => by rw [forCount, hw j]; rfl⟩
  | n + 1, s, w, hb, hl, hw => by
    rw [forCount]
    have ha : (O : Int) + (1 + (s : Int)) = ((O + s + 1 : Nat) : Int) := by omega
    have hbb : (N : Int) - (1 + (s : Int)) = ((N - s - 1 : Nat) : Int) := by omega
    have hra : rd w ((O + s + 1 : Nat) : Int) = rd w0 ((O + s + 1 : Nat) : Int) := by
      rw [hw, if_neg (by omega)]
    have hrb : rd w ((N - s - 1 : Nat) : Int) = rd w0 ((N - s - 1 : Nat) : Int) := by
      rw [hw, if_neg (by omega)]
    have key := flip_loop_inv O N apb w0 hlen n (s + 1)
      (wr (wr w ((O : Int) + (1 + (s : Int))) (apb - rd w ((N : Int) - (1 + (s : Int)))))
        ((N : Int) - (1 + (s : Int))) (apb - rd w ((O : Int) + (1 + (s : Int)))))
      (by omega) (by rw [length_wr, length_wr, hl]) (by
        intro j
        rw [rd_wr, rd_wr, length_wr, ha, hbb, hra, hrb, hw j]
        by_cases h1 : N - s - 1 = j
        · subst h1
          rw [if_pos ⟨rfl, by omega, by simp; omega⟩, if_pos (by omega)]
          congr 2
          congr 1
          omega
        · rw [if_neg (fun h => h1 (by exact_mod_cast h.1))]
          by_cases h2 : O + s + 1 = j
          · subst h2
            rw [if_pos ⟨rfl, by omega, by simp; omega⟩, if_pos (by omega)]
            congr 2
            congr 1
            omega
          · rw [if_neg (fun h => h2 (by exact_mod_cast h.1))]
            by_cases h3 : (O < j ∧ j ≤ O + s) ∨ (N ≤ j + s ∧ j < N)
            · rw [if_pos h3, if_pos (by omega)]
            · rw [if_neg h3, if_neg (by omega)])
    have e : s + 1 + n = s + (n + 1) := by omega
    rw [e] at key
    exact key

/-- `Flip` keeps the order, the number of control points, the stored number of elements and
the number of knots, mirrors the interior knots and leaves the other knots. -/
theorem flip_knots (kv : KnotVector) (hsz : kv.NumOfControlPoints ≤ kv.knot.length) :
    kv.Flip.Order = kv.Order ∧ kv.Flip.NumOfControlPoints = kv.NumOfControlPoints ∧
    kv.Flip.NumOfElements = kv.NumOfElements ∧ kv.Flip.knot.length = kv.knot.length ∧
    ∀ j : Nat, kv.Flip.get (j : Int) =
      if kv.Order < j ∧ j < kv.NumOfControlPoints then
        kv.get 0 + kv.get ((kv.Size : Int) - 1) -
          kv.get ((kv.NumOfControlPoints + kv.Order - j : Nat) : Int)
      else kv.get (j : Int) := by
  have hloop := flip_loop_knots kv.Order kv.NumOfControlPoints
    (kv.get 0 + kv.get ((kv.Size : Int) - 1))
    (Int.tdiv ((kv.NumOfControlPoints : Int) - (kv.Order : Int)) 2 + 1 - 1).toNat 0 kv rfl rfl
  have hF : kv.Flip = _ := hloop
  have hc := tdiv_two_count kv.NumOfControlPoints kv.Order
  rw [hc] at hF
  by_cases hON : kv.Order ≤ kv.NumOfControlPoints
  · have hinv := flip_loop_inv kv.Order kv.NumOfControlPoints
      (kv.get 0 + kv.get ((kv.Size : Int) - 1)) kv.knot hsz
      ((kv.NumOfControlPoints - kv.Order) / 2) 0 kv.knot (by omega) rfl
      (fun j => by rw [if_neg (by omega)])
    rw [hF]
    refine ⟨rfl, rfl, rfl, hinv.1, ?_⟩
    intro j
    have h := hinv.2 j
    show rd _ (j : Int) = _
    rw [h]
    by_cases hj : kv.Order < j ∧ j < kv.NumOfControlPoints
    · rw [if_pos hj, if_pos (by omega)]
      rfl
    · rw [if_neg hj, if_neg (by omega)]
      rfl
  · have h0 : (kv.NumOfControlPoints - kv.Order) / 2 = 0 := by omega
    rw [h0] at hF
    rw [hF]
    refine ⟨rfl, rfl, rfl, rfl, ?_⟩
    intro j
    rw [if_neg (by omega)]
    rfl

end KnotVector

namespace KnotVector

theorem kv_ext (a b : KnotVector) (h1 : a.knot = b.knot) (h2 : a.Order = b.Order)
    (h3 : a.NumOfControlPoints = b.NumOfControlPoints)
    (h4 : a.NumOfElements = b.NumOfElements) : a = b := by
  cases a
  cases b
  simp only at h1 h2 h3 h4
  simp [h1, h2, h3, h4]

/-- Flipping twice gives the knot vector back. -/
theorem flip_flip (kv : KnotVector) (hsz : kv.NumOfControlPoints < kv.knot.length) :
    kv.Flip.Flip = kv := by
  obtain ⟨hO, hN, hE, hL, hK⟩ := flip_knots kv (by omega)
  obtain ⟨hO2, hN2, hE2, hL2, hK2⟩ := flip_knots kv.Flip (by rw [hN, hL]; omega)
  have h0 : kv.Flip.get 0 = kv.get 0 := by
    have := hK 0
    rw [if_neg (by omega)] at this
    exact this
  have hlast : kv.Flip.get ((kv.Flip.Size : Int) - 1) = kv.get ((kv.Size : Int) - 1) := by
    have hs : kv.Flip.Size = kv.Size := hL
    have e : ((kv.Size : Int) - 1) = ((kv.knot.length - 1 : Nat) : Int) := by
      unfold Size; omega
    rw [hs, e, hK, if_neg (by omega)]
  apply kv_ext
  · apply list_ext_rd _ _ (by rw [hL2, hL])
    intro j _
    have h2 := hK2 j
    unfold get at h2
    rw [h2]
    by_cases hj : kv.Order < j ∧ j < kv.NumOfControlPoints
    · rw [if_pos (by rw [hO, hN]; exact hj)]
      have h1 := hK (kv.NumOfControlPoints + kv.Order - j)
      rw [if_pos (by omega)] at h1
      have e : kv.NumOfControlPoints + kv.Order - (kv.NumOfControlPoints + kv.Order - j) = j := by
        omega
      rw [e] at h1
      have h0a : rd kv.Flip.knot 0 = kv.get 0 := h0
      have hla : rd kv.Flip.knot ((kv.Flip.Size : Int) - 1) = kv.get ((kv.Size : Int) - 1) := hlast
      have h1a : rd kv.Flip.knot ((kv.NumOfControlPoints + kv.Order - j : Nat) : Int) =
          kv.get 0 + kv.get ((kv.Size : Int) - 1) - kv.get (j : Int) := h1
      rw [h0a, hla, hO, hN, h1a]
      unfold get
      ring
    · rw [if_neg (by rw [hO, hN]; exact hj)]
      have h1 := hK j
      rw [if_neg hj] at h1
      exact h1
  · rw [hO2, hO]
  · rw [hN2, hN]
  · rw [hE2, hE]

end KnotVector

/-! ## Loops over the slices of a patch -/

theorem forCount_foldl {σ : Type} (body : σ → Nat → σ) :
    ∀ (n s : Nat) (st : σ), forCount body n s st = (List.range' s n).foldl body st
  | 0, _, _ => rfl
  | n + 1, s, st => by
    rw [forCount, List.range'_succ, List.foldl_cons, forCount_foldl body n (s + 1)]

theorem forLoopInt_foldl {σ : Type} (hi : Int) (body : σ → Int → σ) (st : σ) :
    forLoopInt 0 hi body st =
      (List.range hi.toNat).foldl (fun s (i : Nat) => body s (i : Int)) st := by
  unfold forLoopInt
  rw [forCount_foldl, Int.sub_zero, List.range_eq_range']
  simp only [Int.zero_add]

theorem foldl_product {σ α β : Type} (f : σ → α → β → σ) (l2 : List β) :
    ∀ (l1 : List α) (st : σ),
      l1.foldl (fun s a => l2.foldl (fun s b => f s a b) s) st =
        (List.product l1 l2).foldl (fun s pr => f s pr.1 pr.2) st
  | [], _ => rfl
  | a :: rest, st => by
    rw [List.foldl_cons, foldl_product f l2 rest]
    unfold List.product
    rw [List.flatMap_cons, List.foldl_append, List.foldl_map]

/-- Two nested loops from `0` are one pass over the pairs of indices, the second index
fastest. -/
theorem loops_product {σ : Type} (M S : Int) (f : σ → Int → Int → σ) (st : σ) :
    forLoopInt 0 M (fun d id => forLoopInt 0 S (fun d i => f d id i) d) st =
      (List.product (List.range M.toNat) (List.range S.toNat)).foldl
        (fun s (pr : Nat × Nat) => f s (pr.1 : Int) (pr.2 : Int)) st := by
  rw [forLoopInt_foldl]
  simp only [forLoopInt_foldl]
  exact foldl_product (fun s (a b : Nat) => f s (a : Int) (b : Int)) _ _ st

namespace NURBSPatch

theorem length_swapEntries (d : List ℚ) (a b : Int) : (swapEntries d a b).length = d.length := by
  unfold swapEntries
  rw [length_wr, length_wr]

theorem rd_swapEntries (d : List ℚ) (a b j : Int) (ha : 0 ≤ a ∧ a < d.length)
    (hb : 0 ≤ b ∧ b < d.length) :
    rd (swapEntries d a b) j = if j = b then rd d a else if j = a then rd d b else rd d j := by
  unfold swapEntries
  rw [rd_wr, rd_wr, length_wr]
  by_cases h1 : j = b
  · subst h1
    rw [if_pos ⟨rfl, hb.1, by omega⟩, if_pos rfl]
  · rw [if_neg (fun h => h1 h.1.symm), if_neg h1]
    by_cases h2 : j = a
    · subst h2
      rw [if_pos ⟨rfl, ha.1, by omega⟩, if_pos rfl]
    · rw [if_neg (fun h => h2 h.1.symm), if_neg h2]

/-- Swaps of pairwise different pairs of entries exchange each pair and leave the other
entries. -/
theorem swapAll_spec {α : Type} (a b : α → Int) (len : Nat) :
    ∀ (L : List α) (d : List ℚ), d.length = len →
      (∀ x ∈ L, (0 ≤ a x ∧ a x < (len : Int)) ∧ (0 ≤ b x ∧ b x < (len : Int))) →
      L.Pairwise (fun x y => a x ≠ a y ∧ a x ≠ b y ∧ b x ≠ a y ∧ b x ≠ b y) →
      (L.foldl (fun d x => swapEntries d (a x) (b x)) d).length = len ∧
      (∀ x ∈ L, rd (L.foldl (fun d x => swapEntries d (a x) (b x)) d) (a x) = rd d (b x) ∧
        rd (L.foldl (fun d x => swapEntries d (a x) (b x)) d) (b x) = rd d (a x)) ∧
      ∀ j : Int, (∀ x ∈ L, j ≠ a x ∧ j ≠ b x) →
        rd (L.foldl (fun d x => swapEntries d (a x) (b x)) d) j = rd d j
  | [], d, hl, _, _ => ⟨hl, (fun _ h => (List.not_mem_nil _ h).elim), fun _ _ => rfl⟩
  | x :: rest, d, hl, hr, hp => by
    rw [List.pairwise_cons] at hp
    have hx := hr x (List.mem_cons_self _ _)
    obtain ⟨i1, i2, i3⟩ := swapAll_spec a b len rest (swapEntries d (a x) (b x))
      (by rw [length_swapEntries, hl]) (fun y hy => hr y (List.mem_cons_of_mem _ hy)) hp.2
    rw [List.foldl_cons]
    have hax : (0 ≤ a x ∧ a x < (d.length : Int)) := by rw [hl]; exact hx.1
    have hbx : (0 ≤ b x ∧ b x < (d.length : Int)) := by rw [hl]; exact hx.2
    refine ⟨i1, ?_, ?_⟩
    · intro y hy
      rcases List.mem_cons.mp hy with h | h
      · subst h
        constructor
        · rw [i3 (a y) (fun z hz => ⟨(hp.1 z hz).1, (hp.1 z hz).2.1⟩), rd_swapEntries d _ _ _ hax hbx]
          by_cases e : a y = b y
          · rw [if_pos e, e]
          · rw [if_neg e, if_pos rfl]
        · rw [i3 (b y) (fun z hz => ⟨(hp.1 z hz).2.2.1, (hp.1 z hz).2.2.2⟩),
            rd_swapEntries d _ _ _ hax hbx, if_pos rfl]
      · have h1 := i2 y h
        have hq := hp.1 y h
        rw [h1.1, h1.2, rd_swapEntries d _ _ _ hax hbx, rd_swapEntries d _ _ _ hax hbx,
          if_neg (Ne.symm hq.2.2.2), if_neg (Ne.symm hq.2.1), if_neg (Ne.symm hq.2.2.1),
          if_neg (Ne.symm hq.1)]
        exact ⟨rfl, rfl⟩
    · intro j hj
      have hjx := hj x (List.mem_cons_self _ _)
      rw [i3 j (fun z hz => hj z (List.mem_cons_of_mem _ hz)), rd_swapEntries d _ _ _ hax hbx,
        if_neg hjx.2, if_neg hjx.1]

/-- Writes to pairwise different entries store each value and leave the other entries. -/
theorem writeAll_spec {α : Type} (a : α → Int) (v : α → ℚ) (len : Nat) :
    ∀ (L : List α) (d : List ℚ), d.length = len →
      (∀ x ∈ L, 0 ≤ a x ∧ a x < (len : Int)) →
      L.Pairwise (fun x y => a x ≠ a y) →
      (L.foldl (fun d x => wr d (a x) (v x)) d).length = len ∧
      (∀ x ∈ L, rd (L.foldl (fun d x => wr d (a x) (v x)) d) (a x) = v x) ∧
      ∀ j : Int, (∀ x ∈ L, j ≠ a x) → rd (L.foldl (fun d x => wr d (a x) (v x)) d) j = rd d j
  | [], d, hl, _, _ => ⟨hl, (fun _ h => (List.not_mem_nil _ h).elim), fun _ _ => rfl⟩
  | x :: rest, d, hl, hr, hp => by
    rw [List.pairwise_cons] at hp
    have hx := hr x (List.mem_cons_self _ _)
    obtain ⟨i1, i2, i3⟩ := writeAll_spec a v len rest (wr d (a x) (v x))
      (by rw [length_wr, hl]) (fun y hy => hr y (List.mem_cons_of_mem _ hy)) hp.2
    rw [List.foldl_cons]
    refine ⟨i1, ?_, ?_⟩
    · intro y hy
      rcases List.mem_cons.mp hy with h | h
      · subst h
        rw [i3 (a y) (fun z hz => hp.1 z hz), rd_wr_same _ _ _ hx.1 (by omega)]
      · exact i2 y h
    · intro j hj
      rw [i3 j (fun z hz => hj z (List.mem_cons_of_mem _ hz)),
        rd_wr_other _ _ _ _ (Ne.symm (hj x (List.mem_cons_self _ _)))]

end NURBSPatch

namespace NURBSPatch

/-- The offset of `slice(id, i)` for a non-negative `i` and a positive stride. -/
theorem slice_eq (p : NURBSPatch) (id i : Int) (hi : 0 ≤ i) (hsd : 0 < p.sd) :
    slice p id i = i % p.sd + p.sd * (id + (i / p.sd) * p.nd) := by
  unfold slice
  rw [Int.tmod_eq_emod hi (by omega), Int.tdiv_eq_ediv hi (by omega)]

/-- Different slice positions have different offsets. -/
theorem off_inj (sd nd id i id1 i1 : Int) (hsd : 0 < sd) (hid : 0 ≤ id ∧ id < nd)
    (hid1 : 0 ≤ id1 ∧ id1 < nd) (hi : 0 ≤ i) (hi1 : 0 ≤ i1)
    (h : i % sd + sd * (id + (i / sd) * nd) = i1 % sd + sd * (id1 + (i1 / sd) * nd)) :
    id = id1 ∧ i = i1 := by
  have hr := Int.emod_nonneg i (show sd ≠ 0 by omega)
  have hr' := Int.emod_lt_of_pos i hsd
  have hr1 := Int.emod_nonneg i1 (show sd ≠ 0 by omega)
  have hr1' := Int.emod_lt_of_pos i1 hsd
  have hq := Int.ediv_nonneg hi (show 0 ≤ sd by omega)
  have hq1 := Int.ediv_nonneg hi1 (show 0 ≤ sd by omega)
  have e1 : i % sd = i1 % sd := by
    have := congrArg (fun x => x % sd) h
    simp only [Int.add_mul_emod_self_left, Int.emod_emod_of_dvd, Int.emod_emod] at this
    exact this
  have e2 : id + (i / sd) * nd = id1 + (i1 / sd) * nd := by
    have h2 : sd * (id + (i / sd) * nd) = sd * (id1 + (i1 / sd) * nd) := by omega
    exact Int.eq_of_mul_eq_mul_left (by omega) h2
  have e3 : id = id1 := by
    have := congrArg (fun x => x % nd) e2
    simp only [Int.add_mul_emod_self] at this
    rwa [Int.emod_eq_of_lt hid.1 hid.2, Int.emod_eq_of_lt hid1.1 hid1.2] at this
  have e4 : i / sd = i1 / sd := by
    have h3 : (i / sd) * nd = (i1 / sd) * nd := by omega
    exact Int.eq_of_mul_eq_mul_right (by omega) h3
  refine ⟨e3, ?_⟩
  have a1 := Int.emod_add_ediv i sd
  have a2 := Int.emod_add_ediv i1 sd
  rw [e1, e4] at a1
  omega

/-- The offsets of the slice positions lie inside the buffer. -/
theorem off_range (sd nd m id i : Int) (hsd : 0 < sd) (hid : 0 ≤ id ∧ id < nd)
    (hi : 0 ≤ i ∧ i < sd * m) :
    0 ≤ i % sd + sd * (id + (i / sd) * nd) ∧ i % sd + sd * (id + (i / sd) * nd) < sd * nd * m := by
  have hr := Int.emod_nonneg i (show sd ≠ 0 by omega)
  have hr' := Int.emod_lt_of_pos i hsd
  have hq := Int.ediv_nonneg hi.1 (show 0 ≤ sd by omega)
  have hqm : i / sd < m := Int.ediv_lt_of_lt_mul hsd (by rw [Int.mul_comm]; exact hi.2)
  have h1 : 0 ≤ (i / sd) * nd := Int.mul_nonneg hq (by omega)
  have h2 : 0 ≤ sd * (id + (i / sd) * nd) := Int.mul_nonneg (by omega) (by omega)
  have h3 : (i / sd) * nd ≤ (m - 1) * nd :=
    Int.mul_le_mul_of_nonneg_right (by omega) (by omega)
  have h4 : sd * (id + (i / sd) * nd) ≤ sd * (nd - 1 + (m - 1) * nd) :=
    Int.mul_le_mul_of_nonneg_left (by omega) (by omega)
  have h5 : sd * (nd - 1 + (m - 1) * nd) = sd * nd * m - sd := by ring
  constructor
  · omega
  · omega

end NURBSPatch

namespace NURBSPatch

/-- On a well-formed patch `SetLoopDirection` succeeds for every direction that has a knot
vector; the stride, the extent and the slice length it sets depend on the extents of the
patch only, and the slices of the loop direction tile the buffer. -/
theorem setLoop_ok (p : NURBSPatch) (dir : Nat) (hdims : p.DimsOk) (hdata : p.DataOk)
    (hdir : dir < p.kv.length) :
    ∃ sd nd ls m : Int, 0 < sd ∧ 0 < nd ∧ 0 < m ∧ ls = sd * m ∧
      (p.data.length : Int) = sd * nd * m ∧
      nd = ((p.kv.getD dir (KnotVector.create 0 0)).NumOfControlPoints : Int) ∧
      ∀ q : NURBSPatch, q.ni = p.ni → q.nj = p.nj → q.nk = p.nk → q.Dim = p.Dim →
        SetLoopDirection q (dir : Int) = .ok ({ q with sd := sd, nd := nd, ls := ls }, ls) := by
  obtain ⟨hD, hni, hnj, hnk, hlen⟩ := hdata
  unfold bufferSize at hlen
  unfold DimsOk at hdims
  split at hdims
  · rename_i k0 hkv
    rw [hkv] at hdir
    have hd0 : dir = 0 := by simpa using hdir
    subst hd0
    obtain ⟨h1, h2, h3⟩ := hdims
    rw [if_pos h2] at hlen
    refine ⟨p.Dim, p.ni, p.Dim, 1, hD, hni, by decide, by ring, by rw [hlen]; ring, ?_, ?_⟩
    · rw [hkv, h1]; rfl
    · intro q e1 e2 e3 e4
      unfold SetLoopDirection
      rw [if_pos (by rw [e2, h2]), if_pos (by rfl), e1, e4]
  · rename_i k0 k1 hkv
    rw [hkv] at hdir
    obtain ⟨h1, h2, h3⟩ := hdims
    have hj : p.nj ≠ -1 := by rw [h2]; simp [KnotVector.GetNCP]
    have hjp : 0 < p.nj := by rcases hnj with h | h; exact absurd h hj; exact h
    rw [if_neg hj, if_pos h3] at hlen
    have hd : dir = 0 ∨ dir = 1 := by simp at hdir; omega
    rcases hd with hd | hd
    · subst hd
      refine ⟨p.Dim, p.ni, p.nj * p.Dim, p.nj, hD, hni, hjp, by ring, by rw [hlen]; ring, ?_, ?_⟩
      · rw [hkv, h1]; rfl
      · intro q e1 e2 e3 e4
        unfold SetLoopDirection
        rw [if_neg (by rw [e2]; exact hj), if_pos (by rw [e3, h3]), if_pos (by rfl), e1, e2, e4]
    · subst hd
      refine ⟨p.ni * p.Dim, p.nj, p.ni * p.Dim, 1, Int.mul_pos hni hD, hjp, by decide, by ring,
        by rw [hlen]; ring, ?_, ?_⟩
      · rw [hkv, h2]; rfl
      · intro q e1 e2 e3 e4
        unfold SetLoopDirection
        rw [if_neg (by rw [e2]; exact hj), if_pos (by rw [e3, h3]), if_neg (by decide),
          if_pos (by rfl), e1, e2, e4]
  · rename_i k0 k1 k2 hkv
    rw [hkv] at hdir
    obtain ⟨h1, h2, h3⟩ := hdims
    have hj : p.nj ≠ -1 := by rw [h2]; simp [KnotVector.GetNCP]
    have hk : p.nk ≠ -1 := by rw [h3]; simp [KnotVector.GetNCP]
    have hjp : 0 < p.nj := by rcases hnj with h | h; exact absurd h hj; exact h
    have hkp : 0 < p.nk := by rcases hnk with h | h; exact absurd h hk; exact h
    rw [if_neg hj, if_neg hk] at hlen
    have hd : dir = 0 ∨ dir = 1 ∨ dir = 2 := by simp at hdir; omega
    rcases hd with hd | hd | hd
    · subst hd
      refine ⟨p.Dim, p.ni, p.nj * p.nk * p.Dim, p.nj * p.nk, hD, hni, Int.mul_pos hjp hkp,
        by ring, by rw [hlen]; ring, ?_, ?_⟩
      · rw [hkv, h1]; rfl
      · intro q e1 e2 e3 e4
        unfold SetLoopDirection
        rw [if_neg (by rw [e2]; exact hj), if_neg (by rw [e3]; exact hk), if_pos (by rfl),
          e1, e2, e3, e4]
    · subst hd
      refine ⟨p.ni * p.Dim, p.nj, p.ni * p.nk * p.Dim, p.nk, Int.mul_pos hni hD, hjp, hkp,
        by ring, by rw [hlen]; ring, ?_, ?_⟩
      · rw [hkv, h2]; rfl
      · intro q e1 e2 e3 e4
        unfold SetLoopDirection
        rw [if_neg (by rw [e2]; exact hj), if_neg (by rw [e3]; exact hk), if_neg (by decide),
          if_pos (by rfl), e1, e2, e3, e4]
    · subst hd
      refine ⟨p.ni * p.nj * p.Dim, p.nk, p.ni * p.nj * p.Dim, 1,
        Int.mul_pos (Int.mul_pos hni hjp) hD, hkp, by decide, by ring, by rw [hlen]; ring, ?_, ?_⟩
      · rw [hkv, h3]; rfl
      · intro q e1 e2 e3 e4
        unfold SetLoopDirection
        rw [if_neg (by rw [e2]; exact hj), if_neg (by rw [e3]; exact hk), if_neg (by decide),
          if_neg (by decide), if_pos (by rfl), e1, e2, e3, e4]
  · exact hdims.elim

end NURBSPatch

namespace NURBSPatch

theorem slice_inj (P : NURBSPatch) (hsd : 0 < P.sd) (id i id1 i1 : Int)
    (hid : 0 ≤ id ∧ id < P.nd) (hid1 : 0 ≤ id1 ∧ id1 < P.nd) (hi : 0 ≤ i) (hi1 : 0 ≤ i1)
    (h : slice P id i = slice P id1 i1) : id = id1 ∧ i = i1 := by
  rw [slice_eq P id i hi hsd, slice_eq P id1 i1 hi1 hsd] at h
  exact off_inj P.sd P.nd id i id1 i1 hsd hid hid1 hi hi1 h

theorem slice_range (P : NURBSPatch) (m : Int) (hsd : 0 < P.sd) (id i : Int)
    (hid : 0 ≤ id ∧ id < P.nd) (hi : 0 ≤ i ∧ i < P.sd * m) :
    0 ≤ slice P id i ∧ slice P id i < P.sd * P.nd * m := by
  rw [slice_eq P id i hi.1 hsd]
  exact off_range P.sd P.nd m id i hsd hid hi

/-- The two loops of `FlipDirection` reverse the order of the slices of the loop direction
and leave the rest of the buffer. -/
theorem flip_data (P : NURBSPatch) (m : Int) (d : List ℚ) (hsd : 0 < P.sd) (hnd : 0 < P.nd)
    (hlen : (d.length : Int) = P.sd * P.nd * m) :
    (forLoopInt 0 (Int.tdiv P.nd 2)
      (fun d id => forLoopInt 0 (P.sd * m)
        (fun d i => swapEntries d (slice P id i) (slice P (P.nd - 1 - id) i)) d) d).length
      = d.length ∧
    (∀ id i : Int, 0 ≤ id ∧ id < P.nd → 0 ≤ i ∧ i < P.sd * m →
      rd (forLoopInt 0 (Int.tdiv P.nd 2)
        (fun d id => forLoopInt 0 (P.sd * m)
          (fun d i => swapEntries d (slice P id i) (slice P (P.nd - 1 - id) i)) d) d)
        (slice P id i) = rd d (slice P (P.nd - 1 - id) i)) ∧
    ∀ j : Int, (∀ id i : Int, 0 ≤ id ∧ id < P.nd → 0 ≤ i ∧ i < P.sd * m → j ≠ slice P id i) →
      rd (forLoopInt 0 (Int.tdiv P.nd 2)
        (fun d id => forLoopInt 0 (P.sd * m)
          (fun d i => swapEntries d (slice P id i) (slice P (P.nd - 1 - id) i)) d) d) j = rd d j := by
  rw [loops_product (Int.tdiv P.nd 2) (P.sd * m)
    (fun d id i => swapEntries d (slice P id i) (slice P (P.nd - 1 - id) i)) d]
  have hM : Int.tdiv P.nd 2 = P.nd / 2 := Int.tdiv_eq_ediv (by omega) (by decide)
  rw [hM]
  have hmem : ∀ x : Nat × Nat, x ∈ List.product (List.range (P.nd / 2).toNat)
      (List.range (P.sd * m).toNat) →
      (0 ≤ (x.1 : Int) ∧ 2 * (x.1 : Int) + 2 ≤ P.nd) ∧ (0 ≤ (x.2 : Int) ∧ (x.2 : Int) < P.sd * m) := by
    intro x hx
    obtain ⟨x1, x2⟩ := x
    rw [List.pair_mem_product, List.mem_range, List.mem_range] at hx
    dsimp only
    omega
  have key := swapAll_spec (fun (pr : Nat × Nat) => slice P (pr.1 : Int) (pr.2 : Int))
    (fun (pr : Nat × Nat) => slice P (P.nd - 1 - (pr.1 : Int)) (pr.2 : Int)) d.length
    (List.product (List.range (P.nd / 2).toNat) (List.range (P.sd * m).toNat)) d rfl
    (by
      intro x hx
      have h := hmem x hx
      have r1 := slice_range P m hsd (x.1 : Int) (x.2 : Int) (by omega) h.2
      have r2 := slice_range P m hsd (P.nd - 1 - (x.1 : Int)) (x.2 : Int) (by omega) h.2
      dsimp only
      rw [hlen]
      exact ⟨r1, r2⟩)
    (by
      apply List.Nodup.pairwise_of_forall_ne
        (List.Nodup.product (List.nodup_range _) (List.nodup_range _))
      intro x hx y hy hne
      have h1 := hmem x hx
      have h2 := hmem y hy
      have hxy : ¬ ((x.1 : Int) = (y.1 : Int) ∧ (x.2 : Int) = (y.2 : Int)) := by
        intro h
        apply hne
        obtain ⟨x1, x2⟩ := x
        obtain ⟨y1, y2⟩ := y
        simp only [Prod.mk.injEq]
        dsimp only at h
        omega
      dsimp only
      refine ⟨?_, ?_, ?_, ?_⟩
      · intro e
        exact hxy (slice_inj P hsd _ _ _ _ (by omega) (by omega) h1.2.1 h2.2.1 e)
      · intro e
        have := slice_inj P hsd _ _ _ _ (by omega) (by omega) h1.2.1 h2.2.1 e
        omega
      · intro e
        have := slice_inj P hsd _ _ _ _ (by omega) (by omega) h1.2.1 h2.2.1 e
        omega
      · intro e
        have := slice_inj P hsd _ _ _ _ (by omega) (by omega) h1.2.1 h2.2.1 e
        exact hxy ⟨by omega, this.2⟩)
  obtain ⟨k1, k2, k3⟩ := key
  refine ⟨k1, ?_, ?_⟩
  · intro id i hid hi
    by_cases c1 : 2 * id + 2 ≤ P.nd
    · have hx : (id.toNat, i.toNat) ∈ List.product (List.range (P.nd / 2).toNat)
          (List.range (P.sd * m).toNat) := by
        rw [List.pair_mem_product, List.mem_range, List.mem_range]
        omega
      have := (k2 _ hx).1
      dsimp only at this
      rw [Int.toNat_of_nonneg hid.1, Int.toNat_of_nonneg hi.1] at this
      exact this
    · by_cases c2 : 2 * (P.nd - 1 - id) + 2 ≤ P.nd
      · have hx : ((P.nd - 1 - id).toNat, i.toNat) ∈ List.product (List.range (P.nd / 2).toNat)
            (List.range (P.sd * m).toNat) := by
          rw [List.pair_mem_product, List.mem_range, List.mem_range]
          omega
        have := (k2 _ hx).2
        dsimp only at this
        rw [Int.toNat_of_nonneg (show 0 ≤ P.nd - 1 - id by omega), Int.toNat_of_nonneg hi.1,
          show P.nd - 1 - (P.nd - 1 - id) = id by omega] at this
        exact this
      · have e : P.nd - 1 - id = id := by omega
        rw [e]
        apply k3
        intro x hx
        have h1 := hmem x hx
        dsimp only
        constructor
        · intro e1
          have := slice_inj P hsd _ _ _ _ hid (by omega) hi.1 h1.2.1 e1
          omega
        · intro e1
          have := slice_inj P hsd _ _ _ _ hid (by omega) hi.1 h1.2.1 e1
          omega
  · intro j hj
    apply k3
    intro x hx
    have h1 := hmem x hx
    exact ⟨hj _ _ (by omega) h1.2, hj _ _ (by omega) h1.2⟩

end NURBSPatch

namespace NURBSPatch

theorem set_getElem?_self {α : Type} :
    ∀ (l : List α) (i : Nat) (a : α), l[i]? = some a → l.set i a = l
  | [], _, _, _ => rfl
  | x :: xs, 0, a, h => by
    simp only [List.getElem?_cons_zero, Option.some.injEq] at h
    rw [List.set_cons_zero, h]
  | x :: xs, i + 1, a, h => by
    simp only [List.getElem?_cons_succ] at h
    rw [List.set_cons_succ, set_getElem?_self xs i a h]

/-- `FlipDirection` on a patch whose loop direction is set up as by `SetLoopDirection`. -/
theorem flipDirection_core (p : NURBSPatch) (dir : Nat) (k : KnotVector) (sd nd ls m : Int)
    (hsd : 0 < sd) (hnd : 0 < nd) (hls : ls = sd * m)
    (hlen : (p.data.length : Int) = sd * nd * m)
    (hset : SetLoopDirection p (dir : Int) = .ok ({ p with sd := sd, nd := nd, ls := ls }, ls))
    (hk : p.kv[dir]? = some k) :
    ∃ D : List ℚ,
      FlipDirection slice p (dir : Int) =
        .ok { p with sd := sd, nd := nd, ls := ls, data := D, kv := p.kv.set dir k.Flip } ∧
      D.length = p.data.length ∧
      (∀ id i : Int, 0 ≤ id ∧ id < nd → 0 ≤ i ∧ i < ls →
        rd D (slice { p with sd := sd, nd := nd, ls := ls } id i) =
          rd p.data (slice { p with sd := sd, nd := nd, ls := ls } (nd - 1 - id) i)) ∧
      ∀ j : Int, (∀ id i : Int, 0 ≤ id ∧ id < nd → 0 ≤ i ∧ i < ls →
          j ≠ slice { p with sd := sd, nd := nd, ls := ls } id i) → rd D j = rd p.data j := by
  have key := flip_data { p with sd := sd, nd := nd, ls := ls } m p.data hsd hnd hlen
  refine ⟨_, ?_, key.1, ?_, ?_⟩
  · unfold FlipDirection
    rw [hset]
    simp only [Int.toNat_ofNat]
    have hk1 : ({ p with sd := sd, nd := nd, ls := ls } : NURBSPatch).kv[dir]? = some k := hk
    simp only [hk, hls]
  · intro id i hid hi
    rw [hls] at hi
    exact key.2.1 id i hid hi
  · intro j hj
    apply key.2.2 j
    intro id i hid hi
    exact hj id i hid (by rw [hls]; exact hi)

/-- C27 (amended): on a well-formed patch, for a direction `dir` that has a knot vector `k`
with `NCP + Order + 1` knots, `FlipDirection(dir)` succeeds, keeps the extents, reverses the
order of the control points along `dir` (the entry at slice `id`, position `i` is the old
entry at slice `nd-1-id`, position `i`), and replaces `k` by `k.Flip`, whose interior knots
are the mirror images `knot(0) + knot(last) - knot(NCP + Order - j)` and whose other knots,
order and number of control points are those of `k`; applying `FlipDirection(dir)` once
more gives the original control points and, in exact arithmetic (`double` taken as exact
rationals, which is what `FlipDirection` computes with), the original knot vectors. -/
theorem flipDirection_spec (p : NURBSPatch) (dir : Nat) (k : KnotVector)
    (hdims : p.DimsOk) (hdata : p.DataOk) (hk : p.kv[dir]? = some k) (hsz : k.SizeOk) :
    ∃ q : NURBSPatch, FlipDirection slice p (dir : Int) = .ok q ∧
      q.ni = p.ni ∧ q.nj = p.nj ∧ q.nk = p.nk ∧ q.Dim = p.Dim ∧
      q.nd = (k.NumOfControlPoints : Int) ∧
      (∀ id i : Int, 0 ≤ id ∧ id < q.nd → 0 ≤ i ∧ i < q.ls →
        rd q.data (slice q id i) = rd p.data (slice q (q.nd - 1 - id) i)) ∧
      q.data.length = p.data.length ∧
      q.kv = p.kv.set dir k.Flip ∧
      k.Flip.Order = k.Order ∧ k.Flip.NumOfControlPoints = k.NumOfControlPoints ∧
      k.Flip.knot.length = k.knot.length ∧
      (∀ j : Nat, k.Flip.get (j : Int) =
        if k.Order < j ∧ j < k.NumOfControlPoints then
          k.get 0 + k.get ((k.Size : Int) - 1) -
            k.get ((k.NumOfControlPoints + k.Order - j : Nat) : Int)
        else k.get (j : Int)) ∧
      ∃ q2 : NURBSPatch, FlipDirection slice q (dir : Int) = .ok q2 ∧
        q2.data = p.data ∧ q2.kv = p.kv := by
  have hdir : dir < p.kv.length := by
    rcases Nat.lt_or_ge dir p.kv.length with h | h
    · exact h
    · rw [List.getElem?_eq_none h] at hk
      cases hk
  unfold KnotVector.SizeOk at hsz
  obtain ⟨sd, nd, ls, m, hsd, hnd, hm, hls, hlen, hndk, hset⟩ := setLoop_ok p dir hdims hdata hdir
  obtain ⟨D, e1, l1, r1, o1⟩ := flipDirection_core p dir k sd nd ls m hsd hnd hls hlen
    (hset p rfl rfl rfl rfl) hk
  obtain ⟨fO, fN, fE, fL, fK⟩ := KnotVector.flip_knots k (by omega)
  have hkq : (p.kv.set dir k.Flip)[dir]? = some k.Flip := by
    rw [List.getElem?_set_self (by exact hdir)]
  obtain ⟨D2, e2, l2, r2, o2⟩ := flipDirection_core
    { p with sd := sd, nd := nd, ls := ls, data := D, kv := p.kv.set dir k.Flip } dir k.Flip
    sd nd ls m hsd hnd hls (by rw [← hlen]; exact congrArg _ l1)
    (hset _ rfl rfl rfl rfl) hkq
  have hgd : (p.kv.getD dir (KnotVector.create 0 0)) = k := by
    rw [List.getD_eq_getElem?_getD, hk]
    rfl
  refine ⟨_, e1, rfl, rfl, rfl, rfl, by rw [hndk, hgd], r1, l1, rfl, fO, fN, fL, fK, _, e2, ?_, ?_⟩
  · apply list_ext_rd _ _ (l2.trans l1)
    intro j _
    show rd D2 (j : Int) = rd p.data (j : Int)
    by_cases hj : ∃ id i : Int, (0 ≤ id ∧ id < nd) ∧ (0 ≤ i ∧ i < ls) ∧
        (j : Int) = slice { p with sd := sd, nd := nd, ls := ls } id i
    · obtain ⟨id, i, hid, hi, e⟩ := hj
      rw [e]
      have a1 := r2 id i hid hi
      have a2 := r1 (nd - 1 - id) i (by omega) hi
      rw [show nd - 1 - (nd - 1 - id) = id by omega] at a2
      exact a1.trans a2
    · have hne : ∀ id i : Int, 0 ≤ id ∧ id < nd → 0 ≤ i ∧ i < ls →
          (j : Int) ≠ slice { p with sd := sd, nd := nd, ls := ls } id i :=
        fun id i hid hi e => hj ⟨id, i, hid, hi, e⟩
      exact (o2 _ hne).trans (o1 _ hne)
  · show (p.kv.set dir k.Flip).set dir k.Flip.Flip = p.kv
    rw [List.set_set, KnotVector.flip_flip k (by omega), set_getElem?_self _ _ _ hk]

/-- C27, at a concrete input: the second direction of a surface with `2 × 3` control
points. -/
theorem flipDirection_spec_witness :
    ∃ q : NURBSPatch, FlipDirection slice exGrid ((1 : Nat) : Int) = .ok q ∧
      q.ni = exGrid.ni ∧ q.nj = exGrid.nj ∧ q.nk = exGrid.nk ∧ q.Dim = exGrid.Dim ∧
      q.nd = (KnotVector.exTwoElements.NumOfControlPoints : Int) ∧
      (∀ id i : Int, 0 ≤ id ∧ id < q.nd → 0 ≤ i ∧ i < q.ls →
        rd q.data (slice q id i) = rd exGrid.data (slice q (q.nd - 1 - id) i)) ∧
      q.data.length = exGrid.data.length ∧
      q.kv = exGrid.kv.set 1 KnotVector.exTwoElements.Flip ∧
      KnotVector.exTwoElements.Flip.Order = KnotVector.exTwoElements.Order ∧
      KnotVector.exTwoElements.Flip.NumOfControlPoints =
        KnotVector.exTwoElements.NumOfControlPoints ∧
      KnotVector.exTwoElements.Flip.knot.length = KnotVector.exTwoElements.knot.length ∧
      (∀ j : Nat, KnotVector.exTwoElements.Flip.get (j : Int) =
        if KnotVector.exTwoElements.Order < j ∧ j < KnotVector.exTwoElements.NumOfControlPoints then
          KnotVector.exTwoElements.get 0 +
            KnotVector.exTwoElements.get ((KnotVector.exTwoElements.Size : Int) - 1) -
            KnotVector.exTwoElements.get ((KnotVector.exTwoElements.NumOfControlPoints +
              KnotVector.exTwoElements.Order - j : Nat) : Int)
        else KnotVector.exTwoElements.get (j : Int)) ∧
      ∃ q2 : NURBSPatch, FlipDirection slice q ((1 : Nat) : Int) = .ok q2 ∧
        q2.data = exGrid.data ∧ q2.kv = exGrid.kv :=
  flipDirection_spec exGrid 1 KnotVector.exTwoElements (by decide) (by decide) rfl (by decide)

end NURBSPatch

namespace NURBSPatch

/-- The offsets of `slice` in the first direction of a surface are those of the accessor
`operator()(i, j, l)`. -/
theorem offset_dir0 (sd nd i j d : Int) (hd : 0 ≤ d ∧ d < sd) (hj : 0 ≤ j) :
    (j * sd + d) % sd + sd * (i + ((j * sd + d) / sd) * nd) = (i + j * nd) * sd + d := by
  have h1 : (j * sd + d) % sd = d := by
    rw [Int.add_comm, Int.add_mul_emod_self, Int.emod_eq_of_lt hd.1 hd.2]
  have h2 : (j * sd + d) / sd = j := by
    rw [Int.add_comm, Int.add_mul_ediv_right _ _ (by omega), Int.ediv_eq_zero_of_lt hd.1 hd.2]
    omega
  rw [h1, h2]
  ring

/-- The offsets of `slice` in the second direction of a surface are those of the accessor
`operator()(i, j, l)`. -/
theorem offset_dir1 (sd nd i x : Int) (hx : 0 ≤ x ∧ x < sd) :
    x % sd + sd * (i + (x / sd) * nd) = x + sd * i := by
  rw [Int.emod_eq_of_lt hx.1 hx.2, Int.ediv_eq_zero_of_lt hx.1 hx.2]
  ring

/-- Every offset of the buffer of a surface is the offset of a control-point component. -/
theorem at2_surj (ni nj Dim x : Int) (hD : 0 < Dim) (hni : 0 < ni)
    (hx : 0 ≤ x ∧ x < ni * nj * Dim) :
    ∃ i j d : Int, (0 ≤ i ∧ i < ni) ∧ (0 ≤ j ∧ j < nj) ∧ (0 ≤ d ∧ d < Dim) ∧
      x = (i + j * ni) * Dim + d := by
  refine ⟨(x / Dim) % ni, (x / Dim) / ni, x % Dim,
    ⟨Int.emod_nonneg _ (by omega), Int.emod_lt_of_pos _ hni⟩, ⟨?_, ?_⟩,
    ⟨Int.emod_nonneg _ (by omega), Int.emod_lt_of_pos _ hD⟩, ?_⟩
  · exact Int.ediv_nonneg (Int.ediv_nonneg hx.1 (by omega)) (by omega)
  · apply Int.ediv_lt_of_lt_mul hni
    apply Int.ediv_lt_of_lt_mul hD
    have : nj * ni * Dim = ni * nj * Dim := by ring
    rw [this]
    exact hx.2
  · have a1 := Int.emod_add_ediv x Dim
    have a2 := Int.emod_add_ediv (x / Dim) ni
    have e : (x / Dim % ni + x / Dim / ni * ni) = x / Dim := by
      rw [Int.mul_comm (x / Dim / ni) ni]
      exact a2
    rw [e, Int.mul_comm (x / Dim) Dim]
    omega

end NURBSPatch

namespace NURBSPatch

/-- `SwapDirections(0, 1)` on a well-formed surface. -/
theorem swapDirections_core (p : NURBSPatch) (k0 k1 : KnotVector) (hkv : p.kv = [k0, k1])
    (hdims : p.DimsOk) (hdata : p.DataOk) :
    ∃ q : NURBSPatch, SwapDirections slice p 0 1 = .ok q ∧ q.kv = [k1, k0] ∧
      q.ni = p.nj ∧ q.nj = p.ni ∧ q.nk = p.nk ∧ q.Dim = p.Dim ∧
      q.data.length = p.data.length ∧ q.DimsOk ∧ q.DataOk ∧
      ∀ i j d : Int, 0 ≤ i ∧ i < p.ni → 0 ≤ j ∧ j < p.nj → 0 ≤ d ∧ d < p.Dim →
        rd q.data (q.at2 j i d) = rd p.data (p.at2 i j d) := by
  unfold DimsOk at hdims
  rw [hkv] at hdims
  obtain ⟨h1, h2, h3⟩ := hdims
  obtain ⟨hD, hni, hnj, _, hlen⟩ := hdata
  have hj : p.nj ≠ -1 := by rw [h2]; simp [KnotVector.GetNCP]
  have hjp : 0 < p.nj := by rcases hnj with h | h; exact absurd h hj; exact h
  unfold bufferSize at hlen
  rw [if_neg hj, if_pos h3] at hlen
  have hinit : init [k1, k0] p.Dim =
      .ok { ni := p.nj, nj := p.ni, nk := -1, Dim := p.Dim,
            data := List.replicate (p.nj * p.ni * p.Dim).toNat 0, kv := [k1, k0],
            nd := -1, ls := 0, sd := -1 } := by
    unfold init
    simp only [h1, h2]
  have hs1 : SetLoopDirection p 0 =
      .ok ({ p with sd := p.Dim, nd := p.ni, ls := p.nj * p.Dim }, p.nj * p.Dim) := by
    unfold SetLoopDirection
    rw [if_neg hj, if_pos h3, if_pos rfl]
  have hs2 : SetLoopDirection
      { ni := p.nj, nj := p.ni, nk := -1, Dim := p.Dim,
        data := List.replicate (p.nj * p.ni * p.Dim).toNat 0, kv := [k1, k0],
        nd := -1, ls := 0, sd := -1 } 1 =
      .ok ({ ni := p.nj, nj := p.ni, nk := -1, Dim := p.Dim,
             data := List.replicate (p.nj * p.ni * p.Dim).toNat 0, kv := [k1, k0],
             nd := p.ni, ls := p.nj * p.Dim, sd := p.nj * p.Dim }, p.nj * p.Dim) := by
    unfold SetLoopDirection
    dsimp only
    rw [if_neg (by omega), if_pos rfl, if_neg (by decide), if_pos rfl]
  have key := writeAll_spec
    (fun (pr : Nat × Nat) => slice
      { ni := p.nj, nj := p.ni, nk := -1, Dim := p.Dim,
        data := List.replicate (p.nj * p.ni * p.Dim).toNat 0, kv := [k1, k0],
        nd := p.ni, ls := p.nj * p.Dim, sd := p.nj * p.Dim } (pr.1 : Int) (pr.2 : Int))
    (fun (pr : Nat × Nat) => rd p.data
      (slice { p with sd := p.Dim, nd := p.ni, ls := p.nj * p.Dim } (pr.1 : Int) (pr.2 : Int)))
    (p.nj * p.ni * p.Dim).toNat
    (List.product (List.range p.ni.toNat) (List.range (p.nj * p.Dim).toNat))
    (List.replicate (p.nj * p.ni * p.Dim).toNat 0) (by simp)
  have hsdN : 0 < p.nj * p.Dim := Int.mul_pos hjp hD
  have hmem : ∀ x : Nat × Nat, x ∈ List.product (List.range p.ni.toNat)
      (List.range (p.nj * p.Dim).toNat) →
      (0 ≤ (x.1 : Int) ∧ (x.1 : Int) < p.ni) ∧ (0 ≤ (x.2 : Int) ∧ (x.2 : Int) < p.nj * p.Dim) := by
    intro x hx
    obtain ⟨x1, x2⟩ := x
    rw [List.pair_mem_product, List.mem_range, List.mem_range] at hx
    dsimp only
    omega
  have hpos : 0 ≤ p.nj * p.ni * p.Dim := by
    have := Int.mul_pos (Int.mul_pos hjp hni) hD
    omega
  obtain ⟨w1, w2, _⟩ := key
    (by
      intro x hx
      have h := hmem x hx
      have r := slice_range
        { ni := p.nj, nj := p.ni, nk := -1, Dim := p.Dim,
          data := List.replicate (p.nj * p.ni * p.Dim).toNat 0, kv := [k1, k0],
          nd := p.ni, ls := p.nj * p.Dim, sd := p.nj * p.Dim } 1 hsdN (x.1 : Int) (x.2 : Int)
        h.1 (by dsimp only; omega)
      dsimp only at r ⊢
      rw [Int.toNat_of_nonneg hpos]
      have e : p.nj * p.Dim * p.ni * 1 = p.nj * p.ni * p.Dim := by ring
      rw [e] at r
      exact r)
    (by
      apply List.Nodup.pairwise_of_forall_ne
        (List.Nodup.product (List.nodup_range _) (List.nodup_range _))
      intro x hx y hy hne e
      have a := hmem x hx
      have b := hmem y hy
      have := slice_inj
        { ni := p.nj, nj := p.ni, nk := -1, Dim := p.Dim,
          data := List.replicate (p.nj * p.ni * p.Dim).toNat 0, kv := [k1, k0],
          nd := p.ni, ls := p.nj * p.Dim, sd := p.nj * p.Dim } hsdN _ _ _ _ a.1 b.1 a.2.1 b.2.1 e
      apply hne
      obtain ⟨x1, x2⟩ := x
      obtain ⟨y1, y2⟩ := y
      simp only [Prod.mk.injEq]
      dsimp only at this
      omega)
  refine ⟨{ p with
            sd := p.Dim, nd := p.ni, ls := p.nj * p.Dim,
            data := (List.product (List.range p.ni.toNat) (List.range (p.nj * p.Dim).toNat)).foldl
              (fun d (x : Nat × Nat) => wr d
                (slice
                  { ni := p.nj, nj := p.ni, nk := -1, Dim := p.Dim,
                    data := List.replicate (p.nj * p.ni * p.Dim).toNat 0, kv := [k1, k0],
                    nd := p.ni, ls := p.nj * p.Dim, sd := p.nj * p.Dim } (x.1 : Int) (x.2 : Int))
                (rd p.data (slice { p with sd := p.Dim, nd := p.ni, ls := p.nj * p.Dim }
                  (x.1 : Int) (x.2 : Int))))
              (List.replicate (p.nj * p.ni * p.Dim).toNat 0),
            kv := [k1, k0], ni := p.nj, nj := p.ni, nk := -1, Dim := p.Dim },
    ?_, rfl, rfl, rfl, h3.symm, rfl, ?_, ?_, ?_, ?_⟩
  · unfold SwapDirections
    rw [if_neg (by decide), if_neg (by rw [hkv]; simp)]
    simp only [hkv, Int.toNat_zero, List.getD_cons_zero, List.set_cons_zero, List.set_cons_succ,
      Int.toNat_one, List.getD_cons_succ, hinit, hs1, hs2]
    rw [loops_product]
  · show List.length _ = p.data.length
    rw [w1]
    have e : p.nj * p.ni * p.Dim = p.ni * p.nj * p.Dim := by ring
    rw [e, ← hlen]
    simp
  · unfold DimsOk
    dsimp only
    exact ⟨h2, h1, rfl⟩
  · refine ⟨hD, hjp, Or.inr hni, Or.inl rfl, ?_⟩
    show ((List.length _ : Nat) : Int) = _
    rw [w1]
    unfold bufferSize
    dsimp only
    rw [if_neg (by omega), if_pos rfl, Int.toNat_of_nonneg hpos]
  · intro i j d hi hjr hd
    have hx1 : 0 ≤ j * p.Dim + d := by
      have := Int.mul_nonneg hjr.1 (show 0 ≤ p.Dim by omega)
      omega
    have hx2 : j * p.Dim + d < p.nj * p.Dim := by
      have : (j + 1) * p.Dim ≤ p.nj * p.Dim :=
        Int.mul_le_mul_of_nonneg_right (by omega) (by omega)
      have e : (j + 1) * p.Dim = j * p.Dim + p.Dim := by ring
      omega
    have hx : (i.toNat, (j * p.Dim + d).toNat) ∈ List.product (List.range p.ni.toNat)
        (List.range (p.nj * p.Dim).toNat) := by
      rw [List.pair_mem_product, List.mem_range, List.mem_range]
      omega
    have := w2 _ hx
    dsimp only at this
    rw [Int.toNat_of_nonneg hi.1, Int.toNat_of_nonneg hx1,
      slice_eq _ _ _ hx1 (by exact hsdN), slice_eq _ _ _ hx1 (by exact hD)] at this
    dsimp only at this
    rw [offset_dir1 _ _ _ _ ⟨hx1, hx2⟩, offset_dir0 _ _ _ _ _ hd hjr.1] at this
    show rd _ ((j + i * p.nj) * p.Dim + d) = rd p.data ((i + j * p.ni) * p.Dim + d)
    rw [← this]
    congr 1
    ring

end NURBSPatch

namespace NURBSPatch

/-- C28: `SwapDirections(dir1, dir2)` fails with a fatal error when `|dir1 - dir2| = 2`, for
every patch; on a well-formed surface with the knot vectors `[k0, k1]`, `SwapDirections(0, 1)`
succeeds with the knot vectors `[k1, k0]`, the extents exchanged and the control points
transposed (component `d` of the new point `(j, i)` is component `d` of the old point
`(i, j)`); applying it once more gives the original knot vectors, extents and control
points. -/
theorem swapDirections_spec (p : NURBSPatch) (k0 k1 : KnotVector) (hkv : p.kv = [k0, k1])
    (hdims : p.DimsOk) (hdata : p.DataOk) :
    (∀ (r : NURBSPatch) (dir1 dir2 : Int), (dir1 - dir2).natAbs = 2 →
      SwapDirections slice r dir1 dir2 = .error .fatal) ∧
    ∃ q : NURBSPatch, SwapDirections slice p 0 1 = .ok q ∧ q.kv = [k1, k0] ∧
      q.ni = p.nj ∧ q.nj = p.ni ∧ q.nk = p.nk ∧ q.Dim = p.Dim ∧
      q.data.length = p.data.length ∧
      (∀ i j d : Int, 0 ≤ i ∧ i < p.ni → 0 ≤ j ∧ j < p.nj → 0 ≤ d ∧ d < p.Dim →
        rd q.data (q.at2 j i d) = rd p.data (p.at2 i j d)) ∧
      ∃ q2 : NURBSPatch, SwapDirections slice q 0 1 = .ok q2 ∧ q2.kv = p.kv ∧
        q2.ni = p.ni ∧ q2.nj = p.nj ∧ q2.nk = p.nk ∧ q2.Dim = p.Dim ∧ q2.data = p.data := by
  constructor
  · intro r dir1 dir2 h
    unfold SwapDirections
    rw [if_pos h]
  · obtain ⟨q, e1, a1, a2, a3, a4, a5, a6, a7, a8, a9⟩ := swapDirections_core p k0 k1 hkv hdims hdata
    obtain ⟨q2, f1, b1, b2, b3, b4, b5, b6, _, _, b9⟩ := swapDirections_core q k1 k0 a1 a7 a8
    refine ⟨q, e1, a1, a2, a3, a4, a5, a6, a9, q2, f1, by rw [b1, hkv], by rw [b2, a3],
      by rw [b3, a2], by rw [b4, a4], by rw [b5, a5], ?_⟩
    obtain ⟨hD, hni, hnj, _, hlen⟩ := hdata
    unfold DimsOk at hdims
    rw [hkv] at hdims
    have hj : p.nj ≠ -1 := by rw [hdims.2.1]; simp [KnotVector.GetNCP]
    unfold bufferSize at hlen
    rw [if_neg hj, if_pos hdims.2.2] at hlen
    apply list_ext_rd _ _ (by rw [b6, a6])
    intro x hx
    obtain ⟨i, j, d, hi, hjr, hd, e⟩ := at2_surj p.ni p.nj p.Dim (x : Int) hD hni
      ⟨by omega, by rw [← hlen, ← a6, ← b6]; exact_mod_cast hx⟩
    have c1 := b9 j i d (by rw [a2]; exact hjr) (by rw [a3]; exact hi) (by rw [a5]; exact hd)
    have c2 := a9 i j d hi hjr hd
    have e2 : q2.at2 i j d = (x : Int) := by
      unfold at2
      rw [b2, a3, b5, a5, e]
    have e3 : p.at2 i j d = (x : Int) := by
      unfold at2
      rw [e]
    rw [e2] at c1
    rw [e3] at c2
    exact c1.trans c2

/-- C28, at a concrete input: a surface with `2 × 3` control points. -/
theorem swapDirections_spec_witness :
    (∀ (r : NURBSPatch) (dir1 dir2 : Int), (dir1 - dir2).natAbs = 2 →
      SwapDirections slice r dir1 dir2 = .error .fatal) ∧
    ∃ q : NURBSPatch, SwapDirections slice exGrid 0 1 = .ok q ∧
      q.kv = [KnotVector.exTwoElements, KnotVector.exUnit] ∧
      q.ni = exGrid.nj ∧ q.nj = exGrid.ni ∧ q.nk = exGrid.nk ∧ q.Dim = exGrid.Dim ∧
      q.data.length = exGrid.data.length ∧
      (∀ i j d : Int, 0 ≤ i ∧ i < exGrid.ni → 0 ≤ j ∧ j < exGrid.nj → 0 ≤ d ∧ d < exGrid.Dim →
        rd q.data (q.at2 j i d) = rd exGrid.data (exGrid.at2 i j d)) ∧
      ∃ q2 : NURBSPatch, SwapDirections slice q 0 1 = .ok q2 ∧ q2.kv = exGrid.kv ∧
        q2.ni = exGrid.ni ∧ q2.nj = exGrid.nj ∧ q2.nk = exGrid.nk ∧ q2.Dim = exGrid.Dim ∧
        q2.data = exGrid.data :=
  swapDirections_spec exGrid KnotVector.exUnit KnotVector.exTwoElements rfl (by decide)
    (by decide)

end NURBSPatch

namespace NURBSExtension

theorem take_map_range (f : Nat → Int) (L v : Nat) (h : v ≤ L) :
    ((List.range L).map f).take v = (List.range v).map f := by
  rw [← List.map_take]
  congr 1
  rw [List.take_range, Nat.min_eq_left h]

/-- The part `// Clean d_to_d` of `ConnectBoundaries` in closed form: every entry `v` is
replaced by the number of values of `d_to_d` below `v`. -/
theorem cleanDofMap_eq (d : List Int) (hd : ∀ v ∈ d, 0 ≤ v ∧ v < (d.length + 1 : Nat)) :
    cleanDofMap d =
      .ok ((((List.range (d.length + 1)).countP
          (fun (v : Nat) => decide ((v : Int) ∈ d)) : Nat) : Int),
        d.map (fun v => (((List.range v.toNat).countP
          (fun (u : Nat) => decide ((u : Int) ∈ d)) : Nat) : Int))) := by
  have hM := mark_loop d (d.length + 1) hd d.length 0 (by omega)
  have hinit : (List.range (d.length + 1)).map
      (fun (v : Nat) => if (v : Int) ∈ d.take 0 then (1 : Int) else 0) =
      List.replicate (d.length + 1) 0 := by
    apply list_ext_rdI
    · simp
    · intro i hi
      have hi' : i < d.length + 1 := by simpa using hi
      rw [rdI_map_range _ _ _ hi', rdI_eq_getElem _ _ (by simpa using hi')]
      simp
  rw [hinit] at hM
  obtain ⟨M, hMd⟩ : ∃ M : List Int, M = (List.range (d.length + 1)).map
      (fun (v : Nat) => if (v : Int) ∈ d then (1 : Int) else 0) := ⟨_, rfl⟩
  rw [← hMd] at hM
  have hMlen : M.length = d.length + 1 := by rw [hMd]; simp
  have hT := number_loop M (d.length + 1) 0 (by omega)
  simp only [List.range_zero, List.map_nil, List.nil_append, List.drop_zero, List.take_zero,
    List.count_nil, Nat.cast_zero] at hT
  obtain ⟨T, hTd⟩ : ∃ T : List Int, T = (List.range M.length).map
      (fun (v : Nat) => if rdI M v = 1 then ((M.take v).count 1 : Int) else rdI M v) :=
    ⟨_, rfl⟩
  rw [← hTd] at hT
  have hTlen : T.length = d.length + 1 := by rw [hTd]; simp [hMlen]
  have hR := renumber_loop T d (by rw [hTlen]; exact hd) d.length 0 (by omega)
  simp only [List.take_zero, List.map_nil, List.nil_append, List.drop_zero] at hR
  have hcount : ∀ v : Nat, v ≤ d.length + 1 →
      (M.take v).count 1 = (List.range v).countP (fun (u : Nat) => decide ((u : Int) ∈ d)) := by
    intro v hv
    rw [hMd, take_map_range _ _ _ hv, List.count_eq_countP, List.countP_map]
    apply List.countP_congr
    intro u _
    by_cases h : (u : Int) ∈ d <;> simp [h]
  have hmap : d.map (rdI T) = d.map (fun v => (((List.range v.toNat).countP
      (fun (u : Nat) => decide ((u : Int) ∈ d)) : Nat) : Int)) := by
    apply List.map_congr_left
    intro v hv
    obtain ⟨h0, h1⟩ := hd v hv
    obtain ⟨m, hm, hme⟩ := exists_nat_of_range _ _ h0 h1
    have hmark : rdI M (m : Int) = 1 := by
      rw [hMd, rdI_map_range _ _ _ hm, if_pos (by rw [← hme]; exact hv)]
    rw [hme, hTd, rdI_map_range _ _ _ (by rw [hMlen]; exact hm), if_pos hmark,
      hcount m (by omega), Int.toNat_ofNat]
  unfold cleanDofMap
  simp only [forLoop, forLoopM, Nat.sub_zero, hM, hMlen, hT, hR]
  rw [hmap, ← hcount (d.length + 1) (le_refl _), ← hMlen, List.take_length]

end NURBSExtension

namespace NURBSExtension

theorem ufFind_root (d : List Int) (y : Int) (h : rdI d y = y) :
    ∀ fuel : Nat, ufFind d fuel y = y
  | 0 => rfl
  | fuel + 1 => by rw [ufFind, if_pos h]

/-- In a forest of depth at most one the representative is the parent. -/
theorem ufFind_idem (d : List Int) (x : Int) (h : rdI d (rdI d x) = rdI d x) :
    ∀ fuel : Nat, 1 ≤ fuel → ufFind d fuel x = rdI d x
  | 0, h0 => by omega
  | fuel + 1, _ => by
    rw [ufFind]
    by_cases e : rdI d x = x
    · rw [if_pos e, e]
    · rw [if_neg e]
      exact ufFind_root d _ h fuel

theorem set_self_of_rdI (d : List Int) (a : Nat) (b : Int) (ha : a < d.length)
    (h : rdI d (a : Int) = b) : d.set a b = d := by
  apply NURBSPatch.set_getElem?_self
  rw [List.getElem?_eq_getElem ha, ← rdI_eq_getElem d a ha, h]

/-- On dof pairs that are in range, give every master dof one slave dof and have no dof on
both sides, the sequential assignments `d_to_d[master] = d_to_d[slave]` are the unions of the
reference union-find. -/
theorem connectList_uf (N : Nat) (all : List (Int × Int))
    (hrange : ∀ pr ∈ all, 0 ≤ pr.1 ∧ pr.1 < N ∧ 0 ≤ pr.2 ∧ pr.2 < N)
    (h11 : ∀ pr ∈ all, ∀ pr' ∈ all, pr.1 = pr'.1 → pr.2 = pr'.2)
    (hdisj : ∀ pr ∈ all, ∀ pr' ∈ all, pr.1 ≠ pr'.2) :
    ∀ (rest done : List (Int × Int)) (d : List Int), all = done ++ rest → d.length = N →
      (∀ x : Nat, x < N →
        (∀ pr ∈ done, pr.1 = (x : Int) → rdI d (x : Int) = pr.2) ∧
        ((∀ pr ∈ done, pr.1 ≠ (x : Int)) → rdI d (x : Int) = (x : Int))) →
      connectList rest d = .ok (rest.foldl ufUnion d) := by
  intro rest
  induction rest with
  | nil =>
    intro done d _ _ _
    rfl
  | cons pr rest ih =>
    intro done d hall hlen hinv
    have hpr : pr ∈ all := by rw [hall]; simp
    obtain ⟨ha0, ha1, hb0, hb1⟩ := hrange pr hpr
    obtain ⟨a, haN, hae⟩ := exists_nat_of_range pr.1 N ha0 ha1
    obtain ⟨b, hbN, hbe⟩ := exists_nat_of_range pr.2 N hb0 hb1
    have hdb : rdI d (b : Int) = (b : Int) := by
      refine (hinv b hbN).2 (fun pr' hpr' h => ?_)
      exact hdisj pr' (by rw [hall]; simp [hpr']) pr hpr (by rw [h, hbe])
    have hstep : connectDofs d pr.1 pr.2 = .ok (d.set a (b : Int)) := by
      unfold connectDofs
      rw [hbe, hae, rdIChk_ok d b (by omega), hdb]
      exact wrIChk_ok d a _ (by omega)
    have hab : (a : Int) ≠ (b : Int) := by
      rw [← hae, ← hbe]
      exact hdisj pr hpr pr hpr
    have hda : rdI d (a : Int) = (a : Int) ∨ rdI d (a : Int) = (b : Int) := by
      by_cases hex : ∃ pr' ∈ done, pr'.1 = (a : Int)
      · obtain ⟨pr', hpr', e⟩ := hex
        right
        rw [(hinv a haN).1 pr' hpr' e, ← hbe]
        exact h11 pr' (by rw [hall]; simp [hpr']) pr hpr (by rw [e, hae])
      · left
        exact (hinv a haN).2 (fun pr' hpr' e => hex ⟨pr', hpr', e⟩)
    have hu : ufUnion d pr = d.set a (b : Int) := by
      unfold ufUnion
      dsimp only
      rw [hae, hbe, ufFind_root d _ hdb,
        ufFind_idem d _ (by rcases hda with h | h <;> rw [h] <;> assumption) _ (by omega)]
      rcases hda with h | h
      · rw [h, if_neg hab]
        unfold wrI
        rw [if_pos (by omega), Int.toNat_ofNat]
      · rw [h, if_pos rfl, set_self_of_rdI d a _ (by omega) h]
    rw [connectList, hstep, List.foldl_cons, hu]
    refine ih (done ++ [pr]) (d.set a (b : Int)) (by rw [hall]; simp) (by simpa using hlen) ?_
    intro x hx
    rw [rdI_set]
    constructor
    · intro pr' hpr' hx'
      by_cases hax : a = x
      · rw [if_pos ⟨hax, by omega⟩, ← hbe]
        exact h11 pr hpr pr' (by
          rw [hall]
          rcases List.mem_append.mp hpr' with h | h
          · simp [h]
          · rw [List.mem_singleton.mp h]; simp) (by rw [hae, hx', hax])
      · rw [if_neg (fun h => hax h.1)]
        rcases List.mem_append.mp hpr' with h | h
        · exact (hinv x hx).1 pr' h hx'
        · rw [List.mem_singleton.mp h, hae] at hx'
          exact absurd (by exact_mod_cast hx') hax
    · intro hno
      have hax : a ≠ x := fun h => hno pr (by simp) (by rw [hae, h])
      rw [if_neg (fun h => hax h.1)]
      exact (hinv x hx).2 (fun pr' hpr' => hno pr' (by simp [hpr']))

/-- On found and compatible boundaries the loop `// Connect` of `ConnectBoundaries` makes the
assignments of `allBdrPairs`. -/
theorem connectAll_pairs (debug : Bool) (ops : PatchMapOps) (ext : NURBSExtension)
    (hfound : ∀ i : Nat, i < ext.master.length →
      ext.findBdr (rdI ext.master i) ≠ -1 ∧ ext.findBdr (rdI ext.slave i) ≠ -1)
    (hc : ∀ i : Nat, i < ext.master.length →
      BdrCompatible debug ext (ext.findBdr (rdI ext.master i)) (ext.findBdr (rdI ext.slave i)))
    (d : List Int) :
    connectAll debug ops ext d = connectList (allBdrPairs ops ext) d := by
  unfold connectAll allBdrPairs forLoopM
  rw [List.range_eq_range', Nat.sub_zero]
  apply forCountM_connect
  intro d i _ hi
  dsimp only
  rw [if_neg (hfound i (by omega)).1, if_neg (hfound i (by omega)).2]
  exact connectBoundaries_pairs debug ops ext _ _ (hc i (by omega)) d

end NURBSExtension

namespace NURBSExtension

/-- C29 (as claimed, refuted): with the boundaries chained (point `1` master of point `2`,
point `2` master of point `3`) the paired dofs `0` and `1` receive different final indices,
and with one master for two slaves the dofs `1` and `2`, both paired with dof `0`, receive
different final indices; the union-find numbering of the same pairs gives one index to the
three dofs. -/
theorem connectBoundaries_not_unionFind :
    (allBdrPairs exOps exChained = [(0, 1), (1, 2)] ∧
      (∃ e, ConnectBoundaries false exOps exChained = .ok e ∧ e.d_to_d = [0, 1, 1]) ∧
      ufNumbering exChained.NumOfDofs.toNat (allBdrPairs exOps exChained) = [0, 0, 0]) ∧
    (allBdrPairs exOps exTwoSlaves = [(0, 1), (0, 2)] ∧
      (∃ e, ConnectBoundaries false exOps exTwoSlaves = .ok e ∧ e.d_to_d = [1, 0, 1]) ∧
      ufNumbering exTwoSlaves.NumOfDofs.toNat (allBdrPairs exOps exTwoSlaves) = [0, 0, 0]) :=
  ⟨⟨by decide, ⟨_, rfl, by decide⟩, by decide⟩, ⟨by decide, ⟨_, rfl, by decide⟩, by decide⟩⟩

/-- C29 (amended): for every non-empty sequence of master/slave boundary pairs whose
boundaries are found and compatible and whose dof pairs are in range, give every master dof
one slave dof and have no dof on both sides, `ConnectBoundaries` succeeds and its final
`d_to_d` is the numbering obtained by the explicit union-find over the same dof pairs (the
slave's representative becoming the representative of the union) followed by
canonical-representative compaction; two dofs get the same final index iff they are
connected through the declared pairings. -/
theorem connectBoundaries_unionFind (debug : Bool) (ops : PatchMapOps) (ext : NURBSExtension)
    (hlen : ext.master.length = ext.slave.length) (hne : ext.master.length ≠ 0)
    (hfound : ∀ i : Nat, i < ext.master.length →
      ext.findBdr (rdI ext.master i) ≠ -1 ∧ ext.findBdr (rdI ext.slave i) ≠ -1)
    (hc : ∀ i : Nat, i < ext.master.length →
      BdrCompatible debug ext (ext.findBdr (rdI ext.master i)) (ext.findBdr (rdI ext.slave i)))
    (hN : 0 ≤ ext.NumOfDofs)
    (hrange : ∀ pr ∈ allBdrPairs ops ext,
      0 ≤ pr.1 ∧ pr.1 < ext.NumOfDofs ∧ 0 ≤ pr.2 ∧ pr.2 < ext.NumOfDofs)
    (hfun : ∀ pr ∈ allBdrPairs ops ext, ∀ pr' ∈ allBdrPairs ops ext, pr.1 = pr'.1 → pr.2 = pr'.2)
    (hdisj : ∀ pr ∈ allBdrPairs ops ext, ∀ pr' ∈ allBdrPairs ops ext, pr.1 ≠ pr'.2) :
    ∃ e, ConnectBoundaries debug ops ext = .ok e ∧
      e.d_to_d = ufNumbering ext.NumOfDofs.toNat (allBdrPairs ops ext) ∧
      ∀ x y : Int, 0 ≤ x → x < ext.NumOfDofs → 0 ≤ y → y < ext.NumOfDofs →
        (rdI e.d_to_d x = rdI e.d_to_d y ↔
          Relation.EqvGen (fun a b => (a, b) ∈ allBdrPairs ops ext) x y) := by
  obtain ⟨N, hNe⟩ : ∃ N : Nat, ext.NumOfDofs = (N : Int) := ⟨ext.NumOfDofs.toNat, by omega⟩
  obtain ⟨pairs, hpd⟩ : ∃ pairs, pairs = allBdrPairs ops ext := ⟨_, rfl⟩
  rw [← hpd] at hrange hfun hdisj ⊢
  rw [hNe] at hrange
  have hinv0 : ∀ x : Nat, x < N →
      (∀ pr ∈ ([] : List (Int × Int)), pr.1 = (x : Int) →
        rdI ((List.range N).map (fun (i : Nat) => (i : Int))) (x : Int) = pr.2) ∧
      ((∀ pr ∈ ([] : List (Int × Int)), pr.1 ≠ (x : Int)) →
        rdI ((List.range N).map (fun (i : Nat) => (i : Int))) (x : Int) = (x : Int)) :=
    fun x hx => ⟨fun pr hpr => absurd hpr (List.not_mem_nil _),
      fun _ => rdI_map_range _ _ _ hx⟩
  obtain ⟨d1, hd1ok, hd1len, hd1⟩ := connectList_spec N pairs hrange hfun hdisj pairs []
    ((List.range N).map (fun (i : Nat) => (i : Int))) rfl (by simp) hinv0
  have huf := connectList_uf N pairs hrange hfun hdisj pairs []
    ((List.range N).map (fun (i : Nat) => (i : Int))) rfl (by simp) hinv0
  have hP : ufParents N pairs = d1 := by
    rw [hd1ok] at huf
    unfold ufParents
    cases huf
    rfl
  -- the array after the assignments
  have hmaster : ∀ x : Nat, x < N → ∀ pr ∈ pairs, pr.1 = (x : Int) →
      rdI d1 (x : Int) = pr.2 ∧ rdI d1 pr.2 = pr.2 ∧ 0 ≤ pr.2 ∧ pr.2 < N := by
    intro x hx pr hpr e
    obtain ⟨_, _, h0, h1⟩ := hrange pr hpr
    obtain ⟨b, hb, hbe⟩ := exists_nat_of_range pr.2 N h0 h1
    refine ⟨(hd1 x hx).1 pr hpr e, ?_, h0, h1⟩
    rw [hbe]
    exact (hd1 b hb).2 (fun pr' hpr' e' => hdisj pr' hpr' pr hpr (by rw [e', hbe]))
  have hcases : ∀ x : Nat, x < N →
      rdI d1 (x : Int) = (x : Int) ∨ ∃ pr ∈ pairs, pr.1 = (x : Int) ∧ rdI d1 (x : Int) = pr.2 := by
    intro x hx
    by_cases hxA : ∀ pr ∈ pairs, pr.1 ≠ (x : Int)
    · exact Or.inl ((hd1 x hx).2 hxA)
    · push_neg at hxA
      obtain ⟨pr, hpr, e⟩ := hxA
      exact Or.inr ⟨pr, hpr, e, (hmaster x hx pr hpr e).1⟩
  have hidem : ∀ x : Nat, x < N → rdI d1 (rdI d1 (x : Int)) = rdI d1 (x : Int) := by
    intro x hx
    rcases hcases x hx with h | ⟨pr, hpr, e, h⟩
    · rw [h, h]
    · rw [h]
      exact (hmaster x hx pr hpr e).2.1
  have hval : ∀ x : Nat, x < N → 0 ≤ rdI d1 (x : Int) ∧ rdI d1 (x : Int) < N := by
    intro x hx
    rcases hcases x hx with h | ⟨pr, hpr, e, h⟩
    · rw [h]; omega
    · rw [h]
      exact (hmaster x hx pr hpr e).2.2
  have hdv : ∀ v ∈ d1, 0 ≤ v ∧ v < (d1.length + 1 : Nat) := by
    intro v hv
    obtain ⟨x, hx, hxe⟩ := List.mem_iff_getElem.mp hv
    rw [hd1len] at hx
    have hxe' : rdI d1 (x : Int) = v := by rw [rdI_eq_getElem d1 x (by omega)]; exact hxe
    have := hval x hx
    rw [hxe'] at this
    rw [hd1len]
    push_cast
    omega
  have hroot : ∀ u : Nat, u < N → ((u : Int) ∈ d1 ↔ rdI d1 (u : Int) = (u : Int)) := by
    intro u hu
    constructor
    · intro h
      obtain ⟨x, hx, hxe⟩ := List.mem_iff_getElem.mp h
      rw [hd1len] at hx
      have hxe' : rdI d1 (x : Int) = (u : Int) := by
        rw [rdI_eq_getElem d1 x (by omega)]; exact hxe
      rw [← hxe']
      exact hidem x hx
    · intro h
      rw [← h]
      exact rdI_mem d1 u (by omega)
  have hfind : ∀ x : Nat, x < N → ufFind d1 N (x : Int) = rdI d1 (x : Int) :=
    fun x hx => ufFind_idem d1 _ (hidem x hx) N (by omega)
  have hclean := cleanDofMap_eq d1 hdv
  obtain ⟨d2, hd2ok, _, hd2⟩ := cleanDofMap_spec d1 hdv
  rw [hclean] at hd2ok
  have hd2e : d2 = d1.map (fun v => (((List.range v.toNat).countP
      (fun (u : Nat) => decide ((u : Int) ∈ d1)) : Nat) : Int)) := by
    cases hd2ok
    rfl
  have hconn : ∀ d, connectAll debug ops ext d = connectList pairs d := by
    intro d
    rw [hpd]
    exact connectAll_pairs debug ops ext hfound hc d
  refine ⟨{ ext with
      NumOfDofs := (((List.range (d1.length + 1)).countP
        (fun (v : Nat) => decide ((v : Int) ∈ d1)) : Nat) : Int)
      d_to_d := d2 }, ?_, ?_, ?_⟩
  · unfold ConnectBoundaries
    rw [if_neg (by rw [hlen]; simp), if_neg hne]
    simp only []
    rw [identity_loop, hconn, hNe, Int.toNat_ofNat, hd1ok]
    simp only [hclean, hd2e]
  · show d2 = ufNumbering ext.NumOfDofs.toNat pairs
    rw [hNe, Int.toNat_ofNat]
    unfold ufNumbering
    dsimp only
    rw [hP, hd2e]
    apply List.ext_getElem
    · simp [hd1len]
    · intro x h1 h2
      have hx : x < N := by simpa [hd1len] using h1
      rw [List.getElem_map, List.getElem_map, List.getElem_range, hfind x hx,
        ← rdI_eq_getElem d1 x (by omega), List.countP_eq_length_filter]
      congr 2
      apply List.filter_congr
      intro u hu
      have huN : u < N := by
        have := List.mem_range.mp hu
        have := hval x hx
        omega
      rw [hfind u huN]
      exact decide_eq_decide.mpr (hroot u huN)
  · intro x y hx0 hx1 hy0 hy1
    rw [hNe] at hx1 hy1
    obtain ⟨xn, hxn, rfl⟩ := exists_nat_of_range x N hx0 hx1
    obtain ⟨yn, hyn, rfl⟩ := exists_nat_of_range y N hy0 hy1
    show rdI d2 (xn : Int) = rdI d2 (yn : Int) ↔ _
    rw [hd2 xn yn (by omega) (by omega)]
    have hto : ∀ z : Nat, z < N →
        Relation.EqvGen (fun a b => (a, b) ∈ pairs) (z : Int) (rdI d1 (z : Int)) := by
      intro z hz
      rcases hcases z hz with h | ⟨pr, hpr, e, h⟩
      · rw [h]
        exact Relation.EqvGen.refl _
      · rw [h, ← e]
        exact Relation.EqvGen.rel _ _ hpr
    constructor
    · intro h
      have a := hto xn hxn
      have b := hto yn hyn
      rw [h] at a
      exact Relation.EqvGen.trans _ _ _ a (Relation.EqvGen.symm _ _ b)
    · have hback : ∀ a b : Int, Relation.EqvGen (fun a b => (a, b) ∈ pairs) a b →
          rdI d1 a = rdI d1 b := by
        intro a b h
        induction h with
        | rel a b hab =>
          obtain ⟨h0, h1, _, _⟩ := hrange (a, b) hab
          obtain ⟨an, han, hae⟩ := exists_nat_of_range a N h0 h1
          have := hmaster an han (a, b) hab hae
          rw [hae, this.1]
          exact this.2.1.symm
        | refl a => rfl
        | symm a b _ ih => exact ih.symm
        | trans a b c _ _ ih1 ih2 => exact ih1.trans ih2
      exact hback _ _

/-- C29 (amended), at a concrete input: the quadrilateral patch `exPeriodicSquare` with 16
dofs, whose left boundary is the master of the right one. -/
theorem connectBoundaries_unionFind_witness :
    ∃ e, ConnectBoundaries true exOps exPeriodicSquare = .ok e ∧
      e.d_to_d = ufNumbering exPeriodicSquare.NumOfDofs.toNat
        (allBdrPairs exOps exPeriodicSquare) ∧
      ∀ x y : Int, 0 ≤ x → x < exPeriodicSquare.NumOfDofs → 0 ≤ y →
        y < exPeriodicSquare.NumOfDofs →
        (rdI e.d_to_d x = rdI e.d_to_d y ↔
          Relation.EqvGen (fun a b => (a, b) ∈ allBdrPairs exOps exPeriodicSquare) x y) :=
  connectBoundaries_unionFind true exOps exPeriodicSquare (by decide) (by decide) (by decide)
    (by decide) (by decide) (by decide) (by decide) (by decide)

end NURBSExtension

namespace NURBSExtension

/-- A loop that stops at the first failed check returns `true` only if every check
succeeds. -/
theorem forCountM_flag (f : Nat → Except Fault Bool) (body : Bool → Nat → Except Fault Bool)
    (hb : ∀ ok i, body ok i = if ok = false then .ok false else f i) :
    ∀ (n s : Nat), forCountM body n s false = .ok false ∧
      (forCountM body n s true = .ok true → ∀ i, s ≤ i → i < s + n → f i = .ok true)
  | 0, s => ⟨rfl, fun _ i h1 h2 => by omega⟩
  | n + 1, s => by
    obtain ⟨ih1, ih2⟩ := forCountM_flag f body hb n (s + 1)
    constructor
    · rw [forCountM, hb, if_pos rfl]
      exact ih1
    · intro h i h1 h2
      rw [forCountM, hb, if_neg (by decide)] at h
      cases hf : f s with
      | error e => rw [hf] at h; cases h
      | ok b =>
        rw [hf] at h
        cases b with
        | false =>
          have h' : forCountM body n (s + 1) false = .ok true := h
          rw [ih1] at h'
          cases h'
        | true =>
          have h' : forCountM body n (s + 1) true = .ok true := h
          by_cases e : i = s
          · rw [e]; exact hf
          · exact ih2 h' i (by omega) (by omega)

/-- The loop of `Difference` with an empty `diff` succeeds only if every knot of the longer
knot vector matches the knot of the shorter one at the same position. -/
theorem differenceLoop_nil (a b : KnotVector) :
    ∀ (n j0 : Nat) (s : Int) (st : List ℚ × Int × Int),
      forCountM
        (fun (st : List ℚ × Int × Int) j =>
          match rdChk a.knot st.2.2 with
          | .error e => .error e
          | .ok x =>
            if |x - b.get j| < 2 * KnotVector.epsilon then .ok (st.1, st.2.1, st.2.2 + 1)
            else
              match wrChk st.1 st.2.1 (b.get j) with
              | .error e => .error e
              | .ok w => .ok (w, st.2.1 + 1, st.2.2))
        n j0 ([], s, (j0 : Int)) = .ok st →
      ∀ j : Nat, j0 ≤ j → j < j0 + n →
        j < a.knot.length ∧ |rd a.knot (j : Int) - b.get (j : Int)| < 2 * KnotVector.epsilon
  | 0, j0, s, st, _ => fun j h1 h2 => by omega
  | n + 1, j0, s, st, h => by
    rw [forCountM] at h
    dsimp only at h
    by_cases hr : j0 < a.knot.length
    · have e1 : rdChk a.knot (j0 : Int) = .ok (rd a.knot (j0 : Int)) := by
        unfold rdChk rd
        rw [if_pos ⟨by omega, by simpa using hr⟩, if_pos (by omega)]
      rw [e1] at h
      dsimp only at h
      by_cases hm : |rd a.knot (j0 : Int) - b.get (j0 : Int)| < 2 * KnotVector.epsilon
      · rw [if_pos hm] at h
        dsimp only at h
        have ih := differenceLoop_nil a b n (j0 + 1) s st (by
          have e : ((j0 + 1 : Nat) : Int) = (j0 : Int) + 1 := by omega
          rw [e]
          exact h)
        intro j h1 h2
        by_cases e : j = j0
        · rw [e]; exact ⟨hr, hm⟩
        · exact ih j (by omega) (by omega)
      · rw [if_neg hm] at h
        have e2 : wrChk ([] : List ℚ) s (b.get (j0 : Int)) = .error .outOfBounds := by
          unfold wrChk
          rw [if_neg (by simp)]
        rw [e2] at h
        cases h
    · have e1 : rdChk a.knot (j0 : Int) = .error .outOfBounds := by
        unfold rdChk
        rw [if_neg (by simp; omega)]
      rw [e1] at h
      cases h

theorem length_differenceLoop (a b : KnotVector) (diff : List ℚ)
    (h : KnotVector.DifferenceLoop a b = .ok diff) : diff.length = b.Size - a.Size := by
  unfold KnotVector.DifferenceLoop forLoopM at h
  dsimp only at h
  cases hl : forCountM
      (fun (st : List ℚ × Int × Int) j =>
        match rdChk a.knot st.2.2 with
        | .error e => .error e
        | .ok x =>
          if |x - b.get j| < 2 * KnotVector.epsilon then .ok (st.1, st.2.1, st.2.2 + 1)
          else
            match wrChk st.1 st.2.1 (b.get j) with
            | .error e => .error e
            | .ok w => .ok (w, st.2.1 + 1, st.2.2))
      (b.Size - 0) 0 (List.replicate (b.Size - a.Size) 0, 0, 0) with
  | error e => rw [hl] at h; cases h
  | ok st =>
    rw [hl] at h
    cases h
    have := forCountM_inv _ (fun (st : List ℚ × Int × Int) => st.1.length = b.Size - a.Size)
      (by
        intro s i s1 hs hb
        cases hr : rdChk a.knot s.2.2 with
        | error e => rw [hr] at hb; cases hb
        | ok x =>
          rw [hr] at hb
          dsimp only at hb
          split at hb
          · cases hb; exact hs
          · cases hw : wrChk s.1 s.2.1 (b.get i) with
            | error e => rw [hw] at hb; cases hb
            | ok w =>
              rw [hw] at hb
              cases hb
              unfold wrChk at hw
              split at hw
              · cases hw
                simpa using hs
              · cases hw) _ _ _ _ (by simp) hl
    exact this

/-- `Difference` returns an empty vector only for knot vectors of the same order and the
same number of knots whose knots agree within `2*epsilon` position by position. -/
theorem difference_nil (a b : KnotVector) (diff : List ℚ) (h : a.Difference b = .ok diff)
    (hd : diff.length = 0) :
    a.Order = b.Order ∧ a.knot.length = b.knot.length ∧
      ∀ j : Nat, j < a.knot.length →
        |rd a.knot (j : Int) - rd b.knot (j : Int)| < 2 * KnotVector.epsilon := by
  unfold KnotVector.Difference at h
  by_cases ho : a.Order ≠ b.GetOrder
  · rw [if_pos ho] at h
    cases h
  · rw [if_neg ho] at h
    have ho' : a.Order = b.Order := by
      unfold KnotVector.GetOrder at ho
      exact not_not.mp ho
    by_cases hs : (b.Size : Int) - (a.Size : Int) < 0
    · rw [if_pos hs] at h
      have := length_differenceLoop b a diff h
      omega
    · rw [if_neg hs] at h
      have hl := length_differenceLoop a b diff h
      have hsz : a.Size = b.Size := by omega
      refine ⟨ho', hsz, ?_⟩
      unfold KnotVector.DifferenceLoop forLoopM at h
      dsimp only at h
      have e0 : b.Size - a.Size = 0 := by omega
      rw [e0] at h
      cases hl2 : forCountM
          (fun (st : List ℚ × Int × Int) j =>
            match rdChk a.knot st.2.2 with
            | .error e => .error e
            | .ok x =>
              if |x - b.get j| < 2 * KnotVector.epsilon then .ok (st.1, st.2.1, st.2.2 + 1)
              else
                match wrChk st.1 st.2.1 (b.get j) with
                | .error e => .error e
                | .ok w => .ok (w, st.2.1 + 1, st.2.2))
          (b.Size - 0) 0 (List.replicate 0 0, 0, 0) with
      | error e => rw [hl2] at h; cases h
      | ok st =>
        have key := differenceLoop_nil a b (b.Size - 0) 0 0 st hl2
        intro j hj
        exact (key j (by omega) (by
          have : a.knot.length = a.Size := rfl
          omega)).2

end NURBSExtension

namespace NURBSExtension

/-- C30 (as claimed, refuted): `ConsistentKVSets` returns `true` for a comprehensive knot
vector whose interior knot `1 - 2^-53` differs from the knot `1` of the unique knot vector
(same order, same number of knots); and for a comprehensive knot vector with the interior
knot `3/2` (same order, same number of knots) it does not return `false`: `Difference` writes
`diff(0)` outside the empty vector `diff`. -/
theorem consistentKVSets_counterexample :
    (KnotVector.exTwoElements.Order = exKVNear.Order ∧
      KnotVector.exTwoElements.knot.length = exKVNear.knot.length ∧
      rd KnotVector.exTwoElements.knot 2 ≠ rd exKVNear.knot 2 ∧
      (exKVSets KnotVector.exTwoElements exKVThree exKVNear exKVThree).ConsistentKVSets
        = .ok true) ∧
    (KnotVector.exTwoElements.Order = exKVMoved.Order ∧
      KnotVector.exTwoElements.knot.length = exKVMoved.knot.length ∧
      rd KnotVector.exTwoElements.knot 2 ≠ rd exKVMoved.knot 2 ∧
      (exKVSets KnotVector.exTwoElements exKVThree exKVMoved exKVThree).ConsistentKVSets
        = .error .outOfBounds) := by
  refine ⟨⟨rfl, rfl, ?_, ?_⟩, ⟨rfl, rfl, ?_, ?_⟩⟩
  · with_unfolding_all decide
  · with_unfolding_all rfl
  · with_unfolding_all decide
  · with_unfolding_all rfl

/-- C30 (amended): `ConsistentKVSets` returns `true` only if, for every patch `p` and
direction `d`, `CheckKVDirection` succeeds and the comprehensive knot vector
`knotVectorsCompr[dim*p+d]`, flipped when `CheckKVDirection` gives `-1`, has the same order
and the same number of knots as the unique knot vector of the corresponding edge, and knots
that agree with its knots within `2*epsilon` position by position. -/
theorem consistentKVSets_true (ext : NURBSExtension) (h : ext.ConsistentKVSets = .ok true) :
    ∀ p d : Nat, p < ext.GetNP → (d : Int) < ext.Dimension →
      ∃ kvdir : List Int, ext.CheckKVDirection (p : Int) = .ok kvdir ∧
        (ext.comprKV (ext.Dimension * (p : Int) + (d : Int))).Order =
          (ext.KnotVec (rdI (rdL ext.patchTopo.elementEdges (p : Int))
            (rdI ext.kvEdges (d : Int)))).Order ∧
        (if rdI kvdir (d : Int) = -1 then (ext.comprKV (ext.Dimension * (p : Int) + (d : Int))).Flip
          else ext.comprKV (ext.Dimension * (p : Int) + (d : Int))).knot.length =
          (ext.KnotVec (rdI (rdL ext.patchTopo.elementEdges (p : Int))
            (rdI ext.kvEdges (d : Int)))).knot.length ∧
        ∀ j : Nat, j < (ext.KnotVec (rdI (rdL ext.patchTopo.elementEdges (p : Int))
            (rdI ext.kvEdges (d : Int)))).knot.length →
          |rd (ext.KnotVec (rdI (rdL ext.patchTopo.elementEdges (p : Int))
              (rdI ext.kvEdges (d : Int)))).knot (j : Int) -
            rd (if rdI kvdir (d : Int) = -1 then
                (ext.comprKV (ext.Dimension * (p : Int) + (d : Int))).Flip
              else ext.comprKV (ext.Dimension * (p : Int) + (d : Int))).knot (j : Int)|
            < 2 * KnotVector.epsilon := by
  intro p d hp hd
  unfold ConsistentKVSets at h
  by_cases hdim : ¬ ext.Dimension > 1
  · rw [if_pos hdim] at h
    cases h
  · rw [if_neg hdim] at h
    unfold forLoopM at h
    have h1 := (forCountM_flag
      (fun (p : Nat) =>
        match ext.CheckKVDirection (p : Int) with
        | .error f => .error f
        | .ok kvdir =>
          forLoopIntM 0 ext.Dimension
            (consistentDir ext (rdL ext.patchTopo.elementEdges (p : Int)) kvdir ext.kvEdges
              (p : Int)) true)
      (consistentPatch ext ext.kvEdges) (fun ok i => rfl) (ext.GetNP - 0) 0).2 h p
      (Nat.zero_le _) (by omega)
    try dsimp only at h1
    cases hk : ext.CheckKVDirection (p : Int) with
    | error f => rw [hk] at h1; cases h1
    | ok kvdir =>
      rw [hk] at h1
      try dsimp only at h1
      unfold forLoopIntM at h1
      have h2 := (forCountM_flag
        (fun (d : Nat) =>
          if ((((ext.KnotVec (rdI (rdL ext.patchTopo.elementEdges (p : Int))
              (rdI ext.kvEdges (0 + (d : Int))))).GetOrder : Int) -
              ((ext.comprKV (ext.Dimension * (p : Int) + (0 + (d : Int)))).GetOrder : Int)).natAbs
              ≠ 0) then .ok false
          else
            match (ext.KnotVec (rdI (rdL ext.patchTopo.elementEdges (p : Int))
                (rdI ext.kvEdges (0 + (d : Int))))).Difference
              (if rdI kvdir (0 + (d : Int)) = -1 then
                (ext.comprKV (ext.Dimension * (p : Int) + (0 + (d : Int)))).Flip
              else ext.comprKV (ext.Dimension * (p : Int) + (0 + (d : Int)))) with
            | .error f => .error f
            | .ok diff => if diff.length > 0 then .ok false else .ok true)
        (fun st (n : Nat) =>
          consistentDir ext (rdL ext.patchTopo.elementEdges (p : Int)) kvdir ext.kvEdges (p : Int)
            st (0 + (n : Int)))
        (fun ok i => rfl) (ext.Dimension - 0).toNat 0).2 h1 d (Nat.zero_le _) (by omega)
      try dsimp only at h2
      rw [Int.zero_add] at h2
      refine ⟨kvdir, rfl, ?_⟩
      by_cases ho : ((((ext.KnotVec (rdI (rdL ext.patchTopo.elementEdges (p : Int))
              (rdI ext.kvEdges (d : Int)))).GetOrder : Int) -
              ((ext.comprKV (ext.Dimension * (p : Int) + (d : Int))).GetOrder : Int)).natAbs
              ≠ 0)
      · rw [if_pos ho] at h2
        cases h2
      · rw [if_neg ho] at h2
        have ho' : (ext.comprKV (ext.Dimension * (p : Int) + (d : Int))).Order =
            (ext.KnotVec (rdI (rdL ext.patchTopo.elementEdges (p : Int))
              (rdI ext.kvEdges (d : Int)))).Order := by
          unfold KnotVector.GetOrder at ho
          omega
        cases hD : (ext.KnotVec (rdI (rdL ext.patchTopo.elementEdges (p : Int))
                (rdI ext.kvEdges (d : Int)))).Difference
              (if rdI kvdir (d : Int) = -1 then
                (ext.comprKV (ext.Dimension * (p : Int) + (d : Int))).Flip
              else ext.comprKV (ext.Dimension * (p : Int) + (d : Int))) with
        | error f => rw [hD] at h2; cases h2
        | ok diff =>
          rw [hD] at h2
          try dsimp only at h2
          by_cases hl : diff.length > 0
          · rw [if_pos hl] at h2
            cases h2
          · obtain ⟨_, k2, k3⟩ := difference_nil _ _ diff hD (by omega)
            exact ⟨ho', k2.symm, k3⟩

/-- C30 (amended), at a concrete input: a quadrilateral patch whose comprehensive knot
vectors are the unique ones. -/
theorem consistentKVSets_true_witness :
    ∃ kvdir : List Int,
      (exKVSets KnotVector.exTwoElements exKVThree KnotVector.exTwoElements
        exKVThree).CheckKVDirection ((0 : Nat) : Int) = .ok kvdir ∧
      KnotVector.exTwoElements.Order = KnotVector.exTwoElements.Order ∧
      (if rdI kvdir ((0 : Nat) : Int) = -1 then KnotVector.exTwoElements.Flip
        else KnotVector.exTwoElements).knot.length = KnotVector.exTwoElements.knot.length ∧
      ∀ j : Nat, j < KnotVector.exTwoElements.knot.length →
        |rd KnotVector.exTwoElements.knot (j : Int) -
          rd (if rdI kvdir ((0 : Nat) : Int) = -1 then KnotVector.exTwoElements.Flip
            else KnotVector.exTwoElements).knot (j : Int)| < 2 * KnotVector.epsilon :=
  consistentKVSets_true
    (exKVSets KnotVector.exTwoElements exKVThree KnotVector.exTwoElements exKVThree)
    (by with_unfolding_all rfl) 0 0 (by decide) (by decide)

end NURBSExtension

namespace KnotVector

/-- `GetElements` stores the number of non-empty spans with index in `[Order, NCP)`. -/
theorem getElements_spanCount (kv : KnotVector) :
    kv.GetElements.NumOfElements = kv.GetElements.spanCount := by
  rw [GetElements_NumOfElements]
  unfold spanCount spanMidpoints
  rw [List.length_map, List.countP_eq_length_filter]
  rfl

theorem getElements_valid (kv : KnotVector) (hs : kv.SizeOk) (hn : kv.NonDecreasing) :
    kv.GetElements.Valid :=
  ⟨hs, hn, getElements_spanCount kv⟩

theorem pairwise_of_rd_le (l : List ℚ)
    (h : ∀ i j : Nat, i ≤ j → j < l.length → rd l (i : Int) ≤ rd l (j : Int)) :
    l.Pairwise (· ≤ ·) := by
  rw [List.pairwise_iff_getElem]
  intro i j hi hj hij
  have := h i j (by omega) hj
  rwa [rd_eq_getElem l i hi, rd_eq_getElem l j hj] at this

/-- The stream constructor gives a valid knot vector when the stream holds `NCP + Order + 1`
non-decreasing numbers. -/
theorem ofStream_valid (Order_ NCP : Nat) (input : List ℚ)
    (hlen : NCP + Order_ + 1 ≤ input.length)
    (hnd : (input.take (NCP + Order_ + 1)).Pairwise (· ≤ ·)) :
    (ofStream Order_ NCP input).Valid ∧ (ofStream Order_ NCP input).knot = input.take (NCP + Order_ + 1) ∧
      (ofStream Order_ NCP input).Order = Order_ ∧
      (ofStream Order_ NCP input).NumOfControlPoints = NCP := by
  have hk : setSize (input.take (NCP + Order_ + 1)) ((NCP + Order_ + 1 : Nat) : Int) =
      input.take (NCP + Order_ + 1) := by
    unfold setSize
    rw [Int.toNat_ofNat, List.length_take, Nat.min_eq_left hlen, Nat.sub_self,
      List.replicate_zero, List.append_nil, List.take_take, Nat.min_self]
  unfold ofStream
  rw [hk]
  refine ⟨getElements_valid _ ?_ hnd, rfl, rfl, rfl⟩
  unfold SizeOk
  simp only [List.length_take]
  omega

/-- `KnotVector::DegreeElevate(t)` gives a valid knot vector on a non-decreasing knot vector
with `NCP + Order + 1` knots. -/
theorem degreeElevate_valid (kv : KnotVector) (t : Nat) (hs : kv.SizeOk) (hn : kv.NonDecreasing) :
    ∃ r, kv.DegreeElevate (t : Int) = .ok r ∧ r.Valid := by
  unfold SizeOk at hs
  refine ⟨_, DegreeElevate_eq kv t, ?_⟩
  apply getElements_valid
  · unfold SizeOk
    simp only [length_elevatedKnots]
    omega
  · apply pairwise_of_rd_le
    intro i j hij hj
    rw [length_elevatedKnots] at hj
    have hval : ∀ x : Nat, x < kv.NumOfControlPoints + kv.Order + 2 * t + 1 →
        rd (elevatedKnots kv t) (x : Int) =
          if kv.NumOfControlPoints + t ≤ x then kv.get ((kv.knot.length : Int) - 1)
          else if x ≤ kv.Order + t then kv.get 0
          else kv.get ((x : Int) - (t : Int)) := by
      intro x hx
      by_cases h1 : kv.NumOfControlPoints + t ≤ x
      · rw [if_pos h1, elevatedKnots_last kv t x h1 hx]
      · rw [if_neg h1]
        by_cases h2 : x ≤ kv.Order + t
        · rw [if_pos h2, elevatedKnots_first kv t x h2 (by omega)]
        · rw [if_neg h2, elevatedKnots_mid kv t x (by omega) (by omega)]
    rw [hval i (by omega), hval j hj]
    by_cases a1 : kv.NumOfControlPoints + t ≤ i
    · rw [if_pos a1, if_pos (by omega)]
    · rw [if_neg a1]
      by_cases a2 : kv.NumOfControlPoints + t ≤ j
      · rw [if_pos a2]
        split
        · exact hn.get_le (le_refl _) (by omega) (by omega)
        · exact hn.get_le (by omega) (by omega) (by omega)
      · rw [if_neg a2]
        by_cases a3 : i ≤ kv.Order + t
        · rw [if_pos a3]
          split
          · exact le_refl _
          · exact hn.get_le (le_refl _) (by omega) (by omega)
        · rw [if_neg a3, if_neg (by omega)]
          exact hn.get_le (by omega) (by omega) (by omega)

end KnotVector

namespace KnotVector

theorem range'_mirror (O n : Nat) :
    (List.range' O n).map (fun (i : Nat) => O + n + O - 1 - i) = (List.range' O n).reverse := by
  apply List.ext_getElem
  · simp
  · intro k h1 h2
    simp only [List.length_map, List.length_range'] at h1
    rw [List.getElem_map, List.getElem_range', List.getElem_reverse, List.getElem_range']
    simp only [List.length_range']
    omega

/-- `Flip` keeps a clamped valid knot vector valid. -/
theorem flip_valid (kv : KnotVector) (hv : kv.Valid) (hc : kv.Clamped) : kv.Flip.Valid := by
  obtain ⟨hs, hn, hne⟩ := hv
  unfold SizeOk at hs
  obtain ⟨fO, fN, fE, fL, fK⟩ := flip_knots kv (by omega)
  have hapb : kv.get 0 + kv.get ((kv.Size : Int) - 1) =
      kv.get 0 + kv.get ((kv.NumOfControlPoints + kv.Order : Nat) : Int) := by
    unfold Size
    rw [hs]
    congr 2
    omega
  rw [hapb] at fK
  have hlo : ∀ y : Nat, y < kv.knot.length → kv.get 0 ≤ kv.get (y : Int) :=
    fun y hy => hn.get_le (le_refl _) (by omega) (by omega)
  have hhi : ∀ y : Nat, y < kv.knot.length →
      kv.get (y : Int) ≤ kv.get ((kv.NumOfControlPoints + kv.Order : Nat) : Int) :=
    fun y hy => hn.get_le (by omega) (by omega) (by omega)
  have hfirst : ∀ y : Nat, y ≤ kv.Order → kv.get (y : Int) = kv.get 0 := fun y hy => hc.1 y hy
  have hlast : ∀ y : Nat, kv.NumOfControlPoints ≤ y → y ≤ kv.NumOfControlPoints + kv.Order →
      kv.get (y : Int) = kv.get ((kv.NumOfControlPoints + kv.Order : Nat) : Int) := by
    intro y h1 h2
    have := hc.2 (y - kv.NumOfControlPoints) (by omega)
    rw [show kv.NumOfControlPoints + (y - kv.NumOfControlPoints) = y by omega] at this
    exact this
  -- the mirrored formula also holds at the two ends of the interior
  have hext : ∀ x : Nat, kv.Order ≤ x → x ≤ kv.NumOfControlPoints →
      kv.Flip.get (x : Int) = kv.get 0 + kv.get ((kv.NumOfControlPoints + kv.Order : Nat) : Int) -
        kv.get ((kv.NumOfControlPoints + kv.Order - x : Nat) : Int) := by
    intro x h1 h2
    rw [fK x]
    by_cases hi : kv.Order < x ∧ x < kv.NumOfControlPoints
    · rw [if_pos hi]
    · rw [if_neg hi]
      by_cases hx : x = kv.Order
      · rw [hx, hfirst kv.Order (le_refl _),
          hlast (kv.NumOfControlPoints + kv.Order - kv.Order) (by omega) (by omega)]
        ring
      · have hx2 : x = kv.NumOfControlPoints := by omega
        rw [hx2, hlast kv.NumOfControlPoints (le_refl _) (by omega),
          hfirst (kv.NumOfControlPoints + kv.Order - kv.NumOfControlPoints) (by omega)]
        ring
  refine ⟨?_, ?_, ?_⟩
  · unfold SizeOk
    rw [fL, fO, fN, hs]
  · apply pairwise_of_rd_le
    intro i j hij hj
    rw [fL] at hj
    have hi' := fK i
    have hj' := fK j
    unfold get at hi' hj'
    rw [hi', hj']
    by_cases a : kv.Order < i ∧ i < kv.NumOfControlPoints
    · rw [if_pos a]
      by_cases b : kv.Order < j ∧ j < kv.NumOfControlPoints
      · rw [if_pos b]
        have : kv.get ((kv.NumOfControlPoints + kv.Order - j : Nat) : Int) ≤
            kv.get ((kv.NumOfControlPoints + kv.Order - i : Nat) : Int) :=
          hn.get_le (by omega) (by omega) (by omega)
        unfold get at this
        linarith
      · rw [if_neg b]
        have h1 := hlast j (by omega) (by omega)
        have h2 := hlo (kv.NumOfControlPoints + kv.Order - i) (by omega)
        unfold get at h1 h2
        rw [h1]
        linarith
    · rw [if_neg a]
      by_cases b : kv.Order < j ∧ j < kv.NumOfControlPoints
      · rw [if_pos b]
        have h1 := hfirst i (by omega)
        have h2 := hhi (kv.NumOfControlPoints + kv.Order - j) (by omega)
        unfold get at h1 h2
        rw [h1]
        linarith
      · rw [if_neg b]
        have : kv.get (i : Int) ≤ kv.get (j : Int) := hn.get_le (by omega) (by omega) (by omega)
        exact this
  · rw [fE, hne]
    unfold spanCount
    rw [fO, fN]
    by_cases hON : kv.Order ≤ kv.NumOfControlPoints
    · have e1 : List.countP (fun (i : Nat) => decide (kv.Flip.get (i : Int) ≠ kv.Flip.get ((i : Int) + 1)))
          (List.range' kv.Order (kv.NumOfControlPoints - kv.Order)) =
          List.countP ((fun (i : Nat) => decide (kv.get (i : Int) ≠ kv.get ((i : Int) + 1))) ∘
            (fun (i : Nat) => kv.Order + (kv.NumOfControlPoints - kv.Order) + kv.Order - 1 - i))
          (List.range' kv.Order (kv.NumOfControlPoints - kv.Order)) := by
        apply List.countP_congr
        intro i hi
        rw [List.mem_range'_1] at hi
        have a1 := hext i (by omega) (by omega)
        have a2 := hext (i + 1) (by omega) (by omega)
        have c1 : ((i : Int) + 1) = ((i + 1 : Nat) : Int) := by omega
        have c2 : ((kv.Order + (kv.NumOfControlPoints - kv.Order) + kv.Order - 1 - i : Nat) : Int) + 1
            = ((kv.NumOfControlPoints + kv.Order - i : Nat) : Int) := by omega
        have c3 : kv.Order + (kv.NumOfControlPoints - kv.Order) + kv.Order - 1 - i =
            kv.NumOfControlPoints + kv.Order - (i + 1) := by omega
        simp only [Function.comp, decide_eq_true_eq]
        rw [c1, a1, a2, c2, c3]
        constructor
        · intro h e
          apply h
          rw [e]
        · intro h e
          apply h
          linarith
      rw [e1, ← List.countP_map, range'_mirror]
      exact ((List.reverse_perm _).countP_eq _).symm
    · have : kv.NumOfControlPoints - kv.Order = 0 := by omega
      rw [this]
      rfl

end KnotVector

theorem interpolateKV_valid : interpolateKV.Valid := by
  with_unfolding_all decide

/-- The loop of `Revolve3D` that writes the interior knots `i, i`. -/
theorem revolve_loop :
    ∀ (n s : Nat) (k : KnotVector), 2 * (s + n) + 2 < k.knot.length →
      (forCount (fun (st : KnotVector) (m : Nat) =>
          (st.set (2 * (1 + (m : Int)) + 2) ((1 + (m : Int) : Int) : ℚ)).set
            (2 * (1 + (m : Int)) + 1) ((1 + (m : Int) : Int) : ℚ)) n s k).Order = k.Order ∧
      (forCount (fun (st : KnotVector) (m : Nat) =>
          (st.set (2 * (1 + (m : Int)) + 2) ((1 + (m : Int) : Int) : ℚ)).set
            (2 * (1 + (m : Int)) + 1) ((1 + (m : Int) : Int) : ℚ)) n s k).NumOfControlPoints
        = k.NumOfControlPoints ∧
      (forCount (fun (st : KnotVector) (m : Nat) =>
          (st.set (2 * (1 + (m : Int)) + 2) ((1 + (m : Int) : Int) : ℚ)).set
            (2 * (1 + (m : Int)) + 1) ((1 + (m : Int) : Int) : ℚ)) n s k).knot.length
        = k.knot.length ∧
      ∀ j : Nat, rd (forCount (fun (st : KnotVector) (m : Nat) =>
          (st.set (2 * (1 + (m : Int)) + 2) ((1 + (m : Int) : Int) : ℚ)).set
            (2 * (1 + (m : Int)) + 1) ((1 + (m : Int) : Int) : ℚ)) n s k).knot (j : Int) =
        if 2 * s + 3 ≤ j ∧ j ≤ 2 * (s + n) + 2 then (((j - 1) / 2 : Nat) : ℚ)
        else rd k.knot (j : Int)
  | 0, s, k, _ => by
    refine ⟨rfl, rfl, rfl, fun j => ?_⟩
    rw [if_neg (by omega)]
    rfl
  | n + 1, s, k, h => by
    rw [forCount]
    have hl : ((k.set (2 * (1 + (s : Int)) + 2) ((1 + (s : Int) : Int) : ℚ)).set
        (2 * (1 + (s : Int)) + 1) ((1 + (s : Int) : Int) : ℚ)).knot.length = k.knot.length := by
      simp only [KnotVector.set, length_wr]
    obtain ⟨h1, h2, h3, h4⟩ := revolve_loop n (s + 1)
      ((k.set (2 * (1 + (s : Int)) + 2) ((1 + (s : Int) : Int) : ℚ)).set
        (2 * (1 + (s : Int)) + 1) ((1 + (s : Int) : Int) : ℚ)) (by rw [hl]; omega)
    refine ⟨h1, h2, h3.trans hl, fun j => ?_⟩
    rw [h4 j]
    by_cases c1 : 2 * (s + 1) + 3 ≤ j ∧ j ≤ 2 * (s + 1 + n) + 2
    · rw [if_pos c1, if_pos (by omega)]
    · rw [if_neg c1]
      simp only [KnotVector.set]
      rw [rd_wr, rd_wr]
      by_cases c2 : j = 2 * s + 3
      · have e : (j - 1) / 2 = s + 1 := by omega
        rw [if_pos ⟨by omega, by omega, by rw [length_wr]; omega⟩, if_pos (by omega), e]
        push_cast
        ring
      · rw [if_neg (by omega)]
        by_cases c3 : j = 2 * s + 4
        · have e : (j - 1) / 2 = s + 1 := by omega
          rw [if_pos ⟨by omega, by omega, by omega⟩, if_pos (by omega), e]
          push_cast
          ring
        · rw [if_neg (by omega), if_neg (by omega)]

/-- The knot vector built in `Revolve3D` has `2*times + 4` knots, knot `j` being
`min times ((j - 1) / 2)`. -/
theorem revolveKV_knots (times : Nat) :
    (revolveKV times).Order = 2 ∧ (revolveKV times).NumOfControlPoints = 2 * times + 1 ∧
    (revolveKV times).knot.length = 2 * times + 4 ∧
    ∀ j : Nat, j < 2 * times + 4 →
      rd (revolveKV times).knot (j : Int) =
        ((if times ≤ (j - 1) / 2 then times else (j - 1) / 2 : Nat) : ℚ) := by
  have hl0 : ((((KnotVector.create 2 (2 * times + 1)).set 2 0).set 1 0).set 0 0).knot.length
      = 2 * times + 4 := by
    simp only [KnotVector.set, length_wr, KnotVector.create, List.length_replicate]
  obtain ⟨h1, h2, h3, h4⟩ := revolve_loop ((times : Int) - 1).toNat 0
    ((((KnotVector.create 2 (2 * times + 1)).set 2 0).set 1 0).set 0 0) (by rw [hl0]; omega)
  have hz : ∀ j : Nat, j ≤ 2 →
      rd ((((KnotVector.create 2 (2 * times + 1)).set 2 0).set 1 0).set 0 0).knot (j : Int) = 0 := by
    intro j hj
    simp only [KnotVector.set, KnotVector.create]
    rw [rd_wr, rd_wr, rd_wr]
    simp only [length_wr, List.length_replicate]
    by_cases a : j = 0
    · rw [if_pos ⟨by omega, by omega, by omega⟩]
    · rw [if_neg (by omega)]
      by_cases b : j = 1
      · rw [if_pos ⟨by omega, by omega, by omega⟩]
      · rw [if_neg (by omega), if_pos ⟨by omega, by omega, by omega⟩]
  have key : revolveKV times = KnotVector.GetElements
      ((((forCount (fun (st : KnotVector) (m : Nat) =>
          (st.set (2 * (1 + (m : Int)) + 2) ((1 + (m : Int) : Int) : ℚ)).set
            (2 * (1 + (m : Int)) + 1) ((1 + (m : Int) : Int) : ℚ)) ((times : Int) - 1).toNat 0
          ((((KnotVector.create 2 (2 * times + 1)).set 2 0).set 1 0).set 0 0)).set
        (((2 * times + 1 : Nat) : Int) + 2) (times : ℚ)).set
        (((2 * times + 1 : Nat) : Int) + 1) (times : ℚ)).set
        ((2 * times + 1 : Nat) : Int) (times : ℚ)) := rfl
  rw [key]
  generalize forCount (fun (st : KnotVector) (m : Nat) =>
          (st.set (2 * (1 + (m : Int)) + 2) ((1 + (m : Int) : Int) : ℚ)).set
            (2 * (1 + (m : Int)) + 1) ((1 + (m : Int) : Int) : ℚ)) ((times : Int) - 1).toNat 0
          ((((KnotVector.create 2 (2 * times + 1)).set 2 0).set 1 0).set 0 0) = L at h1 h2 h3 h4 ⊢
  rw [hl0] at h3
  refine ⟨h1, h2, ?_, fun j hj => ?_⟩
  · simp only [KnotVector.GetElements, KnotVector.set, length_wr]
    exact h3
  · simp only [KnotVector.GetElements, KnotVector.set]
    rw [rd_wr, rd_wr, rd_wr]
    simp only [length_wr]
    rw [h3]
    by_cases a : j = 2 * times + 1
    · rw [if_pos ⟨by omega, by omega, by omega⟩, if_pos (by omega)]
    · rw [if_neg (by omega)]
      by_cases b : j = 2 * times + 2
      · rw [if_pos ⟨by omega, by omega, by omega⟩, if_pos (by omega)]
      · rw [if_neg (by omega)]
        by_cases c : j = 2 * times + 3
        · rw [if_pos ⟨by omega, by omega, by omega⟩, if_pos (by omega)]
        · rw [if_neg (by omega), h4 j]
          by_cases d : 2 * 0 + 3 ≤ j ∧ j ≤ 2 * (0 + ((times : Int) - 1).toNat) + 2
          · rw [if_pos d, if_neg (by omega)]
          · rw [if_neg d, hz j (by omega)]
            have : (if times ≤ (j - 1) / 2 then times else (j - 1) / 2 : Nat) = 0 := by
              split <;> omega
            rw [this]
            rfl

/-- The knot vector built in `Revolve3D` is valid for every number of repetitions. -/
theorem revolveKV_valid (times : Nat) : (revolveKV times).Valid := by
  obtain ⟨hO, hN, hL, hK⟩ := revolveKV_knots times
  have hs : (revolveKV times).SizeOk := by
    unfold KnotVector.SizeOk
    rw [hL, hO, hN]
  have hn : (revolveKV times).NonDecreasing := by
    apply KnotVector.pairwise_of_rd_le
    intro i j hij hj
    rw [hL] at hj
    rw [hK i (by omega), hK j hj, Nat.cast_le]
    split <;> split <;> omega
  refine ⟨hs, hn, ?_⟩
  unfold revolveKV
  exact KnotVector.getElements_spanCount _

namespace NURBSPatch

theorem knot_set (kv : KnotVector) (i : Int) (x : ℚ) : (kv.set i x).knot = wr kv.knot i x := rfl

/-- A loop of writes `nk[c + i] = x` for `i = 0, ..., n-1` that stays inside the knot
array. -/
theorem fill_foldl (x : ℚ) (c : Nat) :
    ∀ (n : Nat) (kv : KnotVector), c + n ≤ kv.knot.length →
      ((List.range n).foldl (fun (s : KnotVector) (i : Nat) => s.set ((c : Int) + (i : Int)) x)
        kv).Order = kv.Order ∧
      ((List.range n).foldl (fun (s : KnotVector) (i : Nat) => s.set ((c : Int) + (i : Int)) x)
        kv).NumOfControlPoints = kv.NumOfControlPoints ∧
      ((List.range n).foldl (fun (s : KnotVector) (i : Nat) => s.set ((c : Int) + (i : Int)) x)
        kv).knot.length = kv.knot.length ∧
      ∀ j : Nat, rd ((List.range n).foldl
          (fun (s : KnotVector) (i : Nat) => s.set ((c : Int) + (i : Int)) x) kv).knot (j : Int) =
        if c ≤ j ∧ j < c + n then x else rd kv.knot (j : Int)
  | 0, kv, _ => by
    refine ⟨rfl, rfl, rfl, fun j => ?_⟩
    rw [if_neg (by omega)]
    rfl
  | n + 1, kv, h => by
    obtain ⟨h1, h2, h3, h4⟩ := fill_foldl x c n kv (by omega)
    rw [List.range_succ, List.foldl_append]
    simp only [List.foldl_cons, List.foldl_nil]
    refine ⟨h1, h2, ?_, fun j => ?_⟩
    · rw [knot_set, length_wr, h3]
    · rw [knot_set, rd_wr, h3, h4 j]
      by_cases e : j = c + n
      · rw [if_pos ⟨by omega, by omega, by omega⟩, if_pos (by omega)]
      · rw [if_neg (by omega)]
        by_cases f : c ≤ j ∧ j < c + n
        · rw [if_pos f, if_pos (by omega)]
        · rw [if_neg f, if_neg (by omega)]

theorem fill_spec (x : ℚ) (c : Nat) (hi : Int) (kv : KnotVector)
    (h : c + hi.toNat ≤ kv.knot.length) :
    (forLoopInt 0 hi (fun (nk : KnotVector) (i : Int) => nk.set ((c : Int) + i) x) kv).Order
      = kv.Order ∧
    (forLoopInt 0 hi (fun (nk : KnotVector) (i : Int) => nk.set ((c : Int) + i) x)
      kv).NumOfControlPoints = kv.NumOfControlPoints ∧
    (forLoopInt 0 hi (fun (nk : KnotVector) (i : Int) => nk.set ((c : Int) + i) x)
      kv).knot.length = kv.knot.length ∧
    ∀ j : Nat, rd (forLoopInt 0 hi (fun (nk : KnotVector) (i : Int) => nk.set ((c : Int) + i) x)
        kv).knot (j : Int) =
      if c ≤ j ∧ j < c + hi.toNat then x else rd kv.knot (j : Int) := by
  rw [forLoopInt_foldl]
  exact fill_foldl x c hi.toNat kv h

theorem fillPair_foldl (x : ℚ) (c : Nat) :
    ∀ (n : Nat) (kv : KnotVector),
      (List.range n).foldl (fun (s : KnotVector × Int) (_ : Nat) => (s.1.set s.2 x, s.2 + 1))
        (kv, (c : Int)) =
      ((List.range n).foldl (fun (s : KnotVector) (i : Nat) => s.set ((c : Int) + (i : Int)) x) kv,
        (c : Int) + (n : Int))
  | 0, kv => by simp
  | n + 1, kv => by
    rw [List.range_succ, List.foldl_append, List.foldl_append, fillPair_foldl x c n kv]
    simp only [List.foldl_cons, List.foldl_nil]
    congr 1

/-- The loop `for (i = 0; i < hi; i++) { newkv[kind] = ua; kind = kind+1; }`. -/
theorem fillPair_eq (x : ℚ) (c : Nat) (hi : Int) (kv : KnotVector) :
    forLoopInt 0 hi (fun (s : KnotVector × Int) (_ : Int) => (s.1.set s.2 x, s.2 + 1))
      (kv, (c : Int)) =
    (forLoopInt 0 hi (fun (nk : KnotVector) (i : Int) => nk.set ((c : Int) + i) x) kv,
      (c : Int) + (hi.toNat : Int)) := by
  rw [forLoopInt_foldl, forLoopInt_foldl]
  exact fillPair_foldl x c hi.toNat kv

/-- The loop `while (b < m && oldkv[b] == oldkv[b+1]) b++` stops at the end of the run of
equal knots that starts at `b`, or at `m`. -/
theorem elevAdvance_spec (K : KnotVector) (m : Nat) :
    ∀ (fuel b : Nat), b ≤ m → m ≤ b + fuel →
      ∃ c : Nat, elevAdvance K (m : Int) fuel (b : Int) = (c : Int) ∧ b ≤ c ∧ c ≤ m ∧
        (∀ i : Nat, b ≤ i → i < c → K.get (i : Int) = K.get ((i : Int) + 1)) ∧
        (c = m ∨ K.get (c : Int) ≠ K.get ((c : Int) + 1))
  | 0, b, h1, h2 => by
    refine ⟨b, rfl, le_refl _, h1, fun i _ _ => by omega, Or.inl (by omega)⟩
  | fuel + 1, b, h1, h2 => by
    rw [elevAdvance]
    by_cases hc : (b : Int) < (m : Int) ∧ K.get (b : Int) = K.get ((b : Int) + 1)
    · rw [if_pos hc]
      obtain ⟨c, e1, e2, e3, e4, e5⟩ := elevAdvance_spec K m fuel (b + 1) (by omega) (by omega)
      refine ⟨c, ?_, by omega, e3, ?_, e5⟩
      · rw [← e1]
        rfl
      · intro i hi1 hi2
        by_cases hib : i = b
        · rw [hib]
          exact hc.2
        · exact e4 i (by omega) hi2
    · rw [if_neg hc]
      refine ⟨b, rfl, le_refl _, h1, fun i _ _ => by omega, ?_⟩
      by_cases hbm : b = m
      · exact Or.inl hbm
      · refine Or.inr (fun e => hc ⟨by omega, e⟩)

/-- Counting the non-empty spans up to the end of a run of equal knots. -/
theorem countP_run (K : KnotVector) (p b c : Nat) (hpb : p ≤ b) (hbc : b ≤ c)
    (heq : ∀ i : Nat, b ≤ i → i < c → K.get (i : Int) = K.get ((i : Int) + 1))
    (hne : K.get (c : Int) ≠ K.get ((c : Int) + 1)) :
    (List.range' p (c + 1 - p)).countP
        (fun (i : Nat) => decide (K.get (i : Int) ≠ K.get ((i : Int) + 1))) =
      (List.range' p (b - p)).countP
        (fun (i : Nat) => decide (K.get (i : Int) ≠ K.get ((i : Int) + 1))) + 1 := by
  have e1 : List.range' p (c + 1 - p) =
      List.range' p (b - p) ++ (List.range' b (c - b) ++ List.range' c 1) := by
    have a1 : List.range' b (c - b) ++ List.range' c 1 = List.range' b (c - b + 1) := by
      have := List.range'_append_1 b (c - b) 1
      rw [show b + (c - b) = c by omega] at this
      rw [this]
      congr 1
      omega
    rw [a1]
    have := List.range'_append_1 p (b - p) (c - b + 1)
    rw [show p + (b - p) = b by omega] at this
    rw [this]
    congr 1
    omega
  rw [e1, List.countP_append, List.countP_append]
  have z : (List.range' b (c - b)).countP
      (fun (i : Nat) => decide (K.get (i : Int) ≠ K.get ((i : Int) + 1))) = 0 := by
    rw [List.countP_eq_zero]
    intro i hi
    rw [List.mem_range'_1] at hi
    simp only [decide_eq_true_eq, not_not]
    exact heq i (by omega) (by omega)
  have o : (List.range' c 1).countP
      (fun (i : Nat) => decide (K.get (i : Int) ≠ K.get ((i : Int) + 1))) = 1 := by
    simp [List.range', hne]
  rw [z, o]

end NURBSPatch

namespace NURBSPatch

/-- The part of the state of one iteration of `DegreeElevate` that concerns the knots. -/
theorem elevStep_knots (slN slO : Int → Int → Int) (size : Int) (K : KnotVector)
    (olddata : List ℚ) (bezalfs : DenseMatrix) (p t m : Int) (st : ElevState) :
    (elevStep slN slO size K olddata bezalfs p t m st).b =
      (if elevAdvance K m (m - st.b).toNat st.b < m
        then elevAdvance K m (m - st.b).toNat st.b + 1
        else elevAdvance K m (m - st.b).toNat st.b) ∧
    (elevStep slN slO size K olddata bezalfs p t m st).a =
      (if elevAdvance K m (m - st.b).toNat st.b < m
        then elevAdvance K m (m - st.b).toNat st.b else st.a) ∧
    (elevStep slN slO size K olddata bezalfs p t m st).ua =
      (if elevAdvance K m (m - st.b).toNat st.b < m
        then K.get (elevAdvance K m (m - st.b).toNat st.b) else st.ua) ∧
    (elevStep slN slO size K olddata bezalfs p t m st).r =
      p - (elevAdvance K m (m - st.b).toNat st.b - st.b + 1) ∧
    (elevStep slN slO size K olddata bezalfs p t m st).kind =
      (if st.a ≠ p then
        forLoopInt 0 (p + t - st.r)
          (fun (s : KnotVector × Int) _ => (s.1.set s.2 st.ua, s.2 + 1)) (st.newkv, st.kind)
       else (st.newkv, st.kind)).2 ∧
    (elevStep slN slO size K olddata bezalfs p t m st).newkv =
      (if elevAdvance K m (m - st.b).toNat st.b < m then
        (if st.a ≠ p then
          forLoopInt 0 (p + t - st.r)
            (fun (s : KnotVector × Int) _ => (s.1.set s.2 st.ua, s.2 + 1)) (st.newkv, st.kind)
         else (st.newkv, st.kind)).1
       else
        forLoopInt 0 (p + t + 1)
          (fun nk i => nk.set
            ((if st.a ≠ p then
                forLoopInt 0 (p + t - st.r)
                  (fun (s : KnotVector × Int) _ => (s.1.set s.2 st.ua, s.2 + 1))
                  (st.newkv, st.kind)
              else (st.newkv, st.kind)).2 + i)
            (K.get (elevAdvance K m (m - st.b).toNat st.b)))
          (if st.a ≠ p then
            forLoopInt 0 (p + t - st.r)
              (fun (s : KnotVector × Int) _ => (s.1.set s.2 st.ua, s.2 + 1)) (st.newkv, st.kind)
           else (st.newkv, st.kind)).1) := by
  unfold elevStep
  dsimp only
  split <;> exact ⟨rfl, rfl, rfl, rfl, rfl, rfl⟩

theorem elevLoop_done (slN slO : Int → Int → Int) (size : Int) (K : KnotVector)
    (olddata : List ℚ) (bezalfs : DenseMatrix) (p t m : Int) (fuel : Nat) (st : ElevState)
    (h : ¬ st.b < m) : elevLoop slN slO size K olddata bezalfs p t m fuel st = st := by
  cases fuel with
  | zero => rfl
  | succ n => rw [elevLoop, if_neg h]

theorem spansBelow_mono (K : KnotVector) (a b : Nat) (h : a ≤ b) :
    spansBelow K a ≤ spansBelow K b := by
  unfold spansBelow
  have e : List.range' K.Order (b - K.Order) =
      List.range' K.Order (a - K.Order) ++
        List.range' (K.Order + (a - K.Order)) ((b - K.Order) - (a - K.Order)) := by
    rw [List.range'_append_1]
    congr 1
    omega
  rw [e, List.countP_append]
  omega

end NURBSPatch

namespace NURBSPatch

/-- Writing `x` into the entries `k2, ..., k2 + n - 1` that end the knot array, above a
non-decreasing prefix bounded by `u ≤ x`, gives a non-decreasing knot array. -/
theorem fill_sorted (x u : ℚ) (k2 n : Nat) (hi : Int) (nk1 : KnotVector)
    (hin : hi.toNat = n) (hfull : k2 + n = nk1.knot.length) (hux : u ≤ x)
    (hle1 : ∀ j : Nat, j < k2 → rd nk1.knot (j : Int) ≤ u)
    (hso1 : ∀ i j : Nat, i ≤ j → j < k2 → rd nk1.knot (i : Int) ≤ rd nk1.knot (j : Int)) :
    (forLoopInt 0 hi (fun (nk : KnotVector) (i : Int) => nk.set ((k2 : Int) + i) x)
      nk1).knot.Pairwise (· ≤ ·) := by
  obtain ⟨_, _, f3, f4⟩ := fill_spec x k2 hi nk1 (by rw [hin, hfull])
  apply KnotVector.pairwise_of_rd_le
  intro i j hij hj
  rw [f3] at hj
  rw [f4 i, f4 j, hin]
  by_cases hjk : k2 ≤ j
  · rw [if_pos (show k2 ≤ j ∧ j < k2 + n from ⟨hjk, by omega⟩)]
    by_cases hik : k2 ≤ i
    · rw [if_pos (show k2 ≤ i ∧ i < k2 + n from ⟨hik, by omega⟩)]
    · rw [if_neg (show ¬ (k2 ≤ i ∧ i < k2 + n) by omega)]
      exact le_trans (hle1 i (by omega)) hux
  · rw [if_neg (show ¬ (k2 ≤ j ∧ j < k2 + n) by omega),
      if_neg (show ¬ (k2 ≤ i ∧ i < k2 + n) by omega)]
    exact hso1 i j hij (by omega)

/-- Writing `pend` copies of `u` above a non-decreasing prefix of `kind` entries bounded by
`u` gives a non-decreasing prefix of `kind + pend` entries bounded by `u`. -/
theorem fillPair_prefix (u : ℚ) (kind pend : Nat) (hi : Int) (kv : KnotVector)
    (hpn : hi.toNat = pend) (hk2 : kind + pend ≤ kv.knot.length)
    (hle : ∀ j : Nat, j < kind → rd kv.knot (j : Int) ≤ u)
    (hso : ∀ i j : Nat, i ≤ j → j < kind → rd kv.knot (i : Int) ≤ rd kv.knot (j : Int)) :
    ∃ nk1 : KnotVector,
      forLoopInt 0 hi (fun (s : KnotVector × Int) (_ : Int) => (s.1.set s.2 u, s.2 + 1))
        (kv, (kind : Int)) = (nk1, ((kind + pend : Nat) : Int)) ∧
      nk1.Order = kv.Order ∧ nk1.NumOfControlPoints = kv.NumOfControlPoints ∧
      nk1.knot.length = kv.knot.length ∧
      (∀ j : Nat, j < kind + pend → rd nk1.knot (j : Int) ≤ u) ∧
      (∀ i j : Nat, i ≤ j → j < kind + pend →
        rd nk1.knot (i : Int) ≤ rd nk1.knot (j : Int)) := by
  obtain ⟨f1, f2, f3, f4⟩ := fill_spec u kind hi kv (by rw [hpn]; exact hk2)
  rw [hpn] at f4
  refine ⟨_, ?_, f1, f2, f3, ?_, ?_⟩
  · rw [fillPair_eq, hpn]
    push_cast
    rfl
  · intro j hj
    rw [f4 j]
    by_cases hjk : kind ≤ j ∧ j < kind + pend
    · rw [if_pos hjk]
    · rw [if_neg hjk]
      exact hle j (by omega)
  · intro i j hij hj
    rw [f4 i, f4 j]
    by_cases hjk : kind ≤ j
    · rw [if_pos (show kind ≤ j ∧ j < kind + pend from ⟨hjk, hj⟩)]
      by_cases hik : kind ≤ i
      · rw [if_pos (show kind ≤ i ∧ i < kind + pend from ⟨hik, by omega⟩)]
      · rw [if_neg (show ¬ (kind ≤ i ∧ i < kind + pend) by omega)]
        exact hle i (by omega)
    · rw [if_neg (show ¬ (kind ≤ j ∧ j < kind + pend) by omega),
        if_neg (show ¬ (kind ≤ i ∧ i < kind + pend) by omega)]
      exact hso i j hij (by omega)

/-- In a clamped knot vector a non-empty span `[knot(c), knot(c+1)]` has `c < NCP`. -/
theorem span_below_ncp (K : KnotVector) (hc : K.Clamped) (c : Nat)
    (hcm : c < K.NumOfControlPoints + K.Order)
    (hcne : K.get (c : Int) ≠ K.get ((c : Int) + 1)) : c + 1 ≤ K.NumOfControlPoints := by
  by_contra hcon
  have a1 := hc.2 (c - K.NumOfControlPoints) (by omega)
  have a2 := hc.2 (c + 1 - K.NumOfControlPoints) (by omega)
  rw [show K.NumOfControlPoints + (c - K.NumOfControlPoints) = c by omega] at a1
  rw [show ((K.NumOfControlPoints + (c + 1 - K.NumOfControlPoints) : Nat) : Int)
    = (c : Int) + 1 by omega] at a2
  exact hcne (a1.trans a2.symm)

/-- The step of the knot invariant, for any state `st1` whose knot part is the one that
an iteration of the loop `while (b < m)` of `DegreeElevate` computes from `st`: `adv` is
the value of `b` after the inner loop over equal knots and `kk` the pair `(newkv, kind)`
after the loop that writes the knots `ua`. -/
theorem elevStep_inv_aux (K : KnotVector) (t : Nat) (new0 : KnotVector) (st st1 : ElevState)
    (adv : Int) (kk : KnotVector × Int)
    (hs : K.SizeOk) (hn : K.NonDecreasing) (hc : K.Clamped) (hp : 1 ≤ K.Order)
    (hlast : K.get ((K.NumOfControlPoints : Int) - 1) ≠ K.get (K.NumOfControlPoints : Int))
    (hlen : new0.knot.length =
      K.NumOfControlPoints + spansBelow K K.NumOfControlPoints * t + K.Order + t + 1)
    (h : ElevInv K t new0 st)
    (hadv : adv = elevAdvance K ((K.NumOfControlPoints + K.Order : Nat) : Int)
      (((K.NumOfControlPoints + K.Order : Nat) : Int) - st.b).toNat st.b)
    (hkk0 : kk = (if st.a ≠ (K.Order : Int) then
        forLoopInt 0 ((K.Order : Int) + (t : Int) - st.r)
          (fun (s : KnotVector × Int) _ => (s.1.set s.2 st.ua, s.2 + 1)) (st.newkv, st.kind)
       else (st.newkv, st.kind)))
    (e1 : st1.b = (if adv < ((K.NumOfControlPoints + K.Order : Nat) : Int) then adv + 1
      else adv))
    (e2 : st1.a = (if adv < ((K.NumOfControlPoints + K.Order : Nat) : Int) then adv
      else st.a))
    (e3 : st1.ua = (if adv < ((K.NumOfControlPoints + K.Order : Nat) : Int) then K.get adv
      else st.ua))
    (e4 : st1.r = (K.Order : Int) - (adv - st.b + 1))
    (e5 : st1.kind = kk.2)
    (e6 : st1.newkv = (if adv < ((K.NumOfControlPoints + K.Order : Nat) : Int) then kk.1
      else forLoopInt 0 ((K.Order : Int) + (t : Int) + 1)
        (fun nk i => nk.set (kk.2 + i) (K.get adv)) kk.1)) :
    (ElevInv K t new0 st1 ∧ st.b < st1.b) ∨
    (st1.b = ((K.NumOfControlPoints + K.Order : Nat) : Int) ∧
      st1.newkv.Order = new0.Order ∧
      st1.newkv.NumOfControlPoints = new0.NumOfControlPoints ∧
      st1.newkv.knot.length = new0.knot.length ∧
      st1.newkv.knot.Pairwise (· ≤ ·)) := by
  obtain ⟨b, kind, pend, hb, ha, hk, hpb, hbN, hpend, hsum, hua, hne, hO, hNc, hL, hle, hso⟩ := h
  have hsz := hs
  unfold KnotVector.SizeOk at hsz
  have hfuel : (((K.NumOfControlPoints + K.Order : Nat) : Int) - (b : Int)).toNat =
      K.NumOfControlPoints + K.Order - b := by omega
  obtain ⟨c, c1, c2, c3, c4, c5⟩ := elevAdvance_spec K (K.NumOfControlPoints + K.Order)
    (K.NumOfControlPoints + K.Order - b) b (by omega) (by omega)
  rw [hb, hfuel, c1] at hadv
  subst hadv
  rw [hb] at e4
  have hmono := Nat.mul_le_mul_left t (spansBelow_mono K b K.NumOfControlPoints hbN)
  have hk2 : kind + pend ≤ st.newkv.knot.length := by
    rw [hL, hsum, hlen, Nat.mul_comm (spansBelow K K.NumOfControlPoints) t]
    omega
  have hkk : ∃ nk1 : KnotVector,
      kk = (nk1, ((kind + pend : Nat) : Int)) ∧
      nk1.Order = st.newkv.Order ∧ nk1.NumOfControlPoints = st.newkv.NumOfControlPoints ∧
      nk1.knot.length = st.newkv.knot.length ∧
      (∀ j : Nat, j < kind + pend → rd nk1.knot (j : Int) ≤ st.ua) ∧
      (∀ i j : Nat, i ≤ j → j < kind + pend →
        rd nk1.knot (i : Int) ≤ rd nk1.knot (j : Int)) := by
    rw [hkk0]
    by_cases hap : st.a = (K.Order : Int)
    · rw [if_pos hap] at hpend
      rw [if_neg (not_not.mpr hap)]
      subst hpend
      exact ⟨st.newkv, by rw [hk]; rfl, rfl, rfl, rfl, hle, hso⟩
    · rw [if_neg hap] at hpend
      rw [if_pos hap, hk]
      exact fillPair_prefix st.ua kind pend _ st.newkv (by omega) hk2 hle hso
  obtain ⟨nk1, hkkeq, g1, g2, g3, hle1, hso1⟩ := hkk
  subst hkkeq
  have e5a : st1.kind = ((kind + pend : Nat) : Int) := e5
  have huac : st.ua ≤ K.get (c : Int) := by
    rw [hua]
    exact hn.get_le (by omega) (by omega) (by omega)
  clear hkk0 hle hso hfuel c1
  by_cases hcm : c < K.NumOfControlPoints + K.Order
  · have hcne : K.get (c : Int) ≠ K.get ((c : Int) + 1) := c5.resolve_left (by omega)
    have hcN : c + 1 ≤ K.NumOfControlPoints := span_below_ncp K hc c hcm hcne
    have hlt : (c : Int) < ((K.NumOfControlPoints + K.Order : Nat) : Int) := by omega
    rw [if_pos hlt] at e1 e2 e3 e6
    have e6a : st1.newkv = nk1 := e6
    have hrun : spansBelow K (c + 1) = spansBelow K b + 1 :=
      countP_run K K.Order b c (by omega) c2 c4 hcne
    have q1 : st1.b = ((c + 1 : Nat) : Int) := by rw [e1]; push_cast; rfl
    have q2 : st1.a = ((c + 1 : Nat) : Int) - 1 := by rw [e2]; push_cast; omega
    have q3 : (if st1.a = (K.Order : Int) then t + (c - b + 1) = 0
        else ((t + (c - b + 1) : Nat) : Int) = (K.Order : Int) + (t : Int) - st1.r) := by
      rw [e2, e4, if_neg (by omega)]
      push_cast
      omega
    have q4 : kind + pend + (t + (c - b + 1)) = c + 1 + t * spansBelow K (c + 1) := by
      rw [hrun, Nat.mul_add, Nat.mul_one]
      omega
    have q5 : st1.ua = K.get (((c + 1 : Nat) : Int) - 1) := by
      rw [e3]
      congr 1
      push_cast
      omega
    have q6 : K.get (((c + 1 : Nat) : Int) - 1) ≠ K.get ((c + 1 : Nat) : Int) := by
      rw [show ((c + 1 : Nat) : Int) - 1 = (c : Int) by push_cast; omega,
        show ((c + 1 : Nat) : Int) = (c : Int) + 1 by push_cast; rfl]
      exact hcne
    have q7 : ∀ j : Nat, j < kind + pend → rd st1.newkv.knot (j : Int) ≤ st1.ua := by
      intro j hj
      rw [e6a, e3]
      exact le_trans (hle1 j hj) huac
    have q8 : st.b < st1.b := by rw [hb, q1]; omega
    left
    exact ⟨⟨c + 1, kind + pend, t + (c - b + 1), q1, q2, e5a, by omega, hcN, q3, q4, q5, q6,
      by rw [e6a, g1, hO], by rw [e6a, g2, hNc], by rw [e6a, g3, hL], q7,
      by rw [e6a]; exact hso1⟩, q8⟩
  · have hcm2 : c = K.NumOfControlPoints + K.Order := by omega
    have hnlt : ¬ (c : Int) < ((K.NumOfControlPoints + K.Order : Nat) : Int) := by omega
    rw [if_neg hnlt] at e1 e6
    have e6a : st1.newkv = forLoopInt 0 ((K.Order : Int) + (t : Int) + 1)
        (fun (nk : KnotVector) (i : Int) => nk.set (((kind + pend : Nat) : Int) + i)
          (K.get (c : Int))) nk1 := e6
    have hbN2 : b = K.NumOfControlPoints := by
      by_contra hcon
      have a1 := c4 (K.NumOfControlPoints - 1) (by omega) (by omega)
      rw [show ((K.NumOfControlPoints - 1 : Nat) : Int) = (K.NumOfControlPoints : Int) - 1
        by omega, show (K.NumOfControlPoints : Int) - 1 + 1 = (K.NumOfControlPoints : Int)
        by omega] at a1
      exact hlast a1
    have hcnt : ((K.Order : Int) + (t : Int) + 1).toNat = K.Order + t + 1 := by omega
    have hfull : kind + pend + (K.Order + t + 1) = nk1.knot.length := by
      rw [g3, hL, hsum, hlen, hbN2, Nat.mul_comm (spansBelow K K.NumOfControlPoints) t]
      omega
    obtain ⟨f1, f2, f3, _⟩ := fill_spec (K.get (c : Int)) (kind + pend)
      ((K.Order : Int) + (t : Int) + 1) nk1 (by rw [hcnt, hfull])
    have hsorted := fill_sorted (K.get (c : Int)) st.ua (kind + pend) (K.Order + t + 1)
      ((K.Order : Int) + (t : Int) + 1) nk1 hcnt hfull huac hle1 hso1
    right
    rw [e6a]
    exact ⟨by rw [e1, hcm2], by rw [f1, g1, hO], by rw [f2, g2, hNc], by rw [f3, g3, hL],
      hsorted⟩

/-- One iteration of the loop `while (b < m)` of `DegreeElevate` on a clamped knot vector
of order at least 1 whose last knot has multiplicity `Order + 1`: either the invariant
holds again and `b` has grown, or the iteration was the last one and the new knot vector
is complete and non-decreasing. -/
theorem elevStep_inv (slN slO : Int → Int → Int) (size : Int) (K : KnotVector)
    (olddata : List ℚ) (bezalfs : DenseMatrix) (t : Nat) (new0 : KnotVector) (st : ElevState)
    (hs : K.SizeOk) (hn : K.NonDecreasing) (hc : K.Clamped) (hp : 1 ≤ K.Order)
    (hlast : K.get ((K.NumOfControlPoints : Int) - 1) ≠ K.get (K.NumOfControlPoints : Int))
    (hlen : new0.knot.length =
      K.NumOfControlPoints + spansBelow K K.NumOfControlPoints * t + K.Order + t + 1)
    (h : ElevInv K t new0 st) :
    (ElevInv K t new0 (elevStep slN slO size K olddata bezalfs (K.Order : Int) (t : Int)
        ((K.NumOfControlPoints + K.Order : Nat) : Int) st) ∧
      st.b < (elevStep slN slO size K olddata bezalfs (K.Order : Int) (t : Int)
        ((K.NumOfControlPoints + K.Order : Nat) : Int) st).b) ∨
    ((elevStep slN slO size K olddata bezalfs (K.Order : Int) (t : Int)
        ((K.NumOfControlPoints + K.Order : Nat) : Int) st).b =
        ((K.NumOfControlPoints + K.Order : Nat) : Int) ∧
      (elevStep slN slO size K olddata bezalfs (K.Order : Int) (t : Int)
        ((K.NumOfControlPoints + K.Order : Nat) : Int) st).newkv.Order = new0.Order ∧
      (elevStep slN slO size K olddata bezalfs (K.Order : Int) (t : Int)
        ((K.NumOfControlPoints + K.Order : Nat) : Int) st).newkv.NumOfControlPoints =
        new0.NumOfControlPoints ∧
      (elevStep slN slO size K olddata bezalfs (K.Order : Int) (t : Int)
        ((K.NumOfControlPoints + K.Order : Nat) : Int) st).newkv.knot.length =
        new0.knot.length ∧
      (elevStep slN slO size K olddata bezalfs (K.Order : Int) (t : Int)
        ((K.NumOfControlPoints + K.Order : Nat) : Int) st).newkv.knot.Pairwise (· ≤ ·)) :=
  elevStep_inv_aux K t new0 st _ _ _ hs hn hc hp hlast hlen h rfl rfl
    (elevStep_knots slN slO size K olddata bezalfs (K.Order : Int) (t : Int)
      ((K.NumOfControlPoints + K.Order : Nat) : Int) st).1
    (elevStep_knots slN slO size K olddata bezalfs (K.Order : Int) (t : Int)
      ((K.NumOfControlPoints + K.Order : Nat) : Int) st).2.1
    (elevStep_knots slN slO size K olddata bezalfs (K.Order : Int) (t : Int)
      ((K.NumOfControlPoints + K.Order : Nat) : Int) st).2.2.1
    (elevStep_knots slN slO size K olddata bezalfs (K.Order : Int) (t : Int)
      ((K.NumOfControlPoints + K.Order : Nat) : Int) st).2.2.2.1
    (elevStep_knots slN slO size K olddata bezalfs (K.Order : Int) (t : Int)
      ((K.NumOfControlPoints + K.Order : Nat) : Int) st).2.2.2.2.1
    (elevStep_knots slN slO size K olddata bezalfs (K.Order : Int) (t : Int)
      ((K.NumOfControlPoints + K.Order : Nat) : Int) st).2.2.2.2.2

end NURBSPatch

namespace NURBSPatch

/-- The loop `while (b < m)` of `DegreeElevate`, started in a state that satisfies the knot
invariant with fuel for the remaining knots, ends with a complete, non-decreasing new knot
vector. -/
theorem elevLoop_final (slN slO : Int → Int → Int) (size : Int) (K : KnotVector)
    (olddata : List ℚ) (bezalfs : DenseMatrix) (t : Nat) (new0 : KnotVector)
    (hs : K.SizeOk) (hn : K.NonDecreasing) (hc : K.Clamped) (hp : 1 ≤ K.Order)
    (hlast : K.get ((K.NumOfControlPoints : Int) - 1) ≠ K.get (K.NumOfControlPoints : Int))
    (hlen : new0.knot.length =
      K.NumOfControlPoints + spansBelow K K.NumOfControlPoints * t + K.Order + t + 1) :
    ∀ (fuel : Nat) (st : ElevState), ElevInv K t new0 st →
      (((K.NumOfControlPoints + K.Order : Nat) : Int) - st.b).toNat ≤ fuel →
      (elevLoop slN slO size K olddata bezalfs (K.Order : Int) (t : Int)
        ((K.NumOfControlPoints + K.Order : Nat) : Int) fuel st).newkv.Order = new0.Order ∧
      (elevLoop slN slO size K olddata bezalfs (K.Order : Int) (t : Int)
        ((K.NumOfControlPoints + K.Order : Nat) : Int) fuel st).newkv.NumOfControlPoints =
        new0.NumOfControlPoints ∧
      (elevLoop slN slO size K olddata bezalfs (K.Order : Int) (t : Int)
        ((K.NumOfControlPoints + K.Order : Nat) : Int) fuel st).newkv.knot.length =
        new0.knot.length ∧
      (elevLoop slN slO size K olddata bezalfs (K.Order : Int) (t : Int)
        ((K.NumOfControlPoints + K.Order : Nat) : Int) fuel st).newkv.knot.Pairwise (· ≤ ·)
  | 0, st, hinv, hf => by
    obtain ⟨b, _, _, hb, _, _, _, hbN, _⟩ := hinv
    rw [hb] at hf
    omega
  | fuel + 1, st, hinv, hf => by
    have hlt : st.b < ((K.NumOfControlPoints + K.Order : Nat) : Int) := by
      obtain ⟨b, _, _, hb, _, _, _, hbN, _⟩ := hinv
      rw [hb]
      omega
    rw [elevLoop, if_pos hlt]
    rcases elevStep_inv slN slO size K olddata bezalfs t new0 st hs hn hc hp hlast hlen hinv
      with ⟨hinv1, hgrow⟩ | ⟨hb1, h1, h2, h3, h4⟩
    · exact elevLoop_final slN slO size K olddata bezalfs t new0 hs hn hc hp hlast hlen fuel _
        hinv1 (by omega)
    · rw [elevLoop_done _ _ _ _ _ _ _ _ _ _ _ (by rw [hb1]; omega)]
      exact ⟨h1, h2, h3, h4⟩

theorem fill0_eq (x : ℚ) (hi : Int) (kv : KnotVector) :
    forLoopInt 0 hi (fun (nk : KnotVector) (i : Int) => nk.set i x) kv =
      forLoopInt 0 hi (fun (nk : KnotVector) (i : Int) => nk.set (((0 : Nat) : Int) + i) x) kv := by
  congr 1
  funext nk i
  rw [Nat.cast_zero, Int.zero_add]

/-- The knots computed by `DegreeElevate(dir, t)` before the final `GetElements()`: for a
clamped non-decreasing knot vector of order at least 1 with more control points than the
order, whose first and last knots have multiplicity exactly `Order + 1`, the new knot
vector, allocated with `NCP + NE*t` control points, is filled completely and is
non-decreasing. -/
theorem elevCore_knots (slN slO : Int → Int → Int) (size : Int) (K : KnotVector)
    (olddata newdata : List ℚ) (t : Nat)
    (hs : K.SizeOk) (hn : K.NonDecreasing) (hc : K.Clamped) (hp : 1 ≤ K.Order)
    (hpn : K.Order < K.NumOfControlPoints)
    (hfirst : K.get (K.Order : Int) ≠ K.get ((K.Order : Int) + 1))
    (hlast : K.get ((K.NumOfControlPoints : Int) - 1) ≠ K.get (K.NumOfControlPoints : Int)) :
    (elevCore slN slO size K
      (KnotVector.create (K.Order + t)
        (K.NumOfControlPoints + spansBelow K K.NumOfControlPoints * t))
      olddata newdata t).newkv.SizeOk ∧
    (elevCore slN slO size K
      (KnotVector.create (K.Order + t)
        (K.NumOfControlPoints + spansBelow K K.NumOfControlPoints * t))
      olddata newdata t).newkv.NonDecreasing := by
  have hlen : (KnotVector.create (K.Order + t)
      (K.NumOfControlPoints + spansBelow K K.NumOfControlPoints * t)).knot.length =
      K.NumOfControlPoints + spansBelow K K.NumOfControlPoints * t + K.Order + t + 1 := by
    simp only [KnotVector.create, List.length_replicate]
    omega
  have hm : ((K.NumOfControlPoints : Int) - 1 + (K.Order : Int) + 1) =
      ((K.NumOfControlPoints + K.Order : Nat) : Int) := by
    push_cast
    ring
  have hcnt : ((K.Order : Int) + (t : Int) + 1).toNat = K.Order + t + 1 := by omega
  obtain ⟨f1, f2, f3, f4⟩ := fill_spec (K.get 0) 0 ((K.Order : Int) + (t : Int) + 1)
    (KnotVector.create (K.Order + t)
      (K.NumOfControlPoints + spansBelow K K.NumOfControlPoints * t))
    (by rw [hcnt, hlen]; omega)
  rw [← fill0_eq] at f1 f2 f3 f4
  rw [hcnt] at f4
  have hE : spansBelow K (K.Order + 1) = 1 := by
    unfold spansBelow
    rw [Nat.add_sub_cancel_left]
    simp [List.range', hfirst]
  have hinit := elevLoop_final slN slO size K olddata (elevBezalfs (K.Order : Int) (t : Int)) t
    (KnotVector.create (K.Order + t)
      (K.NumOfControlPoints + spansBelow K K.NumOfControlPoints * t))
    hs hn hc hp hlast hlen
    (((K.NumOfControlPoints + K.Order : Nat) : Int) - ((K.Order : Int) + 1)).toNat
    { newkv := forLoopInt 0 ((K.Order : Int) + (t : Int) + 1)
        (fun (nk : KnotVector) (i : Int) => nk.set i (K.get 0))
        (KnotVector.create (K.Order + t)
          (K.NumOfControlPoints + spansBelow K K.NumOfControlPoints * t))
      newdata := forLoopInt 0 size (fun d l => wr d (slN 0 l) (rd olddata (slO 0 l))) newdata
      bpts := forLoopInt 0 ((K.Order : Int) + 1)
        (fun B i => forLoopInt 0 size (fun B l => B.set i l (rd olddata (slO i l))) B)
        (DenseMatrix.create ((K.Order : Int) + 1) size)
      ebpts := DenseMatrix.create ((K.Order : Int) + (t : Int) + 1) size
      nextbpts := DenseMatrix.create ((K.Order : Int) - 1) size
      alphas := List.replicate ((K.Order : Int) - 1).toNat 0
      mh := (K.Order : Int) + (t : Int)
      kind := (K.Order : Int) + (t : Int) + 1
      r := -1
      a := (K.Order : Int)
      b := (K.Order : Int) + 1
      cind := 1
      ua := K.get 0 }
    (by
      refine ⟨K.Order + 1, K.Order + t + 1, 0, ?_, ?_, ?_, by omega, by omega, ?_, ?_, ?_, ?_,
        f1, f2, f3, ?_, ?_⟩
      · show (K.Order : Int) + 1 = _
        push_cast
        rfl
      · show (K.Order : Int) = _
        push_cast
        omega
      · show (K.Order : Int) + (t : Int) + 1 = _
        push_cast
        rfl
      · show (if (K.Order : Int) = (K.Order : Int) then (0 : Nat) = 0 else _)
        rw [if_pos rfl]
      · rw [hE]
        omega
      · show K.get 0 = _
        rw [show ((K.Order + 1 : Nat) : Int) - 1 = ((K.Order : Nat) : Int) by push_cast; omega]
        exact (hc.1 K.Order (le_refl _)).symm
      · rw [show ((K.Order + 1 : Nat) : Int) - 1 = (K.Order : Int) by push_cast; omega,
          show ((K.Order + 1 : Nat) : Int) = (K.Order : Int) + 1 by push_cast; rfl]
        exact hfirst
      · intro j hj
        show rd _ _ ≤ K.get 0
        rw [f4 j, if_pos ⟨by omega, by omega⟩]
      · intro i j hij hj
        show rd _ _ ≤ rd _ _
        rw [f4 i, f4 j, if_pos (show 0 ≤ i ∧ i < 0 + (K.Order + t + 1) from ⟨by omega, by omega⟩),
          if_pos (show 0 ≤ j ∧ j < 0 + (K.Order + t + 1) from ⟨by omega, by omega⟩)])
    (le_refl _)
  have key : (elevCore slN slO size K
      (KnotVector.create (K.Order + t)
        (K.NumOfControlPoints + spansBelow K K.NumOfControlPoints * t))
      olddata newdata t).newkv = (elevLoop slN slO size K olddata
        (elevBezalfs (K.Order : Int) (t : Int)) (K.Order : Int) (t : Int)
        ((K.NumOfControlPoints : Int) - 1 + (K.Order : Int) + 1)
        (((K.NumOfControlPoints : Int) - 1 + (K.Order : Int) + 1) -
          ((K.Order : Int) + 1)).toNat _).newkv := rfl
  rw [key, hm]
  obtain ⟨h1, h2, h3, h4⟩ := hinit
  have hsz : ∀ kv : KnotVector, kv.Order = K.Order + t →
      kv.NumOfControlPoints = K.NumOfControlPoints + spansBelow K K.NumOfControlPoints * t →
      kv.knot.length =
        K.NumOfControlPoints + spansBelow K K.NumOfControlPoints * t + K.Order + t + 1 →
      kv.SizeOk := by
    intro kv a1 a2 a3
    unfold KnotVector.SizeOk
    rw [a1, a2, a3]
    omega
  exact ⟨hsz _ h1 h2 (h3.trans hlen), h4⟩

end NURBSPatch

namespace NURBSPatch

/-- On a patch with consistent extents and a valid direction, `DegreeElevate(dir, t)`
succeeds; its knot vectors are those of the parent with the one of direction `dir`
replaced by the result of the elevation loop, so that knot vector has every property `P`
that the loop guarantees whatever the control points are. -/
theorem degreeElevate_patch_ok (slice : NURBSPatch → Int → Int → Int) (p : NURBSPatch)
    (n : Nat) (t : Nat) (oldkv : KnotVector) (hd : DimsOk p)
    (hkv : p.kv[n]? = some oldkv) (P : KnotVector → Prop)
    (hP : ∀ (slN slO : Int → Int → Int) (size : Int) (olddata newdata : List ℚ),
      P (elevCore slN slO size oldkv.GetElements
        (KnotVector.create (oldkv.Order + t)
          (oldkv.NumOfControlPoints + oldkv.GetElements.NumOfElements * t))
        olddata newdata (t : Int)).newkv.GetElements) :
    ∃ q : NURBSPatch, DegreeElevate slice p (n : Int) t = .ok q ∧
      ∃ newkv : KnotVector, P newkv ∧ q.kv = p.kv.set n newkv := by
  obtain ⟨ni, nj, nk, Dim, data, kv, nd, ls, sd⟩ := p
  rcases kv with _ | ⟨k0, _ | ⟨k1, _ | ⟨k2, _ | ⟨k3, rest⟩⟩⟩⟩
  · simp [DimsOk] at hd
  · simp only [DimsOk] at hd
    obtain ⟨rfl, rfl, rfl⟩ := hd
    rcases n with _ | n
    · simp only [List.getElem?_cons_zero, Option.some.injEq] at hkv
      subst hkv
      simp [DegreeElevate, child, childKV_eq_of_nonneg, init, SetLoopDirection]
      exact hP _ _ _ _ _
    · simp at hkv
  · simp only [DimsOk] at hd
    obtain ⟨rfl, rfl, rfl⟩ := hd
    rcases n with _ | _ | n
    · simp only [List.getElem?_cons_zero, Option.some.injEq] at hkv
      subst hkv
      simp [DegreeElevate, child, childKV_eq_of_nonneg, init, SetLoopDirection,
        natCast_eq_neg_one]
      exact hP _ _ _ _ _
    · simp only [List.getElem?_cons_succ, List.getElem?_cons_zero, Option.some.injEq] at hkv
      subst hkv
      simp [DegreeElevate, child, childKV_eq_of_nonneg, init, SetLoopDirection,
        natCast_eq_neg_one]
      exact hP _ _ _ _ _
    · simp at hkv
  · simp only [DimsOk] at hd
    obtain ⟨rfl, rfl, rfl⟩ := hd
    rcases n with _ | _ | _ | n
    · simp only [List.getElem?_cons_zero, Option.some.injEq] at hkv
      subst hkv
      simp [DegreeElevate, child, childKV_eq_of_nonneg, init, SetLoopDirection,
        natCast_eq_neg_one]
      exact hP _ _ _ _ _
    · simp only [List.getElem?_cons_succ, List.getElem?_cons_zero, Option.some.injEq] at hkv
      subst hkv
      simp [DegreeElevate, child, childKV_eq_of_nonneg, init, SetLoopDirection,
        natCast_eq_neg_one]
      exact hP _ _ _ _ _
    · simp only [List.getElem?_cons_succ, List.getElem?_cons_zero, Option.some.injEq] at hkv
      subst hkv
      simp [DegreeElevate, child, childKV_eq_of_nonneg, init, SetLoopDirection,
        natCast_eq_neg_one]
      exact hP _ _ _ _ _
    · simp at hkv
  · simp [DimsOk] at hd

end NURBSPatch

namespace NURBSPatch

/-- Knot insertion keeps the knot vector valid, under the conditions of
`knotInsert_merge`. -/
theorem knotInsert_valid (slice : NURBSPatch → Int → Int → Int) (fuel : Nat)
    (p : NURBSPatch) (dir : Nat) (X : List ℚ) (oldkv : KnotVector) (hd : DimsOk p)
    (hkv : p.kv[dir]? = some oldkv) (hs : oldkv.SizeOk) (hnd : oldkv.NonDecreasing)
    (hp : 1 ≤ oldkv.Order) (hpn : oldkv.Order < oldkv.NumOfControlPoints)
    (hX : X ≠ []) (hXs : X.Pairwise (· ≤ ·))
    (hXr : ∀ x ∈ X, oldkv.get (oldkv.Order : Nat) ≤ x ∧
      x ≤ oldkv.get (oldkv.NumOfControlPoints : Nat))
    (hf : oldkv.NumOfControlPoints ≤ fuel + oldkv.Order + 1) :
    ∃ (q : NURBSPatch) (newkv : KnotVector),
      KnotInsert slice fuel p (dir : Int) X = .ok q ∧ q.kv[dir]? = some newkv ∧
      newkv.Valid := by
  obtain ⟨q, newkv, h1, _, h3, h4, h5, h6, h7, h8⟩ :=
    knotInsert_merge slice fuel p dir X oldkv hd hkv hs hnd hp hpn hX hXs hXr hf
  have hlt : dir < p.kv.length := by
    by_contra hcon
    rw [List.getElem?_eq_none (by omega)] at hkv
    exact absurd hkv (by simp)
  refine ⟨q, newkv, h1, by rw [h3, List.getElem?_set_self hlt], ?_, h6, ?_⟩
  · unfold KnotVector.SizeOk at hs ⊢
    rw [h7.length_eq, List.length_append, hs, h4, h5]
    omega
  · rw [h8]
    exact KnotVector.getElements_spanCount newkv

/-- Degree elevation of a patch keeps the knot vector valid when the order is at least 1,
there are more control points than the order, and the first and last knots of the clamped
knot vector have multiplicity exactly `Order + 1`. -/
theorem degreeElevate_patch_valid (slice : NURBSPatch → Int → Int → Int) (p : NURBSPatch)
    (dir : Nat) (t : Nat) (oldkv : KnotVector) (hd : DimsOk p)
    (hkv : p.kv[dir]? = some oldkv) (hs : oldkv.SizeOk) (hnd : oldkv.NonDecreasing)
    (hc : oldkv.Clamped) (hp : 1 ≤ oldkv.Order)
    (hpn : oldkv.Order < oldkv.NumOfControlPoints)
    (hfirst : oldkv.get (oldkv.Order : Int) ≠ oldkv.get ((oldkv.Order : Int) + 1))
    (hlast : oldkv.get ((oldkv.NumOfControlPoints : Int) - 1) ≠
      oldkv.get (oldkv.NumOfControlPoints : Int)) :
    ∃ (q : NURBSPatch) (newkv : KnotVector),
      DegreeElevate slice p (dir : Int) t = .ok q ∧ q.kv[dir]? = some newkv ∧
      newkv.Valid := by
  have hlt : dir < p.kv.length := by
    by_contra hcon
    rw [List.getElem?_eq_none (by omega)] at hkv
    exact absurd hkv (by simp)
  have hne : oldkv.GetElements.NumOfElements =
      spansBelow oldkv.GetElements oldkv.GetElements.NumOfControlPoints :=
    KnotVector.getElements_spanCount oldkv
  obtain ⟨q, h1, newkv, h2, h3⟩ := degreeElevate_patch_ok slice p dir t oldkv hd hkv
    KnotVector.Valid (by
      intro slN slO size olddata newdata
      rw [hne]
      obtain ⟨a1, a2⟩ := elevCore_knots slN slO size oldkv.GetElements olddata newdata t
        hs hnd hc hp hpn hfirst hlast
      exact KnotVector.getElements_valid _ a1 a2)
  exact ⟨q, newkv, h1, by rw [h3, List.getElem?_set_self hlt], h2⟩

end NURBSPatch

/-- C26 (as claimed, refuted): three operations leave the class invariant on clamped
non-decreasing input.  (1) `KnotInsert` of the knots `[1,5]` into the knots `[0,2,4,6]`
of order 0 gives `[0,1,2,5,4,6]`, which is not non-decreasing.  (2) `DegreeElevate(0, 1)`
on the knots `[0,0,1,1,1]` of order 1, whose last knot has multiplicity 3, gives the seven
knots `[0,0,0,1,1,1,-1]`: the last entry is never written.  (3) `Flip` on the knots
`[0,0,1,1]` assigned to `KnotVector(1, 2)` before any `GetElements()` keeps the stored
`NumOfElements = 0` although there is one non-empty span. -/
theorem knotVector_invariant_counterexample :
    (NURBSPatch.DimsOk NURBSPatch.exOrderZero ∧
      (∀ k ∈ NURBSPatch.exOrderZero.kv, k.Valid ∧ k.Clamped) ∧
      ∃ q, NURBSPatch.KnotInsert NURBSPatch.slice 3 NURBSPatch.exOrderZero 0 [1, 5] = .ok q ∧
        q.kv.map (fun k => k.knot) = [[0, 1, 2, 5, 4, 6]] ∧
        ¬ ∀ k ∈ q.kv, k.NonDecreasing) ∧
    (NURBSPatch.DimsOk NURBSPatch.exEndDouble ∧
      (∀ k ∈ NURBSPatch.exEndDouble.kv, k.Valid ∧ k.Clamped) ∧
      ∃ q, NURBSPatch.DegreeElevate NURBSPatch.slice NURBSPatch.exEndDouble 0 1 = .ok q ∧
        q.kv.map (fun k => k.knot) = [[0, 0, 0, 1, 1, 1, -1]] ∧
        ¬ ∀ k ∈ q.kv, k.NonDecreasing) ∧
    (KnotVector.exStale.SizeOk ∧ KnotVector.exStale.NonDecreasing ∧
      KnotVector.exStale.Clamped ∧ KnotVector.exStale.Flip.NumOfElements = 0 ∧
      KnotVector.exStale.Flip.spanCount = 1) :=
  ⟨⟨⟨rfl, rfl, rfl⟩, by decide, _, rfl, by with_unfolding_all rfl,
      by with_unfolding_all decide⟩,
    ⟨⟨rfl, rfl, rfl⟩, by decide, _, rfl, by with_unfolding_all rfl,
      by with_unfolding_all decide⟩,
    ⟨by decide, by decide, by decide, by with_unfolding_all decide,
      by with_unfolding_all decide⟩⟩

/-- C26 (amended): every operation that produces or changes the knots of a knot vector
yields a valid one (`NCP + Order + 1` knots, non-decreasing, stored `NumOfElements` equal
to the number of `i` in `[Order, NCP)` with `knot(i) ≠ knot(i+1)`) on non-decreasing
input, under these conditions: the stream constructor on a stream with `NCP + Order + 1`
non-decreasing knots; `KnotVector::DegreeElevate(t)` for `t ≥ 0`; `KnotVector::Flip` on a
clamped knot vector whose stored `NumOfElements` is already consistent;
`NURBSPatch::KnotInsert` for order at least 1, more control points than the order and a
non-empty non-decreasing list of new knots in `[knot(Order), knot(NCP)]` (with
`findKnotSpan` allowed enough iterations); `NURBSPatch::DegreeElevate(dir, t)` for a
clamped knot vector of order at least 1 with more control points than the order whose
first and last knots have multiplicity exactly `Order + 1`; the knot vector built in
`Interpolate`; and the knot vector built in `Revolve3D` for every `times ≥ 0`. -/
theorem knotVector_invariant (slice : NURBSPatch → Int → Int → Int) :
    (∀ (Order_ NCP : Nat) (input : List ℚ), NCP + Order_ + 1 ≤ input.length →
      (input.take (NCP + Order_ + 1)).Pairwise (· ≤ ·) →
      (KnotVector.ofStream Order_ NCP input).Valid) ∧
    (∀ (kv : KnotVector) (t : Nat), kv.SizeOk → kv.NonDecreasing →
      ∃ r, kv.DegreeElevate (t : Int) = .ok r ∧ r.Valid) ∧
    (∀ kv : KnotVector, kv.Valid → kv.Clamped → kv.Flip.Valid) ∧
    (∀ (fuel : Nat) (p : NURBSPatch) (dir : Nat) (X : List ℚ) (oldkv : KnotVector),
      NURBSPatch.DimsOk p → p.kv[dir]? = some oldkv → oldkv.SizeOk → oldkv.NonDecreasing →
      1 ≤ oldkv.Order → oldkv.Order < oldkv.NumOfControlPoints →
      X ≠ [] → X.Pairwise (· ≤ ·) →
      (∀ x ∈ X, oldkv.get (oldkv.Order : Nat) ≤ x ∧
        x ≤ oldkv.get (oldkv.NumOfControlPoints : Nat)) →
      oldkv.NumOfControlPoints ≤ fuel + oldkv.Order + 1 →
      ∃ (q : NURBSPatch) (newkv : KnotVector),
        NURBSPatch.KnotInsert slice fuel p (dir : Int) X = .ok q ∧
        q.kv[dir]? = some newkv ∧ newkv.Valid) ∧
    (∀ (p : NURBSPatch) (dir : Nat) (t : Nat) (oldkv : KnotVector),
      NURBSPatch.DimsOk p → p.kv[dir]? = some oldkv → oldkv.SizeOk → oldkv.NonDecreasing →
      oldkv.Clamped → 1 ≤ oldkv.Order → oldkv.Order < oldkv.NumOfControlPoints →
      oldkv.get (oldkv.Order : Int) ≠ oldkv.get ((oldkv.Order : Int) + 1) →
      oldkv.get ((oldkv.NumOfControlPoints : Int) - 1) ≠
        oldkv.get (oldkv.NumOfControlPoints : Int) →
      ∃ (q : NURBSPatch) (newkv : KnotVector),
        NURBSPatch.DegreeElevate slice p (dir : Int) t = .ok q ∧
        q.kv[dir]? = some newkv ∧ newkv.Valid) ∧
    interpolateKV.Valid ∧
    (∀ times : Nat, (revolveKV times).Valid) :=
  ⟨fun Order_ NCP input hlen hnd => (KnotVector.ofStream_valid Order_ NCP input hlen hnd).1,
    fun kv t hs hn => KnotVector.degreeElevate_valid kv t hs hn,
    fun kv hv hc => KnotVector.flip_valid kv hv hc,
    fun fuel p dir X oldkv hd hkv hs hnd hp hpn hX hXs hXr hf =>
      NURBSPatch.knotInsert_valid slice fuel p dir X oldkv hd hkv hs hnd hp hpn hX hXs hXr hf,
    fun p dir t oldkv hd hkv hs hnd hc hp hpn hfirst hlast =>
      NURBSPatch.degreeElevate_patch_valid slice p dir t oldkv hd hkv hs hnd hc hp hpn hfirst
        hlast,
    interpolateKV_valid, revolveKV_valid⟩

/-- Instance of `knotVector_invariant`: the stream `1 2 0 0 2 2`, degree elevation by one
and `Flip` of the knots `[0,0,2,2]`, insertion of the knot `1` and degree elevation by
one of the segment on these knots. -/
theorem knotVector_invariant_witness :
    (KnotVector.ofStream 1 2 [0, 0, 2, 2]).Valid ∧
    (∃ r, KnotVector.exUnit.DegreeElevate ((1 : Nat) : Int) = .ok r ∧ r.Valid) ∧
    KnotVector.exUnit.Flip.Valid ∧
    (∃ (q : NURBSPatch) (newkv : KnotVector),
      NURBSPatch.KnotInsert NURBSPatch.slice 0 NURBSPatch.exSegment ((0 : Nat) : Int) [1] = .ok q ∧
      q.kv[0]? = some newkv ∧ newkv.Valid) ∧
    (∃ (q : NURBSPatch) (newkv : KnotVector),
      NURBSPatch.DegreeElevate NURBSPatch.slice NURBSPatch.exSegment ((0 : Nat) : Int) 1 = .ok q ∧
      q.kv[0]? = some newkv ∧ newkv.Valid) :=
  ⟨(knotVector_invariant NURBSPatch.slice).1 1 2 [0, 0, 2, 2] (by decide) (by decide),
    (knotVector_invariant NURBSPatch.slice).2.1 KnotVector.exUnit 1 (by decide) (by decide),
    (knotVector_invariant NURBSPatch.slice).2.2.1 KnotVector.exUnit (by decide) (by decide),
    (knotVector_invariant NURBSPatch.slice).2.2.2.1 0 NURBSPatch.exSegment 0 [1]
      KnotVector.exUnit ⟨rfl, rfl, rfl⟩ rfl (by decide) (by decide) (by decide) (by decide)
      (by decide) (by decide) (by decide) (by decide),
    (knotVector_invariant NURBSPatch.slice).2.2.2.2.1 NURBSPatch.exSegment 0 1
      KnotVector.exUnit ⟨rfl, rfl, rfl⟩ rfl (by decide) (by decide) (by decide) (by decide)
      (by decide) (by decide) (by decide)⟩

namespace KnotVector

/-- C32: for every knot vector (with `NCP + Order + 1` knots), `Flip` is an involution in
exact arithmetic, `Flip` applied twice gives the knot vector back, and a single `Flip`
leaves `Order`, `NumOfControlPoints`, the number of knots, the first `Order + 1` knots and
the last `Order + 1` knots unchanged. -/
theorem flip_involution (kv : KnotVector) (hs : kv.SizeOk) :
    kv.Flip.Flip = kv ∧
    (∀ j : Nat, j < kv.knot.length → kv.Flip.Flip.get (j : Int) = kv.get (j : Int)) ∧
    kv.Flip.Order = kv.Order ∧ kv.Flip.NumOfControlPoints = kv.NumOfControlPoints ∧
    kv.Flip.knot.length = kv.knot.length ∧
    (∀ j : Nat, j ≤ kv.Order → kv.Flip.get (j : Int) = kv.get (j : Int)) ∧
    (∀ j : Nat, j ≤ kv.Order →
      kv.Flip.get ((kv.NumOfControlPoints + j : Nat) : Int) =
        kv.get ((kv.NumOfControlPoints + j : Nat) : Int)) := by
  unfold SizeOk at hs
  have hff := flip_flip kv (by omega)
  obtain ⟨hO, hN, _, hL, hK⟩ := flip_knots kv (by omega)
  refine ⟨hff, fun j _ => by rw [hff], hO, hN, hL, fun j hj => ?_, fun j _ => ?_⟩
  · rw [hK j, if_neg (by omega)]
  · rw [hK (kv.NumOfControlPoints + j), if_neg (by omega)]

/-- Instance of `flip_involution` at the knots `[0,0,0,1,2,2,3,3,3]` of order 2. -/
theorem flip_involution_witness :
    exQuadratic.Flip.Flip = exQuadratic ∧
    (∀ j : Nat, j < exQuadratic.knot.length →
      exQuadratic.Flip.Flip.get (j : Int) = exQuadratic.get (j : Int)) ∧
    exQuadratic.Flip.Order = exQuadratic.Order ∧
    exQuadratic.Flip.NumOfControlPoints = exQuadratic.NumOfControlPoints ∧
    exQuadratic.Flip.knot.length = exQuadratic.knot.length ∧
    (∀ j : Nat, j ≤ exQuadratic.Order → exQuadratic.Flip.get (j : Int) = exQuadratic.get (j : Int)) ∧
    (∀ j : Nat, j ≤ exQuadratic.Order →
      exQuadratic.Flip.get ((exQuadratic.NumOfControlPoints + j : Nat) : Int) =
        exQuadratic.get ((exQuadratic.NumOfControlPoints + j : Nat) : Int)) :=
  flip_involution exQuadratic (by decide)

end KnotVector

namespace KnotVector

/-- On a clamped knot vector the knots of `DegreeElevate(t)` are the old knots shifted by
`t` on the whole range `[Order + t, NCP + t]`. -/
theorem elevatedKnots_shift (kv : KnotVector) (t : Nat) (hs : kv.SizeOk) (hc : kv.Clamped)
    (hon : kv.Order < kv.NumOfControlPoints) (i : Nat) (h1 : kv.Order ≤ i)
    (h2 : i ≤ kv.NumOfControlPoints) :
    rd (elevatedKnots kv t) ((i + t : Nat) : Int) = kv.get (i : Int) := by
  unfold SizeOk at hs
  by_cases ha : i = kv.Order
  · rw [elevatedKnots_first kv t (i + t) (by omega) (by omega), ha]
    exact (hc.1 kv.Order (le_refl _)).symm
  · by_cases hb : i = kv.NumOfControlPoints
    · rw [elevatedKnots_last kv t (i + t) (by omega) (by omega), hb, hs]
      have e := hc.2 0 (Nat.zero_le _)
      rw [Nat.add_zero] at e
      rw [e]
      congr 1
      omega
    · rw [elevatedKnots_mid kv t (i + t) (by omega) (by omega)]
      congr 1
      omega

/-- `DegreeElevate(t)` keeps the number of non-empty spans of a clamped knot vector. -/
theorem degreeElevate_spanCount (kv : KnotVector) (t : Nat) (hs : kv.SizeOk)
    (hc : kv.Clamped) :
    spanCount { knot := elevatedKnots kv t, Order := kv.Order + t,
                NumOfControlPoints := kv.NumOfControlPoints + t, NumOfElements := 0 } =
      kv.spanCount := by
  unfold spanCount
  dsimp only
  by_cases hon : kv.Order < kv.NumOfControlPoints
  · have e : List.range' (kv.Order + t) (kv.NumOfControlPoints + t - (kv.Order + t)) =
        (List.range' kv.Order (kv.NumOfControlPoints - kv.Order)).map (fun (i : Nat) => i + t) := by
      rw [show kv.NumOfControlPoints + t - (kv.Order + t) = kv.NumOfControlPoints - kv.Order
        by omega]
      apply List.ext_getElem
      · simp
      · intro n h1 h2
        simp only [List.getElem_map, List.getElem_range']
        omega
    rw [e, List.countP_map]
    apply List.countP_congr
    intro i hi
    rw [List.mem_range'_1] at hi
    have a1 := elevatedKnots_shift kv t hs hc hon i (by omega) (by omega)
    have a2 := elevatedKnots_shift kv t hs hc hon (i + 1) (by omega) (by omega)
    simp only [Function.comp, decide_eq_true_eq, get]
    rw [show (((i + t : Nat) : Int) + 1) = ((i + 1 + t : Nat) : Int) by push_cast; omega, a1, a2]
    unfold get
    rw [show ((i + 1 : Nat) : Int) = (i : Int) + 1 by push_cast; rfl]
  · rw [show kv.NumOfControlPoints + t - (kv.Order + t) = 0 by omega,
      show kv.NumOfControlPoints - kv.Order = 0 by omega]
    rfl

/-- With `t = 0` the knots of `DegreeElevate(t)` on a clamped knot vector are the old
ones. -/
theorem elevatedKnots_zero (kv : KnotVector) (hs : kv.SizeOk) (hc : kv.Clamped) :
    elevatedKnots kv 0 = kv.knot := by
  have hsz := hs
  unfold SizeOk at hsz
  apply list_ext_rd
  · rw [length_elevatedKnots, hsz]
  · intro i hi
    rw [length_elevatedKnots] at hi
    by_cases hb : kv.NumOfControlPoints ≤ i
    · rw [elevatedKnots_last kv 0 i (by omega) (by omega), hsz]
      have e := hc.2 (i - kv.NumOfControlPoints) (by omega)
      rw [show kv.NumOfControlPoints + (i - kv.NumOfControlPoints) = i by omega] at e
      unfold get at e
      unfold get
      rw [e]
      congr 1
      omega
    · by_cases ha : i ≤ kv.Order
      · rw [elevatedKnots_first kv 0 i (by omega) (by omega)]
        exact (hc.1 i ha).symm
      · rw [elevatedKnots_mid kv 0 i (by omega) (by omega)]
        unfold get
        congr 1

/-- C33: for every clamped non-decreasing knot vector `kv` (with `NCP + Order + 1` knots
and a stored `NumOfElements` equal to its number of non-empty spans) and every `t ≥ 0`,
`DegreeElevate(t)` returns a non-decreasing knot vector with the same `NumOfElements` as
`kv`; for `t = 0` the result has the same order, control-point count and knots as `kv`;
for `t < 0` the call fails with a fatal error. -/
theorem degreeElevate_elements (kv : KnotVector) (hv : kv.Valid) (hc : kv.Clamped) :
    (∀ t : Nat, ∃ r, kv.DegreeElevate (t : Int) = .ok r ∧ r.NonDecreasing ∧
      r.NumOfElements = kv.NumOfElements) ∧
    (∃ r, kv.DegreeElevate 0 = .ok r ∧ r.Order = kv.Order ∧
      r.NumOfControlPoints = kv.NumOfControlPoints ∧ r.knot = kv.knot ∧ r = kv) ∧
    (∀ t : Int, t < 0 → kv.DegreeElevate t = .error .fatal) := by
  obtain ⟨hs, hn, hne⟩ := hv
  refine ⟨fun t => ?_, ?_, fun t ht => ?_⟩
  · obtain ⟨r, h1, h2⟩ := degreeElevate_valid kv t hs hn
    refine ⟨r, h1, h2.2.1, ?_⟩
    rw [DegreeElevate_eq] at h1
    cases h1
    rw [getElements_spanCount]
    exact (degreeElevate_spanCount kv t hs hc).trans hne.symm
  · have h0 := DegreeElevate_eq kv 0
    have hk := elevatedKnots_zero kv hs hc
    have hcount := degreeElevate_spanCount kv 0 hs hc
    refine ⟨_, h0, rfl, rfl, hk, ?_⟩
    apply kv_ext
    · exact hk
    · rfl
    · rfl
    · rw [getElements_spanCount]
      exact hcount.trans hne.symm
  · unfold DegreeElevate
    rw [if_pos ht]

/-- Instance of `degreeElevate_elements` at the knots `[0,0,0,1,2,2,3,3,3]` of order 2. -/
theorem degreeElevate_elements_witness :
    (∀ t : Nat, ∃ r, exQuadratic.DegreeElevate (t : Int) = .ok r ∧ r.NonDecreasing ∧
      r.NumOfElements = exQuadratic.NumOfElements) ∧
    (∃ r, exQuadratic.DegreeElevate 0 = .ok r ∧ r.Order = exQuadratic.Order ∧
      r.NumOfControlPoints = exQuadratic.NumOfControlPoints ∧ r.knot = exQuadratic.knot ∧
      r = exQuadratic) ∧
    (∀ t : Int, t < 0 → exQuadratic.DegreeElevate t = .error .fatal) :=
  degreeElevate_elements exQuadratic (by decide) (by decide)

end KnotVector

namespace NURBSPatch

/-- C37: for every 1D, 2D or 3D patch (extents `ni, nj, nk` as `init` derives them from the
knot vectors) and every valid direction `dir`, `SetLoopDirection(dir)` returns `ls` and
sets `sd`, `nd`, `ls` such that `nd * ls` is the size of the control-point buffer (the
product of the NCPs times `Dim`), `nd` is the NCP of direction `dir` and `sd` is `Dim`
times the product of the NCPs of the directions before `dir`, leaving every other field;
for every other `dir` it fails with a fatal error. -/
theorem setLoopDirection_spec (p : NURBSPatch) (hd : p.DimsOk) :
    (∀ dir : Nat, dir < p.kv.length →
      ∃ (q : NURBSPatch) (ls : Int), SetLoopDirection p (dir : Int) = .ok (q, ls) ∧
        q.ls = ls ∧
        q.nd * ls = (p.kv.map (fun k => (k.NumOfControlPoints : Int))).prod * p.Dim ∧
        q.nd = ((p.kv.getD dir (KnotVector.create 0 0)).NumOfControlPoints : Int) ∧
        q.sd = p.Dim * ((p.kv.take dir).map (fun k => (k.NumOfControlPoints : Int))).prod ∧
        q = { p with sd := q.sd, nd := q.nd, ls := q.ls }) ∧
    (∀ dir : Int, dir < 0 ∨ (p.kv.length : Int) ≤ dir →
      SetLoopDirection p dir = .error .fatal) := by
  obtain ⟨ni, nj, nk, Dim, data, kv, nd, ls, sd⟩ := p
  rcases kv with _ | ⟨k0, _ | ⟨k1, _ | ⟨k2, _ | ⟨k3, rest⟩⟩⟩⟩
  · simp [DimsOk] at hd
  · simp only [DimsOk] at hd
    obtain ⟨rfl, rfl, rfl⟩ := hd
    constructor
    · intro dir hdir
      have h0 : dir = 0 := by simpa using hdir
      subst h0
      refine ⟨_, _, by simp [SetLoopDirection]; exact ⟨rfl, rfl⟩, rfl, ?_, ?_, ?_, rfl⟩
      · simp [KnotVector.GetNCP]
      · simp [KnotVector.GetNCP]
      · simp
    · intro dir hdir
      have hne : dir ≠ 0 := by
        rcases hdir with h | h
        · omega
        · simp at h; omega
      simp [SetLoopDirection, hne]
  · simp only [DimsOk] at hd
    obtain ⟨rfl, rfl, rfl⟩ := hd
    constructor
    · intro dir hdir
      have hdir' : dir = 0 ∨ dir = 1 := by simp at hdir; omega
      rcases hdir' with rfl | rfl
      · refine ⟨_, _, by simp [SetLoopDirection, natCast_eq_neg_one]; exact ⟨rfl, rfl⟩, rfl,
          ?_, ?_, ?_, rfl⟩
        · simp [KnotVector.GetNCP]; ring
        · simp [KnotVector.GetNCP]
        · simp
      · refine ⟨_, _, by simp [SetLoopDirection, natCast_eq_neg_one]; exact ⟨rfl, rfl⟩, rfl,
          ?_, ?_, ?_, rfl⟩
        · simp [KnotVector.GetNCP]; ring
        · simp [KnotVector.GetNCP]
        · simp [KnotVector.GetNCP]; ring
    · intro dir hdir
      have h0 : dir ≠ 0 := by
        rcases hdir with h | h
        · omega
        · simp at h; omega
      have h1 : dir ≠ 1 := by
        rcases hdir with h | h
        · omega
        · simp at h; omega
      simp [SetLoopDirection, natCast_eq_neg_one, h0, h1]
  · simp only [DimsOk] at hd
    obtain ⟨rfl, rfl, rfl⟩ := hd
    constructor
    · intro dir hdir
      have hdir' : dir = 0 ∨ dir = 1 ∨ dir = 2 := by simp at hdir; omega
      rcases hdir' with rfl | rfl | rfl
      · refine ⟨_, _, by simp [SetLoopDirection, natCast_eq_neg_one]; exact ⟨rfl, rfl⟩, rfl,
          ?_, ?_, ?_, rfl⟩
        · simp [KnotVector.GetNCP]; ring
        · simp [KnotVector.GetNCP]
        · simp
      · refine ⟨_, _, by simp [SetLoopDirection, natCast_eq_neg_one]; exact ⟨rfl, rfl⟩, rfl,
          ?_, ?_, ?_, rfl⟩
        · simp [KnotVector.GetNCP]; ring
        · simp [KnotVector.GetNCP]
        · simp [KnotVector.GetNCP]; ring
      · refine ⟨_, _, by simp [SetLoopDirection, natCast_eq_neg_one]; exact ⟨rfl, rfl⟩, rfl,
          ?_, ?_, ?_, rfl⟩
        · simp [KnotVector.GetNCP]; ring
        · simp [KnotVector.GetNCP]
        · simp [KnotVector.GetNCP]; ring
    · intro dir hdir
      have h0 : dir ≠ 0 := by
        rcases hdir with h | h
        · omega
        · simp at h; omega
      have h1 : dir ≠ 1 := by
        rcases hdir with h | h
        · omega
        · simp at h; omega
      have h2 : dir ≠ 2 := by
        rcases hdir with h | h
        · omega
        · simp at h; omega
      simp [SetLoopDirection, natCast_eq_neg_one, h0, h1, h2]
  · simp [DimsOk] at hd

/-- Instance of `setLoopDirection_spec` on the `2 x 3` grid of control points, direction
`1`. -/
theorem setLoopDirection_spec_witness :
    (∀ dir : Nat, dir < exGrid.kv.length →
      ∃ (q : NURBSPatch) (ls : Int), SetLoopDirection exGrid (dir : Int) = .ok (q, ls) ∧
        q.ls = ls ∧
        q.nd * ls = (exGrid.kv.map (fun k => (k.NumOfControlPoints : Int))).prod * exGrid.Dim ∧
        q.nd = ((exGrid.kv.getD dir (KnotVector.create 0 0)).NumOfControlPoints : Int) ∧
        q.sd = exGrid.Dim *
          ((exGrid.kv.take dir).map (fun k => (k.NumOfControlPoints : Int))).prod ∧
        q = { exGrid with sd := q.sd, nd := q.nd, ls := q.ls }) ∧
    (∀ dir : Int, dir < 0 ∨ (exGrid.kv.length : Int) ≤ dir →
      SetLoopDirection exGrid dir = .error .fatal) :=
  setLoopDirection_spec exGrid (by decide)

end NURBSPatch

namespace KnotVector

/-- C36 (as claimed, refuted): `Difference` leaves its arrays on pairs of knot vectors of
the same order.  For `[0,0,1,2,2]` and `[0,0,3/2,2,2]`, of equal length, `diff` has length
`0` and the first knot that differs is written to `diff(0)`, in both orders of the
arguments; for `[0,0,2,2]` and `[0,0,2,2,2]` all four knots of the shorter vector are
matched and the last iteration reads its knot `4`. -/
theorem difference_unsafe :
    (exTwoElements.Order = NURBSExtension.exKVMoved.Order ∧
      exTwoElements.Size = NURBSExtension.exKVMoved.Size ∧
      exTwoElements.Difference NURBSExtension.exKVMoved = .error .outOfBounds ∧
      NURBSExtension.exKVMoved.Difference exTwoElements = .error .outOfBounds) ∧
    (exUnit.Order = exEndTriple.Order ∧ exUnit.Size = 4 ∧ exEndTriple.Size = 5 ∧
      exUnit.Difference exEndTriple = .error .outOfBounds ∧
      exEndTriple.Difference exUnit = .error .outOfBounds) :=
  ⟨⟨rfl, rfl, by with_unfolding_all rfl, by with_unfolding_all rfl⟩,
    ⟨rfl, rfl, rfl, by with_unfolding_all rfl, by with_unfolding_all rfl⟩⟩

/-- C36 (amended): for knot vectors `a` and `b` of the same order, both non-decreasing,
where the knots of `b` are the knots of `a` plus additional knots `d` (in non-decreasing
order), no knot of `b` lies within `2 * epsilon` of a different knot of `a` and every
additional knot lies strictly below the last knot of `a`: `a.Difference(b, diff)` and
`b.Difference(a, diff)` both return, with every read of the shorter knot vector and every
write of `diff` within bounds, the same vector `d`, whose length is
`|b.Size() - a.Size()|`; and for knot vectors of different order both calls fail with a
fatal error. -/
theorem difference_symmetric (a b : KnotVector) :
    (∀ d : List ℚ, a.Order = b.Order → a.NonDecreasing → b.NonDecreasing →
      d.Pairwise (· ≤ ·) → b.knot.Perm (a.knot ++ d) →
      (∀ x ∈ a.knot, ∀ y ∈ b.knot, |x - y| < 2 * epsilon → x = y) →
      (∀ y ∈ d, y < a.get ((a.knot.length : Int) - 1)) → a.knot ≠ [] →
      a.Difference b = .ok d ∧ b.Difference a = .ok d ∧
        (d.length : Int) = |(b.Size : Int) - (a.Size : Int)|) ∧
    (a.Order ≠ b.Order →
      a.Difference b = .error .fatal ∧ b.Difference a = .error .fatal) := by
  constructor
  · intro d ho ha hb hd hperm hsep hlast hne
    have h1 := Difference_eq a b d ho ha hb hd hperm hsep hlast hne
    have hlen : b.knot.length = a.knot.length + d.length := by
      rw [hperm.length_eq, List.length_append]
    refine ⟨h1, ?_, ?_⟩
    · by_cases hd0 : d = []
      · subst hd0
        rw [List.append_nil] at hperm
        refine Difference_eq b a [] ho.symm hb ha List.Pairwise.nil
          (by rw [List.append_nil]; exact hperm.symm)
          (fun x hx y hy h => (hsep y hy x hx (by rw [abs_sub_comm]; exact h)).symm)
          (fun y hy => absurd hy (List.not_mem_nil _)) ?_
        intro hb0
        rw [hb0] at hperm
        exact hne (List.perm_nil.mp hperm.symm)
      · have hpos : 0 < d.length := List.length_pos.mpr hd0
        have e1 : a.Difference b = DifferenceLoop a b := by
          unfold Difference
          rw [if_neg (by simp [GetOrder, ho]), if_neg (by simp only [Size]; omega)]
        have e2 : b.Difference a = DifferenceLoop a b := by
          unfold Difference
          rw [if_neg (by simp [GetOrder, ho]), if_pos (by simp only [Size]; omega)]
        rw [e2, ← e1]
        exact h1
    · simp only [Size]
      rw [abs_of_nonneg (by omega)]
      omega
  · intro ho
    constructor
    · unfold Difference
      rw [if_pos (by simpa [GetOrder] using ho)]
    · unfold Difference
      rw [if_pos (by simpa [GetOrder] using (Ne.symm ho))]

/-- Instance of `difference_symmetric`: the knots `[0,0,1,2,2]` refine `[0,0,2,2]` by the
knot `1`. -/
theorem difference_symmetric_witness :
    exUnit.Difference exUnitRefined = .ok [1] ∧ exUnitRefined.Difference exUnit = .ok [1] ∧
      (([1] : List ℚ).length : Int) = |(exUnitRefined.Size : Int) - (exUnit.Size : Int)| :=
  (difference_symmetric exUnit exUnitRefined).1 [1] rfl (by decide) (by decide) (by decide)
    (by decide) (by decide!) (by decide) (by decide)

end KnotVector

namespace NURBSExtension

/-- An assignment `d_to_d[a] = d_to_d[b]` that stays within the array keeps its length and
stores a value that the array already holds. -/
theorem connectDofs_inv (N : Nat) (d d1 : List Int) (a b : Int)
    (hI : d.length = N ∧ ∀ v ∈ d, 0 ≤ v ∧ v < (N : Int))
    (h : connectDofs d a b = .ok d1) :
    d1.length = N ∧ ∀ v ∈ d1, 0 ≤ v ∧ v < (N : Int) := by
  unfold connectDofs rdIChk at h
  by_cases hb : 0 ≤ b ∧ b.toNat < d.length
  · rw [if_pos hb] at h
    dsimp only at h
    unfold wrIChk at h
    by_cases ha : 0 ≤ a ∧ a.toNat < d.length
    · rw [if_pos ha] at h
      cases h
      refine ⟨by rw [List.length_set]; exact hI.1, fun v hv => ?_⟩
      rcases List.mem_or_eq_of_mem_set hv with h1 | h1
      · exact hI.2 v h1
      · rw [h1, List.getD_eq_getElem d 0 hb.2]
        exact hI.2 _ (List.getElem_mem _)
    · rw [if_neg ha] at h
      cases h
  · rw [if_neg hb] at h
    cases h

theorem forLoopIntM_inv {σ : Type} (lo hi : Int) (body : σ → Int → Except Fault σ)
    (I : σ → Prop) (hI : ∀ s i s', I s → body s i = .ok s' → I s') (st st' : σ) (hst : I st)
    (h : forLoopIntM lo hi body st = .ok st') : I st' := by
  unfold forLoopIntM at h
  exact forCountM_inv _ I (fun s i s' h1 h2 => hI s _ s' h1 h2) _ _ st st' hst h

/-- The loop `// Connect` of `ConnectBoundaries`, whenever it returns, leaves an array of
the same length whose values are values of the array it started from. -/
theorem connectAll_inv (debug : Bool) (ops : PatchMapOps) (ext : NURBSExtension) (N : Nat)
    (d d1 : List Int) (hI : d.length = N ∧ ∀ v ∈ d, 0 ≤ v ∧ v < (N : Int))
    (h : connectAll debug ops ext d = .ok d1) :
    d1.length = N ∧ ∀ v ∈ d1, 0 ≤ v ∧ v < (N : Int) := by
  unfold connectAll forLoopM at h
  refine forCountM_inv _ (fun d => d.length = N ∧ ∀ v ∈ d, 0 ≤ v ∧ v < (N : Int)) ?_ _ _ d d1
    hI h
  intro s i s' hs hb
  dsimp only at hb
  by_cases c0 : ext.findBdr (rdI ext.master (i : Int)) = -1
  · rw [if_pos c0] at hb
    cases hb
  rw [if_neg c0] at hb
  by_cases c1 : ext.findBdr (rdI ext.slave (i : Int)) = -1
  · rw [if_pos c1] at hb
    cases hb
  rw [if_neg c1] at hb
  by_cases h1 : ext.Dimension = 1
  · rw [if_pos h1] at hb
    unfold ConnectBoundaries1D at hb
    exact connectDofs_inv N s s' _ _ hs hb
  rw [if_neg h1] at hb
  by_cases h2 : ext.Dimension = 2
  · rw [if_pos h2] at hb
    unfold ConnectBoundaries2D at hb
    dsimp only at hb
    split at hb
    · cases hb
    · refine forLoopIntM_inv _ _ _ (fun d => d.length = N ∧ ∀ v ∈ d, 0 ≤ v ∧ v < (N : Int)) ?_
        s s' hs hb
      intro t j t' ht hj
      try dsimp only at hj
      split at hj
      · split at hj
        · cases hj
        · refine forLoopIntM_inv _ _ _
            (fun d => d.length = N ∧ ∀ v ∈ d, 0 ≤ v ∧ v < (N : Int)) ?_ t t' ht hj
          intro w k w' hw hk
          exact connectDofs_inv N w w' _ _ hw hk
      · cases hj
        exact ht
  · rw [if_neg h2] at hb
    unfold ConnectBoundaries3D at hb
    dsimp only at hb
    split at hb
    · cases hb
    · refine forLoopIntM_inv _ _ _ (fun d => d.length = N ∧ ∀ v ∈ d, 0 ≤ v ∧ v < (N : Int)) ?_
        s s' hs hb
      intro t j t' ht hj
      try dsimp only at hj
      split at hj
      · split at hj
        · cases hj
        · refine forLoopIntM_inv _ _ _
            (fun d => d.length = N ∧ ∀ v ∈ d, 0 ≤ v ∧ v < (N : Int)) ?_ t t' ht hj
          intro t2 j2 t2' ht2 hj2
          try dsimp only at hj2
          split at hj2
          · split at hj2
            · cases hj2
            · refine forLoopIntM_inv _ _ _
                (fun d => d.length = N ∧ ∀ v ∈ d, 0 ≤ v ∧ v < (N : Int)) ?_ t2 t2' ht2 hj2
              intro t3 j3 t3' ht3 hj3
              refine forLoopIntM_inv _ _ _
                (fun d => d.length = N ∧ ∀ v ∈ d, 0 ≤ v ∧ v < (N : Int)) ?_ t3 t3' ht3 hj3
              intro w k w' hw hk
              exact connectDofs_inv N w w' _ _ hw hk
          · cases hj2
            exact ht2
      · cases hj
        exact ht

/-- The number of values of `d` below `v`. -/
theorem rank_succ (d : List Int) (n : Nat) :
    (List.range (n + 1)).countP (fun (u : Nat) => decide ((u : Int) ∈ d)) =
      (List.range n).countP (fun (u : Nat) => decide ((u : Int) ∈ d)) +
        (if (n : Int) ∈ d then 1 else 0) := by
  rw [List.range_succ, List.countP_append]
  by_cases h : (n : Int) ∈ d
  · simp [h]
  · simp [h]

theorem rank_mono (d : List Int) (a : Nat) : ∀ b : Nat, a ≤ b →
    (List.range a).countP (fun (u : Nat) => decide ((u : Int) ∈ d)) ≤
      (List.range b).countP (fun (u : Nat) => decide ((u : Int) ∈ d)) := by
  intro b hab
  induction b with
  | zero =>
    have : a = 0 := by omega
    subst this
    exact le_refl _
  | succ n ih =>
    by_cases h : a = n + 1
    · subst h
      exact le_refl _
    · rw [rank_succ]
      have := ih (by omega)
      omega

theorem rank_lt (d : List Int) (a b : Nat) (hab : a < b) (ha : (a : Int) ∈ d) :
    (List.range a).countP (fun (u : Nat) => decide ((u : Int) ∈ d)) <
      (List.range b).countP (fun (u : Nat) => decide ((u : Int) ∈ d)) := by
  have h1 := rank_mono d (a + 1) b (by omega)
  rw [rank_succ, if_pos ha] at h1
  omega

theorem rank_surj (d : List Int) : ∀ (n k : Nat),
    k < (List.range n).countP (fun (u : Nat) => decide ((u : Int) ∈ d)) →
    ∃ v : Nat, v < n ∧ (v : Int) ∈ d ∧
      (List.range v).countP (fun (u : Nat) => decide ((u : Int) ∈ d)) = k
  | 0, k, h => by simp at h
  | n + 1, k, h => by
    rw [rank_succ] at h
    by_cases hlt : k < (List.range n).countP (fun (u : Nat) => decide ((u : Int) ∈ d))
    · obtain ⟨v, h1, h2, h3⟩ := rank_surj d n k hlt
      exact ⟨v, by omega, h2, h3⟩
    · by_cases hn : (n : Int) ∈ d
      · rw [if_pos hn] at h
        exact ⟨n, by omega, hn, by omega⟩
      · rw [if_neg hn] at h
        omega

theorem rdI_map (f : Int → Int) (d : List Int) (x : Nat) (hx : x < d.length) :
    rdI (d.map f) (x : Int) = f (rdI d (x : Int)) := by
  rw [rdI_eq_getElem _ _ (by simpa using hx), rdI_eq_getElem _ _ hx, List.getElem_map]

/-- The part `// Clean d_to_d` of `ConnectBoundaries` on an array of length `N` with values
in `[0, N)`: the new `NumOfDofs` is at most `N`, the new array has the same length, its
values are exactly the numbers below the new `NumOfDofs`, and the renumbering preserves
the order of the old values. -/
theorem cleanDofMap_compact (N : Nat) (d : List Int)
    (hI : d.length = N ∧ ∀ v ∈ d, 0 ≤ v ∧ v < (N : Int)) :
    ∃ (cnt : Int) (d' : List Int), cleanDofMap d = .ok (cnt, d') ∧ d'.length = N ∧
      cnt ≤ (N : Int) ∧ (∀ v : Int, v ∈ d' ↔ 0 ≤ v ∧ v < cnt) ∧
      ∀ x y : Nat, x < N → y < N →
        (rdI d (x : Int) < rdI d (y : Int) ↔ rdI d' (x : Int) < rdI d' (y : Int)) := by
  obtain ⟨hlen, hval⟩ := hI
  have hd : ∀ v ∈ d, 0 ≤ v ∧ v < (d.length + 1 : Nat) := by
    intro v hv
    have := hval v hv
    rw [hlen]
    push_cast
    omega
  refine ⟨_, _, cleanDofMap_eq d hd, by rw [List.length_map, hlen], ?_, ?_, ?_⟩
  · have hN : (N : Int) ∉ d := fun h => by
      have := (hval _ h).2
      omega
    rw [hlen, rank_succ, if_neg hN, Nat.add_zero]
    have : (List.range N).countP (fun (u : Nat) => decide ((u : Int) ∈ d)) ≤
        (List.range N).length := List.countP_le_length _
    rw [List.length_range] at this
    exact_mod_cast this
  · intro v
    rw [List.mem_map]
    constructor
    · rintro ⟨w, hw, rfl⟩
      obtain ⟨w0, w1⟩ := hval w hw
      have hwd : ((w.toNat : Nat) : Int) ∈ d := by
        rw [Int.toNat_of_nonneg w0]
        exact hw
      have := rank_lt d w.toNat (d.length + 1) (by omega) hwd
      constructor
      · exact Int.natCast_nonneg _
      · exact_mod_cast this
    · rintro ⟨v0, v1⟩
      have hk : v.toNat < (List.range (d.length + 1)).countP
          (fun (u : Nat) => decide ((u : Int) ∈ d)) := by omega
      obtain ⟨w, _, hw, hr⟩ := rank_surj d (d.length + 1) v.toNat hk
      refine ⟨(w : Int), hw, ?_⟩
      rw [Int.toNat_ofNat, hr]
      omega
  · intro x y hx hy
    rw [rdI_map _ d x (by omega), rdI_map _ d y (by omega)]
    have hxm := rdI_mem d x (by omega)
    have hym := rdI_mem d y (by omega)
    obtain ⟨x0, _⟩ := hval _ hxm
    obtain ⟨y0, _⟩ := hval _ hym
    have hxd : (((rdI d (x : Int)).toNat : Nat) : Int) ∈ d := by
      rw [Int.toNat_of_nonneg x0]
      exact hxm
    constructor
    · intro h
      have := rank_lt d (rdI d (x : Int)).toNat (rdI d (y : Int)).toNat (by omega) hxd
      exact_mod_cast this
    · intro h
      by_contra hcon
      have := rank_mono d (rdI d (y : Int)).toNat (rdI d (x : Int)).toNat (by omega)
      have h' : (List.range (rdI d (x : Int)).toNat).countP
            (fun (u : Nat) => decide ((u : Int) ∈ d)) <
          (List.range (rdI d (y : Int)).toNat).countP
            (fun (u : Nat) => decide ((u : Int) ∈ d)) := by exact_mod_cast h
      omega

end NURBSExtension

namespace NURBSExtension

/-- C38: `ConnectBoundaries` (in debug and in release builds) fails with a fatal error when
the master and slave lists differ in length and returns the extension unchanged when they
are empty.  With a non-empty master list, whenever it returns, `d_to_d` has one entry per
pre-merge dof, its set of values is exactly `{0, ..., NumOfDofs-1}` for the new
`NumOfDofs`, the new `NumOfDofs` does not exceed the pre-merge count, and the compaction
preserves the order of the representatives (the values of `d_to_d` after the loop
`// Connect`); no other field changes.  It does return when all boundary attributes are
found, the paired boundaries are compatible and the paired dofs lie in
`[0, NumOfDofs)`. -/
theorem connectBoundaries_compaction (debug : Bool) (ops : PatchMapOps)
    (ext : NURBSExtension) :
    (ext.master.length ≠ ext.slave.length →
      ConnectBoundaries debug ops ext = .error .fatal) ∧
    (ext.master.length = 0 → ext.slave.length = 0 →
      ConnectBoundaries debug ops ext = .ok ext) ∧
    (∀ e : NURBSExtension, ext.master.length ≠ 0 → 0 ≤ ext.NumOfDofs →
      ConnectBoundaries debug ops ext = .ok e →
      ∃ d : List Int, connectAll debug ops ext (identityDofs ext) = .ok d ∧
        d.length = ext.NumOfDofs.toNat ∧
        e.d_to_d.length = ext.NumOfDofs.toNat ∧
        (∀ v : Int, v ∈ e.d_to_d ↔ 0 ≤ v ∧ v < e.NumOfDofs) ∧
        e.NumOfDofs ≤ ext.NumOfDofs ∧
        (∀ x y : Nat, x < ext.NumOfDofs.toNat → y < ext.NumOfDofs.toNat →
          (rdI d (x : Int) < rdI d (y : Int) ↔
            rdI e.d_to_d (x : Int) < rdI e.d_to_d (y : Int))) ∧
        e = { ext with NumOfDofs := e.NumOfDofs, d_to_d := e.d_to_d }) ∧
    (ext.master.length = ext.slave.length →
      (∀ i : Nat, i < ext.master.length →
        ext.findBdr (rdI ext.master i) ≠ -1 ∧ ext.findBdr (rdI ext.slave i) ≠ -1) →
      (∀ i : Nat, i < ext.master.length →
        BdrCompatible debug ext (ext.findBdr (rdI ext.master i))
          (ext.findBdr (rdI ext.slave i))) →
      0 ≤ ext.NumOfDofs →
      (∀ pr ∈ allBdrPairs ops ext,
        0 ≤ pr.1 ∧ pr.1 < ext.NumOfDofs ∧ 0 ≤ pr.2 ∧ pr.2 < ext.NumOfDofs) →
      ∃ e, ConnectBoundaries debug ops ext = .ok e) := by
  have hid : forLoopInt 0 ext.NumOfDofs (fun d i => wrI d i i)
      (List.replicate ext.NumOfDofs.toNat 0) = identityDofs ext := identity_loop ext.NumOfDofs
  have hI0 : (identityDofs ext).length = ext.NumOfDofs.toNat ∧
      ∀ v ∈ identityDofs ext, 0 ≤ v ∧ v < ((ext.NumOfDofs.toNat : Nat) : Int) := by
    unfold identityDofs
    refine ⟨by simp, fun v hv => ?_⟩
    obtain ⟨i, hi, rfl⟩ := List.mem_map.mp hv
    rw [List.mem_range] at hi
    omega
  refine ⟨fun h => ?_, fun h0 _ => ?_, fun e hne hN h => ?_, fun hlen hfound hc hN hrange => ?_⟩
  · unfold ConnectBoundaries
    rw [if_pos h]
  · unfold ConnectBoundaries
    rw [if_neg (by omega), if_pos h0]
  · unfold ConnectBoundaries at h
    by_cases hl : ext.master.length ≠ ext.slave.length
    · rw [if_pos hl] at h
      cases h
    rw [if_neg hl, if_neg hne] at h
    dsimp only at h
    rw [hid] at h
    cases hconn : connectAll debug ops ext (identityDofs ext) with
    | error err =>
      rw [hconn] at h
      cases h
    | ok d =>
      rw [hconn] at h
      dsimp only at h
      have hI := connectAll_inv debug ops ext ext.NumOfDofs.toNat _ d hI0 hconn
      obtain ⟨cnt, d', hc, h1, h2, h3, h4⟩ := cleanDofMap_compact ext.NumOfDofs.toNat d hI
      rw [hc] at h
      dsimp only at h
      cases h
      exact ⟨d, rfl, hI.1, h1, h3, by dsimp only; omega, h4, rfl⟩
  · by_cases hne : ext.master.length = 0
    · exact ⟨ext, by unfold ConnectBoundaries; rw [if_neg (by omega), if_pos hne]⟩
    · have hpairs := connectAll_pairs debug ops ext hfound hc (identityDofs ext)
      obtain ⟨d1, hd1, _⟩ := connectList_ok ext.NumOfDofs.toNat (allBdrPairs ops ext)
        (identityDofs ext) hI0.1 (fun pr hpr => by
          have := hrange pr hpr
          omega)
      rw [hd1] at hpairs
      have hI := connectAll_inv debug ops ext ext.NumOfDofs.toNat _ d1 hI0 hpairs
      obtain ⟨cnt, d', hcl, _⟩ := cleanDofMap_compact ext.NumOfDofs.toNat d1 hI
      refine ⟨{ ext with NumOfDofs := cnt, d_to_d := d' }, ?_⟩
      unfold ConnectBoundaries
      rw [if_neg (by omega), if_neg hne]
      dsimp only
      rw [hid, hpairs]
      dsimp only
      rw [hcl]

/-- Instance of `connectBoundaries_compaction` on the chain of three points whose
boundaries are paired `1 -> 2` and `2 -> 3`: the call returns, and its result, with
`NumOfDofs = 2` and `d_to_d = [0,1,1]`, has the properties stated. -/
theorem connectBoundaries_compaction_witness :
    (∃ e, ConnectBoundaries false exOps exChained = .ok e) ∧
    (∃ d : List Int, connectAll false exOps exChained (identityDofs exChained) = .ok d ∧
      d.length = exChained.NumOfDofs.toNat ∧
      ({ exChained with NumOfDofs := 2, d_to_d := [0, 1, 1] } : NURBSExtension).d_to_d.length =
        exChained.NumOfDofs.toNat ∧
      (∀ v : Int, v ∈ ({ exChained with NumOfDofs := 2, d_to_d := [0, 1, 1] } :
          NURBSExtension).d_to_d ↔
        0 ≤ v ∧ v < ({ exChained with NumOfDofs := 2, d_to_d := [0, 1, 1] } :
          NURBSExtension).NumOfDofs) ∧
      ({ exChained with NumOfDofs := 2, d_to_d := [0, 1, 1] } : NURBSExtension).NumOfDofs ≤
        exChained.NumOfDofs ∧
      (∀ x y : Nat, x < exChained.NumOfDofs.toNat → y < exChained.NumOfDofs.toNat →
        (rdI d (x : Int) < rdI d (y : Int) ↔
          rdI ({ exChained with NumOfDofs := 2, d_to_d := [0, 1, 1] } :
              NURBSExtension).d_to_d (x : Int) <
            rdI ({ exChained with NumOfDofs := 2, d_to_d := [0, 1, 1] } :
              NURBSExtension).d_to_d (y : Int))) ∧
      ({ exChained with NumOfDofs := 2, d_to_d := [0, 1, 1] } : NURBSExtension) =
        { exChained with
          NumOfDofs := ({ exChained with NumOfDofs := 2, d_to_d := [0, 1, 1] } :
            NURBSExtension).NumOfDofs
          d_to_d := ({ exChained with NumOfDofs := 2, d_to_d := [0, 1, 1] } :
            NURBSExtension).d_to_d }) :=
  ⟨(connectBoundaries_compaction false exOps exChained).2.2.2 (by decide) (by decide)
      (by decide) (by decide) (by decide),
    (connectBoundaries_compaction false exOps exChained).2.2.1
      { exChained with NumOfDofs := 2, d_to_d := [0, 1, 1] } (by decide) (by decide) rfl⟩

end NURBSExtension

namespace KnotVector

theorem rd2_wr2 (a : List ℚ) (r c r1 c1 : Int) (x : ℚ) :
    rd2 (wr2 a r c x) r1 c1 =
      if r * ((MaxOrder : Int) + 1) + c = r1 * ((MaxOrder : Int) + 1) + c1 ∧
          0 ≤ r * ((MaxOrder : Int) + 1) + c ∧
          (r * ((MaxOrder : Int) + 1) + c).toNat < a.length then x
      else rd2 a r1 c1 := by
  unfold rd2 wr2
  exact rd_wr _ _ _ _

theorem length_wr2 (a : List ℚ) (r c : Int) (x : ℚ) : (wr2 a r c x).length = a.length := by
  unfold wr2
  exact length_wr _ _ _

/-- One pass `r` of the loop of `CalcDnShape` for `n = 1`: the first derivative of the
`r`-th function in terms of the table `ndu`. -/
theorem dnOuter_one (p : Int) (ndu a g : List ℚ) (r : Nat)
    (ha : a.length = 2 * (MaxOrder + 1)) (hr : (r : Int) ≤ p) :
    (dnOuter p ndu 1 (a, g) r).1.length = 2 * (MaxOrder + 1) ∧
    (dnOuter p ndu 1 (a, g) r).2 =
      wr g (r : Int)
        ((if (r : Int) ≥ 1 then 1 / rd2 ndu p ((r : Int) - 1) * rd2 ndu ((r : Int) - 1) (p - 1)
          else 0) +
         (if (r : Int) ≤ p - 1 then -1 / rd2 ndu p (r : Int) * rd2 ndu (r : Int) (p - 1)
          else 0)) := by
  have e1 : p - 1 + 1 = p := by ring
  have e2 : (r : Int) - 1 + 1 = (r : Int) := by ring
  unfold dnOuter
  dsimp only
  have hloop : ∀ st0 : DnState, forLoopInt 1 (1 + 1) (dnStep p ndu (r : Int)) st0 =
      dnStep p ndu (r : Int) st0 1 := by
    intro st0
    unfold forLoopInt
    rw [show ((1 : Int) + 1 - 1).toNat = 1 from rfl]
    rfl
  rw [hloop]
  unfold dnStep
  dsimp only
  have hj1 : ((r : Int) - 1 ≥ -1) := by omega
  have hj2 : ((r : Int) - 1 ≤ p - 1) := by omega
  rw [if_pos hj1, if_pos hj2]
  have hnone : ∀ st : List ℚ × ℚ,
      forLoopInt 1 (1 - 1 + 1) (dnInner ndu (p - 1) ((r : Int) - 1) 0 1) st = st := by
    intro st
    rfl
  rw [hnone, if_neg (by decide : ¬ ((1 : Int) ≤ 1 - 1))]
  have h00 : rd2 (wr2 a 0 0 1) 0 0 = 1 := by
    rw [rd2_wr2, if_pos ⟨rfl, by decide, by rw [ha]; decide⟩]
  by_cases c1 : (r : Int) ≥ 1
  · rw [if_pos c1, if_pos c1]
    dsimp only
    have h10 : ∀ x : ℚ, rd2 (wr2 (wr2 a 0 0 1) 1 0 x) 1 0 = x := by
      intro x
      rw [rd2_wr2, if_pos ⟨rfl, by decide, by rw [length_wr2, ha]; decide⟩]
    have h00' : ∀ x : ℚ, rd2 (wr2 (wr2 a 0 0 1) 1 0 x) 0 (1 - 1) = 1 := by
      intro x
      rw [rd2_wr2, if_neg (fun h => absurd h.1 (by decide))]
      exact h00
    by_cases c2 : (r : Int) ≤ p - 1
    · rw [if_pos c2, if_pos c2]
      dsimp only
      refine ⟨?_, ?_⟩
      · rw [length_wr2, length_wr2, length_wr2, ha]
      · have h11 : ∀ (b : List ℚ) (x : ℚ), b.length = 2 * (MaxOrder + 1) →
            rd2 (wr2 b 1 1 x) 1 1 = x := by
          intro b x hb
          rw [rd2_wr2, if_pos ⟨rfl, by decide, by rw [hb]; decide⟩]
        rw [h10, h00', h11 _ _ (by rw [length_wr2, length_wr2, ha]), h00, e1, e2]
    · rw [if_neg c2, if_neg c2]
      refine ⟨?_, ?_⟩
      · rw [length_wr2, length_wr2, ha]
      · rw [h10, h00, e1, add_zero]
  · rw [if_neg c1, if_neg c1]
    have hr0 : (r : Int) = 0 := by omega
    by_cases c2 : (r : Int) ≤ p - 1
    · rw [if_pos c2, if_pos c2]
      dsimp only
      refine ⟨?_, ?_⟩
      · rw [length_wr2, length_wr2, ha]
      · have h11 : ∀ (b : List ℚ) (x : ℚ), b.length = 2 * (MaxOrder + 1) →
            rd2 (wr2 b 1 1 x) 1 1 = x := by
          intro b x hb
          rw [rd2_wr2, if_pos ⟨rfl, by decide, by rw [hb]; decide⟩]
        rw [h11 _ _ (by rw [length_wr2, ha]), show (1 : Int) - 1 = 0 from rfl, h00, e1, e2]
    · rw [if_neg c2, if_neg c2]
      refine ⟨?_, ?_⟩
      · rw [length_wr2, ha]
      · rw [add_zero]

end KnotVector

namespace KnotVector

/-- The loop over `r` of `CalcDnShape` for `n = 1`, on the output vector. -/
theorem dnOuter_loop (p : Int) (ndu : List ℚ) :
    ∀ (n s : Nat) (a g : List ℚ), a.length = 2 * (MaxOrder + 1) → ((s + n : Nat) : Int) ≤ p + 1 →
      (forCount (dnOuter p ndu 1) n s (a, g)).2 =
        forCount (fun (w : List ℚ) (r : Nat) => wr w (r : Int)
          ((if (r : Int) ≥ 1 then
              1 / rd2 ndu p ((r : Int) - 1) * rd2 ndu ((r : Int) - 1) (p - 1)
            else 0) +
           (if (r : Int) ≤ p - 1 then -1 / rd2 ndu p (r : Int) * rd2 ndu (r : Int) (p - 1)
            else 0))) n s g
  | 0, _, _, _, _, _ => rfl
  | n + 1, s, a, g, ha, hb => by
    obtain ⟨h1, h2⟩ := dnOuter_one p ndu a g s ha (by push_cast at hb; omega)
    rw [forCount, forCount]
    have e : dnOuter p ndu 1 (a, g) s =
        ((dnOuter p ndu 1 (a, g) s).1, (dnOuter p ndu 1 (a, g) s).2) := rfl
    rw [e, dnOuter_loop p ndu n (s + 1) _ _ h1 (by push_cast at hb ⊢; omega), h2]

/-- The loop `for (j = 0; j <= p; j++) gradn[j] *= temp`. -/
theorem scale_loop (t : ℚ) :
    ∀ (n s : Nat) (g : List ℚ),
      (forCount (fun (w : List ℚ) (j : Nat) => wr w (j : Int) (rd w (j : Int) * t)) n s g).length
        = g.length ∧
      ∀ r : Nat, rd (forCount (fun (w : List ℚ) (j : Nat) => wr w (j : Int) (rd w (j : Int) * t))
          n s g) (r : Int) =
        if s ≤ r ∧ r < s + n ∧ r < g.length then rd g (r : Int) * t else rd g (r : Int)
  | 0, s, g => ⟨rfl, fun r => by rw [if_neg (by omega)]; rfl⟩
  | n + 1, s, g => by
    obtain ⟨h1, h2⟩ := scale_loop t n (s + 1) (wr g (s : Int) (rd g (s : Int) * t))
    rw [forCount]
    refine ⟨by rw [h1, length_wr], fun r => ?_⟩
    rw [h2 r, length_wr, rd_wr]
    by_cases c : r = s
    · subst c
      rw [if_neg (by omega)]
      by_cases hl : r < g.length
      · rw [if_pos ⟨rfl, by omega, by omega⟩, if_pos ⟨le_refl _, by omega, hl⟩]
      · rw [if_neg (fun h => hl (by omega)), if_neg (fun h => hl h.2.2)]
    · by_cases c2 : s + 1 ≤ r ∧ r < s + 1 + n ∧ r < g.length
      · rw [if_pos c2, if_neg (fun h => c (by omega)), if_pos ⟨by omega, by omega, c2.2.2⟩]
      · rw [if_neg c2, if_neg (fun h => c (by omega)), if_neg (fun h => c2 ⟨by omega, by omega, h.2.2⟩)]

theorem rd_map_mul (l : List ℚ) (c : ℚ) (r : Nat) (h : r < l.length) :
    rd (l.map (fun x => x * c)) (r : Int) = rd l (r : Int) * c := by
  rw [rd_eq_getElem _ r (by simpa using h), rd_eq_getElem l r h, List.getElem_map]

/-- Entry `r` of the output of `CalcDnShape` for `n = 1`, before the scaling. -/
theorem dnShape_entry (p : Nat) (ndu gradn : List ℚ) (t : ℚ) (r : Nat) (hr : r ≤ p)
    (h2 : p + 1 ≤ gradn.length) :
    rd (forCount (fun (w : List ℚ) (j : Nat) => wr w (j : Int) (rd w (j : Int) * t)) (p + 1) 0
        (forCount (dnOuter (p : Int) ndu 1) (p + 1) 0
          (List.replicate (2 * (MaxOrder + 1)) 0, gradn)).2) (r : Int) =
      ((if (r : Int) ≥ 1 then
          1 / rd2 ndu (p : Int) ((r : Int) - 1) * rd2 ndu ((r : Int) - 1) ((p : Int) - 1)
        else 0) +
       (if (r : Int) ≤ (p : Int) - 1 then
          -1 / rd2 ndu (p : Int) (r : Int) * rd2 ndu (r : Int) ((p : Int) - 1)
        else 0)) * t := by
  rw [dnOuter_loop (p : Int) ndu (p + 1) 0 _ gradn (by simp) (by push_cast; omega)]
  obtain ⟨_, s2⟩ := scale_loop t (p + 1) 0
    (forCount (fun (w : List ℚ) (r : Nat) => wr w (r : Int)
      ((if (r : Int) ≥ 1 then
          1 / rd2 ndu (p : Int) ((r : Int) - 1) * rd2 ndu ((r : Int) - 1) ((p : Int) - 1)
        else 0) +
       (if (r : Int) ≤ (p : Int) - 1 then
          -1 / rd2 ndu (p : Int) (r : Int) * rd2 ndu (r : Int) ((p : Int) - 1)
        else 0))) (p + 1) 0 gradn)
  rw [s2 r, length_forCount_wr (fun (r : Nat) => (r : Int)),
    if_pos ⟨by omega, by omega, by omega⟩]
  congr 1
  exact rd_forCount_wr_hit (fun (r : Nat) => (r : Int)) _ r (p + 1) 0 gradn (by omega) (by omega)
    (by beta_reduce; omega) (by beta_reduce; omega) (fun j h1 _ => by beta_reduce; omega)

/-- Entry `r` of the output of `CalcDShape`. -/
theorem dShape_entry (p : Nat) (ndu grad : List ℚ) (c : ℚ) (r : Nat) (hr : r ≤ p)
    (h1 : p + 1 ≤ grad.length) :
    rd ((forCount (dshapeGrad (p : Int) ndu) (p + 1) 0 grad).map (fun x => x * c)) (r : Int) =
      ((if (r : Int) ≥ 1 then
          1 / rd2 ndu (p : Int) ((r : Int) - 1) * rd2 ndu ((r : Int) - 1) ((p : Int) - 1)
        else 0) +
       (if (r : Int) ≤ (p : Int) - 1 then
          -1 / rd2 ndu (p : Int) (r : Int) * rd2 ndu (r : Int) ((p : Int) - 1)
        else 0)) * c := by
  have e : dshapeGrad (p : Int) ndu = fun (w : List ℚ) (r : Nat) =>
      wr w ((fun (r : Nat) => (r : Int)) r)
        ((fun (r : Nat) =>
          if (r : Int) ≤ (p : Int) - 1 then
            (if (r : Int) ≥ 1 then
              rd2 ndu ((r : Int) - 1) ((p : Int) - 1) / rd2 ndu (p : Int) ((r : Int) - 1)
             else 0) - rd2 ndu (r : Int) ((p : Int) - 1) / rd2 ndu (p : Int) (r : Int)
          else
            (if (r : Int) ≥ 1 then
              rd2 ndu ((r : Int) - 1) ((p : Int) - 1) / rd2 ndu (p : Int) ((r : Int) - 1)
             else 0)) r) := rfl
  rw [e, rd_map_mul _ _ r (by rw [length_forCount_wr]; omega)]
  congr 1
  rw [rd_forCount_wr_hit (fun (r : Nat) => (r : Int)) _ r (p + 1) 0 grad (by omega) (by omega)
    (by beta_reduce; omega) (by beta_reduce; omega) (fun j h1 _ => by beta_reduce; omega)]
  split_ifs <;> ring

/-- The first derivatives: `CalcDnShape` with `n = 1` and `CalcDShape` compute the same
entries `0, ..., Order` from the same table `ndu`. -/
theorem dnShape_one_core (kv : KnotVector) (grad gradn : List ℚ) (i : Int) (xi : ℚ)
    (h1 : kv.Order + 1 ≤ grad.length) (h2 : kv.Order + 1 ≤ gradn.length) (r : Nat)
    (hr : r ≤ kv.Order) :
    rd (CalcDnShapeCore kv gradn 1 i xi) (r : Int) = rd (CalcDShapeCore kv grad i xi) (r : Int) := by
  unfold CalcDnShapeCore CalcDShapeCore forLoop
  dsimp only
  rw [Nat.sub_zero, dnShape_entry kv.Order _ gradn _ r hr h2,
    dShape_entry kv.Order _ grad _ r hr h1]
  congr 1
  have htemp : ∀ (x : ℚ), forLoopInt 1 1
      (fun (t : ℚ) k => t * ((((kv.Order : Int) - k : Int) : ℚ) * x)) (((kv.Order : Int) : ℚ) * x)
      = ((kv.Order : Int) : ℚ) * x := fun x => rfl
  rw [htemp]
  split_ifs <;> rfl

/-- C35 (amended): for every knot vector of order `p ≤ MaxOrder`, every span index `i`
(positive or negative encoding), every `xi` and output vectors with at least `p + 1`
entries, `CalcDnShape(gradn, 1, i, xi)` and `CalcDShape(grad, i, xi)` (in debug and in
release builds) both return and, in exact arithmetic (`double` taken as exact rationals,
which is what `CalcDnShape` and `CalcDShape` compute with), write the same `p + 1`
values. -/
theorem calcDnShape_first (debug : Bool) (kv : KnotVector) (hp : kv.Order ≤ MaxOrder)
    (grad gradn : List ℚ) (h1 : kv.Order + 1 ≤ grad.length)
    (h2 : kv.Order + 1 ≤ gradn.length) (i : Int) (xi : ℚ) :
    ∃ g1 g2 : List ℚ, CalcDnShape debug kv gradn 1 i xi = .ok g1 ∧
      CalcDShape debug kv grad i xi = .ok g2 ∧
      ∀ r : Nat, r ≤ kv.Order → rd g1 (r : Int) = rd g2 (r : Int) := by
  refine ⟨CalcDnShapeCore kv gradn 1 i xi, CalcDShapeCore kv grad i xi, ?_, ?_,
    fun r hr => dnShape_one_core kv grad gradn i xi h1 h2 r hr⟩
  · unfold CalcDnShape
    rw [if_neg (fun h => absurd h.2 (by omega)), if_neg (by
      rintro (h | h)
      · exact h hp
      · omega)]
  · unfold CalcDShape
    rw [if_neg (fun h => absurd h.2 (by omega)), if_neg (by
      rintro (h | h)
      · exact h hp
      · omega)]

/-- Instance of `calcDnShape_first`: the quadratic knot vector `[0,0,0,1,2,2,3,3,3]`, span
`i = 1` and `xi = 1/3`. -/
theorem calcDnShape_first_witness :
    ∃ g1 g2 : List ℚ, CalcDnShape false exQuadratic [0, 0, 0] 1 1 (1 / 3) = .ok g1 ∧
      CalcDShape false exQuadratic [0, 0, 0] 1 (1 / 3) = .ok g2 ∧
      ∀ r : Nat, r ≤ exQuadratic.Order → rd g1 (r : Int) = rd g2 (r : Int) :=
  calcDnShape_first false exQuadratic (by decide) [0, 0, 0] [0, 0, 0] (by decide) (by decide)
    1 (1 / 3)

end KnotVector

namespace KnotVector

end KnotVector

namespace KnotVector

end KnotVector

namespace NURBSExtension

/-- The loop `activeVert[vert[v]] = 1` over vertices within the array: the entries of the
vertices become `1`, the others are kept. -/
theorem markVerts_spec : ∀ (vs : List Int) (a : List Int),
    (∀ v ∈ vs, 0 ≤ v ∧ v < (a.length : Int)) →
    ∃ a', markVerts vs a = .ok a' ∧ a'.length = a.length ∧
      ∀ w : Nat, rdI a' (w : Int) = if (w : Int) ∈ vs then 1 else rdI a (w : Int)
  | [], a, _ => ⟨a, rfl, rfl, fun w => by simp⟩
  | v :: vs, a, h => by
    obtain ⟨h0, h1⟩ := h v (List.mem_cons_self _ _)
    obtain ⟨n, hn, rfl⟩ := exists_nat_of_range v a.length h0 h1
    obtain ⟨a', e1, e2, e3⟩ := markVerts_spec vs (a.set n 1) (fun x hx => by
      rw [List.length_set]
      exact h x (List.mem_cons_of_mem _ hx))
    refine ⟨a', ?_, by rw [e2, List.length_set], ?_⟩
    · unfold markVerts at e1 ⊢
      rw [foldE, wrIChk_ok _ n _ hn]
      exact e1
    · intro w
      rw [e3 w, rdI_set]
      by_cases hw : (w : Int) ∈ vs
      · rw [if_pos hw, if_pos (List.mem_cons_of_mem _ hw)]
      · rw [if_neg hw]
        by_cases hnw : n = w
        · subst hnw
          rw [if_pos ⟨rfl, hn⟩, if_pos (List.mem_cons_self _ _)]
        · rw [if_neg (fun hc => hnw hc.1), if_neg]
          intro hc
          rcases List.mem_cons.mp hc with hc | hc
          · exact hnw (by omega)
          · exact hw hc

/-- The pass over the elements `W` with the global numbers `g, g+1, ...`: the vertices of
the active ones are marked with `1`. -/
theorem markAll_spec (ext : NURBSExtension) : ∀ (W : List (List Int)) (g : Nat) (a : List Int),
    g + W.length ≤ ext.activeElem.length →
    (∀ v ∈ (activeFrom ext.activeElem g W).flatMap id, 0 ≤ v ∧ v < (a.length : Int)) →
    ∃ a', foldE (markIfActive ext) W ((g : Int), a) = .ok (((g + W.length : Nat) : Int), a') ∧
      a'.length = a.length ∧
      ∀ w : Nat, rdI a' (w : Int) =
        if (w : Int) ∈ (activeFrom ext.activeElem g W).flatMap id then 1 else rdI a (w : Int)
  | [], g, a, _, _ => ⟨a, rfl, rfl, fun w => by simp [activeFrom]⟩
  | vs :: W, g, a, hg, hr => by
    have hgl : g < ext.activeElem.length := by
      rw [List.length_cons] at hg
      omega
    have hstep : markIfActive ext ((g : Int), a) vs =
        if ext.activeElem.getD g false then
          match markVerts vs a with
          | .error e => .error e
          | .ok a1 => .ok ((g : Int) + 1, a1)
        else .ok ((g : Int) + 1, a) := by
      unfold markIfActive
      rw [activeElemAt_ok ext g hgl]
      try rfl
    rw [foldE, hstep]
    rw [activeFrom] at hr ⊢
    have hcast : (g : Int) + 1 = ((g + 1 : Nat) : Int) := by push_cast; rfl
    have hlen : g + 1 + W.length = g + (vs :: W).length := by
      rw [List.length_cons]
      omega
    cases hb : ext.activeElem.getD g false
    · rw [hb] at hr
      simp only [Bool.false_eq_true, if_false] at hr ⊢
      obtain ⟨a', e1, e2, e3⟩ := markAll_spec ext W (g + 1) a (by omega) hr
      rw [hcast, e1, hlen]
      exact ⟨a', rfl, e2, e3⟩
    · rw [hb] at hr
      simp only [if_true, List.flatMap_cons, id, List.mem_append] at hr ⊢
      obtain ⟨a1, m1, m2, m3⟩ := markVerts_spec vs a (fun v hv => hr v (Or.inl hv))
      rw [m1]
      obtain ⟨a', e1, e2, e3⟩ := markAll_spec ext W (g + 1) a1 (by omega) (fun v hv => by
        rw [m2]
        exact hr v (Or.inr hv))
      dsimp only
      rw [hcast, e1, hlen]
      refine ⟨a', rfl, by rw [e2, m2], ?_⟩
      intro w
      rw [e3 w, m3 w]
      by_cases h1 : (w : Int) ∈ (activeFrom ext.activeElem (g + 1) W).flatMap id
      · rw [if_pos h1, if_pos (Or.inr h1)]
      · rw [if_neg h1]
        by_cases h2 : (w : Int) ∈ vs
        · rw [if_pos h2, if_pos (Or.inl h2)]
        · rw [if_neg h2, if_neg (fun hc => hc.elim h2 h1)]

/-- The loops over the elements of one patch in `GenerateActiveVertices`, as one pass
over the vertex arrays of the elements. -/
theorem activePatch_fold (ops : PatchMapOps) (ext : NURBSExtension) (p : Nat)
    (s : Int × List Int) :
    activePatch ops ext (ext.vertMapBefore p, s) p =
      match foldE (markIfActive ext) (patchElemVerts ops ext p) s with
      | .error e => .error e
      | .ok s' => .ok (ext.vertMapBefore (p + 1), s') := by
  have hm : (ext.SetPatchVertexMap (ext.vertMapBefore p) (p : Int)).1 = ext.vertMapOf p := by
    cases p <;> rfl
  unfold activePatch patchElemVerts
  dsimp only
  rw [hm, forLoopIntM_toNat,
    forLoopIntM_foldE (markIfActive ext)
      (fun (k : Nat) =>
        (List.range (if ext.Dimension ≥ 2 then (ext.vertMapOf p).ny else 1).toNat).flatMap
          (fun (j : Nat) =>
            (List.range (ext.vertMapOf p).nx.toNat).flatMap
              (fun (i : Nat) => [elemVerts ops ext (ext.vertMapOf p) (i : Int) (j : Int)
                (k : Int)])))
      _ (fun _ => True) (fun _ _ _ _ _ => trivial) _ s trivial
      (fun s k _ _ => by
        rw [forLoopIntM_toNat]
        exact forLoopIntM_foldE (markIfActive ext) _ _ (fun _ => True)
          (fun _ _ _ _ _ => trivial) _ s trivial
          (fun s j _ _ => by
            rw [forLoopIntM_toNat]
            exact forLoopIntM_foldE (markIfActive ext) _ _ (fun _ => True)
              (fun _ _ _ _ _ => trivial) _ s trivial
              (fun s i _ _ => (foldE_singleton _ _ _).symm)))]
  rfl

/-- A loop over the patches whose body is a pass over the list `g p` of the patch, as one
pass over all the lists. -/
theorem patchLoop_fold {τ α : Type} (m : Nat → NURBSPatchMap)
    (step : τ → α → Except Fault τ) (g : Nat → List α)
    (body : NURBSPatchMap × τ → Nat → Except Fault (NURBSPatchMap × τ))
    (hb : ∀ (p : Nat) (s : τ), body (m p, s) p =
      match foldE step (g p) s with
      | .error e => .error e
      | .ok s' => .ok (m (p + 1), s')) :
    ∀ (n s0 : Nat) (st : τ),
      forCountM body n s0 (m s0, st) =
        match foldE step ((List.range' s0 n).flatMap g) st with
        | .error e => .error e
        | .ok s' => .ok (m (s0 + n), s')
  | 0, s0, st => rfl
  | n + 1, s0, st => by
    rw [forCountM, hb, List.range'_succ, List.flatMap_cons, foldE_append]
    cases foldE step (g s0) st with
    | error e => rfl
    | ok s1 =>
      dsimp only
      rw [patchLoop_fold m step g body hb n (s0 + 1) s1]
      have : s0 + 1 + n = s0 + (n + 1) := by omega
      rw [this]

/-- The marking pass of `GenerateActiveVertices` when `activeElem` has a flag for every
element and the touched vertices are below `N = GetGNV()`: the result has `N` entries, `1`
at the touched vertices and `-1` elsewhere. -/
theorem markActiveVertices_spec (ops : PatchMapOps) (ext : NURBSExtension) (N : Nat)
    (hN : ext.NumOfVertices = (N : Int))
    (hact : (allElemVerts ops ext).length ≤ ext.activeElem.length)
    (hrange : ∀ v ∈ touchedVerts ops ext, 0 ≤ v ∧ v < (N : Int)) :
    ∃ M, markActiveVertices ops ext = .ok M ∧ M.length = N ∧
      ∀ w : Nat, w < N →
        rdI M (w : Int) = if (w : Int) ∈ touchedVerts ops ext then 1 else -1 := by
  obtain ⟨a', e1, e2, e3⟩ := markAll_spec ext (allElemVerts ops ext) 0 (List.replicate N (-1))
    (by omega) (fun v hv => by
      rw [List.length_replicate]
      exact hrange v hv)
  refine ⟨a', ?_, by rw [e2, List.length_replicate], ?_⟩
  · unfold markActiveVertices forLoopM GetGNV
    rw [hN, Int.toNat_ofNat, Nat.sub_zero]
    have := patchLoop_fold ext.vertMapBefore (markIfActive ext) (patchElemVerts ops ext)
      (activePatch ops ext)
      (fun p s => (activePatch_fold ops ext p s).trans (by
        cases foldE (markIfActive ext) (patchElemVerts ops ext p) s <;> rfl))
      ext.GetNP 0
      ((0 : Int), List.replicate N (-1))
    rw [← List.range_eq_range'] at this
    have e1' : foldE (markIfActive ext) ((List.range ext.GetNP).flatMap (patchElemVerts ops ext))
        ((0 : Int), List.replicate N (-1)) =
        .ok (((0 + (allElemVerts ops ext).length : Nat) : Int), a') := e1
    rw [e1'] at this
    have hv0 : ext.vertMapBefore 0 = {} := rfl
    rw [hv0] at this
    rw [this]
  · intro w hw
    have e3' : rdI a' (w : Int) =
        if (w : Int) ∈ touchedVerts ops ext then 1 else rdI (List.replicate N (-1)) (w : Int) :=
      e3 w
    rw [e3']
    by_cases h : (w : Int) ∈ touchedVerts ops ext
    · rw [if_pos h, if_pos h]
    · rw [if_neg h, if_neg h, rdI_eq_getElem _ _ (by rw [List.length_replicate]; exact hw)]
      simp

end NURBSExtension

namespace NURBSExtension

/-- The numbering loop of `GenerateActiveVertices` on an array `M` whose entries `1` are
the vertices of `d`: a marked vertex gets the number of marked vertices before it, the
other entries are kept, and the counter ends as the number of marked vertices. -/
theorem numberVert_loop (M : List Int) (d : List Int)
    (hM : ∀ u : Nat, u < M.length → (rdI M (u : Int) = 1 ↔ (u : Int) ∈ d)) :
    ∀ (n s : Nat), s + n = M.length →
      forCountM (fun (st : List Int × Int) (i : Nat) => numberVert st (0 + (i : Int))) n s
        ((List.range s).map
            (fun (v : Nat) => if (v : Int) ∈ d then
              (((List.range v).countP (fun (u : Nat) => decide ((u : Int) ∈ d)) : Nat) : Int)
              else rdI M (v : Int)) ++ M.drop s,
          (((List.range s).countP (fun (u : Nat) => decide ((u : Int) ∈ d)) : Nat) : Int)) =
      .ok ((List.range M.length).map
          (fun (v : Nat) => if (v : Int) ∈ d then
            (((List.range v).countP (fun (u : Nat) => decide ((u : Int) ∈ d)) : Nat) : Int)
            else rdI M (v : Int)),
        (((List.range M.length).countP (fun (u : Nat) => decide ((u : Int) ∈ d)) : Nat) : Int))
  | 0, s, h => by
    rw [forCountM, List.drop_of_length_le (by omega), List.append_nil,
      show s = M.length by omega]
  | n + 1, s, h => by
    have hs : s < M.length := by omega
    have hlen : ((List.range s).map
        (fun (v : Nat) => if (v : Int) ∈ d then
          (((List.range v).countP (fun (u : Nat) => decide ((u : Int) ∈ d)) : Nat) : Int)
          else rdI M (v : Int))).length = s := by simp
    have hrd : rdI ((List.range s).map
        (fun (v : Nat) => if (v : Int) ∈ d then
          (((List.range v).countP (fun (u : Nat) => decide ((u : Int) ∈ d)) : Nat) : Int)
          else rdI M (v : Int)) ++ M.drop s) (s : Int) = rdI M (s : Int) := by
      rw [rdI_natCast, rdI_natCast, List.getD_eq_getElem?_getD, List.getD_eq_getElem?_getD,
        List.getElem?_append_right (by omega), hlen, Nat.sub_self, List.getElem?_drop]
      rfl
    have hlen2 : ((List.range s).map
        (fun (v : Nat) => if (v : Int) ∈ d then
          (((List.range v).countP (fun (u : Nat) => decide ((u : Int) ∈ d)) : Nat) : Int)
          else rdI M (v : Int)) ++ M.drop s).length = M.length := by
      rw [List.length_append, hlen, List.length_drop]; omega
    have hw := wrI_append_length ((List.range s).map
        (fun (v : Nat) => if (v : Int) ∈ d then
          (((List.range v).countP (fun (u : Nat) => decide ((u : Int) ∈ d)) : Nat) : Int)
          else rdI M (v : Int)))
        (M.drop (s + 1)) (rdI M (s : Int))
        (((List.range s).countP (fun (u : Nat) => decide ((u : Int) ∈ d)) : Nat) : Int)
    rw [hlen, ← drop_eq_rdI_cons M s hs, wrI_natCast] at hw
    have hbody : numberVert ((List.range s).map
        (fun (v : Nat) => if (v : Int) ∈ d then
          (((List.range v).countP (fun (u : Nat) => decide ((u : Int) ∈ d)) : Nat) : Int)
          else rdI M (v : Int)) ++ M.drop s,
          (((List.range s).countP (fun (u : Nat) => decide ((u : Int) ∈ d)) : Nat) : Int))
        (s : Int) =
        .ok ((List.range (s + 1)).map
          (fun (v : Nat) => if (v : Int) ∈ d then
            (((List.range v).countP (fun (u : Nat) => decide ((u : Int) ∈ d)) : Nat) : Int)
            else rdI M (v : Int)) ++ M.drop (s + 1),
          (((List.range (s + 1)).countP (fun (u : Nat) => decide ((u : Int) ∈ d)) : Nat) :
            Int)) := by
      unfold numberVert
      try dsimp only
      rw [rdIChk_ok _ s (by rw [hlen2]; exact hs), hrd]
      try dsimp only
      rw [rank_succ, List.range_succ, List.map_append, List.append_assoc]
      by_cases h1 : (s : Int) ∈ d
      · rw [if_pos ((hM s hs).mpr h1), wrIChk_ok _ s _ (by rw [hlen2]; exact hs), hw,
          if_pos h1]
        simp [h1]
      · rw [if_neg (fun hc => h1 ((hM s hs).mp hc)), drop_eq_rdI_cons M s hs, if_neg h1]
        simp [h1]
    rw [forCountM]
    try dsimp only
    rw [Int.zero_add, hbody]
    exact numberVert_loop M d hM n (s + 1) (by omega)

/-- The loop of `GetVertexLocalToGlobal` from vertex `s` on, for an array `activeVert`
whose non-negative entries are distinct and below the length `n` of `lvert_vert`: the
entry `activeVert[v]` of the result is `v` for every vertex `v` with
`activeVert[v] ≥ 0`. -/
theorem localVert_loop (ext : NURBSExtension) (n : Nat)
    (hA : ∀ v : Nat, v < ext.activeVert.length → 0 ≤ rdI ext.activeVert (v : Int) →
      rdI ext.activeVert (v : Int) < (n : Int))
    (hinj : ∀ v w : Nat, v < ext.activeVert.length → w < ext.activeVert.length →
      0 ≤ rdI ext.activeVert (v : Int) →
      rdI ext.activeVert (v : Int) = rdI ext.activeVert (w : Int) → v = w) :
    ∀ (k s : Nat) (lv : List Int), s + k = ext.activeVert.length → lv.length = n →
      (∀ v : Nat, v < s → 0 ≤ rdI ext.activeVert (v : Int) →
        rdI lv (rdI ext.activeVert (v : Int)) = (v : Int)) →
      ∃ out, forCountM (fun st (i : Nat) => ext.localVert st (0 + (i : Int))) k s lv =
          .ok out ∧ out.length = n ∧
        ∀ v : Nat, v < ext.activeVert.length → 0 ≤ rdI ext.activeVert (v : Int) →
          rdI out (rdI ext.activeVert (v : Int)) = (v : Int)
  | 0, s, lv, hs, hl, hv => ⟨lv, rfl, hl, fun v h => hv v (by omega)⟩
  | k + 1, s, lv, hs, hl, hv => by
    have hsl : s < ext.activeVert.length := by omega
    rw [forCountM]
    unfold localVert
    try dsimp only
    rw [Int.zero_add, rdIChk_ok _ s hsl]
    try dsimp only
    by_cases h0 : rdI ext.activeVert (s : Int) ≥ 0
    · rw [if_pos h0]
      have h1 := hA s hsl h0
      obtain ⟨t, ht, hte⟩ := exists_nat_of_range _ n h0 h1
      rw [hte, wrIChk_ok _ t _ (by omega)]
      exact localVert_loop ext n hA hinj k (s + 1) (lv.set t (s : Int)) (by omega)
        (by rw [List.length_set]; exact hl)
        (fun v hvs hv0 => by
          obtain ⟨t', ht', hte'⟩ := exists_nat_of_range _ n hv0 (hA v (by omega) hv0)
          rw [hte', rdI_set]
          by_cases hvs' : v = s
          · subst hvs'
            rw [if_pos ⟨by omega, by omega⟩]
          · rw [if_neg, ← hte']
            · exact hv v (by omega) hv0
            · intro hc
              exact hvs' (hinj v s (by omega) hsl hv0 (by rw [hte, hte', hc.1])))
    · rw [if_neg h0]
      exact localVert_loop ext n hA hinj k (s + 1) lv (by omega) hl
        (fun v hvs hv0 => by
          by_cases hvs' : v = s
          · subst hvs'
            exact absurd hv0 h0
          · exact hv v (by omega) hv0)

/-- The number of set flags among the first `n`. -/
theorem filter_range_flags (act : List Bool) : ∀ n : Nat, n ≤ act.length →
    ((List.range n).filter (fun (g : Nat) => act.getD g false)).length =
      (act.take n).count true
  | 0, _ => rfl
  | n + 1, h => by
    have hn : n < act.length := by omega
    rw [List.range_succ, List.filter_append, List.length_append,
      filter_range_flags act n (by omega), List.take_succ, List.getElem?_eq_getElem hn,
      List.count_append, List.filter_cons, List.filter_nil]
    have hg : act.getD n false = act[n] := List.getD_eq_getElem _ _ hn
    rw [hg]
    cases act[n] <;> simp

theorem filter_range_mono (P : Nat → Bool) (a : Nat) : ∀ b : Nat, a ≤ b →
    ((List.range a).filter P).length ≤ ((List.range b).filter P).length := by
  intro b hab
  induction b with
  | zero =>
    have : a = 0 := by omega
    subst this
    exact le_refl _
  | succ n ih =>
    by_cases h : a = n + 1
    · subst h
      exact le_refl _
    · rw [List.range_succ, List.filter_append, List.length_append]
      have := ih (by omega)
      omega

/-- The loop of `GetElementLocalToGlobal` from element `s` on, when `lelem_elem` has one
entry for every set flag of `activeElem`: the result is the list of the elements whose
flag is set, in increasing order. -/
theorem localElem_loop (ext : NURBSExtension) (n : Nat)
    (hn : ext.activeElem.count true = n) :
    ∀ (k s : Nat) (out : List Int), s + k = ext.activeElem.length → out.length = n →
      out.take ((List.range s).filter (fun (g : Nat) => ext.activeElem.getD g false)).length =
        ((List.range s).filter (fun (g : Nat) => ext.activeElem.getD g false)).map
          (fun (g : Nat) => (g : Int)) →
      ∃ out', forCountM (fun st (i : Nat) => ext.localElem st (0 + (i : Int))) k s
          (out, ((((List.range s).filter
            (fun (g : Nat) => ext.activeElem.getD g false)).length : Nat) : Int)) =
          .ok (out', (n : Int)) ∧
        out' = ((List.range ext.activeElem.length).filter
          (fun (g : Nat) => ext.activeElem.getD g false)).map (fun (g : Nat) => (g : Int))
  | 0, s, out, hs, hl, ht => by
    have hsl : s = ext.activeElem.length := by omega
    subst hsl
    have hc := filter_range_flags ext.activeElem ext.activeElem.length (le_refl _)
    rw [List.take_length, hn] at hc
    rw [hc] at ht ⊢
    rw [← hl, List.take_length] at ht
    exact ⟨out, rfl, ht⟩
  | k + 1, s, out, hs, hl, ht => by
    have hsl : s < ext.activeElem.length := by omega
    rw [forCountM]
    unfold localElem
    try dsimp only
    rw [Int.zero_add, activeElemAt_ok ext s hsl]
    try dsimp only
    have hsucc : (List.range (s + 1)).filter (fun (g : Nat) => ext.activeElem.getD g false) =
        (List.range s).filter (fun (g : Nat) => ext.activeElem.getD g false) ++
          (if ext.activeElem.getD s false then [s] else []) := by
      rw [List.range_succ, List.filter_append, List.filter_cons, List.filter_nil]
    cases hb : ext.activeElem.getD s false
    · rw [hb] at hsucc
      simp only [Bool.false_eq_true, if_false, List.append_nil] at hsucc ⊢
      have := localElem_loop ext n hn k (s + 1) out (by omega) hl (by rw [hsucc]; exact ht)
      rw [hsucc] at this
      exact this
    · rw [hb] at hsucc
      simp only [if_true] at hsucc ⊢
      have hlt : ((List.range s).filter (fun (g : Nat) => ext.activeElem.getD g false)).length
          < n := by
        have h1 := filter_range_mono (fun (g : Nat) => ext.activeElem.getD g false) (s + 1)
          ext.activeElem.length (by omega)
        have h2 := filter_range_flags ext.activeElem ext.activeElem.length (le_refl _)
        rw [List.take_length, hn] at h2
        rw [hsucc, List.length_append, List.length_singleton, h2] at h1
        omega
      rw [wrIChk_ok _ _ _ (by omega)]
      try dsimp only
      have := localElem_loop ext n hn k (s + 1)
        (out.set ((List.range s).filter (fun (g : Nat) => ext.activeElem.getD g false)).length
          (s : Int)) (by omega) (by rw [List.length_set]; exact hl)
        (by
          rw [hsucc, List.length_append, List.length_singleton, List.map_append, ← ht,
            List.take_succ, List.set_take,
            List.set_eq_of_length_le (by rw [List.length_take]; omega)]
          rw [List.getElem?_set_self (by omega)]
          rfl)
      rw [hsucc, List.length_append, List.length_singleton] at this
      rw [show ((((List.range s).filter
          (fun (g : Nat) => ext.activeElem.getD g false)).length : Nat) : Int) + 1 =
        (((((List.range s).filter
          (fun (g : Nat) => ext.activeElem.getD g false)).length + 1 : Nat)) : Int) by
        push_cast; rfl]
      exact this

end NURBSExtension

namespace NURBSExtension

/-- What `GenerateActiveVertices` returns when `activeElem` has a flag for every element
and the touched vertices are below `N = GetGNV()`. -/
theorem generateActiveVertices_eq (ops : PatchMapOps) (ext : NURBSExtension) (N : Nat)
    (hN : ext.NumOfVertices = (N : Int))
    (hact : (allElemVerts ops ext).length ≤ ext.activeElem.length)
    (hrange : ∀ v ∈ touchedVerts ops ext, 0 ≤ v ∧ v < (N : Int)) :
    GenerateActiveVertices ops ext =
      .ok { ext with
            activeVert := (List.range N).map
              (fun (v : Nat) => if (v : Int) ∈ touchedVerts ops ext then
                (((List.range v).countP
                  (fun (u : Nat) => decide ((u : Int) ∈ touchedVerts ops ext)) : Nat) : Int)
                else -1)
            NumOfActiveVertices := (((List.range N).countP
              (fun (u : Nat) => decide ((u : Int) ∈ touchedVerts ops ext)) : Nat) : Int) } := by
  obtain ⟨M, m1, m2, m3⟩ := markActiveVertices_spec ops ext N hN hact hrange
  have hM : ∀ u : Nat, u < M.length →
      (rdI M (u : Int) = 1 ↔ (u : Int) ∈ touchedVerts ops ext) := by
    intro u hu
    rw [m3 u (by omega)]
    by_cases h : (u : Int) ∈ touchedVerts ops ext
    · simp [h]
    · simp [h]
  have hloop := numberVert_loop M (touchedVerts ops ext) hM M.length 0 (by omega)
  rw [show (List.range 0).map
      (fun (v : Nat) => if (v : Int) ∈ touchedVerts ops ext then
        (((List.range v).countP
          (fun (u : Nat) => decide ((u : Int) ∈ touchedVerts ops ext)) : Nat) : Int)
        else rdI M (v : Int)) ++ M.drop 0 = M from rfl, m2] at hloop
  have hmap : (List.range N).map
      (fun (v : Nat) => if (v : Int) ∈ touchedVerts ops ext then
        (((List.range v).countP
          (fun (u : Nat) => decide ((u : Int) ∈ touchedVerts ops ext)) : Nat) : Int)
        else rdI M (v : Int)) =
      (List.range N).map
      (fun (v : Nat) => if (v : Int) ∈ touchedVerts ops ext then
        (((List.range v).countP
          (fun (u : Nat) => decide ((u : Int) ∈ touchedVerts ops ext)) : Nat) : Int)
        else -1) := by
    apply List.map_congr_left
    intro v hv
    by_cases h : (v : Int) ∈ touchedVerts ops ext
    · rw [if_pos h, if_pos h]
    · rw [if_neg h, if_neg h, m3 v (List.mem_range.mp hv), if_neg h]
  rw [hmap] at hloop
  unfold GenerateActiveVertices forLoopIntM GetGNV
  rw [m1]
  dsimp only
  rw [hN, Int.sub_zero, Int.toNat_ofNat]
  have h0 : ((((List.range 0).countP
      (fun (u : Nat) => decide ((u : Int) ∈ touchedVerts ops ext)) : Nat) : Int)) = 0 := rfl
  rw [h0] at hloop
  rw [hloop]

/-- The array of ranks of the vertices of a list `T` of numbers below `N`: every vertex of
`T` has its rank, the others `-1`; the ranks are the numbers below the number of vertices
of `T`, each the rank of one vertex. -/
theorem rankArray_spec (T : List Int) (N : Nat) (hT : ∀ v ∈ T, 0 ≤ v ∧ v < (N : Int))
    (A : List Int)
    (hA : A = (List.range N).map
      (fun (v : Nat) => if (v : Int) ∈ T then
        (((List.range v).countP (fun (u : Nat) => decide ((u : Int) ∈ T)) : Nat) : Int)
        else -1)) :
    A.length = N ∧
    (∀ v : Nat, v < N → (v : Int) ∉ T → rdI A (v : Int) = -1) ∧
    (∀ v : Nat, (v : Int) ∈ T →
      rdI A (v : Int) =
        (((List.range v).countP (fun (u : Nat) => decide ((u : Int) ∈ T)) : Nat) : Int)) ∧
    (∀ l : Nat, l < (List.range N).countP (fun (u : Nat) => decide ((u : Int) ∈ T)) →
      ∃ v : Nat, (v : Int) ∈ T ∧ rdI A (v : Int) = (l : Int)) ∧
    (∀ v w : Nat, (v : Int) ∈ T → (w : Int) ∈ T → rdI A (v : Int) = rdI A (w : Int) →
      v = w) ∧
    (∀ v : Nat, (v : Int) ∈ T →
      (List.range v).countP (fun (u : Nat) => decide ((u : Int) ∈ T)) <
        (List.range N).countP (fun (u : Nat) => decide ((u : Int) ∈ T))) := by
  have hlt : ∀ v : Nat, (v : Int) ∈ T → v < N := fun v hv => by
    have := (hT _ hv).2
    omega
  have hin : ∀ v : Nat, (v : Int) ∈ T →
      rdI A (v : Int) =
        (((List.range v).countP (fun (u : Nat) => decide ((u : Int) ∈ T)) : Nat) : Int) := by
    intro v hv
    rw [hA, rdI_map_range _ N v (hlt v hv), if_pos hv]
  refine ⟨by rw [hA]; simp, ?_, hin, ?_, ?_, ?_⟩
  · intro v hv hn
    rw [hA, rdI_map_range _ N v hv, if_neg hn]
  · intro l hl
    obtain ⟨v, h1, h2, h3⟩ := rank_surj T N l hl
    exact ⟨v, h2, by rw [hin v h2, h3]⟩
  · intro v w hv hw h
    rw [hin v hv, hin w hw] at h
    have h' : (List.range v).countP (fun (u : Nat) => decide ((u : Int) ∈ T)) =
        (List.range w).countP (fun (u : Nat) => decide ((u : Int) ∈ T)) := by
      exact_mod_cast h
    rcases Nat.lt_trichotomy v w with c | c | c
    · have := rank_lt T v w c hv
      omega
    · exact c
    · have := rank_lt T w v c hw
      omega
  · intro v hv
    exact rank_lt T v N (hlt v hv) hv

/-- `GetVertexLocalToGlobal` on an extension whose `activeVert` is the array of ranks of
the vertices of `T` and whose `NumOfActiveVertices` is their number: the result has
`NumOfActiveVertices` entries and `activeVert[lvert_vert[l]] = l` for each of them. -/
theorem getVertexLocalToGlobal_spec (e : NURBSExtension) (T : List Int) (N : Nat)
    (hT : ∀ v ∈ T, 0 ≤ v ∧ v < (N : Int)) (hN : e.NumOfVertices = (N : Int))
    (hA : e.activeVert = (List.range N).map
      (fun (v : Nat) => if (v : Int) ∈ T then
        (((List.range v).countP (fun (u : Nat) => decide ((u : Int) ∈ T)) : Nat) : Int)
        else -1))
    (hnav : e.NumOfActiveVertices =
      (((List.range N).countP (fun (u : Nat) => decide ((u : Int) ∈ T)) : Nat) : Int))
    (lv : List Int) :
    ∃ out, GetVertexLocalToGlobal e lv = .ok out ∧
      (out.length : Int) = e.NumOfActiveVertices ∧
      ∀ l : Nat, (l : Int) < e.NumOfActiveVertices →
        rdI e.activeVert (rdI out (l : Int)) = (l : Int) := by
  obtain ⟨a1, a2, a3, a4, a5, a6⟩ := rankArray_spec T N hT e.activeVert hA
  have hmem : ∀ v : Nat, v < N → 0 ≤ rdI e.activeVert (v : Int) → (v : Int) ∈ T := by
    intro v hv h0
    by_contra hc
    rw [a2 v hv hc] at h0
    omega
  obtain ⟨out, o1, o2, o3⟩ := localVert_loop e
    ((List.range N).countP (fun (u : Nat) => decide ((u : Int) ∈ T)))
    (fun v hv h0 => by
      rw [a1] at hv
      have hm := hmem v hv h0
      rw [a3 v hm]
      exact_mod_cast a6 v hm)
    (fun v w hv hw h0 h => by
      rw [a1] at hv hw
      exact a5 v w (hmem v hv h0) (hmem w hw (by rw [← h]; exact h0)) h)
    e.activeVert.length 0 (setSizeI lv e.GetNV) (by omega)
    (by
      unfold GetNV
      rw [hnav, length_setSizeI])
    (fun v hv => by omega)
  refine ⟨out, ?_, by rw [o2, hnav], ?_⟩
  · unfold GetVertexLocalToGlobal forLoopIntM GetGNV
    rw [hN, Int.sub_zero, Int.toNat_ofNat]
    rw [a1] at o1
    exact o1
  · intro l hl
    rw [hnav] at hl
    obtain ⟨v, h1, h2⟩ := a4 l (by exact_mod_cast hl)
    have hv : v < N := by
      have := (hT _ h1).2
      omega
    have := o3 v (by rw [a1]; exact hv) (by rw [h2]; omega)
    rw [h2] at this
    rw [this, h2]

/-- `GetElementLocalToGlobal` when `activeElem` has `NumOfElements` flags of which
`NumOfActiveElems` are set: the result is the strictly increasing list of the elements
whose flag is set. -/
theorem getElementLocalToGlobal_spec (ext : NURBSExtension)
    (hE : ext.NumOfElements = (ext.activeElem.length : Int))
    (hA : ext.NumOfActiveElems = (ext.activeElem.count true : Int)) (le : List Int) :
    ∃ out, GetElementLocalToGlobal ext le = .ok out ∧ out.Pairwise (· < ·) ∧
      (out.length : Int) = ext.NumOfActiveElems ∧
      ∀ g : Int, g ∈ out ↔
        0 ≤ g ∧ g < ext.NumOfElements ∧ ext.activeElem.getD g.toNat false = true := by
  obtain ⟨out, o1, o2⟩ := localElem_loop ext (ext.activeElem.count true) rfl
    ext.activeElem.length 0 (setSizeI le ext.GetNE) (by omega)
    (by
      unfold GetNE
      rw [hA, length_setSizeI])
    rfl
  refine ⟨out, ?_, ?_, ?_, ?_⟩
  · unfold GetElementLocalToGlobal forLoopIntM GetGNE
    rw [hE, Int.sub_zero, Int.toNat_ofNat]
    have h0 : (((((List.range 0).filter
        (fun (g : Nat) => ext.activeElem.getD g false)).length : Nat) : Int)) = 0 := rfl
    rw [h0] at o1
    rw [o1]
  · rw [o2]
    refine List.Pairwise.map _ (fun a b hab => ?_) (List.Pairwise.filter _ (List.pairwise_lt_range _))
    exact_mod_cast hab
  · have hc := filter_range_flags ext.activeElem ext.activeElem.length (le_refl _)
    rw [List.take_length] at hc
    rw [o2, List.length_map, hc, hA]
  · intro g
    rw [o2, List.mem_map, hE]
    constructor
    · rintro ⟨n, hn, rfl⟩
      rw [List.mem_filter, List.mem_range] at hn
      exact ⟨by omega, by omega, by rw [Int.toNat_ofNat]; exact hn.2⟩
    · rintro ⟨h0, h1, h2⟩
      refine ⟨g.toNat, ?_, by omega⟩
      rw [List.mem_filter, List.mem_range]
      exact ⟨by omega, h2⟩

end NURBSExtension

namespace NURBSExtension

/-- C39: when `activeElem` has one flag for each of the `NumOfElements` elements,
`NumOfActiveElems` of them set, and the vertices of the active elements are below
`GetGNV() = N`, `GenerateActiveVertices` returns and changes `activeVert` and
`NumOfActiveVertices` only: `activeVert` has `N` entries, `-1` for every vertex not touched
by an active element and otherwise the rank of the vertex among the touched vertices in
increasing order of the global index; `NumOfActiveVertices` is the number of touched
vertices, every number below it is the value of a touched vertex and no two touched
vertices have the same value; `GetVertexLocalToGlobal` then returns an array of
`NumOfActiveVertices` entries with `activeVert[lvert_vert[l]] = l` for each of them; and
`GetElementLocalToGlobal` returns the strictly increasing list of the `NumOfActiveElems`
global indices of the active elements. -/
theorem generateActiveVertices_spec (ops : PatchMapOps) (ext : NURBSExtension) (N : Nat)
    (hN : ext.NumOfVertices = (N : Int))
    (hact : (allElemVerts ops ext).length ≤ ext.activeElem.length)
    (hrange : ∀ v ∈ touchedVerts ops ext, 0 ≤ v ∧ v < (N : Int))
    (hE : ext.NumOfElements = (ext.activeElem.length : Int))
    (hA : ext.NumOfActiveElems = (ext.activeElem.count true : Int)) :
    (∃ e, GenerateActiveVertices ops ext = .ok e ∧
      e = { ext with activeVert := e.activeVert,
                     NumOfActiveVertices := e.NumOfActiveVertices } ∧
      e.activeVert.length = N ∧
      (∀ v : Nat, v < N → (v : Int) ∉ touchedVerts ops ext → rdI e.activeVert (v : Int) = -1) ∧
      (∀ v : Nat, (v : Int) ∈ touchedVerts ops ext →
        rdI e.activeVert (v : Int) = (rankIn (touchedVerts ops ext) v : Int)) ∧
      e.NumOfActiveVertices = (rankIn (touchedVerts ops ext) N : Int) ∧
      (∀ l : Nat, (l : Int) < e.NumOfActiveVertices →
        ∃ v : Nat, (v : Int) ∈ touchedVerts ops ext ∧ rdI e.activeVert (v : Int) = (l : Int)) ∧
      (∀ v w : Nat, (v : Int) ∈ touchedVerts ops ext → (w : Int) ∈ touchedVerts ops ext →
        rdI e.activeVert (v : Int) = rdI e.activeVert (w : Int) → v = w) ∧
      (∀ lvert_vert : List Int, ∃ out, GetVertexLocalToGlobal e lvert_vert = .ok out ∧
        (out.length : Int) = e.NumOfActiveVertices ∧
        ∀ l : Nat, (l : Int) < e.NumOfActiveVertices →
          rdI e.activeVert (rdI out (l : Int)) = (l : Int))) ∧
    (∀ lelem_elem : List Int, ∃ out, GetElementLocalToGlobal ext lelem_elem = .ok out ∧
      out.Pairwise (· < ·) ∧ (out.length : Int) = ext.NumOfActiveElems ∧
      ∀ g : Int, g ∈ out ↔
        0 ≤ g ∧ g < ext.NumOfElements ∧ ext.activeElem.getD g.toNat false = true) := by
  obtain ⟨a1, a2, a3, a4, a5, _⟩ := rankArray_spec (touchedVerts ops ext) N hrange _ rfl
  refine ⟨⟨_, generateActiveVertices_eq ops ext N hN hact hrange, rfl, a1, a2, a3, rfl,
    fun l hl => a4 l (by
      have hl' : (l : Int) < (((List.range N).countP
          (fun (u : Nat) => decide ((u : Int) ∈ touchedVerts ops ext)) : Nat) : Int) := hl
      exact_mod_cast hl'), a5, fun lv => ?_⟩,
    fun le => getElementLocalToGlobal_spec ext hE hA le⟩
  refine getVertexLocalToGlobal_spec _ (touchedVerts ops ext) N hrange ?_ ?_ ?_ lv
  · exact hN
  · rfl
  · rfl

/-- C39, witness: the two patches `exActive` with the elements `1` and `2` active, whose
vertices are `3, 1, 1, 2`: `activeVert` becomes `[-1, 0, 1, 2]`. -/
theorem generateActiveVertices_spec_witness :
    GenerateActiveVertices exOps exActive =
      .ok { exActive with activeVert := [-1, 0, 1, 2], NumOfActiveVertices := 3 } ∧
    touchedVerts exOps exActive = [3, 1, 1, 2] ∧
    (∃ e, GenerateActiveVertices exOps exActive = .ok e ∧
      e = { exActive with activeVert := e.activeVert,
                          NumOfActiveVertices := e.NumOfActiveVertices } ∧
      e.activeVert.length = 4 ∧
      (∀ v : Nat, v < 4 → (v : Int) ∉ touchedVerts exOps exActive →
        rdI e.activeVert (v : Int) = -1) ∧
      (∀ v : Nat, (v : Int) ∈ touchedVerts exOps exActive →
        rdI e.activeVert (v : Int) = (rankIn (touchedVerts exOps exActive) v : Int)) ∧
      e.NumOfActiveVertices = (rankIn (touchedVerts exOps exActive) 4 : Int) ∧
      (∀ l : Nat, (l : Int) < e.NumOfActiveVertices →
        ∃ v : Nat, (v : Int) ∈ touchedVerts exOps exActive ∧
          rdI e.activeVert (v : Int) = (l : Int)) ∧
      (∀ v w : Nat, (v : Int) ∈ touchedVerts exOps exActive →
        (w : Int) ∈ touchedVerts exOps exActive →
        rdI e.activeVert (v : Int) = rdI e.activeVert (w : Int) → v = w) ∧
      (∀ lvert_vert : List Int, ∃ out, GetVertexLocalToGlobal e lvert_vert = .ok out ∧
        (out.length : Int) = e.NumOfActiveVertices ∧
        ∀ l : Nat, (l : Int) < e.NumOfActiveVertices →
          rdI e.activeVert (rdI out (l : Int)) = (l : Int))) ∧
    (∀ lelem_elem : List Int, ∃ out, GetElementLocalToGlobal exActive lelem_elem = .ok out ∧
      out.Pairwise (· < ·) ∧ (out.length : Int) = exActive.NumOfActiveElems ∧
      ∀ g : Int, g ∈ out ↔
        0 ≤ g ∧ g < exActive.NumOfElements ∧
          exActive.activeElem.getD g.toNat false = true) :=
  ⟨rfl, by decide,
    generateActiveVertices_spec exOps exActive 4 (by decide) (by decide) (by decide)
      (by decide) (by decide)⟩

end NURBSExtension

/-! ### Exact and rounded arithmetic -/

namespace KnotVector

/-- With the identity as rounding, `FlipFl` is `Flip`. -/
theorem FlipFl_id (kv : KnotVector) : FlipFl id kv = kv.Flip := rfl

/-- With the identity as rounding, `CalcShapeFl` is `CalcShape`. -/
theorem CalcShapeFl_id (debug : Bool) (kv : KnotVector) (shape : List ℚ) (i : Int) (xi : ℚ) :
    CalcShapeFl id debug kv shape i xi = CalcShape debug kv shape i xi := rfl

/-- With the identity as rounding, `CalcDShapeFl` is `CalcDShape`. -/
theorem CalcDShapeFl_id (debug : Bool) (kv : KnotVector) (grad : List ℚ) (i : Int) (xi : ℚ) :
    CalcDShapeFl id debug kv grad i xi = CalcDShape debug kv grad i xi := rfl

/-- With the identity as rounding, `CalcDnShapeFl` is `CalcDnShape`. -/
theorem CalcDnShapeFl_id (debug : Bool) (kv : KnotVector) (gradn : List ℚ) (n i : Int)
    (xi : ℚ) : CalcDnShapeFl id debug kv gradn n i xi = CalcDnShape debug kv gradn n i xi :=
  rfl

/-- C35 (as claimed, refuted): in IEEE double arithmetic `CalcDnShape(gradn, 1, i, xi)` and
`CalcDShape(grad, i, xi)` write different values.  On the knots `[0,0,0,3,3,3]` of order
`2 ≤ MaxOrder`, span `i = 0` (`knot(2) = 0 < 3 = knot(3)`) and `xi = 0.2` (the `double`
nearest to `1/5`), `CalcDShape` writes `-1.6`, `1.2000000000000002`, `0.4` and
`CalcDnShape` writes `-1.5999999999999996`, `1.1999999999999997`, `0.4`: `CalcDShape`
divides `ndu[rk][pk]/ndu[p][rk]`, `CalcDnShape` multiplies `ndu[rk][pk]` by the rounded
quotient `1/ndu[p][rk]`. -/
theorem calcDnShape_first_rounded :
    1 ≤ exBezierThree.Order ∧ exBezierThree.Order ≤ MaxOrder ∧
    exBezierThree.nth (0 + exBezierThree.Order) <
      exBezierThree.nth (0 + exBezierThree.Order + 1) ∧
    CalcDShapeFl binary64 false exBezierThree [0, 0, 0] 0 (binary64 (1 / 5)) =
      .ok (CalcDShapeCoreFl binary64 exBezierThree [0, 0, 0] 0 (binary64 (1 / 5))) ∧
    CalcDShapeCoreFl binary64 exBezierThree [0, 0, 0] 0 (binary64 (1 / 5)) =
      [-3602879701896397 / 2251799813685248, 1351079888211149 / 1125899906842624,
        3602879701896397 / 9007199254740992] ∧
    CalcDnShapeFl binary64 false exBezierThree [0, 0, 0] 1 0 (binary64 (1 / 5)) =
      .ok (CalcDnShapeCoreFl binary64 exBezierThree [0, 0, 0] 1 0 (binary64 (1 / 5))) ∧
    CalcDnShapeCoreFl binary64 exBezierThree [0, 0, 0] 1 0 (binary64 (1 / 5)) =
      [-900719925474099 / 562949953421312, 2702159776422297 / 2251799813685248,
        3602879701896397 / 9007199254740992] ∧
    (-3602879701896397 / 2251799813685248 : ℚ) ≠ -900719925474099 / 562949953421312 ∧
    (1351079888211149 / 1125899906842624 : ℚ) ≠ 2702159776422297 / 2251799813685248 :=
  ⟨by decide, by decide, by decide!, rfl, by decide!, rfl, by decide!, by norm_num,
    by norm_num⟩

end KnotVector

namespace NURBSPatch

/-- With the identity as rounding, `FlipDirectionFl` is `FlipDirection`. -/
theorem FlipDirectionFl_id (slice : NURBSPatch → Int → Int → Int) (p : NURBSPatch)
    (dir : Int) : FlipDirectionFl id slice p dir = FlipDirection slice p dir := rfl

/-- The rounding only enters the knot vector: all other fields of the result of
`FlipDirectionFl`, among them the control points, are those of `FlipDirection`. -/
theorem FlipDirectionFl_data (fl : ℚ → ℚ) (slice : NURBSPatch → Int → Int → Int)
    (p : NURBSPatch) (dir : Int) :
    (∀ e, FlipDirectionFl fl slice p dir = .error e ↔ FlipDirection slice p dir = .error e) ∧
    ∀ q r, FlipDirectionFl fl slice p dir = .ok q → FlipDirection slice p dir = .ok r →
      q = { r with kv := q.kv } := by
  unfold FlipDirectionFl FlipDirection
  cases SetLoopDirection p dir with
  | error e => exact ⟨fun _ => Iff.rfl, fun q r h => by cases h⟩
  | ok ps =>
    obtain ⟨p1, size⟩ := ps
    dsimp only
    cases p1.kv[dir.toNat]? with
    | none => exact ⟨fun _ => Iff.rfl, fun q r h => by cases h⟩
    | some k =>
      refine ⟨fun e => ⟨fun h => (by cases h), fun h => (by cases h)⟩, fun q r hq hr => ?_⟩
      cases hq
      cases hr
      rfl

/-- C27 (as claimed, refuted): in IEEE double arithmetic `FlipDirection` applied twice does
not restore the knots exactly.  On the curve with the control points `5, 6, 7` and the
knots `[0, 0, 0.1, 1, 1]` of order 1, the first `FlipDirection(0)` gives the control
points `7, 6, 5` and the interior knot `1 - 0.1 = 0.9`, the second one restores the
control points and gives the interior knot `1 - 0.9 = 0.09999999999999998`, which is not
the `double` `0.1`. -/
theorem flipDirection_twice_rounded :
    exTenthCurve.kv.map KnotVector.knot =
      [[0, 0, 3602879701896397 / 36028797018963968, 1, 1]] ∧
    ∃ q q2 : NURBSPatch,
      FlipDirectionFl binary64 slice exTenthCurve 0 = .ok q ∧
      FlipDirectionFl binary64 slice q 0 = .ok q2 ∧
      q.data = [7, 6, 5] ∧
      q.kv.map KnotVector.knot = [[0, 0, 8106479329266893 / 9007199254740992, 1, 1]] ∧
      q2.data = exTenthCurve.data ∧
      q2.kv.map KnotVector.knot = [[0, 0, 900719925474099 / 9007199254740992, 1, 1]] ∧
      q2.kv ≠ exTenthCurve.kv :=
  ⟨by decide!, _, _, by with_unfolding_all rfl, by with_unfolding_all rfl, by decide!,
    by decide!, by decide!, by decide!, by decide!⟩

end NURBSPatch

end mfem
